import Mathlib

/-!
# LogicDriverLite: runtime graph assembly and path identity

A shallow embedding of `USMUtils` (`Source/SMSystem/Private/SMUtils.cpp`) and of
`FSMNode_Base` (`Source/SMSystem/Private/Nodes/SMNode_Base.cpp`).

Conventions.
* `FGuid` and `UClass` are engine values of which the code only uses equality
  (and, for `FGuid`, the engine's `ToString`, taken as a parameter `GuidToString`).
* `TMap` is an association list with unique keys in insertion order.
* `FString` is `String`; `int32` occurrence counts are `Int` (a count is bounded by the
  number of calls made on one map, and signed overflow is undefined in the source).
-/

namespace SM

/-! ## Engine containers -/

/-- Engine `TMap`: association list, first match wins, keys kept unique by `Add`. -/
abbrev TMap (κ ν : Type) := List (κ × ν)

namespace TMap

variable {κ ν : Type} [DecidableEq κ]

/-- `TMap::Find`: the value stored for the key, if any. -/
def Find : TMap κ ν → κ → Option ν
  | [], _ => none
  | (k', v) :: m, k => if k' = k then some v else Find m k

/-- `TMap::Contains`. -/
def Contains (m : TMap κ ν) (k : κ) : Bool := (Find m k).isSome

/-- `TMap::Add` (also `operator[]` assignment): overwrite the key or append it. -/
def Add : TMap κ ν → κ → ν → TMap κ ν
  | [], k, v => [(k, v)]
  | (k', v') :: m, k, v => if k' = k then (k, v) :: m else (k', v') :: Add m k v

/-- `TMap::Remove`. -/
def Remove : TMap κ ν → κ → TMap κ ν
  | [], _ => []
  | (k', v') :: m, k => if k' = k then Remove m k else (k', v') :: Remove m k

/-- `TMap::FindOrAdd`: the stored value, or the default value after inserting it. -/
def FindOrAdd (m : TMap κ ν) (k : κ) (dflt : ν) : ν × TMap κ ν :=
  match Find m k with
  | some v => (v, m)
  | none => (dflt, Add m k dflt)

end TMap

/-! ## Identity and path hashing -/

/-- Engine `FGuid`; only equality and `ToString` are used. -/
abbrev FGuid := Nat

/-- Engine `USMInstance*` identity. -/
abbrev InstId := Nat

/-- The part of `FSMNode_Base` that path building reads: the structural GUID, the owning
instance and the owner-node pointer (`nullptr` for `root`). -/
inductive FSMNode_Base where
  | root (Guid : FGuid) (OwningInstance : Option InstId)
  | child (Guid : FGuid) (OwningInstance : Option InstId) (OwnerNode : FSMNode_Base)
  deriving DecidableEq, Repr

namespace FSMNode_Base

/-- `FSMNode_Base::GetNodeGuid`. -/
def GetNodeGuid : FSMNode_Base → FGuid
  | root g _ => g
  | child g _ _ => g

/-- `FSMNode_Base::GetOwningInstance`. -/
def GetOwningInstance : FSMNode_Base → Option InstId
  | root _ i => i
  | child _ i _ => i

/-- `FSMNode_Base::GetOwnerNode`. -/
def GetOwnerNode : FSMNode_Base → Option FSMNode_Base
  | root _ _ => none
  | child _ _ o => some o

end FSMNode_Base

/-- Engine `FString::FromInt`: decimal rendering, with a minus sign for negatives. -/
def FromInt (n : Int) : String :=
  if n < 0 then "-" ++ String.mk (Nat.toDigits 10 n.natAbs) else String.mk (Nat.toDigits 10 n.natAbs)

/-- The loop of `USMUtils::TryGetAllOwners`: walk the owner pointers, appending every node
that passes the instance filter. -/
def TryGetAllOwners.loop (LimitToInstance : Option InstId) :
    FSMNode_Base → List FSMNode_Base → List FSMNode_Base
  | CurrentNode, OwnersOrdered =>
    let skip : Bool :=
      match LimitToInstance with
      | some lim => decide (CurrentNode.GetOwningInstance ≠ some lim)
      | none => false
    let OwnersOrdered := if skip then OwnersOrdered else OwnersOrdered ++ [CurrentNode]
    match CurrentNode with
    | .root _ _ => OwnersOrdered
    | .child _ _ o => TryGetAllOwners.loop LimitToInstance o OwnersOrdered

/-- `USMUtils::TryGetAllOwners(Node, OwnersOrdered, LimitToInstance)`; a null `Node` is
`none`. The whole output array is reversed at the end. -/
def TryGetAllOwners (Node : Option FSMNode_Base) (OwnersOrdered : List FSMNode_Base)
    (LimitToInstance : Option InstId) : List FSMNode_Base :=
  match Node with
  | none => OwnersOrdered.reverse
  | some n => (TryGetAllOwners.loop LimitToInstance n OwnersOrdered).reverse

/-- The first loop of `BuildGuidPathFromNodes` together with the statement after it:
every node but the last contributes its GUID string and a slash, the last one its GUID
string only. -/
def BuildGuidPathFromNodes.join (GuidToString : FGuid → String) : List FSMNode_Base → String
  | [] => ""
  | [n] => GuidToString n.GetNodeGuid
  | n :: m :: rest =>
    GuidToString n.GetNodeGuid ++ "/" ++ BuildGuidPathFromNodes.join GuidToString (m :: rest)

/-- `USMUtils::BuildGuidPathFromNodes(Nodes, MappedPaths)`; `MappedPaths` is `none` for a
null pointer. Returns the path and the map after the call. -/
def BuildGuidPathFromNodes (GuidToString : FGuid → String) (Nodes : List FSMNode_Base)
    (MappedPaths : Option (TMap String Int)) : String × Option (TMap String Int) :=
  let Path := BuildGuidPathFromNodes.join GuidToString Nodes
  match MappedPaths with
  | none => (Path, none)
  | some m =>
    let ExistingPaths := (TMap.FindOrAdd m Path 0).1 + 1
    let m := TMap.Add (TMap.FindOrAdd m Path 0).2 Path ExistingPaths
    if ExistingPaths > 1 then (Path ++ ("_" ++ FromInt (ExistingPaths - 1)), some m)
    else (Path, some m)

/-- `FSMNode_Base::GetGuidPath(MappedPaths)`. -/
def GetGuidPath (GuidToString : FGuid → String) (self : FSMNode_Base)
    (MappedPaths : TMap String Int) : String × TMap String Int :=
  let Owners := TryGetAllOwners (some self) [] none
  let r := BuildGuidPathFromNodes GuidToString Owners (some MappedPaths)
  (r.1, r.2.getD MappedPaths)

/-- `FSMNode_Base::CalculatePathGuid(MappedPaths)`: the digest of the path becomes the path
GUID. The digest (`FMD5::HashAnsiString` followed by `FGuid::Parse`) is the engine's and is
a parameter. -/
def CalculatePathGuid (GuidToString : FGuid → String) (PathToGuid : String → FGuid)
    (self : FSMNode_Base) (MappedPaths : TMap String Int) : FGuid × TMap String Int :=
  let r := GetGuidPath GuidToString self MappedPaths
  (PathToGuid r.1, r.2)

/-- A run of `BuildGuidPathFromNodes` calls that share one path-occurrence map: the
returned paths in call order, and the map after the last call. -/
def BuildGuidPaths (GuidToString : FGuid → String) :
    List (List FSMNode_Base) → TMap String Int → List String × TMap String Int
  | [], m => ([], m)
  | Nodes :: rest, m =>
    let r := BuildGuidPathFromNodes GuidToString Nodes (some m)
    let rs := BuildGuidPaths GuidToString rest (r.2.getD m)
    (r.1 :: rs.1, rs.2)

/-! ## Flattened node records and the object world -/

/-- Engine `UClass*` of a state machine class. -/
abbrev UClass := Nat

/-- Engine `FName`; `NAME_None` is `Option.none` where a name is optional. -/
abbrev FName := Nat

/-- The struct type of a node property (`Property->Struct`). -/
inductive EStruct where
  | State
  | Conduit
  | StateMachine
  | Transition
  deriving DecidableEq, Repr

/-- `Struct->IsChildOf(FSMState_Base::StaticStruct())`. -/
def EStruct.IsChildOfState_Base : EStruct → Bool
  | .State => true
  | .Conduit => true
  | .StateMachine => true
  | .Transition => false

/-- `Struct->IsChildOf(FSMStateMachine::StaticStruct())`. -/
def EStruct.IsChildOfStateMachine : EStruct → Bool
  | .StateMachine => true
  | _ => false

/-- `Struct->IsChildOf(FSMTransition::StaticStruct())`. -/
def EStruct.IsChildOfTransition : EStruct → Bool
  | .Transition => true
  | _ => false

/-- The design-time fields of one flattened node record, as `GenerateStateMachine` reads
them: `GetNodeGuid`, `GetOwnerNodeGuid`, `IsRootNode`, the transition's `FromGuid` and
`ToGuid`, and the state machine's `GetClassReference`, `GetReferencedTemplateName` and
`bReuseReference`. -/
structure FSMNode where
  Struct : EStruct
  Guid : FGuid
  OwnerGuid : FGuid
  bIsRootNode : Bool
  FromGuid : FGuid
  ToGuid : FGuid
  ClassReference : Option UClass
  ReferencedTemplateName : Option FName
  bReuseReference : Bool
  deriving DecidableEq, Repr

/-- A `UObject*`: either a `USMInstance` (the cast at the top of the reference branch
succeeds) or some other object. -/
inductive UObjectRef where
  | SMInstance (Id : InstId)
  | Object (Id : Nat)
  deriving DecidableEq, Repr

/-- The address of a node struct: the object that contains it and the property it is the
value of (`none` for the instance's own `RootStateMachine` member). -/
structure NodePtr where
  Container : UObjectRef
  Property : Option Nat
  deriving DecidableEq, Repr

/-- A `FSMStateMachine&`: the address and the design-time fields found there. -/
structure FSMStateMachine where
  Ptr : NodePtr
  Node : FSMNode
  deriving DecidableEq, Repr

/-- A default sub-object of a class; `SMClass` is its class when it is a `USMInstance`
(`Cast<USMInstance>` succeeds) and `none` otherwise. -/
structure UObject where
  SMClass : Option UClass
  deriving DecidableEq, Repr

/-- What the engine's reflection knows about a state machine class: the default
sub-objects by name of the class and of each super class (nearest first, the order in
which `FindTemplateFromInstance` walks `GetSuperClass`), the root GUID and the flattened
node properties in iteration order. -/
structure UClassDef where
  DefaultSubobjects : List (TMap FName UObject)
  RootStateMachineGuid : FGuid
  Properties : List FSMNode
  deriving DecidableEq, Repr

/-- The loaded classes; a `UClass` is an index into the table. -/
abbrev World := List UClassDef

/-- The class definition behind a `UClass*`; a class outside the table has no properties. -/
def World.GetClass (w : World) (c : UClass) : UClassDef :=
  w.getD c { DefaultSubobjects := [], RootStateMachineGuid := 0, Properties := [] }

/-- The fields of a live `USMInstance` that assembly touches. -/
structure USMInstance where
  Class : UClass
  Context : Option Nat
  Template : Option UClass
  ReferenceOwner : Option InstId
  deriving DecidableEq, Repr

/-- `GeneratingStateMachines`, the per-thread bookkeeping of reference resolution. -/
structure GeneratingStateMachines where
  InstancesGenerating : TMap UClass Int
  CreatedReferences : TMap UClass (Option InstId)
  StateMachinesThatNeedReferences : TMap UClass (List FSMStateMachine)
  deriving DecidableEq, Repr

/-- The messages of `LD_LOG_ERROR`, `LD_LOG_WARNING` and failed `ensureAlwaysMsgf`. -/
inductive LogEntry where
  | NoClassProvided
  | TemplateOfWrongClass (Template Expected : UClass)
  | TemplateNotFound (TemplateName : FName) (StateMachine : NodePtr)
  | TemplateClassMismatch (TemplateName : FName) (StateMachine : NodePtr) (Template Expected : UClass)
  | CircularReferencing (Offending : InstId)
  | CouldNotCreateReference (Class : UClass) (StateMachine : NodePtr)
  | ReferenceClassNotFound (Class : UClass)
  | GuidAlreadyAdded (Node : NodePtr) (Guid : FGuid)
  | FromStateNotFound (StateMachine Transition : NodePtr) (Guid : FGuid)
  | ToStateNotFound (StateMachine Transition : NodePtr) (Guid : FGuid)
  | RefCountNotZero (Class : UClass) (Count : Int)
  deriving DecidableEq, Repr

/-- Everything assembly mutates: the live instances (an `InstId` is an index), the static
per-thread map of `GenerateStateMachine`, the run-time fields of the node structs, and the
log. -/
structure Env where
  Instances : List USMInstance
  StateMachinesGeneratingForThread : TMap Nat GeneratingStateMachines
  InstanceReference : TMap NodePtr InstId
  States : TMap NodePtr (List NodePtr)
  EntryStates : TMap NodePtr (List NodePtr)
  Transitions : TMap NodePtr (List NodePtr)
  FromState : TMap NodePtr NodePtr
  ToState : TMap NodePtr NodePtr
  Log : List LogEntry
  deriving DecidableEq, Repr

/-- Append messages to the log. -/
def Env.logAll (env : Env) (l : List LogEntry) : Env := { env with Log := env.Log ++ l }

/-- Append a message to the log. -/
def Env.log (env : Env) (e : LogEntry) : Env := env.logAll [e]

/-- Replace the table of live instances. -/
def Env.setInstances (env : Env) (l : List USMInstance) : Env := { env with Instances := l }

/-- Replace the static per-thread map. -/
def Env.setThreadMap (env : Env) (m : TMap Nat GeneratingStateMachines) : Env :=
  { env with StateMachinesGeneratingForThread := m }

/-- Modelled from the spec: `FSMStateMachine::AddState`, whose body is not among the
sources; the state joins the state machine's contained states. -/
def Env.AddState (env : Env) (sm State : NodePtr) : Env :=
  { env with States := TMap.Add env.States sm ((TMap.Find env.States sm).getD [] ++ [State]) }

/-- Modelled from the spec: `FSMStateMachine::AddInitialState`, whose body is not among the
sources; the state is marked as an initial state of the state machine. -/
def Env.AddInitialState (env : Env) (sm State : NodePtr) : Env :=
  { env with
    EntryStates := TMap.Add env.EntryStates sm ((TMap.Find env.EntryStates sm).getD [] ++ [State]) }

/-- Modelled from the spec: `FSMTransition::SetFromState`, whose body is not among the
sources; the transition's from-state reference is set. -/
def Env.SetFromState (env : Env) (Transition State : NodePtr) : Env :=
  { env with FromState := TMap.Add env.FromState Transition State }

/-- Modelled from the spec: `FSMTransition::SetToState`, whose body is not among the
sources; the transition's to-state reference is set. -/
def Env.SetToState (env : Env) (Transition State : NodePtr) : Env :=
  { env with ToState := TMap.Add env.ToState Transition State }

/-- Modelled from the spec: `FSMStateMachine::AddTransition`, whose body is not among the
sources; the transition joins the state machine's transitions. -/
def Env.AddTransition (env : Env) (sm Transition : NodePtr) : Env :=
  { env with
    Transitions := TMap.Add env.Transitions sm ((TMap.Find env.Transitions sm).getD [] ++ [Transition]) }

/-- Modelled from the spec: `FSMStateMachine::SetInstanceReference`, whose body is not
among the sources; the node delegates to the given instance from now on. -/
def Env.SetInstanceReference (env : Env) (sm : NodePtr) (Reference : InstId) : Env :=
  { env with InstanceReference := TMap.Add env.InstanceReference sm Reference }

/-- The bookkeeping entry behind the reference `CurrentGeneration`. -/
def Env.CurrentGeneration (env : Env) (ThreadId : Nat) : GeneratingStateMachines :=
  (TMap.Find env.StateMachinesGeneratingForThread ThreadId).getD
    { InstancesGenerating := [], CreatedReferences := [], StateMachinesThatNeedReferences := [] }

/-- A write through the reference `CurrentGeneration`. -/
def Env.setCurrentGeneration (env : Env) (ThreadId : Nat) (g : GeneratingStateMachines) : Env :=
  env.setThreadMap (TMap.Add env.StateMachinesGeneratingForThread ThreadId g)

/-- `StateMachinesGeneratingForThread.FindOrAdd(ThreadId)`: the entry of the thread is
created empty when the thread has none. -/
def Env.FindOrAddGeneration (env : Env) (ThreadId : Nat) : Env :=
  env.setThreadMap
    (TMap.FindOrAdd env.StateMachinesGeneratingForThread ThreadId
      { InstancesGenerating := [], CreatedReferences := [], StateMachinesThatNeedReferences := [] }).2

/-- `USMInstance::SetReferenceOwner` on a live instance. -/
def Env.SetReferenceOwner (env : Env) (Instance Owner : InstId) : Env :=
  match env.Instances.get? Instance with
  | some inst => env.setInstances (env.Instances.set Instance { inst with ReferenceOwner := some Owner })
  | none => env

/-- `NewObject<USMInstance>(Context, Class, NAME_None, RF_NoFlags, Template)`: the new
instance is the next one of the table. -/
def Env.NewObject (env : Env) (Class : UClass) (Template : Option UClass) : InstId × Env :=
  (env.Instances.length,
    env.setInstances (env.Instances ++
      [{ Class := Class, Context := none, Template := Template, ReferenceOwner := none }]))

/-! ## `SMUtils.cpp` -/

/-- The class walk of `USMUtils::FindTemplateFromInstance`: the first class, from the
instance's class upwards, that has a default sub-object of the given name. -/
def FindTemplateFromInstance.loop : List (TMap FName UObject) → FName → Option UObject
  | [], _ => none
  | CurrentClass :: SuperClasses, TemplateName =>
    match TMap.Find CurrentClass TemplateName with
    | some FoundTemplate => some FoundTemplate
    | none => FindTemplateFromInstance.loop SuperClasses TemplateName

/-- `USMUtils::FindTemplateFromInstance(Instance, TemplateName)`. -/
def FindTemplateFromInstance (w : World) (env : Env) (Instance : InstId) (TemplateName : FName) :
    Option UObject :=
  match env.Instances.get? Instance with
  | none => none
  | some inst => FindTemplateFromInstance.loop (w.GetClass inst.Class).DefaultSubobjects TemplateName

/-- `USMUtils::FinishStateMachineGeneration(bIsTopLevel, ThreadMap, ThreadId)`; the thread
map is the one in `env`. -/
def FinishStateMachineGeneration (bIsTopLevel : Bool) (env : Env) (ThreadId : Nat) : Bool × Env :=
  if bIsTopLevel then
    let env :=
      match TMap.Find env.StateMachinesGeneratingForThread ThreadId with
      | some Generation =>
        let env : Env :=
          env.logAll
            ((Generation.InstancesGenerating.filter (fun (kv : UClass × Int) => decide (kv.2 ≠ 0))).map
              (fun (kv : UClass × Int) => LogEntry.RefCountNotZero kv.1 kv.2))
        env.setCurrentGeneration ThreadId
          { InstancesGenerating := [], CreatedReferences := [], StateMachinesThatNeedReferences := [] }
      | none => env
    (true, env.setThreadMap (TMap.Remove env.StateMachinesGeneratingForThread ThreadId))
  else (false, env)

/-- The type of a `GenerateStateMachine` call with the thread fixed:
`(Instance, StateMachineOut, RunTimeProperties, bDryRun)`; `none` when the call stack is
exhausted before the call returns. -/
abbrev GenerateCall :=
  Env → UObjectRef → FSMStateMachine → List FSMNode → Bool → Option (Bool × Env)

/-- Modelled from the spec: the `RootStateMachine` member of a `USMInstance`, whose
declaration is not among the sources: the top-level state machine node of the instance,
with the class's designated root GUID as structural GUID, and no reference node. -/
def USMInstance.RootStateMachine (Class : UClassDef) (Instance : InstId) : FSMStateMachine :=
  { Ptr := { Container := .SMInstance Instance, Property := none }
    Node :=
      { Struct := .StateMachine, Guid := Class.RootStateMachineGuid, OwnerGuid := 0,
        bIsRootNode := false, FromGuid := 0, ToGuid := 0, ClassReference := none,
        ReferencedTemplateName := none, bReuseReference := false } }

/-- Modelled from the spec: `USMInstance::Initialize(Context)`, whose body is not among the
sources. It stores the context and runs the graph assembler on the instance's own root
state machine (whose structural GUID is the class's designated root GUID and which is no
reference node) over the flattened node set of the instance's class, not as a dry run;
the assembler's result is not returned to the caller. -/
def USMInstance.Initialize (w : World) (gsm : GenerateCall) (env : Env) (Instance : InstId)
    (Context : Option Nat) : Option Env :=
  match env.Instances.get? Instance with
  | none => some env
  | some inst =>
    let env : Env := env.setInstances (env.Instances.set Instance { inst with Context := Context })
    let Class := w.GetClass inst.Class
    (gsm env (.SMInstance Instance) (USMInstance.RootStateMachine Class Instance) Class.Properties
      false).map (fun r => r.2)

/-- `USMBlueprintUtils::CreateStateMachineInstanceInternal(StateMachineClass, Context,
Template)`; a template is given by its class. `NewObject` allocates the next instance. The
outer `Option` is `none` when the call stack is exhausted. -/
def CreateStateMachineInstanceInternal (w : World) (gsm : GenerateCall) (env : Env)
    (StateMachineClass : Option UClass) (Context : Option Nat) (Template : Option UClass) :
    Option (Option InstId × Env) :=
  match StateMachineClass with
  | none => some (none, env.log .NoClassProvided)
  | some Class =>
    if Template.isSome ∧ Template ≠ some Class then
      some (none, env.log (.TemplateOfWrongClass (Template.getD 0) Class))
    else
      let Instance := env.NewObject Class Template
      (USMInstance.Initialize w gsm Instance.2 Instance.1 Context).map
        (fun env => (some Instance.1, env))

/-- `USMBlueprintUtils::CreateStateMachineInstanceFromTemplate`. -/
def CreateStateMachineInstanceFromTemplate (w : World) (gsm : GenerateCall) (env : Env)
    (StateMachineClass : Option UClass) (Context : Option Nat) (Template : Option UClass) :
    Option (Option InstId × Env) :=
  CreateStateMachineInstanceInternal w gsm env StateMachineClass Context Template

/-- `USMBlueprintUtils::CreateStateMachineInstance`. -/
def CreateStateMachineInstance (w : World) (gsm : GenerateCall) (env : Env)
    (StateMachineClass : Option UClass) (Context : Option Nat) : Option (Option InstId × Env) :=
  CreateStateMachineInstanceInternal w gsm env StateMachineClass Context none

/-- `GenerateStateMachine`, lines 59-92: the template lookup of a reference node. Returns
the template (by class), the class reference to go on with, and the environment. -/
def GenerateStateMachine.template (w : World) (env : Env) (SMInstance : InstId)
    (StateMachineOut : FSMStateMachine) (StateMachineClassReference : UClass) (bDryRun : Bool) :
    Option UClass × UClass × Env :=
  if bDryRun then (none, StateMachineClassReference, env)
  else
    match StateMachineOut.Node.ReferencedTemplateName with
    | none => (none, StateMachineClassReference, env)
    | some TemplateName =>
      match (FindTemplateFromInstance w env SMInstance TemplateName).bind (fun o => o.SMClass) with
      | none =>
        (none, StateMachineClassReference, env.log (.TemplateNotFound TemplateName StateMachineOut.Ptr))
      | some TemplateClass =>
        if TemplateClass ≠ StateMachineClassReference then
          (some TemplateClass, TemplateClass,
            env.log (.TemplateClassMismatch TemplateName StateMachineOut.Ptr TemplateClass
              StateMachineClassReference))
        else (some TemplateClass, StateMachineClassReference, env)

/-- `GenerateStateMachine`, lines 93-132: the circular-reference check. `inl` is an early
return with its result, `inr` goes on to instantiation. -/
def GenerateStateMachine.check (ThreadId : Nat) (bIsTopLevel : Bool) (env : Env)
    (SMInstance : InstId) (StateMachineOut : FSMStateMachine) (StateMachineClassReference : UClass) :
    (Bool × Env) ⊕ Env :=
  let CurrentGeneration := env.CurrentGeneration ThreadId
  if StateMachineOut.Node.bReuseReference then
    match TMap.Find CurrentGeneration.CreatedReferences StateMachineClassReference with
    | some (some AlreadyInstantiated) =>
      let env := env.SetInstanceReference StateMachineOut.Ptr AlreadyInstantiated
      .inl (true, (FinishStateMachineGeneration bIsTopLevel env ThreadId).2)
    | some none =>
      let r :=
        TMap.FindOrAdd CurrentGeneration.StateMachinesThatNeedReferences StateMachineClassReference []
      let StateMachinesWithoutReferences :=
        if StateMachineOut ∈ r.1 then r.1 else r.1 ++ [StateMachineOut]
      let env := env.setCurrentGeneration ThreadId
        { CurrentGeneration with
          StateMachinesThatNeedReferences :=
            TMap.Add r.2 StateMachineClassReference StateMachinesWithoutReferences }
      .inl (true, (FinishStateMachineGeneration bIsTopLevel env ThreadId).2)
    | none =>
      .inr (env.setCurrentGeneration ThreadId
        { CurrentGeneration with
          CreatedReferences :=
            TMap.Add CurrentGeneration.CreatedReferences StateMachineClassReference none })
  else
    match TMap.Find CurrentGeneration.InstancesGenerating StateMachineClassReference with
    | some CurrentInstancesOfClass =>
      if CurrentInstancesOfClass > 1 then
        let env := env.log (.CircularReferencing SMInstance)
        .inl (false, (FinishStateMachineGeneration bIsTopLevel env ThreadId).2)
      else .inr env
    | none => .inr env

/-- `GenerateStateMachine`, lines 136-137: `InstancesGenerating.FindOrAdd(Class)++`. -/
def GenerateStateMachine.increment (ThreadId : Nat) (env : Env) (StateMachineClassReference : UClass) :
    Env :=
  let g := env.CurrentGeneration ThreadId
  let CurrentInstances := TMap.FindOrAdd g.InstancesGenerating StateMachineClassReference 0
  env.setCurrentGeneration ThreadId
    { g with
      InstancesGenerating :=
        TMap.Add CurrentInstances.2 StateMachineClassReference (CurrentInstances.1 + 1) }

/-- `GenerateStateMachine`, lines 151-154: a reuse node records the instance it created. -/
def GenerateStateMachine.record (ThreadId : Nat) (env : Env) (StateMachineOut : FSMStateMachine)
    (StateMachineClassReference : UClass) (ReferencedInstance : InstId) : Env :=
  if StateMachineOut.Node.bReuseReference then
    let g := env.CurrentGeneration ThreadId
    env.setCurrentGeneration ThreadId
      { g with
        CreatedReferences :=
          TMap.Add g.CreatedReferences StateMachineClassReference (some ReferencedInstance) }
  else env

/-- `GenerateStateMachine`, lines 156-165: the state machines queued for the class are
given the instance. -/
def GenerateStateMachine.patch (ThreadId : Nat) (env : Env) (StateMachineClassReference : UClass)
    (ReferencedInstance : InstId) : Env :=
  match TMap.Find (env.CurrentGeneration ThreadId).StateMachinesThatNeedReferences
      StateMachineClassReference with
  | some StateMachinesWithoutReferences =>
    StateMachinesWithoutReferences.foldl
      (fun (env : Env) (StateMachine : FSMStateMachine) =>
        if StateMachine.Node.bReuseReference then
          env.SetInstanceReference StateMachine.Ptr ReferencedInstance
        else env)
      env
  | none => env

/-- `GenerateStateMachine`, lines 168-173: the counter of the class is taken back. -/
def GenerateStateMachine.decrement (ThreadId : Nat) (env : Env) (StateMachineClassReference : UClass) :
    Env :=
  let g := env.CurrentGeneration ThreadId
  match TMap.Find g.InstancesGenerating StateMachineClassReference with
  | some CurrentInstancesAfter =>
    env.setCurrentGeneration ThreadId
      { g with
        InstancesGenerating :=
          TMap.Add g.InstancesGenerating StateMachineClassReference (CurrentInstancesAfter - 1) }
  | none => env.log (.ReferenceClassNotFound StateMachineClassReference)

/-- `GenerateStateMachine`, lines 147-176: what follows a successful instantiation. -/
def GenerateStateMachine.referenced (ThreadId : Nat) (env : Env) (SMInstance : InstId)
    (StateMachineOut : FSMStateMachine) (StateMachineClassReference : UClass)
    (ReferencedInstance : InstId) : Env :=
  let env := env.SetReferenceOwner ReferencedInstance SMInstance
  let env := GenerateStateMachine.record ThreadId env StateMachineOut StateMachineClassReference
    ReferencedInstance
  let env := GenerateStateMachine.patch ThreadId env StateMachineClassReference ReferencedInstance
  let env := GenerateStateMachine.decrement ThreadId env StateMachineClassReference
  env.SetInstanceReference StateMachineOut.Ptr ReferencedInstance

/-- `GenerateStateMachine`, lines 57-181: the branch of a reference node whose owning
object is a `USMInstance`. -/
def GenerateStateMachine.reference (w : World) (ThreadId : Nat) (gsm : GenerateCall)
    (bIsTopLevel : Bool) (env : Env) (SMInstance : InstId) (StateMachineOut : FSMStateMachine)
    (StateMachineClassReference : UClass) (bDryRun : Bool) : Option (Bool × Env) :=
  let t := GenerateStateMachine.template w env SMInstance StateMachineOut StateMachineClassReference bDryRun
  let TemplateInstance := t.1
  let StateMachineClassReference := t.2.1
  match GenerateStateMachine.check ThreadId bIsTopLevel t.2.2 SMInstance StateMachineOut
      StateMachineClassReference with
  | .inl r => some r
  | .inr env =>
    if bDryRun then some (true, (FinishStateMachineGeneration bIsTopLevel env ThreadId).2)
    else
      let env := GenerateStateMachine.increment ThreadId env StateMachineClassReference
      let Context := (env.Instances.get? SMInstance).bind (fun i => i.Context)
      match CreateStateMachineInstanceFromTemplate w gsm env (some StateMachineClassReference)
          Context TemplateInstance with
      | none => none
      | some (none, env) =>
        some (false, env.log (.CouldNotCreateReference StateMachineClassReference StateMachineOut.Ptr))
      | some (some ReferencedInstance, env) =>
        let env := GenerateStateMachine.referenced ThreadId env SMInstance StateMachineOut
          StateMachineClassReference ReferencedInstance
        some (true, (FinishStateMachineGeneration bIsTopLevel env ThreadId).2)

/-- `GenerateStateMachine`, lines 190-227: the first pass over the properties. -/
def GenerateStateMachine.states (gsm : Env → FSMStateMachine → Option (Bool × Env))
    (Instance : UObjectRef) (StateMachineOut : FSMStateMachine) :
    List (Nat × FSMNode) → Env → TMap FGuid NodePtr → Option (Env × TMap FGuid NodePtr)
  | [], env, MappedStates => some (env, MappedStates)
  | (i, Property) :: rest, env, MappedStates =>
    if Property.Struct.IsChildOfState_Base then
      let State : NodePtr := { Container := Instance, Property := some i }
      if Property.OwnerGuid ≠ StateMachineOut.Node.Guid then
        GenerateStateMachine.states gsm Instance StateMachineOut rest env MappedStates
      else
        let env := env.AddState StateMachineOut.Ptr State
        let env :=
          if TMap.Contains MappedStates Property.Guid then env.log (.GuidAlreadyAdded State Property.Guid)
          else env
        let MappedStates := TMap.Add MappedStates Property.Guid State
        let nested : Option Env :=
          if Property.Struct.IsChildOfStateMachine then
            (gsm env { Ptr := State, Node := Property }).map (fun r => r.2)
          else some env
        match nested with
        | none => none
        | some env =>
          let env := if Property.bIsRootNode then env.AddInitialState StateMachineOut.Ptr State else env
          GenerateStateMachine.states gsm Instance StateMachineOut rest env MappedStates
    else GenerateStateMachine.states gsm Instance StateMachineOut rest env MappedStates

/-- `GenerateStateMachine`, lines 229-275: the second pass, which builds the transitions.
`false` is one of the two early returns. (`MappedTransitions` is only written to and is
left out.) -/
def GenerateStateMachine.transitions (Instance : UObjectRef) (StateMachineOut : FSMStateMachine)
    (MappedStates : TMap FGuid NodePtr) : List (Nat × FSMNode) → Env → Bool × Env
  | [], env => (true, env)
  | (i, Property) :: rest, env =>
    if Property.Struct.IsChildOfTransition then
      let Transition : NodePtr := { Container := Instance, Property := some i }
      if Property.OwnerGuid ≠ StateMachineOut.Node.Guid then
        GenerateStateMachine.transitions Instance StateMachineOut MappedStates rest env
      else
        match TMap.Find MappedStates Property.FromGuid with
        | none => (false, env.log (.FromStateNotFound StateMachineOut.Ptr Transition Property.FromGuid))
        | some FromState =>
          match TMap.Find MappedStates Property.ToGuid with
          | none => (false, env.log (.ToStateNotFound StateMachineOut.Ptr Transition Property.ToGuid))
          | some ToState =>
            let env := env.SetFromState Transition FromState
            let env := env.SetToState Transition ToState
            let env := env.AddTransition StateMachineOut.Ptr Transition
            let env :=
              if TMap.Contains MappedStates Property.Guid then
                env.log (.GuidAlreadyAdded Transition Property.Guid)
              else env
            GenerateStateMachine.transitions Instance StateMachineOut MappedStates rest env
    else GenerateStateMachine.transitions Instance StateMachineOut MappedStates rest env

/-- `GenerateStateMachine`, lines 184-279: local assembly of one state machine level. -/
def GenerateStateMachine.assemble (ThreadId : Nat) (gsm : GenerateCall) (bIsTopLevel : Bool)
    (env : Env) (Instance : UObjectRef) (StateMachineOut : FSMStateMachine)
    (RunTimeProperties : List FSMNode) (bDryRun : Bool) : Option (Bool × Env) :=
  match GenerateStateMachine.states
      (fun env Nested => gsm env Instance Nested RunTimeProperties bDryRun)
      Instance StateMachineOut RunTimeProperties.enum env [] with
  | none => none
  | some (env, MappedStates) =>
    match GenerateStateMachine.transitions Instance StateMachineOut MappedStates
        RunTimeProperties.enum env with
    | (false, env) => some (false, env)
    | (true, env) => some (true, (FinishStateMachineGeneration bIsTopLevel env ThreadId).2)

/-- One activation of `USMUtils::GenerateStateMachine`, with the nested activations
(`gsm`) abstracted. -/
def GenerateStateMachine.body (w : World) (ThreadId : Nat) (gsm : GenerateCall) : GenerateCall :=
  fun env Instance StateMachineOut RunTimeProperties bDryRun =>
    let bIsTopLevel := !TMap.Contains env.StateMachinesGeneratingForThread ThreadId
    let env : Env := env.FindOrAddGeneration ThreadId
    match StateMachineOut.Node.ClassReference, Instance with
    | some StateMachineClassReference, .SMInstance SMInstance =>
      GenerateStateMachine.reference w ThreadId gsm bIsTopLevel env SMInstance StateMachineOut
        StateMachineClassReference bDryRun
    | _, _ =>
      GenerateStateMachine.assemble ThreadId gsm bIsTopLevel env Instance StateMachineOut
        RunTimeProperties bDryRun

/-- `USMUtils::GenerateStateMachine(Instance, StateMachineOut, RunTimeProperties, bDryRun)`
on thread `ThreadId`. The first argument bounds the depth of the call stack: every nested
activation has one frame less, and `none` is returned when no frame is left (the call does
not return). -/
def GenerateStateMachine (w : World) (ThreadId : Nat) : Nat → GenerateCall
  | 0 => fun _ _ _ _ _ => none
  | depth + 1 => GenerateStateMachine.body w ThreadId (GenerateStateMachine w ThreadId depth)

/-! ## Auxiliary definitions used in the statements -/

/-- The occurrence count a path-occurrence map holds for a path (`0` when absent). -/
def PathCount (m : TMap String Int) (Path : String) : Int := (TMap.Find m Path).getD 0

/-- The hypothesis on GUID rendering: a non-empty string without slash and underscore. -/
def GuidStringOk (s : String) : Prop := s ≠ "" ∧ '/' ∉ s.data ∧ '_' ∉ s.data

/-- The owner chain of a node, root first and ending with the node itself. -/
def FSMNode_Base.OwnersFromRoot : FSMNode_Base → List FSMNode_Base
  | .root g i => [.root g i]
  | .child g i o => o.OwnersFromRoot ++ [.child g i o]

/-- The GUID strings of a list of nodes, in list order. -/
def GuidStrings (GuidToString : FGuid → String) (Nodes : List FSMNode_Base) : List String :=
  Nodes.map (fun n => GuidToString n.GetNodeGuid)

/-- The value of a decimal digit character. -/
def digitValue (c : Char) : Nat := c.toNat - 48

/-- The number a string of decimal digits denotes, most significant digit first. -/
def decimalValue (a : Nat) (ds : List Char) : Nat := ds.foldl (fun a c => 10 * a + digitValue c) a

/-- The in-progress counter the bookkeeping of a thread holds for a class (`0` when the
class, or the thread, has no entry). -/
def Env.InProgress (env : Env) (ThreadId : Nat) (Class : UClass) : Int :=
  (TMap.Find (env.CurrentGeneration ThreadId).InstancesGenerating Class).getD 0

/-- The class a reference node resolves to: its class reference, or the class of its
template where the template lookup replaces it. -/
def GenerateStateMachine.target (w : World) (env : Env) (SMInstance : InstId)
    (StateMachineOut : FSMStateMachine) (StateMachineClassReference : UClass) (bDryRun : Bool) : UClass :=
  (GenerateStateMachine.template w env SMInstance StateMachineOut StateMachineClassReference bDryRun).2.1

/-! ## Node records and environments used at concrete inputs -/

/-- A plain state record. -/
def FSMNode.state (Guid OwnerGuid : FGuid) (bIsRootNode : Bool) : FSMNode :=
  { Struct := .State, Guid := Guid, OwnerGuid := OwnerGuid, bIsRootNode := bIsRootNode,
    FromGuid := 0, ToGuid := 0, ClassReference := none, ReferencedTemplateName := none,
    bReuseReference := false }

/-- A transition record. -/
def FSMNode.transition (Guid OwnerGuid FromGuid ToGuid : FGuid) : FSMNode :=
  { Struct := .Transition, Guid := Guid, OwnerGuid := OwnerGuid, bIsRootNode := false,
    FromGuid := FromGuid, ToGuid := ToGuid, ClassReference := none,
    ReferencedTemplateName := none, bReuseReference := false }

/-- A state machine record: a nested state machine, or a reference node when it has a
class reference. -/
def FSMNode.stateMachine (Guid OwnerGuid : FGuid) (ClassReference : Option UClass)
    (bReuseReference : Bool) : FSMNode :=
  { Struct := .StateMachine, Guid := Guid, OwnerGuid := OwnerGuid, bIsRootNode := false,
    FromGuid := 0, ToGuid := 0, ClassReference := ClassReference,
    ReferencedTemplateName := none, bReuseReference := bReuseReference }

/-- A freshly constructed instance of a class, before `Initialize`. -/
def USMInstance.ofClass (Class : UClass) : USMInstance :=
  { Class := Class, Context := none, Template := none, ReferenceOwner := none }

/-- An environment with the given live instances in which nothing is assembled yet and no
thread is assembling. -/
def Env.initial (Instances : List USMInstance) : Env :=
  { Instances := Instances, StateMachinesGeneratingForThread := [], InstanceReference := [],
    States := [], EntryStates := [], Transitions := [], FromState := [], ToState := [], Log := [] }

/-- A class without default sub-objects. -/
def UClassDef.ofProperties (RootStateMachineGuid : FGuid) (Properties : List FSMNode) : UClassDef :=
  { DefaultSubobjects := [], RootStateMachineGuid := RootStateMachineGuid, Properties := Properties }

/-! ## Predicates on activations -/

/-- What a nested activation (one that finds the entry of its thread in the per-thread
map) leaves behind when it returns: the entry is still there, every in-progress counter is
back at its value on entry, no counter entry and no created-reference entry is lost. -/
def NestedPost (ThreadId : Nat) (env env' : Env) : Prop :=
  TMap.Contains env'.StateMachinesGeneratingForThread ThreadId = true ∧
  (∀ c, env'.InProgress ThreadId c = env.InProgress ThreadId c) ∧
  (∀ c, TMap.Contains (env.CurrentGeneration ThreadId).InstancesGenerating c = true →
    TMap.Contains (env'.CurrentGeneration ThreadId).InstancesGenerating c = true) ∧
  (∀ c, TMap.Contains (env.CurrentGeneration ThreadId).CreatedReferences c = true →
    TMap.Contains (env'.CurrentGeneration ThreadId).CreatedReferences c = true)

/-- A call all of whose returning nested activations satisfy `NestedPost`. -/
def NestedOK (ThreadId : Nat) (gsm : GenerateCall) : Prop :=
  ∀ env Instance StateMachineOut RunTimeProperties bDryRun r env',
    TMap.Contains env.StateMachinesGeneratingForThread ThreadId = true →
    gsm env Instance StateMachineOut RunTimeProperties bDryRun = some (r, env') →
    NestedPost ThreadId env env'

/-! ## Well-formed node sets: bounded local nesting -/

/-- `Nests k props g`: below a state machine with structural GUID `g`, the state machine
records of `props` nest at most `k` levels deep by owner GUID (the state machine itself is
level 1). No `k` exists when the owner-GUID relation has a cycle below `g`. -/
def Nests : Nat → List FSMNode → FGuid → Bool
  | 0, _, _ => false
  | k + 1, props, g =>
    props.all (fun p =>
      !(p.Struct.IsChildOfStateMachine && decide (p.OwnerGuid = g)) || Nests k props p.Guid)

/-- The root state machine of every class of the world nests at most `R` levels deep. -/
def World.Nests (w : World) (R : Nat) : Bool :=
  w.all (fun c => SM.Nests R c.Properties c.RootStateMachineGuid)

/-- How many more times the bookkeeping of a thread lets a class of the world be
instantiated on top of what is in progress: two less the in-progress counter for the
non-reuse check, and one more while the class is not among the created references. -/
def Env.Slots (env : Env) (ThreadId : Nat) (c : UClass) : Nat :=
  (2 - env.InProgress ThreadId c).toNat +
    (if TMap.Contains (env.CurrentGeneration ThreadId).CreatedReferences c then 0 else 1)

/-- The sum of the slots of the classes of the world. -/
def Env.Potential (w : World) (env : Env) (ThreadId : Nat) : Nat :=
  ((List.range w.length).map (env.Slots ThreadId)).sum

/-- Every transition record owned by the state machine with structural GUID `g` has a
`FromGuid` and a `ToGuid` that are each the structural GUID of some state record owned by
that same state machine. -/
def TransitionsResolve (props : List FSMNode) (g : FGuid) : Prop :=
  ∀ t ∈ props, t.Struct.IsChildOfTransition = true → t.OwnerGuid = g →
    (∃ s ∈ props, s.Struct.IsChildOfState_Base = true ∧ s.OwnerGuid = g ∧ s.Guid = t.FromGuid) ∧
    (∃ s ∈ props, s.Struct.IsChildOfState_Base = true ∧ s.OwnerGuid = g ∧ s.Guid = t.ToGuid)

/-- A step that leaves the live instances, the per-thread map and every instance reference
as they were, and only adds to the log. -/
def Env.Frame (env env' : Env) : Prop :=
  env'.Instances = env.Instances ∧
  env'.StateMachinesGeneratingForThread = env.StateMachinesGeneratingForThread ∧
  env'.InstanceReference = env.InstanceReference ∧
  env.Log <+: env'.Log

/-- A reference node record: a state machine record that has a class reference. -/
def FSMNode.IsReference (p : FSMNode) : Bool :=
  p.Struct.IsChildOfStateMachine && p.ClassReference.isSome

/-- The shape of a class with exactly one reference node `X`: the flattened node set is
`pre ++ X :: post`, no other record is a reference node, `X` is a state machine record
owned by the root state machine, it targets the class `C` itself and names no template;
no state machine record reuses the root GUID. -/
structure SingleReference (w : World) (C : UClass) (pre : List FSMNode) (X : FSMNode)
    (post : List FSMNode) : Prop where
  properties : (w.GetClass C).Properties = pre ++ X :: post
  pre_local : ∀ p ∈ pre, p.IsReference = false
  post_local : ∀ p ∈ post, p.IsReference = false
  root_unique : ∀ p ∈ pre ++ X :: post, p.Struct.IsChildOfStateMachine = true →
    p.Guid ≠ (w.GetClass C).RootStateMachineGuid
  isStateMachine : X.Struct.IsChildOfStateMachine = true
  ownedByRoot : X.OwnerGuid = (w.GetClass C).RootStateMachineGuid
  target : X.ClassReference = some C
  noTemplate : X.ReferencedTemplateName = none

/-- The instance `NewObject` and `Initialize` make for a reference node of the instance
`Owner`, once `SetReferenceOwner` has run. -/
def USMInstance.referenced (Class : UClass) (Context : Option Nat) (Owner : InstId) : USMInstance :=
  { Class := Class, Context := Context, Template := none, ReferenceOwner := some Owner }

/-- `USMInstance::GetContext` of a live instance. -/
def Env.GetContext (env : Env) (Instance : InstId) : Option Nat :=
  (env.Instances.get? Instance).bind (fun i => i.Context)

/-- The environment in which `Initialize` runs the assembler for a new instance: the
instance has been allocated by `NewObject` and has been given its context. -/
def Env.Initializing (env : Env) (Class : UClass) (Template : Option UClass)
    (Context : Option Nat) : Env :=
  (env.NewObject Class Template).2.setInstances
    ((env.NewObject Class Template).2.Instances.set (env.NewObject Class Template).1
      { Class := Class, Context := Context, Template := Template, ReferenceOwner := none })

/-- The number of reference node records in a list of records. -/
def ReferenceCount (props : List FSMNode) : Nat := (props.filter FSMNode.IsReference).length

/-- The shape of a class `P` whose reference nodes all target one class `D`: the flattened
node set is `props`, every reference node record is owned by the root state machine,
targets `D`, names no template and has `bReuseReference` equal to `reuse`; no state machine
record reuses the root GUID; and the class `D` has no reference node. -/
structure ReferencesTo (w : World) (P D : UClass) (props : List FSMNode) (reuse : Bool) :
    Prop where
  properties : (w.GetClass P).Properties = props
  owned : ∀ p ∈ props, p.IsReference = true → p.OwnerGuid = (w.GetClass P).RootStateMachineGuid
  target : ∀ p ∈ props, p.IsReference = true → p.ClassReference = some D
  noTemplate : ∀ p ∈ props, p.IsReference = true → p.ReferencedTemplateName = none
  reuse_eq : ∀ p ∈ props, p.IsReference = true → p.bReuseReference = reuse
  root_unique : ∀ p ∈ props, p.Struct.IsChildOfStateMachine = true →
    p.Guid ≠ (w.GetClass P).RootStateMachineGuid
  target_local : ∀ p ∈ (w.GetClass D).Properties, p.IsReference = false

/-- The invariant of the first pass over the node set `props` of the instance `K`, started
in `env`, when every reference node targets the class `D`: after the records `done` the
thread is still assembling, nothing is queued for `D`, without reuse the counter of `D` is
back at 0, with reuse the created-reference entry of `D` is absent before the first
reference node and the first new instance after it, the new instances are those created
for the reference nodes in `done`, and each reference node in `done` holds its instance. -/
def ReferencesResolved (tid : Nat) (D : UClass) (reuse : Bool) (props : List FSMNode)
    (K : InstId) (env : Env) (done : List (Nat × FSMNode)) (e : Env) : Prop :=
  TMap.Contains e.StateMachinesGeneratingForThread tid = true ∧
  TMap.Find (e.CurrentGeneration tid).StateMachinesThatNeedReferences D = none ∧
  (reuse = false → e.InProgress tid D = 0) ∧
  (reuse = true → TMap.Find (e.CurrentGeneration tid).CreatedReferences D =
    if ReferenceCount (done.map Prod.snd) = 0 then none else some (some env.Instances.length)) ∧
  e.Instances = env.Instances ++
    List.replicate
      (if reuse then min 1 (ReferenceCount (done.map Prod.snd))
        else ReferenceCount (done.map Prod.snd))
      (USMInstance.referenced D (env.GetContext K) K) ∧
  ∀ y ∈ done, y.2.IsReference = true →
    TMap.Find e.InstanceReference ⟨.SMInstance K, some y.1⟩ =
      some (env.Instances.length + if reuse then 0 else ReferenceCount (props.take y.1))

/-! ## Run-time nodes: `FSMNode_Base::Initialize` and `FSMNode_Base::Execute` -/

/-- The fields of an `FSMNode_Base` that its constructor sets, and the members `NodeName`,
`TemplateName` (`none` is `NAME_None`) and `PathGuid`, which it leaves default-constructed.
`TimeInState` is a float in the source; nothing here computes with it. The graph evaluators
are engine objects and are reached only through the calls that are parameters below. -/
structure FSMNode_BaseState where
  TimeInState : Int
  bIsInEndState : Bool
  bHasUpdated : Bool
  DuplicateId : Int
  OwnerNode : Option FGuid
  OwningInstance : Option InstId
  NodeInstance : Option Nat
  NodeInstanceClass : Option UClass
  bInitialized : Bool
  bIsActive : Bool
  NodeName : String
  TemplateName : Option FName
  PathGuid : FGuid
  deriving DecidableEq, Repr

/-- `FSMNode_Base::FSMNode_Base()`. -/
def FSMNode_BaseState.new : FSMNode_BaseState :=
  { TimeInState := 0, bIsInEndState := false, bHasUpdated := false, DuplicateId := 0,
    OwnerNode := none, OwningInstance := none, NodeInstance := none, NodeInstanceClass := none,
    bInitialized := false, bIsActive := false, NodeName := "", TemplateName := none,
    PathGuid := 0 }

/-- `Cast<USMInstance>(Instance)`. -/
def UObjectRef.CastSMInstance : UObjectRef → Option InstId
  | .SMInstance Id => some Id
  | .Object _ => none

/-- `FSMNode_Base::Initialize(Instance)`. `InitializeEvaluators` stands for the calls
`GraphEvaluator.Initialize(Instance)` and `FunctionHandler.Initialize(Instance)` on the two
handler arrays, and `CreateNodeInstance` for the call of that name; they are parameters. -/
def FSMNode_BaseState.Initialize
    (InitializeEvaluators : UObjectRef → FSMNode_BaseState → FSMNode_BaseState)
    (CreateNodeInstance : FSMNode_BaseState → FSMNode_BaseState)
    (Node : FSMNode_BaseState) (Instance : UObjectRef) : FSMNode_BaseState :=
  let Node := { Node with OwningInstance := Instance.CastSMInstance }
  let Node := { Node with bInitialized := true }
  let Node := InitializeEvaluators Instance Node
  CreateNodeInstance Node

/-- `FSMNode_Base::Execute()`. `UpdateReadStates` is the virtual member of that name and
`GraphEvaluatorExecute` the call `GraphEvaluator.Execute()`; their bodies are not among the
sources and they are parameters. -/
def FSMNode_BaseState.Execute
    (UpdateReadStates GraphEvaluatorExecute : FSMNode_BaseState → FSMNode_BaseState)
    (Node : FSMNode_BaseState) : FSMNode_BaseState :=
  if !Node.bInitialized then Node
  else
    let Node := UpdateReadStates Node
    GraphEvaluatorExecute Node

/-! ## Editor graph: state nodes and their pins -/

/-- A `USMGraphNode_TransitionEdge` as the state node code reads it. Modelled from the
spec: `GetFromState()`, `GetToState()` and `PossibleToTransition()`, whose bodies are not
among the sources, are the stored answers (a node is named by a number, `none` is null). -/
structure USMGraphNode_TransitionEdge where
  FromState : Option Nat
  ToState : Option Nat
  bPossibleToTransition : Bool
  deriving DecidableEq, Repr

/-- The owning node of a pin that is linked to a pin of a state node. -/
inductive UEdGraphNode where
  | StateMachineEntryNode
  | TransitionEdge (Transition : USMGraphNode_TransitionEdge)
  | Other (Id : Nat)
  deriving DecidableEq, Repr

/-- A `UEdGraphPin`: `LinkedTo`, each linked pin given by its owning node. -/
structure UEdGraphPin where
  LinkedTo : List UEdGraphNode
  deriving DecidableEq, Repr

/-- A `USMGraphNode_StateNodeBase`: the input and output pin (`none` is a null pin) and,
modelled from the spec, the answer of `FSMBlueprintEditorUtils::IsNodeImpactedFromAnyStateNode`
for the node, whose body is not among the sources. -/
structure USMGraphNode_StateNodeBase where
  InputPin : Option UEdGraphPin
  OutputPin : Option UEdGraphPin
  bImpactedFromAnyStateNode : Bool
  deriving DecidableEq, Repr

/-- The loop of `USMGraphNode_StateNodeBase::HasInputConnections` over `Pin->LinkedTo`. -/
def USMGraphNode_StateNodeBase.HasInputConnections.loop : List UEdGraphNode → Bool
  | [] => false
  | .StateMachineEntryNode :: _ => true
  | .TransitionEdge Transition :: rest =>
    if Transition.FromState = Transition.ToState || !Transition.bPossibleToTransition then
      USMGraphNode_StateNodeBase.HasInputConnections.loop rest
    else true
  | .Other _ :: rest => USMGraphNode_StateNodeBase.HasInputConnections.loop rest

/-- `USMGraphNode_StateNodeBase::HasInputConnections()`. -/
def USMGraphNode_StateNodeBase.HasInputConnections (Node : USMGraphNode_StateNodeBase) : Bool :=
  match Node.InputPin with
  | some Pin =>
    if Pin.LinkedTo.length = 0 then false
    else USMGraphNode_StateNodeBase.HasInputConnections.loop Pin.LinkedTo
  | none => false

/-- The loop of `USMGraphNode_StateNodeBase::IsEndState` over `GetOutputPin()->LinkedTo`. -/
def USMGraphNode_StateNodeBase.IsEndState.loop : List UEdGraphNode → Bool
  | [] => true
  | .TransitionEdge Transition :: rest =>
    if Transition.FromState = Transition.ToState then
      USMGraphNode_StateNodeBase.IsEndState.loop rest
    else if Transition.bPossibleToTransition then false
    else USMGraphNode_StateNodeBase.IsEndState.loop rest
  | _ :: rest => USMGraphNode_StateNodeBase.IsEndState.loop rest

/-- `USMGraphNode_StateNodeBase::IsEndState(bCheckAnyState)`; `none` when the output pin,
which is dereferenced without a check, is null. -/
def USMGraphNode_StateNodeBase.IsEndState (Node : USMGraphNode_StateNodeBase)
    (bCheckAnyState : Bool) : Option Bool :=
  if !Node.HasInputConnections then some false
  else if bCheckAnyState && Node.bImpactedFromAnyStateNode then some false
  else
    match Node.OutputPin with
    | none => none
    | some Pin =>
      if Pin.LinkedTo.length = 0 then some true
      else some (USMGraphNode_StateNodeBase.IsEndState.loop Pin.LinkedTo)

/-- A state node has no way out: every transition edge on its output pin is a
self-transition or cannot fire. -/
def USMGraphNode_StateNodeBase.NoWayOut (Node : USMGraphNode_StateNodeBase) : Prop :=
  ∃ Pin, Node.OutputPin = some Pin ∧
    ∀ Transition, UEdGraphNode.TransitionEdge Transition ∈ Pin.LinkedTo →
      Transition.FromState ≠ Transition.ToState → Transition.bPossibleToTransition = false

/-- A state node has an entry: its input pin is linked to the state machine entry node, or
to a transition edge from another state (not a self-transition) that can fire. -/
def USMGraphNode_StateNodeBase.HasEntry (Node : USMGraphNode_StateNodeBase) : Prop :=
  ∃ Pin, Node.InputPin = some Pin ∧
    (UEdGraphNode.StateMachineEntryNode ∈ Pin.LinkedTo ∨
      ∃ Transition, UEdGraphNode.TransitionEdge Transition ∈ Pin.LinkedTo ∧
        Transition.FromState ≠ Transition.ToState ∧ Transition.bPossibleToTransition = true)

/-- State `i` (counted from 0) of the linear chain of `K` state nodes: the entry node is
linked to state 0, state `i` is linked to state `i + 1` by one transition that can fire,
and no Any State node impacts the chain. -/
def LinearStateMachine.node (K i : Nat) : USMGraphNode_StateNodeBase :=
  { InputPin := some
      { LinkedTo :=
          if i = 0 then [.StateMachineEntryNode]
          else [.TransitionEdge
            { FromState := some (i - 1), ToState := some i, bPossibleToTransition := true }] }
    OutputPin := some
      { LinkedTo :=
          if i + 1 < K then
            [.TransitionEdge
              { FromState := some i, ToState := some (i + 1), bPossibleToTransition := true }]
          else [] }
    bImpactedFromAnyStateNode := false }

/-- The state nodes of the linear chain of `K` states, first to last. -/
def LinearStateMachine (K : Nat) : List USMGraphNode_StateNodeBase :=
  (List.range K).map (LinearStateMachine.node K)

/-- The fields that hold the assembled graph are the same in both environments. -/
def Env.SameGraph (env env' : Env) : Prop :=
  env'.States = env.States ∧ env'.EntryStates = env.EntryStates ∧
  env'.Transitions = env.Transitions ∧ env'.FromState = env.FromState ∧
  env'.ToState = env.ToState

/-- A node location that is not inside an instance created after the first `n`. -/
def NodePtr.Old (n : Nat) (q : NodePtr) : Prop :=
  ∀ J, q.Container = .SMInstance J → J < n

/-- The state machine at `q` holds the same states, initial states and transitions in both
environments. -/
def Env.SameAt (q : NodePtr) (env env' : Env) : Prop :=
  TMap.Find env'.States q = TMap.Find env.States q ∧
  TMap.Find env'.EntryStates q = TMap.Find env.EntryStates q ∧
  TMap.Find env'.Transitions q = TMap.Find env.Transitions q

/-- What an activation on the state machine at `P` of the object `Instance` may touch: no
instance is lost, and every state machine at a location other than `P`, outside
`Instance` and outside the instances created after the first `n`, is left as it was. -/
def Touch (n : Nat) (Instance : UObjectRef) (P : NodePtr) (env env' : Env) : Prop :=
  env.Instances.length ≤ env'.Instances.length ∧
  ∀ q, q.Old n → q ≠ P → q.Container ≠ Instance → env.SameAt q env'

/-- A call all of whose returning activations satisfy `Touch`. -/
def TouchOK (gsm : GenerateCall) : Prop :=
  ∀ n env Instance StateMachineOut RunTimeProperties bDryRun r env',
    n ≤ env.Instances.length →
    gsm env Instance StateMachineOut RunTimeProperties bDryRun = some (r, env') →
    Touch n Instance StateMachineOut.Ptr env env'

/-- The bookkeeping of a thread as a dry run finds and leaves it: no in-progress counter
has an entry, and every created-reference entry is null. -/
def Env.DryBookkeeping (env : Env) (ThreadId : Nat) : Prop :=
  (env.CurrentGeneration ThreadId).InstancesGenerating = [] ∧
  ∀ c v, TMap.Find (env.CurrentGeneration ThreadId).CreatedReferences c = some v → v = none

/-- What a step of a dry run keeps: the live instances and the instance references, and,
when the thread is assembling with dry-run bookkeeping, that it still is. -/
def DryStep (ThreadId : Nat) (env env' : Env) : Prop :=
  env'.Instances = env.Instances ∧ env'.InstanceReference = env.InstanceReference ∧
  (TMap.Contains env.StateMachinesGeneratingForThread ThreadId = true →
    env.DryBookkeeping ThreadId →
    TMap.Contains env'.StateMachinesGeneratingForThread ThreadId = true ∧
      env'.DryBookkeeping ThreadId)

/-- A call all of whose returning nested dry-run activations are dry steps. -/
def DryOK (ThreadId : Nat) (gsm : GenerateCall) : Prop :=
  ∀ env Instance StateMachineOut RunTimeProperties r env',
    TMap.Contains env.StateMachinesGeneratingForThread ThreadId = true →
    env.DryBookkeeping ThreadId →
    gsm env Instance StateMachineOut RunTimeProperties true = some (r, env') →
    DryStep ThreadId env env'

/-- The in-progress counters of a thread, entry by entry. -/
def Env.Counters (env : Env) (ThreadId : Nat) : TMap UClass Int :=
  (env.CurrentGeneration ThreadId).InstancesGenerating

/-- When no class has two counter entries in `env`, none has in `env'`, and every counter
entry of `env'` is an entry of `env` or is zero. -/
def ZeroOrOld (ThreadId : Nat) (env env' : Env) : Prop :=
  ((env.Counters ThreadId).map Prod.fst).Nodup →
    ((env'.Counters ThreadId).map Prod.fst).Nodup ∧
    ∀ kv ∈ env'.Counters ThreadId, kv ∈ env.Counters ThreadId ∨ kv.2 = 0

/-- A call all of whose returning nested activations leave only old or zero counter
entries. -/
def ZeroOK (ThreadId : Nat) (gsm : GenerateCall) : Prop :=
  ∀ env Instance StateMachineOut RunTimeProperties bDryRun r env',
    TMap.Contains env.StateMachinesGeneratingForThread ThreadId = true →
    gsm env Instance StateMachineOut RunTimeProperties bDryRun = some (r, env') →
    ZeroOrOld ThreadId env env'

/-- The states the state machine at `q` contains (`FSMStateMachine::GetStates`). -/
def Env.StatesOf (env : Env) (q : NodePtr) : List NodePtr := (TMap.Find env.States q).getD []

/-- The transitions the state machine at `q` contains. -/
def Env.TransitionsOf (env : Env) (q : NodePtr) : List NodePtr :=
  (TMap.Find env.Transitions q).getD []

/-- No state machine loses a state or a transition from the first environment to the
second. -/
def Env.Grows (env env' : Env) : Prop :=
  (∀ q x, x ∈ env.StatesOf q → x ∈ env'.StatesOf q) ∧
  (∀ q x, x ∈ env.TransitionsOf q → x ∈ env'.TransitionsOf q)

/-- A call all of whose returning activations satisfy `Env.Grows`. -/
def GrowsOK (gsm : GenerateCall) : Prop :=
  ∀ env Instance StateMachineOut RunTimeProperties bDryRun r env',
    gsm env Instance StateMachineOut RunTimeProperties bDryRun = some (r, env') → env.Grows env'

/-- An object that is not an instance created after the first `n`. -/
def UObjectRef.Live (Instance : UObjectRef) (n : Nat) : Prop :=
  ∀ K, Instance = .SMInstance K → K < n

/-- Every transition a state machine of `Instance` gained from `env` to `env'` is a
transition record of `props`, gained by the state machine at `P` when `g` is its owner
GUID, or by the state machine record whose structural GUID is its owner GUID. -/
def OwnedOnly (props : List FSMNode) (Instance : UObjectRef) (P : NodePtr) (g : FGuid)
    (env env' : Env) : Prop :=
  ∀ q, q.Container = Instance → ∀ x ∈ env'.TransitionsOf q, x ∈ env.TransitionsOf q ∨
    ∃ i t, x = ⟨Instance, some i⟩ ∧ props[i]? = some t ∧ t.Struct.IsChildOfTransition = true ∧
      ((q = P ∧ t.OwnerGuid = g) ∨
        ∃ j pj, q = ⟨Instance, some j⟩ ∧ props[j]? = some pj ∧ pj.Guid = t.OwnerGuid)

/-- A call all of whose returning activations on `Instance` and `props` satisfy
`OwnedOnly` and lose no instance. -/
def OwnedOK (props : List FSMNode) (Instance : UObjectRef) (gsm : GenerateCall) : Prop :=
  ∀ n env StateMachineOut bDryRun r env',
    n ≤ env.Instances.length → Instance.Live n →
    gsm env Instance StateMachineOut props bDryRun = some (r, env') →
    env.Instances.length ≤ env'.Instances.length ∧
      OwnedOnly props Instance StateMachineOut.Ptr StateMachineOut.Node.Guid env env'

/-! ## Editor graph: the transition at a position of a pin -/

/-- Engine `TArray::operator[]` with an `int32` index: the element at the position, or
`none` when the range check of the array, `(Index >= 0) & (Index < ArrayNum)`, fails. -/
def TArray.Get {α : Type} (Array : List α) (Index : Int) : Option α :=
  if 0 ≤ Index ∧ Index < Array.length then Array[Index.toNat]? else none

/-- `Cast<USMGraphNode_TransitionEdge>(Node)`. -/
def UEdGraphNode.CastTransitionEdge : UEdGraphNode → Option USMGraphNode_TransitionEdge
  | .TransitionEdge Transition => some Transition
  | _ => none

/-- The body shared by `GetPreviousTransition` and `GetNextTransition` once the pin is
fetched. The outer `none` is an access outside `LinkedTo`; the inner `none` is the null
return. -/
def USMGraphNode_StateNodeBase.TransitionAt (Pin : Option UEdGraphPin) (Index : Int) :
    Option (Option USMGraphNode_TransitionEdge) :=
  match Pin with
  | some Pin =>
    if (Pin.LinkedTo.length : Int) ≤ Index then some none
    else
      match TArray.Get Pin.LinkedTo Index with
      | none => none
      | some Linked =>
        match Linked.CastTransitionEdge with
        | some Transition => some (some Transition)
        | none => some none
  | none => some none

/-- `USMGraphNode_StateNodeBase::GetPreviousTransition(Index)`. -/
def USMGraphNode_StateNodeBase.GetPreviousTransition (Node : USMGraphNode_StateNodeBase)
    (Index : Int) : Option (Option USMGraphNode_TransitionEdge) :=
  USMGraphNode_StateNodeBase.TransitionAt Node.InputPin Index

/-- `USMGraphNode_StateNodeBase::GetNextTransition(Index)`. -/
def USMGraphNode_StateNodeBase.GetNextTransition (Node : USMGraphNode_StateNodeBase)
    (Index : Int) : Option (Option USMGraphNode_TransitionEdge) :=
  USMGraphNode_StateNodeBase.TransitionAt Node.OutputPin Index

/-! ## Node instances: `FSMNode_Base::CreateNodeInstance` and the `USMNodeInstance` getters -/

/-- `FSMNode_Base::GetGuid()`: the path GUID. -/
def FSMNode_BaseState.GetGuid (Node : FSMNode_BaseState) : FGuid := Node.PathGuid

/-- Modelled from the spec: `FSMNode_Base::GetNodeName()`, declared in a header that is not
among the sources: the stored node name. -/
def FSMNode_BaseState.GetNodeName (Node : FSMNode_BaseState) : String := Node.NodeName

/-- Modelled from the spec: `FSMNode_Base::IsActive()`, declared in a header that is not
among the sources: the active flag. -/
def FSMNode_BaseState.IsActive (Node : FSMNode_BaseState) : Bool := Node.bIsActive

/-- A `USMNodeInstance` object: its class, outer and template as given to `NewObject`, and
the member `OwningNode`, the address of a node struct (`none` is null). -/
structure USMNodeInstance where
  Class : UClass
  Outer : Option InstId
  Template : Option UObject
  OwningNode : Option Nat
  deriving DecidableEq, Repr

/-- `USMNodeInstance::SetOwningNode(Node)`. -/
def USMNodeInstance.SetOwningNode (Self : USMNodeInstance) (Node : Option Nat) : USMNodeInstance :=
  { Self with OwningNode := Node }

/-- `USMNodeInstance::GetTimeInState()`; `Memory` is the node struct at each address. -/
def USMNodeInstance.GetTimeInState (Memory : Nat → FSMNode_BaseState) (Self : USMNodeInstance) :
    Int :=
  match Self.OwningNode with
  | some OwningNode => (Memory OwningNode).TimeInState
  | none => 0

/-- `USMNodeInstance::IsInEndState()`. -/
def USMNodeInstance.IsInEndState (Memory : Nat → FSMNode_BaseState) (Self : USMNodeInstance) :
    Bool :=
  match Self.OwningNode with
  | some OwningNode => (Memory OwningNode).bIsInEndState
  | none => false

/-- `USMNodeInstance::HasUpdated()`. -/
def USMNodeInstance.HasUpdated (Memory : Nat → FSMNode_BaseState) (Self : USMNodeInstance) :
    Bool :=
  match Self.OwningNode with
  | some OwningNode => (Memory OwningNode).bHasUpdated
  | none => false

/-- `USMNodeInstance::IsActive()`. -/
def USMNodeInstance.IsActive (Memory : Nat → FSMNode_BaseState) (Self : USMNodeInstance) : Bool :=
  match Self.OwningNode with
  | some OwningNode => (Memory OwningNode).IsActive
  | none => false

/-- `USMNodeInstance::GetNodeName()`; the static `EmptyString` is the empty string. -/
def USMNodeInstance.GetNodeName (Memory : Nat → FSMNode_BaseState) (Self : USMNodeInstance) :
    String :=
  match Self.OwningNode with
  | some OwningNode => (Memory OwningNode).GetNodeName
  | none => ""

/-- `USMNodeInstance::GetGuid()`; the static `BlankGuid` is the zero GUID. -/
def USMNodeInstance.GetGuid (Memory : Nat → FSMNode_BaseState) (Self : USMNodeInstance) : FGuid :=
  match Self.OwningNode with
  | some OwningNode => (Memory OwningNode).GetGuid
  | none => 0

/-- The messages of `LD_LOG_ERROR` in `SMNode_Base.cpp`. -/
inductive NodeLogEntry where
  | NodeTemplateNotFound (TemplateName : FName) (NodeName : String)
  | NodeInstanceClassNotCompatible (Class : UClass) (NodeName : String)
  deriving DecidableEq, Repr

/-- `FSMNode_Base::IsNodeInstanceClassCompatible` of the base struct: false, after an
ensure that fails; the node types override it. -/
def FSMNode_BaseState.IsNodeInstanceClassCompatible (_NewNodeInstanceClass : UClass) : Bool := false

/-- `FSMNode_Base::SetNodeInstanceClass(NewNodeInstanceClass)`. The virtual member
`IsNodeInstanceClassCompatible` of the node type is a parameter. -/
def FSMNode_BaseState.SetNodeInstanceClass (IsNodeInstanceClassCompatible : UClass → Bool)
    (Node : FSMNode_BaseState) (NewNodeInstanceClass : Option UClass) (Log : List NodeLogEntry) :
    FSMNode_BaseState × List NodeLogEntry :=
  match NewNodeInstanceClass with
  | some Class =>
    if !IsNodeInstanceClassCompatible Class then
      (Node, Log ++ [.NodeInstanceClassNotCompatible Class Node.GetNodeName])
    else ({ Node with NodeInstanceClass := some Class }, Log)
  | none => ({ Node with NodeInstanceClass := none }, Log)

/-- `FSMNode_Base::CreateNodeInstance()` for the node struct at address `This`. The virtual
members `GetDefaultNodeInstanceClass` and `IsNodeInstanceClassCompatible` of the node type
are parameters; `Objects` are the node instance objects, `NewObject` allocating the next
one. The result is `none` when `check(NodeInstanceClass)` fails. -/
def FSMNode_BaseState.CreateNodeInstance (w : World) (env : Env)
    (GetDefaultNodeInstanceClass : Option UClass)
    (IsNodeInstanceClassCompatible : UClass → Bool) (This : Nat) (Node : FSMNode_BaseState)
    (Objects : List USMNodeInstance) (Log : List NodeLogEntry) :
    Option (FSMNode_BaseState × List USMNodeInstance × List NodeLogEntry) :=
  let r :=
    if Node.NodeInstanceClass.isNone then
      Node.SetNodeInstanceClass IsNodeInstanceClassCompatible GetDefaultNodeInstanceClass Log
    else (Node, Log)
  let Node := r.1
  let Log := r.2
  match Node.NodeInstanceClass with
  | none => none
  | some NodeInstanceClass =>
    let t : Option UObject × List NodeLogEntry :=
      match Node.TemplateName, Node.OwningInstance with
      | some TemplateName, some OwningInstance =>
        match FindTemplateFromInstance w env OwningInstance TemplateName with
        | none => (none, Log ++ [.NodeTemplateNotFound TemplateName Node.GetNodeName])
        | some TemplateInstance => (some TemplateInstance, Log)
      | _, _ => (none, Log)
    let NodeInstance : USMNodeInstance :=
      { Class := NodeInstanceClass, Outer := Node.OwningInstance, Template := t.1,
        OwningNode := none }
    some ({ Node with NodeInstance := some Objects.length },
      Objects ++ [NodeInstance.SetOwningNode (some This)], t.2)

/-- Every instance that is live in the first environment is live in the second, with the
class, context and template it had. -/
def Env.KeepsInstances (env env' : Env) : Prop :=
  ∀ K inst, env.Instances.get? K = some inst →
    ∃ inst', env'.Instances.get? K = some inst' ∧ inst'.Class = inst.Class ∧
      inst'.Context = inst.Context ∧ inst'.Template = inst.Template

/-- A call all of whose returning activations satisfy `Env.KeepsInstances`. -/
def KeepsOK (gsm : GenerateCall) : Prop :=
  ∀ env Instance StateMachineOut RunTimeProperties bDryRun r env',
    gsm env Instance StateMachineOut RunTimeProperties bDryRun = some (r, env') →
    env.KeepsInstances env'

/-- `Reaches props g c`: the state machine with structural GUID `c` is the one with GUID
`g` or is nested below it by the owner GUIDs of the state machine records of `props`. -/
inductive Reaches (props : List FSMNode) : FGuid → FGuid → Prop where
  | self (g : FGuid) : Reaches props g g
  | nested (g c : FGuid) (p : FSMNode) (hp : p ∈ props)
      (hsm : p.Struct.IsChildOfStateMachine = true) (ho : p.OwnerGuid = g)
      (h : Reaches props p.Guid c) : Reaches props g c

/-- The initial states of the state machine at `q`. -/
def Env.EntryStatesOf (env : Env) (q : NodePtr) : List NodePtr :=
  (TMap.Find env.EntryStates q).getD []

/-- No state machine loses an initial state from the first environment to the second. -/
def Env.EntryGrows (env env' : Env) : Prop :=
  ∀ q x, x ∈ env.EntryStatesOf q → x ∈ env'.EntryStatesOf q

/-- A call all of whose returning activations satisfy `Env.EntryGrows`. -/
def EntryGrowsOK (gsm : GenerateCall) : Prop :=
  ∀ env Instance StateMachineOut RunTimeProperties bDryRun r env',
    gsm env Instance StateMachineOut RunTimeProperties bDryRun = some (r, env') →
    env.EntryGrows env'

/-- The transition records of a segment of the enumerated node set that the state machine
with structural GUID `g` owns, as node locations in `Instance`. -/
def OwnedTransitions (Instance : UObjectRef) (g : FGuid) (l : List (Nat × FSMNode)) :
    List NodePtr :=
  (l.filter (fun x => x.2.Struct.IsChildOfTransition && decide (x.2.OwnerGuid = g))).map
    (fun x => ⟨Instance, some x.1⟩)

/-- The state records of a segment of the enumerated node set that the state machine with
structural GUID `g` owns, as node locations in `Instance`. -/
def OwnedStates (Instance : UObjectRef) (g : FGuid) (l : List (Nat × FSMNode)) : List NodePtr :=
  (l.filter (fun x => x.2.Struct.IsChildOfState_Base && decide (x.2.OwnerGuid = g))).map
    (fun x => ⟨Instance, some x.1⟩)

/-- The state records of a node set, as node locations in `Instance`. -/
def StateRecords (Instance : UObjectRef) (props : List FSMNode) : List NodePtr :=
  (props.enum.filter (fun x => x.2.Struct.IsChildOfState_Base)).map (fun x => ⟨Instance, some x.1⟩)

/-- The `AddState` calls `(state machine, state)` that an activation with `d` frames makes
on the state machines of `Instance`, in order: none in the reference branch; in local
assembly one for each state record the state machine owns, followed, for a state machine
record, by those of the nested activation on it. -/
def AddStateCalls : Nat → List FSMNode → UObjectRef → FSMStateMachine → List (NodePtr × NodePtr)
  | 0, _, _, _ => []
  | d + 1, props, Instance, sm =>
    if sm.Node.ClassReference.isSome && Instance.CastSMInstance.isSome then []
    else
      props.enum.flatMap (fun x =>
        if x.2.Struct.IsChildOfState_Base && decide (x.2.OwnerGuid = sm.Node.Guid) then
          (sm.Ptr, ⟨Instance, some x.1⟩) ::
            (if x.2.Struct.IsChildOfStateMachine then
              AddStateCalls d props Instance ⟨⟨Instance, some x.1⟩, x.2⟩
            else [])
        else [])

/-- The states contained in the graph below the state machine at `P`, to `k` levels: the
states of the state machine, each followed by what is contained below it. -/
def Env.Contained (env : Env) : Nat → NodePtr → List NodePtr
  | 0, _ => []
  | k + 1, P => (env.StatesOf P).flatMap (fun s => s :: env.Contained k s)

/-- The `AddState` calls of local assembly with `d` frames left for the nested activations,
at one record. -/
def AddStateCalls.step (d : Nat) (props : List FSMNode) (Instance : UObjectRef)
    (sm : FSMStateMachine) (x : Nat × FSMNode) : List (NodePtr × NodePtr) :=
  if x.2.Struct.IsChildOfState_Base && decide (x.2.OwnerGuid = sm.Node.Guid) then
    (sm.Ptr, ⟨Instance, some x.1⟩) ::
      (if x.2.Struct.IsChildOfStateMachine then
        AddStateCalls d props Instance ⟨⟨Instance, some x.1⟩, x.2⟩
      else [])
  else []

/-- The states that a list of `AddState` calls adds to the state machine at `Q`. -/
def AddedTo (Q : NodePtr) (l : List (NodePtr × NodePtr)) : List NodePtr :=
  (l.filter (fun e => decide (e.1 = Q))).map Prod.snd

/-- `OwnedBelow props g i`: the record at position `i` of `props` is a state record owned
by the state machine with structural GUID `g`, or by a state machine record that is itself
owned below `g`. -/
inductive OwnedBelow (props : List FSMNode) (g : FGuid) : Nat → Prop where
  | direct (i : Nat) (p : FSMNode) (hi : props[i]? = some p)
      (hs : p.Struct.IsChildOfState_Base = true) (ho : p.OwnerGuid = g) : OwnedBelow props g i
  | deeper (i j : Nat) (p q : FSMNode) (hi : props[i]? = some p)
      (hs : p.Struct.IsChildOfState_Base = true) (hj : props[j]? = some q)
      (hsm : q.Struct.IsChildOfStateMachine = true) (ho : p.OwnerGuid = q.Guid)
      (h : OwnedBelow props g j) : OwnedBelow props g i

/-- Every state a state machine contains lies in the object that contains the state
machine. -/
def Env.Closed (env : Env) : Prop :=
  ∀ Q x, x ∈ env.StatesOf Q → x.Container = Q.Container

/-- A call all of whose returning activations on a state machine of the object assembled
keep `Env.Closed`. -/
def ClosedOK (gsm : GenerateCall) : Prop :=
  ∀ env Instance StateMachineOut RunTimeProperties bDryRun r env',
    StateMachineOut.Ptr.Container = Instance → env.Closed →
    gsm env Instance StateMachineOut RunTimeProperties bDryRun = some (r, env') → env'.Closed

/-- From the first environment to the second no live instance is touched (instances are
only added behind the ones there are) and the log is only added to. -/
def Env.Extends (env env' : Env) : Prop :=
  env.Instances <+: env'.Instances ∧ env.Log <+: env'.Log

/-- A call all of whose returning activations satisfy `Env.Extends`. -/
def ExtendsOK (gsm : GenerateCall) : Prop :=
  ∀ env Instance StateMachineOut RunTimeProperties bDryRun r env',
    gsm env Instance StateMachineOut RunTimeProperties bDryRun = some (r, env') → env.Extends env'

/-- `LocalBelow props g i`: the record at position `i` of `props` is a state machine record
owned by the state machine with structural GUID `g`, or by a state machine record without
class reference that is itself below `g`: a node of the graph of the state machine, at any
depth of nesting. -/
inductive LocalBelow (props : List FSMNode) (g : FGuid) : Nat → Prop where
  | inGraph (i : Nat) (p : FSMNode) (hi : props[i]? = some p)
      (hs : p.Struct.IsChildOfStateMachine = true) (ho : p.OwnerGuid = g) : LocalBelow props g i
  | inNested (i j : Nat) (p q : FSMNode) (hi : props[i]? = some p)
      (hs : p.Struct.IsChildOfStateMachine = true) (hj : props[j]? = some q)
      (hsm : q.Struct.IsChildOfStateMachine = true) (hq : q.ClassReference = none)
      (ho : p.OwnerGuid = q.Guid) (h : LocalBelow props g j) : LocalBelow props g i

/-- From the first environment to the second no live instance is touched, the log is only
added to, and, when the thread is assembling, the in-progress counters are as they were. -/
def Env.Within (ThreadId : Nat) (env env' : Env) : Prop :=
  env.Extends env' ∧
  (TMap.Contains env.StateMachinesGeneratingForThread ThreadId = true →
    NestedPost ThreadId env env')

/-- The node record at a location: the property of the class of the instance that contains
it (none for the root state machine member and outside instances). -/
def Env.NodeAt (w : World) (env : Env) (q : NodePtr) : Option FSMNode :=
  match q.Container, q.Property with
  | .SMInstance L, some i =>
    (env.Instances.get? L).bind (fun l => (w.GetClass l.Class).Properties[i]?)
  | _, _ => none

/-- The class the reference node at a location resolves to, after the template lookup
(none when the location holds no reference node). -/
def Env.TargetAt (w : World) (env : Env) (q : NodePtr) : Option UClass :=
  match q.Container with
  | .SMInstance L =>
    (env.NodeAt w q).bind (fun p =>
      if p.Struct.IsChildOfStateMachine then
        p.ClassReference.map (fun cls => GenerateStateMachine.target w env L ⟨q, p⟩ cls false)
      else none)
  | .Object _ => none

/-- The arguments of a call the assembler makes for a live instance: the node set is the
one of the class of the instance, and the state machine is the root state machine of the
instance or one of its state machine records, at its location. -/
def Genuine (w : World) (env : Env) (L : InstId) (sm : FSMStateMachine)
    (props : List FSMNode) : Prop :=
  ∃ l, env.Instances.get? L = some l ∧ props = (w.GetClass l.Class).Properties ∧
    (sm = USMInstance.RootStateMachine (w.GetClass l.Class) L ∨
      ∃ i, sm.Ptr = ⟨.SMInstance L, some i⟩ ∧ props[i]? = some sm.Node ∧
        sm.Node.Struct.IsChildOfStateMachine = true)

/-- The created-reference entry of a class in the bookkeeping of a thread: absent, null
(registered, the instance under construction) or an instance. -/
def Env.Registered (env : Env) (ThreadId : Nat) (D : UClass) : Option (Option InstId) :=
  TMap.Find (env.CurrentGeneration ThreadId).CreatedReferences D

/-- The state machines queued for a class in the bookkeeping of a thread. -/
def Env.QueuedFor (env : Env) (ThreadId : Nat) (D : UClass) : List FSMStateMachine :=
  (TMap.Find (env.CurrentGeneration ThreadId).StateMachinesThatNeedReferences D).getD []

/-- A reuse-mode reference node is settled with respect to the class `D`: it holds the
instance registered for `D`, or `D` is registered without instance and the node is queued
for it. -/
def Env.Good (env : Env) (ThreadId : Nat) (D : UClass) (q : NodePtr) : Prop :=
  (∃ I, env.Registered ThreadId D = some (some I) ∧
    TMap.Find env.InstanceReference q = some I) ∨
  (env.Registered ThreadId D = some none ∧
    ∃ s ∈ env.QueuedFor ThreadId D, s.Ptr = q ∧ s.Node.bReuseReference = true)

/-- Every queued state machine is a node of a live instance, queued for the class it
resolves to. -/
def Env.QueueOK (w : World) (env : Env) (ThreadId : Nat) : Prop :=
  ∀ C s, s ∈ env.QueuedFor ThreadId C →
    env.NodeAt w s.Ptr = some s.Node ∧ env.TargetAt w s.Ptr = some C

/-- What a nested activation does to the registration of the class `D` when every reference
node that resolves to `D` has reuse set: instances keep their class; an entry of `D` stays
as it is, and an absent entry stays absent or becomes a new instance of `D`; a new instance
of `D` is only created from an absent entry and is then the one registered; settled nodes
stay settled. -/
def RegStep (w : World) (ThreadId : Nat) (D : UClass) (a b : Env) : Prop :=
  a.KeepsInstances b ∧
  (∀ v, a.Registered ThreadId D = some v → b.Registered ThreadId D = some v) ∧
  (a.Registered ThreadId D = none → b.Registered ThreadId D = none ∨
    ∃ I l, a.Instances.length ≤ I ∧ b.Instances.get? I = some l ∧ l.Class = D ∧
      b.Registered ThreadId D = some (some I)) ∧
  (∀ L l, a.Instances.length ≤ L → b.Instances.get? L = some l → l.Class = D →
    a.Registered ThreadId D = none ∧ b.Registered ThreadId D = some (some L)) ∧
  (∀ q, a.TargetAt w q = some D → a.Good ThreadId D q → b.Good ThreadId D q)

/-- What holds from the return of a nested activation to the return of an enclosing one:
instances keep their class, a registered instance stays registered, settled nodes stay
settled. -/
def RegAfter (w : World) (ThreadId : Nat) (D : UClass) (a b : Env) : Prop :=
  a.KeepsInstances b ∧
  (∀ I, a.Registered ThreadId D = some (some I) → b.Registered ThreadId D = some (some I)) ∧
  (∀ q, a.TargetAt w q = some D → a.Good ThreadId D q → b.Good ThreadId D q)

/-- A call all of whose returning nested non-dry-run activations for a live instance keep
the queue well-formed, are a `RegStep`, and settle the node they are called on when it
resolves to `D`. -/
def RegOK (w : World) (ThreadId : Nat) (D : UClass) (gsm : GenerateCall) : Prop :=
  ∀ env L sm props r env', Genuine w env L sm props →
    TMap.Contains env.StateMachinesGeneratingForThread ThreadId = true →
    env.QueueOK w ThreadId →
    gsm env (.SMInstance L) sm props false = some (r, env') →
    env'.QueueOK w ThreadId ∧ RegStep w ThreadId D env env' ∧
    (env.TargetAt w sm.Ptr = some D → env'.Good ThreadId D sm.Ptr)

/-- The invariant of the first pass for the registration of a class: the thread is
assembling, the queue is well-formed and the instance assembled is live with the node set
of its class. -/
def RegPre (w : World) (tid : Nat) (L : InstId) (props : List FSMNode) (e : Env) : Prop :=
  TMap.Contains e.StateMachinesGeneratingForThread tid = true ∧ e.QueueOK w tid ∧
  ∃ l, e.Instances.get? L = some l ∧ props = (w.GetClass l.Class).Properties


/-- Between the environments `a` and `b` the call `gsm` was made on the state machine
record `p` at position `i` of the instance `L`: it started in an environment reached from
`a`, returned, and left the node settled when it resolves to `D`; `b` is reached from the
environment it returned. -/
def RegVisit (w : World) (tid : Nat) (D : UClass) (gsm : GenerateCall) (L : InstId)
    (props : List FSMNode) (a b : Env) (i : Nat) (p : FSMNode) : Prop :=
  ∃ e₁ r₁ e₂, gsm e₁ (.SMInstance L) ⟨⟨.SMInstance L, some i⟩, p⟩ props false = some (r₁, e₂) ∧
    RegPre w tid L props e₁ ∧ RegStep w tid D a e₁ ∧ e₂.QueueOK w tid ∧
    RegAfter w tid D e₂ b ∧
    (e₁.TargetAt w ⟨.SMInstance L, some i⟩ = some D → e₂.Good tid D ⟨.SMInstance L, some i⟩)

/-- A call on the reference node at position `i` of the instance `K` of the class `D` was
made while `D` was registered without instance: it returned true, created nothing, set no
instance reference and left the node queued for `D`. -/
def QueuedCall (w : World) (tid : Nat) (D : UClass) (K : InstId) (i : Nat) : Prop :=
  ∃ d e₁ e₂ p, (w.GetClass D).Properties[i]? = some p ∧
    GenerateStateMachine w tid d e₁ (.SMInstance K) ⟨⟨.SMInstance K, some i⟩, p⟩
      (w.GetClass D).Properties false = some (true, e₂) ∧
    e₁.Registered tid D = some none ∧ e₂.Instances = e₁.Instances ∧
    e₂.InstanceReference = e₁.InstanceReference ∧
    (⟨⟨.SMInstance K, some i⟩, p⟩ : FSMStateMachine) ∈ e₂.QueuedFor tid D

/-- Every reference node that lies in the graph of an instance created from the first
environment to the second and resolves to `D` is settled in the second; when the instance
is itself of the class `D`, the node was queued while the instance was under construction. -/
def NewGood (w : World) (tid : Nat) (D : UClass) (a b : Env) : Prop :=
  ∀ K k i, a.Instances.length ≤ K → b.Instances.get? K = some k →
    LocalBelow (w.GetClass k.Class).Properties (w.GetClass k.Class).RootStateMachineGuid i →
    b.TargetAt w ⟨.SMInstance K, some i⟩ = some D →
    b.Good tid D ⟨.SMInstance K, some i⟩ ∧ (k.Class = D → QueuedCall w tid D K i)

/-- A call all of whose returning nested non-dry-run activations for a live instance
satisfy `NewGood`. -/
def NewOK (w : World) (tid : Nat) (D : UClass) (gsm : GenerateCall) : Prop :=
  ∀ env L sm props r env', Genuine w env L sm props →
    TMap.Contains env.StateMachinesGeneratingForThread tid = true →
    env.QueueOK w tid →
    gsm env (.SMInstance L) sm props false = some (r, env') → NewGood w tid D env env'

/-- A world of two classes, used at concrete inputs. The graph of class 0 holds a state, a
nested state machine that contains a reuse-mode reference node to class 0 itself
(position 2), and a reference node without reuse to class 1; the graph of class 1 holds a
reuse-mode reference node to class 0. -/
def World.selfReuse : World :=
  [UClassDef.ofProperties 1
    [FSMNode.state 2 1 true, FSMNode.stateMachine 3 1 none false,
      FSMNode.stateMachine 4 3 (some 0) true, FSMNode.stateMachine 5 1 (some 1) false],
   UClassDef.ofProperties 1 [FSMNode.stateMachine 6 1 (some 0) true]]

/-- A reference node holds an instance of its own: its instance reference is an instance
created after the first `n`, of the class `D`, whose reference owner is the instance that
contains the node. -/
def Env.Owns (env : Env) (n : Nat) (D : UClass) (q : NodePtr) : Prop :=
  ∃ L i I k, q = ⟨.SMInstance L, some i⟩ ∧ TMap.Find env.InstanceReference q = some I ∧
    n ≤ I ∧ env.Instances.get? I = some k ∧ k.Class = D ∧ k.ReferenceOwner = some L

/-- A reference node without reuse has been served: it holds an instance of its own, or
the circular-reference error was logged, after the first `m` messages, for the instance
that contains it. -/
def Env.Served (env : Env) (n m : Nat) (D : UClass) (q : NodePtr) : Prop :=
  env.Owns n D q ∨
  ∃ L, q.Container = .SMInstance L ∧ LogEntry.CircularReferencing L ∈ env.Log.drop m

/-- No node holds the instance as its instance reference and no class is registered with
it. -/
def Env.Unreferenced (env : Env) (tid : Nat) (I : InstId) : Prop :=
  (∀ q, TMap.Find env.InstanceReference q ≠ some I) ∧
  ∀ C, env.Registered tid C ≠ some (some I)

/-- The state invariant for a class `D` all of whose reference nodes have reuse disabled:
the queue is well-formed, instance references and registrations refer to live instances, a
registered instance has the class it is registered for, and no two nodes hold the same new
instance of `D`. -/
def OwnInv (w : World) (tid : Nat) (D : UClass) (n m : Nat) (e : Env) : Prop :=
  e.QueueOK w tid ∧ n ≤ e.Instances.length ∧ m ≤ e.Log.length ∧
  (∀ q I, TMap.Find e.InstanceReference q = some I → I < e.Instances.length) ∧
  (∀ C J, e.Registered tid C = some (some J) → ∃ k, e.Instances.get? J = some k ∧ k.Class = C) ∧
  (∀ q q' I k, TMap.Find e.InstanceReference q = some I →
    TMap.Find e.InstanceReference q' = some I → n ≤ I → e.Instances.get? I = some k →
    k.Class = D → q = q')

/-- What holds from the return of a nested activation to the return of an enclosing one,
for a class all of whose reference nodes have reuse disabled: instances keep their class,
the log is only added to, an instance that has a reference owner is left as it is, and a
served node stays served. -/
def OwnAfter (w : World) (tid : Nat) (D : UClass) (n m : Nat) (a b : Env) : Prop :=
  a.KeepsInstances b ∧ a.Log <+: b.Log ∧
  (∀ K k, a.Instances.get? K = some k → k.ReferenceOwner.isSome = true →
    b.Instances.get? K = some k) ∧
  (∀ q, a.TargetAt w q = some D → a.Served n m D q → b.Served n m D q)

/-- What a nested activation does, for a class all of whose reference nodes have reuse
disabled: `OwnAfter`, and a live instance that is unreferenced stays unreferenced. -/
def OwnStep (w : World) (tid : Nat) (D : UClass) (n m : Nat) (a b : Env) : Prop :=
  OwnAfter w tid D n m a b ∧
  (∀ I, I < a.Instances.length → a.Unreferenced tid I → b.Unreferenced tid I)

/-- A call all of whose returning nested non-dry-run activations for a live instance keep
`OwnInv`, are an `OwnStep`, and serve the node they are called on when it resolves to `D`. -/
def OwnOK (w : World) (tid : Nat) (D : UClass) (n m : Nat) (gsm : GenerateCall) : Prop :=
  ∀ env L sm props r env', Genuine w env L sm props →
    TMap.Contains env.StateMachinesGeneratingForThread tid = true →
    OwnInv w tid D n m env →
    gsm env (.SMInstance L) sm props false = some (r, env') →
    OwnInv w tid D n m env' ∧ OwnStep w tid D n m env env' ∧
    (env.TargetAt w sm.Ptr = some D → env'.Served n m D sm.Ptr)

/-- The invariant of the first pass, for a class all of whose reference nodes have reuse
disabled. -/
def OwnPre (w : World) (tid : Nat) (D : UClass) (n m : Nat) (L : InstId)
    (props : List FSMNode) (e : Env) : Prop :=
  TMap.Contains e.StateMachinesGeneratingForThread tid = true ∧ OwnInv w tid D n m e ∧
  ∃ l, e.Instances.get? L = some l ∧ props = (w.GetClass l.Class).Properties

/-- Between the environments `a` and `b` the call `gsm` was made on the state machine
record `p` at position `i` of the instance `L`, and served the node when it resolves to
`D`. -/
def OwnVisit (w : World) (tid : Nat) (D : UClass) (n m : Nat) (gsm : GenerateCall)
    (L : InstId) (props : List FSMNode) (a b : Env) (i : Nat) (p : FSMNode) : Prop :=
  ∃ e₁ r₁ e₂, gsm e₁ (.SMInstance L) ⟨⟨.SMInstance L, some i⟩, p⟩ props false = some (r₁, e₂) ∧
    OwnPre w tid D n m L props e₁ ∧ OwnStep w tid D n m a e₁ ∧ OwnInv w tid D n m e₂ ∧
    OwnAfter w tid D n m e₂ b ∧
    (e₁.TargetAt w ⟨.SMInstance L, some i⟩ = some D →
      e₂.Served n m D ⟨.SMInstance L, some i⟩)

/-- The instance `I` of the class `D` was created by the resolution of a reference node
that resolves to `D`: a non-dry-run activation for a node of a live instance `L`, entered
after the environment `A` when `I` was the next instance to be created, which returned
before the environment `B` with `I` as the instance reference of the node and `L` as the
reference owner of `I`. -/
def CreatedFor (w : World) (ThreadId : Nat) (D : UClass) (A B : Env) (I : InstId) : Prop :=
  ∃ d a b L sm props r, Genuine w a L sm props ∧ a.TargetAt w sm.Ptr = some D ∧
    GenerateStateMachine w ThreadId d a (.SMInstance L) sm props false = some (r, b) ∧
    A.KeepsInstances a ∧ A.Log <+: a.Log ∧ b.KeepsInstances B ∧ b.Log <+: B.Log ∧
    a.Instances.length = I ∧ TMap.Find b.InstanceReference sm.Ptr = some I ∧
    ∃ k, b.Instances.get? I = some k ∧ k.Class = D ∧ k.ReferenceOwner = some L

/-- Every reference node that lies in the graph of an instance created from the first
environment to the second and resolves to `D` is served in the second, and every instance
of `D` created from the first environment to the second was created by the resolution of a
reference node that resolves to `D`. -/
def OwnNew (w : World) (tid : Nat) (D : UClass) (n m : Nat) (a b : Env) : Prop :=
  ∀ K k, a.Instances.length ≤ K → b.Instances.get? K = some k →
    (∀ i, LocalBelow (w.GetClass k.Class).Properties (w.GetClass k.Class).RootStateMachineGuid i →
      b.TargetAt w ⟨.SMInstance K, some i⟩ = some D →
      b.Served n m D ⟨.SMInstance K, some i⟩) ∧
    (k.Class = D → CreatedFor w tid D a b K)

/-- A call all of whose returning nested non-dry-run activations for a live instance
satisfy `OwnNew`. -/
def OwnNewOK (w : World) (tid : Nat) (D : UClass) (n m : Nat) (gsm : GenerateCall) : Prop :=
  ∀ env L sm props r env', Genuine w env L sm props →
    TMap.Contains env.StateMachinesGeneratingForThread tid = true →
    OwnInv w tid D n m env →
    gsm env (.SMInstance L) sm props false = some (r, env') → OwnNew w tid D n m env env'

/-- A world of two classes: the graph of class 0 holds two reference nodes without reuse to
class 1 (positions 0 and 2) and a state; the graph of class 1 holds a state. -/
def World.twice : World :=
  [UClassDef.ofProperties 1
    [FSMNode.stateMachine 2 1 (some 1) false, FSMNode.state 3 1 true,
      FSMNode.stateMachine 4 1 (some 1) false],
   UClassDef.ofProperties 5 [FSMNode.state 6 5 true]]

/-! # Theorems -/

/-! ## Facts about the containers -/

namespace TMap
variable {κ ν : Type} [DecidableEq κ]

theorem Find_Add_self (m : TMap κ ν) (k : κ) (v : ν) : Find (Add m k v) k = some v := by
  induction m with
  | nil => simp [Add, Find]
  | cons a m ih =>
    obtain ⟨k', v'⟩ := a
    by_cases h : k' = k
    · simp [Add, Find, h]
    · simp [Add, Find, h, ih]

theorem Find_Add_ne (m : TMap κ ν) {k k' : κ} (v : ν) (h : k ≠ k') :
    Find (Add m k v) k' = Find m k' := by
  induction m with
  | nil => simp [Add, Find, h]
  | cons a m ih =>
    obtain ⟨k₁, v₁⟩ := a
    by_cases h₁ : k₁ = k
    · subst h₁
      simp [Add, Find, h]
    · by_cases h₂ : k₁ = k'
      · subst h₂
        simp [Add, Find, h₁]
      · simp [Add, Find, h₁, h₂, ih]

theorem Find_Add (m : TMap κ ν) (k k' : κ) (v : ν) :
    Find (Add m k v) k' = if k = k' then some v else Find m k' := by
  by_cases h : k = k'
  · subst h; simp [Find_Add_self]
  · simp [h, Find_Add_ne]

theorem Find_Remove_self (m : TMap κ ν) (k : κ) : Find (Remove m k) k = none := by
  induction m with
  | nil => simp [Remove, Find]
  | cons a m ih =>
    obtain ⟨k', v'⟩ := a
    by_cases h : k' = k
    · simp [Remove, h, ih]
    · simp [Remove, Find, h, ih]

theorem Find_Remove_ne (m : TMap κ ν) {k k' : κ} (h : k ≠ k') :
    Find (Remove m k) k' = Find m k' := by
  induction m with
  | nil => simp [Remove, Find]
  | cons a m ih =>
    obtain ⟨k₁, v₁⟩ := a
    by_cases h₁ : k₁ = k
    · subst h₁
      simp [Remove, Find, h, ih]
    · by_cases h₂ : k₁ = k'
      · subst h₂
        simp [Remove, Find, h₁]
      · simp [Remove, Find, h₁, h₂, ih]

theorem Find_FindOrAdd (m : TMap κ ν) (k k' : κ) (d : ν) :
    Find (FindOrAdd m k d).2 k' = if k = k' then some ((Find m k).getD d) else Find m k' := by
  unfold FindOrAdd
  cases h : Find m k with
  | some v =>
    by_cases hk : k = k'
    · subst hk; simp [h]
    · simp [hk]
  | none => simp [Find_Add]

theorem FindOrAdd_fst (m : TMap κ ν) (k : κ) (d : ν) : (FindOrAdd m k d).1 = (Find m k).getD d := by
  unfold FindOrAdd
  cases h : Find m k <;> simp

end TMap

/-! ## Decimal rendering -/

theorem digitValue_digitChar (k : Nat) (h : k < 10) : digitValue (Nat.digitChar k) = k := by
  interval_cases k <;> rfl

theorem decimalValue_toDigitsCore (f : Nat) : ∀ (n : Nat) (ds : List Char), n < f →
    decimalValue 0 (Nat.toDigitsCore 10 f n ds) = decimalValue n ds := by
  induction f with
  | zero => intro n ds h; omega
  | succ f ih =>
    intro n ds h
    simp only [Nat.toDigitsCore]
    by_cases h0 : n / 10 = 0
    · simp only [h0, if_true]
      have hn : n % 10 = n := by omega
      have hd := digitValue_digitChar (n % 10) (Nat.mod_lt _ (by decide))
      rw [hn] at hd ⊢
      simp [decimalValue, hd]
    · simp only [h0, if_false]
      rw [ih (n / 10) _ (by omega)]
      simp only [decimalValue, List.foldl_cons, digitValue_digitChar (n % 10) (Nat.mod_lt _ (by decide))]
      congr 1
      omega

theorem decimalValue_toDigits (n : Nat) : decimalValue 0 (Nat.toDigits 10 n) = n := by
  unfold Nat.toDigits
  rw [decimalValue_toDigitsCore (n + 1) n [] (by omega)]
  rfl

theorem toDigits_injective {a b : Nat} (h : Nat.toDigits 10 a = Nat.toDigits 10 b) : a = b := by
  have := congrArg (decimalValue 0) h
  simpa [decimalValue_toDigits] using this

theorem FromInt_ofNat (n : Nat) : FromInt (n : Int) = Nat.repr n := by
  simp [FromInt, Nat.repr, List.asString]

theorem FromInt_injective_of_nonneg {a b : Int} (ha : 0 ≤ a) (hb : 0 ≤ b)
    (h : FromInt a = FromInt b) : a = b := by
  obtain ⟨x, rfl⟩ := Int.eq_ofNat_of_zero_le ha
  obtain ⟨y, rfl⟩ := Int.eq_ofNat_of_zero_le hb
  simp only [FromInt, Int.natAbs_ofNat] at h
  have hx : ¬ ((x : Int) < 0) := by omega
  have hy : ¬ ((y : Int) < 0) := by omega
  simp only [hx, hy, if_false] at h
  exact congrArg _ (toDigits_injective (congrArg String.data h))

/-! ## Path building -/

theorem BuildGuidPathFromNodes_some (G : FGuid → String) (Nodes : List FSMNode_Base)
    (m : TMap String Int) :
    ∃ m', BuildGuidPathFromNodes G Nodes (some m) =
        (if PathCount m (BuildGuidPathFromNodes.join G Nodes) + 1 > 1 then
            BuildGuidPathFromNodes.join G Nodes ++
              ("_" ++ FromInt (PathCount m (BuildGuidPathFromNodes.join G Nodes)))
          else BuildGuidPathFromNodes.join G Nodes, some m') ∧
      ∀ q, PathCount m' q =
        if BuildGuidPathFromNodes.join G Nodes = q then PathCount m q + 1 else PathCount m q := by
  refine ⟨TMap.Add (TMap.FindOrAdd m (BuildGuidPathFromNodes.join G Nodes) 0).2
      (BuildGuidPathFromNodes.join G Nodes)
      ((TMap.FindOrAdd m (BuildGuidPathFromNodes.join G Nodes) 0).1 + 1), ?_, ?_⟩
  · simp only [BuildGuidPathFromNodes, TMap.FindOrAdd_fst, PathCount]
    split <;> simp_all
  · intro q
    simp only [PathCount, TMap.Find_Add, TMap.Find_FindOrAdd, TMap.FindOrAdd_fst]
    by_cases h : BuildGuidPathFromNodes.join G Nodes = q <;> simp [h]

theorem join_eq_intercalate (G : FGuid → String) (Nodes : List FSMNode_Base) :
    BuildGuidPathFromNodes.join G Nodes = "/".intercalate (GuidStrings G Nodes) := by
  have go : ∀ (rest : List FSMNode_Base) (n : FSMNode_Base) (acc : String),
      String.intercalate.go acc "/" (GuidStrings G (n :: rest)) =
        acc ++ "/" ++ BuildGuidPathFromNodes.join G (n :: rest) := by
    intro rest
    induction rest with
    | nil => intro n acc; simp [GuidStrings, String.intercalate.go, BuildGuidPathFromNodes.join]
    | cons a rest ih =>
      intro n acc
      have := ih a (acc ++ "/" ++ G n.GetNodeGuid)
      simp only [GuidStrings, List.map_cons, String.intercalate.go] at this ⊢
      rw [this]
      simp [BuildGuidPathFromNodes.join, String.append_assoc]
  cases Nodes with
  | nil => rfl
  | cons n rest =>
    cases rest with
    | nil => simp [GuidStrings, String.intercalate, String.intercalate.go, BuildGuidPathFromNodes.join]
    | cons a rest =>
      have := go rest a (G n.GetNodeGuid)
      simp only [GuidStrings, List.map_cons, String.intercalate, BuildGuidPathFromNodes.join] at this ⊢
      rw [this]

theorem join_no_underscore (G : FGuid → String) (Nodes : List FSMNode_Base)
    (h : ∀ n ∈ Nodes, '_' ∉ (G n.GetNodeGuid).data) :
    '_' ∉ (BuildGuidPathFromNodes.join G Nodes).data := by
  induction Nodes with
  | nil => simp [BuildGuidPathFromNodes.join]
  | cons n rest ih =>
    cases rest with
    | nil => simpa [BuildGuidPathFromNodes.join] using h
    | cons a rest =>
      have h1 := h n (by simp)
      have h2 := ih (fun x hx => h x (List.mem_cons_of_mem _ hx))
      simp only [BuildGuidPathFromNodes.join, String.data_append, List.mem_append, not_or]
      refine ⟨⟨h1, by decide⟩, h2⟩

theorem split_at_first {α : Type} (c : α) : ∀ (l₁ l₂ r₁ r₂ : List α), c ∉ l₁ → c ∉ l₂ →
    l₁ ++ c :: r₁ = l₂ ++ c :: r₂ → l₁ = l₂ ∧ r₁ = r₂ := by
  intro l₁
  induction l₁ with
  | nil =>
    intro l₂ r₁ r₂ _ h₂ h
    cases l₂ with
    | nil => simpa using h
    | cons b l₂ =>
      simp only [List.nil_append, List.cons_append, List.cons.injEq] at h
      exact absurd (h.1 ▸ List.mem_cons_self _ _) h₂
  | cons a l₁ ih =>
    intro l₂ r₁ r₂ h₁ h₂ h
    cases l₂ with
    | nil =>
      simp only [List.nil_append, List.cons_append, List.cons.injEq] at h
      exact absurd (h.1 ▸ List.mem_cons_self _ _) h₁
    | cons b l₂ =>
      simp only [List.cons_append, List.cons.injEq] at h
      obtain ⟨hab, ht⟩ := h
      have := ih l₂ r₁ r₂ (fun hm => h₁ (List.mem_cons_of_mem _ hm))
        (fun hm => h₂ (List.mem_cons_of_mem _ hm)) ht
      exact ⟨by rw [hab, this.1], this.2⟩

/-- The string a call returns for a path whose count was `c` before the call. -/
theorem suffixed_injective {P Q : String} {c d : Int} (hP : '_' ∉ P.data) (hQ : '_' ∉ Q.data)
    (hc : 0 ≤ c) (hd : 0 ≤ d)
    (h : (if c + 1 > 1 then P ++ ("_" ++ FromInt c) else P) =
         (if d + 1 > 1 then Q ++ ("_" ++ FromInt d) else Q)) : P = Q ∧ c = d := by
  have key : ∀ (s : String) (x : Int), (s ++ ("_" ++ FromInt x)).data = s.data ++ '_' :: (FromInt x).data := by
    intro s x; simp [String.data_append]
  by_cases h1 : c + 1 > 1 <;> by_cases h2 : d + 1 > 1 <;> simp only [h1, h2, if_true, if_false] at h
  · have := congrArg String.data h
    rw [key, key] at this
    obtain ⟨hl, hr⟩ := split_at_first '_' _ _ _ _ hP hQ this
    have hs : FromInt c = FromInt d := String.ext hr
    exact ⟨String.ext hl, FromInt_injective_of_nonneg hc hd hs⟩
  · exfalso
    have := congrArg String.data h
    rw [key] at this
    exact hQ (this ▸ (by simp))
  · exfalso
    have := congrArg String.data h
    rw [key] at this
    exact hP (this ▸ (by simp))
  · exact ⟨h, by omega⟩

theorem BuildGuidPaths_spec (G : FGuid → String) (calls : List (List FSMNode_Base))
    (hG : ∀ chain ∈ calls, ∀ n ∈ chain, '_' ∉ (G n.GetNodeGuid).data) :
    ∀ m : TMap String Int, (∀ q, 0 ≤ PathCount m q) →
      (BuildGuidPaths G calls m).1.Nodup ∧
      ∀ r ∈ (BuildGuidPaths G calls m).1, ∃ (P : String) (c : Int), '_' ∉ P.data ∧ PathCount m P ≤ c ∧
        r = (if c + 1 > 1 then P ++ ("_" ++ FromInt c) else P) := by
  induction calls with
  | nil => intro m _; simp [BuildGuidPaths]
  | cons Nodes rest ih =>
    intro m hm
    obtain ⟨m', hb, hcnt⟩ := BuildGuidPathFromNodes_some G Nodes m
    have hP := join_no_underscore G Nodes (hG Nodes (by simp))
    have hm' : ∀ q, 0 ≤ PathCount m' q := by
      intro q; rw [hcnt q]; have := hm q; split <;> omega
    obtain ⟨hnd, hmem⟩ := ih (fun chain hc => hG chain (List.mem_cons_of_mem _ hc)) m' hm'
    simp only [BuildGuidPaths, hb, Option.getD_some]
    refine ⟨List.nodup_cons.mpr ⟨?_, hnd⟩, ?_⟩
    · intro hin
      obtain ⟨Q, d, hQ, hd, hr⟩ := hmem _ hin
      have hd0 : 0 ≤ d := le_trans (hm' Q) hd
      obtain ⟨hPQ, hcd⟩ := suffixed_injective hP hQ (hm _) hd0 hr
      subst hPQ
      rw [hcnt] at hd
      simp at hd
      omega
    · intro r hr
      rcases List.mem_cons.mp hr with rfl | hr
      · exact ⟨_, _, hP, le_refl _, rfl⟩
      · obtain ⟨Q, d, hQ, hd, hr⟩ := hmem _ hr
        refine ⟨Q, d, hQ, ?_, hr⟩
        rw [hcnt] at hd
        split at hd <;> omega

theorem PathCount_nil (q : String) : PathCount [] q = 0 := rfl

theorem BuildGuidPaths_count (G : FGuid → String) (calls : List (List FSMNode_Base)) :
    ∀ (m : TMap String Int) (P : String),
      PathCount (BuildGuidPaths G calls m).2 P =
        PathCount m P + ((calls.filter (fun c => decide (BuildGuidPathFromNodes.join G c = P))).length : Int) := by
  induction calls with
  | nil => intro m P; simp [BuildGuidPaths]
  | cons Nodes rest ih =>
    intro m P
    obtain ⟨m', hb, hcnt⟩ := BuildGuidPathFromNodes_some G Nodes m
    simp only [BuildGuidPaths, hb, Option.getD_some, ih m' P, hcnt P, List.filter_cons]
    by_cases h : BuildGuidPathFromNodes.join G Nodes = P <;> simp [h]
    omega




theorem TryGetAllOwners_loop_none (n : FSMNode_Base) :
    ∀ acc : List FSMNode_Base,
      (TryGetAllOwners.loop none n acc).reverse = n.OwnersFromRoot ++ acc.reverse := by
  induction n with
  | root g i => intro acc; simp [TryGetAllOwners.loop, FSMNode_Base.OwnersFromRoot]
  | child g i o ih =>
    intro acc
    rw [TryGetAllOwners.loop]
    simp [ih, FSMNode_Base.OwnersFromRoot]

theorem OwnersFromRoot_ne_nil (n : FSMNode_Base) : n.OwnersFromRoot ≠ [] := by
  cases n <;> simp [FSMNode_Base.OwnersFromRoot]

theorem OwnersFromRoot_getLast (n : FSMNode_Base) : n.OwnersFromRoot.getLast? = some n := by
  cases n <;> simp [FSMNode_Base.OwnersFromRoot]

theorem OwnersFromRoot_head (n : FSMNode_Base) :
    ∃ r, n.OwnersFromRoot.head? = some r ∧ r.GetOwnerNode = none := by
  induction n with
  | root g i => exact ⟨_, rfl, rfl⟩
  | child g i o ih =>
    obtain ⟨r, hr, ho⟩ := ih
    refine ⟨r, ?_, ho⟩
    simp only [FSMNode_Base.OwnersFromRoot]
    cases h : o.OwnersFromRoot with
    | nil => exact absurd h (OwnersFromRoot_ne_nil o)
    | cons a l => rw [h] at hr; simpa using hr

theorem OwnersFromRoot_chain (n : FSMNode_Base) :
    List.Chain' (fun a b => b.GetOwnerNode = some a) n.OwnersFromRoot := by
  induction n with
  | root g i => simp [FSMNode_Base.OwnersFromRoot]
  | child g i o ih =>
    simp only [FSMNode_Base.OwnersFromRoot]
    refine List.Chain'.append ih (by simp) ?_
    intro x hx y hy
    rw [OwnersFromRoot_getLast] at hx
    simp only [List.head?_cons, Option.mem_def, Option.some.injEq] at hx hy
    subst hx hy
    rfl

/-- C7: for every sequence of `BuildGuidPathFromNodes` calls that share one initially empty
path-occurrence map, where every node GUID renders as a non-empty string containing neither
a slash nor an underscore, the returned path strings are pairwise distinct, and so are the
path GUIDs wherever the digest does not collide on them; in particular two chains with
identical GUIDs get different paths, the earlier call the unsuffixed one and the later one
the path followed by `_1`. -/
theorem C7_paths_pairwise_distinct (G : FGuid → String) (PathToGuid : String → FGuid)
    (calls : List (List FSMNode_Base))
    (hG : ∀ chain ∈ calls, ∀ n ∈ chain, GuidStringOk (G n.GetNodeGuid))
    (hDigest : Set.InjOn PathToGuid {p | p ∈ (BuildGuidPaths G calls []).1})
    (A B : List FSMNode_Base)
    (hAB : A.map FSMNode_Base.GetNodeGuid = B.map FSMNode_Base.GetNodeGuid) :
    (BuildGuidPaths G calls []).1.Pairwise (fun p q => p ≠ q) ∧
    ((BuildGuidPaths G calls []).1.map PathToGuid).Pairwise (fun p q => p ≠ q) ∧
    (BuildGuidPaths G [A, B] []).1 =
      [BuildGuidPathFromNodes.join G A, BuildGuidPathFromNodes.join G A ++ "_1"] ∧
    BuildGuidPathFromNodes.join G A ≠ BuildGuidPathFromNodes.join G A ++ "_1" := by
  have hnd : (BuildGuidPaths G calls []).1.Nodup :=
    (BuildGuidPaths_spec G calls (fun chain hc n hn => (hG chain hc n hn).2.2) []
      (fun q => le_of_eq (PathCount_nil q).symm)).1
  have hjoin : BuildGuidPathFromNodes.join G B = BuildGuidPathFromNodes.join G A := by
    rw [join_eq_intercalate, join_eq_intercalate]
    have : GuidStrings G B = GuidStrings G A := by
      have h := congrArg (List.map G) hAB
      simpa [GuidStrings, List.map_map, Function.comp_def] using h.symm
    rw [this]
  refine ⟨hnd, ?_, ?_, ?_⟩
  · exact List.Nodup.map_on (fun x hx y hy h => hDigest hx hy h) hnd
  · obtain ⟨m₁, h₁, c₁⟩ := BuildGuidPathFromNodes_some G A []
    obtain ⟨m₂, h₂, _⟩ := BuildGuidPathFromNodes_some G B m₁
    have hc : PathCount m₁ (BuildGuidPathFromNodes.join G A) = 1 := by
      rw [c₁]; simp [PathCount_nil]
    simp only [BuildGuidPaths, h₁, h₂, Option.getD_some, PathCount_nil, hjoin, hc]
    simp only [zero_add, gt_iff_lt, lt_self_iff_false, if_false]
    have : FromInt 1 = "1" := by decide
    simp [this, String.append_assoc]
  · intro h
    have := congrArg String.length h
    simp [String.length_append] at this
    have h1 : "_1".length = 2 := by decide
    omega

/-- C7, at an instance: two calls on the same one-node chain. -/
theorem C7_paths_pairwise_distinct_witness :
    (BuildGuidPaths (fun _ => "a") [[.root 1 none], [.root 1 none]] []).1.Pairwise
      (fun p q => p ≠ q) :=
  (C7_paths_pairwise_distinct (fun _ => "a") String.length [[.root 1 none], [.root 1 none]]
    (by intro chain _ n _; exact ⟨by simp, by simp, by simp⟩)
    (by
      intro x hx y hy h
      have e : (BuildGuidPaths (fun _ => "a") [[FSMNode_Base.root 1 none], [.root 1 none]] []).1
          = ["a", "a_1"] := by decide
      simp only [e, Set.mem_setOf_eq, List.mem_cons, List.mem_singleton, List.not_mem_nil,
        or_false] at hx hy
      rcases hx with rfl | rfl <;> rcases hy with rfl | rfl <;> first | rfl | (exfalso; revert h; decide))
    [.root 1 none] [.root 1 none] rfl).1

/-- The `k`-th call for a path, with the path written as the result of the first loop of
`BuildGuidPathFromNodes`. -/
theorem kth_occurrence_join (G : FGuid → String) (earlier : List (List FSMNode_Base))
    (Nodes : List FSMNode_Base) :
    let Path := BuildGuidPathFromNodes.join G Nodes
    let m := (BuildGuidPaths G earlier []).2
    let k := (earlier.filter (fun c => decide (BuildGuidPathFromNodes.join G c = Path))).length + 1
    let r := BuildGuidPathFromNodes G Nodes (some m)
    r.1 = (if k = 1 then Path else Path ++ "_" ++ Nat.repr (k - 1)) ∧
    PathCount m Path = (k : Int) - 1 ∧
    (∀ q, PathCount (r.2.getD m) q = if q = Path then (k : Int) else PathCount m q) ∧
    (BuildGuidPaths G [Nodes, Nodes, Nodes] []).1 = [Path, Path ++ "_1", Path ++ "_2"] := by
  intro Path m k r
  obtain ⟨m', hb, hcnt⟩ := BuildGuidPathFromNodes_some G Nodes m
  have hm : PathCount m Path = ((k - 1 : Nat) : Int) := by
    have := BuildGuidPaths_count G earlier [] Path
    simp only [PathCount_nil, zero_add] at this
    simp only [m, k, this, Nat.add_sub_cancel]
  have hk : 1 ≤ k := Nat.le_add_left 1 _
  refine ⟨?_, ?_, ?_, ?_⟩
  · show (BuildGuidPathFromNodes G Nodes (some m)).1 = _
    rw [hb]
    show (if PathCount m Path + 1 > 1 then Path ++ ("_" ++ FromInt (PathCount m Path)) else Path) = _
    rw [hm, FromInt_ofNat]
    by_cases h1 : k = 1
    · simp [h1]
    · have : ((k - 1 : Nat) : Int) + 1 > 1 := by omega
      rw [if_pos this, if_neg h1, String.append_assoc]
  · rw [hm]; omega
  · intro q
    show PathCount ((BuildGuidPathFromNodes G Nodes (some m)).2.getD m) q = _
    rw [hb]
    simp only [Option.getD_some, hcnt q]
    by_cases hq : q = Path
    · subst hq
      rw [if_pos rfl, if_pos rfl, hm]
      omega
    · rw [if_neg (fun h => hq h.symm), if_neg hq]
  · obtain ⟨m₁, h₁, c₁⟩ := BuildGuidPathFromNodes_some G Nodes []
    obtain ⟨m₂, h₂, c₂⟩ := BuildGuidPathFromNodes_some G Nodes m₁
    obtain ⟨m₃, h₃, _⟩ := BuildGuidPathFromNodes_some G Nodes m₂
    have e₁ : PathCount m₁ Path = 1 := by rw [c₁]; simp [PathCount_nil]
    have e₂ : PathCount m₂ Path = 2 := by rw [c₂, e₁]; simp
    have f₁ : FromInt 1 = "1" := by decide
    have f₂ : FromInt 2 = "2" := by decide
    simp only [BuildGuidPaths, h₁, h₂, h₃, Option.getD_some, PathCount_nil]
    show [_, _, _] = _
    simp only [Path] at e₁ e₂
    rw [e₁, e₂, f₁, f₂]
    simp

/-- C8: the joined path of a node chain is the structural GUID strings of its nodes, in
list order, joined by single slashes. After any earlier calls on one shared, initially
empty path-occurrence map, the call that is the `k`-th one for a chain with that joined
path (`k - 1` earlier calls had chains with the same joined path) returns the joined path
unsuffixed when `k = 1` and the joined path followed by an underscore and the decimal
rendering of `k - 1` when `k ≥ 2` (`_1` for the second occurrence, `_2` for the third); the
call raises the map's count for the unsuffixed joined path by exactly one, from `k - 1` to
`k`, and leaves every other count as it was. -/
theorem C8_kth_occurrence_suffix (G : FGuid → String) (earlier : List (List FSMNode_Base))
    (Nodes : List FSMNode_Base) :
    let Path := "/".intercalate (GuidStrings G Nodes)
    let m := (BuildGuidPaths G earlier []).2
    let k := (earlier.filter
      (fun c => decide ("/".intercalate (GuidStrings G c) = Path))).length + 1
    let r := BuildGuidPathFromNodes G Nodes (some m)
    r.1 = (if k = 1 then Path else Path ++ "_" ++ Nat.repr (k - 1)) ∧
    PathCount m Path = (k : Int) - 1 ∧
    (∀ q, PathCount (r.2.getD m) q = if q = Path then (k : Int) else PathCount m q) ∧
    (BuildGuidPaths G [Nodes, Nodes, Nodes] []).1 = [Path, Path ++ "_1", Path ++ "_2"] := by
  have h := kth_occurrence_join G earlier Nodes
  have hf : (fun c => decide (BuildGuidPathFromNodes.join G c = BuildGuidPathFromNodes.join G Nodes)) =
      (fun c => decide ("/".intercalate (GuidStrings G c) = "/".intercalate (GuidStrings G Nodes))) := by
    funext c
    rw [join_eq_intercalate, join_eq_intercalate]
  simp only [hf, join_eq_intercalate] at h
  exact h

/-- C9: called with no path-occurrence map, or with a map that has not yet seen the path,
`BuildGuidPathFromNodes` returns exactly the nodes' structural GUID strings in list order
joined by single slashes (no leading or trailing separator), which is the empty string for
the empty list. -/
theorem C9_joined_path (G : FGuid → String) (Nodes : List FSMNode_Base)
    (MappedPaths : Option (TMap String Int))
    (hUnseen : ∀ m, MappedPaths = some m → TMap.Find m ("/".intercalate (GuidStrings G Nodes)) = none) :
    (BuildGuidPathFromNodes G Nodes MappedPaths).1 = "/".intercalate (GuidStrings G Nodes) ∧
    "/".intercalate (GuidStrings G []) = "" := by
  refine ⟨?_, rfl⟩
  cases MappedPaths with
  | none => simp [BuildGuidPathFromNodes, join_eq_intercalate]
  | some m =>
    obtain ⟨m', hb, _⟩ := BuildGuidPathFromNodes_some G Nodes m
    have h := hUnseen m rfl
    rw [← join_eq_intercalate] at h
    rw [hb, ← join_eq_intercalate]
    simp [PathCount, h]

/-- C9, at an instance: a two-node chain and an empty map. -/
theorem C9_joined_path_witness :
    (BuildGuidPathFromNodes (fun g => Nat.repr g) [.root 7 none, .root 8 none] (some [])).1 = "7/8" :=
  (C9_joined_path (fun g => Nat.repr g) [.root 7 none, .root 8 none] (some [])
    (by intro m hm; cases hm; rfl)).1.trans (by decide)

/-- C10: called with an empty output array and no instance limit, `TryGetAllOwners` yields
the owner chain of the node root first and ending with the node itself (the first element
has no owner, each further element is owned by the one before it), so `GetGuidPath` is what
`BuildGuidPathFromNodes` makes of that chain: the slash-joined structural GUIDs from the
root down to the node, followed by the occurrence suffix only when the map has already
seen that path. -/
theorem C10_owners_root_first (G : FGuid → String) (Node : FSMNode_Base) (m : TMap String Int) :
    TryGetAllOwners (some Node) [] none = Node.OwnersFromRoot ∧
    (∃ r, Node.OwnersFromRoot.head? = some r ∧ r.GetOwnerNode = none) ∧
    Node.OwnersFromRoot.getLast? = some Node ∧
    List.Chain' (fun a b => b.GetOwnerNode = some a) Node.OwnersFromRoot ∧
    (GetGuidPath G Node m).1 = (BuildGuidPathFromNodes G Node.OwnersFromRoot (some m)).1 ∧
    (GetGuidPath G Node m).1 =
      (if 0 < PathCount m ("/".intercalate (GuidStrings G Node.OwnersFromRoot)) then
        "/".intercalate (GuidStrings G Node.OwnersFromRoot) ++ "_" ++
          FromInt (PathCount m ("/".intercalate (GuidStrings G Node.OwnersFromRoot)))
      else "/".intercalate (GuidStrings G Node.OwnersFromRoot)) := by
  have h1 : TryGetAllOwners (some Node) [] none = Node.OwnersFromRoot := by
    simp [TryGetAllOwners, TryGetAllOwners_loop_none]
  refine ⟨h1, OwnersFromRoot_head Node, OwnersFromRoot_getLast Node, OwnersFromRoot_chain Node, ?_, ?_⟩
  · simp [GetGuidPath, h1]
  · obtain ⟨m', hb, _⟩ := BuildGuidPathFromNodes_some G Node.OwnersFromRoot m
    rw [← join_eq_intercalate]
    simp only [GetGuidPath, h1, hb]
    by_cases h : 0 < PathCount m (BuildGuidPathFromNodes.join G Node.OwnersFromRoot)
    · have h' : PathCount m (BuildGuidPathFromNodes.join G Node.OwnersFromRoot) + 1 > 1 := by omega
      rw [if_pos h, if_pos h', String.append_assoc]
    · have h' : ¬ PathCount m (BuildGuidPathFromNodes.join G Node.OwnersFromRoot) + 1 > 1 := by omega
      rw [if_neg h, if_neg h']

/-! ## Frame facts of the environment updates -/

@[simp] theorem Env.logAll_Instances (env : Env) (l : List LogEntry) :
    (env.logAll l).Instances = env.Instances := rfl

@[simp] theorem Env.logAll_StateMachinesGeneratingForThread (env : Env) (l : List LogEntry) :
    (env.logAll l).StateMachinesGeneratingForThread = env.StateMachinesGeneratingForThread := rfl

@[simp] theorem Env.logAll_InstanceReference (env : Env) (l : List LogEntry) :
    (env.logAll l).InstanceReference = env.InstanceReference := rfl

@[simp] theorem Env.logAll_States (env : Env) (l : List LogEntry) :
    (env.logAll l).States = env.States := rfl

@[simp] theorem Env.logAll_EntryStates (env : Env) (l : List LogEntry) :
    (env.logAll l).EntryStates = env.EntryStates := rfl

@[simp] theorem Env.logAll_Transitions (env : Env) (l : List LogEntry) :
    (env.logAll l).Transitions = env.Transitions := rfl

@[simp] theorem Env.logAll_FromState (env : Env) (l : List LogEntry) :
    (env.logAll l).FromState = env.FromState := rfl

@[simp] theorem Env.logAll_ToState (env : Env) (l : List LogEntry) :
    (env.logAll l).ToState = env.ToState := rfl

@[simp] theorem Env.logAll_CurrentGeneration (env : Env) (l : List LogEntry) (t : Nat) :
    (env.logAll l).CurrentGeneration t = env.CurrentGeneration t := rfl

@[simp] theorem Env.logAll_InProgress (env : Env) (l : List LogEntry) (t : Nat) (c : UClass) :
    (env.logAll l).InProgress t c = env.InProgress t c := rfl

@[simp] theorem Env.log_Instances (env : Env) (e : LogEntry) :
    (env.log e).Instances = env.Instances := rfl

@[simp] theorem Env.log_StateMachinesGeneratingForThread (env : Env) (e : LogEntry) :
    (env.log e).StateMachinesGeneratingForThread = env.StateMachinesGeneratingForThread := rfl

@[simp] theorem Env.log_InstanceReference (env : Env) (e : LogEntry) :
    (env.log e).InstanceReference = env.InstanceReference := rfl

@[simp] theorem Env.log_States (env : Env) (e : LogEntry) :
    (env.log e).States = env.States := rfl

@[simp] theorem Env.log_EntryStates (env : Env) (e : LogEntry) :
    (env.log e).EntryStates = env.EntryStates := rfl

@[simp] theorem Env.log_Transitions (env : Env) (e : LogEntry) :
    (env.log e).Transitions = env.Transitions := rfl

@[simp] theorem Env.log_FromState (env : Env) (e : LogEntry) :
    (env.log e).FromState = env.FromState := rfl

@[simp] theorem Env.log_ToState (env : Env) (e : LogEntry) :
    (env.log e).ToState = env.ToState := rfl

@[simp] theorem Env.log_CurrentGeneration (env : Env) (e : LogEntry) (t : Nat) :
    (env.log e).CurrentGeneration t = env.CurrentGeneration t := rfl

@[simp] theorem Env.log_InProgress (env : Env) (e : LogEntry) (t : Nat) (c : UClass) :
    (env.log e).InProgress t c = env.InProgress t c := rfl

@[simp] theorem Env.setInstances_StateMachinesGeneratingForThread (env : Env) (l : List USMInstance) :
    (env.setInstances l).StateMachinesGeneratingForThread = env.StateMachinesGeneratingForThread := rfl

@[simp] theorem Env.setInstances_InstanceReference (env : Env) (l : List USMInstance) :
    (env.setInstances l).InstanceReference = env.InstanceReference := rfl

@[simp] theorem Env.setInstances_States (env : Env) (l : List USMInstance) :
    (env.setInstances l).States = env.States := rfl

@[simp] theorem Env.setInstances_EntryStates (env : Env) (l : List USMInstance) :
    (env.setInstances l).EntryStates = env.EntryStates := rfl

@[simp] theorem Env.setInstances_Transitions (env : Env) (l : List USMInstance) :
    (env.setInstances l).Transitions = env.Transitions := rfl

@[simp] theorem Env.setInstances_FromState (env : Env) (l : List USMInstance) :
    (env.setInstances l).FromState = env.FromState := rfl

@[simp] theorem Env.setInstances_ToState (env : Env) (l : List USMInstance) :
    (env.setInstances l).ToState = env.ToState := rfl

@[simp] theorem Env.setInstances_Log (env : Env) (l : List USMInstance) :
    (env.setInstances l).Log = env.Log := rfl

@[simp] theorem Env.setInstances_CurrentGeneration (env : Env) (l : List USMInstance) (t : Nat) :
    (env.setInstances l).CurrentGeneration t = env.CurrentGeneration t := rfl

@[simp] theorem Env.setInstances_InProgress (env : Env) (l : List USMInstance) (t : Nat) (c : UClass) :
    (env.setInstances l).InProgress t c = env.InProgress t c := rfl

@[simp] theorem Env.setThreadMap_Instances (env : Env) (m : TMap Nat GeneratingStateMachines) :
    (env.setThreadMap m).Instances = env.Instances := rfl

@[simp] theorem Env.setThreadMap_InstanceReference (env : Env) (m : TMap Nat GeneratingStateMachines) :
    (env.setThreadMap m).InstanceReference = env.InstanceReference := rfl

@[simp] theorem Env.setThreadMap_States (env : Env) (m : TMap Nat GeneratingStateMachines) :
    (env.setThreadMap m).States = env.States := rfl

@[simp] theorem Env.setThreadMap_EntryStates (env : Env) (m : TMap Nat GeneratingStateMachines) :
    (env.setThreadMap m).EntryStates = env.EntryStates := rfl

@[simp] theorem Env.setThreadMap_Transitions (env : Env) (m : TMap Nat GeneratingStateMachines) :
    (env.setThreadMap m).Transitions = env.Transitions := rfl

@[simp] theorem Env.setThreadMap_FromState (env : Env) (m : TMap Nat GeneratingStateMachines) :
    (env.setThreadMap m).FromState = env.FromState := rfl

@[simp] theorem Env.setThreadMap_ToState (env : Env) (m : TMap Nat GeneratingStateMachines) :
    (env.setThreadMap m).ToState = env.ToState := rfl

@[simp] theorem Env.setThreadMap_Log (env : Env) (m : TMap Nat GeneratingStateMachines) :
    (env.setThreadMap m).Log = env.Log := rfl

@[simp] theorem Env.setCurrentGeneration_Instances (env : Env) (tid : Nat) (g : GeneratingStateMachines) :
    (env.setCurrentGeneration tid g).Instances = env.Instances := rfl

@[simp] theorem Env.setCurrentGeneration_InstanceReference (env : Env) (tid : Nat) (g : GeneratingStateMachines) :
    (env.setCurrentGeneration tid g).InstanceReference = env.InstanceReference := rfl

@[simp] theorem Env.setCurrentGeneration_States (env : Env) (tid : Nat) (g : GeneratingStateMachines) :
    (env.setCurrentGeneration tid g).States = env.States := rfl

@[simp] theorem Env.setCurrentGeneration_EntryStates (env : Env) (tid : Nat) (g : GeneratingStateMachines) :
    (env.setCurrentGeneration tid g).EntryStates = env.EntryStates := rfl

@[simp] theorem Env.setCurrentGeneration_Transitions (env : Env) (tid : Nat) (g : GeneratingStateMachines) :
    (env.setCurrentGeneration tid g).Transitions = env.Transitions := rfl

@[simp] theorem Env.setCurrentGeneration_FromState (env : Env) (tid : Nat) (g : GeneratingStateMachines) :
    (env.setCurrentGeneration tid g).FromState = env.FromState := rfl

@[simp] theorem Env.setCurrentGeneration_ToState (env : Env) (tid : Nat) (g : GeneratingStateMachines) :
    (env.setCurrentGeneration tid g).ToState = env.ToState := rfl

@[simp] theorem Env.setCurrentGeneration_Log (env : Env) (tid : Nat) (g : GeneratingStateMachines) :
    (env.setCurrentGeneration tid g).Log = env.Log := rfl

@[simp] theorem Env.FindOrAddGeneration_Instances (env : Env) (tid : Nat) :
    (env.FindOrAddGeneration tid).Instances = env.Instances := rfl

@[simp] theorem Env.FindOrAddGeneration_InstanceReference (env : Env) (tid : Nat) :
    (env.FindOrAddGeneration tid).InstanceReference = env.InstanceReference := rfl

@[simp] theorem Env.FindOrAddGeneration_States (env : Env) (tid : Nat) :
    (env.FindOrAddGeneration tid).States = env.States := rfl

@[simp] theorem Env.FindOrAddGeneration_EntryStates (env : Env) (tid : Nat) :
    (env.FindOrAddGeneration tid).EntryStates = env.EntryStates := rfl

@[simp] theorem Env.FindOrAddGeneration_Transitions (env : Env) (tid : Nat) :
    (env.FindOrAddGeneration tid).Transitions = env.Transitions := rfl

@[simp] theorem Env.FindOrAddGeneration_FromState (env : Env) (tid : Nat) :
    (env.FindOrAddGeneration tid).FromState = env.FromState := rfl

@[simp] theorem Env.FindOrAddGeneration_ToState (env : Env) (tid : Nat) :
    (env.FindOrAddGeneration tid).ToState = env.ToState := rfl

@[simp] theorem Env.FindOrAddGeneration_Log (env : Env) (tid : Nat) :
    (env.FindOrAddGeneration tid).Log = env.Log := rfl

@[simp] theorem Env.SetReferenceOwner_StateMachinesGeneratingForThread (env : Env) (i o : InstId) :
    (env.SetReferenceOwner i o).StateMachinesGeneratingForThread = env.StateMachinesGeneratingForThread := by
  unfold Env.SetReferenceOwner; split <;> rfl

@[simp] theorem Env.SetReferenceOwner_InstanceReference (env : Env) (i o : InstId) :
    (env.SetReferenceOwner i o).InstanceReference = env.InstanceReference := by
  unfold Env.SetReferenceOwner; split <;> rfl

@[simp] theorem Env.SetReferenceOwner_States (env : Env) (i o : InstId) :
    (env.SetReferenceOwner i o).States = env.States := by
  unfold Env.SetReferenceOwner; split <;> rfl

@[simp] theorem Env.SetReferenceOwner_EntryStates (env : Env) (i o : InstId) :
    (env.SetReferenceOwner i o).EntryStates = env.EntryStates := by
  unfold Env.SetReferenceOwner; split <;> rfl

@[simp] theorem Env.SetReferenceOwner_Transitions (env : Env) (i o : InstId) :
    (env.SetReferenceOwner i o).Transitions = env.Transitions := by
  unfold Env.SetReferenceOwner; split <;> rfl

@[simp] theorem Env.SetReferenceOwner_FromState (env : Env) (i o : InstId) :
    (env.SetReferenceOwner i o).FromState = env.FromState := by
  unfold Env.SetReferenceOwner; split <;> rfl

@[simp] theorem Env.SetReferenceOwner_ToState (env : Env) (i o : InstId) :
    (env.SetReferenceOwner i o).ToState = env.ToState := by
  unfold Env.SetReferenceOwner; split <;> rfl

@[simp] theorem Env.SetReferenceOwner_Log (env : Env) (i o : InstId) :
    (env.SetReferenceOwner i o).Log = env.Log := by
  unfold Env.SetReferenceOwner; split <;> rfl

@[simp] theorem Env.SetReferenceOwner_CurrentGeneration (env : Env) (i o : InstId) (t : Nat) :
    (env.SetReferenceOwner i o).CurrentGeneration t = env.CurrentGeneration t := by
  unfold Env.SetReferenceOwner; split <;> rfl

@[simp] theorem Env.SetReferenceOwner_InProgress (env : Env) (i o : InstId) (t : Nat) (c : UClass) :
    (env.SetReferenceOwner i o).InProgress t c = env.InProgress t c := by
  unfold Env.SetReferenceOwner; split <;> rfl

@[simp] theorem Env.AddState_Instances (env : Env) (a b : NodePtr) :
    (env.AddState a b).Instances = env.Instances := rfl

@[simp] theorem Env.AddState_StateMachinesGeneratingForThread (env : Env) (a b : NodePtr) :
    (env.AddState a b).StateMachinesGeneratingForThread = env.StateMachinesGeneratingForThread := rfl

@[simp] theorem Env.AddState_InstanceReference (env : Env) (a b : NodePtr) :
    (env.AddState a b).InstanceReference = env.InstanceReference := rfl

@[simp] theorem Env.AddState_EntryStates (env : Env) (a b : NodePtr) :
    (env.AddState a b).EntryStates = env.EntryStates := rfl

@[simp] theorem Env.AddState_Transitions (env : Env) (a b : NodePtr) :
    (env.AddState a b).Transitions = env.Transitions := rfl

@[simp] theorem Env.AddState_FromState (env : Env) (a b : NodePtr) :
    (env.AddState a b).FromState = env.FromState := rfl

@[simp] theorem Env.AddState_ToState (env : Env) (a b : NodePtr) :
    (env.AddState a b).ToState = env.ToState := rfl

@[simp] theorem Env.AddState_Log (env : Env) (a b : NodePtr) :
    (env.AddState a b).Log = env.Log := rfl

@[simp] theorem Env.AddState_CurrentGeneration (env : Env) (a b : NodePtr) (t : Nat) :
    (env.AddState a b).CurrentGeneration t = env.CurrentGeneration t := rfl

@[simp] theorem Env.AddState_InProgress (env : Env) (a b : NodePtr) (t : Nat) (c : UClass) :
    (env.AddState a b).InProgress t c = env.InProgress t c := rfl

@[simp] theorem Env.AddInitialState_Instances (env : Env) (a b : NodePtr) :
    (env.AddInitialState a b).Instances = env.Instances := rfl

@[simp] theorem Env.AddInitialState_StateMachinesGeneratingForThread (env : Env) (a b : NodePtr) :
    (env.AddInitialState a b).StateMachinesGeneratingForThread = env.StateMachinesGeneratingForThread := rfl

@[simp] theorem Env.AddInitialState_InstanceReference (env : Env) (a b : NodePtr) :
    (env.AddInitialState a b).InstanceReference = env.InstanceReference := rfl

@[simp] theorem Env.AddInitialState_States (env : Env) (a b : NodePtr) :
    (env.AddInitialState a b).States = env.States := rfl

@[simp] theorem Env.AddInitialState_Transitions (env : Env) (a b : NodePtr) :
    (env.AddInitialState a b).Transitions = env.Transitions := rfl

@[simp] theorem Env.AddInitialState_FromState (env : Env) (a b : NodePtr) :
    (env.AddInitialState a b).FromState = env.FromState := rfl

@[simp] theorem Env.AddInitialState_ToState (env : Env) (a b : NodePtr) :
    (env.AddInitialState a b).ToState = env.ToState := rfl

@[simp] theorem Env.AddInitialState_Log (env : Env) (a b : NodePtr) :
    (env.AddInitialState a b).Log = env.Log := rfl

@[simp] theorem Env.AddInitialState_CurrentGeneration (env : Env) (a b : NodePtr) (t : Nat) :
    (env.AddInitialState a b).CurrentGeneration t = env.CurrentGeneration t := rfl

@[simp] theorem Env.AddInitialState_InProgress (env : Env) (a b : NodePtr) (t : Nat) (c : UClass) :
    (env.AddInitialState a b).InProgress t c = env.InProgress t c := rfl

@[simp] theorem Env.SetFromState_Instances (env : Env) (a b : NodePtr) :
    (env.SetFromState a b).Instances = env.Instances := rfl

@[simp] theorem Env.SetFromState_StateMachinesGeneratingForThread (env : Env) (a b : NodePtr) :
    (env.SetFromState a b).StateMachinesGeneratingForThread = env.StateMachinesGeneratingForThread := rfl

@[simp] theorem Env.SetFromState_InstanceReference (env : Env) (a b : NodePtr) :
    (env.SetFromState a b).InstanceReference = env.InstanceReference := rfl

@[simp] theorem Env.SetFromState_States (env : Env) (a b : NodePtr) :
    (env.SetFromState a b).States = env.States := rfl

@[simp] theorem Env.SetFromState_EntryStates (env : Env) (a b : NodePtr) :
    (env.SetFromState a b).EntryStates = env.EntryStates := rfl

@[simp] theorem Env.SetFromState_Transitions (env : Env) (a b : NodePtr) :
    (env.SetFromState a b).Transitions = env.Transitions := rfl

@[simp] theorem Env.SetFromState_ToState (env : Env) (a b : NodePtr) :
    (env.SetFromState a b).ToState = env.ToState := rfl

@[simp] theorem Env.SetFromState_Log (env : Env) (a b : NodePtr) :
    (env.SetFromState a b).Log = env.Log := rfl

@[simp] theorem Env.SetFromState_CurrentGeneration (env : Env) (a b : NodePtr) (t : Nat) :
    (env.SetFromState a b).CurrentGeneration t = env.CurrentGeneration t := rfl

@[simp] theorem Env.SetFromState_InProgress (env : Env) (a b : NodePtr) (t : Nat) (c : UClass) :
    (env.SetFromState a b).InProgress t c = env.InProgress t c := rfl

@[simp] theorem Env.SetToState_Instances (env : Env) (a b : NodePtr) :
    (env.SetToState a b).Instances = env.Instances := rfl

@[simp] theorem Env.SetToState_StateMachinesGeneratingForThread (env : Env) (a b : NodePtr) :
    (env.SetToState a b).StateMachinesGeneratingForThread = env.StateMachinesGeneratingForThread := rfl

@[simp] theorem Env.SetToState_InstanceReference (env : Env) (a b : NodePtr) :
    (env.SetToState a b).InstanceReference = env.InstanceReference := rfl

@[simp] theorem Env.SetToState_States (env : Env) (a b : NodePtr) :
    (env.SetToState a b).States = env.States := rfl

@[simp] theorem Env.SetToState_EntryStates (env : Env) (a b : NodePtr) :
    (env.SetToState a b).EntryStates = env.EntryStates := rfl

@[simp] theorem Env.SetToState_Transitions (env : Env) (a b : NodePtr) :
    (env.SetToState a b).Transitions = env.Transitions := rfl

@[simp] theorem Env.SetToState_FromState (env : Env) (a b : NodePtr) :
    (env.SetToState a b).FromState = env.FromState := rfl

@[simp] theorem Env.SetToState_Log (env : Env) (a b : NodePtr) :
    (env.SetToState a b).Log = env.Log := rfl

@[simp] theorem Env.SetToState_CurrentGeneration (env : Env) (a b : NodePtr) (t : Nat) :
    (env.SetToState a b).CurrentGeneration t = env.CurrentGeneration t := rfl

@[simp] theorem Env.SetToState_InProgress (env : Env) (a b : NodePtr) (t : Nat) (c : UClass) :
    (env.SetToState a b).InProgress t c = env.InProgress t c := rfl

@[simp] theorem Env.AddTransition_Instances (env : Env) (a b : NodePtr) :
    (env.AddTransition a b).Instances = env.Instances := rfl

@[simp] theorem Env.AddTransition_StateMachinesGeneratingForThread (env : Env) (a b : NodePtr) :
    (env.AddTransition a b).StateMachinesGeneratingForThread = env.StateMachinesGeneratingForThread := rfl

@[simp] theorem Env.AddTransition_InstanceReference (env : Env) (a b : NodePtr) :
    (env.AddTransition a b).InstanceReference = env.InstanceReference := rfl

@[simp] theorem Env.AddTransition_States (env : Env) (a b : NodePtr) :
    (env.AddTransition a b).States = env.States := rfl

@[simp] theorem Env.AddTransition_EntryStates (env : Env) (a b : NodePtr) :
    (env.AddTransition a b).EntryStates = env.EntryStates := rfl

@[simp] theorem Env.AddTransition_FromState (env : Env) (a b : NodePtr) :
    (env.AddTransition a b).FromState = env.FromState := rfl

@[simp] theorem Env.AddTransition_ToState (env : Env) (a b : NodePtr) :
    (env.AddTransition a b).ToState = env.ToState := rfl

@[simp] theorem Env.AddTransition_Log (env : Env) (a b : NodePtr) :
    (env.AddTransition a b).Log = env.Log := rfl

@[simp] theorem Env.AddTransition_CurrentGeneration (env : Env) (a b : NodePtr) (t : Nat) :
    (env.AddTransition a b).CurrentGeneration t = env.CurrentGeneration t := rfl

@[simp] theorem Env.AddTransition_InProgress (env : Env) (a b : NodePtr) (t : Nat) (c : UClass) :
    (env.AddTransition a b).InProgress t c = env.InProgress t c := rfl

@[simp] theorem Env.SetInstanceReference_Instances (env : Env) (a : NodePtr) (i : InstId) :
    (env.SetInstanceReference a i).Instances = env.Instances := rfl

@[simp] theorem Env.SetInstanceReference_StateMachinesGeneratingForThread (env : Env) (a : NodePtr) (i : InstId) :
    (env.SetInstanceReference a i).StateMachinesGeneratingForThread = env.StateMachinesGeneratingForThread := rfl

@[simp] theorem Env.SetInstanceReference_States (env : Env) (a : NodePtr) (i : InstId) :
    (env.SetInstanceReference a i).States = env.States := rfl

@[simp] theorem Env.SetInstanceReference_EntryStates (env : Env) (a : NodePtr) (i : InstId) :
    (env.SetInstanceReference a i).EntryStates = env.EntryStates := rfl

@[simp] theorem Env.SetInstanceReference_Transitions (env : Env) (a : NodePtr) (i : InstId) :
    (env.SetInstanceReference a i).Transitions = env.Transitions := rfl

@[simp] theorem Env.SetInstanceReference_FromState (env : Env) (a : NodePtr) (i : InstId) :
    (env.SetInstanceReference a i).FromState = env.FromState := rfl

@[simp] theorem Env.SetInstanceReference_ToState (env : Env) (a : NodePtr) (i : InstId) :
    (env.SetInstanceReference a i).ToState = env.ToState := rfl

@[simp] theorem Env.SetInstanceReference_Log (env : Env) (a : NodePtr) (i : InstId) :
    (env.SetInstanceReference a i).Log = env.Log := rfl

@[simp] theorem Env.SetInstanceReference_CurrentGeneration (env : Env) (a : NodePtr) (i : InstId) (t : Nat) :
    (env.SetInstanceReference a i).CurrentGeneration t = env.CurrentGeneration t := rfl

@[simp] theorem Env.SetInstanceReference_InProgress (env : Env) (a : NodePtr) (i : InstId) (t : Nat) (c : UClass) :
    (env.SetInstanceReference a i).InProgress t c = env.InProgress t c := rfl

@[simp] theorem Env.logAll_Log_eq (env : Env) (l : List LogEntry) : (env.logAll l).Log = env.Log ++ l := rfl

@[simp] theorem Env.log_Log_eq (env : Env) (e : LogEntry) : (env.log e).Log = env.Log ++ [e] := rfl

@[simp] theorem Env.setInstances_Instances_eq (env : Env) (l : List USMInstance) :
    (env.setInstances l).Instances = l := rfl

@[simp] theorem Env.setThreadMap_ThreadMap_eq (env : Env) (m : TMap Nat GeneratingStateMachines) :
    (env.setThreadMap m).StateMachinesGeneratingForThread = m := rfl

@[simp] theorem Env.SetInstanceReference_InstanceReference_eq (env : Env) (a : NodePtr) (i : InstId) :
    (env.SetInstanceReference a i).InstanceReference = TMap.Add env.InstanceReference a i := rfl

@[simp] theorem Env.setCurrentGeneration_CurrentGeneration (env : Env) (tid : Nat)
    (g : GeneratingStateMachines) : (env.setCurrentGeneration tid g).CurrentGeneration tid = g := by
  simp [Env.CurrentGeneration, Env.setCurrentGeneration, TMap.Find_Add_self]

@[simp] theorem Env.FindOrAddGeneration_CurrentGeneration (env : Env) (tid : Nat) :
    (env.FindOrAddGeneration tid).CurrentGeneration tid = env.CurrentGeneration tid := by
  simp [Env.CurrentGeneration, Env.FindOrAddGeneration, TMap.Find_FindOrAdd]

@[simp] theorem Env.FindOrAddGeneration_InProgress (env : Env) (tid : Nat) (c : UClass) :
    (env.FindOrAddGeneration tid).InProgress tid c = env.InProgress tid c := by
  simp [Env.InProgress]

theorem Env.FindOrAddGeneration_of_Find (env : Env) (tid : Nat) (g : GeneratingStateMachines)
    (h : TMap.Find env.StateMachinesGeneratingForThread tid = some g) :
    env.FindOrAddGeneration tid = env := by
  cases env
  simp_all [Env.FindOrAddGeneration, Env.setThreadMap, TMap.FindOrAdd]

theorem Env.Find_FindOrAddGeneration (env : Env) (tid : Nat) :
    TMap.Find (env.FindOrAddGeneration tid).StateMachinesGeneratingForThread tid =
      some (env.CurrentGeneration tid) := by
  simp [Env.FindOrAddGeneration, Env.CurrentGeneration, TMap.Find_FindOrAdd]

theorem Env.Find_setCurrentGeneration (env : Env) (tid : Nat) (g : GeneratingStateMachines) :
    TMap.Find (env.setCurrentGeneration tid g).StateMachinesGeneratingForThread tid = some g := by
  simp [Env.setCurrentGeneration, TMap.Find_Add_self]

/-! ## Reference resolution, one activation -/

theorem template_fst (w : World) (env : Env) (SMInstance : InstId) (sm : FSMStateMachine)
    (cls : UClass) (bDryRun : Bool) :
    (GenerateStateMachine.template w env SMInstance sm cls bDryRun).1 = none ∨
    (GenerateStateMachine.template w env SMInstance sm cls bDryRun).1 =
      some (GenerateStateMachine.template w env SMInstance sm cls bDryRun).2.1 := by
  unfold GenerateStateMachine.template
  split
  · exact Or.inl rfl
  · split
    · exact Or.inl rfl
    · split
      · exact Or.inl rfl
      · split
        · exact Or.inr rfl
        · rename_i h
          exact Or.inr (by simp only [ne_eq, not_not] at h; simp [h])

theorem template_env (w : World) (env : Env) (SMInstance : InstId) (sm : FSMStateMachine)
    (cls : UClass) (bDryRun : Bool) :
    ∃ l, (GenerateStateMachine.template w env SMInstance sm cls bDryRun).2.2 = env.logAll l := by
  have h0 : env = env.logAll [] := by cases env; simp [Env.logAll]
  unfold GenerateStateMachine.template
  split
  · exact ⟨[], h0⟩
  · split
    · exact ⟨[], h0⟩
    · split
      · exact ⟨[_], rfl⟩
      · split
        · exact ⟨[_], rfl⟩
        · exact ⟨[], h0⟩

theorem Create_ne_null (w : World) (gsm : GenerateCall) (env env' : Env) (cls : UClass)
    (Context : Option Nat) (Template : Option UClass) (hT : Template = none ∨ Template = some cls) :
    CreateStateMachineInstanceFromTemplate w gsm env (some cls) Context Template ≠ some (none, env') := by
  unfold CreateStateMachineInstanceFromTemplate CreateStateMachineInstanceInternal
  have : ¬ (Template.isSome ∧ Template ≠ some cls) := by
    rcases hT with h | h <;> simp [h]
  simp only [this, if_false]
  intro h
  cases hI : USMInstance.Initialize w gsm (env.NewObject cls Template).2
      (env.NewObject cls Template).1 Context with
  | none => simp [hI] at h
  | some e => simp [hI] at h


theorem Find_thread_of_InProgress (env : Env) (tid : Nat) (cls : UClass)
    (h : 1 < env.InProgress tid cls) :
    ∃ g, TMap.Find env.StateMachinesGeneratingForThread tid = some g := by
  cases hf : TMap.Find env.StateMachinesGeneratingForThread tid with
  | some g => exact ⟨g, rfl⟩
  | none =>
    exfalso
    simp [Env.InProgress, Env.CurrentGeneration, hf, TMap.Find] at h

theorem template_congr (w : World) (env₁ env₂ : Env) (SMInstance : InstId) (sm : FSMStateMachine)
    (cls : UClass) (bDryRun : Bool) (h : env₁.Instances = env₂.Instances) :
    (GenerateStateMachine.template w env₁ SMInstance sm cls bDryRun).1 =
      (GenerateStateMachine.template w env₂ SMInstance sm cls bDryRun).1 ∧
    (GenerateStateMachine.template w env₁ SMInstance sm cls bDryRun).2.1 =
      (GenerateStateMachine.template w env₂ SMInstance sm cls bDryRun).2.1 := by
  unfold GenerateStateMachine.template FindTemplateFromInstance
  rw [h]
  split
  · exact ⟨rfl, rfl⟩
  · split
    · exact ⟨rfl, rfl⟩
    · split
      · exact ⟨rfl, rfl⟩
      · split <;> exact ⟨rfl, rfl⟩

/-- After the check let the call through, the reference branch returns true whenever it
returns. -/
theorem reference_after_check (w : World) (tid : Nat) (gsm : GenerateCall) (top : Bool) (env : Env)
    (SMInstance : InstId) (sm : FSMStateMachine) (cls : UClass) (bDryRun : Bool)
    (hc : ∃ env₂, GenerateStateMachine.check tid top
        (GenerateStateMachine.template w env SMInstance sm cls bDryRun).2.2 SMInstance sm
        (GenerateStateMachine.template w env SMInstance sm cls bDryRun).2.1 = .inr env₂)
    (r : Bool) (env' : Env)
    (hr : GenerateStateMachine.reference w tid gsm top env SMInstance sm cls bDryRun = some (r, env')) :
    r = true := by
  obtain ⟨env₂, hc⟩ := hc
  unfold GenerateStateMachine.reference at hr
  simp only [hc] at hr
  split at hr
  · simp only [Option.some.injEq, Prod.mk.injEq] at hr
    exact hr.1.symm
  · split at hr
    · exact absurd hr (by simp)
    · rename_i env₃ hcreate
      exact absurd hcreate (Create_ne_null w gsm _ env₃ _ _ _ (template_fst w env SMInstance sm cls bDryRun))
    · simp only [Option.some.injEq, Prod.mk.injEq] at hr
      exact hr.1.symm

/-- C3: for a reference node without `bReuseReference` (resolved for a `USMInstance`),
`GenerateStateMachine` fails with the circular-reference error exactly when the in-progress
counter of the target class is greater than 1 on entry: in that case it returns false with
that error logged last, creates no instance, leaves the bookkeeping (and so the counter)
unchanged and sets no instance reference; otherwise the call does not return false. -/
theorem C3_circular_reference_check (w : World) (ThreadId depth : Nat) (env : Env)
    (SMInstance : InstId) (StateMachineOut : FSMStateMachine) (RunTimeProperties : List FSMNode)
    (bDryRun : Bool) (Class : UClass)
    (hClass : StateMachineOut.Node.ClassReference = some Class)
    (hReuse : StateMachineOut.Node.bReuseReference = false) :
    (1 < env.InProgress ThreadId
          (GenerateStateMachine.target w env SMInstance StateMachineOut Class bDryRun) →
      ∃ env', GenerateStateMachine w ThreadId (depth + 1) env (.SMInstance SMInstance) StateMachineOut
          RunTimeProperties bDryRun = some (false, env') ∧
        env'.Log.getLast? = some (.CircularReferencing SMInstance) ∧
        env'.Instances = env.Instances ∧
        env'.StateMachinesGeneratingForThread = env.StateMachinesGeneratingForThread ∧
        env'.InstanceReference = env.InstanceReference) ∧
    (¬ 1 < env.InProgress ThreadId
          (GenerateStateMachine.target w env SMInstance StateMachineOut Class bDryRun) →
      ∀ r env', GenerateStateMachine w ThreadId (depth + 1) env (.SMInstance SMInstance)
          StateMachineOut RunTimeProperties bDryRun = some (r, env') → r = true) := by
  constructor
  · intro h
    obtain ⟨g, hg⟩ := Find_thread_of_InProgress env ThreadId _ h
    obtain ⟨l, hl⟩ := template_env w env SMInstance StateMachineOut Class bDryRun
    have hv : ∃ v, TMap.Find (env.CurrentGeneration ThreadId).InstancesGenerating
        (GenerateStateMachine.template w env SMInstance StateMachineOut Class bDryRun).2.1 = some v ∧ 1 < v := by
      unfold Env.InProgress GenerateStateMachine.target at h
      cases hf : TMap.Find (env.CurrentGeneration ThreadId).InstancesGenerating
        (GenerateStateMachine.template w env SMInstance StateMachineOut Class bDryRun).2.1 with
      | none => simp [hf] at h
      | some v => exact ⟨v, rfl, by simpa [hf] using h⟩
    obtain ⟨v, hv, hv1⟩ := hv
    refine ⟨(env.logAll l).log (.CircularReferencing SMInstance), ?_, by simp, by simp, by simp, by simp⟩
    simp only [GenerateStateMachine, GenerateStateMachine.body, hClass,
      Env.FindOrAddGeneration_of_Find env ThreadId g hg, GenerateStateMachine.reference,
      GenerateStateMachine.check, hReuse, hl, Env.logAll_CurrentGeneration, hv, TMap.Contains, hg]
    simp [hv1, FinishStateMachineGeneration]
  · intro h r env' hr
    simp only [GenerateStateMachine, GenerateStateMachine.body, hClass] at hr
    obtain ⟨l, hl⟩ := template_env w (env.FindOrAddGeneration ThreadId) SMInstance StateMachineOut
      Class bDryRun
    have ht := (template_congr w (env.FindOrAddGeneration ThreadId) env SMInstance StateMachineOut
      Class bDryRun (by simp)).2
    refine reference_after_check w ThreadId _ _ _ SMInstance StateMachineOut Class bDryRun ?_ r env' hr
    simp only [GenerateStateMachine.check, hReuse, hl, Env.logAll_CurrentGeneration,
      Env.FindOrAddGeneration_CurrentGeneration, ht]
    unfold Env.InProgress GenerateStateMachine.target at h
    cases hf : TMap.Find (env.CurrentGeneration ThreadId).InstancesGenerating
        (GenerateStateMachine.template w env SMInstance StateMachineOut Class bDryRun).2.1 with
    | none => exact ⟨_, rfl⟩
    | some v =>
      have hv : ¬ 1 < v := by simpa [hf] using h
      simp [hv]

/-- C3, at an instance: a non-reuse reference to class 0 met while the counter of class 0
is 2. -/
theorem C3_circular_reference_check_witness :
    ∃ env', GenerateStateMachine [] 0 1
        ((Env.initial [USMInstance.ofClass 0]).setCurrentGeneration 0
          { InstancesGenerating := [(0, 2)], CreatedReferences := [],
            StateMachinesThatNeedReferences := [] })
        (.SMInstance 0)
        { Ptr := { Container := .SMInstance 0, Property := some 0 },
          Node := FSMNode.stateMachine 3 1 (some 0) false } [] false = some (false, env') ∧
      env'.Log.getLast? = some (.CircularReferencing 0) ∧
      env'.Instances = [USMInstance.ofClass 0] :=
  have h := (C3_circular_reference_check [] 0 0
    ((Env.initial [USMInstance.ofClass 0]).setCurrentGeneration 0
      { InstancesGenerating := [(0, 2)], CreatedReferences := [],
        StateMachinesThatNeedReferences := [] })
    0 { Ptr := { Container := .SMInstance 0, Property := some 0 },
        Node := FSMNode.stateMachine 3 1 (some 0) false } [] false 0 rfl rfl).1 (by decide)
  h.imp (fun _ h => ⟨h.1, h.2.1, h.2.2.1⟩)

/-- C6 (the code at the failing input): a top-level call on the root state machine of a
class whose only record is a transition with a missing from-state returns false and leaves
the entry of the thread in the per-thread map, so the next call on that thread is not
treated as top-level and its successful return does not remove the entry either. -/
theorem C6_entry_left_behind :
    ∃ env₁ env₂,
      TMap.Contains (Env.initial [USMInstance.ofClass 0]).StateMachinesGeneratingForThread 7 = false ∧
      GenerateStateMachine [UClassDef.ofProperties 1 [FSMNode.transition 4 1 2 3]] 7 1
          (Env.initial [USMInstance.ofClass 0]) (.SMInstance 0)
          (USMInstance.RootStateMachine (UClassDef.ofProperties 1 [FSMNode.transition 4 1 2 3]) 0)
          [FSMNode.transition 4 1 2 3] false = some (false, env₁) ∧
      TMap.Contains env₁.StateMachinesGeneratingForThread 7 = true ∧
      GenerateStateMachine [UClassDef.ofProperties 1 [FSMNode.transition 4 1 2 3]] 7 1 env₁
          (.SMInstance 0)
          (USMInstance.RootStateMachine (UClassDef.ofProperties 1 []) 0) [] false = some (true, env₂) ∧
      TMap.Contains env₂.StateMachinesGeneratingForThread 7 = true := by
  refine ⟨_, _, rfl, rfl, rfl, rfl, rfl⟩

/-! ## Loop rules -/

/-- A relation between the environment before and after that holds across the first pass
when every step of the pass establishes it. -/
theorem states_rel (Q : Env → Env → Prop) (Pre : Env → Prop)
    (gsm : Env → FSMStateMachine → Option (Bool × Env)) (Instance : UObjectRef)
    (sm : FSMStateMachine)
    (hrefl : ∀ env, Q env env) (htrans : ∀ a b c, Q a b → Q b c → Q a c)
    (hPre : ∀ a b, Pre a → Q a b → Pre b)
    (hAdd : ∀ env a b, Q env (env.AddState a b))
    (hLog : ∀ env e, Q env (env.log e))
    (hInit : ∀ env a b, Q env (env.AddInitialState a b))
    (hgsm : ∀ env n r env', Pre env → gsm env n = some (r, env') → Q env env') :
    ∀ (l : List (Nat × FSMNode)) (env : Env) (M : TMap FGuid NodePtr) (env' : Env)
      (M' : TMap FGuid NodePtr), Pre env →
      GenerateStateMachine.states gsm Instance sm l env M = some (env', M') → Q env env' := by
  intro l
  induction l with
  | nil =>
    intro env M env' M' _ h
    simp only [GenerateStateMachine.states, Option.some.injEq, Prod.mk.injEq] at h
    rw [← h.1]; exact hrefl env
  | cons a l ih =>
    obtain ⟨i, p⟩ := a
    intro env M env' M' hpre h
    simp only [GenerateStateMachine.states] at h
    split at h
    · split at h
      · exact ih env M env' M' hpre h
      · have q1 : Q env ((env.AddState sm.Ptr ⟨Instance, some i⟩)) := hAdd _ _ _
        have q2 : Q env (if TMap.Contains M p.Guid then
            (env.AddState sm.Ptr ⟨Instance, some i⟩).log (.GuidAlreadyAdded ⟨Instance, some i⟩ p.Guid)
            else env.AddState sm.Ptr ⟨Instance, some i⟩) := by
          split
          · exact htrans _ _ _ q1 (hLog _ _)
          · exact q1
        split at h
        · exact absurd h (by simp)
        · rename_i env₂ hn
          have q3 : Q env env₂ := by
            split at hn
            · cases hg : gsm (if TMap.Contains M p.Guid then
                  (env.AddState sm.Ptr ⟨Instance, some i⟩).log (.GuidAlreadyAdded ⟨Instance, some i⟩ p.Guid)
                  else env.AddState sm.Ptr ⟨Instance, some i⟩) ⟨⟨Instance, some i⟩, p⟩ with
              | none => simp [hg] at hn
              | some res =>
                obtain ⟨r, e⟩ := res
                simp only [hg, Option.map_some', Option.some.injEq] at hn
                subst hn
                exact htrans _ _ _ q2 (hgsm _ _ _ _ (hPre _ _ hpre q2) hg)
            · simp only [Option.some.injEq] at hn
              subst hn
              exact q2
          have q4 : Q env (if p.bIsRootNode then env₂.AddInitialState sm.Ptr ⟨Instance, some i⟩ else env₂) := by
            split
            · exact htrans _ _ _ q3 (hInit _ _ _)
            · exact q3
          exact htrans _ _ _ q4 (ih _ _ env' M' (hPre _ _ hpre q4) h)
    · exact ih env M env' M' hpre h

/-- A relation between the environment before and after that holds across the second pass
when every step of the pass establishes it. -/
theorem transitions_rel (Q : Env → Env → Prop) (Instance : UObjectRef) (sm : FSMStateMachine)
    (M : TMap FGuid NodePtr)
    (hrefl : ∀ env, Q env env) (htrans : ∀ a b c, Q a b → Q b c → Q a c)
    (hLog : ∀ env e, Q env (env.log e))
    (hFrom : ∀ env a b, Q env (env.SetFromState a b))
    (hTo : ∀ env a b, Q env (env.SetToState a b))
    (hAdd : ∀ env a b, Q env (env.AddTransition a b)) :
    ∀ (l : List (Nat × FSMNode)) (env : Env),
      Q env (GenerateStateMachine.transitions Instance sm M l env).2 := by
  intro l
  induction l with
  | nil => intro env; exact hrefl env
  | cons a l ih =>
    obtain ⟨i, p⟩ := a
    intro env
    simp only [GenerateStateMachine.transitions]
    split
    · split
      · exact ih env
      · split
        · exact hLog _ _
        · split
          · exact hLog _ _
          · rename_i _ FromState _ _ ToState _
            have q : Q env ((((env.SetFromState ⟨Instance, some i⟩ FromState).SetToState
                ⟨Instance, some i⟩ ToState).AddTransition sm.Ptr ⟨Instance, some i⟩)) :=
              htrans _ _ _ (htrans _ _ _ (hFrom env _ _) (hTo _ _ _)) (hAdd _ _ _)
            refine htrans _ _ _ ?_ (ih _)
            split
            · exact htrans _ _ _ q (hLog _ _)
            · exact q
    · exact ih env

/-! ## Nested activations keep the bookkeeping balanced -/

theorem Env.CurrentGeneration_congr {env env' : Env} (tid : Nat)
    (h : env'.StateMachinesGeneratingForThread = env.StateMachinesGeneratingForThread) :
    env'.CurrentGeneration tid = env.CurrentGeneration tid := by
  simp [Env.CurrentGeneration, h]

theorem NestedPost.here {tid : Nat} {env : Env}
    (h : TMap.Contains env.StateMachinesGeneratingForThread tid = true) : NestedPost tid env env :=
  ⟨h, fun _ => rfl, fun _ h => h, fun _ h => h⟩

theorem NestedPost.andThen {tid : Nat} {a b c : Env} (h₁ : NestedPost tid a b)
    (h₂ : NestedPost tid b c) : NestedPost tid a c :=
  ⟨h₂.1, fun x => (h₂.2.1 x).trans (h₁.2.1 x), fun x h => h₂.2.2.1 x (h₁.2.2.1 x h),
    fun x h => h₂.2.2.2 x (h₁.2.2.2 x h)⟩

theorem NestedPost.of_eq {tid : Nat} {env env' : Env}
    (hc : TMap.Contains env.StateMachinesGeneratingForThread tid = true)
    (h : env'.StateMachinesGeneratingForThread = env.StateMachinesGeneratingForThread) :
    NestedPost tid env env' := by
  have hg := Env.CurrentGeneration_congr tid h
  refine ⟨by rw [h]; exact hc, fun c => by simp [Env.InProgress, hg], fun c hh => by rw [hg]; exact hh,
    fun c hh => by rw [hg]; exact hh⟩

theorem Contains_setCurrentGeneration (env : Env) (tid : Nat) (g : GeneratingStateMachines) :
    TMap.Contains (env.setCurrentGeneration tid g).StateMachinesGeneratingForThread tid = true := by
  simp [TMap.Contains, Env.Find_setCurrentGeneration]

theorem Contains_Add {κ ν : Type} [DecidableEq κ] (m : TMap κ ν) (k k' : κ) (v : ν) :
    TMap.Contains (TMap.Add m k v) k' = (decide (k = k') || TMap.Contains m k') := by
  simp only [TMap.Contains, TMap.Find_Add]
  by_cases h : k = k' <;> simp [h]

theorem Contains_FindOrAdd {κ ν : Type} [DecidableEq κ] (m : TMap κ ν) (k k' : κ) (d : ν) :
    TMap.Contains (TMap.FindOrAdd m k d).2 k' = (decide (k = k') || TMap.Contains m k') := by
  simp only [TMap.Contains, TMap.Find_FindOrAdd]
  by_cases h : k = k'
  · simp [h]
  · simp [h]

/-- A write to the bookkeeping entry that changes neither counters nor created-reference
keys for the worse. -/
theorem NestedPost.of_setCurrentGeneration {tid : Nat} {env : Env} (g : GeneratingStateMachines)
    (h₁ : g.InstancesGenerating = (env.CurrentGeneration tid).InstancesGenerating)
    (h₂ : ∀ c, TMap.Contains (env.CurrentGeneration tid).CreatedReferences c = true →
      TMap.Contains g.CreatedReferences c = true) :
    NestedPost tid env (env.setCurrentGeneration tid g) := by
  refine ⟨Contains_setCurrentGeneration env tid g, ?_, ?_, ?_⟩
  · intro c; simp [Env.InProgress, h₁]
  · intro c hc; simpa [h₁] using hc
  · intro c hc; simpa using h₂ c hc

theorem foldl_SetInstanceReference_threadMap (l : List FSMStateMachine) (I : InstId) :
    ∀ env : Env, (l.foldl (fun (env : Env) (StateMachine : FSMStateMachine) =>
        if StateMachine.Node.bReuseReference then env.SetInstanceReference StateMachine.Ptr I
        else env) env).StateMachinesGeneratingForThread = env.StateMachinesGeneratingForThread := by
  induction l with
  | nil => intro env; rfl
  | cons a l ih =>
    intro env
    simp only [List.foldl_cons]
    rw [ih]
    split <;> simp

theorem check_inl_nested (tid : Nat) (env : Env) (SMInstance : InstId) (sm : FSMStateMachine)
    (cls : UClass) (r : Bool) (env' : Env)
    (hc : TMap.Contains env.StateMachinesGeneratingForThread tid = true)
    (h : GenerateStateMachine.check tid false env SMInstance sm cls = .inl (r, env')) :
    NestedPost tid env env' := by
  unfold GenerateStateMachine.check at h
  simp only [FinishStateMachineGeneration, Bool.false_eq_true, if_false] at h
  split at h
  · split at h
    · simp only [Sum.inl.injEq, Prod.mk.injEq] at h
      rw [← h.2]
      exact NestedPost.of_eq hc (by simp)
    · simp only [Sum.inl.injEq, Prod.mk.injEq] at h
      rw [← h.2]
      exact NestedPost.of_setCurrentGeneration _ rfl (fun c hc => hc)
    · exact absurd h (by simp)
  · split at h
    · split at h
      · simp only [Sum.inl.injEq, Prod.mk.injEq] at h
        rw [← h.2]
        exact NestedPost.of_eq hc (by simp)
      · exact absurd h (by simp)
    · exact absurd h (by simp)

theorem check_inr_nested (tid : Nat) (top : Bool) (env : Env) (SMInstance : InstId)
    (sm : FSMStateMachine) (cls : UClass) (env' : Env)
    (hc : TMap.Contains env.StateMachinesGeneratingForThread tid = true)
    (h : GenerateStateMachine.check tid top env SMInstance sm cls = .inr env') :
    NestedPost tid env env' := by
  unfold GenerateStateMachine.check at h
  dsimp only at h
  split at h
  · split at h
    · exact absurd h (by simp)
    · exact absurd h (by simp)
    · simp only [Sum.inr.injEq] at h
      rw [← h]
      exact NestedPost.of_setCurrentGeneration _ rfl
        (fun c hc => by simp [Contains_Add, hc])
  · split at h
    · split at h
      · exact absurd h (by simp)
      · simp only [Sum.inr.injEq] at h
        rw [← h]; exact NestedPost.here hc
    · simp only [Sum.inr.injEq] at h
      rw [← h]; exact NestedPost.here hc

theorem InProgress_increment (tid : Nat) (env : Env) (cls c : UClass) :
    (GenerateStateMachine.increment tid env cls).InProgress tid c =
      if cls = c then env.InProgress tid cls + 1 else env.InProgress tid c := by
  simp only [GenerateStateMachine.increment, Env.InProgress, Env.setCurrentGeneration_CurrentGeneration,
    TMap.Find_Add, TMap.Find_FindOrAdd, TMap.FindOrAdd_fst]
  by_cases h : cls = c <;> simp [h]

theorem Contains_thread_increment (tid : Nat) (env : Env) (cls : UClass) :
    TMap.Contains (GenerateStateMachine.increment tid env cls).StateMachinesGeneratingForThread tid
      = true := Contains_setCurrentGeneration _ _ _

theorem Counters_increment (tid : Nat) (env : Env) (cls c : UClass) :
    TMap.Contains ((GenerateStateMachine.increment tid env cls).CurrentGeneration tid).InstancesGenerating c
      = (decide (cls = c) || TMap.Contains (env.CurrentGeneration tid).InstancesGenerating c) := by
  simp only [GenerateStateMachine.increment, Env.setCurrentGeneration_CurrentGeneration, Contains_Add,
    Contains_FindOrAdd]
  by_cases h : cls = c <;> simp [h]

theorem Created_increment (tid : Nat) (env : Env) (cls : UClass) :
    ((GenerateStateMachine.increment tid env cls).CurrentGeneration tid).CreatedReferences =
      (env.CurrentGeneration tid).CreatedReferences := by
  simp [GenerateStateMachine.increment]

theorem Waiters_increment (tid : Nat) (env : Env) (cls : UClass) :
    ((GenerateStateMachine.increment tid env cls).CurrentGeneration tid).StateMachinesThatNeedReferences =
      (env.CurrentGeneration tid).StateMachinesThatNeedReferences := by
  simp [GenerateStateMachine.increment]

theorem patch_threadMap (tid : Nat) (env : Env) (cls : UClass) (I : InstId) :
    (GenerateStateMachine.patch tid env cls I).StateMachinesGeneratingForThread =
      env.StateMachinesGeneratingForThread := by
  unfold GenerateStateMachine.patch
  split
  · exact foldl_SetInstanceReference_threadMap _ _ _
  · rfl

theorem record_nested (tid : Nat) (env : Env) (sm : FSMStateMachine) (cls : UClass) (I : InstId)
    (hc : TMap.Contains env.StateMachinesGeneratingForThread tid = true) :
    NestedPost tid env (GenerateStateMachine.record tid env sm cls I) := by
  unfold GenerateStateMachine.record
  split
  · exact NestedPost.of_setCurrentGeneration _ rfl (fun c hc => by simp [Contains_Add, hc])
  · exact NestedPost.here hc

/-- The decrement undoes the increment when the counter entry survived in between. -/
theorem decrement_spec (tid : Nat) (env : Env) (cls : UClass)
    (hk : TMap.Contains (env.CurrentGeneration tid).InstancesGenerating cls = true) :
    TMap.Contains (GenerateStateMachine.decrement tid env cls).StateMachinesGeneratingForThread tid = true ∧
    (∀ c, (GenerateStateMachine.decrement tid env cls).InProgress tid c =
      if cls = c then env.InProgress tid cls - 1 else env.InProgress tid c) ∧
    (∀ c, TMap.Contains (env.CurrentGeneration tid).InstancesGenerating c = true →
      TMap.Contains ((GenerateStateMachine.decrement tid env cls).CurrentGeneration tid).InstancesGenerating c = true) ∧
    ((GenerateStateMachine.decrement tid env cls).CurrentGeneration tid).CreatedReferences =
      (env.CurrentGeneration tid).CreatedReferences := by
  simp only [TMap.Contains] at hk
  cases hf : TMap.Find (env.CurrentGeneration tid).InstancesGenerating cls with
  | none => simp [hf] at hk
  | some v =>
    have e : GenerateStateMachine.decrement tid env cls =
        env.setCurrentGeneration tid
          { env.CurrentGeneration tid with
            InstancesGenerating :=
              TMap.Add (env.CurrentGeneration tid).InstancesGenerating cls (v - 1) } := by
      unfold GenerateStateMachine.decrement
      simp only [hf]
    rw [e]
    refine ⟨Contains_setCurrentGeneration _ _ _, ?_, ?_, by simp⟩
    · intro c
      simp only [Env.InProgress, Env.setCurrentGeneration_CurrentGeneration, TMap.Find_Add]
      by_cases h : cls = c
      · subst h; simp [hf]
      · simp [h]
    · intro c hc
      simp only [Env.setCurrentGeneration_CurrentGeneration, Contains_Add]
      simp [hc]

theorem Initialize_nested (w : World) (tid : Nat) (gsm : GenerateCall) (hg : NestedOK tid gsm)
    (env : Env) (I : InstId) (ctx : Option Nat) (env' : Env)
    (hc : TMap.Contains env.StateMachinesGeneratingForThread tid = true)
    (h : USMInstance.Initialize w gsm env I ctx = some env') : NestedPost tid env env' := by
  unfold USMInstance.Initialize at h
  split at h
  · simp only [Option.some.injEq] at h
    rw [← h]; exact NestedPost.here hc
  · rename_i inst _
    dsimp only at h
    cases hcall : gsm (env.setInstances (env.Instances.set I { inst with Context := ctx }))
        (.SMInstance I) (USMInstance.RootStateMachine (w.GetClass inst.Class) I)
        (w.GetClass inst.Class).Properties false with
    | none => simp [hcall] at h
    | some res =>
      obtain ⟨r, e⟩ := res
      simp only [hcall, Option.map_some', Option.some.injEq] at h
      subst h
      have h1 : NestedPost tid env (env.setInstances (env.Instances.set I { inst with Context := ctx })) :=
        NestedPost.of_eq hc (by simp)
      exact h1.andThen (hg _ _ _ _ _ _ _ h1.1 hcall)

theorem Create_nested (w : World) (tid : Nat) (gsm : GenerateCall) (hg : NestedOK tid gsm)
    (env : Env) (cls : Option UClass) (ctx : Option Nat) (tmpl : Option UClass) (res : Option InstId)
    (env' : Env) (hc : TMap.Contains env.StateMachinesGeneratingForThread tid = true)
    (h : CreateStateMachineInstanceFromTemplate w gsm env cls ctx tmpl = some (res, env')) :
    NestedPost tid env env' := by
  unfold CreateStateMachineInstanceFromTemplate CreateStateMachineInstanceInternal at h
  split at h
  · simp only [Option.some.injEq, Prod.mk.injEq] at h
    rw [← h.2]; exact NestedPost.of_eq hc (by simp)
  · split at h
    · simp only [Option.some.injEq, Prod.mk.injEq] at h
      rw [← h.2]; exact NestedPost.of_eq hc (by simp)
    · rename_i Class _
      dsimp only at h
      cases hi : USMInstance.Initialize w gsm (env.NewObject Class tmpl).2 (env.NewObject Class tmpl).1 ctx with
      | none => simp [hi] at h
      | some e =>
        simp only [hi, Option.map_some', Option.some.injEq, Prod.mk.injEq] at h
        rw [← h.2]
        have h1 : NestedPost tid env (env.NewObject Class tmpl).2 :=
          NestedPost.of_eq hc (by simp [Env.NewObject])
        exact h1.andThen (Initialize_nested w tid gsm hg _ _ _ _ h1.1 hi)

theorem referenced_nested (tid : Nat) (env₀ env : Env) (SMInstance : InstId) (sm : FSMStateMachine)
    (cls : UClass) (I : InstId)
    (h : NestedPost tid (GenerateStateMachine.increment tid env₀ cls) env) :
    NestedPost tid env₀ (GenerateStateMachine.referenced tid env SMInstance sm cls I) := by
  unfold GenerateStateMachine.referenced
  dsimp only
  have h1 : NestedPost tid (GenerateStateMachine.increment tid env₀ cls)
      (env.SetReferenceOwner I SMInstance) := h.andThen (NestedPost.of_eq h.1 (by simp))
  have h2 := h1.andThen (record_nested tid _ sm cls I h1.1)
  have h3 := h2.andThen (NestedPost.of_eq h2.1 (patch_threadMap tid _ cls I))
  have hk : TMap.Contains ((GenerateStateMachine.patch tid
      (GenerateStateMachine.record tid (env.SetReferenceOwner I SMInstance) sm cls I) cls
        I).CurrentGeneration tid).InstancesGenerating cls = true :=
    h3.2.2.1 cls (by simp [Counters_increment])
  obtain ⟨d1, d2, d3, d4⟩ := decrement_spec tid _ cls hk
  refine ⟨by simpa using d1, ?_, ?_, ?_⟩
  · intro c
    simp only [Env.SetInstanceReference_InProgress, d2 c, h3.2.1, InProgress_increment]
    by_cases hcc : cls = c
    · subst hcc; simp
    · simp [hcc]
  · intro c hc
    simp only [Env.SetInstanceReference_CurrentGeneration]
    exact d3 c (h3.2.2.1 c (by simp [Counters_increment, hc]))
  · intro c hc
    simp only [Env.SetInstanceReference_CurrentGeneration, d4]
    exact h3.2.2.2 c (by simpa [Created_increment] using hc)

theorem reference_nested (w : World) (tid : Nat) (gsm : GenerateCall) (hg : NestedOK tid gsm)
    (env : Env) (SMInstance : InstId) (sm : FSMStateMachine) (cls : UClass) (bDryRun : Bool)
    (r : Bool) (env' : Env)
    (hc : TMap.Contains env.StateMachinesGeneratingForThread tid = true)
    (h : GenerateStateMachine.reference w tid gsm false env SMInstance sm cls bDryRun = some (r, env')) :
    NestedPost tid env env' := by
  obtain ⟨l, hl⟩ := template_env w env SMInstance sm cls bDryRun
  have h0 : NestedPost tid env (env.logAll l) := NestedPost.of_eq hc (by simp)
  unfold GenerateStateMachine.reference at h
  dsimp only at h
  rw [hl] at h
  split at h
  · rename_i res hchk
    simp only [Option.some.injEq] at h
    subst h
    exact h0.andThen (check_inl_nested tid _ SMInstance sm _ _ _ h0.1 hchk)
  · rename_i env₂ hchk
    have h1 := h0.andThen (check_inr_nested tid false _ SMInstance sm _ _ h0.1 hchk)
    split at h
    · simp only [FinishStateMachineGeneration, Bool.false_eq_true, if_false, Option.some.injEq,
        Prod.mk.injEq] at h
      rw [← h.2]; exact h1
    · split at h
      · exact absurd h (by simp)
      · rename_i e hcreate
        simp only [Option.some.injEq, Prod.mk.injEq] at h
        exfalso
        exact Create_ne_null w gsm _ e _ _ _ (template_fst w env SMInstance sm cls bDryRun) hcreate
      · rename_i I e hcreate
        simp only [FinishStateMachineGeneration, Bool.false_eq_true, if_false, Option.some.injEq,
          Prod.mk.injEq] at h
        rw [← h.2]
        have h2 := Create_nested w tid gsm hg _ _ _ _ _ _ (Contains_thread_increment tid env₂ _) hcreate
        exact h1.andThen (referenced_nested tid env₂ e SMInstance sm _ I h2)

theorem states_nested (tid : Nat) (gsm : Env → FSMStateMachine → Option (Bool × Env))
    (hg : ∀ env n r env', TMap.Contains env.StateMachinesGeneratingForThread tid = true →
      gsm env n = some (r, env') → NestedPost tid env env')
    (Instance : UObjectRef) (sm : FSMStateMachine) (l : List (Nat × FSMNode)) (env : Env)
    (M : TMap FGuid NodePtr) (env' : Env) (M' : TMap FGuid NodePtr)
    (hc : TMap.Contains env.StateMachinesGeneratingForThread tid = true)
    (h : GenerateStateMachine.states gsm Instance sm l env M = some (env', M')) :
    NestedPost tid env env' := by
  have key := states_rel
    (fun a b => TMap.Contains a.StateMachinesGeneratingForThread tid = true → NestedPost tid a b)
    (fun a => TMap.Contains a.StateMachinesGeneratingForThread tid = true)
    gsm Instance sm
    (fun env hc => NestedPost.here hc)
    (fun a b c hab hbc ha => (hab ha).andThen (hbc (hab ha).1))
    (fun a b ha hab => (hab ha).1)
    (fun env a b hc => NestedPost.of_eq hc (by simp))
    (fun env e hc => NestedPost.of_eq hc (by simp))
    (fun env a b hc => NestedPost.of_eq hc (by simp))
    (fun env n r env' hpre hcall _ => hg env n r env' hpre hcall)
    l env M env' M' hc h
  exact key hc

theorem transitions_threadMap (Instance : UObjectRef) (sm : FSMStateMachine)
    (M : TMap FGuid NodePtr) (l : List (Nat × FSMNode)) (env : Env) :
    (GenerateStateMachine.transitions Instance sm M l env).2.StateMachinesGeneratingForThread =
      env.StateMachinesGeneratingForThread :=
  transitions_rel
    (fun a b => b.StateMachinesGeneratingForThread = a.StateMachinesGeneratingForThread)
    Instance sm M (fun _ => rfl) (fun a b c h₁ h₂ => h₂.trans h₁)
    (fun _ _ => by simp) (fun _ _ _ => by simp) (fun _ _ _ => by simp) (fun _ _ _ => by simp) l env

theorem assemble_nested (tid : Nat) (gsm : GenerateCall) (hg : NestedOK tid gsm) (env : Env)
    (Instance : UObjectRef) (sm : FSMStateMachine) (props : List FSMNode) (bDryRun : Bool)
    (r : Bool) (env' : Env)
    (hc : TMap.Contains env.StateMachinesGeneratingForThread tid = true)
    (h : GenerateStateMachine.assemble tid gsm false env Instance sm props bDryRun = some (r, env')) :
    NestedPost tid env env' := by
  unfold GenerateStateMachine.assemble at h
  split at h
  · exact absurd h (by simp)
  · rename_i env₁ M hs
    have h1 := states_nested tid _ (fun env n r env' hc hcall => hg _ _ _ _ _ _ _ hc hcall)
      Instance sm _ env [] env₁ M hc hs
    have h2 : NestedPost tid env₁ (GenerateStateMachine.transitions Instance sm M props.enum env₁).2 :=
      NestedPost.of_eq h1.1 (transitions_threadMap Instance sm M props.enum env₁)
    split at h
    · rename_i e ht
      simp only [Option.some.injEq, Prod.mk.injEq] at h
      rw [← h.2]
      have : e = (GenerateStateMachine.transitions Instance sm M props.enum env₁).2 := by rw [ht]
      rw [this]; exact h1.andThen h2
    · rename_i e ht
      simp only [FinishStateMachineGeneration, Bool.false_eq_true, if_false, Option.some.injEq,
        Prod.mk.injEq] at h
      rw [← h.2]
      have : e = (GenerateStateMachine.transitions Instance sm M props.enum env₁).2 := by rw [ht]
      rw [this]; exact h1.andThen h2

theorem Find_of_Contains {κ ν : Type} [DecidableEq κ] (m : TMap κ ν) (k : κ)
    (h : TMap.Contains m k = true) : ∃ v, TMap.Find m k = some v := by
  simp only [TMap.Contains] at h
  cases hf : TMap.Find m k with
  | none => simp [hf] at h
  | some v => exact ⟨v, rfl⟩

theorem body_nested (w : World) (tid : Nat) (gsm : GenerateCall) (hg : NestedOK tid gsm) :
    NestedOK tid (GenerateStateMachine.body w tid gsm) := by
  intro env Instance sm props bDryRun r env' hc h
  obtain ⟨g, hgen⟩ := Find_of_Contains _ _ hc
  unfold GenerateStateMachine.body at h
  simp only [hc, Bool.not_true, Env.FindOrAddGeneration_of_Find env tid g hgen] at h
  cases hcr : sm.Node.ClassReference with
  | none =>
    simp only [hcr] at h
    exact assemble_nested tid gsm hg env Instance sm props bDryRun r env' hc h
  | some cls =>
    cases Instance with
    | SMInstance I =>
      simp only [hcr] at h
      exact reference_nested w tid gsm hg env I sm cls bDryRun r env' hc h
    | Object o =>
      simp only [hcr] at h
      exact assemble_nested tid gsm hg env _ sm props bDryRun r env' hc h

theorem GenerateStateMachine_nested (w : World) (tid : Nat) :
    ∀ depth, NestedOK tid (GenerateStateMachine w tid depth) := by
  intro depth
  induction depth with
  | zero => intro env Instance sm props bDryRun r env' _ h; simp [GenerateStateMachine] at h
  | succ d ih => exact body_nested w tid _ ih

/-! ## Termination -/

theorem Nests_mono (props : List FSMNode) : ∀ (k : Nat) (g : FGuid), Nests k props g = true →
    Nests (k + 1) props g = true := by
  intro k
  induction k with
  | zero => intro g h; simp [Nests] at h
  | succ k ih =>
    intro g h
    rw [Nests, List.all_eq_true] at h ⊢
    intro p hp
    have := h p hp
    simp only [Bool.or_eq_true] at this ⊢
    rcases this with h1 | h1
    · exact Or.inl h1
    · exact Or.inr (ih _ h1)

theorem Nests_mono_le (props : List FSMNode) (g : FGuid) {k k' : Nat} (hk : k ≤ k')
    (h : Nests k props g = true) : Nests k' props g = true := by
  induction hk with
  | refl => exact h
  | step _ ih => exact Nests_mono props _ g ih

theorem Nests_child {k : Nat} {props : List FSMNode} {g : FGuid} (h : Nests (k + 1) props g = true)
    {p : FSMNode} (hp : p ∈ props) (hsm : p.Struct.IsChildOfStateMachine = true)
    (ho : p.OwnerGuid = g) : Nests k props p.Guid = true := by
  rw [Nests, List.all_eq_true] at h
  have := h p hp
  simpa [hsm, ho] using this

theorem Nests_pos {k : Nat} {props : List FSMNode} {g : FGuid} (h : Nests k props g = true) :
    1 ≤ k := by
  cases k with
  | zero => simp [Nests] at h
  | succ k => omega

theorem World.Nests_GetClass (w : World) (R : Nat) (hw : w.Nests R = true) (hR : 1 ≤ R) (c : UClass) :
    SM.Nests R (w.GetClass c).Properties (w.GetClass c).RootStateMachineGuid = true := by
  unfold World.GetClass
  by_cases hc : c < w.length
  · rw [World.Nests, List.all_eq_true] at hw
    have : w.getD c { DefaultSubobjects := [], RootStateMachineGuid := 0, Properties := [] } = w[c] := by
      simp [List.getD, List.getElem?_eq_getElem hc]
    rw [this]
    exact hw _ (List.getElem_mem _)
  · have : w.getD c { DefaultSubobjects := [], RootStateMachineGuid := 0, Properties := [] } =
        { DefaultSubobjects := [], RootStateMachineGuid := 0, Properties := [] } := by
      simp [List.getD, List.getElem?_eq_none (Nat.le_of_not_lt hc)]
    rw [this]
    obtain ⟨R', rfl⟩ : ∃ R', R = R' + 1 := ⟨R - 1, by omega⟩
    simp [SM.Nests]

theorem Slots_le_of_NestedPost {tid : Nat} {a b : Env} (h : NestedPost tid a b) (c : UClass) :
    b.Slots tid c ≤ a.Slots tid c := by
  unfold Env.Slots
  rw [h.2.1 c]
  have := h.2.2.2 c
  by_cases hc : TMap.Contains (a.CurrentGeneration tid).CreatedReferences c = true
  · simp [hc, this hc]
  · simp only [hc, Bool.false_eq_true, if_false]
    split <;> omega

theorem Potential_le_of_NestedPost (w : World) {tid : Nat} {a b : Env} (h : NestedPost tid a b) :
    b.Potential w tid ≤ a.Potential w tid :=
  List.sum_le_sum (fun c _ => Slots_le_of_NestedPost h c)

theorem Potential_congr (w : World) {tid : Nat} {a b : Env}
    (h : b.StateMachinesGeneratingForThread = a.StateMachinesGeneratingForThread) :
    b.Potential w tid = a.Potential w tid := by
  have hg := Env.CurrentGeneration_congr tid h
  have : b.Slots tid = a.Slots tid := by
    funext c; simp [Env.Slots, Env.InProgress, hg]
  simp [Env.Potential, this]

theorem Potential_FindOrAddGeneration (w : World) (tid : Nat) (env : Env) :
    (env.FindOrAddGeneration tid).Potential w tid = env.Potential w tid := by
  have : (env.FindOrAddGeneration tid).Slots tid = env.Slots tid := by
    funext c; simp [Env.Slots]
  simp [Env.Potential, this]

/-- Letting a reference through the check and counting it in costs a slot of its class. -/
theorem check_inr_slots (tid : Nat) (top : Bool) (env : Env) (SMInstance : InstId)
    (sm : FSMStateMachine) (cls : UClass) (env₂ : Env)
    (h : GenerateStateMachine.check tid top env SMInstance sm cls = .inr env₂) :
    (GenerateStateMachine.increment tid env₂ cls).Slots tid cls < env.Slots tid cls ∧
    ∀ c, (GenerateStateMachine.increment tid env₂ cls).Slots tid c ≤ env.Slots tid c := by
  have key : ∀ c, (GenerateStateMachine.increment tid env₂ cls).Slots tid c =
      (2 - (if cls = c then env₂.InProgress tid cls + 1 else env₂.InProgress tid c)).toNat +
        (if TMap.Contains (env₂.CurrentGeneration tid).CreatedReferences c then 0 else 1) := by
    intro c
    simp only [Env.Slots, InProgress_increment, Created_increment]
  unfold GenerateStateMachine.check at h
  dsimp only at h
  split at h
  · split at h
    · exact absurd h (by simp)
    · exact absurd h (by simp)
    · rename_i hfind
      simp only [Sum.inr.injEq] at h
      subst h
      have hnc : TMap.Contains (env.CurrentGeneration tid).CreatedReferences cls = false := by
        simp [TMap.Contains, hfind]
      have hip : ∀ c, (env.setCurrentGeneration tid
          { env.CurrentGeneration tid with
            CreatedReferences := TMap.Add (env.CurrentGeneration tid).CreatedReferences cls none }).InProgress
            tid c = env.InProgress tid c := by
        intro c; simp [Env.InProgress]
      constructor
      · rw [key]
        simp only [hip, if_true, Env.setCurrentGeneration_CurrentGeneration, Contains_Add,
          decide_True, Bool.true_or, if_true, Env.Slots, hnc, Bool.false_eq_true, if_false]
        omega
      · intro c
        rw [key]
        simp only [hip, Env.setCurrentGeneration_CurrentGeneration, Contains_Add, Env.Slots]
        by_cases hcc : cls = c
        · subst hcc
          simp only [if_true, decide_True, Bool.true_or, hnc, Bool.false_eq_true, if_false]
          omega
        · simp only [hcc, if_false, decide_False, Bool.false_or]
          exact le_refl _
  · have hle : env₂ = env ∧ env.InProgress tid cls ≤ 1 := by
      split at h
      · rename_i v hfind
        split at h
        · exact absurd h (by simp)
        · rename_i hv
          simp only [Sum.inr.injEq] at h
          exact ⟨h.symm, by simp only [Env.InProgress, hfind, Option.getD_some]; omega⟩
      · rename_i hfind
        simp only [Sum.inr.injEq] at h
        exact ⟨h.symm, by simp [Env.InProgress, hfind]⟩
    obtain ⟨rfl, hle⟩ := hle
    constructor
    · rw [key]
      simp only [if_true, Env.Slots]
      omega
    · intro c
      rw [key]
      simp only [Env.Slots]
      by_cases hcc : cls = c
      · subst hcc
        simp only [if_true]
        omega
      · simp only [hcc, if_false]
        exact le_refl _

theorem check_inr_potential (w : World) (tid : Nat) (top : Bool) (env : Env) (SMInstance : InstId)
    (sm : FSMStateMachine) (cls : UClass) (env₂ : Env) (hcls : cls < w.length)
    (h : GenerateStateMachine.check tid top env SMInstance sm cls = .inr env₂) :
    (GenerateStateMachine.increment tid env₂ cls).Potential w tid < env.Potential w tid := by
  obtain ⟨h1, h2⟩ := check_inr_slots tid top env SMInstance sm cls env₂ h
  exact List.sum_lt_sum _ _ (fun c _ => h2 c) ⟨cls, List.mem_range.mpr hcls, h1⟩

theorem snd_mem_of_mem_enum {α : Type} {x : Nat × α} {l : List α} (h : x ∈ l.enum) : x.2 ∈ l :=
  List.snd_mem_of_mem_enumFrom h

/-- The first pass returns when every nested activation it makes returns. -/
theorem states_returns (P : Env → Prop)
    (gsm : Env → FSMStateMachine → Option (Bool × Env)) (Instance : UObjectRef)
    (sm : FSMStateMachine) (props : List FSMNode)
    (hAdd : ∀ env a b, P env → P (env.AddState a b))
    (hLog : ∀ env e, P env → P (env.log e))
    (hInit : ∀ env a b, P env → P (env.AddInitialState a b))
    (hcall : ∀ env i p, P env → p ∈ props → p.Struct.IsChildOfStateMachine = true →
      p.OwnerGuid = sm.Node.Guid →
      ∃ r env', gsm env ⟨⟨Instance, some i⟩, p⟩ = some (r, env') ∧ P env') :
    ∀ (l : List (Nat × FSMNode)), (∀ x ∈ l, x.2 ∈ props) → ∀ (env : Env) (M : TMap FGuid NodePtr),
      P env → ∃ env' M', GenerateStateMachine.states gsm Instance sm l env M = some (env', M') ∧ P env' := by
  intro l
  induction l with
  | nil => intro _ env M hp; exact ⟨env, M, rfl, hp⟩
  | cons a l ih =>
    obtain ⟨i, p⟩ := a
    intro hl env M hp
    have hl' : ∀ x ∈ l, x.2 ∈ props := fun x hx => hl x (List.mem_cons_of_mem _ hx)
    have hpm : p ∈ props := hl (i, p) (List.mem_cons_self _ _)
    simp only [GenerateStateMachine.states]
    split
    · split
      · exact ih hl' env M hp
      · rename_i hown
        simp only [ne_eq, not_not] at hown
        have p2 : P (if TMap.Contains M p.Guid then
            (env.AddState sm.Ptr ⟨Instance, some i⟩).log (.GuidAlreadyAdded ⟨Instance, some i⟩ p.Guid)
            else env.AddState sm.Ptr ⟨Instance, some i⟩) := by
          split
          · exact hLog _ _ (hAdd _ _ _ hp)
          · exact hAdd _ _ _ hp
        by_cases hsm : p.Struct.IsChildOfStateMachine = true
        · obtain ⟨r, e, hc, pe⟩ := hcall _ i p p2 hpm hsm hown
          simp only [hsm, if_true, hc, Option.map_some']
          have p3 : P (if p.bIsRootNode then e.AddInitialState sm.Ptr ⟨Instance, some i⟩ else e) := by
            split
            · exact hInit _ _ _ pe
            · exact pe
          exact ih hl' _ _ p3
        · simp only [hsm, Bool.false_eq_true, if_false]
          have p3 : P (if p.bIsRootNode then
              (if TMap.Contains M p.Guid then
                (env.AddState sm.Ptr ⟨Instance, some i⟩).log (.GuidAlreadyAdded ⟨Instance, some i⟩ p.Guid)
                else env.AddState sm.Ptr ⟨Instance, some i⟩).AddInitialState sm.Ptr ⟨Instance, some i⟩
              else (if TMap.Contains M p.Guid then
                (env.AddState sm.Ptr ⟨Instance, some i⟩).log (.GuidAlreadyAdded ⟨Instance, some i⟩ p.Guid)
                else env.AddState sm.Ptr ⟨Instance, some i⟩)) := by
            split
            · exact hInit _ _ _ p2
            · exact p2
          exact ih hl' _ _ p3
    · exact ih hl' env M hp

theorem assemble_returns (tid : Nat) (P : Env → Prop) (gsm : GenerateCall) (top : Bool) (env : Env)
    (Instance : UObjectRef) (sm : FSMStateMachine) (props : List FSMNode) (bDryRun : Bool)
    (hAdd : ∀ env a b, P env → P (env.AddState a b))
    (hLog : ∀ env e, P env → P (env.log e))
    (hInit : ∀ env a b, P env → P (env.AddInitialState a b))
    (hcall : ∀ env i p, P env → p ∈ props → p.Struct.IsChildOfStateMachine = true →
      p.OwnerGuid = sm.Node.Guid →
      ∃ r env', gsm env Instance ⟨⟨Instance, some i⟩, p⟩ props bDryRun = some (r, env') ∧ P env')
    (hp : P env) :
    (GenerateStateMachine.assemble tid gsm top env Instance sm props bDryRun).isSome = true := by
  obtain ⟨e, M, hs, _⟩ := states_returns P (fun env n => gsm env Instance n props bDryRun)
    Instance sm props hAdd hLog hInit hcall props.enum (fun x hx => snd_mem_of_mem_enum hx) env [] hp
  unfold GenerateStateMachine.assemble
  simp only [hs]
  split <;> rfl

theorem GenerateStateMachine_nil_returns (w : World) (tid depth : Nat) (env : Env)
    (Instance : UObjectRef) (sm : FSMStateMachine) (bDryRun : Bool)
    (hsm : sm.Node.ClassReference = none) :
    (GenerateStateMachine w tid (depth + 1) env Instance sm [] bDryRun).isSome = true := by
  simp only [GenerateStateMachine, GenerateStateMachine.body, hsm]
  exact assemble_returns tid (fun _ => True) _ _ _ _ _ _ _ (fun _ _ _ _ => trivial)
    (fun _ _ _ => trivial) (fun _ _ _ _ => trivial)
    (fun _ _ p _ hp => absurd hp (List.not_mem_nil p)) trivial

theorem NewObject_get (env : Env) (c : UClass) (t : Option UClass) :
    (env.NewObject c t).2.Instances.get? (env.NewObject c t).1 =
      some { Class := c, Context := none, Template := t, ReferenceOwner := none } := by
  simp [Env.NewObject]

theorem Create_returns (w : World) (gsm : GenerateCall) (env : Env) (cls : UClass)
    (ctx : Option Nat) (tmpl : Option UClass)
    (h : ∀ env_i I, env_i.StateMachinesGeneratingForThread = env.StateMachinesGeneratingForThread →
      (gsm env_i (.SMInstance I) (USMInstance.RootStateMachine (w.GetClass cls) I)
        (w.GetClass cls).Properties false).isSome = true) :
    (CreateStateMachineInstanceFromTemplate w gsm env (some cls) ctx tmpl).isSome = true := by
  unfold CreateStateMachineInstanceFromTemplate CreateStateMachineInstanceInternal
  dsimp only
  split
  · rfl
  · unfold USMInstance.Initialize
    rw [NewObject_get]
    dsimp only
    have := h (((env.NewObject cls tmpl).2).setInstances
        ((env.NewObject cls tmpl).2.Instances.set (env.NewObject cls tmpl).1
          { Class := cls, Context := ctx, Template := tmpl, ReferenceOwner := none }))
      (env.NewObject cls tmpl).1 (by simp [Env.NewObject])
    cases hc : gsm (((env.NewObject cls tmpl).2).setInstances
        ((env.NewObject cls tmpl).2.Instances.set (env.NewObject cls tmpl).1
          { Class := cls, Context := ctx, Template := tmpl, ReferenceOwner := none }))
      (.SMInstance (env.NewObject cls tmpl).1) (USMInstance.RootStateMachine (w.GetClass cls)
        (env.NewObject cls tmpl).1) (w.GetClass cls).Properties false with
    | none => simp [hc] at this
    | some r => simp

theorem increment_threadMap_of (tid : Nat) (env : Env) (cls : UClass) :
    (GenerateStateMachine.increment tid env cls).Instances = env.Instances := by
  simp [GenerateStateMachine.increment]

theorem reference_returns (w : World) (tid : Nat) (gsm : GenerateCall) (top : Bool) (env : Env)
    (SMInstance : InstId) (sm : FSMStateMachine) (cls : UClass) (bDryRun : Bool)
    (h : ∀ env₂ env_i I,
      GenerateStateMachine.check tid top
        (GenerateStateMachine.template w env SMInstance sm cls bDryRun).2.2 SMInstance sm
        (GenerateStateMachine.template w env SMInstance sm cls bDryRun).2.1 = .inr env₂ →
      env_i.StateMachinesGeneratingForThread =
        (GenerateStateMachine.increment tid env₂
          (GenerateStateMachine.template w env SMInstance sm cls bDryRun).2.1).StateMachinesGeneratingForThread →
      (gsm env_i (.SMInstance I)
        (USMInstance.RootStateMachine
          (w.GetClass (GenerateStateMachine.template w env SMInstance sm cls bDryRun).2.1) I)
        (w.GetClass (GenerateStateMachine.template w env SMInstance sm cls bDryRun).2.1).Properties
        false).isSome = true) :
    (GenerateStateMachine.reference w tid gsm top env SMInstance sm cls bDryRun).isSome = true := by
  unfold GenerateStateMachine.reference
  dsimp only
  split
  · rfl
  · rename_i env₂ hchk
    split
    · rfl
    · have := Create_returns w gsm
        (GenerateStateMachine.increment tid env₂
          (GenerateStateMachine.template w env SMInstance sm cls bDryRun).2.1)
        (GenerateStateMachine.template w env SMInstance sm cls bDryRun).2.1
        (((GenerateStateMachine.increment tid env₂
          (GenerateStateMachine.template w env SMInstance sm cls bDryRun).2.1).Instances.get?
            SMInstance).bind (fun i => i.Context))
        (GenerateStateMachine.template w env SMInstance sm cls bDryRun).1
        (fun env_i I he => h env₂ env_i I hchk he)
      split
      · rename_i hnone
        rw [hnone] at this
        exact absurd this (by simp)
      · rfl
      · rfl

/-- Termination: with every class of the world nesting at most `R` levels and the given
node set nesting at most `k` levels below the state machine, a call stack of
`Potential * (R + 2) + k + 1` frames is enough for the call to return. -/
theorem GenerateStateMachine_returns (w : World) (R tid : Nat) (hw : w.Nests R = true) :
    ∀ (depth : Nat) (env : Env) (Instance : UObjectRef) (sm : FSMStateMachine)
      (props : List FSMNode) (bDryRun : Bool) (k : Nat),
      Nests k props sm.Node.Guid = true →
      env.Potential w tid * (R + 2) + k + 1 ≤ depth →
      (GenerateStateMachine w tid depth env Instance sm props bDryRun).isSome = true := by
  have hw' : w.Nests (R + 1) = true := by
    rw [World.Nests, List.all_eq_true] at hw ⊢
    exact fun c hc => Nests_mono _ _ _ (hw c hc)
  intro depth
  induction depth with
  | zero => intro env Instance sm props bDryRun k _ h; omega
  | succ d ih =>
    intro env Instance sm props bDryRun k hk hd
    have hk1 := Nests_pos hk
    have hpot := Potential_FindOrAddGeneration w tid env
    have hcont : TMap.Contains (env.FindOrAddGeneration tid).StateMachinesGeneratingForThread tid = true := by
      simp [TMap.Contains, Env.Find_FindOrAddGeneration]
    have hlocal : (GenerateStateMachine.assemble tid (GenerateStateMachine w tid d)
        (!TMap.Contains env.StateMachinesGeneratingForThread tid) (env.FindOrAddGeneration tid)
        Instance sm props bDryRun).isSome = true := by
      refine assemble_returns tid
        (fun e => TMap.Contains e.StateMachinesGeneratingForThread tid = true ∧
          e.Potential w tid ≤ env.Potential w tid) _ _ _ _ _ _ _ ?_ ?_ ?_ ?_ ⟨hcont, le_of_eq hpot⟩
      · intro e a b he
        exact ⟨by simpa using he.1, le_trans (le_of_eq (Potential_congr w (a := e) (by simp))) he.2⟩
      · intro e a he
        exact ⟨by simpa using he.1, le_trans (le_of_eq (Potential_congr w (a := e) (by simp))) he.2⟩
      · intro e a b he
        exact ⟨by simpa using he.1, le_trans (le_of_eq (Potential_congr w (a := e) (by simp))) he.2⟩
      · intro e i p he hp hsm ho
        obtain ⟨k', rfl⟩ : ∃ k', k = k' + 1 := ⟨k - 1, by omega⟩
        have hk' := Nests_child hk hp hsm ho
        have hret := ih e Instance ⟨⟨Instance, some i⟩, p⟩ props bDryRun k' hk' (by
          have := Nat.mul_le_mul_right (R + 2) he.2
          omega)
        cases hc : GenerateStateMachine w tid d e Instance ⟨⟨Instance, some i⟩, p⟩ props bDryRun with
        | none => simp [hc] at hret
        | some res =>
          obtain ⟨r, e'⟩ := res
          have hpost := GenerateStateMachine_nested w tid d e Instance _ props bDryRun r e' he.1 hc
          exact ⟨r, e', rfl, hpost.1, le_trans (Potential_le_of_NestedPost w hpost) he.2⟩
    simp only [GenerateStateMachine, GenerateStateMachine.body]
    cases hcr : sm.Node.ClassReference with
    | none => simpa [hcr] using hlocal
    | some cls =>
      cases Instance with
      | Object o => simpa [hcr] using hlocal
      | SMInstance I =>
        simp only [hcr]
        refine reference_returns w tid _ _ _ I sm cls bDryRun ?_
        intro env₂ env_i I' hchk he
        obtain ⟨l, hl⟩ := template_env w (env.FindOrAddGeneration tid) I sm cls bDryRun
        rw [hl] at hchk
        have hpl : (((env.FindOrAddGeneration tid).logAll l)).Potential w tid = env.Potential w tid := by
          rw [Potential_congr w (a := env.FindOrAddGeneration tid) (by simp), hpot]
        by_cases hin : (GenerateStateMachine.template w (env.FindOrAddGeneration tid) I sm cls bDryRun).2.1
            < w.length
        · have hlt := check_inr_potential w tid _ _ I sm _ env₂ hin hchk
          rw [hpl] at hlt
          have hpi := @Potential_congr w tid _ _ he
          refine ih env_i _ _ _ false (R + 1) (World.Nests_GetClass w (R + 1) hw' (by omega) _) ?_
          rw [hpi]
          have h1 : (GenerateStateMachine.increment tid env₂
              (GenerateStateMachine.template w (env.FindOrAddGeneration tid) I sm cls bDryRun).2.1).Potential
                w tid + 1 ≤ env.Potential w tid := hlt
          have := Nat.mul_le_mul_right (R + 2) h1
          have e1 : ((GenerateStateMachine.increment tid env₂
              (GenerateStateMachine.template w (env.FindOrAddGeneration tid) I sm cls bDryRun).2.1).Potential
                w tid + 1) * (R + 2) = (GenerateStateMachine.increment tid env₂
              (GenerateStateMachine.template w (env.FindOrAddGeneration tid) I sm cls bDryRun).2.1).Potential
                w tid * (R + 2) + (R + 2) := by ring
          omega
        · have hprops : (w.GetClass (GenerateStateMachine.template w (env.FindOrAddGeneration tid) I sm cls
              bDryRun).2.1).Properties = [] := by
            unfold World.GetClass
            simp [List.getD, List.getElem?_eq_none (Nat.le_of_not_lt hin)]
          rw [hprops]
          obtain ⟨d', rfl⟩ : ∃ d', d = d' + 1 := ⟨d - 1, by omega⟩
          exact GenerateStateMachine_nil_returns w tid d' env_i _ _ false rfl

/-! ## Local assembly: the result -/

theorem states_mapped (gsm : Env → FSMStateMachine → Option (Bool × Env)) (Instance : UObjectRef)
    (sm : FSMStateMachine) :
    ∀ (l : List (Nat × FSMNode)) (env : Env) (M : TMap FGuid NodePtr) (env' : Env)
      (M' : TMap FGuid NodePtr),
      GenerateStateMachine.states gsm Instance sm l env M = some (env', M') →
      ∀ g, TMap.Contains M' g = true ↔
        (TMap.Contains M g = true ∨
          ∃ x ∈ l, x.2.Struct.IsChildOfState_Base = true ∧ x.2.OwnerGuid = sm.Node.Guid ∧ x.2.Guid = g) := by
  intro l
  induction l with
  | nil =>
    intro env M env' M' h g
    simp only [GenerateStateMachine.states, Option.some.injEq, Prod.mk.injEq] at h
    simp [h.2]
  | cons a l ih =>
    obtain ⟨i, p⟩ := a
    intro env M env' M' h g
    simp only [GenerateStateMachine.states] at h
    split at h
    · rename_i hst
      split at h
      · rename_i hown
        rw [ih _ _ _ _ h g]
        constructor
        · rintro (h1 | ⟨x, hx, h2⟩)
          · exact Or.inl h1
          · exact Or.inr ⟨x, List.mem_cons_of_mem _ hx, h2⟩
        · rintro (h1 | ⟨x, hx, h2⟩)
          · exact Or.inl h1
          · rcases List.mem_cons.mp hx with rfl | hx
            · exact absurd h2.2.1 hown
            · exact Or.inr ⟨x, hx, h2⟩
      · rename_i hown
        simp only [ne_eq, not_not] at hown
        split at h
        · exact absurd h (by simp)
        · rw [ih _ _ _ _ h g, Contains_Add]
          constructor
          · rintro (h1 | ⟨x, hx, h2⟩)
            · simp only [Bool.or_eq_true, decide_eq_true_eq] at h1
              rcases h1 with h1 | h1
              · exact Or.inr ⟨(i, p), List.mem_cons_self _ _, hst, hown, h1⟩
              · exact Or.inl h1
            · exact Or.inr ⟨x, List.mem_cons_of_mem _ hx, h2⟩
          · rintro (h1 | ⟨x, hx, h2⟩)
            · exact Or.inl (by simp [h1])
            · rcases List.mem_cons.mp hx with rfl | hx
              · exact Or.inl (by simp only [Bool.or_eq_true, decide_eq_true_eq]; exact Or.inl h2.2.2)
              · exact Or.inr ⟨x, hx, h2⟩
    · rename_i hst
      rw [ih _ _ _ _ h g]
      constructor
      · rintro (h1 | ⟨x, hx, h2⟩)
        · exact Or.inl h1
        · exact Or.inr ⟨x, List.mem_cons_of_mem _ hx, h2⟩
      · rintro (h1 | ⟨x, hx, h2⟩)
        · exact Or.inl h1
        · rcases List.mem_cons.mp hx with rfl | hx
          · exact absurd h2.1 hst
          · exact Or.inr ⟨x, hx, h2⟩

theorem transitions_result (Instance : UObjectRef) (sm : FSMStateMachine) (M : TMap FGuid NodePtr) :
    ∀ (l : List (Nat × FSMNode)) (env : Env),
      (GenerateStateMachine.transitions Instance sm M l env).1 = true ↔
        ∀ x ∈ l, x.2.Struct.IsChildOfTransition = true → x.2.OwnerGuid = sm.Node.Guid →
          TMap.Contains M x.2.FromGuid = true ∧ TMap.Contains M x.2.ToGuid = true := by
  intro l
  induction l with
  | nil => intro env; simp [GenerateStateMachine.transitions]
  | cons a l ih =>
    obtain ⟨i, p⟩ := a
    intro env
    simp only [GenerateStateMachine.transitions, List.forall_mem_cons]
    split
    · rename_i htr
      split
      · rename_i hown
        rw [ih]
        exact ⟨fun h => ⟨fun _ ho => absurd ho hown, h⟩, fun h => h.2⟩
      · rename_i hown
        simp only [ne_eq, not_not] at hown
        split
        · rename_i hf
          simp only [Bool.false_eq_true, false_iff, not_and]
          intro h
          have := (h htr hown).1
          simp [TMap.Contains, hf] at this
        · rename_i FromState hf
          split
          · rename_i ht
            simp only [Bool.false_eq_true, false_iff, not_and]
            intro h
            have := (h htr hown).2
            simp [TMap.Contains, ht] at this
          · rename_i ToState ht
            rw [ih]
            exact ⟨fun h => ⟨fun _ _ => ⟨by simp [TMap.Contains, hf], by simp [TMap.Contains, ht]⟩, h⟩,
              fun h => h.2⟩
    · rename_i htr
      rw [ih]
      exact ⟨fun h => ⟨fun ht => absurd ht htr, h⟩, fun h => h.2⟩

theorem assemble_result (tid : Nat) (gsm : GenerateCall) (top : Bool) (env : Env)
    (Instance : UObjectRef) (sm : FSMStateMachine) (props : List FSMNode) (bDryRun : Bool)
    (r : Bool) (env' : Env)
    (h : GenerateStateMachine.assemble tid gsm top env Instance sm props bDryRun = some (r, env')) :
    r = true ↔ TransitionsResolve props sm.Node.Guid := by
  unfold GenerateStateMachine.assemble at h
  split at h
  · exact absurd h (by simp)
  · rename_i env₁ M hs
    have hM := states_mapped _ Instance sm _ _ _ _ _ hs
    have hT := transitions_result Instance sm M props.enum env₁
    have hr : r = (GenerateStateMachine.transitions Instance sm M props.enum env₁).1 := by
      split at h
      · rename_i e ht
        simp only [Option.some.injEq, Prod.mk.injEq] at h
        rw [ht]; exact h.1.symm
      · rename_i e ht
        simp only [Option.some.injEq, Prod.mk.injEq] at h
        rw [ht]; exact h.1.symm
    rw [hr, hT]
    have hmem : ∀ g, TMap.Contains M g = true ↔
        ∃ s ∈ props, s.Struct.IsChildOfState_Base = true ∧ s.OwnerGuid = sm.Node.Guid ∧ s.Guid = g := by
      intro g
      rw [hM g]
      constructor
      · rintro (h1 | ⟨x, hx, h2⟩)
        · simp [TMap.Contains, TMap.Find] at h1
        · exact ⟨x.2, snd_mem_of_mem_enum hx, h2⟩
      · rintro ⟨s, hs, h2⟩
        obtain ⟨i, hi, hget⟩ := List.mem_iff_getElem.mp hs
        refine Or.inr ⟨(i, s), ?_, h2⟩
        rw [List.mk_mem_enum_iff_getElem?]
        simp [hi, hget]
    constructor
    · intro h t ht htr ho
      obtain ⟨i, hi, hget⟩ := List.mem_iff_getElem.mp ht
      have hx : (i, t) ∈ props.enum := by
        rw [List.mk_mem_enum_iff_getElem?]; simp [hi, hget]
      have := h (i, t) hx htr ho
      exact ⟨(hmem _).mp this.1, (hmem _).mp this.2⟩
    · intro h x hx htr ho
      have := h x.2 (snd_mem_of_mem_enum hx) htr ho
      exact ⟨(hmem _).mpr this.1, (hmem _).mpr this.2⟩

/-- C1: for every state machine node that is not a reference node, over a node set that
nests finitely below it (in a world whose classes nest finitely), `GenerateStateMachine`
returns, and it returns true if and only if every transition record owned by the state
machine has a `FromGuid` and a `ToGuid` that each equal the structural GUID of some state
record owned by that same state machine; a transition with a missing from-state or
to-state makes it return false. -/
theorem C1_true_iff_transitions_resolve (w : World) (R ThreadId : Nat) (env : Env)
    (Instance : UObjectRef) (StateMachineOut : FSMStateMachine) (RunTimeProperties : List FSMNode)
    (bDryRun : Bool) (k depth : Nat)
    (hNoReference : StateMachineOut.Node.ClassReference = none)
    (hWorld : w.Nests R = true)
    (hNests : Nests k RunTimeProperties StateMachineOut.Node.Guid = true)
    (hDepth : env.Potential w ThreadId * (R + 2) + k + 1 ≤ depth) :
    ∃ r env', GenerateStateMachine w ThreadId depth env Instance StateMachineOut RunTimeProperties
        bDryRun = some (r, env') ∧
      (r = true ↔ TransitionsResolve RunTimeProperties StateMachineOut.Node.Guid) := by
  have hret := GenerateStateMachine_returns w R ThreadId hWorld depth env Instance StateMachineOut
    RunTimeProperties bDryRun k hNests hDepth
  cases hc : GenerateStateMachine w ThreadId depth env Instance StateMachineOut RunTimeProperties
      bDryRun with
  | none => simp [hc] at hret
  | some res =>
    obtain ⟨r, env'⟩ := res
    refine ⟨r, env', rfl, ?_⟩
    obtain ⟨d, rfl⟩ : ∃ d, depth = d + 1 := ⟨depth - 1, by omega⟩
    simp only [GenerateStateMachine, GenerateStateMachine.body, hNoReference] at hc
    exact assemble_result ThreadId _ _ _ Instance StateMachineOut RunTimeProperties bDryRun r env' hc

/-! ## Assembly of levels without reference nodes -/

theorem Env.Frame.same (env : Env) : env.Frame env := ⟨rfl, rfl, rfl, List.prefix_refl _⟩

theorem Env.Frame.comp {a b c : Env} (h₁ : a.Frame b) (h₂ : b.Frame c) : a.Frame c :=
  ⟨h₂.1.trans h₁.1, h₂.2.1.trans h₁.2.1, h₂.2.2.1.trans h₁.2.2.1, h₁.2.2.2.trans h₂.2.2.2⟩

theorem Env.Frame.log (env : Env) (e : LogEntry) : env.Frame (env.log e) :=
  ⟨by simp, by simp, by simp, by simp⟩

theorem Env.Frame.AddState (env : Env) (a b : NodePtr) : env.Frame (env.AddState a b) :=
  ⟨by simp, by simp, by simp, by simp⟩

theorem Env.Frame.AddInitialState (env : Env) (a b : NodePtr) : env.Frame (env.AddInitialState a b) :=
  ⟨by simp, by simp, by simp, by simp⟩

theorem Env.Frame.SetFromState (env : Env) (a b : NodePtr) : env.Frame (env.SetFromState a b) :=
  ⟨by simp, by simp, by simp, by simp⟩

theorem Env.Frame.SetToState (env : Env) (a b : NodePtr) : env.Frame (env.SetToState a b) :=
  ⟨by simp, by simp, by simp, by simp⟩

theorem Env.Frame.AddTransition (env : Env) (a b : NodePtr) : env.Frame (env.AddTransition a b) :=
  ⟨by simp, by simp, by simp, by simp⟩

theorem transitions_frame (Instance : UObjectRef) (sm : FSMStateMachine) (M : TMap FGuid NodePtr)
    (l : List (Nat × FSMNode)) (env : Env) :
    env.Frame (GenerateStateMachine.transitions Instance sm M l env).2 :=
  transitions_rel Env.Frame Instance sm M Env.Frame.same (fun _ _ _ => Env.Frame.comp)
    Env.Frame.log Env.Frame.SetFromState Env.Frame.SetToState Env.Frame.AddTransition l env

/-- The first pass over records none of whose nested activations does more than a frame
step is itself a frame step, and returns. -/
theorem states_frame (gsm : Env → FSMStateMachine → Option (Bool × Env)) (Instance : UObjectRef)
    (sm : FSMStateMachine) (T : TMap Nat GeneratingStateMachines) (l : List (Nat × FSMNode))
    (hcall : ∀ env x, x ∈ l → env.StateMachinesGeneratingForThread = T →
      x.2.Struct.IsChildOfStateMachine = true → x.2.OwnerGuid = sm.Node.Guid →
      ∃ r env', gsm env ⟨⟨Instance, some x.1⟩, x.2⟩ = some (r, env') ∧ env.Frame env')
    (env : Env) (M : TMap FGuid NodePtr) (hT : env.StateMachinesGeneratingForThread = T) :
    ∃ env' M', GenerateStateMachine.states gsm Instance sm l env M = some (env', M') ∧
      env.Frame env' := by
  induction l generalizing env M with
  | nil => exact ⟨env, M, rfl, Env.Frame.same env⟩
  | cons a l ih =>
    obtain ⟨i, p⟩ := a
    have ih' := ih (fun env x hx => hcall env x (List.mem_cons_of_mem _ hx))
    simp only [GenerateStateMachine.states]
    split
    · split
      · exact ih' env M hT
      · rename_i hown
        simp only [ne_eq, not_not] at hown
        have f2 : env.Frame (if TMap.Contains M p.Guid then
            (env.AddState sm.Ptr ⟨Instance, some i⟩).log (.GuidAlreadyAdded ⟨Instance, some i⟩ p.Guid)
            else env.AddState sm.Ptr ⟨Instance, some i⟩) := by
          split
          · exact (Env.Frame.AddState _ _ _).comp (Env.Frame.log _ _)
          · exact Env.Frame.AddState _ _ _
        by_cases hsm : p.Struct.IsChildOfStateMachine = true
        · obtain ⟨r, e, hc, fe⟩ := hcall _ (i, p) (List.mem_cons_self _ _) (f2.2.1.trans hT) hsm hown
          simp only [hsm, if_true, hc, Option.map_some']
          have f3 : env.Frame (if p.bIsRootNode then e.AddInitialState sm.Ptr ⟨Instance, some i⟩ else e) := by
            split
            · exact (f2.comp fe).comp (Env.Frame.AddInitialState _ _ _)
            · exact f2.comp fe
          obtain ⟨e', M', hs, fs⟩ := ih' _ (TMap.Add M p.Guid ⟨Instance, some i⟩) (f3.2.1.trans hT)
          exact ⟨e', M', hs, f3.comp fs⟩
        · simp only [hsm, Bool.false_eq_true, if_false]
          have f3 : env.Frame (if p.bIsRootNode then
              (if TMap.Contains M p.Guid then
                (env.AddState sm.Ptr ⟨Instance, some i⟩).log (.GuidAlreadyAdded ⟨Instance, some i⟩ p.Guid)
                else env.AddState sm.Ptr ⟨Instance, some i⟩).AddInitialState sm.Ptr ⟨Instance, some i⟩
              else (if TMap.Contains M p.Guid then
                (env.AddState sm.Ptr ⟨Instance, some i⟩).log (.GuidAlreadyAdded ⟨Instance, some i⟩ p.Guid)
                else env.AddState sm.Ptr ⟨Instance, some i⟩)) := by
            split
            · exact f2.comp (Env.Frame.AddInitialState _ _ _)
            · exact f2
          obtain ⟨e', M', hs, fs⟩ := ih' _ (TMap.Add M p.Guid ⟨Instance, some i⟩) (f3.2.1.trans hT)
          exact ⟨e', M', hs, f3.comp fs⟩
    · exact ih' env M hT

theorem states_append (gsm : Env → FSMStateMachine → Option (Bool × Env)) (Instance : UObjectRef)
    (sm : FSMStateMachine) (l₁ l₂ : List (Nat × FSMNode)) (env : Env) (M : TMap FGuid NodePtr) :
    GenerateStateMachine.states gsm Instance sm (l₁ ++ l₂) env M =
      (GenerateStateMachine.states gsm Instance sm l₁ env M).bind
        (fun r => GenerateStateMachine.states gsm Instance sm l₂ r.1 r.2) := by
  induction l₁ generalizing env M with
  | nil => simp [GenerateStateMachine.states]
  | cons a l ih =>
    obtain ⟨i, p⟩ := a
    simp only [List.cons_append, GenerateStateMachine.states]
    split
    · split
      · exact ih env M
      · split
        · rfl
        · exact ih _ _
    · exact ih env M

/-- A nested activation on a state machine that is no reference node, over a node set
whose reference nodes are all owned by GUIDs in `Owners` (which holds the GUID of no state
machine record and not that of this state machine), returns and is a frame step. -/
theorem local_frame (w : World) (tid : Nat) (props : List FSMNode) (Owners : FGuid → Prop)
    (h₁ : ∀ p ∈ props, p.IsReference = true → Owners p.OwnerGuid)
    (h₂ : ∀ p ∈ props, p.Struct.IsChildOfStateMachine = true → ¬ Owners p.Guid) :
    ∀ (k depth : Nat) (env : Env) (Instance : UObjectRef) (sm : FSMStateMachine) (bDryRun : Bool),
      Nests k props sm.Node.Guid = true → k ≤ depth →
      sm.Node.ClassReference = none → ¬ Owners sm.Node.Guid →
      TMap.Contains env.StateMachinesGeneratingForThread tid = true →
      ∃ r env', GenerateStateMachine w tid depth env Instance sm props bDryRun = some (r, env') ∧
        env.Frame env' := by
  intro k
  induction k with
  | zero => intro depth env Instance sm bDryRun hk; simp [Nests] at hk
  | succ k ih =>
    intro depth env Instance sm bDryRun hk hd hcr hg hc
    obtain ⟨d, rfl⟩ : ∃ d, depth = d + 1 := ⟨depth - 1, by omega⟩
    obtain ⟨g, hgen⟩ := Find_of_Contains _ _ hc
    simp only [GenerateStateMachine, GenerateStateMachine.body, hcr, hc, Bool.not_true,
      Env.FindOrAddGeneration_of_Find env tid g hgen]
    have hs := states_frame (fun env Nested => GenerateStateMachine w tid d env Instance Nested props bDryRun)
      Instance sm env.StateMachinesGeneratingForThread props.enum
      (by
        intro e x hx hT hsm ho
        have hxp := snd_mem_of_mem_enum hx
        have hnr : x.2.ClassReference = none := by
          by_contra hne
          have : x.2.IsReference = true := by
            simp only [FSMNode.IsReference, hsm, Bool.true_and]
            cases hcx : x.2.ClassReference with
            | none => exact absurd hcx hne
            | some c => rfl
          exact hg (ho ▸ h₁ x.2 hxp this)
        exact ih d e Instance ⟨⟨Instance, some x.1⟩, x.2⟩ bDryRun (Nests_child hk hxp hsm ho)
          (by omega) hnr (h₂ x.2 hxp hsm) (by rw [hT]; exact hc))
      env [] rfl
    obtain ⟨e₁, M, hs, f₁⟩ := hs
    unfold GenerateStateMachine.assemble
    simp only [hs]
    have f₂ := transitions_frame Instance sm M props.enum e₁
    split
    · rename_i e ht
      refine ⟨false, e, rfl, ?_⟩
      have : e = (GenerateStateMachine.transitions Instance sm M props.enum e₁).2 := by rw [ht]
      rw [this]; exact f₁.comp f₂
    · rename_i e ht
      refine ⟨true, e, by simp [FinishStateMachineGeneration], ?_⟩
      have : e = (GenerateStateMachine.transitions Instance sm M props.enum e₁).2 := by rw [ht]
      rw [this]; exact f₁.comp f₂

/-- C1, at an instance: a root state machine with two states and a transition between
them, in a world whose only class is that one. -/
theorem C1_true_iff_transitions_resolve_witness :
    ∃ r env', GenerateStateMachine
        [UClassDef.ofProperties 1
          [FSMNode.state 2 1 true, FSMNode.state 3 1 false, FSMNode.transition 4 1 2 3]] 0 11
        (Env.initial [USMInstance.ofClass 0]) (.SMInstance 0)
        (USMInstance.RootStateMachine (UClassDef.ofProperties 1 []) 0)
        [FSMNode.state 2 1 true, FSMNode.state 3 1 false, FSMNode.transition 4 1 2 3] false =
          some (r, env') ∧
      (r = true ↔ TransitionsResolve
        [FSMNode.state 2 1 true, FSMNode.state 3 1 false, FSMNode.transition 4 1 2 3] 1) :=
  C1_true_iff_transitions_resolve
    [UClassDef.ofProperties 1
      [FSMNode.state 2 1 true, FSMNode.state 3 1 false, FSMNode.transition 4 1 2 3]] 1 0
    (Env.initial [USMInstance.ofClass 0]) (.SMInstance 0)
    (USMInstance.RootStateMachine (UClassDef.ofProperties 1 []) 0)
    [FSMNode.state 2 1 true, FSMNode.state 3 1 false, FSMNode.transition 4 1 2 3] false 1 11
    rfl (by decide) (by decide) (by decide)

/-! ## Scanning the first pass with an invariant -/

theorem IsChildOfState_Base_of_StateMachine (s : EStruct) (h : s.IsChildOfStateMachine = true) :
    s.IsChildOfState_Base = true := by
  cases s <;> simp_all [EStruct.IsChildOfStateMachine, EStruct.IsChildOfState_Base]

/-- The first pass returns and establishes `P (done ++ l)` from `P done` when `P` survives
frame steps, records that cause no nested activation extend `done` for free, and every
nested activation returns and extends `done`. -/
theorem states_scan (L : List (Nat × FSMNode)) (P : List (Nat × FSMNode) → Env → Prop)
    (gsm : Env → FSMStateMachine → Option (Bool × Env)) (Instance : UObjectRef)
    (sm : FSMStateMachine)
    (hFrame : ∀ done e e', P done e → e.Frame e' → P done e')
    (hskip : ∀ done x rest e, L = done ++ x :: rest → P done e →
      ¬ (x.2.Struct.IsChildOfStateMachine = true ∧ x.2.OwnerGuid = sm.Node.Guid) →
      P (done ++ [x]) e)
    (hcall : ∀ done x rest e, L = done ++ x :: rest → P done e →
      x.2.Struct.IsChildOfStateMachine = true → x.2.OwnerGuid = sm.Node.Guid →
      ∃ r e', gsm e ⟨⟨Instance, some x.1⟩, x.2⟩ = some (r, e') ∧ P (done ++ [x]) e') :
    ∀ (l done : List (Nat × FSMNode)) (env : Env) (M : TMap FGuid NodePtr), L = done ++ l →
      P done env →
      ∃ env' M', GenerateStateMachine.states gsm Instance sm l env M = some (env', M') ∧
        P L env' := by
  intro l
  induction l with
  | nil => intro done env M hL hp; exact ⟨env, M, rfl, by rw [hL]; simpa using hp⟩
  | cons a l ih =>
    obtain ⟨i, p⟩ := a
    intro done env M hL hp
    have happ : L = (done ++ [(i, p)]) ++ l := by rw [hL]; simp
    have hskip := fun e => hskip done (i, p) l e hL
    have hcall := fun e => hcall done (i, p) l e hL
    have ih := fun env M => ih (done ++ [(i, p)]) env M happ
    simp only [GenerateStateMachine.states]
    split
    · rename_i hst
      split
      · rename_i hown
        exact ih env M (hskip env hp (fun h => hown h.2))
      · rename_i hown
        simp only [ne_eq, not_not] at hown
        have f2 : env.Frame (if TMap.Contains M p.Guid then
            (env.AddState sm.Ptr ⟨Instance, some i⟩).log (.GuidAlreadyAdded ⟨Instance, some i⟩ p.Guid)
            else env.AddState sm.Ptr ⟨Instance, some i⟩) := by
          split
          · exact (Env.Frame.AddState _ _ _).comp (Env.Frame.log _ _)
          · exact Env.Frame.AddState _ _ _
        by_cases hsm : p.Struct.IsChildOfStateMachine = true
        · obtain ⟨r, e, hc, pe⟩ := hcall _ (hFrame _ _ _ hp f2) hsm hown
          simp only [hsm, if_true, hc, Option.map_some']
          have p3 : P (done ++ [(i, p)])
              (if p.bIsRootNode then e.AddInitialState sm.Ptr ⟨Instance, some i⟩ else e) := by
            split
            · exact hFrame _ _ _ pe (Env.Frame.AddInitialState _ _ _)
            · exact pe
          exact ih _ _ p3
        · simp only [hsm, Bool.false_eq_true, if_false]
          have p2 := hskip _ (hFrame _ _ _ hp f2) (fun h => hsm h.1)
          have p3 : P (done ++ [(i, p)]) (if p.bIsRootNode then
              (if TMap.Contains M p.Guid then
                (env.AddState sm.Ptr ⟨Instance, some i⟩).log (.GuidAlreadyAdded ⟨Instance, some i⟩ p.Guid)
                else env.AddState sm.Ptr ⟨Instance, some i⟩).AddInitialState sm.Ptr ⟨Instance, some i⟩
              else (if TMap.Contains M p.Guid then
                (env.AddState sm.Ptr ⟨Instance, some i⟩).log (.GuidAlreadyAdded ⟨Instance, some i⟩ p.Guid)
                else env.AddState sm.Ptr ⟨Instance, some i⟩)) := by
            split
            · exact hFrame _ _ _ p2 (Env.Frame.AddInitialState _ _ _)
            · exact p2
          exact ih _ _ p3
    · rename_i hst
      have hnsm : ¬ p.Struct.IsChildOfStateMachine = true :=
        fun h => hst (IsChildOfState_Base_of_StateMachine _ h)
      exact ih env M (hskip env hp (fun h => hnsm h.1))

/-- Local assembly returns; before `FinishStateMachineGeneration` the environment
satisfies the invariant of the scan, and the result is true exactly when the owned
transitions resolve. -/
theorem assemble_scan (P : List (Nat × FSMNode) → Env → Prop) (tid : Nat) (gsm : GenerateCall)
    (top : Bool) (env : Env) (Instance : UObjectRef) (sm : FSMStateMachine)
    (props : List FSMNode) (bDryRun : Bool)
    (hFrame : ∀ done e e', P done e → e.Frame e' → P done e')
    (hskip : ∀ done x rest e, props.enum = done ++ x :: rest → P done e →
      ¬ (x.2.Struct.IsChildOfStateMachine = true ∧ x.2.OwnerGuid = sm.Node.Guid) →
      P (done ++ [x]) e)
    (hcall : ∀ done x rest e, props.enum = done ++ x :: rest → P done e →
      x.2.Struct.IsChildOfStateMachine = true → x.2.OwnerGuid = sm.Node.Guid →
      ∃ r e', gsm e Instance ⟨⟨Instance, some x.1⟩, x.2⟩ props bDryRun = some (r, e') ∧
        P (done ++ [x]) e')
    (hp : P [] env) :
    ∃ r e env', P props.enum e ∧
      GenerateStateMachine.assemble tid gsm top env Instance sm props bDryRun = some (r, env') ∧
      (r = true ↔ TransitionsResolve props sm.Node.Guid) ∧
      env' = (if r then (FinishStateMachineGeneration top e tid).2 else e) := by
  obtain ⟨e₁, M, hs, p₁⟩ := states_scan props.enum P (fun env n => gsm env Instance n props bDryRun)
    Instance sm hFrame hskip hcall props.enum [] env [] rfl hp
  have pt := hFrame _ _ _ p₁ (transitions_frame Instance sm M props.enum e₁)
  have hres : ∃ r env', GenerateStateMachine.assemble tid gsm top env Instance sm props bDryRun =
      some (r, env') ∧
      env' = (if r then (FinishStateMachineGeneration top
        (GenerateStateMachine.transitions Instance sm M props.enum e₁).2 tid).2
        else (GenerateStateMachine.transitions Instance sm M props.enum e₁).2) := by
    unfold GenerateStateMachine.assemble
    simp only [hs]
    split
    · rename_i e ht
      exact ⟨false, e, rfl, by simp [ht]⟩
    · rename_i e ht
      exact ⟨true, _, rfl, by simp [ht]⟩
  obtain ⟨r, env', ha, he⟩ := hres
  exact ⟨r, _, env', pt, ha, assemble_result tid gsm top env Instance sm props bDryRun r env' ha, he⟩

theorem enum_prefix_index {α : Type} (props : List α) (done rest : List (Nat × α)) (x : Nat × α)
    (h : props.enum = done ++ x :: rest) :
    x.1 = done.length ∧ props[done.length]? = some x.2 ∧ ∀ y ∈ done, y.1 < done.length := by
  have hlen : done.length < props.enum.length := by rw [h]; simp
  have hx : props.enum[done.length]? = some x := by
    rw [h, List.getElem?_append_right (le_refl _)]; simp
  rw [List.getElem?_enum] at hx
  cases hp : props[done.length]? with
  | none => simp [hp] at hx
  | some a =>
    simp only [hp, Option.map_some', Option.some.injEq] at hx
    refine ⟨by rw [← hx], by rw [← hx], ?_⟩
    intro y hy
    obtain ⟨j, hj, hyj⟩ := List.mem_iff_getElem.mp hy
    have : props.enum[j]? = some y := by
      rw [h, List.getElem?_append_left hj, List.getElem?_eq_getElem hj, hyj]
    rw [List.getElem?_enum] at this
    cases hpj : props[j]? with
    | none => simp [hpj] at this
    | some b =>
      simp only [hpj, Option.map_some', Option.some.injEq] at this
      rw [← this]; exact hj

/-! ## A class with a single reference node -/

theorem TMap.Add_Add {κ ν : Type} [DecidableEq κ] (m : TMap κ ν) (k : κ) (a b : ν) :
    TMap.Add (TMap.Add m k a) k b = TMap.Add m k b := by
  induction m with
  | nil => simp [TMap.Add]
  | cons x m ih =>
    obtain ⟨k', v'⟩ := x
    by_cases h : k' = k
    · simp [TMap.Add, h]
    · simp [TMap.Add, h, ih]

theorem TMap.Add_of_Find {κ ν : Type} [DecidableEq κ] (m : TMap κ ν) (k : κ) (v : ν)
    (h : TMap.Find m k = some v) : TMap.Add m k v = m := by
  induction m with
  | nil => simp [TMap.Find] at h
  | cons x m ih =>
    obtain ⟨k', v'⟩ := x
    by_cases hk : k' = k
    · subst hk
      simp only [TMap.Find, if_true, Option.some.injEq] at h
      simp [TMap.Add, h]
    · simp only [TMap.Find, hk, if_false] at h
      simp [TMap.Add, hk, ih h]

theorem template_none (w : World) (env : Env) (SMInstance : InstId) (sm : FSMStateMachine)
    (cls : UClass) (bDryRun : Bool) (h : sm.Node.ReferencedTemplateName = none) :
    GenerateStateMachine.template w env SMInstance sm cls bDryRun = (none, cls, env) := by
  unfold GenerateStateMachine.template
  split
  · rfl
  · simp [h]

theorem Finish_Instances (top : Bool) (env : Env) (tid : Nat) :
    (FinishStateMachineGeneration top env tid).2.Instances = env.Instances := by
  unfold FinishStateMachineGeneration
  split
  · dsimp only
    split <;> simp
  · rfl

theorem Finish_InstanceReference (top : Bool) (env : Env) (tid : Nat) :
    (FinishStateMachineGeneration top env tid).2.InstanceReference = env.InstanceReference := by
  unfold FinishStateMachineGeneration
  split
  · dsimp only
    split <;> simp
  · rfl

theorem Finish_Log (top : Bool) (env : Env) (tid : Nat) :
    env.Log <+: (FinishStateMachineGeneration top env tid).2.Log := by
  unfold FinishStateMachineGeneration
  split
  · dsimp only
    split <;> simp
  · exact List.prefix_refl _

theorem Finish_false (env : Env) (tid : Nat) :
    (FinishStateMachineGeneration false env tid).2 = env := by
  simp [FinishStateMachineGeneration]

theorem Find_CurrentGeneration (env : Env) (tid : Nat)
    (h : TMap.Contains env.StateMachinesGeneratingForThread tid = true) :
    TMap.Find env.StateMachinesGeneratingForThread tid = some (env.CurrentGeneration tid) := by
  obtain ⟨g, hg⟩ := Find_of_Contains _ _ h
  simp [Env.CurrentGeneration, hg]

/-- The nested activation on a non-reuse reference node whose class counter exceeds 1. -/
theorem resolve_circular (w : World) (tid d : Nat) (env : Env) (K : InstId)
    (sm : FSMStateMachine) (props : List FSMNode) (bDryRun : Bool) (C : UClass)
    (hC : sm.Node.ClassReference = some C) (hT : sm.Node.ReferencedTemplateName = none)
    (hR : sm.Node.bReuseReference = false)
    (hc : TMap.Contains env.StateMachinesGeneratingForThread tid = true)
    (hv : 1 < env.InProgress tid C) :
    GenerateStateMachine w tid (d + 1) env (.SMInstance K) sm props bDryRun =
      some (false, env.log (.CircularReferencing K)) := by
  obtain ⟨g, hg⟩ := Find_of_Contains _ _ hc
  have hv' : ∃ v, TMap.Find (env.CurrentGeneration tid).InstancesGenerating C = some v ∧ 1 < v := by
    unfold Env.InProgress at hv
    cases hf : TMap.Find (env.CurrentGeneration tid).InstancesGenerating C with
    | none => simp [hf] at hv
    | some v => exact ⟨v, rfl, by simpa [hf] using hv⟩
  obtain ⟨v, hf, hv1⟩ := hv'
  simp only [GenerateStateMachine, GenerateStateMachine.body, hC, hc, Bool.not_true,
    Env.FindOrAddGeneration_of_Find env tid g hg, GenerateStateMachine.reference,
    template_none w env K sm C bDryRun hT, GenerateStateMachine.check, hR, hf]
  simp [hv1, FinishStateMachineGeneration]

theorem ClassReference_of_not_IsReference (p : FSMNode) (h : p.IsReference = false)
    (hsm : p.Struct.IsChildOfStateMachine = true) : p.ClassReference = none := by
  simp only [FSMNode.IsReference, hsm, Bool.true_and] at h
  cases hc : p.ClassReference with
  | none => rfl
  | some c => simp [hc] at h

theorem SingleReference.refs_owned {w : World} {C : UClass} {pre post : List FSMNode} {X : FSMNode}
    (hS : SingleReference w C pre X post) :
    ∀ p ∈ pre ++ X :: post, p.IsReference = true →
      p.OwnerGuid = (w.GetClass C).RootStateMachineGuid := by
  intro p hp hr
  rcases List.mem_append.mp hp with h | h
  · rw [hS.pre_local p h] at hr; exact absurd hr (by simp)
  · rcases List.mem_cons.mp h with rfl | h
    · exact hS.ownedByRoot
    · rw [hS.post_local p h] at hr; exact absurd hr (by simp)

/-- Local assembly of the root state machine of an instance of a class with a single
reference node: whatever the activation on the reference node establishes (and frame
steps keep) holds before `FinishStateMachineGeneration`. -/
theorem root_single (w : World) (tid d : Nat) (C : UClass) (pre post : List FSMNode) (X : FSMNode)
    (hS : SingleReference w C pre X post) (k : Nat)
    (hk : Nests k (pre ++ X :: post) (w.GetClass C).RootStateMachineGuid = true) (hd : k ≤ d + 1)
    (K : InstId) (env : Env) (hc : TMap.Contains env.StateMachinesGeneratingForThread tid = true)
    (top : Bool) (Q : Env → Prop) (hQ : ∀ a b, Q a → a.Frame b → Q b)
    (hQc : ∀ a, Q a → TMap.Contains a.StateMachinesGeneratingForThread tid = true)
    (hX : ∀ e, env.Frame e →
      ∃ r e', GenerateStateMachine w tid d e (.SMInstance K)
        ⟨⟨.SMInstance K, some pre.length⟩, X⟩ (pre ++ X :: post) false = some (r, e') ∧ Q e') :
    ∃ r e env', Q e ∧
      GenerateStateMachine.assemble tid (GenerateStateMachine w tid d) top env (.SMInstance K)
        (USMInstance.RootStateMachine (w.GetClass C) K) (pre ++ X :: post) false = some (r, env') ∧
      (r = true ↔ TransitionsResolve (pre ++ X :: post) (w.GetClass C).RootStateMachineGuid) ∧
      env' = (if r then (FinishStateMachineGeneration top e tid).2 else e) := by
  obtain ⟨k', rfl⟩ : ∃ k', k = k' + 1 := ⟨k - 1, by have := Nests_pos hk; omega⟩
  have hlocal : ∀ (e : Env) (x : Nat × FSMNode), x.2 ∈ pre ++ X :: post → x.2.IsReference = false →
      x.2.Struct.IsChildOfStateMachine = true →
      x.2.OwnerGuid = (w.GetClass C).RootStateMachineGuid →
      TMap.Contains e.StateMachinesGeneratingForThread tid = true →
      ∃ r e', GenerateStateMachine w tid d e (.SMInstance K) ⟨⟨.SMInstance K, some x.1⟩, x.2⟩
        (pre ++ X :: post) false = some (r, e') ∧ e.Frame e' := by
    intro e x hx hnr hsm ho hce
    exact local_frame w tid (pre ++ X :: post) (fun g => g = (w.GetClass C).RootStateMachineGuid)
      hS.refs_owned hS.root_unique k' d e (.SMInstance K) ⟨⟨.SMInstance K, some x.1⟩, x.2⟩ false
      (Nests_child hk hx hsm ho) (by omega) (ClassReference_of_not_IsReference _ hnr hsm)
      (hS.root_unique x.2 hx hsm) hce
  have key := assemble_scan
    (fun done e => (done.length ≤ pre.length → env.Frame e) ∧ (pre.length < done.length → Q e))
    tid (GenerateStateMachine w tid d) top env (.SMInstance K)
    (USMInstance.RootStateMachine (w.GetClass C) K) (pre ++ X :: post) false
    (by
      intro done e e' hp hf
      exact ⟨fun h => (hp.1 h).comp hf, fun h => hQ _ _ (hp.2 h) hf⟩)
    (by
      intro done x rest e hL hp hn
      obtain ⟨hx1, hx2, _⟩ := enum_prefix_index _ _ _ _ hL
      simp only [List.length_append, List.length_singleton]
      refine ⟨fun h => hp.1 (by omega), fun h => ?_⟩
      by_cases hlt : pre.length < done.length
      · exact hp.2 hlt
      · exfalso
        have hlen : done.length = pre.length := by omega
        rw [hlen, List.getElem?_append_right (le_refl _)] at hx2
        simp only [Nat.sub_self, List.getElem?_cons_zero, Option.some.injEq] at hx2
        exact hn ⟨hx2 ▸ hS.isStateMachine, hx2 ▸ hS.ownedByRoot⟩)
    (by
      intro done x rest e hL hp hsm ho
      obtain ⟨hx1, hx2, _⟩ := enum_prefix_index _ _ _ _ hL
      have hxm : x.2 ∈ pre ++ X :: post := List.getElem?_mem hx2
      simp only [List.length_append, List.length_singleton]
      rcases Nat.lt_trichotomy done.length pre.length with hlt | heq | hgt
      · have hxp : x.2 ∈ pre := by
          rw [List.getElem?_append_left hlt] at hx2
          exact List.getElem?_mem hx2
        have hf := hp.1 (by omega)
        obtain ⟨r, e', hcall, hfe⟩ := hlocal e x hxm (hS.pre_local _ hxp) hsm ho
          (by rw [hf.2.1]; exact hc)
        exact ⟨r, e', hcall, fun _ => hf.comp hfe, fun h => by omega⟩
      · have hxX : x.2 = X := by
          rw [heq, List.getElem?_append_right (le_refl _)] at hx2
          simpa using hx2.symm
        have hf := hp.1 (by omega)
        obtain ⟨r, e', hcall, hq⟩ := hX e hf
        refine ⟨r, e', ?_, fun h => by omega, fun _ => hq⟩
        have : x = (pre.length, X) := by
          cases x; simp only at hx1 hxX; rw [hx1, hxX, heq]
        rw [this]; exact hcall
      · have hxp : x.2 ∈ post := by
          rw [List.getElem?_append_right (by omega)] at hx2
          have : done.length - pre.length = (done.length - pre.length - 1) + 1 := by omega
          rw [this, List.getElem?_cons_succ] at hx2
          exact List.getElem?_mem hx2
        have hq := hp.2 hgt
        obtain ⟨r, e', hcall, hfe⟩ := hlocal e x hxm (hS.post_local _ hxp) hsm ho (hQc _ hq)
        exact ⟨r, e', hcall, fun h => by omega, fun _ => hQ _ _ hq hfe⟩)
    ⟨fun _ => Env.Frame.same env, fun h => by simp at h⟩
  obtain ⟨r, e, env', hp, ha, hr, he⟩ := key
  refine ⟨r, e, env', hp.2 ?_, ha, hr, he⟩
  simp [List.enum_length]

theorem Initializing_Instances (env : Env) (C : UClass) (t : Option UClass) (ctx : Option Nat) :
    (env.Initializing C t ctx).Instances =
      env.Instances ++ [{ Class := C, Context := ctx, Template := t, ReferenceOwner := none }] := by
  simp [Env.Initializing, Env.NewObject]

@[simp] theorem Initializing_threadMap (env : Env) (C : UClass) (t : Option UClass) (ctx : Option Nat) :
    (env.Initializing C t ctx).StateMachinesGeneratingForThread =
      env.StateMachinesGeneratingForThread := by
  simp [Env.Initializing, Env.NewObject]

@[simp] theorem Initializing_InstanceReference (env : Env) (C : UClass) (t : Option UClass)
    (ctx : Option Nat) : (env.Initializing C t ctx).InstanceReference = env.InstanceReference := by
  simp [Env.Initializing, Env.NewObject]

@[simp] theorem Initializing_Log (env : Env) (C : UClass) (t : Option UClass) (ctx : Option Nat) :
    (env.Initializing C t ctx).Log = env.Log := by
  simp [Env.Initializing, Env.NewObject]

/-- `CreateStateMachineInstanceFromTemplate` without a template, in terms of the
activation on the root state machine of the new instance. -/
theorem Create_eq (w : World) (gsm : GenerateCall) (env : Env) (C : UClass) (ctx : Option Nat) :
    CreateStateMachineInstanceFromTemplate w gsm env (some C) ctx none =
      (gsm (env.Initializing C none ctx) (.SMInstance env.Instances.length)
        (USMInstance.RootStateMachine (w.GetClass C) env.Instances.length)
        (w.GetClass C).Properties false).map (fun r => (some env.Instances.length, r.2)) := by
  unfold CreateStateMachineInstanceFromTemplate CreateStateMachineInstanceInternal
  simp only [Option.isSome_none, Bool.false_eq_true, false_and, if_false]
  unfold USMInstance.Initialize
  rw [NewObject_get]
  simp only [Env.Initializing, Env.NewObject, Option.map_map]
  rfl

@[simp] theorem increment_Instances (tid : Nat) (env : Env) (C : UClass) :
    (GenerateStateMachine.increment tid env C).Instances = env.Instances := by
  simp [GenerateStateMachine.increment]

@[simp] theorem increment_InstanceReference (tid : Nat) (env : Env) (C : UClass) :
    (GenerateStateMachine.increment tid env C).InstanceReference = env.InstanceReference := by
  simp [GenerateStateMachine.increment]

@[simp] theorem increment_Log (tid : Nat) (env : Env) (C : UClass) :
    (GenerateStateMachine.increment tid env C).Log = env.Log := by
  simp [GenerateStateMachine.increment]

/-- The nested activation on a reference node without template that passes the check: the
class is instantiated, the root state machine of the new instance is assembled, and the
steps after the instantiation follow. -/
theorem resolve_instantiate (w : World) (tid d : Nat) (env : Env) (K : InstId)
    (sm : FSMStateMachine) (props : List FSMNode) (C : UClass)
    (hC : sm.Node.ClassReference = some C) (hT : sm.Node.ReferencedTemplateName = none)
    (hc : TMap.Contains env.StateMachinesGeneratingForThread tid = true)
    (env₂ : Env) (hchk : GenerateStateMachine.check tid false env K sm C = .inr env₂)
    (r : Bool) (e : Env)
    (hroot : GenerateStateMachine w tid d
      ((GenerateStateMachine.increment tid env₂ C).Initializing C none (env₂.GetContext K))
      (.SMInstance env₂.Instances.length)
      (USMInstance.RootStateMachine (w.GetClass C) env₂.Instances.length)
      (w.GetClass C).Properties false = some (r, e)) :
    GenerateStateMachine w tid (d + 1) env (.SMInstance K) sm props false =
      some (true, GenerateStateMachine.referenced tid e K sm C env₂.Instances.length) := by
  obtain ⟨g, hg⟩ := Find_of_Contains _ _ hc
  simp only [GenerateStateMachine, GenerateStateMachine.body, hC, hc, Bool.not_true,
    Env.FindOrAddGeneration_of_Find env tid g hg, GenerateStateMachine.reference,
    template_none w env K sm C false hT, hchk, Bool.false_eq_true, if_false, Create_eq,
    increment_Instances]
  have : (GenerateStateMachine.increment tid env₂ C).Instances.get? K = env₂.Instances.get? K := by
    rw [increment_Instances]
  simp only [Env.GetContext] at hroot
  simp only [this, hroot, Option.map_some', Finish_false]

theorem check_nonreuse_pass (tid : Nat) (top : Bool) (env : Env) (K : InstId) (sm : FSMStateMachine)
    (C : UClass) (hR : sm.Node.bReuseReference = false) (hv : ¬ 1 < env.InProgress tid C) :
    GenerateStateMachine.check tid top env K sm C = .inr env := by
  unfold GenerateStateMachine.check
  simp only [hR, Bool.false_eq_true, if_false]
  unfold Env.InProgress at hv
  cases hf : TMap.Find (env.CurrentGeneration tid).InstancesGenerating C with
  | none => rfl
  | some v =>
    have : ¬ v > 1 := by simpa [hf] using hv
    simp [this]

theorem record_nonreuse (tid : Nat) (env : Env) (sm : FSMStateMachine) (C : UClass) (I : InstId)
    (hR : sm.Node.bReuseReference = false) : GenerateStateMachine.record tid env sm C I = env := by
  simp [GenerateStateMachine.record, hR]

theorem patch_none (tid : Nat) (env : Env) (C : UClass) (I : InstId)
    (h : TMap.Find (env.CurrentGeneration tid).StateMachinesThatNeedReferences C = none) :
    GenerateStateMachine.patch tid env C I = env := by
  simp [GenerateStateMachine.patch, h]

theorem decrement_some (tid : Nat) (env : Env) (C : UClass) (v : Int)
    (h : TMap.Find (env.CurrentGeneration tid).InstancesGenerating C = some v) :
    GenerateStateMachine.decrement tid env C =
      env.setCurrentGeneration tid
        { env.CurrentGeneration tid with
          InstancesGenerating := TMap.Add (env.CurrentGeneration tid).InstancesGenerating C (v - 1) } := by
  simp [GenerateStateMachine.decrement, h]

theorem increment_generation (tid : Nat) (env : Env) (C : UClass) :
    (GenerateStateMachine.increment tid env C).CurrentGeneration tid =
      { env.CurrentGeneration tid with
        InstancesGenerating :=
          TMap.Add (env.CurrentGeneration tid).InstancesGenerating C (env.InProgress tid C + 1) } := by
  simp only [GenerateStateMachine.increment, Env.setCurrentGeneration_CurrentGeneration,
    TMap.FindOrAdd_fst, Env.InProgress]
  congr 1
  unfold TMap.FindOrAdd
  cases hf : TMap.Find (env.CurrentGeneration tid).InstancesGenerating C with
  | none => simp [TMap.Add_Add]
  | some v => simp

theorem increment_threadMap (tid : Nat) (env : Env) (C : UClass) :
    (GenerateStateMachine.increment tid env C).StateMachinesGeneratingForThread =
      TMap.Add env.StateMachinesGeneratingForThread tid
        ((GenerateStateMachine.increment tid env C).CurrentGeneration tid) := by
  rw [increment_generation]
  have := increment_generation tid env C
  simp only [GenerateStateMachine.increment, Env.setCurrentGeneration_CurrentGeneration] at this
  simp only [GenerateStateMachine.increment, Env.setCurrentGeneration, Env.setThreadMap_ThreadMap_eq,
    this]

theorem CurrentGeneration_of_threadMap (e : Env) (T : TMap Nat GeneratingStateMachines) (tid : Nat)
    (g : GeneratingStateMachines) (h : e.StateMachinesGeneratingForThread = TMap.Add T tid g) :
    e.CurrentGeneration tid = g := by
  simp [Env.CurrentGeneration, h, TMap.Find_Add_self]

theorem SetReferenceOwner_append (e : Env) (l t : List USMInstance) (a : USMInstance) (K : InstId)
    (h : e.Instances = l ++ a :: t) :
    (e.SetReferenceOwner l.length K).Instances = l ++ { a with ReferenceOwner := some K } :: t := by
  unfold Env.SetReferenceOwner
  have hg : e.Instances.get? l.length = some a := by
    rw [h, List.get?_eq_getElem?, List.getElem?_append_right (le_refl _)]; simp
  rw [hg]
  simp [h]

/-- The nested activation on a non-reuse reference node that passes the check, when no
state machine is queued for its class and the assembly of the new instance leaves the
per-thread map as it was. -/
theorem resolve_nonreuse (w : World) (tid d : Nat) (env : Env) (K : InstId)
    (sm : FSMStateMachine) (props : List FSMNode) (C : UClass)
    (hC : sm.Node.ClassReference = some C) (hT : sm.Node.ReferencedTemplateName = none)
    (hR : sm.Node.bReuseReference = false)
    (hc : TMap.Contains env.StateMachinesGeneratingForThread tid = true)
    (hv : ¬ 1 < env.InProgress tid C)
    (hW : TMap.Find (env.CurrentGeneration tid).StateMachinesThatNeedReferences C = none)
    (r : Bool) (e : Env) (extra : List USMInstance)
    (hroot : GenerateStateMachine w tid d
      ((GenerateStateMachine.increment tid env C).Initializing C none (env.GetContext K))
      (.SMInstance env.Instances.length)
      (USMInstance.RootStateMachine (w.GetClass C) env.Instances.length)
      (w.GetClass C).Properties false = some (r, e))
    (hTM : e.StateMachinesGeneratingForThread =
      (GenerateStateMachine.increment tid env C).StateMachinesGeneratingForThread)
    (hI : e.Instances =
      (env.Instances ++ [USMInstance.mk C (env.GetContext K) none none]) ++ extra) :
    ∃ e', GenerateStateMachine w tid (d + 1) env (.SMInstance K) sm props false = some (true, e') ∧
      e'.Instances = env.Instances ++ USMInstance.referenced C (env.GetContext K) K :: extra ∧
      e'.InstanceReference = TMap.Add e.InstanceReference sm.Ptr env.Instances.length ∧
      e'.StateMachinesGeneratingForThread =
        TMap.Add env.StateMachinesGeneratingForThread tid
          { env.CurrentGeneration tid with
            InstancesGenerating :=
              TMap.Add (env.CurrentGeneration tid).InstancesGenerating C (env.InProgress tid C) } ∧
      e'.Log = e.Log := by
  have hres := resolve_instantiate w tid d env K sm props C hC hT hc env
    (check_nonreuse_pass tid false env K sm C hR hv) r e hroot
  refine ⟨_, hres, ?_⟩
  have hgen_e : e.CurrentGeneration tid =
      (GenerateStateMachine.increment tid env C).CurrentGeneration tid :=
    Env.CurrentGeneration_congr tid hTM
  have hgen_o : (e.SetReferenceOwner env.Instances.length K).CurrentGeneration tid =
      { env.CurrentGeneration tid with
        InstancesGenerating :=
          TMap.Add (env.CurrentGeneration tid).InstancesGenerating C (env.InProgress tid C + 1) } := by
    rw [Env.SetReferenceOwner_CurrentGeneration, hgen_e, increment_generation]
  have hpatch : GenerateStateMachine.patch tid (e.SetReferenceOwner env.Instances.length K) C
      env.Instances.length = e.SetReferenceOwner env.Instances.length K :=
    patch_none tid _ C _ (by rw [hgen_o]; exact hW)
  have hdec := decrement_some tid (e.SetReferenceOwner env.Instances.length K) C
    (env.InProgress tid C + 1) (by rw [hgen_o]; simp [TMap.Find_Add_self])
  simp only [GenerateStateMachine.referenced, record_nonreuse tid _ sm C _ hR, hpatch, hdec, hgen_o]
  refine ⟨?_, by simp, ?_, by simp⟩
  · simp only [Env.SetInstanceReference_Instances, Env.setCurrentGeneration_Instances]
    have := SetReferenceOwner_append e env.Instances extra
      (USMInstance.mk C (env.GetContext K) none none) K (by rw [hI]; simp)
    rw [this]; rfl
  · simp only [Env.SetInstanceReference_StateMachinesGeneratingForThread, Env.setCurrentGeneration,
      Env.setThreadMap_ThreadMap_eq, Env.SetReferenceOwner_StateMachinesGeneratingForThread, hTM,
      increment_threadMap, TMap.Add_Add]
    congr 2
    simp [TMap.Add_Add]

theorem GenerateStateMachine_local (w : World) (tid d : Nat) (env : Env) (Instance : UObjectRef)
    (sm : FSMStateMachine) (props : List FSMNode) (bDryRun : Bool)
    (h : sm.Node.ClassReference = none) :
    GenerateStateMachine w tid (d + 1) env Instance sm props bDryRun =
      GenerateStateMachine.assemble tid (GenerateStateMachine w tid d)
        (!TMap.Contains env.StateMachinesGeneratingForThread tid) (env.FindOrAddGeneration tid)
        Instance sm props bDryRun := by
  simp only [GenerateStateMachine, GenerateStateMachine.body, h]

theorem GenerateStateMachine_local_nested (w : World) (tid d : Nat) (env : Env)
    (Instance : UObjectRef) (sm : FSMStateMachine) (props : List FSMNode) (bDryRun : Bool)
    (h : sm.Node.ClassReference = none)
    (hc : TMap.Contains env.StateMachinesGeneratingForThread tid = true) :
    GenerateStateMachine w tid (d + 1) env Instance sm props bDryRun =
      GenerateStateMachine.assemble tid (GenerateStateMachine w tid d) false env
        Instance sm props bDryRun := by
  obtain ⟨g, hg⟩ := Find_of_Contains _ _ hc
  rw [GenerateStateMachine_local w tid d env Instance sm props bDryRun h, hc,
    Env.FindOrAddGeneration_of_Find env tid g hg]
  rfl

/-- Assembly of the root state machine of an instance whose class has a single non-reuse
reference node to itself, entered with the counter of the class above 1: the reference
node fails with the circular-reference error and nothing else changes. -/
theorem root_level2 (w : World) (tid d : Nat) (C : UClass) (pre post : List FSMNode) (X : FSMNode)
    (hS : SingleReference w C pre X post) (hR : X.bReuseReference = false) (k : Nat)
    (hk : Nests k (pre ++ X :: post) (w.GetClass C).RootStateMachineGuid = true) (hd : k ≤ d + 1)
    (K : InstId) (env : Env) (hc : TMap.Contains env.StateMachinesGeneratingForThread tid = true)
    (hv : 1 < env.InProgress tid C) :
    ∃ r env', GenerateStateMachine w tid (d + 1) env (.SMInstance K)
        (USMInstance.RootStateMachine (w.GetClass C) K) (pre ++ X :: post) false = some (r, env') ∧
      env.Frame env' ∧ LogEntry.CircularReferencing K ∈ env'.Log := by
  have hk2 : 2 ≤ k := by
    obtain ⟨k', rfl⟩ : ∃ k', k = k' + 1 := ⟨k - 1, by have := Nests_pos hk; omega⟩
    have := Nests_pos (Nests_child hk (p := X) (by simp) hS.isStateMachine hS.ownedByRoot)
    omega
  obtain ⟨d', rfl⟩ : ∃ d', d = d' + 1 := ⟨d - 1, by omega⟩
  obtain ⟨r, e, env', hq, ha, _, he⟩ := root_single w tid (d' + 1) C pre post X hS k hk hd K env hc false
    (fun e => env.Frame e ∧ LogEntry.CircularReferencing K ∈ e.Log)
    (fun a b ha hf => ⟨ha.1.comp hf, hf.2.2.2.subset ha.2⟩)
    (fun a ha => by rw [ha.1.2.1]; exact hc)
    (by
      intro e hf
      have hce : TMap.Contains e.StateMachinesGeneratingForThread tid = true := by
        rw [hf.2.1]; exact hc
      have hve : 1 < e.InProgress tid C := by
        simp only [Env.InProgress, Env.CurrentGeneration_congr tid hf.2.1]; exact hv
      refine ⟨false, _, resolve_circular w tid d' e K ⟨⟨.SMInstance K, some pre.length⟩, X⟩ _ false C
        hS.target hS.noTemplate hR hce hve, hf.comp (Env.Frame.log _ _), by simp⟩)
  rw [GenerateStateMachine_local_nested w tid (d' + 1) env _ _ _ false rfl hc, ha]
  refine ⟨r, env', rfl, ?_⟩
  have : env' = e := by rw [he, Finish_false]; simp
  rw [this]; exact hq

theorem GetContext_congr {a b : Env} (h : b.Instances = a.Instances) (K : InstId) :
    b.GetContext K = a.GetContext K := by
  simp [Env.GetContext, h]

theorem Contains_increment_initializing (tid : Nat) (e : Env) (C : UClass) (ctx : Option Nat) :
    TMap.Contains ((GenerateStateMachine.increment tid e C).Initializing C none
      ctx).StateMachinesGeneratingForThread tid = true := by
  rw [Initializing_threadMap]; exact Contains_thread_increment tid e C

theorem InProgress_initializing (tid : Nat) (e : Env) (C : UClass) (t : Option UClass)
    (ctx : Option Nat) (c : UClass) :
    (e.Initializing C t ctx).InProgress tid c = e.InProgress tid c := by
  simp [Env.InProgress, Env.CurrentGeneration_congr tid (Initializing_threadMap e C t ctx)]

theorem SingleReference.two_le {w : World} {C : UClass} {pre post : List FSMNode} {X : FSMNode}
    (hS : SingleReference w C pre X post) {k : Nat}
    (hk : Nests k (pre ++ X :: post) (w.GetClass C).RootStateMachineGuid = true) : 2 ≤ k := by
  obtain ⟨k', rfl⟩ : ∃ k', k = k' + 1 := ⟨k - 1, by have := Nests_pos hk; omega⟩
  have := Nests_pos (Nests_child hk (p := X) (by simp) hS.isStateMachine hS.ownedByRoot)
  omega

/-- Assembly of the root state machine of an instance whose class has a single non-reuse
reference node to itself, entered with the counter of the class at 1: the reference node
creates one instance, whose own reference node fails with the circular-reference error. -/
theorem root_level1 (w : World) (tid d : Nat) (C : UClass) (pre post : List FSMNode) (X : FSMNode)
    (hS : SingleReference w C pre X post) (hR : X.bReuseReference = false) (k : Nat)
    (hk : Nests k (pre ++ X :: post) (w.GetClass C).RootStateMachineGuid = true) (hd : k + 2 ≤ d + 1)
    (K : InstId) (env : Env) (hc : TMap.Contains env.StateMachinesGeneratingForThread tid = true)
    (hv : TMap.Find (env.CurrentGeneration tid).InstancesGenerating C = some 1)
    (hW : TMap.Find (env.CurrentGeneration tid).StateMachinesThatNeedReferences C = none) :
    ∃ r env', GenerateStateMachine w tid (d + 1) env (.SMInstance K)
        (USMInstance.RootStateMachine (w.GetClass C) K) (pre ++ X :: post) false = some (r, env') ∧
      env'.Instances = env.Instances ++ [USMInstance.referenced C (env.GetContext K) K] ∧
      env'.StateMachinesGeneratingForThread = env.StateMachinesGeneratingForThread ∧
      env'.InstanceReference =
        TMap.Add env.InstanceReference ⟨.SMInstance K, some pre.length⟩ env.Instances.length ∧
      env.Log <+: env'.Log ∧
      LogEntry.CircularReferencing env.Instances.length ∈ env'.Log := by
  have hk2 := hS.two_le hk
  obtain ⟨d', rfl⟩ : ∃ d', d = d' + 1 := ⟨d - 1, by omega⟩
  obtain ⟨r, e, env', hq, ha, _, he⟩ := root_single w tid (d' + 1) C pre post X hS k hk (by omega) K env
    hc false
    (fun e =>
      e.Instances = env.Instances ++ [USMInstance.referenced C (env.GetContext K) K] ∧
      e.StateMachinesGeneratingForThread = env.StateMachinesGeneratingForThread ∧
      e.InstanceReference =
        TMap.Add env.InstanceReference ⟨.SMInstance K, some pre.length⟩ env.Instances.length ∧
      env.Log <+: e.Log ∧
      LogEntry.CircularReferencing env.Instances.length ∈ e.Log)
    (fun a b ha hf => ⟨hf.1.trans ha.1, hf.2.1.trans ha.2.1, hf.2.2.1.trans ha.2.2.1,
      ha.2.2.2.1.trans hf.2.2.2, hf.2.2.2.subset ha.2.2.2.2⟩)
    (fun a ha => by rw [ha.2.1]; exact hc)
    (by
      intro e hf
      have hce : TMap.Contains e.StateMachinesGeneratingForThread tid = true := by
        rw [hf.2.1]; exact hc
      have hgen := Env.CurrentGeneration_congr tid hf.2.1
      have hip : e.InProgress tid C = 1 := by simp [Env.InProgress, hgen, hv]
      obtain ⟨d'', rfl⟩ : ∃ d'', d' = d'' + 1 := ⟨d' - 1, by omega⟩
      obtain ⟨r₂, e₂, hroot, hf₂, hlog₂⟩ := root_level2 w tid d'' C pre post X hS hR k hk (by omega)
        e.Instances.length
        ((GenerateStateMachine.increment tid e C).Initializing C none (e.GetContext K))
        (Contains_increment_initializing tid e C _)
        (by rw [InProgress_initializing, InProgress_increment, if_pos rfl, hip]; decide)
      rw [← hS.properties] at hroot
      obtain ⟨e', hres, h1, h2, h3, h4⟩ := resolve_nonreuse w tid (d'' + 1) e K
        ⟨⟨.SMInstance K, some pre.length⟩, X⟩ (pre ++ X :: post) C hS.target hS.noTemplate hR hce
        (by rw [hip]; decide) (by rw [hgen]; exact hW) r₂ e₂ [] hroot
        (by rw [hf₂.2.1, Initializing_threadMap])
        (by rw [hf₂.1, Initializing_Instances]; simp)
      refine ⟨true, e', hres, ?_, ?_, ?_, ?_, ?_⟩
      · rw [h1, hf.1, GetContext_congr hf.1]
      · rw [h3, hip, hgen, TMap.Add_of_Find _ _ _ hv, hf.2.1]
        exact TMap.Add_of_Find _ _ _ (Find_CurrentGeneration env tid hc)
      · rw [h2, hf₂.2.2.1, Initializing_InstanceReference, increment_InstanceReference, hf.2.2.1, hf.1]
      · rw [h4]
        refine hf.2.2.2.trans (List.IsPrefix.trans ?_ hf₂.2.2.2)
        simp
      · rw [h4, ← hf.1]; exact hlog₂)
  rw [GenerateStateMachine_local_nested w tid (d' + 1) env _ _ _ false rfl hc, ha]
  refine ⟨r, env', rfl, ?_⟩
  have : env' = e := by rw [he, Finish_false]; simp
  rw [this]; exact hq

theorem CurrentGeneration_top (env : Env) (tid : Nat)
    (h : TMap.Contains env.StateMachinesGeneratingForThread tid = false) :
    (env.FindOrAddGeneration tid).CurrentGeneration tid =
      { InstancesGenerating := [], CreatedReferences := [],
        StateMachinesThatNeedReferences := [] } := by
  rw [Env.FindOrAddGeneration_CurrentGeneration]
  unfold TMap.Contains at h
  cases hf : TMap.Find env.StateMachinesGeneratingForThread tid with
  | none => simp [Env.CurrentGeneration, hf]
  | some g => simp [hf] at h

theorem Contains_top (env : Env) (tid : Nat) :
    TMap.Contains (env.FindOrAddGeneration tid).StateMachinesGeneratingForThread tid = true := by
  simp [TMap.Contains, Env.Find_FindOrAddGeneration]

theorem GetContext_initializing (e : Env) (C : UClass) (t : Option UClass) (ctx : Option Nat)
    (n : Nat) (h : n = e.Instances.length) :
    (e.Initializing C t ctx).GetContext n = ctx := by
  subst h
  simp [Env.GetContext, Initializing_Instances]

/-- The nested activation on a reuse reference node whose class is being instantiated
(the created-reference entry of the class is null) and has no queue yet: the node is
queued and the activation returns `true`. -/
theorem resolve_queue (w : World) (tid d : Nat) (env : Env) (K : InstId)
    (sm : FSMStateMachine) (props : List FSMNode) (bDryRun : Bool) (C : UClass)
    (hC : sm.Node.ClassReference = some C) (hT : sm.Node.ReferencedTemplateName = none)
    (hR : sm.Node.bReuseReference = true)
    (hc : TMap.Contains env.StateMachinesGeneratingForThread tid = true)
    (hCr : TMap.Find (env.CurrentGeneration tid).CreatedReferences C = some none)
    (hW : TMap.Find (env.CurrentGeneration tid).StateMachinesThatNeedReferences C = none) :
    GenerateStateMachine w tid (d + 1) env (.SMInstance K) sm props bDryRun =
      some (true, env.setCurrentGeneration tid
        { env.CurrentGeneration tid with
          StateMachinesThatNeedReferences :=
            TMap.Add (env.CurrentGeneration tid).StateMachinesThatNeedReferences C [sm] }) := by
  obtain ⟨g, hg⟩ := Find_of_Contains _ _ hc
  simp only [GenerateStateMachine, GenerateStateMachine.body, hC, hc, Bool.not_true,
    Env.FindOrAddGeneration_of_Find env tid g hg, GenerateStateMachine.reference,
    template_none w env K sm C bDryRun hT, GenerateStateMachine.check, hR, hCr, if_true]
  simp [TMap.FindOrAdd, hW, TMap.Add_Add, FinishStateMachineGeneration]

/-- Assembly of the root state machine of an instance whose class has a single reuse
reference node to itself, entered while the class is being instantiated: the reference
node is queued, and nothing else changes. -/
theorem root_queue (w : World) (tid d : Nat) (C : UClass) (pre post : List FSMNode) (X : FSMNode)
    (hS : SingleReference w C pre X post) (hR : X.bReuseReference = true) (k : Nat)
    (hk : Nests k (pre ++ X :: post) (w.GetClass C).RootStateMachineGuid = true) (hd : k ≤ d + 1)
    (K : InstId) (env : Env) (hc : TMap.Contains env.StateMachinesGeneratingForThread tid = true)
    (hCr : TMap.Find (env.CurrentGeneration tid).CreatedReferences C = some none)
    (hW : TMap.Find (env.CurrentGeneration tid).StateMachinesThatNeedReferences C = none) :
    ∃ r env', GenerateStateMachine w tid (d + 1) env (.SMInstance K)
        (USMInstance.RootStateMachine (w.GetClass C) K) (pre ++ X :: post) false = some (r, env') ∧
      env'.Instances = env.Instances ∧
      env'.InstanceReference = env.InstanceReference ∧
      env.Log <+: env'.Log ∧
      env'.StateMachinesGeneratingForThread =
        TMap.Add env.StateMachinesGeneratingForThread tid
          { env.CurrentGeneration tid with
            StateMachinesThatNeedReferences :=
              TMap.Add (env.CurrentGeneration tid).StateMachinesThatNeedReferences C
                [⟨⟨.SMInstance K, some pre.length⟩, X⟩] } := by
  have hk2 := hS.two_le hk
  obtain ⟨d', rfl⟩ : ∃ d', d = d' + 1 := ⟨d - 1, by omega⟩
  obtain ⟨r, e, env', hq, ha, _, he⟩ := root_single w tid (d' + 1) C pre post X hS k hk hd K env hc false
    (fun e =>
      e.Instances = env.Instances ∧ e.InstanceReference = env.InstanceReference ∧
      env.Log <+: e.Log ∧
      e.StateMachinesGeneratingForThread =
        TMap.Add env.StateMachinesGeneratingForThread tid
          { env.CurrentGeneration tid with
            StateMachinesThatNeedReferences :=
              TMap.Add (env.CurrentGeneration tid).StateMachinesThatNeedReferences C
                [⟨⟨.SMInstance K, some pre.length⟩, X⟩] })
    (fun a b ha hf => ⟨hf.1.trans ha.1, hf.2.2.1.trans ha.2.1, ha.2.2.1.trans hf.2.2.2,
      hf.2.1.trans ha.2.2.2⟩)
    (fun a ha => by rw [ha.2.2.2]; simp [TMap.Contains, TMap.Find_Add_self])
    (by
      intro e hf
      have hce : TMap.Contains e.StateMachinesGeneratingForThread tid = true := by
        rw [hf.2.1]; exact hc
      have hgen := Env.CurrentGeneration_congr tid hf.2.1
      refine ⟨true, _, resolve_queue w tid d' e K ⟨⟨.SMInstance K, some pre.length⟩, X⟩ _ false C
        hS.target hS.noTemplate hR hce (by rw [hgen]; exact hCr) (by rw [hgen]; exact hW),
        ?_, ?_, ?_, ?_⟩
      · simpa using hf.1
      · simpa using hf.2.2.1
      · simpa using hf.2.2.2
      · simp only [Env.setCurrentGeneration, Env.setThreadMap_ThreadMap_eq, hf.2.1, hgen])
  rw [GenerateStateMachine_local_nested w tid (d' + 1) env _ _ _ false rfl hc, ha]
  refine ⟨r, env', rfl, ?_⟩
  have : env' = e := by rw [he, Finish_false]; simp
  rw [this]; exact hq

/-- The steps after the instantiation for a reuse reference node when one reuse node is
queued for the class: the queued node and the node itself are given the new instance. -/
theorem referenced_reuse (tid : Nat) (e : Env) (K : InstId) (sm : FSMStateMachine) (C : UClass)
    (I : InstId) (hR : sm.Node.bReuseReference = true) (q : FSMStateMachine)
    (hq : q.Node.bReuseReference = true)
    (hW : TMap.Find (e.CurrentGeneration tid).StateMachinesThatNeedReferences C = some [q])
    (v : Int) (hv : TMap.Find (e.CurrentGeneration tid).InstancesGenerating C = some v) :
    (GenerateStateMachine.referenced tid e K sm C I).Instances = (e.SetReferenceOwner I K).Instances ∧
    (GenerateStateMachine.referenced tid e K sm C I).InstanceReference =
      TMap.Add (TMap.Add e.InstanceReference q.Ptr I) sm.Ptr I ∧
    TMap.Contains (GenerateStateMachine.referenced tid e K sm C I).StateMachinesGeneratingForThread
      tid = true ∧
    (GenerateStateMachine.referenced tid e K sm C I).Log = e.Log := by
  have hrec : GenerateStateMachine.record tid (e.SetReferenceOwner I K) sm C I =
      (e.SetReferenceOwner I K).setCurrentGeneration tid
        { e.CurrentGeneration tid with
          CreatedReferences := TMap.Add (e.CurrentGeneration tid).CreatedReferences C (some I) } := by
    simp [GenerateStateMachine.record, hR]
  have hpatch : GenerateStateMachine.patch tid
      ((e.SetReferenceOwner I K).setCurrentGeneration tid
        { e.CurrentGeneration tid with
          CreatedReferences := TMap.Add (e.CurrentGeneration tid).CreatedReferences C (some I) })
      C I =
      ((e.SetReferenceOwner I K).setCurrentGeneration tid
        { e.CurrentGeneration tid with
          CreatedReferences :=
            TMap.Add (e.CurrentGeneration tid).CreatedReferences C (some I) }).SetInstanceReference
        q.Ptr I := by
    simp [GenerateStateMachine.patch, hW, hq]
  simp only [GenerateStateMachine.referenced, hrec, hpatch]
  rw [decrement_some tid _ C v (by simpa using hv)]
  refine ⟨by simp, by simp, ?_, by simp⟩
  simp [Contains_setCurrentGeneration]

/-! ## A class whose reference nodes target one reference-free class -/

theorem enum_prefix_take {α : Type} (props : List α) (done rest : List (Nat × α)) (x : Nat × α)
    (h : props.enum = done ++ x :: rest) : done.map Prod.snd = props.take done.length := by
  have h2 : props = done.map Prod.snd ++ x.2 :: rest.map Prod.snd := by
    have := congrArg (List.map Prod.snd) h
    simpa [List.enum_map_snd] using this
  conv_rhs => rw [h2]
  rw [List.take_left']
  simp

theorem ReferenceCount_append (a b : List FSMNode) :
    ReferenceCount (a ++ b) = ReferenceCount a + ReferenceCount b := by
  simp [ReferenceCount]

theorem ReferenceCount_single (p : FSMNode) :
    ReferenceCount [p] = if p.IsReference = true then 1 else 0 := by
  by_cases h : p.IsReference = true <;> simp [ReferenceCount, h]

/-- The assembly of the root state machine of an instance of a class without reference
nodes returns and is a frame step. -/
theorem target_root (w : World) (tid : Nat) (D : UClass)
    (hD : ∀ p ∈ (w.GetClass D).Properties, p.IsReference = false) (kD d : Nat)
    (hk : Nests kD (w.GetClass D).Properties (w.GetClass D).RootStateMachineGuid = true)
    (hd : kD ≤ d) (env : Env) (K : InstId)
    (hc : TMap.Contains env.StateMachinesGeneratingForThread tid = true) :
    ∃ r e, GenerateStateMachine w tid d env (.SMInstance K)
        (USMInstance.RootStateMachine (w.GetClass D) K) (w.GetClass D).Properties false =
          some (r, e) ∧ env.Frame e :=
  local_frame w tid (w.GetClass D).Properties (fun _ => False)
    (fun p hp hr => by rw [hD p hp] at hr; exact absurd hr (by simp)) (fun _ _ _ h => h)
    kD d env (.SMInstance K) (USMInstance.RootStateMachine (w.GetClass D) K) false hk hd rfl
    (fun h => h) hc

/-- The steps after the instantiation when no state machine is queued for the class. -/
theorem referenced_plain (tid : Nat) (e : Env) (K : InstId) (sm : FSMStateMachine) (C : UClass)
    (I : InstId)
    (hW : TMap.Find (e.CurrentGeneration tid).StateMachinesThatNeedReferences C = none)
    (v : Int) (hv : TMap.Find (e.CurrentGeneration tid).InstancesGenerating C = some v) :
    (GenerateStateMachine.referenced tid e K sm C I).Instances = (e.SetReferenceOwner I K).Instances ∧
    (GenerateStateMachine.referenced tid e K sm C I).InstanceReference =
      TMap.Add e.InstanceReference sm.Ptr I ∧
    (GenerateStateMachine.referenced tid e K sm C I).Log = e.Log ∧
    (GenerateStateMachine.referenced tid e K sm C I).StateMachinesGeneratingForThread =
      TMap.Add e.StateMachinesGeneratingForThread tid
        { InstancesGenerating := TMap.Add (e.CurrentGeneration tid).InstancesGenerating C (v - 1),
          CreatedReferences :=
            if sm.Node.bReuseReference then
              TMap.Add (e.CurrentGeneration tid).CreatedReferences C (some I)
            else (e.CurrentGeneration tid).CreatedReferences,
          StateMachinesThatNeedReferences :=
            (e.CurrentGeneration tid).StateMachinesThatNeedReferences } := by
  cases hR : sm.Node.bReuseReference with
  | false =>
    have hpatch := patch_none tid (e.SetReferenceOwner I K) C I (by simpa using hW)
    simp only [GenerateStateMachine.referenced, record_nonreuse tid _ sm C I hR, hpatch]
    rw [decrement_some tid _ C v (by simpa using hv)]
    refine ⟨by simp, by simp, by simp, ?_⟩
    simp only [Env.SetInstanceReference_StateMachinesGeneratingForThread,
      Env.setCurrentGeneration_CurrentGeneration, Env.SetReferenceOwner_CurrentGeneration]
    simp [Env.setCurrentGeneration]
  | true =>
    have hrec : GenerateStateMachine.record tid (e.SetReferenceOwner I K) sm C I =
        (e.SetReferenceOwner I K).setCurrentGeneration tid
          { e.CurrentGeneration tid with
            CreatedReferences :=
              TMap.Add (e.CurrentGeneration tid).CreatedReferences C (some I) } := by
      simp [GenerateStateMachine.record, hR]
    have hpatch := patch_none tid ((e.SetReferenceOwner I K).setCurrentGeneration tid
          { e.CurrentGeneration tid with
            CreatedReferences :=
              TMap.Add (e.CurrentGeneration tid).CreatedReferences C (some I) }) C I
      (by simpa using hW)
    simp only [GenerateStateMachine.referenced, hrec, hpatch]
    rw [decrement_some tid _ C v (by simpa using hv)]
    refine ⟨by simp, by simp, by simp, ?_⟩
    simp only [Env.SetInstanceReference_StateMachinesGeneratingForThread,
      Env.setCurrentGeneration_CurrentGeneration]
    simp [Env.setCurrentGeneration, TMap.Add_Add]

/-- The nested activation on a reuse reference node whose class has been instantiated
through a reuse node before: the node is given the recorded instance. -/
theorem resolve_again (w : World) (tid d : Nat) (env : Env) (K : InstId)
    (sm : FSMStateMachine) (props : List FSMNode) (bDryRun : Bool) (C : UClass) (I : InstId)
    (hC : sm.Node.ClassReference = some C) (hT : sm.Node.ReferencedTemplateName = none)
    (hR : sm.Node.bReuseReference = true)
    (hc : TMap.Contains env.StateMachinesGeneratingForThread tid = true)
    (hCr : TMap.Find (env.CurrentGeneration tid).CreatedReferences C = some (some I)) :
    GenerateStateMachine w tid (d + 1) env (.SMInstance K) sm props bDryRun =
      some (true, env.SetInstanceReference sm.Ptr I) := by
  obtain ⟨g, hg⟩ := Find_of_Contains _ _ hc
  simp only [GenerateStateMachine, GenerateStateMachine.body, hC, hc, Bool.not_true,
    Env.FindOrAddGeneration_of_Find env tid g hg, GenerateStateMachine.reference,
    template_none w env K sm C bDryRun hT, GenerateStateMachine.check, hR, hCr, if_true]
  simp [FinishStateMachineGeneration]

/-- The nested activation on a reference node without template that passes the check and
targets a class without reference nodes, when no state machine is queued for the class:
one instance is created and given to the node. -/
theorem resolve_target (w : World) (tid d : Nat) (env : Env) (K : InstId)
    (sm : FSMStateMachine) (props : List FSMNode) (D : UClass)
    (hC : sm.Node.ClassReference = some D) (hT : sm.Node.ReferencedTemplateName = none)
    (hc : TMap.Contains env.StateMachinesGeneratingForThread tid = true)
    (hD : ∀ p ∈ (w.GetClass D).Properties, p.IsReference = false) (kD : Nat)
    (hk : Nests kD (w.GetClass D).Properties (w.GetClass D).RootStateMachineGuid = true)
    (hd : kD ≤ d)
    (env₂ : Env) (hchk : GenerateStateMachine.check tid false env K sm D = .inr env₂)
    (hI₂ : env₂.Instances = env.Instances)
    (hIR₂ : env₂.InstanceReference = env.InstanceReference) (hL₂ : env₂.Log = env.Log)
    (hW : TMap.Find (env₂.CurrentGeneration tid).StateMachinesThatNeedReferences D = none) :
    ∃ e', GenerateStateMachine w tid (d + 1) env (.SMInstance K) sm props false = some (true, e') ∧
      e'.Instances = env.Instances ++ [USMInstance.referenced D (env.GetContext K) K] ∧
      e'.InstanceReference = TMap.Add env.InstanceReference sm.Ptr env.Instances.length ∧
      env.Log <+: e'.Log ∧
      e'.StateMachinesGeneratingForThread =
        TMap.Add env₂.StateMachinesGeneratingForThread tid
          { InstancesGenerating :=
              TMap.Add (env₂.CurrentGeneration tid).InstancesGenerating D (env₂.InProgress tid D),
            CreatedReferences :=
              if sm.Node.bReuseReference then
                TMap.Add (env₂.CurrentGeneration tid).CreatedReferences D (some env.Instances.length)
              else (env₂.CurrentGeneration tid).CreatedReferences,
            StateMachinesThatNeedReferences :=
              (env₂.CurrentGeneration tid).StateMachinesThatNeedReferences } := by
  obtain ⟨r₁, e₁, hroot, hf⟩ := target_root w tid D hD kD d hk hd
    ((GenerateStateMachine.increment tid env₂ D).Initializing D none (env₂.GetContext K))
    env₂.Instances.length (Contains_increment_initializing tid env₂ D _)
  have hres := resolve_instantiate w tid d env K sm props D hC hT hc env₂ hchk r₁ e₁ hroot
  have hge : e₁.CurrentGeneration tid =
      { env₂.CurrentGeneration tid with
        InstancesGenerating :=
          TMap.Add (env₂.CurrentGeneration tid).InstancesGenerating D (env₂.InProgress tid D + 1) } := by
    rw [Env.CurrentGeneration_congr tid (hf.2.1.trans (Initializing_threadMap _ _ _ _)),
      increment_generation]
  obtain ⟨g1, g2, g3, g4⟩ := referenced_plain tid e₁ K sm D env₂.Instances.length
    (by rw [hge]; exact hW) (env₂.InProgress tid D + 1) (by rw [hge]; simp [TMap.Find_Add_self])
  have hctx : env₂.GetContext K = env.GetContext K := GetContext_congr hI₂ K
  refine ⟨_, hres, ?_, ?_, ?_, ?_⟩
  · rw [g1]
    have := SetReferenceOwner_append e₁ env₂.Instances []
      (USMInstance.mk D (env₂.GetContext K) none none) K
      (by rw [hf.1, Initializing_Instances, increment_Instances])
    rw [this, hI₂, hctx]; rfl
  · rw [g2, hf.2.2.1, Initializing_InstanceReference, increment_InstanceReference, hIR₂, hI₂]
  · rw [g3]
    have := hf.2.2.2
    rw [Initializing_Log, increment_Log, hL₂] at this
    exact this
  · rw [g4, hf.2.1, Initializing_threadMap, increment_threadMap, TMap.Add_Add, hge, hI₂]
    simp [TMap.Add_Add]

theorem GetContext_replicate (l : List USMInstance) (e : Env) (K : InstId) (n : Nat) (D : UClass)
    (ctx : Option Nat) (hctx : ctx = (l.get? K).bind (fun i => i.Context))
    (h : e.Instances = l ++ List.replicate n (USMInstance.referenced D ctx K)) :
    e.GetContext K = ctx := by
  unfold Env.GetContext
  rw [h, List.get?_eq_getElem?]
  by_cases hK : K < l.length
  · rw [List.getElem?_append_left hK, hctx, List.get?_eq_getElem?]
  · have hK' : l.length ≤ K := Nat.le_of_not_lt hK
    have hn : l.get? K = none := by
      rw [List.get?_eq_getElem?]; exact List.getElem?_eq_none hK'
    rw [hn] at hctx
    rw [List.getElem?_append_right hK', List.getElem?_replicate]
    split
    · simp [USMInstance.referenced]
    · simp [hctx]

theorem ReferenceCount_snoc (done : List (Nat × FSMNode)) (x : Nat × FSMNode) :
    ReferenceCount ((done ++ [x]).map Prod.snd) =
      ReferenceCount (done.map Prod.snd) + if x.2.IsReference = true then 1 else 0 := by
  rw [List.map_append, ReferenceCount_append, List.map_singleton, ReferenceCount_single]

theorem IsChildOfStateMachine_of_IsReference (p : FSMNode) (h : p.IsReference = true) :
    p.Struct.IsChildOfStateMachine = true := by
  simp only [FSMNode.IsReference, Bool.and_eq_true] at h
  exact h.1

theorem ReferencesResolved.frame {tid : Nat} {D : UClass} {reuse : Bool} {props : List FSMNode}
    {K : InstId} {env : Env} {done : List (Nat × FSMNode)} {e e' : Env}
    (hp : ReferencesResolved tid D reuse props K env done e) (hf : e.Frame e') :
    ReferencesResolved tid D reuse props K env done e' := by
  obtain ⟨h1, h2, h3, h4, h5, h6⟩ := hp
  have hgen := Env.CurrentGeneration_congr tid hf.2.1
  refine ⟨by rw [hf.2.1]; exact h1, by rw [hgen]; exact h2, fun h => ?_, fun h => ?_,
    hf.1.trans h5, fun y hy hyr => ?_⟩
  · simp only [Env.InProgress, hgen]; exact h3 h
  · rw [hgen]; exact h4 h
  · rw [hf.2.2.1]; exact h6 y hy hyr

theorem ReferencesResolved.skip {tid : Nat} {D : UClass} {reuse : Bool} {props : List FSMNode}
    {K : InstId} {env : Env} {done : List (Nat × FSMNode)} {e : Env}
    (hp : ReferencesResolved tid D reuse props K env done e) (x : Nat × FSMNode)
    (hnr : x.2.IsReference = false) :
    ReferencesResolved tid D reuse props K env (done ++ [x]) e := by
  obtain ⟨h1, h2, h3, h4, h5, h6⟩ := hp
  have hrc : ReferenceCount ((done ++ [x]).map Prod.snd) = ReferenceCount (done.map Prod.snd) := by
    rw [ReferenceCount_snoc, hnr]; simp
  unfold ReferencesResolved
  rw [hrc]
  refine ⟨h1, h2, h3, h4, h5, ?_⟩
  intro y hy hyr
  rcases List.mem_append.mp hy with hy | hy
  · exact h6 y hy hyr
  · rw [List.mem_singleton] at hy
    rw [hy, hnr] at hyr; exact absurd hyr (by simp)

/-- A reference node without reuse, met by the first pass: it creates its own instance. -/
theorem ReferencesResolved.create (w : World) (tid d : Nat) (D : UClass)
    (props : List FSMNode) (K : InstId) (env : Env) (done rest : List (Nat × FSMNode))
    (x : Nat × FSMNode) (e : Env)
    (hp : ReferencesResolved tid D false props K env done e)
    (hL : props.enum = done ++ x :: rest)
    (hC : x.2.ClassReference = some D) (hT : x.2.ReferencedTemplateName = none)
    (hR : x.2.bReuseReference = false) (hr : x.2.IsReference = true)
    (hD : ∀ p ∈ (w.GetClass D).Properties, p.IsReference = false) (kD : Nat)
    (hkD : Nests kD (w.GetClass D).Properties (w.GetClass D).RootStateMachineGuid = true)
    (hd : kD ≤ d) :
    ∃ r e', GenerateStateMachine w tid (d + 1) e (.SMInstance K) ⟨⟨.SMInstance K, some x.1⟩, x.2⟩
        props false = some (r, e') ∧
      ReferencesResolved tid D false props K env (done ++ [x]) e' := by
  obtain ⟨h1, h2, h3, h4, h5, h6⟩ := hp
  obtain ⟨hx1, hx2, hlt⟩ := enum_prefix_index _ _ _ _ hL
  have htake := enum_prefix_take _ _ _ _ hL
  have hrc : ReferenceCount ((done ++ [x]).map Prod.snd) = ReferenceCount (done.map Prod.snd) + 1 := by
    rw [ReferenceCount_snoc, hr]; simp
  have hctx : e.GetContext K = env.GetContext K :=
    GetContext_replicate env.Instances e K _ D _ rfl h5
  have hchk := check_nonreuse_pass tid false e K ⟨⟨.SMInstance K, some x.1⟩, x.2⟩ D hR
    (by rw [h3 rfl]; decide)
  obtain ⟨e', hres, i1, i2, i3, i4⟩ := resolve_target w tid d e K ⟨⟨.SMInstance K, some x.1⟩, x.2⟩
    props D hC hT h1 hD kD hkD hd e hchk rfl rfl rfl h2
  have hgen := CurrentGeneration_of_threadMap e' _ tid _ i4
  refine ⟨true, e', hres, ?_, ?_, fun _ => ?_, fun h => by simp at h, ?_, ?_⟩
  · rw [i4]; simp [TMap.Contains, TMap.Find_Add_self]
  · rw [hgen]; exact h2
  · simp [Env.InProgress, hgen, TMap.Find_Add_self]
    exact h3 rfl
  · rw [i1, h5, hctx, hrc]
    simp [List.replicate_succ']
  · intro y hy hyr
    rw [i2]
    rcases List.mem_append.mp hy with hy | hy
    · rw [TMap.Find_Add_ne _ _ (by
        intro h
        have := hlt y hy
        simp only [NodePtr.mk.injEq, Option.some.injEq, true_and] at h
        omega)]
      exact h6 y hy hyr
    · rw [List.mem_singleton] at hy
      rw [hy, TMap.Find_Add_self, h5, hx1, ← htake]
      simp

/-- A reuse reference node, met by the first pass: the first one creates the instance, the
later ones are given that instance. -/
theorem ReferencesResolved.share (w : World) (tid d : Nat) (D : UClass)
    (props : List FSMNode) (K : InstId) (env : Env) (done rest : List (Nat × FSMNode))
    (x : Nat × FSMNode) (e : Env)
    (hp : ReferencesResolved tid D true props K env done e)
    (hL : props.enum = done ++ x :: rest)
    (hC : x.2.ClassReference = some D) (hT : x.2.ReferencedTemplateName = none)
    (hR : x.2.bReuseReference = true) (hr : x.2.IsReference = true)
    (hD : ∀ p ∈ (w.GetClass D).Properties, p.IsReference = false) (kD : Nat)
    (hkD : Nests kD (w.GetClass D).Properties (w.GetClass D).RootStateMachineGuid = true)
    (hd : kD ≤ d) :
    ∃ r e', GenerateStateMachine w tid (d + 1) e (.SMInstance K) ⟨⟨.SMInstance K, some x.1⟩, x.2⟩
        props false = some (r, e') ∧
      ReferencesResolved tid D true props K env (done ++ [x]) e' := by
  obtain ⟨h1, h2, h3, h4, h5, h6⟩ := hp
  obtain ⟨hx1, hx2, hlt⟩ := enum_prefix_index _ _ _ _ hL
  have hrc : ReferenceCount ((done ++ [x]).map Prod.snd) = ReferenceCount (done.map Prod.snd) + 1 := by
    rw [ReferenceCount_snoc, hr]; simp
  have hctx : e.GetContext K = env.GetContext K :=
    GetContext_replicate env.Instances e K _ D _ rfl h5
  have hptr : ∀ y ∈ done, (⟨.SMInstance K, some x.1⟩ : NodePtr) ≠ ⟨.SMInstance K, some y.1⟩ := by
    intro y hy h
    have := hlt y hy
    simp only [NodePtr.mk.injEq, Option.some.injEq, true_and] at h
    omega
  have h4 := h4 rfl
  by_cases h0 : ReferenceCount (done.map Prod.snd) = 0
  · rw [if_pos h0] at h4
    simp only [h0, if_true, Nat.min_zero, List.replicate_zero, List.append_nil] at h5
    have hchk : GenerateStateMachine.check tid false e K ⟨⟨.SMInstance K, some x.1⟩, x.2⟩ D =
        .inr (e.setCurrentGeneration tid
          { e.CurrentGeneration tid with
            CreatedReferences := TMap.Add (e.CurrentGeneration tid).CreatedReferences D none }) := by
      simp [GenerateStateMachine.check, hR, h4]
    obtain ⟨e', hres, i1, i2, i3, i4⟩ := resolve_target w tid d e K
      ⟨⟨.SMInstance K, some x.1⟩, x.2⟩ props D hC hT h1 hD kD hkD hd _ hchk (by simp) (by simp)
      (by simp) (by simpa using h2)
    have hgen := CurrentGeneration_of_threadMap e' _ tid _ i4
    simp only [Env.setCurrentGeneration_CurrentGeneration, hR, if_true] at hgen
    refine ⟨true, e', hres, ?_, ?_, fun h => by simp at h, fun _ => ?_, ?_, ?_⟩
    · rw [i4]; simp [TMap.Contains, TMap.Find_Add_self]
    · rw [hgen]; exact h2
    · rw [hgen, hrc, h0]
      simp [TMap.Find_Add_self, h5]
    · rw [i1, h5, hctx, hrc, h0]
      simp
    · intro y hy hyr
      rw [i2]
      rcases List.mem_append.mp hy with hy | hy
      · rw [TMap.Find_Add_ne _ _ (hptr y hy)]
        exact h6 y hy hyr
      · rw [List.mem_singleton] at hy
        rw [hy, TMap.Find_Add_self, h5]
        simp
  · rw [if_neg h0] at h4
    refine ⟨true, _, resolve_again w tid d e K ⟨⟨.SMInstance K, some x.1⟩, x.2⟩ props false D
      env.Instances.length hC hT hR h1 h4, ?_, ?_, fun h => by simp at h, fun _ => ?_, ?_, ?_⟩
    · simpa using h1
    · simpa using h2
    · rw [hrc]; simpa using h4
    · rw [hrc]
      simp only [Env.SetInstanceReference_Instances, h5, if_true]
      congr 2
      omega
    · intro y hy hyr
      rw [Env.SetInstanceReference_InstanceReference_eq]
      rcases List.mem_append.mp hy with hy | hy
      · rw [TMap.Find_Add_ne _ _ (hptr y hy)]
        exact h6 y hy hyr
      · rw [List.mem_singleton] at hy
        rw [hy, TMap.Find_Add_self]
        simp

/-- Local assembly of the root state machine of an instance of a class whose reference
nodes all target one class without reference nodes, entered with empty bookkeeping for
the thread: with reuse one instance is created by the first reference node and given to
every reference node, without reuse every reference node creates its own instance. -/
theorem references_scan (w : World) (tid d : Nat) (P D : UClass) (props : List FSMNode)
    (reuse : Bool) (hS : ReferencesTo w P D props reuse) (k kD : Nat)
    (hk : Nests k props (w.GetClass P).RootStateMachineGuid = true)
    (hkD : Nests kD (w.GetClass D).Properties (w.GetClass D).RootStateMachineGuid = true)
    (hd : k ≤ d + 1) (hdD : kD + 1 ≤ d) (K : InstId) (env : Env) (top : Bool)
    (hc : TMap.Contains env.StateMachinesGeneratingForThread tid = true)
    (hg : env.CurrentGeneration tid =
      { InstancesGenerating := [], CreatedReferences := [],
        StateMachinesThatNeedReferences := [] }) :
    ∃ r e env',
      GenerateStateMachine.assemble tid (GenerateStateMachine w tid d) top env (.SMInstance K)
        (USMInstance.RootStateMachine (w.GetClass P) K) props false = some (r, env') ∧
      (r = true ↔ TransitionsResolve props (w.GetClass P).RootStateMachineGuid) ∧
      env' = (if r then (FinishStateMachineGeneration top e tid).2 else e) ∧
      ReferencesResolved tid D reuse props K env props.enum e := by
  obtain ⟨k', rfl⟩ : ∃ k', k = k' + 1 := ⟨k - 1, by have := Nests_pos hk; omega⟩
  obtain ⟨d', rfl⟩ : ∃ d', d = d' + 1 := ⟨d - 1, by omega⟩
  have key := assemble_scan (ReferencesResolved tid D reuse props K env)
    tid (GenerateStateMachine w tid (d' + 1)) top env (.SMInstance K)
    (USMInstance.RootStateMachine (w.GetClass P) K) props false
    (fun done e e' hp hf => hp.frame hf)
    (by
      intro done x rest e hL hp hn
      obtain ⟨hx1, hx2, _⟩ := enum_prefix_index _ _ _ _ hL
      have hxm : x.2 ∈ props := List.getElem?_mem hx2
      refine hp.skip x ?_
      cases hr : x.2.IsReference with
      | false => rfl
      | true =>
        exact absurd ⟨IsChildOfStateMachine_of_IsReference _ hr, hS.owned _ hxm hr⟩ hn)
    (by
      intro done x rest e hL hp hsm ho
      obtain ⟨hx1, hx2, _⟩ := enum_prefix_index _ _ _ _ hL
      have hxm : x.2 ∈ props := List.getElem?_mem hx2
      cases hr : x.2.IsReference with
      | false =>
        obtain ⟨r, e', hcall, hfe⟩ := local_frame w tid props
          (fun g => g = (w.GetClass P).RootStateMachineGuid)
          hS.owned hS.root_unique k' (d' + 1) e (.SMInstance K)
          ⟨⟨.SMInstance K, some x.1⟩, x.2⟩ false
          (Nests_child hk hxm hsm ho) (by omega) (ClassReference_of_not_IsReference _ hr hsm)
          (hS.root_unique x.2 hxm hsm) hp.1
        exact ⟨r, e', hcall, (hp.frame hfe).skip x hr⟩
      | true =>
        cases reuse with
        | false =>
          exact ReferencesResolved.create w tid d' D props K env done rest x e hp hL
            (hS.target _ hxm hr) (hS.noTemplate _ hxm hr) (hS.reuse_eq _ hxm hr) hr
            hS.target_local kD hkD (by omega)
        | true =>
          exact ReferencesResolved.share w tid d' D props K env done rest x e hp hL
            (hS.target _ hxm hr) (hS.noTemplate _ hxm hr) (hS.reuse_eq _ hxm hr) hr
            hS.target_local kD hkD (by omega))
    (by
      refine ⟨hc, by rw [hg]; rfl, fun _ => by simp [Env.InProgress, hg, TMap.Find],
        fun _ => by rw [hg]; simp [ReferenceCount, TMap.Find], by simp [ReferenceCount], ?_⟩
      intro y hy; simp at hy)
  obtain ⟨r, e, env', hp, ha, hr, he⟩ := key
  exact ⟨r, e, env', ha, hr, he, hp⟩

theorem ReferenceCount_take_lt (props : List FSMNode) (i j : Nat) (p : FSMNode) (hij : i < j)
    (hi : props[i]? = some p) (hp : p.IsReference = true) :
    ReferenceCount (props.take i) < ReferenceCount (props.take j) := by
  have hlen : i < props.length := by
    rcases Nat.lt_or_ge i props.length with h | h
    · exact h
    · rw [List.getElem?_eq_none h] at hi; simp at hi
  have h1 : props.take (i + 1) = props.take i ++ [p] := by
    rw [List.take_succ, hi]; rfl
  have h2 : props.take j = props.take (i + 1) ++ (props.take j).drop (i + 1) := by
    have : props.take (i + 1) = (props.take j).take (i + 1) := by
      rw [List.take_take, Nat.min_eq_left (by omega)]
    rw [this, List.take_append_drop]
  rw [h2, ReferenceCount_append, h1, ReferenceCount_append, ReferenceCount_single, if_pos hp]
  omega

/-! ## Executing a run-time node -/

/-- C20: `FSMNode_Base::Execute` on a node that is not initialized returns the node as it
was, whatever updating the read states and running the graph evaluator would do (neither
is called); on an initialized node the result is the graph evaluator run on the node with
its read states updated, in that order. A freshly constructed node is not initialized, and
a node is initialized once `Initialize` has run (the calls `Initialize` makes do not clear
the flag). -/
theorem C20_execute_requires_initialized
    (UpdateReadStates GraphEvaluatorExecute : FSMNode_BaseState → FSMNode_BaseState)
    (Node : FSMNode_BaseState) :
    (Node.bInitialized = false →
      Node.Execute UpdateReadStates GraphEvaluatorExecute = Node) ∧
    (Node.bInitialized = true →
      Node.Execute UpdateReadStates GraphEvaluatorExecute =
        GraphEvaluatorExecute (UpdateReadStates Node)) ∧
    FSMNode_BaseState.new.Execute UpdateReadStates GraphEvaluatorExecute =
      FSMNode_BaseState.new ∧
    (∀ (InitializeEvaluators : UObjectRef → FSMNode_BaseState → FSMNode_BaseState)
      (CreateNodeInstance : FSMNode_BaseState → FSMNode_BaseState) (Instance : UObjectRef),
      (∀ i s, (InitializeEvaluators i s).bInitialized = s.bInitialized) →
      (∀ s, (CreateNodeInstance s).bInitialized = s.bInitialized) →
      (Node.Initialize InitializeEvaluators CreateNodeInstance Instance).Execute
          UpdateReadStates GraphEvaluatorExecute =
        GraphEvaluatorExecute (UpdateReadStates
          (Node.Initialize InitializeEvaluators CreateNodeInstance Instance))) := by
  refine ⟨fun h => ?_, fun h => ?_, rfl, fun I C i hI hC => ?_⟩
  · simp [FSMNode_BaseState.Execute, h]
  · simp [FSMNode_BaseState.Execute, h]
  · have : (Node.Initialize I C i).bInitialized = true := by
      simp [FSMNode_BaseState.Initialize, hI, hC]
    simp [FSMNode_BaseState.Execute, this]

theorem C20_execute_requires_initialized_witness :
    (FSMNode_BaseState.new.Execute (fun n => { n with TimeInState := n.TimeInState + 1 })
        (fun n => { n with bHasUpdated := true }) = FSMNode_BaseState.new) ∧
    ((FSMNode_BaseState.new.Initialize (fun _ n => n) (fun n => { n with NodeInstance := some 0 })
        (.SMInstance 0)).Execute (fun n => { n with TimeInState := n.TimeInState + 1 })
        (fun n => { n with bHasUpdated := true }) =
      { FSMNode_BaseState.new with
        TimeInState := 1, bHasUpdated := true, OwningInstance := some 0, NodeInstance := some 0,
        bInitialized := true }) :=
  ⟨(C20_execute_requires_initialized (fun n => { n with TimeInState := n.TimeInState + 1 })
      (fun n => { n with bHasUpdated := true }) FSMNode_BaseState.new).1 rfl,
   ((C20_execute_requires_initialized (fun n => { n with TimeInState := n.TimeInState + 1 })
      (fun n => { n with bHasUpdated := true }) FSMNode_BaseState.new).2.2.2
      (fun _ n => n) (fun n => { n with NodeInstance := some 0 }) (.SMInstance 0)
      (fun _ _ => rfl) (fun _ => rfl)).trans (by decide)⟩

/-! ## End states in the editor graph -/

theorem IsEndState_loop_iff (l : List UEdGraphNode) :
    USMGraphNode_StateNodeBase.IsEndState.loop l = true ↔
      ∀ Transition, UEdGraphNode.TransitionEdge Transition ∈ l →
        Transition.FromState ≠ Transition.ToState → Transition.bPossibleToTransition = false := by
  induction l with
  | nil => simp [USMGraphNode_StateNodeBase.IsEndState.loop]
  | cons a l ih =>
    cases a with
    | StateMachineEntryNode => simp [USMGraphNode_StateNodeBase.IsEndState.loop, ih]
    | Other Id => simp [USMGraphNode_StateNodeBase.IsEndState.loop, ih]
    | TransitionEdge T =>
      simp only [USMGraphNode_StateNodeBase.IsEndState.loop, List.mem_cons,
        UEdGraphNode.TransitionEdge.injEq]
      by_cases h : T.FromState = T.ToState
      · simp only [h, if_true, ih]
        constructor
        · intro hl T' hT' hne
          rcases hT' with rfl | hT'
          · exact absurd h hne
          · exact hl T' hT' hne
        · intro hl T' hT' hne
          exact hl T' (Or.inr hT') hne
      · cases hp : T.bPossibleToTransition with
        | true =>
          simp only [h, if_false, if_true, Bool.false_eq_true, false_iff, not_forall]
          exact ⟨T, Or.inl rfl, h, by simp [hp]⟩
        | false =>
          simp only [h, if_false, Bool.false_eq_true, ih]
          constructor
          · intro hl T' hT' hne
            rcases hT' with rfl | hT'
            · exact hp
            · exact hl T' hT' hne
          · intro hl T' hT' hne
            exact hl T' (Or.inr hT') hne

theorem HasInputConnections_loop_iff (l : List UEdGraphNode) :
    USMGraphNode_StateNodeBase.HasInputConnections.loop l = true ↔
      (UEdGraphNode.StateMachineEntryNode ∈ l ∨
        ∃ Transition, UEdGraphNode.TransitionEdge Transition ∈ l ∧
          Transition.FromState ≠ Transition.ToState ∧ Transition.bPossibleToTransition = true) := by
  induction l with
  | nil => simp [USMGraphNode_StateNodeBase.HasInputConnections.loop]
  | cons a l ih =>
    cases a with
    | StateMachineEntryNode => simp [USMGraphNode_StateNodeBase.HasInputConnections.loop]
    | Other o =>
      simp only [USMGraphNode_StateNodeBase.HasInputConnections.loop, ih, List.mem_cons]
      simp
    | TransitionEdge T =>
      simp only [USMGraphNode_StateNodeBase.HasInputConnections.loop]
      by_cases h : T.FromState = T.ToState
      · simp only [h, decide_True, Bool.true_or, if_true, ih, List.mem_cons]
        constructor
        · rintro (h1 | ⟨T', h1, h2, h3⟩)
          · exact Or.inl (Or.inr h1)
          · exact Or.inr ⟨T', Or.inr h1, h2, h3⟩
        · rintro ((h1 | h1) | ⟨T', h1 | h1, h2, h3⟩)
          · cases h1
          · exact Or.inl h1
          · simp only [UEdGraphNode.TransitionEdge.injEq] at h1
            subst h1
            exact absurd h h2
          · exact Or.inr ⟨T', h1, h2, h3⟩
      · cases hp : T.bPossibleToTransition with
        | true =>
          simp only [h, decide_False, hp, Bool.not_true, Bool.or_self, Bool.false_eq_true, if_false,
            true_iff]
          exact Or.inr ⟨T, List.mem_cons_self _ _, h, hp⟩
        | false =>
          simp only [h, decide_False, hp, Bool.not_false, Bool.or_true, if_true, ih, List.mem_cons]
          constructor
          · rintro (h1 | ⟨T', h1, h2, h3⟩)
            · exact Or.inl (Or.inr h1)
            · exact Or.inr ⟨T', Or.inr h1, h2, h3⟩
          · rintro ((h1 | h1) | ⟨T', h1 | h1, h2, h3⟩)
            · cases h1
            · exact Or.inl h1
            · simp only [UEdGraphNode.TransitionEdge.injEq] at h1
              subst h1
              rw [hp] at h3
              cases h3
            · exact Or.inr ⟨T', h1, h2, h3⟩

/-- `HasInputConnections` returns true exactly for the state nodes that have an entry. -/
theorem HasInputConnections_iff (Node : USMGraphNode_StateNodeBase) :
    Node.HasInputConnections = true ↔ Node.HasEntry := by
  unfold USMGraphNode_StateNodeBase.HasInputConnections USMGraphNode_StateNodeBase.HasEntry
  cases hin : Node.InputPin with
  | none => simp
  | some Pin =>
    simp only [Option.some.injEq, exists_eq_left']
    by_cases hlen : Pin.LinkedTo.length = 0
    · have : Pin.LinkedTo = [] := List.length_eq_zero.mp hlen
      simp [this]
    · simp only [hlen, if_false]
      exact HasInputConnections_loop_iff Pin.LinkedTo

theorem end_state_iff (Node : USMGraphNode_StateNodeBase) (bCheckAnyState : Bool) :
    Node.IsEndState bCheckAnyState = some true ↔
      Node.HasInputConnections = true ∧
      ¬ (bCheckAnyState = true ∧ Node.bImpactedFromAnyStateNode = true) ∧
      Node.NoWayOut := by
  unfold USMGraphNode_StateNodeBase.IsEndState USMGraphNode_StateNodeBase.NoWayOut
  cases hin : Node.HasInputConnections with
  | false => simp
  | true =>
    by_cases hany : bCheckAnyState = true ∧ Node.bImpactedFromAnyStateNode = true
    · simp [hany.1, hany.2]
    · have hany' : (bCheckAnyState && Node.bImpactedFromAnyStateNode) = false := by
        cases bCheckAnyState <;> cases h : Node.bImpactedFromAnyStateNode <;> simp_all
      simp only [Bool.not_true, Bool.false_eq_true, if_false, hany', true_and, hany,
        not_false_eq_true]
      cases hout : Node.OutputPin with
      | none => simp
      | some Pin =>
        simp only [Option.some.injEq, exists_eq_left']
        by_cases hlen : Pin.LinkedTo.length = 0
        · have : Pin.LinkedTo = [] := List.length_eq_zero.mp hlen
          simp [this]
        · simp only [hlen, if_false, Option.some.injEq]
          exact IsEndState_loop_iff Pin.LinkedTo

/-- C18 (as amended): `IsEndState` returns true exactly for the state nodes that have an
input connection (the input pin is linked to the state machine entry node or to a
transition edge from another state that can fire), are not impacted by an Any State node
when that is checked, and have no way out: every transition edge on the output pin is a
self-transition or cannot fire. In particular such a node whose output pin has no link, or
only one self-transition, is an end state. -/
theorem C18_end_state_iff (Node : USMGraphNode_StateNodeBase) (bCheckAnyState : Bool) :
    (Node.IsEndState bCheckAnyState = some true ↔
      (∃ Pin, Node.InputPin = some Pin ∧
        (UEdGraphNode.StateMachineEntryNode ∈ Pin.LinkedTo ∨
          ∃ Transition, UEdGraphNode.TransitionEdge Transition ∈ Pin.LinkedTo ∧
            Transition.FromState ≠ Transition.ToState ∧
            Transition.bPossibleToTransition = true)) ∧
      ¬ (bCheckAnyState = true ∧ Node.bImpactedFromAnyStateNode = true) ∧
      ∃ Pin, Node.OutputPin = some Pin ∧
        ∀ Transition, UEdGraphNode.TransitionEdge Transition ∈ Pin.LinkedTo →
          Transition.FromState ≠ Transition.ToState → Transition.bPossibleToTransition = false) ∧
    (Node.HasEntry → ¬ (bCheckAnyState = true ∧ Node.bImpactedFromAnyStateNode = true) →
      ∀ Self : USMGraphNode_TransitionEdge, Self.FromState = Self.ToState →
        (Node.OutputPin = some { LinkedTo := [] } ∨
          Node.OutputPin = some { LinkedTo := [.TransitionEdge Self] }) →
        Node.IsEndState bCheckAnyState = some true) := by
  have key : Node.IsEndState bCheckAnyState = some true ↔
      Node.HasEntry ∧ ¬ (bCheckAnyState = true ∧ Node.bImpactedFromAnyStateNode = true) ∧
        Node.NoWayOut := by
    rw [end_state_iff, HasInputConnections_iff]
  refine ⟨key, fun hE hA Self hS hO => key.mpr ⟨hE, hA, ?_⟩⟩
  rcases hO with hO | hO
  · exact ⟨_, hO, fun T hT => by simp at hT⟩
  · refine ⟨_, hO, fun T hT hne => ?_⟩
    simp only [List.mem_singleton, UEdGraphNode.TransitionEdge.injEq] at hT
    subst hT
    exact absurd hS hne

/-- C18, at an instance: a state node entered from the entry node whose only outgoing
transition is a self-transition that can fire is an end state. -/
theorem C18_end_state_iff_witness :
    USMGraphNode_StateNodeBase.IsEndState
      { InputPin := some { LinkedTo := [.StateMachineEntryNode] },
        OutputPin := some { LinkedTo := [.TransitionEdge
          { FromState := some 0, ToState := some 0, bPossibleToTransition := true }] },
        bImpactedFromAnyStateNode := false } true = some true :=
  (C18_end_state_iff
    { InputPin := some { LinkedTo := [.StateMachineEntryNode] },
      OutputPin := some { LinkedTo := [.TransitionEdge
        { FromState := some 0, ToState := some 0, bPossibleToTransition := true }] },
      bImpactedFromAnyStateNode := false } true).2
    ⟨_, rfl, Or.inl (List.mem_singleton.mpr rfl)⟩ (by decide)
    { FromState := some 0, ToState := some 0, bPossibleToTransition := true } rfl (Or.inr rfl)

/-- C18 (the claim as stated fails): a state node with no link at all, and a state node
whose only link is one self-transition that can fire, have no outgoing transition capable
of firing once self-transitions are excluded, yet `IsEndState` returns false for both,
because neither has an input connection. -/
theorem C18_no_way_out_counterexample :
    (USMGraphNode_StateNodeBase.NoWayOut
        { InputPin := some { LinkedTo := [] }, OutputPin := some { LinkedTo := [] },
          bImpactedFromAnyStateNode := false } ∧
      USMGraphNode_StateNodeBase.IsEndState
        { InputPin := some { LinkedTo := [] }, OutputPin := some { LinkedTo := [] },
          bImpactedFromAnyStateNode := false } false = some false) ∧
    (USMGraphNode_StateNodeBase.NoWayOut
        { InputPin := some { LinkedTo := [.TransitionEdge
            { FromState := some 0, ToState := some 0, bPossibleToTransition := true }] },
          OutputPin := some { LinkedTo := [.TransitionEdge
            { FromState := some 0, ToState := some 0, bPossibleToTransition := true }] },
          bImpactedFromAnyStateNode := false } ∧
      USMGraphNode_StateNodeBase.IsEndState
        { InputPin := some { LinkedTo := [.TransitionEdge
            { FromState := some 0, ToState := some 0, bPossibleToTransition := true }] },
          OutputPin := some { LinkedTo := [.TransitionEdge
            { FromState := some 0, ToState := some 0, bPossibleToTransition := true }] },
          bImpactedFromAnyStateNode := false } false = some false) := by
  refine ⟨⟨⟨_, rfl, ?_⟩, rfl⟩, ⟨⟨_, rfl, ?_⟩, rfl⟩⟩
  · intro T hT; simp at hT
  · intro T hT hne
    simp only [List.mem_singleton, UEdGraphNode.TransitionEdge.injEq] at hT
    subst hT
    exact absurd rfl hne

theorem HasInputConnections_chain (K i : Nat) :
    (LinearStateMachine.node K i).HasInputConnections = true := by
  by_cases h : i = 0
  · simp [LinearStateMachine.node, USMGraphNode_StateNodeBase.HasInputConnections,
      USMGraphNode_StateNodeBase.HasInputConnections.loop, h]
  · have : i - 1 ≠ i := by omega
    simp [LinearStateMachine.node, USMGraphNode_StateNodeBase.HasInputConnections,
      USMGraphNode_StateNodeBase.HasInputConnections.loop, h, this]

/-- C19: in the linear chain of `K` state nodes, `IsEndState` (with or without the Any
State check) is true for the last state and false for every other state. -/
theorem C19_linear_chain_end_state (K i : Nat) (hi : i < K) (bCheckAnyState : Bool) :
    (LinearStateMachine K)[i]? = some (LinearStateMachine.node K i) ∧
    (LinearStateMachine.node K i).IsEndState bCheckAnyState = some (decide (i + 1 = K)) := by
  refine ⟨by simp [LinearStateMachine, hi], ?_⟩
  unfold USMGraphNode_StateNodeBase.IsEndState
  rw [HasInputConnections_chain]
  have himp : (LinearStateMachine.node K i).bImpactedFromAnyStateNode = false := rfl
  simp only [Bool.not_true, Bool.false_eq_true, if_false, himp, Bool.and_false]
  by_cases h : i + 1 < K
  · have hne : ¬ i + 1 = K := by omega
    simp [LinearStateMachine.node, h, hne, USMGraphNode_StateNodeBase.IsEndState.loop]
  · have he : i + 1 = K := by omega
    simp [LinearStateMachine.node, he]

theorem C19_linear_chain_end_state_witness :
    (LinearStateMachine 3)[2]? = some (LinearStateMachine.node 3 2) ∧
    (LinearStateMachine.node 3 2).IsEndState true = some (decide (2 + 1 = 3)) :=
  C19_linear_chain_end_state 3 2 (by decide) true

/-! ## The duplicate-GUID assertion -/

/-- C14 (the code at the failing input): a top-level call on a root state machine that
owns two states and two transitions sharing the structural GUID 4 returns true, adds both
transitions and reports nothing, because the assertion of the second pass looks the
transition GUID up among the mapped states; the same call with two states sharing the GUID
2 does report the second state. -/
theorem C14_duplicate_transition_unreported :
    (∃ env', GenerateStateMachine
        [UClassDef.ofProperties 1
          [FSMNode.state 2 1 true, FSMNode.state 3 1 false, FSMNode.transition 4 1 2 3,
           FSMNode.transition 4 1 3 2]] 0 1
        (Env.initial [USMInstance.ofClass 0]) (.SMInstance 0)
        (USMInstance.RootStateMachine (UClassDef.ofProperties 1 []) 0)
        [FSMNode.state 2 1 true, FSMNode.state 3 1 false, FSMNode.transition 4 1 2 3,
         FSMNode.transition 4 1 3 2] false = some (true, env') ∧
      TMap.Find env'.Transitions ⟨.SMInstance 0, none⟩ =
        some [⟨.SMInstance 0, some 2⟩, ⟨.SMInstance 0, some 3⟩] ∧
      env'.Log = []) ∧
    (∃ env', GenerateStateMachine
        [UClassDef.ofProperties 1 [FSMNode.state 2 1 true, FSMNode.state 2 1 false]] 0 1
        (Env.initial [USMInstance.ofClass 0]) (.SMInstance 0)
        (USMInstance.RootStateMachine (UClassDef.ofProperties 1 []) 0)
        [FSMNode.state 2 1 true, FSMNode.state 2 1 false] false = some (true, env') ∧
      env'.Log = [LogEntry.GuidAlreadyAdded ⟨.SMInstance 0, some 1⟩ 2]) :=
  ⟨⟨_, rfl, rfl, rfl⟩, ⟨_, rfl, rfl⟩⟩

/-! ## Loop rules that expose the locations written -/

/-- The rule of `states_rel` with the locations of the writes and of the nested activations
exposed. -/
theorem states_rel_at (Q : Env → Env → Prop) (Pre : Env → Prop)
    (gsm : Env → FSMStateMachine → Option (Bool × Env)) (Instance : UObjectRef)
    (sm : FSMStateMachine)
    (hrefl : ∀ env, Q env env) (htrans : ∀ a b c, Q a b → Q b c → Q a c)
    (hPre : ∀ a b, Pre a → Q a b → Pre b)
    (hAdd : ∀ env i, Q env (env.AddState sm.Ptr ⟨Instance, some i⟩))
    (hLog : ∀ env e, Q env (env.log e))
    (hInit : ∀ env i, Q env (env.AddInitialState sm.Ptr ⟨Instance, some i⟩))
    (hgsm : ∀ env i p r env', Pre env → p.Struct.IsChildOfStateMachine = true →
      p.OwnerGuid = sm.Node.Guid →
      gsm env ⟨⟨Instance, some i⟩, p⟩ = some (r, env') → Q env env') :
    ∀ (l : List (Nat × FSMNode)) (env : Env) (M : TMap FGuid NodePtr) (env' : Env)
      (M' : TMap FGuid NodePtr), Pre env →
      GenerateStateMachine.states gsm Instance sm l env M = some (env', M') → Q env env' := by
  intro l
  induction l with
  | nil =>
    intro env M env' M' _ h
    simp only [GenerateStateMachine.states, Option.some.injEq, Prod.mk.injEq] at h
    rw [← h.1]; exact hrefl env
  | cons a l ih =>
    obtain ⟨i, p⟩ := a
    intro env M env' M' hpre h
    simp only [GenerateStateMachine.states] at h
    split at h
    · split at h
      · exact ih env M env' M' hpre h
      · rename_i _ hown
        have hown : p.OwnerGuid = sm.Node.Guid := by simpa using hown
        have q1 : Q env ((env.AddState sm.Ptr ⟨Instance, some i⟩)) := hAdd _ _
        have q2 : Q env (if TMap.Contains M p.Guid then
            (env.AddState sm.Ptr ⟨Instance, some i⟩).log (.GuidAlreadyAdded ⟨Instance, some i⟩ p.Guid)
            else env.AddState sm.Ptr ⟨Instance, some i⟩) := by
          split
          · exact htrans _ _ _ q1 (hLog _ _)
          · exact q1
        split at h
        · exact absurd h (by simp)
        · rename_i env₂ hn
          have q3 : Q env env₂ := by
            split at hn
            · rename_i hsm
              cases hg : gsm (if TMap.Contains M p.Guid then
                  (env.AddState sm.Ptr ⟨Instance, some i⟩).log (.GuidAlreadyAdded ⟨Instance, some i⟩ p.Guid)
                  else env.AddState sm.Ptr ⟨Instance, some i⟩) ⟨⟨Instance, some i⟩, p⟩ with
              | none => simp [hg] at hn
              | some res =>
                obtain ⟨r, e⟩ := res
                simp only [hg, Option.map_some', Option.some.injEq] at hn
                subst hn
                exact htrans _ _ _ q2 (hgsm _ _ _ _ _ (hPre _ _ hpre q2) hsm hown hg)
            · simp only [Option.some.injEq] at hn
              subst hn
              exact q2
          have q4 : Q env (if p.bIsRootNode then env₂.AddInitialState sm.Ptr ⟨Instance, some i⟩ else env₂) := by
            split
            · exact htrans _ _ _ q3 (hInit _ _)
            · exact q3
          exact htrans _ _ _ q4 (ih _ _ env' M' (hPre _ _ hpre q4) h)
    · exact ih env M env' M' hpre h

/-- The rule of `transitions_rel` with the locations of the writes exposed. -/
theorem transitions_rel_at (Q : Env → Env → Prop) (Instance : UObjectRef) (sm : FSMStateMachine)
    (M : TMap FGuid NodePtr)
    (hrefl : ∀ env, Q env env) (htrans : ∀ a b c, Q a b → Q b c → Q a c)
    (hLog : ∀ env e, Q env (env.log e))
    (hFrom : ∀ env i b, Q env (env.SetFromState ⟨Instance, some i⟩ b))
    (hTo : ∀ env i b, Q env (env.SetToState ⟨Instance, some i⟩ b))
    (hAdd : ∀ env i, Q env (env.AddTransition sm.Ptr ⟨Instance, some i⟩)) :
    ∀ (l : List (Nat × FSMNode)) (env : Env),
      Q env (GenerateStateMachine.transitions Instance sm M l env).2 := by
  intro l
  induction l with
  | nil => intro env; exact hrefl env
  | cons a l ih =>
    obtain ⟨i, p⟩ := a
    intro env
    simp only [GenerateStateMachine.transitions]
    split
    · split
      · exact ih env
      · split
        · exact hLog _ _
        · split
          · exact hLog _ _
          · rename_i _ FromState _ _ ToState _
            have q : Q env ((((env.SetFromState ⟨Instance, some i⟩ FromState).SetToState
                ⟨Instance, some i⟩ ToState).AddTransition sm.Ptr ⟨Instance, some i⟩)) :=
              htrans _ _ _ (htrans _ _ _ (hFrom env _ _) (hTo _ _ _)) (hAdd _ _)
            refine htrans _ _ _ ?_ (ih _)
            split
            · exact htrans _ _ _ q (hLog _ _)
            · exact q
    · exact ih env

/-! ## The steps of the reference branch, one by one -/

theorem Env.SameGraph.graphSame (env : Env) : env.SameGraph env := ⟨rfl, rfl, rfl, rfl, rfl⟩

theorem Env.SameGraph.graphThen {a b c : Env} (h₁ : a.SameGraph b) (h₂ : b.SameGraph c) :
    a.SameGraph c :=
  ⟨h₂.1.trans h₁.1, h₂.2.1.trans h₁.2.1, h₂.2.2.1.trans h₁.2.2.1, h₂.2.2.2.1.trans h₁.2.2.2.1,
    h₂.2.2.2.2.trans h₁.2.2.2.2⟩

theorem SameGraph_logAll (env : Env) (l : List LogEntry) : env.SameGraph (env.logAll l) :=
  ⟨rfl, rfl, rfl, rfl, rfl⟩

theorem SameGraph_setThreadMap (env : Env) (m : TMap Nat GeneratingStateMachines) :
    env.SameGraph (env.setThreadMap m) := ⟨rfl, rfl, rfl, rfl, rfl⟩

theorem SameGraph_setCurrentGeneration (env : Env) (tid : Nat) (g : GeneratingStateMachines) :
    env.SameGraph (env.setCurrentGeneration tid g) := ⟨rfl, rfl, rfl, rfl, rfl⟩

theorem SameGraph_setInstances (env : Env) (l : List USMInstance) :
    env.SameGraph (env.setInstances l) := ⟨rfl, rfl, rfl, rfl, rfl⟩

theorem SameGraph_SetInstanceReference (env : Env) (a : NodePtr) (i : InstId) :
    env.SameGraph (env.SetInstanceReference a i) := ⟨rfl, rfl, rfl, rfl, rfl⟩

theorem SameGraph_FindOrAddGeneration (env : Env) (tid : Nat) :
    env.SameGraph (env.FindOrAddGeneration tid) := ⟨rfl, rfl, rfl, rfl, rfl⟩

theorem SameGraph_Finish (top : Bool) (env : Env) (tid : Nat) :
    env.SameGraph (FinishStateMachineGeneration top env tid).2 := by
  unfold FinishStateMachineGeneration
  split
  · dsimp only
    split
    · exact ((SameGraph_logAll _ _).graphThen (SameGraph_setCurrentGeneration _ _ _)).graphThen
        (SameGraph_setThreadMap _ _)
    · exact SameGraph_setThreadMap _ _
  · exact Env.SameGraph.graphSame env

theorem SameGraph_template (w : World) (env : Env) (K : InstId) (sm : FSMStateMachine)
    (cls : UClass) (bDryRun : Bool) :
    env.SameGraph (GenerateStateMachine.template w env K sm cls bDryRun).2.2 := by
  obtain ⟨l, hl⟩ := template_env w env K sm cls bDryRun
  rw [hl]; exact SameGraph_logAll env l

theorem SameGraph_check_inl (tid : Nat) (top : Bool) (env : Env) (K : InstId)
    (sm : FSMStateMachine) (cls : UClass) (r : Bool) (env' : Env)
    (h : GenerateStateMachine.check tid top env K sm cls = .inl (r, env')) :
    env.SameGraph env' ∧ env'.Instances = env.Instances := by
  unfold GenerateStateMachine.check at h
  dsimp only at h
  split at h
  · split at h
    · simp only [Sum.inl.injEq, Prod.mk.injEq] at h
      rw [← h.2]
      exact ⟨(SameGraph_SetInstanceReference _ _ _).graphThen (SameGraph_Finish _ _ _),
        by rw [Finish_Instances]; rfl⟩
    · simp only [Sum.inl.injEq, Prod.mk.injEq] at h
      rw [← h.2]
      exact ⟨(SameGraph_setCurrentGeneration _ _ _).graphThen (SameGraph_Finish _ _ _),
        by rw [Finish_Instances]; rfl⟩
    · exact absurd h (by simp)
  · split at h
    · split at h
      · simp only [Sum.inl.injEq, Prod.mk.injEq] at h
        rw [← h.2]
        exact ⟨(SameGraph_logAll _ _).graphThen (SameGraph_Finish _ _ _),
          by rw [Finish_Instances]; rfl⟩
      · exact absurd h (by simp)
    · exact absurd h (by simp)

theorem SameGraph_check_inr (tid : Nat) (top : Bool) (env : Env) (K : InstId)
    (sm : FSMStateMachine) (cls : UClass) (env' : Env)
    (h : GenerateStateMachine.check tid top env K sm cls = .inr env') :
    env.SameGraph env' ∧ env'.Instances = env.Instances ∧
    env'.InstanceReference = env.InstanceReference ∧ env'.Log = env.Log := by
  unfold GenerateStateMachine.check at h
  dsimp only at h
  split at h
  · split at h
    · exact absurd h (by simp)
    · exact absurd h (by simp)
    · simp only [Sum.inr.injEq] at h
      rw [← h]
      exact ⟨SameGraph_setCurrentGeneration _ _ _, rfl, rfl, rfl⟩
  · split at h
    · split at h
      · exact absurd h (by simp)
      · simp only [Sum.inr.injEq] at h
        rw [← h]; exact ⟨Env.SameGraph.graphSame env, rfl, rfl, rfl⟩
    · simp only [Sum.inr.injEq] at h
      rw [← h]; exact ⟨Env.SameGraph.graphSame env, rfl, rfl, rfl⟩

theorem SameGraph_increment (tid : Nat) (env : Env) (cls : UClass) :
    env.SameGraph (GenerateStateMachine.increment tid env cls) :=
  SameGraph_setCurrentGeneration _ _ _

theorem SameGraph_Initializing (env : Env) (C : UClass) (t : Option UClass) (ctx : Option Nat) :
    env.SameGraph (env.Initializing C t ctx) := ⟨rfl, rfl, rfl, rfl, rfl⟩

theorem SameGraph_SetReferenceOwner (env : Env) (I K : InstId) :
    env.SameGraph (env.SetReferenceOwner I K) := by
  unfold Env.SetReferenceOwner
  split
  · exact SameGraph_setInstances _ _
  · exact Env.SameGraph.graphSame env

theorem SetReferenceOwner_length (env : Env) (I K : InstId) :
    (env.SetReferenceOwner I K).Instances.length = env.Instances.length := by
  unfold Env.SetReferenceOwner
  split
  · simp
  · rfl

theorem SameGraph_record (tid : Nat) (env : Env) (sm : FSMStateMachine) (cls : UClass)
    (I : InstId) : env.SameGraph (GenerateStateMachine.record tid env sm cls I) := by
  unfold GenerateStateMachine.record
  split
  · exact SameGraph_setCurrentGeneration _ _ _
  · exact Env.SameGraph.graphSame env

theorem record_Instances (tid : Nat) (env : Env) (sm : FSMStateMachine) (cls : UClass)
    (I : InstId) : (GenerateStateMachine.record tid env sm cls I).Instances = env.Instances := by
  unfold GenerateStateMachine.record
  split <;> rfl

theorem SameGraph_foldl_SetInstanceReference (l : List FSMStateMachine) (I : InstId) :
    ∀ env : Env, env.SameGraph (l.foldl (fun (env : Env) (StateMachine : FSMStateMachine) =>
        if StateMachine.Node.bReuseReference then env.SetInstanceReference StateMachine.Ptr I
        else env) env) ∧
      (l.foldl (fun (env : Env) (StateMachine : FSMStateMachine) =>
        if StateMachine.Node.bReuseReference then env.SetInstanceReference StateMachine.Ptr I
        else env) env).Instances = env.Instances := by
  induction l with
  | nil => intro env; exact ⟨Env.SameGraph.graphSame env, rfl⟩
  | cons a l ih =>
    intro env
    simp only [List.foldl_cons]
    split
    · exact ⟨(SameGraph_SetInstanceReference _ _ _).graphThen (ih _).1, (ih _).2⟩
    · exact ih env

theorem SameGraph_patch (tid : Nat) (env : Env) (cls : UClass) (I : InstId) :
    env.SameGraph (GenerateStateMachine.patch tid env cls I) ∧
    (GenerateStateMachine.patch tid env cls I).Instances = env.Instances := by
  unfold GenerateStateMachine.patch
  split
  · exact SameGraph_foldl_SetInstanceReference _ _ _
  · exact ⟨Env.SameGraph.graphSame env, rfl⟩

theorem SameGraph_decrement (tid : Nat) (env : Env) (cls : UClass) :
    env.SameGraph (GenerateStateMachine.decrement tid env cls) ∧
    (GenerateStateMachine.decrement tid env cls).Instances = env.Instances := by
  unfold GenerateStateMachine.decrement
  dsimp only
  split
  · exact ⟨SameGraph_setCurrentGeneration _ _ _, rfl⟩
  · exact ⟨SameGraph_logAll _ _, rfl⟩

theorem SameGraph_referenced (tid : Nat) (env : Env) (K : InstId) (sm : FSMStateMachine)
    (cls : UClass) (I : InstId) :
    env.SameGraph (GenerateStateMachine.referenced tid env K sm cls I) ∧
    (GenerateStateMachine.referenced tid env K sm cls I).Instances.length =
      env.Instances.length := by
  unfold GenerateStateMachine.referenced
  dsimp only
  refine ⟨((((SameGraph_SetReferenceOwner env I K).graphThen (SameGraph_record _ _ _ _ _)).graphThen
    (SameGraph_patch _ _ _ _).1).graphThen (SameGraph_decrement _ _ _).1).graphThen
    (SameGraph_SetInstanceReference _ _ _), ?_⟩
  rw [Env.SetInstanceReference_Instances, (SameGraph_decrement _ _ _).2,
    (SameGraph_patch _ _ _ _).2, record_Instances, SetReferenceOwner_length]

/-- `CreateStateMachineInstanceFromTemplate` with a template of the requested class, or
none, in terms of the activation on the root state machine of the new instance. -/
theorem Create_eq_template (w : World) (gsm : GenerateCall) (env : Env) (C : UClass)
    (ctx : Option Nat) (t : Option UClass) (ht : t = none ∨ t = some C) :
    CreateStateMachineInstanceFromTemplate w gsm env (some C) ctx t =
      (gsm (env.Initializing C t ctx) (.SMInstance env.Instances.length)
        (USMInstance.RootStateMachine (w.GetClass C) env.Instances.length)
        (w.GetClass C).Properties false).map (fun r => (some env.Instances.length, r.2)) := by
  unfold CreateStateMachineInstanceFromTemplate CreateStateMachineInstanceInternal
  have : ¬ (t.isSome ∧ t ≠ some C) := by
    rcases ht with h | h <;> simp [h]
  simp only [this, if_false]
  unfold USMInstance.Initialize
  rw [NewObject_get]
  simp only [Env.Initializing, Env.NewObject, Option.map_map]
  rfl

/-- The ways the reference branch returns: from the check, after the check in a dry run,
or after the activation on the root state machine of the instance it creates. -/
theorem reference_cases (w : World) (tid : Nat) (gsm : GenerateCall) (top : Bool) (env : Env)
    (K : InstId) (sm : FSMStateMachine) (cls : UClass) (bDryRun : Bool) (r : Bool) (env' : Env)
    (h : GenerateStateMachine.reference w tid gsm top env K sm cls bDryRun = some (r, env')) :
    GenerateStateMachine.check tid top
        (GenerateStateMachine.template w env K sm cls bDryRun).2.2 K sm
        (GenerateStateMachine.template w env K sm cls bDryRun).2.1 = .inl (r, env') ∨
    (∃ env₂, GenerateStateMachine.check tid top
        (GenerateStateMachine.template w env K sm cls bDryRun).2.2 K sm
        (GenerateStateMachine.template w env K sm cls bDryRun).2.1 = .inr env₂ ∧
      bDryRun = true ∧ r = true ∧ env' = (FinishStateMachineGeneration top env₂ tid).2) ∨
    (∃ env₂ r₁ e, GenerateStateMachine.check tid top
        (GenerateStateMachine.template w env K sm cls bDryRun).2.2 K sm
        (GenerateStateMachine.template w env K sm cls bDryRun).2.1 = .inr env₂ ∧
      bDryRun = false ∧
      gsm ((GenerateStateMachine.increment tid env₂
            (GenerateStateMachine.template w env K sm cls bDryRun).2.1).Initializing
          (GenerateStateMachine.template w env K sm cls bDryRun).2.1
          (GenerateStateMachine.template w env K sm cls bDryRun).1 (env₂.GetContext K))
        (.SMInstance env₂.Instances.length)
        (USMInstance.RootStateMachine
          (w.GetClass (GenerateStateMachine.template w env K sm cls bDryRun).2.1)
          env₂.Instances.length)
        (w.GetClass (GenerateStateMachine.template w env K sm cls bDryRun).2.1).Properties false =
          some (r₁, e) ∧
      r = true ∧
      env' = (FinishStateMachineGeneration top
        (GenerateStateMachine.referenced tid e K sm
          (GenerateStateMachine.template w env K sm cls bDryRun).2.1 env₂.Instances.length)
        tid).2) := by
  unfold GenerateStateMachine.reference at h
  dsimp only at h
  split at h
  · rename_i res hchk
    simp only [Option.some.injEq] at h
    subst h
    exact Or.inl hchk
  · rename_i env₂ hchk
    refine Or.inr ?_
    cases bDryRun with
    | true =>
      simp only [if_true, Option.some.injEq, Prod.mk.injEq] at h
      exact Or.inl ⟨env₂, hchk, rfl, h.1.symm, h.2.symm⟩
    | false =>
      refine Or.inr ?_
      simp only [Bool.false_eq_true, if_false] at h
      have hctx : ((GenerateStateMachine.increment tid env₂
          (GenerateStateMachine.template w env K sm cls false).2.1).Instances.get? K).bind
            (fun i => i.Context) = env₂.GetContext K := by
        rw [increment_Instances]; rfl
      rw [hctx, Create_eq_template w gsm _ _ _ _ (template_fst w env K sm cls false),
        increment_Instances] at h
      cases hcall : gsm ((GenerateStateMachine.increment tid env₂
            (GenerateStateMachine.template w env K sm cls false).2.1).Initializing
          (GenerateStateMachine.template w env K sm cls false).2.1
          (GenerateStateMachine.template w env K sm cls false).1 (env₂.GetContext K))
        (.SMInstance env₂.Instances.length)
        (USMInstance.RootStateMachine
          (w.GetClass (GenerateStateMachine.template w env K sm cls false).2.1)
          env₂.Instances.length)
        (w.GetClass (GenerateStateMachine.template w env K sm cls false).2.1).Properties false with
      | none => simp [hcall] at h
      | some res =>
        obtain ⟨r₁, e⟩ := res
        simp only [hcall, Option.map_some', Option.some.injEq, Prod.mk.injEq] at h
        exact ⟨env₂, r₁, e, hchk, rfl, hcall, h.1.symm, h.2.symm⟩

/-! ## What an activation may touch -/

theorem Env.SameAt.atSame (q : NodePtr) (env : Env) : env.SameAt q env := ⟨rfl, rfl, rfl⟩

theorem Env.SameAt.atThen {q : NodePtr} {a b c : Env} (h₁ : a.SameAt q b) (h₂ : b.SameAt q c) :
    a.SameAt q c :=
  ⟨h₂.1.trans h₁.1, h₂.2.1.trans h₁.2.1, h₂.2.2.trans h₁.2.2⟩

theorem Env.SameGraph.sameAt {a b : Env} (h : a.SameGraph b) (q : NodePtr) : a.SameAt q b :=
  ⟨by rw [h.1], by rw [h.2.1], by rw [h.2.2.1]⟩

theorem Touch.touchSame (n : Nat) (Instance : UObjectRef) (P : NodePtr) (env : Env) :
    Touch n Instance P env env :=
  ⟨le_refl _, fun q _ _ _ => Env.SameAt.atSame q env⟩

theorem Touch.touchThen {n : Nat} {Instance : UObjectRef} {P : NodePtr} {a b c : Env}
    (h₁ : Touch n Instance P a b) (h₂ : Touch n Instance P b c) : Touch n Instance P a c :=
  ⟨le_trans h₁.1 h₂.1, fun q ho hp hc => (h₁.2 q ho hp hc).atThen (h₂.2 q ho hp hc)⟩

theorem Touch.of_sameGraph {a b : Env} (h : a.SameGraph b)
    (hl : a.Instances.length ≤ b.Instances.length) (n : Nat) (Instance : UObjectRef)
    (P : NodePtr) : Touch n Instance P a b :=
  ⟨hl, fun q _ _ _ => h.sameAt q⟩

theorem Touch_log (n : Nat) (Instance : UObjectRef) (P : NodePtr) (env : Env) (e : LogEntry) :
    Touch n Instance P env (env.log e) :=
  ⟨le_refl _, fun _ _ _ _ => ⟨rfl, rfl, rfl⟩⟩

theorem Touch_SetFromState (n : Nat) (Instance : UObjectRef) (P : NodePtr) (env : Env)
    (a b : NodePtr) : Touch n Instance P env (env.SetFromState a b) :=
  ⟨le_refl _, fun _ _ _ _ => ⟨rfl, rfl, rfl⟩⟩

theorem Touch_SetToState (n : Nat) (Instance : UObjectRef) (P : NodePtr) (env : Env)
    (a b : NodePtr) : Touch n Instance P env (env.SetToState a b) :=
  ⟨le_refl _, fun _ _ _ _ => ⟨rfl, rfl, rfl⟩⟩

theorem Touch_AddState (n : Nat) (Instance : UObjectRef) (P : NodePtr) (env : Env)
    (s : NodePtr) : Touch n Instance P env (env.AddState P s) :=
  ⟨le_refl _, fun q _ hp _ => ⟨by
    show TMap.Find (TMap.Add env.States P _) q = _
    exact TMap.Find_Add_ne _ _ (Ne.symm hp), rfl, rfl⟩⟩

theorem Touch_AddInitialState (n : Nat) (Instance : UObjectRef) (P : NodePtr) (env : Env)
    (s : NodePtr) : Touch n Instance P env (env.AddInitialState P s) :=
  ⟨le_refl _, fun q _ hp _ => ⟨rfl, by
    show TMap.Find (TMap.Add env.EntryStates P _) q = _
    exact TMap.Find_Add_ne _ _ (Ne.symm hp), rfl⟩⟩

theorem Touch_AddTransition (n : Nat) (Instance : UObjectRef) (P : NodePtr) (env : Env)
    (s : NodePtr) : Touch n Instance P env (env.AddTransition P s) :=
  ⟨le_refl _, fun q _ hp _ => ⟨rfl, rfl, by
    show TMap.Find (TMap.Add env.Transitions P _) q = _
    exact TMap.Find_Add_ne _ _ (Ne.symm hp)⟩⟩

/-- The reference branch leaves every state machine outside the instances it creates as
it was. -/
theorem reference_touch (w : World) (tid : Nat) (gsm : GenerateCall) (hg : TouchOK gsm)
    (top : Bool) (env : Env) (K : InstId) (sm : FSMStateMachine) (cls : UClass) (bDryRun : Bool)
    (r : Bool) (env' : Env) (n : Nat) (hn : n ≤ env.Instances.length)
    (h : GenerateStateMachine.reference w tid gsm top env K sm cls bDryRun = some (r, env')) :
    env.Instances.length ≤ env'.Instances.length ∧ ∀ q, NodePtr.Old n q → env.SameAt q env' := by
  have ht := SameGraph_template w env K sm cls bDryRun
  have htI : (GenerateStateMachine.template w env K sm cls bDryRun).2.2.Instances = env.Instances := by
    obtain ⟨l, hl⟩ := template_env w env K sm cls bDryRun
    rw [hl]; rfl
  rcases reference_cases w tid gsm top env K sm cls bDryRun r env' h with
    hchk | ⟨env₂, hchk, _, _, he⟩ | ⟨env₂, r₁, e, hchk, _, hcall, _, he⟩
  · obtain ⟨hs, hi⟩ := SameGraph_check_inl tid top _ K sm _ r env' hchk
    exact ⟨by rw [hi, htI], fun q _ => (ht.graphThen hs).sameAt q⟩
  · obtain ⟨hs, hi, _, _⟩ := SameGraph_check_inr tid top _ K sm _ env₂ hchk
    rw [he]
    exact ⟨by rw [Finish_Instances, hi, htI],
      fun q _ => ((ht.graphThen hs).graphThen (SameGraph_Finish _ _ _)).sameAt q⟩
  · obtain ⟨hs, hi, _, _⟩ := SameGraph_check_inr tid top _ K sm _ env₂ hchk
    have hlen : env₂.Instances.length = env.Instances.length := by rw [hi, htI]
    have h1 : env.SameGraph ((GenerateStateMachine.increment tid env₂
        (GenerateStateMachine.template w env K sm cls bDryRun).2.1).Initializing
        (GenerateStateMachine.template w env K sm cls bDryRun).2.1
        (GenerateStateMachine.template w env K sm cls bDryRun).1 (env₂.GetContext K)) :=
      ((ht.graphThen hs).graphThen (SameGraph_increment _ _ _)).graphThen (SameGraph_Initializing _ _ _ _)
    have hl1 : ((GenerateStateMachine.increment tid env₂
        (GenerateStateMachine.template w env K sm cls bDryRun).2.1).Initializing
        (GenerateStateMachine.template w env K sm cls bDryRun).2.1
        (GenerateStateMachine.template w env K sm cls bDryRun).1
        (env₂.GetContext K)).Instances.length = env.Instances.length + 1 := by
      rw [Initializing_Instances, increment_Instances, List.length_append, hlen]; rfl
    have ht₂ := hg n _ _ _ _ _ _ _ (by rw [hl1]; omega) hcall
    obtain ⟨hs₃, hl₃⟩ := SameGraph_referenced tid e K sm
      (GenerateStateMachine.template w env K sm cls bDryRun).2.1 env₂.Instances.length
    rw [he]
    refine ⟨?_, fun q ho => ?_⟩
    · rw [Finish_Instances, hl₃]
      have := ht₂.1
      rw [hl1] at this
      omega
    · have hq : env.SameAt q e := by
        refine (h1.sameAt q).atThen (ht₂.2 q ho ?_ ?_)
        · intro hq
          have h' : env₂.Instances.length < n := ho env₂.Instances.length (by rw [hq]; rfl)
          rw [hlen] at h'
          exact Nat.lt_irrefl _ (Nat.lt_of_lt_of_le h' hn)
        · intro hq
          have h' : env₂.Instances.length < n := ho env₂.Instances.length hq
          rw [hlen] at h'
          exact Nat.lt_irrefl _ (Nat.lt_of_lt_of_le h' hn)
      exact hq.atThen ((hs₃.graphThen (SameGraph_Finish _ _ _)).sameAt q)

theorem Touch_Finish (top : Bool) (env : Env) (tid : Nat) (n : Nat) (Instance : UObjectRef)
    (P : NodePtr) : Touch n Instance P env (FinishStateMachineGeneration top env tid).2 :=
  Touch.of_sameGraph (SameGraph_Finish top env tid) (by rw [Finish_Instances]) n Instance P

/-- Local assembly touches only the state machine it assembles, state machines of the
same object, and instances created on the way. -/
theorem assemble_touch (tid : Nat) (gsm : GenerateCall) (hg : TouchOK gsm) (top : Bool)
    (env : Env) (Instance : UObjectRef) (sm : FSMStateMachine) (props : List FSMNode)
    (bDryRun : Bool) (r : Bool) (env' : Env) (n : Nat) (hn : n ≤ env.Instances.length)
    (h : GenerateStateMachine.assemble tid gsm top env Instance sm props bDryRun = some (r, env')) :
    Touch n Instance sm.Ptr env env' := by
  unfold GenerateStateMachine.assemble at h
  cases hs : GenerateStateMachine.states (fun env Nested => gsm env Instance Nested props bDryRun)
      Instance sm props.enum env [] with
  | none => simp [hs] at h
  | some res =>
    obtain ⟨e₁, M⟩ := res
    have q1 : Touch n Instance sm.Ptr env e₁ :=
      states_rel_at (Touch n Instance sm.Ptr) (fun e => n ≤ e.Instances.length)
        (fun env Nested => gsm env Instance Nested props bDryRun) Instance sm
        (Touch.touchSame n Instance sm.Ptr) (fun _ _ _ h₁ h₂ => h₁.touchThen h₂)
        (fun a b ha hq => le_trans ha hq.1)
        (fun env i => Touch_AddState n Instance sm.Ptr env _)
        (fun env e => Touch_log n Instance sm.Ptr env e)
        (fun env i => Touch_AddInitialState n Instance sm.Ptr env _)
        (by
          intro e i p r₁ e' hpre _ _ hcall
          have ht := hg n e Instance ⟨⟨Instance, some i⟩, p⟩ props bDryRun r₁ e' hpre hcall
          refine ⟨ht.1, fun q ho hp hc => ht.2 q ho ?_ hc⟩
          intro hq
          exact hc (by rw [hq]))
        props.enum env [] e₁ M hn hs
    have q2 : Touch n Instance sm.Ptr e₁
        (GenerateStateMachine.transitions Instance sm M props.enum e₁).2 :=
      transitions_rel_at (Touch n Instance sm.Ptr) Instance sm M
        (Touch.touchSame n Instance sm.Ptr) (fun _ _ _ h₁ h₂ => h₁.touchThen h₂)
        (fun env e => Touch_log n Instance sm.Ptr env e)
        (fun env i b => Touch_SetFromState n Instance sm.Ptr env _ b)
        (fun env i b => Touch_SetToState n Instance sm.Ptr env _ b)
        (fun env i => Touch_AddTransition n Instance sm.Ptr env _)
        props.enum e₁
    simp only [hs] at h
    split at h
    · rename_i e ht
      simp only [Option.some.injEq, Prod.mk.injEq] at h
      rw [ht] at q2
      rw [← h.2]
      exact q1.touchThen q2
    · rename_i e ht
      simp only [Option.some.injEq, Prod.mk.injEq] at h
      rw [ht] at q2
      rw [← h.2]
      exact (q1.touchThen q2).touchThen (Touch_Finish _ _ _ _ _ _)

theorem body_touch (w : World) (tid : Nat) (gsm : GenerateCall) (hg : TouchOK gsm) :
    TouchOK (GenerateStateMachine.body w tid gsm) := by
  intro n env Instance sm props bDryRun r env' hn h
  unfold GenerateStateMachine.body at h
  dsimp only at h
  have h0 : Touch n Instance sm.Ptr env (env.FindOrAddGeneration tid) :=
    Touch.of_sameGraph (SameGraph_FindOrAddGeneration env tid) (le_refl _) n Instance sm.Ptr
  cases hcr : sm.Node.ClassReference with
  | none =>
    simp only [hcr] at h
    exact h0.touchThen (assemble_touch tid gsm hg _ _ Instance sm props bDryRun r env' n
      (by simpa using hn) h)
  | some cls =>
    cases Instance with
    | Object o =>
      simp only [hcr] at h
      exact h0.touchThen (assemble_touch tid gsm hg _ _ (.Object o) sm props bDryRun r env' n
        (by simpa using hn) h)
    | SMInstance K =>
      simp only [hcr] at h
      obtain ⟨hl, hq⟩ := reference_touch w tid gsm hg _ _ K sm cls bDryRun r env' n
        (by simpa using hn) h
      exact h0.touchThen ⟨hl, fun q ho _ _ => hq q ho⟩

theorem GenerateStateMachine_touch (w : World) (tid : Nat) :
    ∀ depth, TouchOK (GenerateStateMachine w tid depth) := by
  intro depth
  induction depth with
  | zero => intro n env Instance sm props bDryRun r env' _ h; simp [GenerateStateMachine] at h
  | succ d ih => exact body_touch w tid _ ih

/-! ## Reference nodes are not assembled locally -/

/-- C15 (as amended): when the target state machine node has a class reference and the
owning object is a `USMInstance`, the call is the reference resolution (its result is the
resolver's result), and when it returns, every state machine outside the instances created
on the way, the target node included, holds the states, initial states and transitions it
held before, whatever records of the flattened set name the node as their owner. -/
theorem C15_reference_node_delegates (w : World) (ThreadId depth : Nat) (env : Env)
    (SMInstance : InstId) (StateMachineOut : FSMStateMachine) (RunTimeProperties : List FSMNode)
    (bDryRun : Bool) (Class : UClass)
    (hClass : StateMachineOut.Node.ClassReference = some Class) :
    GenerateStateMachine w ThreadId (depth + 1) env (.SMInstance SMInstance) StateMachineOut
        RunTimeProperties bDryRun =
      GenerateStateMachine.reference w ThreadId (GenerateStateMachine w ThreadId depth)
        (!TMap.Contains env.StateMachinesGeneratingForThread ThreadId)
        (env.FindOrAddGeneration ThreadId) SMInstance StateMachineOut Class bDryRun ∧
    ∀ r env', GenerateStateMachine w ThreadId (depth + 1) env (.SMInstance SMInstance)
        StateMachineOut RunTimeProperties bDryRun = some (r, env') →
      ∀ q, NodePtr.Old env.Instances.length q → env.SameAt q env' := by
  have heq : GenerateStateMachine w ThreadId (depth + 1) env (.SMInstance SMInstance)
      StateMachineOut RunTimeProperties bDryRun =
      GenerateStateMachine.reference w ThreadId (GenerateStateMachine w ThreadId depth)
        (!TMap.Contains env.StateMachinesGeneratingForThread ThreadId)
        (env.FindOrAddGeneration ThreadId) SMInstance StateMachineOut Class bDryRun := by
    simp only [GenerateStateMachine, GenerateStateMachine.body, hClass]
  refine ⟨heq, fun r env' h q ho => ?_⟩
  rw [heq] at h
  have := (reference_touch w ThreadId _ (GenerateStateMachine_touch w ThreadId depth) _ _
    SMInstance StateMachineOut Class bDryRun r env' env.Instances.length (by simp) h).2 q ho
  exact ((SameGraph_FindOrAddGeneration env ThreadId).sameAt q).atThen this

theorem C15_reference_node_delegates_witness :
    ∃ env', GenerateStateMachine
        [UClassDef.ofProperties 1 [FSMNode.state 2 1 true]] 0 3
        (Env.initial [USMInstance.ofClass 0]) (.SMInstance 0)
        ⟨⟨.SMInstance 0, some 0⟩, FSMNode.stateMachine 3 1 (some 0) false⟩
        [FSMNode.stateMachine 3 1 (some 0) false, FSMNode.state 4 3 true] false = some (true, env') ∧
      (Env.initial [USMInstance.ofClass 0]).SameAt ⟨.SMInstance 0, some 0⟩ env' :=
  ⟨_, rfl,
    (C15_reference_node_delegates [UClassDef.ofProperties 1 [FSMNode.state 2 1 true]] 0 2
      (Env.initial [USMInstance.ofClass 0]) 0
      ⟨⟨.SMInstance 0, some 0⟩, FSMNode.stateMachine 3 1 (some 0) false⟩
      [FSMNode.stateMachine 3 1 (some 0) false, FSMNode.state 4 3 true] false 0 rfl).2 true _ rfl
      ⟨.SMInstance 0, some 0⟩ (by intro J h; cases h; decide)⟩

/-- C15 (the claim as stated fails): a state machine node with a class reference whose
owning object is not a `USMInstance` is assembled locally; the state record that names it
as owner is added to it. -/
theorem C15_non_instance_owner_counterexample :
    (FSMNode.stateMachine 1 0 (some 0) false).ClassReference = some 0 ∧
    ∃ env', GenerateStateMachine [] 0 1 (Env.initial []) (.Object 0)
        ⟨⟨.Object 0, none⟩, FSMNode.stateMachine 1 0 (some 0) false⟩
        [FSMNode.state 2 1 true] false = some (true, env') ∧
      TMap.Find env'.States ⟨.Object 0, none⟩ = some [⟨.Object 0, some 0⟩] :=
  ⟨rfl, _, rfl, rfl⟩

/-! ## Dry runs -/

theorem DryStep.drySame (tid : Nat) (env : Env) : DryStep tid env env :=
  ⟨rfl, rfl, fun hc hb => ⟨hc, hb⟩⟩

theorem DryStep.dryThen {tid : Nat} {a b c : Env} (h₁ : DryStep tid a b) (h₂ : DryStep tid b c) :
    DryStep tid a c :=
  ⟨h₂.1.trans h₁.1, h₂.2.1.trans h₁.2.1, fun hc hb =>
    h₂.2.2 (h₁.2.2 hc hb).1 (h₁.2.2 hc hb).2⟩

theorem DryStep.of_threadMap {tid : Nat} {a b : Env} (hi : b.Instances = a.Instances)
    (hr : b.InstanceReference = a.InstanceReference)
    (ht : b.StateMachinesGeneratingForThread = a.StateMachinesGeneratingForThread) :
    DryStep tid a b :=
  ⟨hi, hr, fun hc hb => ⟨by rw [ht]; exact hc, by
    unfold Env.DryBookkeeping at hb ⊢
    rw [Env.CurrentGeneration_congr tid ht]; exact hb⟩⟩

theorem template_dry (w : World) (env : Env) (K : InstId) (sm : FSMStateMachine) (cls : UClass) :
    GenerateStateMachine.template w env K sm cls true = (none, cls, env) := by
  simp [GenerateStateMachine.template]

theorem Finish_nested (env : Env) (tid : Nat) :
    (FinishStateMachineGeneration false env tid).2 = env := Finish_false env tid

/-- The check of a dry run lets every reference node through or returns true, and keeps
the dry-run bookkeeping. -/
theorem check_dry (tid : Nat) (env : Env) (K : InstId) (sm : FSMStateMachine) (cls : UClass)
    (hb : env.DryBookkeeping tid) :
    ∃ e₂, (∀ top, GenerateStateMachine.check tid top env K sm cls =
          .inl (true, (FinishStateMachineGeneration top e₂ tid).2) ∨
        GenerateStateMachine.check tid top env K sm cls = .inr e₂) ∧
      e₂.Instances = env.Instances ∧ e₂.InstanceReference = env.InstanceReference ∧
      e₂.Log = env.Log ∧ e₂.DryBookkeeping tid ∧
      (∀ c, e₂.InProgress tid c = env.InProgress tid c) ∧
      (TMap.Contains env.StateMachinesGeneratingForThread tid = true →
        TMap.Contains e₂.StateMachinesGeneratingForThread tid = true) := by
  obtain ⟨hig, hcr⟩ := hb
  cases hR : sm.Node.bReuseReference with
  | false =>
    refine ⟨env, fun top => Or.inr ?_, rfl, rfl, rfl, ⟨hig, hcr⟩, fun _ => rfl, fun h => h⟩
    simp [GenerateStateMachine.check, hR, hig, TMap.Find]
  | true =>
    cases hf : TMap.Find (env.CurrentGeneration tid).CreatedReferences cls with
    | none =>
      refine ⟨env.setCurrentGeneration tid
        { env.CurrentGeneration tid with
          CreatedReferences := TMap.Add (env.CurrentGeneration tid).CreatedReferences cls none },
        fun top => Or.inr ?_, ?_, ?_, ?_, ⟨?_, ?_⟩, ?_, ?_⟩
      · simp only [GenerateStateMachine.check, hR, hf, if_true]
      · rfl
      · rfl
      · rfl
      · simpa using hig
      · intro c v hv
        simp only [Env.setCurrentGeneration_CurrentGeneration, TMap.Find_Add] at hv
        split at hv
        · simpa using hv.symm
        · exact hcr c v hv
      · intro c; simp [Env.InProgress]
      · intro _; exact Contains_setCurrentGeneration _ _ _
    | some v =>
      have hv : v = none := hcr cls v hf
      subst hv
      refine ⟨env.setCurrentGeneration tid
        { env.CurrentGeneration tid with
          StateMachinesThatNeedReferences :=
            TMap.Add
              (TMap.FindOrAdd (env.CurrentGeneration tid).StateMachinesThatNeedReferences cls []).2
              cls
              (if sm ∈
                  (TMap.FindOrAdd (env.CurrentGeneration tid).StateMachinesThatNeedReferences
                    cls []).1 then
                (TMap.FindOrAdd (env.CurrentGeneration tid).StateMachinesThatNeedReferences cls []).1
              else
                (TMap.FindOrAdd (env.CurrentGeneration tid).StateMachinesThatNeedReferences
                  cls []).1 ++ [sm]) },
        fun top => Or.inl ?_, ?_, ?_, ?_, ⟨?_, ?_⟩, ?_, ?_⟩
      · simp only [GenerateStateMachine.check, hR, hf, if_true]
      · rfl
      · rfl
      · rfl
      · simpa using hig
      · intro c v hv
        simp only [Env.setCurrentGeneration_CurrentGeneration] at hv
        exact hcr c v hv
      · intro c; simp [Env.InProgress]
      · intro _; exact Contains_setCurrentGeneration _ _ _

/-- A dry-run resolution of a reference node: it returns true without a nested activation;
before the final `FinishStateMachineGeneration` nothing but the bookkeeping has changed. -/
theorem reference_dry (w : World) (tid : Nat) (gsm : GenerateCall) (top : Bool) (env : Env)
    (K : InstId) (sm : FSMStateMachine) (cls : UClass) (hb : env.DryBookkeeping tid) :
    ∃ e₂, GenerateStateMachine.reference w tid gsm top env K sm cls true =
        some (true, (FinishStateMachineGeneration top e₂ tid).2) ∧
      e₂.Instances = env.Instances ∧ e₂.InstanceReference = env.InstanceReference ∧
      e₂.Log = env.Log ∧ e₂.DryBookkeeping tid ∧
      (∀ c, e₂.InProgress tid c = env.InProgress tid c) ∧
      (TMap.Contains env.StateMachinesGeneratingForThread tid = true →
        TMap.Contains e₂.StateMachinesGeneratingForThread tid = true) := by
  obtain ⟨e₂, hchk, rest⟩ := check_dry tid env K sm cls hb
  refine ⟨e₂, ?_, rest⟩
  unfold GenerateStateMachine.reference
  simp only [template_dry]
  rcases hchk top with h | h
  · simp only [h]
  · simp only [h, if_true]

theorem assemble_dry (tid : Nat) (gsm : GenerateCall) (hg : DryOK tid gsm) (top : Bool)
    (env : Env) (Instance : UObjectRef) (sm : FSMStateMachine) (props : List FSMNode)
    (r : Bool) (env' : Env)
    (hc : TMap.Contains env.StateMachinesGeneratingForThread tid = true)
    (hb : env.DryBookkeeping tid)
    (h : GenerateStateMachine.assemble tid gsm top env Instance sm props true = some (r, env')) :
    ∃ e, DryStep tid env e ∧ (env' = e ∨ env' = (FinishStateMachineGeneration top e tid).2) := by
  unfold GenerateStateMachine.assemble at h
  cases hs : GenerateStateMachine.states (fun env Nested => gsm env Instance Nested props true)
      Instance sm props.enum env [] with
  | none => simp [hs] at h
  | some res =>
    obtain ⟨e₁, M⟩ := res
    have q1 : DryStep tid env e₁ :=
      states_rel (DryStep tid)
        (fun e => TMap.Contains e.StateMachinesGeneratingForThread tid = true ∧
          e.DryBookkeeping tid)
        (fun env Nested => gsm env Instance Nested props true) Instance sm
        (DryStep.drySame tid) (fun _ _ _ h₁ h₂ => h₁.dryThen h₂)
        (fun a b ha hq => hq.2.2 ha.1 ha.2)
        (fun env a b => DryStep.of_threadMap rfl rfl rfl)
        (fun env e => DryStep.of_threadMap rfl rfl rfl)
        (fun env a b => DryStep.of_threadMap rfl rfl rfl)
        (fun e n r₁ e' hpre hcall => hg e Instance n props r₁ e' hpre.1 hpre.2 hcall)
        props.enum env [] e₁ M ⟨hc, hb⟩ hs
    have q2 : DryStep tid e₁ (GenerateStateMachine.transitions Instance sm M props.enum e₁).2 :=
      transitions_rel (DryStep tid) Instance sm M
        (DryStep.drySame tid) (fun _ _ _ h₁ h₂ => h₁.dryThen h₂)
        (fun env e => DryStep.of_threadMap rfl rfl rfl)
        (fun env a b => DryStep.of_threadMap rfl rfl rfl)
        (fun env a b => DryStep.of_threadMap rfl rfl rfl)
        (fun env a b => DryStep.of_threadMap rfl rfl rfl)
        props.enum e₁
    simp only [hs] at h
    split at h
    · rename_i e ht
      simp only [Option.some.injEq, Prod.mk.injEq] at h
      rw [ht] at q2
      exact ⟨e, q1.dryThen q2, Or.inl h.2.symm⟩
    · rename_i e ht
      simp only [Option.some.injEq, Prod.mk.injEq] at h
      rw [ht] at q2
      exact ⟨e, q1.dryThen q2, Or.inr h.2.symm⟩

theorem body_dry (w : World) (tid : Nat) (gsm : GenerateCall) (hg : DryOK tid gsm) :
    DryOK tid (GenerateStateMachine.body w tid gsm) := by
  intro env Instance sm props r env' hc hb h
  obtain ⟨g, hfind⟩ := Find_of_Contains _ _ hc
  unfold GenerateStateMachine.body at h
  simp only [hc, Bool.not_true, Env.FindOrAddGeneration_of_Find env tid g hfind] at h
  have hlocal : GenerateStateMachine.assemble tid gsm false env Instance sm props true =
      some (r, env') → DryStep tid env env' := by
    intro h
    obtain ⟨e, hq, he⟩ := assemble_dry tid gsm hg false env Instance sm props r env' hc hb h
    rw [Finish_false, or_self] at he
    rw [he]; exact hq
  cases hcr : sm.Node.ClassReference with
  | none => simp only [hcr] at h; exact hlocal h
  | some cls =>
    cases Instance with
    | Object o => simp only [hcr] at h; exact hlocal h
    | SMInstance K =>
      simp only [hcr] at h
      obtain ⟨e₂, hres, hi, hr, _, hb₂, _, hc₂⟩ := reference_dry w tid gsm false env K sm cls hb
      rw [hres, Finish_false] at h
      simp only [Option.some.injEq, Prod.mk.injEq] at h
      rw [← h.2]
      exact ⟨hi, hr, fun hc _ => ⟨hc₂ hc, hb₂⟩⟩

theorem GenerateStateMachine_dry (w : World) (tid : Nat) :
    ∀ depth, DryOK tid (GenerateStateMachine w tid depth) := by
  intro depth
  induction depth with
  | zero => intro env Instance sm props r env' _ _ h; simp [GenerateStateMachine] at h
  | succ d ih => exact body_dry w tid _ ih

theorem DryBookkeeping_top (env : Env) (tid : Nat)
    (h : TMap.Contains env.StateMachinesGeneratingForThread tid = false) :
    (env.FindOrAddGeneration tid).DryBookkeeping tid := by
  unfold Env.DryBookkeeping
  rw [CurrentGeneration_top env tid h]
  exact ⟨rfl, fun c v hv => by simp [TMap.Find] at hv⟩

/-- C17: in a top-level assembly run with `bDryRun` set, the call leaves the live instances
and every instance reference as they were; its nested activations find and leave the
bookkeeping of the thread without any in-progress counter entry and with null
created-reference entries only; and under such bookkeeping every resolution of a reference
node skips the template lookup, returns true, creates no instance, sets no instance
reference, changes no in-progress counter and logs nothing. -/
theorem C17_dry_run_resolves_nothing (w : World) (ThreadId depth : Nat) (env : Env)
    (Instance : UObjectRef) (StateMachineOut : FSMStateMachine) (RunTimeProperties : List FSMNode)
    (hTop : TMap.Contains env.StateMachinesGeneratingForThread ThreadId = false) :
    (∀ r env', GenerateStateMachine w ThreadId depth env Instance StateMachineOut
        RunTimeProperties true = some (r, env') →
      env'.Instances = env.Instances ∧ env'.InstanceReference = env.InstanceReference) ∧
    (env.FindOrAddGeneration ThreadId).DryBookkeeping ThreadId ∧
    (∀ (e : Env) (Object : UObjectRef) (Nested : FSMStateMachine) (d : Nat) (r : Bool) (e' : Env),
      TMap.Contains e.StateMachinesGeneratingForThread ThreadId = true →
      e.DryBookkeeping ThreadId →
      GenerateStateMachine w ThreadId d e Object Nested RunTimeProperties true = some (r, e') →
      TMap.Contains e'.StateMachinesGeneratingForThread ThreadId = true ∧
        e'.DryBookkeeping ThreadId) ∧
    (∀ (e : Env) (SMInstance : InstId) (Reference : FSMStateMachine) (Class : UClass) (d : Nat),
      TMap.Contains e.StateMachinesGeneratingForThread ThreadId = true →
      e.DryBookkeeping ThreadId →
      Reference.Node.ClassReference = some Class →
      GenerateStateMachine.template w e SMInstance Reference Class true = (none, Class, e) ∧
      ∃ e', GenerateStateMachine w ThreadId (d + 1) e (.SMInstance SMInstance) Reference
          RunTimeProperties true = some (true, e') ∧
        e'.Instances = e.Instances ∧ e'.InstanceReference = e.InstanceReference ∧
        (∀ c, e'.InProgress ThreadId c = e.InProgress ThreadId c) ∧ e'.Log = e.Log) := by
  refine ⟨?_, DryBookkeeping_top env ThreadId hTop, ?_, ?_⟩
  · intro r env' h
    cases depth with
    | zero => simp [GenerateStateMachine] at h
    | succ d =>
      have hb := DryBookkeeping_top env ThreadId hTop
      have hc := Contains_top env ThreadId
      have hlocal : GenerateStateMachine.assemble ThreadId (GenerateStateMachine w ThreadId d)
          (!TMap.Contains env.StateMachinesGeneratingForThread ThreadId)
          (env.FindOrAddGeneration ThreadId) Instance StateMachineOut RunTimeProperties true =
          some (r, env') →
          env'.Instances = env.Instances ∧ env'.InstanceReference = env.InstanceReference := by
        intro h
        obtain ⟨e, hq, he⟩ := assemble_dry ThreadId _ (GenerateStateMachine_dry w ThreadId d) _ _
          Instance StateMachineOut RunTimeProperties r env' hc hb h
        have h1 : e.Instances = env.Instances := by rw [hq.1]; simp
        have h2 : e.InstanceReference = env.InstanceReference := by rw [hq.2.1]; simp
        rcases he with he | he
        · rw [he]; exact ⟨h1, h2⟩
        · rw [he, Finish_Instances, Finish_InstanceReference]; exact ⟨h1, h2⟩
      simp only [GenerateStateMachine, GenerateStateMachine.body] at h
      cases hcr : StateMachineOut.Node.ClassReference with
      | none => simp only [hcr] at h; exact hlocal h
      | some cls =>
        cases Instance with
        | Object o => simp only [hcr] at h; exact hlocal h
        | SMInstance K =>
          simp only [hcr] at h
          obtain ⟨e₂, hres, hi, hr, _, _, _, _⟩ := reference_dry w ThreadId
            (GenerateStateMachine w ThreadId d)
            (!TMap.Contains env.StateMachinesGeneratingForThread ThreadId)
            (env.FindOrAddGeneration ThreadId) K StateMachineOut cls hb
          rw [hres] at h
          simp only [Option.some.injEq, Prod.mk.injEq] at h
          rw [← h.2, Finish_Instances, Finish_InstanceReference, hi, hr]
          exact ⟨by simp, by simp⟩
  · intro e Object Nested d r e' hc hb h
    exact (GenerateStateMachine_dry w ThreadId d e Object Nested RunTimeProperties r e' hc hb h).2.2
      hc hb
  · intro e K Reference Class d hc hb hcls
    refine ⟨template_dry w e K Reference Class, ?_⟩
    obtain ⟨g, hfind⟩ := Find_of_Contains _ _ hc
    obtain ⟨e₂, hres, hi, hr, hl, _, hip, _⟩ := reference_dry w ThreadId
      (GenerateStateMachine w ThreadId d) false e K Reference Class hb
    refine ⟨e₂, ?_, hi, hr, hip, hl⟩
    simp only [GenerateStateMachine, GenerateStateMachine.body, hcls, hc, Bool.not_true,
      Env.FindOrAddGeneration_of_Find e ThreadId g hfind, hres, Finish_false]

theorem C17_dry_run_resolves_nothing_witness :
    ∃ env', GenerateStateMachine
        [UClassDef.ofProperties 1 [FSMNode.state 2 1 true, FSMNode.stateMachine 3 1 (some 0) false]]
        0 3 (Env.initial [USMInstance.ofClass 0]) (.SMInstance 0)
        (USMInstance.RootStateMachine (UClassDef.ofProperties 1 []) 0)
        [FSMNode.state 2 1 true, FSMNode.stateMachine 3 1 (some 0) false] true = some (true, env') ∧
      env'.Instances = [USMInstance.ofClass 0] ∧ env'.InstanceReference = [] :=
  ⟨_, rfl,
    (C17_dry_run_resolves_nothing
      [UClassDef.ofProperties 1 [FSMNode.state 2 1 true, FSMNode.stateMachine 3 1 (some 0) false]]
      0 3 (Env.initial [USMInstance.ofClass 0]) (.SMInstance 0)
      (USMInstance.RootStateMachine (UClassDef.ofProperties 1 []) 0)
      [FSMNode.state 2 1 true, FSMNode.stateMachine 3 1 (some 0) false] (by decide)).1 true _ rfl⟩

/-! ## Counters are back at zero at teardown -/

theorem TMap.keys_Add {κ ν : Type} [DecidableEq κ] (m : TMap κ ν) (k : κ) (v : ν) :
    (TMap.Add m k v).map Prod.fst =
      if k ∈ m.map Prod.fst then m.map Prod.fst else m.map Prod.fst ++ [k] := by
  induction m with
  | nil => simp [TMap.Add]
  | cons a m ih =>
    obtain ⟨k', v'⟩ := a
    by_cases hk : k' = k
    · subst hk; simp [TMap.Add]
    · have hk' : ¬ k = k' := fun h => hk h.symm
      simp only [TMap.Add, hk, if_false, List.map_cons, ih, List.mem_cons, hk', false_or]
      split <;> simp

theorem TMap.nodup_Add {κ ν : Type} [DecidableEq κ] (m : TMap κ ν) (k : κ) (v : ν)
    (h : (m.map Prod.fst).Nodup) : ((TMap.Add m k v).map Prod.fst).Nodup := by
  rw [TMap.keys_Add]
  split
  · exact h
  · rename_i hk
    exact List.Nodup.append h (List.nodup_singleton k) (by
      intro x hx hx'
      rw [List.mem_singleton] at hx'
      subst hx'
      exact hk hx)

theorem TMap.mem_Add {κ ν : Type} [DecidableEq κ] (m : TMap κ ν) (k : κ) (v : ν)
    (hn : (m.map Prod.fst).Nodup) (kv : κ × ν)
    (h : kv ∈ TMap.Add m k v) : kv = (k, v) ∨ (kv ∈ m ∧ kv.1 ≠ k) := by
  induction m with
  | nil => simp only [TMap.Add, List.mem_singleton] at h; exact Or.inl h
  | cons a m ih =>
    obtain ⟨k', v'⟩ := a
    simp only [List.map_cons, List.nodup_cons] at hn
    simp only [TMap.Add] at h
    split at h
    · rename_i hk
      rcases List.mem_cons.mp h with h | h
      · exact Or.inl h
      · refine Or.inr ⟨List.mem_cons_of_mem _ h, ?_⟩
        intro hkv
        apply hn.1
        rw [hk, ← hkv]
        exact List.mem_map_of_mem _ h
    · rename_i hk
      rcases List.mem_cons.mp h with h | h
      · exact Or.inr ⟨by rw [h]; exact List.mem_cons_self _ _, by rw [h]; exact hk⟩
      · rcases ih hn.2 h with h | h
        · exact Or.inl h
        · exact Or.inr ⟨List.mem_cons_of_mem _ h.1, h.2⟩

theorem TMap.mem_of_Find {κ ν : Type} [DecidableEq κ] (m : TMap κ ν) (k : κ) (v : ν)
    (h : TMap.Find m k = some v) : (k, v) ∈ m := by
  induction m with
  | nil => simp [TMap.Find] at h
  | cons a m ih =>
    obtain ⟨k', v'⟩ := a
    simp only [TMap.Find] at h
    split at h
    · rename_i hk
      simp only [Option.some.injEq] at h
      rw [← hk, ← h]; exact List.mem_cons_self _ _
    · exact List.mem_cons_of_mem _ (ih h)

theorem ZeroOrOld.zeroSame (tid : Nat) (env : Env) : ZeroOrOld tid env env :=
  fun hn => ⟨hn, fun _ h => Or.inl h⟩

theorem ZeroOrOld.zeroThen {tid : Nat} {a b c : Env} (h₁ : ZeroOrOld tid a b)
    (h₂ : ZeroOrOld tid b c) : ZeroOrOld tid a c := by
  intro hn
  obtain ⟨hb, hab⟩ := h₁ hn
  obtain ⟨hc, hbc⟩ := h₂ hb
  refine ⟨hc, fun kv h => ?_⟩
  rcases hbc kv h with h | h
  · exact hab kv h
  · exact Or.inr h

theorem ZeroOrOld.of_counters {tid : Nat} {a b : Env} (h : b.Counters tid = a.Counters tid) :
    ZeroOrOld tid a b := by
  intro hn
  rw [h]
  exact ⟨hn, fun _ h => Or.inl h⟩

theorem Counters_congr {a b : Env} (tid : Nat)
    (h : b.StateMachinesGeneratingForThread = a.StateMachinesGeneratingForThread) :
    b.Counters tid = a.Counters tid := by
  unfold Env.Counters
  rw [Env.CurrentGeneration_congr tid h]

theorem ZeroOrOld.zeroOfThreadMap {tid : Nat} {a b : Env}
    (h : b.StateMachinesGeneratingForThread = a.StateMachinesGeneratingForThread) :
    ZeroOrOld tid a b := ZeroOrOld.of_counters (Counters_congr tid h)

/-- The check, up to the final `FinishStateMachineGeneration` of an early return: the
thread stays in the per-thread map and the counters are as they were. -/
theorem check_before_finish (tid : Nat) (top : Bool) (env : Env) (K : InstId)
    (sm : FSMStateMachine) (cls : UClass)
    (hc : TMap.Contains env.StateMachinesGeneratingForThread tid = true) :
    (∀ r e', GenerateStateMachine.check tid top env K sm cls = .inl (r, e') →
      ∃ e₁, e' = (FinishStateMachineGeneration top e₁ tid).2 ∧ NestedPost tid env e₁ ∧
        e₁.Counters tid = env.Counters tid) ∧
    (∀ e₂, GenerateStateMachine.check tid top env K sm cls = .inr e₂ →
      NestedPost tid env e₂ ∧ e₂.Counters tid = env.Counters tid) := by
  constructor
  · intro r e' h
    unfold GenerateStateMachine.check at h
    dsimp only at h
    split at h
    · split at h
      · simp only [Sum.inl.injEq, Prod.mk.injEq] at h
        exact ⟨_, h.2.symm, NestedPost.of_eq hc (by simp), rfl⟩
      · simp only [Sum.inl.injEq, Prod.mk.injEq] at h
        exact ⟨_, h.2.symm, NestedPost.of_setCurrentGeneration _ rfl (fun c hc => hc), by
          simp [Env.Counters]⟩
      · exact absurd h (by simp)
    · split at h
      · split at h
        · simp only [Sum.inl.injEq, Prod.mk.injEq] at h
          exact ⟨_, h.2.symm, NestedPost.of_eq hc (by simp), rfl⟩
        · exact absurd h (by simp)
      · exact absurd h (by simp)
  · intro e₂ h
    refine ⟨check_inr_nested tid top env K sm cls e₂ hc h, ?_⟩
    unfold GenerateStateMachine.check at h
    dsimp only at h
    split at h
    · split at h
      · exact absurd h (by simp)
      · exact absurd h (by simp)
      · simp only [Sum.inr.injEq] at h
        rw [← h]; simp [Env.Counters]
    · split at h
      · split at h
        · exact absurd h (by simp)
        · simp only [Sum.inr.injEq] at h
          rw [← h]
      · simp only [Sum.inr.injEq] at h
        rw [← h]

theorem record_Counters (tid : Nat) (env : Env) (sm : FSMStateMachine) (cls : UClass)
    (I : InstId) :
    (GenerateStateMachine.record tid env sm cls I).Counters tid = env.Counters tid := by
  unfold GenerateStateMachine.record
  split
  · simp [Env.Counters]
  · rfl

/-- The steps after the instantiation take the incremented counter back: what is left is
an old entry or zero. -/
theorem referenced_zero (tid : Nat) (env₀ env : Env) (SMInstance : InstId) (sm : FSMStateMachine)
    (cls : UClass) (I : InstId)
    (hn : NestedPost tid (GenerateStateMachine.increment tid env₀ cls) env)
    (hz : ZeroOrOld tid (GenerateStateMachine.increment tid env₀ cls) env) :
    ZeroOrOld tid env₀ (GenerateStateMachine.referenced tid env SMInstance sm cls I) := by
  intro hnd
  have hinc : (GenerateStateMachine.increment tid env₀ cls).Counters tid =
      TMap.Add (env₀.Counters tid) cls (env₀.InProgress tid cls + 1) := by
    simp only [Env.Counters, increment_generation]
  obtain ⟨hnd₁, hold⟩ := hz (by rw [hinc]; exact TMap.nodup_Add _ _ _ hnd)
  have hip : env.InProgress tid cls = env₀.InProgress tid cls + 1 := by
    rw [hn.2.1 cls, InProgress_increment, if_pos rfl]
  have hk : TMap.Contains (env.Counters tid) cls = true :=
    hn.2.2.1 cls (by simp [Counters_increment])
  obtain ⟨v, hv⟩ := Find_of_Contains _ _ hk
  have hv' : v = env₀.InProgress tid cls + 1 := by
    have : env.InProgress tid cls = v := by
      simp only [Env.InProgress]
      unfold Env.Counters at hv
      rw [hv]; rfl
    rw [← this, hip]
  have hcount : (GenerateStateMachine.referenced tid env SMInstance sm cls I).Counters tid =
      TMap.Add (env.Counters tid) cls (env₀.InProgress tid cls) := by
    unfold GenerateStateMachine.referenced
    dsimp only
    have h1 : (GenerateStateMachine.patch tid
        (GenerateStateMachine.record tid (env.SetReferenceOwner I SMInstance) sm cls I) cls
        I).Counters tid = env.Counters tid := by
      rw [Counters_congr tid (patch_threadMap tid _ cls I), record_Counters]
      simp [Env.Counters]
    have hfind : TMap.Find ((GenerateStateMachine.patch tid
        (GenerateStateMachine.record tid (env.SetReferenceOwner I SMInstance) sm cls I) cls
        I).CurrentGeneration tid).InstancesGenerating cls = some v := by
      have := h1
      unfold Env.Counters at this hv
      rw [this]; exact hv
    rw [decrement_some tid _ cls v hfind]
    simp only [Env.Counters, Env.SetInstanceReference_CurrentGeneration,
      Env.setCurrentGeneration_CurrentGeneration]
    have := h1
    unfold Env.Counters at this
    rw [this, hv']
    congr 1
    omega
  rw [hcount]
  refine ⟨TMap.nodup_Add _ _ _ hnd₁, fun kv hkv => ?_⟩
  rcases TMap.mem_Add _ _ _ hnd₁ kv hkv with h | ⟨hm, hne⟩
  · rw [h]
    unfold Env.InProgress
    cases hf : TMap.Find (env₀.CurrentGeneration tid).InstancesGenerating cls with
    | none => exact Or.inr rfl
    | some u => exact Or.inl (TMap.mem_of_Find _ _ _ hf)
  · rcases hold kv hm with h | h
    · rw [hinc] at h
      rcases TMap.mem_Add _ _ _ hnd kv h with h | ⟨h, _⟩
      · exact absurd (by rw [h]) hne
      · exact Or.inl h
    · exact Or.inr h

/-- The reference branch up to its final `FinishStateMachineGeneration`: the counters are
balanced and every counter entry is an old one or zero. -/
theorem reference_zero (w : World) (tid : Nat) (gsm : GenerateCall) (hgN : NestedOK tid gsm)
    (hgZ : ZeroOK tid gsm) (top : Bool) (env : Env) (K : InstId) (sm : FSMStateMachine)
    (cls : UClass) (bDryRun : Bool) (r : Bool) (env' : Env)
    (hc : TMap.Contains env.StateMachinesGeneratingForThread tid = true)
    (h : GenerateStateMachine.reference w tid gsm top env K sm cls bDryRun = some (r, env')) :
    ∃ e, env' = (FinishStateMachineGeneration top e tid).2 ∧ NestedPost tid env e ∧
      ZeroOrOld tid env e := by
  obtain ⟨l, hl⟩ := template_env w env K sm cls bDryRun
  have h0 : NestedPost tid env (GenerateStateMachine.template w env K sm cls bDryRun).2.2 := by
    rw [hl]; exact NestedPost.of_eq hc (by simp)
  have z0 : ZeroOrOld tid env (GenerateStateMachine.template w env K sm cls bDryRun).2.2 := by
    rw [hl]; exact ZeroOrOld.zeroOfThreadMap (by simp)
  obtain ⟨hinl, hinr⟩ := check_before_finish tid top
    (GenerateStateMachine.template w env K sm cls bDryRun).2.2 K sm
    (GenerateStateMachine.template w env K sm cls bDryRun).2.1 h0.1
  rcases reference_cases w tid gsm top env K sm cls bDryRun r env' h with
    hchk | ⟨env₂, hchk, _, _, he⟩ | ⟨env₂, r₁, e, hchk, _, hcall, _, he⟩
  · obtain ⟨e₁, he, hn, hcnt⟩ := hinl r env' hchk
    exact ⟨e₁, he, h0.andThen hn, z0.zeroThen (ZeroOrOld.of_counters hcnt)⟩
  · obtain ⟨hn, hcnt⟩ := hinr env₂ hchk
    exact ⟨env₂, he, h0.andThen hn, z0.zeroThen (ZeroOrOld.of_counters hcnt)⟩
  · obtain ⟨hn, hcnt⟩ := hinr env₂ hchk
    have hn₂ := h0.andThen hn
    have hci : TMap.Contains ((GenerateStateMachine.increment tid env₂
        (GenerateStateMachine.template w env K sm cls bDryRun).2.1).Initializing
        (GenerateStateMachine.template w env K sm cls bDryRun).2.1
        (GenerateStateMachine.template w env K sm cls bDryRun).1
        (env₂.GetContext K)).StateMachinesGeneratingForThread tid = true :=
      by rw [Initializing_threadMap]; exact Contains_thread_increment tid env₂ _
    have n1 : NestedPost tid (GenerateStateMachine.increment tid env₂
        (GenerateStateMachine.template w env K sm cls bDryRun).2.1) e :=
      (NestedPost.of_eq (Contains_thread_increment tid env₂ _)
        (Initializing_threadMap _ _ _ _)).andThen (hgN _ _ _ _ _ _ _ hci hcall)
    have z1 : ZeroOrOld tid (GenerateStateMachine.increment tid env₂
        (GenerateStateMachine.template w env K sm cls bDryRun).2.1) e :=
      (ZeroOrOld.zeroOfThreadMap (Initializing_threadMap _ _ _ _)).zeroThen
        (hgZ _ _ _ _ _ _ _ hci hcall)
    exact ⟨_, he, hn₂.andThen (referenced_nested tid env₂ e K sm _ _ n1),
      (z0.zeroThen (ZeroOrOld.of_counters hcnt)).zeroThen (referenced_zero tid env₂ e K sm _ _ n1 z1)⟩

/-- Local assembly up to its final `FinishStateMachineGeneration`, if it gets there. -/
theorem assemble_zero (tid : Nat) (gsm : GenerateCall) (hgN : NestedOK tid gsm)
    (hgZ : ZeroOK tid gsm) (top : Bool) (env : Env) (Instance : UObjectRef)
    (sm : FSMStateMachine) (props : List FSMNode) (bDryRun : Bool) (r : Bool) (env' : Env)
    (hc : TMap.Contains env.StateMachinesGeneratingForThread tid = true)
    (h : GenerateStateMachine.assemble tid gsm top env Instance sm props bDryRun = some (r, env')) :
    ∃ e, (env' = e ∨ env' = (FinishStateMachineGeneration top e tid).2) ∧ NestedPost tid env e ∧
      ZeroOrOld tid env e := by
  unfold GenerateStateMachine.assemble at h
  cases hs : GenerateStateMachine.states (fun env Nested => gsm env Instance Nested props bDryRun)
      Instance sm props.enum env [] with
  | none => simp [hs] at h
  | some res =>
    obtain ⟨e₁, M⟩ := res
    have q1 := states_rel
      (fun a b => TMap.Contains a.StateMachinesGeneratingForThread tid = true →
        NestedPost tid a b ∧ ZeroOrOld tid a b)
      (fun e => TMap.Contains e.StateMachinesGeneratingForThread tid = true)
      (fun env Nested => gsm env Instance Nested props bDryRun) Instance sm
      (fun env hc => ⟨NestedPost.here hc, ZeroOrOld.zeroSame tid env⟩)
      (fun a b c h₁ h₂ hc => ⟨(h₁ hc).1.andThen (h₂ (h₁ hc).1.1).1,
        (h₁ hc).2.zeroThen (h₂ (h₁ hc).1.1).2⟩)
      (fun a b ha hq => (hq ha).1.1)
      (fun env a b hc => ⟨NestedPost.of_eq hc rfl, ZeroOrOld.zeroOfThreadMap rfl⟩)
      (fun env e hc => ⟨NestedPost.of_eq hc rfl, ZeroOrOld.zeroOfThreadMap rfl⟩)
      (fun env a b hc => ⟨NestedPost.of_eq hc rfl, ZeroOrOld.zeroOfThreadMap rfl⟩)
      (fun e n r₁ e' hpre hcall _ => ⟨hgN e Instance n props bDryRun r₁ e' hpre hcall,
        hgZ e Instance n props bDryRun r₁ e' hpre hcall⟩)
      props.enum env [] e₁ M hc hs hc
    have q2 := transitions_rel
      (fun a b => TMap.Contains a.StateMachinesGeneratingForThread tid = true →
        NestedPost tid a b ∧ ZeroOrOld tid a b) Instance sm M
      (fun env hc => ⟨NestedPost.here hc, ZeroOrOld.zeroSame tid env⟩)
      (fun a b c h₁ h₂ hc => ⟨(h₁ hc).1.andThen (h₂ (h₁ hc).1.1).1,
        (h₁ hc).2.zeroThen (h₂ (h₁ hc).1.1).2⟩)
      (fun env e hc => ⟨NestedPost.of_eq hc rfl, ZeroOrOld.zeroOfThreadMap rfl⟩)
      (fun env a b hc => ⟨NestedPost.of_eq hc rfl, ZeroOrOld.zeroOfThreadMap rfl⟩)
      (fun env a b hc => ⟨NestedPost.of_eq hc rfl, ZeroOrOld.zeroOfThreadMap rfl⟩)
      (fun env a b hc => ⟨NestedPost.of_eq hc rfl, ZeroOrOld.zeroOfThreadMap rfl⟩)
      props.enum e₁ q1.1.1
    simp only [hs] at h
    split at h
    · rename_i e ht
      simp only [Option.some.injEq, Prod.mk.injEq] at h
      rw [ht] at q2
      exact ⟨e, Or.inl h.2.symm, q1.1.andThen q2.1, q1.2.zeroThen q2.2⟩
    · rename_i e ht
      simp only [Option.some.injEq, Prod.mk.injEq] at h
      rw [ht] at q2
      exact ⟨e, Or.inr h.2.symm, q1.1.andThen q2.1, q1.2.zeroThen q2.2⟩

theorem body_zero (w : World) (tid : Nat) (gsm : GenerateCall) (hgN : NestedOK tid gsm)
    (hgZ : ZeroOK tid gsm) : ZeroOK tid (GenerateStateMachine.body w tid gsm) := by
  intro env Instance sm props bDryRun r env' hc h
  obtain ⟨g, hfind⟩ := Find_of_Contains _ _ hc
  unfold GenerateStateMachine.body at h
  simp only [hc, Bool.not_true, Env.FindOrAddGeneration_of_Find env tid g hfind] at h
  have hlocal : GenerateStateMachine.assemble tid gsm false env Instance sm props bDryRun =
      some (r, env') → ZeroOrOld tid env env' := by
    intro h
    obtain ⟨e, he, _, hz⟩ := assemble_zero tid gsm hgN hgZ false env Instance sm props bDryRun
      r env' hc h
    rw [Finish_false, or_self] at he
    rw [he]; exact hz
  cases hcr : sm.Node.ClassReference with
  | none => simp only [hcr] at h; exact hlocal h
  | some cls =>
    cases Instance with
    | Object o => simp only [hcr] at h; exact hlocal h
    | SMInstance K =>
      simp only [hcr] at h
      obtain ⟨e, he, _, hz⟩ := reference_zero w tid gsm hgN hgZ false env K sm cls bDryRun r env'
        hc h
      rw [Finish_false] at he
      rw [he]; exact hz

theorem GenerateStateMachine_zero (w : World) (tid : Nat) :
    ∀ depth, ZeroOK tid (GenerateStateMachine w tid depth) := by
  intro depth
  induction depth with
  | zero => intro env Instance sm props bDryRun r env' _ h; simp [GenerateStateMachine] at h
  | succ d ih => exact body_zero w tid _ (GenerateStateMachine_nested w tid d) ih

/-- The teardown of `FinishStateMachineGeneration` logs nothing when every counter entry of
the thread is zero. -/
theorem Finish_quiet (top : Bool) (env : Env) (tid : Nat)
    (h : ∀ kv ∈ env.Counters tid, kv.2 = 0) :
    (FinishStateMachineGeneration top env tid).2.Log = env.Log := by
  unfold FinishStateMachineGeneration
  split
  · dsimp only
    cases hf : TMap.Find env.StateMachinesGeneratingForThread tid with
    | none => simp
    | some g =>
      have hg : env.Counters tid = g.InstancesGenerating := by
        simp [Env.Counters, Env.CurrentGeneration, hf]
      have hnil : g.InstancesGenerating.filter (fun (kv : UClass × Int) => decide (kv.2 ≠ 0)) = [] := by
        rw [List.filter_eq_nil_iff]
        intro kv hkv
        simp [h kv (by rw [hg]; exact hkv)]
      simp only [hnil, List.map_nil]
      simp [Env.logAll]
  · rfl

/-- A top-level activation that returns: the environment it tears down (or returns without
teardown) holds zero in every counter entry of the thread. -/
theorem GenerateStateMachine_teardown (w : World) (tid d : Nat) (env : Env) (Instance : UObjectRef)
    (sm : FSMStateMachine) (props : List FSMNode) (bDryRun : Bool) (r : Bool) (env' : Env)
    (hTop : TMap.Contains env.StateMachinesGeneratingForThread tid = false)
    (h : GenerateStateMachine w tid d env Instance sm props bDryRun = some (r, env')) :
    ∃ t, (env' = t ∨ env' = (FinishStateMachineGeneration true t tid).2) ∧
      ∀ kv ∈ t.Counters tid, kv.2 = 0 := by
  cases d with
  | zero => simp [GenerateStateMachine] at h
  | succ d =>
    have hc := Contains_top env tid
    have hcnt : (env.FindOrAddGeneration tid).Counters tid = [] := by
      simp [Env.Counters, CurrentGeneration_top env tid hTop]
    have fin : ∀ t, ZeroOrOld tid (env.FindOrAddGeneration tid) t →
        ∀ kv ∈ t.Counters tid, kv.2 = 0 := by
      intro t hz kv hkv
      rcases (hz (by rw [hcnt]; exact List.nodup_nil)).2 kv hkv with h | h
      · rw [hcnt] at h; cases h
      · exact h
    have hlocal : GenerateStateMachine.assemble tid (GenerateStateMachine w tid d) true
        (env.FindOrAddGeneration tid) Instance sm props bDryRun = some (r, env') →
        ∃ t, (env' = t ∨ env' = (FinishStateMachineGeneration true t tid).2) ∧
          ∀ kv ∈ t.Counters tid, kv.2 = 0 := by
      intro h
      obtain ⟨e, he, _, hz⟩ := assemble_zero tid _ (GenerateStateMachine_nested w tid d)
        (GenerateStateMachine_zero w tid d) true _ Instance sm props bDryRun r env' hc h
      exact ⟨e, he, fin e hz⟩
    simp only [GenerateStateMachine, GenerateStateMachine.body, hTop, Bool.not_false] at h
    cases hcr : sm.Node.ClassReference with
    | none => simp only [hcr] at h; exact hlocal h
    | some cls =>
      cases Instance with
      | Object o => simp only [hcr] at h; exact hlocal h
      | SMInstance K =>
        simp only [hcr] at h
        obtain ⟨e, he, _, hz⟩ := reference_zero w tid _ (GenerateStateMachine_nested w tid d)
          (GenerateStateMachine_zero w tid d) true _ K sm cls bDryRun r env' hc h
        exact ⟨e, Or.inr he, fin e hz⟩

/-- C16: a non-dry-run resolution of a reference node that returns and whose check lets it
go on to instantiation (it is not rejected as circular and not served by reuse) runs the
instantiation, on the root state machine of the new instance, with the in-progress counter
of the target class one above its value on entry; the counter still has that value when the
instantiation returns, and after the decrement every counter of the thread has its value on
entry. Every nested activation that returns leaves every counter at its value on entry, and
every top-level activation that returns holds zero in every counter entry of the thread in
the environment it tears down, so that the teardown logs nothing. -/
theorem C16_in_progress_counter_balanced (w : World) (ThreadId depth : Nat) (env : Env)
    (SMInstance : InstId) (StateMachineOut : FSMStateMachine) (Class : UClass)
    (RunTimeProperties : List FSMNode) (r : Bool) (env' env₂ : Env)
    (hRef : StateMachineOut.Node.ClassReference = some Class)
    (hRun : GenerateStateMachine w ThreadId (depth + 1) env (.SMInstance SMInstance)
      StateMachineOut RunTimeProperties false = some (r, env'))
    (hCheck : GenerateStateMachine.check ThreadId
      (!TMap.Contains env.StateMachinesGeneratingForThread ThreadId)
      (GenerateStateMachine.template w (env.FindOrAddGeneration ThreadId) SMInstance
        StateMachineOut Class false).2.2 SMInstance StateMachineOut
      (GenerateStateMachine.target w (env.FindOrAddGeneration ThreadId) SMInstance
        StateMachineOut Class false) = .inr env₂) :
    (∃ r₁ e, GenerateStateMachine w ThreadId depth
        ((GenerateStateMachine.increment ThreadId env₂
            (GenerateStateMachine.target w (env.FindOrAddGeneration ThreadId) SMInstance
              StateMachineOut Class false)).Initializing
          (GenerateStateMachine.target w (env.FindOrAddGeneration ThreadId) SMInstance
            StateMachineOut Class false)
          (GenerateStateMachine.template w (env.FindOrAddGeneration ThreadId) SMInstance
            StateMachineOut Class false).1 (env₂.GetContext SMInstance))
        (.SMInstance env₂.Instances.length)
        (USMInstance.RootStateMachine
          (w.GetClass (GenerateStateMachine.target w (env.FindOrAddGeneration ThreadId) SMInstance
            StateMachineOut Class false)) env₂.Instances.length)
        (w.GetClass (GenerateStateMachine.target w (env.FindOrAddGeneration ThreadId) SMInstance
          StateMachineOut Class false)).Properties false = some (r₁, e) ∧
      ((GenerateStateMachine.increment ThreadId env₂
            (GenerateStateMachine.target w (env.FindOrAddGeneration ThreadId) SMInstance
              StateMachineOut Class false)).Initializing
          (GenerateStateMachine.target w (env.FindOrAddGeneration ThreadId) SMInstance
            StateMachineOut Class false)
          (GenerateStateMachine.template w (env.FindOrAddGeneration ThreadId) SMInstance
            StateMachineOut Class false).1 (env₂.GetContext SMInstance)).InProgress ThreadId
          (GenerateStateMachine.target w (env.FindOrAddGeneration ThreadId) SMInstance
            StateMachineOut Class false) =
        env.InProgress ThreadId (GenerateStateMachine.target w (env.FindOrAddGeneration ThreadId)
          SMInstance StateMachineOut Class false) + 1 ∧
      e.InProgress ThreadId (GenerateStateMachine.target w (env.FindOrAddGeneration ThreadId)
          SMInstance StateMachineOut Class false) =
        env.InProgress ThreadId (GenerateStateMachine.target w (env.FindOrAddGeneration ThreadId)
          SMInstance StateMachineOut Class false) + 1 ∧
      (∀ c, (GenerateStateMachine.referenced ThreadId e SMInstance StateMachineOut
          (GenerateStateMachine.target w (env.FindOrAddGeneration ThreadId) SMInstance
            StateMachineOut Class false) env₂.Instances.length).InProgress ThreadId c =
        env.InProgress ThreadId c) ∧
      r = true ∧
      env' = (FinishStateMachineGeneration
        (!TMap.Contains env.StateMachinesGeneratingForThread ThreadId)
        (GenerateStateMachine.referenced ThreadId e SMInstance StateMachineOut
          (GenerateStateMachine.target w (env.FindOrAddGeneration ThreadId) SMInstance
            StateMachineOut Class false) env₂.Instances.length) ThreadId).2) ∧
    (∀ (a : Env) (Object : UObjectRef) (Nested : FSMStateMachine) (props : List FSMNode)
        (bDryRun : Bool) (d : Nat) (b : Bool) (a' : Env),
      TMap.Contains a.StateMachinesGeneratingForThread ThreadId = true →
      GenerateStateMachine w ThreadId d a Object Nested props bDryRun = some (b, a') →
      ∀ c, a'.InProgress ThreadId c = a.InProgress ThreadId c) ∧
    (∀ (a : Env) (Object : UObjectRef) (Top : FSMStateMachine) (props : List FSMNode)
        (bDryRun : Bool) (d : Nat) (b : Bool) (a' : Env),
      TMap.Contains a.StateMachinesGeneratingForThread ThreadId = false →
      GenerateStateMachine w ThreadId d a Object Top props bDryRun = some (b, a') →
      ∃ t, (a' = t ∨ a' = (FinishStateMachineGeneration true t ThreadId).2) ∧
        (∀ kv ∈ t.Counters ThreadId, kv.2 = 0) ∧
        (FinishStateMachineGeneration true t ThreadId).2.Log = t.Log) := by
  refine ⟨?_, ?_, ?_⟩
  · have hc := Contains_top env ThreadId
    obtain ⟨l, hl⟩ := template_env w (env.FindOrAddGeneration ThreadId) SMInstance StateMachineOut
      Class false
    have h0 : NestedPost ThreadId (env.FindOrAddGeneration ThreadId)
        (GenerateStateMachine.template w (env.FindOrAddGeneration ThreadId) SMInstance
          StateMachineOut Class false).2.2 := by
      rw [hl]; exact NestedPost.of_eq hc (by simp)
    simp only [GenerateStateMachine, GenerateStateMachine.body, hRef] at hRun
    unfold GenerateStateMachine.target at hCheck ⊢
    rcases reference_cases w ThreadId _ _ _ SMInstance StateMachineOut Class false r env' hRun with
      hchk | ⟨e₂, _, hd, _⟩ | ⟨e₂, r₁, e, hchk, _, hcall, hr, he⟩
    · rw [hCheck] at hchk; cases hchk
    · cases hd
    · rw [hCheck] at hchk
      cases hchk
      have hn₂ := h0.andThen
        ((check_before_finish ThreadId _ _ SMInstance StateMachineOut _ h0.1).2 env₂ hCheck).1
      have hci : TMap.Contains ((GenerateStateMachine.increment ThreadId env₂
          (GenerateStateMachine.template w (env.FindOrAddGeneration ThreadId) SMInstance
            StateMachineOut Class false).2.1).Initializing
          (GenerateStateMachine.template w (env.FindOrAddGeneration ThreadId) SMInstance
            StateMachineOut Class false).2.1
          (GenerateStateMachine.template w (env.FindOrAddGeneration ThreadId) SMInstance
            StateMachineOut Class false).1
          (env₂.GetContext SMInstance)).StateMachinesGeneratingForThread ThreadId = true := by
        rw [Initializing_threadMap]; exact Contains_thread_increment ThreadId env₂ _
      have n1 : NestedPost ThreadId (GenerateStateMachine.increment ThreadId env₂
          (GenerateStateMachine.template w (env.FindOrAddGeneration ThreadId) SMInstance
            StateMachineOut Class false).2.1) e :=
        (NestedPost.of_eq (Contains_thread_increment ThreadId env₂ _)
          (Initializing_threadMap _ _ _ _)).andThen
          (GenerateStateMachine_nested w ThreadId depth _ _ _ _ _ _ _ hci hcall)
      have hinc : (GenerateStateMachine.increment ThreadId env₂
          (GenerateStateMachine.template w (env.FindOrAddGeneration ThreadId) SMInstance
            StateMachineOut Class false).2.1).InProgress ThreadId
          (GenerateStateMachine.template w (env.FindOrAddGeneration ThreadId) SMInstance
            StateMachineOut Class false).2.1 =
          env.InProgress ThreadId (GenerateStateMachine.template w
            (env.FindOrAddGeneration ThreadId) SMInstance StateMachineOut Class false).2.1 + 1 := by
        rw [InProgress_increment, if_pos rfl, hn₂.2.1, Env.FindOrAddGeneration_InProgress]
      refine ⟨r₁, e, hcall, ?_, ?_, ?_, hr, he⟩
      · rw [InProgress_initializing]; exact hinc
      · rw [n1.2.1]; exact hinc
      · intro c
        rw [((hn₂.andThen (referenced_nested ThreadId env₂ e SMInstance StateMachineOut _ _
          n1)).2.1 c), Env.FindOrAddGeneration_InProgress]
  · intro a Object Nested props bDryRun d b a' hc h
    exact (GenerateStateMachine_nested w ThreadId d a Object Nested props bDryRun b a' hc h).2.1
  · intro a Object Top props bDryRun d b a' hTop h
    obtain ⟨t, ht, hz⟩ := GenerateStateMachine_teardown w ThreadId d a Object Top props bDryRun b
      a' hTop h
    exact ⟨t, ht, hz, Finish_quiet true t ThreadId hz⟩

theorem C16_in_progress_counter_balanced_witness :
    ∃ env₂ r₁ e,
      GenerateStateMachine.check 0 true
        ((Env.initial [USMInstance.ofClass 0]).FindOrAddGeneration 0) 0
        ⟨⟨.SMInstance 0, some 1⟩, FSMNode.stateMachine 3 1 (some 1) false⟩ 1 = .inr env₂ ∧
      GenerateStateMachine
        [UClassDef.ofProperties 1 [FSMNode.state 2 1 true, FSMNode.stateMachine 3 1 (some 1) false],
         UClassDef.ofProperties 1 [FSMNode.state 2 1 true]]
        0 2 ((GenerateStateMachine.increment 0 env₂ 1).Initializing 1 none none)
        (.SMInstance 1)
        (USMInstance.RootStateMachine (UClassDef.ofProperties 1 [FSMNode.state 2 1 true]) 1)
        [FSMNode.state 2 1 true] false = some (r₁, e) ∧
      e.InProgress 0 1 = 0 + 1 ∧
      (GenerateStateMachine.referenced 0 e 0
        ⟨⟨.SMInstance 0, some 1⟩, FSMNode.stateMachine 3 1 (some 1) false⟩ 1 1).InProgress 0 1 = 0 :=
  have h := (C16_in_progress_counter_balanced
    [UClassDef.ofProperties 1 [FSMNode.state 2 1 true, FSMNode.stateMachine 3 1 (some 1) false],
     UClassDef.ofProperties 1 [FSMNode.state 2 1 true]]
    0 2 (Env.initial [USMInstance.ofClass 0]) 0
    ⟨⟨.SMInstance 0, some 1⟩, FSMNode.stateMachine 3 1 (some 1) false⟩ 1
    [FSMNode.state 2 1 true, FSMNode.stateMachine 3 1 (some 1) false] _ _ _ rfl rfl rfl).1
  ⟨_, h.choose, h.choose_spec.choose, rfl, h.choose_spec.choose_spec.1,
    h.choose_spec.choose_spec.2.2.1, h.choose_spec.choose_spec.2.2.2.1 1⟩

/-! ## States and transitions are only ever added -/

theorem StatesOf_AddState (env : Env) (a b q : NodePtr) :
    (env.AddState a b).StatesOf q = if a = q then env.StatesOf q ++ [b] else env.StatesOf q := by
  unfold Env.StatesOf Env.AddState
  simp only [TMap.Find_Add]
  split
  · rename_i h; subst h; rfl
  · rfl

theorem TransitionsOf_AddTransition (env : Env) (a b q : NodePtr) :
    (env.AddTransition a b).TransitionsOf q =
      if a = q then env.TransitionsOf q ++ [b] else env.TransitionsOf q := by
  unfold Env.TransitionsOf Env.AddTransition
  simp only [TMap.Find_Add]
  split
  · rename_i h; subst h; rfl
  · rfl

theorem Env.Grows.growSame (env : Env) : env.Grows env := ⟨fun _ _ h => h, fun _ _ h => h⟩

theorem Env.Grows.growThen {a b c : Env} (h₁ : a.Grows b) (h₂ : b.Grows c) : a.Grows c :=
  ⟨fun q x h => h₂.1 q x (h₁.1 q x h), fun q x h => h₂.2 q x (h₁.2 q x h)⟩

theorem Env.SameGraph.grows {a b : Env} (h : a.SameGraph b) : a.Grows b :=
  ⟨fun q x hx => by unfold Env.StatesOf at hx ⊢; rw [h.1]; exact hx,
   fun q x hx => by unfold Env.TransitionsOf at hx ⊢; rw [h.2.2.1]; exact hx⟩

theorem Grows_AddState (env : Env) (a b : NodePtr) : env.Grows (env.AddState a b) :=
  ⟨fun q x hx => by
    rw [StatesOf_AddState]
    split
    · exact List.mem_append_left _ hx
    · exact hx, fun _ _ hx => hx⟩

theorem Grows_AddTransition (env : Env) (a b : NodePtr) : env.Grows (env.AddTransition a b) :=
  ⟨fun _ _ hx => hx, fun q x hx => by
    rw [TransitionsOf_AddTransition]
    split
    · exact List.mem_append_left _ hx
    · exact hx⟩

theorem Grows_log (env : Env) (e : LogEntry) : env.Grows (env.log e) :=
  ⟨fun _ _ hx => hx, fun _ _ hx => hx⟩

theorem Grows_AddInitialState (env : Env) (a b : NodePtr) : env.Grows (env.AddInitialState a b) :=
  ⟨fun _ _ hx => hx, fun _ _ hx => hx⟩

theorem Grows_SetFromState (env : Env) (a b : NodePtr) : env.Grows (env.SetFromState a b) :=
  ⟨fun _ _ hx => hx, fun _ _ hx => hx⟩

theorem Grows_SetToState (env : Env) (a b : NodePtr) : env.Grows (env.SetToState a b) :=
  ⟨fun _ _ hx => hx, fun _ _ hx => hx⟩

theorem states_grows (gsm : Env → FSMStateMachine → Option (Bool × Env))
    (hg : ∀ e n r e', gsm e n = some (r, e') → e.Grows e') (Instance : UObjectRef)
    (sm : FSMStateMachine) (l : List (Nat × FSMNode)) (env : Env) (M : TMap FGuid NodePtr)
    (env' : Env) (M' : TMap FGuid NodePtr)
    (h : GenerateStateMachine.states gsm Instance sm l env M = some (env', M')) :
    env.Grows env' :=
  states_rel Env.Grows (fun _ => True) gsm Instance sm Env.Grows.growSame
    (fun _ _ _ h₁ h₂ => h₁.growThen h₂) (fun _ _ _ _ => trivial) Grows_AddState Grows_log
    Grows_AddInitialState (fun e n r e' _ h => hg e n r e' h) l env M env' M' trivial h

theorem transitions_grows (Instance : UObjectRef) (sm : FSMStateMachine) (M : TMap FGuid NodePtr)
    (l : List (Nat × FSMNode)) (env : Env) :
    env.Grows (GenerateStateMachine.transitions Instance sm M l env).2 :=
  transitions_rel Env.Grows Instance sm M Env.Grows.growSame (fun _ _ _ h₁ h₂ => h₁.growThen h₂)
    Grows_log Grows_SetFromState Grows_SetToState Grows_AddTransition l env

theorem assemble_grows (tid : Nat) (gsm : GenerateCall) (hg : GrowsOK gsm) (top : Bool)
    (env : Env) (Instance : UObjectRef) (sm : FSMStateMachine) (props : List FSMNode)
    (bDryRun : Bool) (r : Bool) (env' : Env)
    (h : GenerateStateMachine.assemble tid gsm top env Instance sm props bDryRun = some (r, env')) :
    env.Grows env' := by
  unfold GenerateStateMachine.assemble at h
  split at h
  · exact absurd h (by simp)
  · rename_i e₁ M hs
    have g1 := states_grows _ (fun e n r e' h => hg e Instance n props bDryRun r e' h) Instance sm
      _ _ _ _ _ hs
    have g2 := transitions_grows Instance sm M props.enum e₁
    split at h
    · rename_i e ht
      simp only [Option.some.injEq, Prod.mk.injEq] at h
      rw [ht] at g2
      rw [← h.2]; exact g1.growThen g2
    · rename_i e ht
      simp only [Option.some.injEq, Prod.mk.injEq] at h
      rw [ht] at g2
      rw [← h.2]; exact (g1.growThen g2).growThen (SameGraph_Finish _ _ _).grows

theorem reference_grows (w : World) (tid : Nat) (gsm : GenerateCall) (hg : GrowsOK gsm)
    (top : Bool) (env : Env) (K : InstId) (sm : FSMStateMachine) (cls : UClass) (bDryRun : Bool)
    (r : Bool) (env' : Env)
    (h : GenerateStateMachine.reference w tid gsm top env K sm cls bDryRun = some (r, env')) :
    env.Grows env' := by
  have ht := SameGraph_template w env K sm cls bDryRun
  rcases reference_cases w tid gsm top env K sm cls bDryRun r env' h with
    hchk | ⟨env₂, hchk, _, _, he⟩ | ⟨env₂, r₁, e, hchk, _, hcall, _, he⟩
  · exact (ht.graphThen (SameGraph_check_inl tid top _ K sm _ r env' hchk).1).grows
  · rw [he]
    exact ((ht.graphThen (SameGraph_check_inr tid top _ K sm _ env₂ hchk).1).graphThen
      (SameGraph_Finish _ _ _)).grows
  · rw [he]
    have h1 : env.SameGraph ((GenerateStateMachine.increment tid env₂
        (GenerateStateMachine.template w env K sm cls bDryRun).2.1).Initializing
        (GenerateStateMachine.template w env K sm cls bDryRun).2.1
        (GenerateStateMachine.template w env K sm cls bDryRun).1 (env₂.GetContext K)) :=
      ((ht.graphThen (SameGraph_check_inr tid top _ K sm _ env₂ hchk).1).graphThen
        (SameGraph_increment _ _ _)).graphThen (SameGraph_Initializing _ _ _ _)
    exact (h1.grows.growThen (hg _ _ _ _ _ _ _ hcall)).growThen
      (((SameGraph_referenced tid e K sm _ _).1).graphThen (SameGraph_Finish _ _ _)).grows

theorem body_grows (w : World) (tid : Nat) (gsm : GenerateCall) (hg : GrowsOK gsm) :
    GrowsOK (GenerateStateMachine.body w tid gsm) := by
  intro env Instance sm props bDryRun r env' h
  have h0 : env.Grows (env.FindOrAddGeneration tid) := (SameGraph_FindOrAddGeneration env tid).grows
  unfold GenerateStateMachine.body at h
  dsimp only at h
  cases hcr : sm.Node.ClassReference with
  | none =>
    simp only [hcr] at h
    exact h0.growThen (assemble_grows tid gsm hg _ _ Instance sm props bDryRun r env' h)
  | some cls =>
    cases Instance with
    | Object o =>
      simp only [hcr] at h
      exact h0.growThen (assemble_grows tid gsm hg _ _ _ sm props bDryRun r env' h)
    | SMInstance K =>
      simp only [hcr] at h
      exact h0.growThen (reference_grows w tid gsm hg _ _ K sm cls bDryRun r env' h)

theorem GenerateStateMachine_grows (w : World) (tid : Nat) :
    ∀ depth, GrowsOK (GenerateStateMachine w tid depth) := by
  intro depth
  induction depth with
  | zero => intro env Instance sm props bDryRun r env' h; simp [GenerateStateMachine] at h
  | succ d ih => exact body_grows w tid _ ih

/-- The first pass at a record that is not a state owned by the state machine. -/
theorem states_skip (gsm : Env → FSMStateMachine → Option (Bool × Env)) (Instance : UObjectRef)
    (sm : FSMStateMachine) (i : Nat) (p : FSMNode) (rest : List (Nat × FSMNode)) (env : Env)
    (M : TMap FGuid NodePtr)
    (h : ¬ (p.Struct.IsChildOfState_Base = true ∧ p.OwnerGuid = sm.Node.Guid)) :
    GenerateStateMachine.states gsm Instance sm ((i, p) :: rest) env M =
      GenerateStateMachine.states gsm Instance sm rest env M := by
  simp only [GenerateStateMachine.states]
  split
  · rename_i hs
    split
    · rfl
    · rename_i ho
      exact absurd ⟨hs, not_not.mp ho⟩ h
  · rfl

/-- The first pass at a state record owned by the state machine: the state is added, a
nested state machine is assembled, and the pass goes on with the rest whatever the nested
activation returned. -/
theorem states_owned (gsm : Env → FSMStateMachine → Option (Bool × Env)) (Instance : UObjectRef)
    (sm : FSMStateMachine) (i : Nat) (p : FSMNode) (rest : List (Nat × FSMNode)) (env : Env)
    (M : TMap FGuid NodePtr) (env' : Env) (M' : TMap FGuid NodePtr)
    (hs : p.Struct.IsChildOfState_Base = true) (ho : p.OwnerGuid = sm.Node.Guid)
    (h : GenerateStateMachine.states gsm Instance sm ((i, p) :: rest) env M = some (env', M')) :
    ∃ e₂,
      (p.Struct.IsChildOfStateMachine = true →
        ∃ r, gsm (if TMap.Contains M p.Guid then
            (env.AddState sm.Ptr ⟨Instance, some i⟩).log (.GuidAlreadyAdded ⟨Instance, some i⟩ p.Guid)
          else env.AddState sm.Ptr ⟨Instance, some i⟩) ⟨⟨Instance, some i⟩, p⟩ = some (r, e₂)) ∧
      (p.Struct.IsChildOfStateMachine = false →
        e₂ = (if TMap.Contains M p.Guid then
            (env.AddState sm.Ptr ⟨Instance, some i⟩).log (.GuidAlreadyAdded ⟨Instance, some i⟩ p.Guid)
          else env.AddState sm.Ptr ⟨Instance, some i⟩)) ∧
      GenerateStateMachine.states gsm Instance sm rest
        (if p.bIsRootNode then e₂.AddInitialState sm.Ptr ⟨Instance, some i⟩ else e₂)
        (TMap.Add M p.Guid ⟨Instance, some i⟩) = some (env', M') := by
  simp only [GenerateStateMachine.states, hs, if_true, ho, ne_eq, not_true_eq_false, if_false] at h
  split at h
  · exact absurd h (by simp)
  · rename_i e₂ hn
    refine ⟨e₂, ?_, ?_, h⟩
    · intro hsm
      simp only [hsm, if_true] at hn
      cases hg : gsm (if TMap.Contains M p.Guid then
          (env.AddState sm.Ptr ⟨Instance, some i⟩).log (.GuidAlreadyAdded ⟨Instance, some i⟩ p.Guid)
          else env.AddState sm.Ptr ⟨Instance, some i⟩) ⟨⟨Instance, some i⟩, p⟩ with
      | none => simp [hg] at hn
      | some res =>
        obtain ⟨r, e⟩ := res
        simp only [hg, Option.map_some', Option.some.injEq] at hn
        exact ⟨r, by rw [hn]⟩
    · intro hsm
      simp only [hsm, Bool.false_eq_true, if_false, Option.some.injEq] at hn
      exact hn.symm

/-- After the first pass every state record owned by the state machine is among its
states, whatever the nested activations returned. -/
theorem states_added (gsm : Env → FSMStateMachine → Option (Bool × Env))
    (hg : ∀ e n r e', gsm e n = some (r, e') → e.Grows e') (Instance : UObjectRef)
    (sm : FSMStateMachine) :
    ∀ (l : List (Nat × FSMNode)) (env : Env) (M : TMap FGuid NodePtr) (env' : Env)
      (M' : TMap FGuid NodePtr),
      GenerateStateMachine.states gsm Instance sm l env M = some (env', M') →
      ∀ x ∈ l, x.2.Struct.IsChildOfState_Base = true → x.2.OwnerGuid = sm.Node.Guid →
        ⟨Instance, some x.1⟩ ∈ env'.StatesOf sm.Ptr := by
  intro l
  induction l with
  | nil => intro env M env' M' _ x hx; cases hx
  | cons a l ih =>
    obtain ⟨i, p⟩ := a
    intro env M env' M' h x hx hs ho
    by_cases hp : p.Struct.IsChildOfState_Base = true ∧ p.OwnerGuid = sm.Node.Guid
    · obtain ⟨e₂, hsm, hnsm, hrest⟩ := states_owned gsm Instance sm i p l env M env' M' hp.1 hp.2 h
      rcases List.mem_cons.mp hx with rfl | hx
      · have m0 : (⟨Instance, some i⟩ : NodePtr) ∈
            (env.AddState sm.Ptr ⟨Instance, some i⟩).StatesOf sm.Ptr := by
          rw [StatesOf_AddState, if_pos rfl]; simp
        have m1 : (⟨Instance, some i⟩ : NodePtr) ∈ (if TMap.Contains M p.Guid then
            (env.AddState sm.Ptr ⟨Instance, some i⟩).log (.GuidAlreadyAdded ⟨Instance, some i⟩ p.Guid)
            else env.AddState sm.Ptr ⟨Instance, some i⟩).StatesOf sm.Ptr := by
          split
          · exact m0
          · exact m0
        have m2 : (⟨Instance, some i⟩ : NodePtr) ∈ e₂.StatesOf sm.Ptr := by
          cases hc : p.Struct.IsChildOfStateMachine with
          | true =>
            obtain ⟨r, hcall⟩ := hsm hc
            exact (hg _ _ _ _ hcall).1 _ _ m1
          | false => rw [hnsm hc]; exact m1
        have m3 : (⟨Instance, some i⟩ : NodePtr) ∈ (if p.bIsRootNode then
            e₂.AddInitialState sm.Ptr ⟨Instance, some i⟩ else e₂).StatesOf sm.Ptr := by
          split
          · exact m2
          · exact m2
        exact (states_grows gsm hg Instance sm _ _ _ _ _ hrest).1 _ _ m3
      · exact ih _ _ _ _ hrest x hx hs ho
    · rw [states_skip gsm Instance sm i p l env M hp] at h
      rcases List.mem_cons.mp hx with rfl | hx
      · exact absurd ⟨hs, ho⟩ hp
      · exact ih _ _ _ _ h x hx hs ho

/-- When the second pass returns true, every transition record owned by the state machine
is among its transitions. -/
theorem transitions_added (Instance : UObjectRef) (sm : FSMStateMachine) (M : TMap FGuid NodePtr) :
    ∀ (l : List (Nat × FSMNode)) (env : Env),
      (GenerateStateMachine.transitions Instance sm M l env).1 = true →
      ∀ x ∈ l, x.2.Struct.IsChildOfTransition = true → x.2.OwnerGuid = sm.Node.Guid →
        ⟨Instance, some x.1⟩ ∈
          (GenerateStateMachine.transitions Instance sm M l env).2.TransitionsOf sm.Ptr := by
  intro l
  induction l with
  | nil => intro env _ x hx; cases hx
  | cons a l ih =>
    obtain ⟨i, p⟩ := a
    intro env h x hx ht ho
    simp only [GenerateStateMachine.transitions] at h ⊢
    split at h
    · split at h
      · rename_i hne
        rw [if_pos (by assumption), if_pos hne]
        rcases List.mem_cons.mp hx with rfl | hx
        · exact absurd ho hne
        · exact ih _ h x hx ht ho
      · rename_i hne
        rw [if_pos (by assumption), if_neg hne]
        cases hF : TMap.Find M p.FromGuid with
        | none => simp [hF] at h
        | some F =>
          cases hT : TMap.Find M p.ToGuid with
          | none => simp [hF, hT] at h
          | some T =>
            simp only [hF, hT] at h ⊢
            rcases List.mem_cons.mp hx with rfl | hx
            · refine (transitions_grows Instance sm M l _).2 _ _ ?_
              have m0 : (⟨Instance, some i⟩ : NodePtr) ∈
                  (((env.SetFromState ⟨Instance, some i⟩ F).SetToState ⟨Instance, some i⟩
                    T).AddTransition sm.Ptr ⟨Instance, some i⟩).TransitionsOf sm.Ptr := by
                rw [TransitionsOf_AddTransition, if_pos rfl]; simp
              split
              · exact m0
              · exact m0
            · exact ih _ h x hx ht ho
    · rename_i hnt
      rw [if_neg hnt]
      rcases List.mem_cons.mp hx with rfl | hx
      · exact absurd ht hnt
      · exact ih _ h x hx ht ho

/-- Local assembly that returns has added every owned state record to the state machine,
and every owned transition record when it returns true. -/
theorem assemble_added (tid : Nat) (gsm : GenerateCall) (hg : GrowsOK gsm) (top : Bool)
    (env : Env) (Instance : UObjectRef) (sm : FSMStateMachine) (props : List FSMNode)
    (bDryRun : Bool) (r : Bool) (env' : Env)
    (h : GenerateStateMachine.assemble tid gsm top env Instance sm props bDryRun = some (r, env')) :
    (∀ i p, props[i]? = some p → p.Struct.IsChildOfState_Base = true →
      p.OwnerGuid = sm.Node.Guid → ⟨Instance, some i⟩ ∈ env'.StatesOf sm.Ptr) ∧
    (r = true → ∀ i p, props[i]? = some p → p.Struct.IsChildOfTransition = true →
      p.OwnerGuid = sm.Node.Guid → ⟨Instance, some i⟩ ∈ env'.TransitionsOf sm.Ptr) := by
  unfold GenerateStateMachine.assemble at h
  split at h
  · exact absurd h (by simp)
  · rename_i e₁ M hs
    have hg' : ∀ e n r e', gsm e Instance n props bDryRun = some (r, e') → e.Grows e' :=
      fun e n r e' h => hg e Instance n props bDryRun r e' h
    have a1 := states_added _ hg' Instance sm _ _ _ _ _ hs
    have g2 := transitions_grows Instance sm M props.enum e₁
    have a2 := transitions_added Instance sm M props.enum e₁
    split at h
    · rename_i e ht
      simp only [Option.some.injEq, Prod.mk.injEq] at h
      rw [ht] at g2
      refine ⟨fun i p hi hst ho => ?_, fun hr => by rw [← h.1] at hr; cases hr⟩
      rw [← h.2]
      exact g2.1 _ _ (a1 (i, p) (List.mk_mem_enum_iff_getElem?.mpr hi) hst ho)
    · rename_i e ht
      simp only [Option.some.injEq, Prod.mk.injEq] at h
      rw [ht] at g2 a2
      have g3 := (SameGraph_Finish top e tid).grows
      rw [← h.2]
      refine ⟨fun i p hi hst ho => ?_, fun _ i p hi htr ho => ?_⟩
      · exact g3.1 _ _ (g2.1 _ _ (a1 (i, p) (List.mk_mem_enum_iff_getElem?.mpr hi) hst ho))
      · exact g3.2 _ _ (a2 rfl (i, p) (List.mk_mem_enum_iff_getElem?.mpr hi) htr ho)

/-- C13: a call of `GenerateStateMachine` on a state machine that is not a reference node
returns (given enough call depth), and whatever its nested activations did, a nested state
machine with a dangling transition or a circular reference included: its result is true
exactly when its own transitions resolve, every state record it owns has been added to it,
and when it returns true every transition record it owns has been added to it. The result
of the local assembly is determined by the own transitions in the same way when the nested
activations are replaced by an arbitrary call. -/
theorem C13_nested_failure_is_local (w : World) (R ThreadId : Nat) (env : Env)
    (Instance : UObjectRef) (StateMachineOut : FSMStateMachine) (RunTimeProperties : List FSMNode)
    (bDryRun : Bool) (k depth : Nat)
    (hNoReference : StateMachineOut.Node.ClassReference = none)
    (hWorld : w.Nests R = true)
    (hNests : Nests k RunTimeProperties StateMachineOut.Node.Guid = true)
    (hDepth : env.Potential w ThreadId * (R + 2) + k + 1 ≤ depth) :
    (∃ r env', GenerateStateMachine w ThreadId depth env Instance StateMachineOut RunTimeProperties
        bDryRun = some (r, env') ∧
      (r = true ↔ TransitionsResolve RunTimeProperties StateMachineOut.Node.Guid) ∧
      (∀ i p, RunTimeProperties[i]? = some p → p.Struct.IsChildOfState_Base = true →
        p.OwnerGuid = StateMachineOut.Node.Guid →
        ⟨Instance, some i⟩ ∈ env'.StatesOf StateMachineOut.Ptr) ∧
      (r = true → ∀ i p, RunTimeProperties[i]? = some p → p.Struct.IsChildOfTransition = true →
        p.OwnerGuid = StateMachineOut.Node.Guid →
        ⟨Instance, some i⟩ ∈ env'.TransitionsOf StateMachineOut.Ptr)) ∧
    (∀ (Nested : GenerateCall) (bIsTopLevel : Bool) (e : Env) (r₁ : Bool) (e₁ : Env),
      GenerateStateMachine.assemble ThreadId Nested bIsTopLevel e Instance StateMachineOut
        RunTimeProperties bDryRun = some (r₁, e₁) →
      (r₁ = true ↔ TransitionsResolve RunTimeProperties StateMachineOut.Node.Guid)) := by
  refine ⟨?_, fun Nested top e r₁ e₁ h =>
    assemble_result ThreadId Nested top e Instance StateMachineOut RunTimeProperties bDryRun r₁ e₁ h⟩
  have hret := GenerateStateMachine_returns w R ThreadId hWorld depth env Instance StateMachineOut
    RunTimeProperties bDryRun k hNests hDepth
  cases hc : GenerateStateMachine w ThreadId depth env Instance StateMachineOut RunTimeProperties
      bDryRun with
  | none => simp [hc] at hret
  | some res =>
    obtain ⟨r, env'⟩ := res
    refine ⟨r, env', rfl, ?_⟩
    obtain ⟨d, rfl⟩ : ∃ d, depth = d + 1 := ⟨depth - 1, by omega⟩
    simp only [GenerateStateMachine, GenerateStateMachine.body, hNoReference] at hc
    exact ⟨assemble_result ThreadId _ _ _ Instance StateMachineOut RunTimeProperties bDryRun r env' hc,
      assemble_added ThreadId _ (GenerateStateMachine_grows w ThreadId d) _ _ Instance
        StateMachineOut RunTimeProperties bDryRun r env' hc⟩

/-- C13, at an instance: the root state machine owns two states, a transition between them
and a nested state machine whose only transition has a dangling to-state; the activation
on the nested state machine returns false, and the enclosing call returns true with its
later state and its transition added. -/
theorem C13_nested_failure_is_local_witness :
    (∃ e, GenerateStateMachine [] 0 2 (Env.initial [USMInstance.ofClass 0]) (.SMInstance 0)
        ⟨⟨.SMInstance 0, some 1⟩, FSMNode.stateMachine 3 1 none false⟩
        [FSMNode.state 2 1 true, FSMNode.stateMachine 3 1 none false, FSMNode.state 4 3 true,
          FSMNode.transition 5 3 4 9, FSMNode.state 6 1 false, FSMNode.transition 7 1 2 6]
        false = some (false, e)) ∧
    ∃ env', GenerateStateMachine [] 0 4 (Env.initial [USMInstance.ofClass 0]) (.SMInstance 0)
        (USMInstance.RootStateMachine (UClassDef.ofProperties 1 []) 0)
        [FSMNode.state 2 1 true, FSMNode.stateMachine 3 1 none false, FSMNode.state 4 3 true,
          FSMNode.transition 5 3 4 9, FSMNode.state 6 1 false, FSMNode.transition 7 1 2 6]
        false = some (true, env') ∧
      ⟨.SMInstance 0, some 4⟩ ∈ env'.StatesOf ⟨.SMInstance 0, none⟩ ∧
      ⟨.SMInstance 0, some 5⟩ ∈ env'.TransitionsOf ⟨.SMInstance 0, none⟩ := by
  refine ⟨⟨_, rfl⟩, ?_⟩
  obtain ⟨r, env', hrun, _, hst, htr⟩ :=
    (C13_nested_failure_is_local [] 0 0 (Env.initial [USMInstance.ofClass 0]) (.SMInstance 0)
      (USMInstance.RootStateMachine (UClassDef.ofProperties 1 []) 0)
      [FSMNode.state 2 1 true, FSMNode.stateMachine 3 1 none false, FSMNode.state 4 3 true,
        FSMNode.transition 5 3 4 9, FSMNode.state 6 1 false, FSMNode.transition 7 1 2 6]
      false 2 4 rfl (by decide) (by decide) (by decide)).1
  have hr : (GenerateStateMachine [] 0 4 (Env.initial [USMInstance.ofClass 0]) (.SMInstance 0)
      (USMInstance.RootStateMachine (UClassDef.ofProperties 1 []) 0)
      [FSMNode.state 2 1 true, FSMNode.stateMachine 3 1 none false, FSMNode.state 4 3 true,
        FSMNode.transition 5 3 4 9, FSMNode.state 6 1 false, FSMNode.transition 7 1 2 6]
      false).map Prod.fst = some true := rfl
  rw [hrun] at hr
  simp only [Option.map_some', Option.some.injEq] at hr
  subst hr
  exact ⟨env', hrun, hst 4 _ rfl rfl rfl, htr rfl 5 _ rfl rfl rfl⟩

/-! ## A loop rule indexed by the records processed -/

/-- A relation indexed by the records processed holds across the first pass when it holds
for the empty segment, composes, holds at every record that is skipped, and holds at every
owned state record for what the pass does there. -/
theorem states_seg (R : List (Nat × FSMNode) → Env → Env → Prop) (Pre : Env → Prop)
    (gsm : Env → FSMStateMachine → Option (Bool × Env)) (Instance : UObjectRef)
    (sm : FSMStateMachine)
    (hnil : ∀ e, R [] e e)
    (hcons : ∀ x s a b c, R [x] a b → R s b c → R (x :: s) a c)
    (hPre : ∀ x a b, Pre a → R [x] a b → Pre b)
    (hskip : ∀ i p e,
      ¬ (p.Struct.IsChildOfState_Base = true ∧ p.OwnerGuid = sm.Node.Guid) → R [(i, p)] e e)
    (hown : ∀ i p e e₁ e₂, Pre e → p.Struct.IsChildOfState_Base = true →
      p.OwnerGuid = sm.Node.Guid →
      (e₁ = e.AddState sm.Ptr ⟨Instance, some i⟩ ∨
        ∃ m, e₁ = (e.AddState sm.Ptr ⟨Instance, some i⟩).log m) →
      (p.Struct.IsChildOfStateMachine = true →
        ∃ r, gsm e₁ ⟨⟨Instance, some i⟩, p⟩ = some (r, e₂)) →
      (p.Struct.IsChildOfStateMachine = false → e₂ = e₁) →
      R [(i, p)] e (if p.bIsRootNode then e₂.AddInitialState sm.Ptr ⟨Instance, some i⟩ else e₂)) :
    ∀ (l : List (Nat × FSMNode)) (env : Env) (M : TMap FGuid NodePtr) (env' : Env)
      (M' : TMap FGuid NodePtr), Pre env →
      GenerateStateMachine.states gsm Instance sm l env M = some (env', M') → R l env env' := by
  intro l
  induction l with
  | nil =>
    intro env M env' M' _ h
    simp only [GenerateStateMachine.states, Option.some.injEq, Prod.mk.injEq] at h
    rw [← h.1]; exact hnil env
  | cons a l ih =>
    obtain ⟨i, p⟩ := a
    intro env M env' M' hpre h
    by_cases hp : p.Struct.IsChildOfState_Base = true ∧ p.OwnerGuid = sm.Node.Guid
    · obtain ⟨e₂, hsm, hnsm, hrest⟩ := states_owned gsm Instance sm i p l env M env' M' hp.1 hp.2 h
      have r1 := hown i p env _ e₂ hpre hp.1 hp.2 (by
        split
        · exact Or.inr ⟨_, rfl⟩
        · exact Or.inl rfl) hsm hnsm
      exact hcons _ _ _ _ _ r1 (ih _ _ _ _ (hPre _ _ _ hpre r1) hrest)
    · rw [states_skip gsm Instance sm i p l env M hp] at h
      exact hcons _ _ _ _ _ (hskip i p env hp) (ih _ _ _ _ hpre h)

/-- The second pass at a record that is not a transition owned by the state machine. -/
theorem transitions_skip (Instance : UObjectRef) (sm : FSMStateMachine) (M : TMap FGuid NodePtr)
    (i : Nat) (p : FSMNode) (rest : List (Nat × FSMNode)) (env : Env)
    (h : ¬ (p.Struct.IsChildOfTransition = true ∧ p.OwnerGuid = sm.Node.Guid)) :
    GenerateStateMachine.transitions Instance sm M ((i, p) :: rest) env =
      GenerateStateMachine.transitions Instance sm M rest env := by
  simp only [GenerateStateMachine.transitions]
  split
  · rename_i hs
    split
    · rfl
    · rename_i ho
      exact absurd ⟨hs, not_not.mp ho⟩ h
  · rfl

/-- The second pass at an owned transition record whose endpoints are mapped. -/
theorem transitions_owned (Instance : UObjectRef) (sm : FSMStateMachine) (M : TMap FGuid NodePtr)
    (i : Nat) (p : FSMNode) (rest : List (Nat × FSMNode)) (env : Env) (F T : NodePtr)
    (ht : p.Struct.IsChildOfTransition = true) (ho : p.OwnerGuid = sm.Node.Guid)
    (hF : TMap.Find M p.FromGuid = some F) (hT : TMap.Find M p.ToGuid = some T) :
    GenerateStateMachine.transitions Instance sm M ((i, p) :: rest) env =
      GenerateStateMachine.transitions Instance sm M rest
        (if TMap.Contains M p.Guid then
          (((env.SetFromState ⟨Instance, some i⟩ F).SetToState ⟨Instance, some i⟩ T).AddTransition
            sm.Ptr ⟨Instance, some i⟩).log (.GuidAlreadyAdded ⟨Instance, some i⟩ p.Guid)
        else ((env.SetFromState ⟨Instance, some i⟩ F).SetToState ⟨Instance, some i⟩ T).AddTransition
          sm.Ptr ⟨Instance, some i⟩) := by
  simp only [GenerateStateMachine.transitions, ht, if_true, ho, ne_eq, not_true_eq_false, if_false,
    hF, hT]

/-- The second pass returns false at an owned transition record with an unmapped endpoint. -/
theorem transitions_dangling (Instance : UObjectRef) (sm : FSMStateMachine)
    (M : TMap FGuid NodePtr) (i : Nat) (p : FSMNode) (rest : List (Nat × FSMNode)) (env : Env)
    (ht : p.Struct.IsChildOfTransition = true) (ho : p.OwnerGuid = sm.Node.Guid)
    (h : TMap.Find M p.FromGuid = none ∨ TMap.Find M p.ToGuid = none) :
    (GenerateStateMachine.transitions Instance sm M ((i, p) :: rest) env).1 = false := by
  simp only [GenerateStateMachine.transitions, ht, if_true, ho, ne_eq, not_true_eq_false, if_false]
  cases hF : TMap.Find M p.FromGuid with
  | none => rfl
  | some F =>
    cases hT : TMap.Find M p.ToGuid with
    | none => rfl
    | some T => rcases h with h | h <;> simp_all

/-! ## The state map of the first pass, and the wiring of the second pass -/

/-- After the first pass the state map sends a GUID that the owned state records of the
pass carry at one index only to the state at that index. -/
theorem states_find (gsm : Env → FSMStateMachine → Option (Bool × Env)) (Instance : UObjectRef)
    (sm : FSMStateMachine) (g : FGuid) (a : Nat) :
    ∀ (l : List (Nat × FSMNode)) (env : Env) (M : TMap FGuid NodePtr) (env' : Env)
      (M' : TMap FGuid NodePtr),
      GenerateStateMachine.states gsm Instance sm l env M = some (env', M') →
      (∀ x ∈ l, x.2.Struct.IsChildOfState_Base = true → x.2.OwnerGuid = sm.Node.Guid →
        x.2.Guid = g → x.1 = a) →
      ((∃ x ∈ l, x.2.Struct.IsChildOfState_Base = true ∧ x.2.OwnerGuid = sm.Node.Guid ∧
          x.2.Guid = g) ∨ TMap.Find M g = some ⟨Instance, some a⟩) →
      TMap.Find M' g = some ⟨Instance, some a⟩ := by
  intro l
  induction l with
  | nil =>
    intro env M env' M' h _ hor
    simp only [GenerateStateMachine.states, Option.some.injEq, Prod.mk.injEq] at h
    rcases hor with ⟨x, hx, _⟩ | hf
    · cases hx
    · rw [← h.2]; exact hf
  | cons b l ih =>
    obtain ⟨i, p⟩ := b
    intro env M env' M' h hu hor
    have hu' : ∀ x ∈ l, x.2.Struct.IsChildOfState_Base = true → x.2.OwnerGuid = sm.Node.Guid →
        x.2.Guid = g → x.1 = a := fun x hx => hu x (List.mem_cons_of_mem _ hx)
    by_cases hp : p.Struct.IsChildOfState_Base = true ∧ p.OwnerGuid = sm.Node.Guid
    · obtain ⟨e₂, _, _, hrest⟩ := states_owned gsm Instance sm i p l env M env' M' hp.1 hp.2 h
      refine ih _ _ _ _ hrest hu' ?_
      by_cases hg : p.Guid = g
      · have hi : i = a := hu (i, p) (List.mem_cons_self _ _) hp.1 hp.2 hg
        right
        rw [TMap.Find_Add, if_pos hg, hi]
      · rcases hor with ⟨x, hx, h1, h2, h3⟩ | hf
        · rcases List.mem_cons.mp hx with rfl | hx
          · exact absurd h3 hg
          · exact Or.inl ⟨x, hx, h1, h2, h3⟩
        · right
          rw [TMap.Find_Add, if_neg hg]; exact hf
    · rw [states_skip gsm Instance sm i p l env M hp] at h
      refine ih _ _ _ _ h hu' ?_
      rcases hor with ⟨x, hx, h1, h2, h3⟩ | hf
      · rcases List.mem_cons.mp hx with rfl | hx
        · exact absurd ⟨h1, h2⟩ hp
        · exact Or.inl ⟨x, hx, h1, h2, h3⟩
      · exact Or.inr hf

/-- The second pass leaves the endpoints of every transition it does not process as they
were. -/
theorem transitions_keep (Instance : UObjectRef) (sm : FSMStateMachine) (M : TMap FGuid NodePtr)
    (y : Nat) :
    ∀ (l : List (Nat × FSMNode)) (env : Env), y ∉ l.map Prod.fst →
      TMap.Find (GenerateStateMachine.transitions Instance sm M l env).2.FromState
          ⟨Instance, some y⟩ = TMap.Find env.FromState ⟨Instance, some y⟩ ∧
      TMap.Find (GenerateStateMachine.transitions Instance sm M l env).2.ToState
          ⟨Instance, some y⟩ = TMap.Find env.ToState ⟨Instance, some y⟩ := by
  intro l
  induction l with
  | nil => intro env _; exact ⟨rfl, rfl⟩
  | cons b l ih =>
    obtain ⟨i, p⟩ := b
    intro env hy
    have hne : i ≠ y := fun h => hy (by simp [h])
    have hy' : y ∉ l.map Prod.fst := fun h => hy (by simp only [List.map_cons]; exact List.mem_cons_of_mem _ h)
    by_cases hp : p.Struct.IsChildOfTransition = true ∧ p.OwnerGuid = sm.Node.Guid
    · cases hF : TMap.Find M p.FromGuid with
      | none =>
        simp only [GenerateStateMachine.transitions, hp.1, if_true, hp.2, ne_eq, not_true_eq_false,
          if_false, hF]
        exact ⟨rfl, rfl⟩
      | some F =>
        cases hT : TMap.Find M p.ToGuid with
        | none =>
          simp only [GenerateStateMachine.transitions, hp.1, if_true, hp.2, ne_eq,
            not_true_eq_false, if_false, hF, hT]
          exact ⟨rfl, rfl⟩
        | some T =>
          rw [transitions_owned Instance sm M i p l env F T hp.1 hp.2 hF hT]
          have hptr : (⟨Instance, some i⟩ : NodePtr) ≠ ⟨Instance, some y⟩ := by
            intro h; injection h with _ h2; injection h2 with h3; exact hne h3
          obtain ⟨k1, k2⟩ := ih (if TMap.Contains M p.Guid then
              (((env.SetFromState ⟨Instance, some i⟩ F).SetToState ⟨Instance, some i⟩
                T).AddTransition sm.Ptr ⟨Instance, some i⟩).log
                  (.GuidAlreadyAdded ⟨Instance, some i⟩ p.Guid)
            else ((env.SetFromState ⟨Instance, some i⟩ F).SetToState ⟨Instance, some i⟩
              T).AddTransition sm.Ptr ⟨Instance, some i⟩) hy'
          rw [k1, k2]
          constructor
          · split <;>
              (show TMap.Find (TMap.Add env.FromState _ _) _ = _
               exact TMap.Find_Add_ne _ _ hptr)
          · split <;>
              (show TMap.Find (TMap.Add env.ToState _ _) _ = _
               exact TMap.Find_Add_ne _ _ hptr)
    · rw [transitions_skip Instance sm M i p l env hp]
      exact ih env hy'

/-- When the second pass returns true, every owned transition record it processed has the
states the state map holds for its `FromGuid` and `ToGuid` as endpoints. -/
theorem transitions_wired (Instance : UObjectRef) (sm : FSMStateMachine) (M : TMap FGuid NodePtr) :
    ∀ (l : List (Nat × FSMNode)) (env : Env), (l.map Prod.fst).Nodup →
      (GenerateStateMachine.transitions Instance sm M l env).1 = true →
      ∀ x ∈ l, x.2.Struct.IsChildOfTransition = true → x.2.OwnerGuid = sm.Node.Guid →
        TMap.Find (GenerateStateMachine.transitions Instance sm M l env).2.FromState
            ⟨Instance, some x.1⟩ = TMap.Find M x.2.FromGuid ∧
        TMap.Find (GenerateStateMachine.transitions Instance sm M l env).2.ToState
            ⟨Instance, some x.1⟩ = TMap.Find M x.2.ToGuid := by
  intro l
  induction l with
  | nil => intro env _ _ x hx; cases hx
  | cons b l ih =>
    obtain ⟨i, p⟩ := b
    intro env hnd h x hx ht ho
    simp only [List.map_cons, List.nodup_cons] at hnd
    by_cases hp : p.Struct.IsChildOfTransition = true ∧ p.OwnerGuid = sm.Node.Guid
    · cases hF : TMap.Find M p.FromGuid with
      | none => rw [transitions_dangling Instance sm M i p l env hp.1 hp.2 (Or.inl hF)] at h; cases h
      | some F =>
        cases hT : TMap.Find M p.ToGuid with
        | none =>
          rw [transitions_dangling Instance sm M i p l env hp.1 hp.2 (Or.inr hT)] at h; cases h
        | some T =>
          rw [transitions_owned Instance sm M i p l env F T hp.1 hp.2 hF hT] at h ⊢
          rcases List.mem_cons.mp hx with rfl | hx
          · obtain ⟨k1, k2⟩ := transitions_keep Instance sm M i l (if TMap.Contains M p.Guid then
                (((env.SetFromState ⟨Instance, some i⟩ F).SetToState ⟨Instance, some i⟩
                  T).AddTransition sm.Ptr ⟨Instance, some i⟩).log
                    (.GuidAlreadyAdded ⟨Instance, some i⟩ p.Guid)
              else ((env.SetFromState ⟨Instance, some i⟩ F).SetToState ⟨Instance, some i⟩
                T).AddTransition sm.Ptr ⟨Instance, some i⟩) hnd.1
            rw [k1, k2, hF, hT]
            constructor
            · split <;>
                (show TMap.Find (TMap.Add env.FromState _ _) _ = _
                 exact TMap.Find_Add_self _ _ _)
            · split <;>
                (show TMap.Find (TMap.Add env.ToState _ _) _ = _
                 exact TMap.Find_Add_self _ _ _)
          · exact ih _ hnd.2 h x hx ht ho
    · rw [transitions_skip Instance sm M i p l env hp] at h ⊢
      rcases List.mem_cons.mp hx with rfl | hx
      · exact absurd ⟨ht, ho⟩ hp
      · exact ih _ hnd.2 h x hx ht ho

/-- A relation indexed by the records processed holds across the second pass when it holds
for the empty segment, composes, holds at every record that is skipped, at every owned
transition record that is wired, and where the pass returns early. -/
theorem transitions_seg (R : List (Nat × FSMNode) → Env → Env → Prop) (Instance : UObjectRef)
    (sm : FSMStateMachine) (M : TMap FGuid NodePtr)
    (hnil : ∀ e, R [] e e)
    (hcons : ∀ x s a b c, R [x] a b → R s b c → R (x :: s) a c)
    (hskip : ∀ i p e,
      ¬ (p.Struct.IsChildOfTransition = true ∧ p.OwnerGuid = sm.Node.Guid) → R [(i, p)] e e)
    (hown : ∀ i p e e₁ F T, p.Struct.IsChildOfTransition = true → p.OwnerGuid = sm.Node.Guid →
      TMap.Find M p.FromGuid = some F → TMap.Find M p.ToGuid = some T →
      (e₁ = ((e.SetFromState ⟨Instance, some i⟩ F).SetToState ⟨Instance, some i⟩ T).AddTransition
          sm.Ptr ⟨Instance, some i⟩ ∨
        ∃ m, e₁ = (((e.SetFromState ⟨Instance, some i⟩ F).SetToState ⟨Instance, some i⟩
          T).AddTransition sm.Ptr ⟨Instance, some i⟩).log m) →
      R [(i, p)] e e₁)
    (hfail : ∀ x s e m, R (x :: s) e (e.log m)) :
    ∀ (l : List (Nat × FSMNode)) (env : Env),
      R l env (GenerateStateMachine.transitions Instance sm M l env).2 := by
  intro l
  induction l with
  | nil => intro env; exact hnil env
  | cons b l ih =>
    obtain ⟨i, p⟩ := b
    intro env
    by_cases hp : p.Struct.IsChildOfTransition = true ∧ p.OwnerGuid = sm.Node.Guid
    · cases hF : TMap.Find M p.FromGuid with
      | none =>
        simp only [GenerateStateMachine.transitions, hp.1, if_true, hp.2, ne_eq, not_true_eq_false,
          if_false, hF]
        exact hfail _ _ _ _
      | some F =>
        cases hT : TMap.Find M p.ToGuid with
        | none =>
          simp only [GenerateStateMachine.transitions, hp.1, if_true, hp.2, ne_eq,
            not_true_eq_false, if_false, hF, hT]
          exact hfail _ _ _ _
        | some T =>
          rw [transitions_owned Instance sm M i p l env F T hp.1 hp.2 hF hT]
          refine hcons _ _ _ _ _ (hown i p env _ F T hp.1 hp.2 hF hT ?_) (ih _)
          split
          · exact Or.inr ⟨_, rfl⟩
          · exact Or.inl rfl
    · rw [transitions_skip Instance sm M i p l env hp]
      exact hcons _ _ _ _ _ (hskip i p env hp) (ih env)

theorem OwnedOnly.ownSame (props : List FSMNode) (Instance : UObjectRef) (P : NodePtr)
    (g : FGuid) (env : Env) : OwnedOnly props Instance P g env env :=
  fun _ _ _ hx => Or.inl hx

theorem OwnedOnly.ownThen {props : List FSMNode} {Instance : UObjectRef} {P : NodePtr}
    {g : FGuid} {a b c : Env} (h₁ : OwnedOnly props Instance P g a b)
    (h₂ : OwnedOnly props Instance P g b c) : OwnedOnly props Instance P g a c := by
  intro q hq x hx
  rcases h₂ q hq x hx with h | h
  · exact h₁ q hq x h
  · exact Or.inr h

theorem OwnedOnly.of_transitions {props : List FSMNode} {Instance : UObjectRef} {P : NodePtr}
    {g : FGuid} {a b : Env} (h : b.Transitions = a.Transitions) :
    OwnedOnly props Instance P g a b := by
  intro q _ x hx
  left
  unfold Env.TransitionsOf at hx ⊢
  rw [← h]; exact hx

theorem OwnedOnly.of_sameAt {props : List FSMNode} {Instance : UObjectRef} {P : NodePtr}
    {g : FGuid} {a b : Env} (h : ∀ q, q.Container = Instance → a.SameAt q b) :
    OwnedOnly props Instance P g a b := by
  intro q hq x hx
  left
  unfold Env.TransitionsOf at hx ⊢
  rw [← (h q hq).2.2]; exact hx

theorem assemble_owned (props : List FSMNode) (Instance : UObjectRef) (tid : Nat)
    (gsm : GenerateCall) (hg : OwnedOK props Instance gsm) (top : Bool) (env : Env)
    (sm : FSMStateMachine) (bDryRun : Bool) (r : Bool) (env' : Env) (n : Nat)
    (hn : n ≤ env.Instances.length) (hl : Instance.Live n)
    (h : GenerateStateMachine.assemble tid gsm top env Instance sm props bDryRun = some (r, env')) :
    env.Instances.length ≤ env'.Instances.length ∧
      OwnedOnly props Instance sm.Ptr sm.Node.Guid env env' := by
  unfold GenerateStateMachine.assemble at h
  cases hs : GenerateStateMachine.states (fun env Nested => gsm env Instance Nested props bDryRun)
      Instance sm props.enum env [] with
  | none => simp [hs] at h
  | some res =>
    obtain ⟨e₁, M⟩ := res
    have hmem : ∀ x ∈ props.enum, props[x.1]? = some x.2 :=
      fun x hx => List.mk_mem_enum_iff_getElem?.mp hx
    have q1 := states_seg
      (fun S a b => a.Instances.length ≤ b.Instances.length ∧
        ((∀ x ∈ S, props[x.1]? = some x.2) → OwnedOnly props Instance sm.Ptr sm.Node.Guid a b))
      (fun e => n ≤ e.Instances.length)
      (fun env Nested => gsm env Instance Nested props bDryRun) Instance sm
      (fun e => ⟨le_refl _, fun _ => OwnedOnly.ownSame _ _ _ _ e⟩)
      (fun x s a b c h₁ h₂ => ⟨le_trans h₁.1 h₂.1, fun hm =>
        (h₁.2 (fun y hy => hm y (by rw [List.mem_singleton.mp hy]; exact List.mem_cons_self _ _))).ownThen
          (h₂.2 (fun y hy => hm y (List.mem_cons_of_mem _ hy)))⟩)
      (fun x a b ha hr => le_trans ha hr.1)
      (fun i p e _ => ⟨le_refl _, fun _ => OwnedOnly.ownSame _ _ _ _ e⟩)
      (by
        intro i p e e₁ e₂ hpre hst ho he₁ hsm hnsm
        have hI₁ : e₁.Instances = e.Instances := by
          rcases he₁ with h | ⟨m, h⟩ <;> rw [h] <;> rfl
        have hT₁ : e₁.Transitions = e.Transitions := by
          rcases he₁ with h | ⟨m, h⟩ <;> rw [h] <;> rfl
        have o1 : OwnedOnly props Instance sm.Ptr sm.Node.Guid e e₁ := OwnedOnly.of_transitions hT₁
        have key : e.Instances.length ≤ e₂.Instances.length ∧
            (props[i]? = some p → OwnedOnly props Instance sm.Ptr sm.Node.Guid e e₂) := by
          cases hc : p.Struct.IsChildOfStateMachine with
          | true =>
            obtain ⟨r₁, hcall⟩ := hsm hc
            obtain ⟨hlen, hO⟩ := hg n e₁ ⟨⟨Instance, some i⟩, p⟩ bDryRun r₁ e₂
              (by rw [hI₁]; exact hpre) hl hcall
            refine ⟨by rw [← hI₁]; exact hlen, fun hip => o1.ownThen ?_⟩
            intro q hq x hx
            rcases hO q hq x hx with h | ⟨a, t, hxa, hat, htr, h⟩
            · exact Or.inl h
            · refine Or.inr ⟨a, t, hxa, hat, htr, Or.inr ?_⟩
              rcases h with ⟨hqp, hog⟩ | h
              · exact ⟨i, p, hqp, hip, hog.symm⟩
              · exact h
          | false => rw [hnsm hc, hI₁]; exact ⟨le_refl _, fun _ => o1⟩
        refine ⟨?_, fun hm => ?_⟩
        · split
          · exact key.1
          · exact key.1
        · have k2 := key.2 (hm (i, p) (List.mem_singleton.mpr rfl))
          split
          · exact k2.ownThen (OwnedOnly.of_transitions rfl)
          · exact k2)
      props.enum env [] e₁ M hn hs
    have q2 := transitions_seg
      (fun S a b => b.Instances = a.Instances ∧
        ((∀ x ∈ S, props[x.1]? = some x.2) → OwnedOnly props Instance sm.Ptr sm.Node.Guid a b))
      Instance sm M
      (fun e => ⟨rfl, fun _ => OwnedOnly.ownSame _ _ _ _ e⟩)
      (fun x s a b c h₁ h₂ => ⟨h₂.1.trans h₁.1, fun hm =>
        (h₁.2 (fun y hy => hm y (by rw [List.mem_singleton.mp hy]; exact List.mem_cons_self _ _))).ownThen
          (h₂.2 (fun y hy => hm y (List.mem_cons_of_mem _ hy)))⟩)
      (fun i p e _ => ⟨rfl, fun _ => OwnedOnly.ownSame _ _ _ _ e⟩)
      (by
        intro i p e e₁ F T htr ho _ _ he₁
        have hI₁ : e₁.Instances = e.Instances := by
          rcases he₁ with h | ⟨m, h⟩ <;> rw [h] <;> rfl
        have hT₁ : ∀ q, e₁.TransitionsOf q =
            if sm.Ptr = q then e.TransitionsOf q ++ [⟨Instance, some i⟩] else e.TransitionsOf q := by
          intro q
          rcases he₁ with h | ⟨m, h⟩ <;> rw [h] <;>
            exact TransitionsOf_AddTransition _ _ _ q
        refine ⟨hI₁, fun hm q hq x hx => ?_⟩
        rw [hT₁ q] at hx
        split at hx
        · rename_i hP
          rcases List.mem_append.mp hx with h | h
          · exact Or.inl h
          · exact Or.inr ⟨i, p, List.mem_singleton.mp h, hm (i, p) (List.mem_singleton.mpr rfl),
              htr, Or.inl ⟨hP.symm, ho⟩⟩
        · exact Or.inl hx)
      (fun x s e m => ⟨rfl, fun _ => OwnedOnly.of_transitions rfl⟩)
      props.enum e₁
    simp only [hs] at h
    split at h
    · rename_i e ht
      simp only [Option.some.injEq, Prod.mk.injEq] at h
      rw [ht] at q2
      rw [← h.2]
      exact ⟨by rw [q2.1]; exact q1.1, (q1.2 hmem).ownThen (q2.2 hmem)⟩
    · rename_i e ht
      simp only [Option.some.injEq, Prod.mk.injEq] at h
      rw [ht] at q2
      rw [← h.2]
      exact ⟨by rw [Finish_Instances, q2.1]; exact q1.1,
        ((q1.2 hmem).ownThen (q2.2 hmem)).ownThen
          (OwnedOnly.of_transitions (SameGraph_Finish top e tid).2.2.1)⟩

theorem body_owned (w : World) (props : List FSMNode) (Instance : UObjectRef) (tid : Nat)
    (gsm : GenerateCall) (hT : TouchOK gsm) (hg : OwnedOK props Instance gsm) :
    OwnedOK props Instance (GenerateStateMachine.body w tid gsm) := by
  intro n env sm bDryRun r env' hn hl h
  have h0 := SameGraph_FindOrAddGeneration env tid
  have hI0 : (env.FindOrAddGeneration tid).Instances = env.Instances := by simp
  unfold GenerateStateMachine.body at h
  dsimp only at h
  have hlocal : GenerateStateMachine.assemble tid gsm
      (!TMap.Contains env.StateMachinesGeneratingForThread tid) (env.FindOrAddGeneration tid)
      Instance sm props bDryRun = some (r, env') →
      env.Instances.length ≤ env'.Instances.length ∧
        OwnedOnly props Instance sm.Ptr sm.Node.Guid env env' := by
    intro h
    obtain ⟨h1, h2⟩ := assemble_owned props Instance tid gsm hg _ _ sm bDryRun r env' n
      (by rw [hI0]; exact hn) hl h
    exact ⟨by rw [← hI0]; exact h1, (OwnedOnly.of_transitions h0.2.2.1).ownThen h2⟩
  cases hcr : sm.Node.ClassReference with
  | none => simp only [hcr] at h; exact hlocal h
  | some cls =>
    cases Instance with
    | Object o => simp only [hcr] at h; exact hlocal h
    | SMInstance K =>
      simp only [hcr] at h
      obtain ⟨h1, h2⟩ := reference_touch w tid gsm hT _ _ K sm cls bDryRun r env' n
        (by rw [hI0]; exact hn) h
      refine ⟨by rw [← hI0]; exact h1, (OwnedOnly.of_transitions h0.2.2.1).ownThen
        (OwnedOnly.of_sameAt (fun q hq => h2 q ?_))⟩
      intro J hJ
      exact hl J (by rw [← hq, hJ])

theorem GenerateStateMachine_owned (w : World) (props : List FSMNode) (Instance : UObjectRef)
    (tid : Nat) : ∀ depth, OwnedOK props Instance (GenerateStateMachine w tid depth) := by
  intro depth
  induction depth with
  | zero => intro n env sm bDryRun r env' _ _ h; simp [GenerateStateMachine] at h
  | succ d ih => exact body_owned w props Instance tid _ (GenerateStateMachine_touch w tid d) ih

/-- Local assembly that returns true, over owned state records with pairwise distinct
GUIDs, has wired every owned transition record to the owned states its `FromGuid` and
`ToGuid` name. -/
theorem assemble_wired (tid : Nat) (gsm : GenerateCall) (top : Bool) (env : Env)
    (Instance : UObjectRef) (sm : FSMStateMachine) (props : List FSMNode) (bDryRun : Bool)
    (env' : Env)
    (hUnique : ∀ (i j : Nat) (p q : FSMNode), props[i]? = some p → props[j]? = some q →
      p.Struct.IsChildOfState_Base = true → q.Struct.IsChildOfState_Base = true →
      p.OwnerGuid = sm.Node.Guid → q.OwnerGuid = sm.Node.Guid → p.Guid = q.Guid → i = j)
    (h : GenerateStateMachine.assemble tid gsm top env Instance sm props bDryRun =
      some (true, env')) :
    ∀ i t, props[i]? = some t → t.Struct.IsChildOfTransition = true →
      t.OwnerGuid = sm.Node.Guid →
      (∃ a s, props[a]? = some s ∧ s.Struct.IsChildOfState_Base = true ∧
        s.OwnerGuid = sm.Node.Guid ∧ s.Guid = t.FromGuid ∧
        TMap.Find env'.FromState ⟨Instance, some i⟩ = some ⟨Instance, some a⟩) ∧
      (∃ b s, props[b]? = some s ∧ s.Struct.IsChildOfState_Base = true ∧
        s.OwnerGuid = sm.Node.Guid ∧ s.Guid = t.ToGuid ∧
        TMap.Find env'.ToState ⟨Instance, some i⟩ = some ⟨Instance, some b⟩) := by
  unfold GenerateStateMachine.assemble at h
  split at h
  · exact absurd h (by simp)
  · rename_i e₁ M hs
    have hM := states_mapped _ Instance sm _ _ _ _ _ hs
    have hres := transitions_result Instance sm M props.enum e₁
    have hnd : (props.enum.map Prod.fst).Nodup := by
      rw [List.enum_map_fst]; exact List.nodup_range _
    have hw := transitions_wired Instance sm M props.enum e₁ hnd
    have hfind : ∀ g, TMap.Contains M g = true →
        ∃ a s, props[a]? = some s ∧ s.Struct.IsChildOfState_Base = true ∧
          s.OwnerGuid = sm.Node.Guid ∧ s.Guid = g ∧ TMap.Find M g = some ⟨Instance, some a⟩ := by
      intro g hg
      rcases (hM g).mp hg with h0 | ⟨x, hx, h1, h2, h3⟩
      · simp [TMap.Contains, TMap.Find] at h0
      · have hxa := List.mk_mem_enum_iff_getElem?.mp hx
        refine ⟨x.1, x.2, hxa, h1, h2, h3, ?_⟩
        refine states_find _ Instance sm g x.1 _ _ _ _ _ hs ?_ (Or.inl ⟨x, hx, h1, h2, h3⟩)
        intro y hy k1 k2 k3
        exact hUnique y.1 x.1 y.2 x.2 (List.mk_mem_enum_iff_getElem?.mp hy) hxa k1 h1 k2 h2
          (k3.trans h3.symm)
    split at h
    · rename_i e ht
      simp at h
    · rename_i e ht
      simp only [Option.some.injEq, Prod.mk.injEq, true_and] at h
      rw [ht] at hres hw
      have hall := hres.mp rfl
      intro i t hi htr ho
      have hx : (i, t) ∈ props.enum := List.mk_mem_enum_iff_getElem?.mpr hi
      obtain ⟨c1, c2⟩ := hall (i, t) hx htr ho
      obtain ⟨w1, w2⟩ := hw rfl (i, t) hx htr ho
      have hsame := SameGraph_Finish top e tid
      rw [h] at hsame
      obtain ⟨a, s, p1, p2, p3, p4, p5⟩ := hfind _ c1
      obtain ⟨b, s', q1, q2, q3, q4, q5⟩ := hfind _ c2
      refine ⟨⟨a, s, p1, p2, p3, p4, ?_⟩, ⟨b, s', q1, q2, q3, q4, ?_⟩⟩
      · rw [hsame.2.2.2.1]; exact w1.trans p5
      · rw [hsame.2.2.2.2]; exact w2.trans q5

/-- C12: after `GenerateStateMachine` returns true for a state machine that is not a
reference node and whose owned state records have pairwise distinct GUIDs, every transition
record it owns is among its transitions, with the owned state whose GUID is the `FromGuid`
as from-state and the owned state whose GUID is the `ToGuid` as to-state; and where the
state machine is the root state machine of the live object assembled or the node of one of
the records, every transition it gained is a transition record it owns. -/
theorem C12_transitions_wired (w : World) (ThreadId depth : Nat) (env : Env)
    (Instance : UObjectRef) (StateMachineOut : FSMStateMachine) (RunTimeProperties : List FSMNode)
    (bDryRun : Bool) (env' : Env)
    (hNoReference : StateMachineOut.Node.ClassReference = none)
    (hUnique : ∀ (i j : Nat) (p q : FSMNode), RunTimeProperties[i]? = some p → RunTimeProperties[j]? = some q →
      p.Struct.IsChildOfState_Base = true → q.Struct.IsChildOfState_Base = true →
      p.OwnerGuid = StateMachineOut.Node.Guid → q.OwnerGuid = StateMachineOut.Node.Guid →
      p.Guid = q.Guid → i = j)
    (hPtr : StateMachineOut.Ptr = ⟨Instance, none⟩ ∨
      ∃ j, StateMachineOut.Ptr = ⟨Instance, some j⟩ ∧
        RunTimeProperties[j]? = some StateMachineOut.Node)
    (hLive : Instance.Live env.Instances.length)
    (hRun : GenerateStateMachine w ThreadId depth env Instance StateMachineOut RunTimeProperties
      bDryRun = some (true, env')) :
    (∀ i t, RunTimeProperties[i]? = some t → t.Struct.IsChildOfTransition = true →
      t.OwnerGuid = StateMachineOut.Node.Guid →
      ⟨Instance, some i⟩ ∈ env'.TransitionsOf StateMachineOut.Ptr ∧
      (∃ a s, RunTimeProperties[a]? = some s ∧ s.Struct.IsChildOfState_Base = true ∧
        s.OwnerGuid = StateMachineOut.Node.Guid ∧ s.Guid = t.FromGuid ∧
        TMap.Find env'.FromState ⟨Instance, some i⟩ = some ⟨Instance, some a⟩) ∧
      (∃ b s, RunTimeProperties[b]? = some s ∧ s.Struct.IsChildOfState_Base = true ∧
        s.OwnerGuid = StateMachineOut.Node.Guid ∧ s.Guid = t.ToGuid ∧
        TMap.Find env'.ToState ⟨Instance, some i⟩ = some ⟨Instance, some b⟩)) ∧
    (∀ x ∈ env'.TransitionsOf StateMachineOut.Ptr,
      x ∈ env.TransitionsOf StateMachineOut.Ptr ∨
      ∃ i t, x = ⟨Instance, some i⟩ ∧ RunTimeProperties[i]? = some t ∧
        t.Struct.IsChildOfTransition = true ∧ t.OwnerGuid = StateMachineOut.Node.Guid) := by
  constructor
  · cases depth with
    | zero => simp [GenerateStateMachine] at hRun
    | succ d =>
      simp only [GenerateStateMachine, GenerateStateMachine.body, hNoReference] at hRun
      intro i t hi htr ho
      have hadd := (assemble_added ThreadId _ (GenerateStateMachine_grows w ThreadId d) _ _ Instance
        StateMachineOut RunTimeProperties bDryRun true env' hRun).2 rfl i t hi htr ho
      have hw := assemble_wired ThreadId _ _ _ Instance StateMachineOut RunTimeProperties bDryRun
        env' hUnique hRun i t hi htr ho
      exact ⟨hadd, hw⟩
  · intro x hx
    have hcont : StateMachineOut.Ptr.Container = Instance := by
      rcases hPtr with h | ⟨j, h, _⟩ <;> rw [h]
    rcases (GenerateStateMachine_owned w RunTimeProperties Instance ThreadId depth
      env.Instances.length env StateMachineOut bDryRun true env' (le_refl _) hLive hRun).2
      StateMachineOut.Ptr hcont x hx with h | ⟨i, t, hxi, hit, htr, h⟩
    · exact Or.inl h
    · refine Or.inr ⟨i, t, hxi, hit, htr, ?_⟩
      rcases h with ⟨_, ho⟩ | ⟨j, pj, hq, hj, hg⟩
      · exact ho
      · rcases hPtr with h | ⟨j', h, hj'⟩
        · rw [h] at hq; cases hq
        · rw [h] at hq
          injection hq with _ h2
          injection h2 with h3
          subst h3
          rw [hj'] at hj
          injection hj with hj
          rw [← hg, ← hj]

/-- C12, at an instance: a root state machine with two states and a transition between
them. -/
theorem C12_transitions_wired_witness :
    ∃ env', GenerateStateMachine [] 0 2 (Env.initial [USMInstance.ofClass 0]) (.SMInstance 0)
        (USMInstance.RootStateMachine (UClassDef.ofProperties 1 []) 0)
        [FSMNode.state 2 1 true, FSMNode.state 3 1 false, FSMNode.transition 4 1 2 3] false =
          some (true, env') ∧
      ⟨.SMInstance 0, some 2⟩ ∈ env'.TransitionsOf ⟨.SMInstance 0, none⟩ ∧
      (∃ a s, [FSMNode.state 2 1 true, FSMNode.state 3 1 false,
          FSMNode.transition 4 1 2 3][a]? = some s ∧ s.Struct.IsChildOfState_Base = true ∧
        s.OwnerGuid = 1 ∧ s.Guid = 2 ∧
        TMap.Find env'.FromState ⟨.SMInstance 0, some 2⟩ = some ⟨.SMInstance 0, some a⟩) ∧
      (∃ b s, [FSMNode.state 2 1 true, FSMNode.state 3 1 false,
          FSMNode.transition 4 1 2 3][b]? = some s ∧ s.Struct.IsChildOfState_Base = true ∧
        s.OwnerGuid = 1 ∧ s.Guid = 3 ∧
        TMap.Find env'.ToState ⟨.SMInstance 0, some 2⟩ = some ⟨.SMInstance 0, some b⟩) :=
  ⟨_, rfl,
    (C12_transitions_wired [] 0 2 (Env.initial [USMInstance.ofClass 0]) (.SMInstance 0)
      (USMInstance.RootStateMachine (UClassDef.ofProperties 1 []) 0)
      [FSMNode.state 2 1 true, FSMNode.state 3 1 false, FSMNode.transition 4 1 2 3] false _ rfl
      (by
        intro i j p q hi hj _ _ _ _ hg
        rcases i with _ | _ | _ | i <;> rcases j with _ | _ | _ | j <;>
          first
          | rfl
          | (exfalso; simp at hi; done)
          | (exfalso; simp at hj; done)
          | (exfalso
             simp only [List.getElem?_cons_zero, List.getElem?_cons_succ, Option.some.injEq] at hi hj
             subst hi
             subst hj
             simp [FSMNode.state, FSMNode.transition] at hg))
      (Or.inl rfl) (fun K h => by cases h; decide) rfl).1 2 _ rfl rfl rfl⟩

/-! ## The bookkeeping is partitioned by thread -/

/-- C25: `FinishStateMachineGeneration` for a nested call returns false and leaves the
environment, the per-thread map included, as it was; for a top-level call on a thread it
returns true, the thread has no entry afterwards, and the entry of every other thread is
what it was. -/
theorem C25_finish_is_per_thread (env : Env) (ThreadId : Nat) :
    FinishStateMachineGeneration false env ThreadId = (false, env) ∧
    (FinishStateMachineGeneration true env ThreadId).1 = true ∧
    TMap.Find (FinishStateMachineGeneration true env ThreadId).2.StateMachinesGeneratingForThread
      ThreadId = none ∧
    ∀ Other, Other ≠ ThreadId →
      TMap.Find (FinishStateMachineGeneration true env ThreadId).2.StateMachinesGeneratingForThread
        Other = TMap.Find env.StateMachinesGeneratingForThread Other := by
  refine ⟨rfl, rfl, ?_, ?_⟩
  · simp only [FinishStateMachineGeneration, if_true]
    exact TMap.Find_Remove_self _ _
  · intro Other hne
    simp only [FinishStateMachineGeneration, if_true]
    rw [show ∀ (e : Env) (m : TMap Nat GeneratingStateMachines),
      (e.setThreadMap m).StateMachinesGeneratingForThread = m from fun _ _ => rfl,
      TMap.Find_Remove_ne _ (Ne.symm hne)]
    split
    · rename_i g hg
      show TMap.Find (TMap.Add _ ThreadId _) Other = _
      rw [TMap.Find_Add_ne _ _ (Ne.symm hne)]
      rfl
    · rfl

/-! ## The transition at a position of a pin -/

/-- For an index that is not negative, the shared body returns null when the index is not
a position of the link list and the pin is there, and otherwise the transition edge linked
at the position, or null when the node linked there is no transition edge. -/
theorem TransitionAt_nonneg (Pin : UEdGraphPin) (Index : Nat) :
    USMGraphNode_StateNodeBase.TransitionAt (some Pin) (Index : Int) =
      some ((Pin.LinkedTo[Index]?).bind UEdGraphNode.CastTransitionEdge) := by
  unfold USMGraphNode_StateNodeBase.TransitionAt
  dsimp only
  by_cases h : Pin.LinkedTo.length ≤ Index
  · rw [if_pos (by exact_mod_cast h), List.getElem?_eq_none h]
    rfl
  · have h' : Index < Pin.LinkedTo.length := Nat.lt_of_not_le h
    rw [if_neg (by exact_mod_cast h)]
    have hg : TArray.Get Pin.LinkedTo (Index : Int) = some Pin.LinkedTo[Index] := by
      unfold TArray.Get
      rw [if_pos ⟨Int.ofNat_nonneg _, by exact_mod_cast h'⟩]
      simp [h']
    rw [hg, List.getElem?_eq_getElem h']
    simp only [Option.some_bind]
    cases Pin.LinkedTo[Index].CastTransitionEdge <;> rfl

/-- For a negative index and a pin that is there, the shared body passes the guard and
reads `LinkedTo` at the negative position. -/
theorem TransitionAt_negative (Pin : UEdGraphPin) (Index : Int) (h : Index < 0) :
    USMGraphNode_StateNodeBase.TransitionAt (some Pin) Index = none := by
  unfold USMGraphNode_StateNodeBase.TransitionAt
  dsimp only
  have h1 : ¬ ((Pin.LinkedTo.length : Int) ≤ Index) := by
    have := Int.ofNat_nonneg Pin.LinkedTo.length
    omega
  rw [if_neg h1]
  have hg : TArray.Get Pin.LinkedTo Index = none := by
    unfold TArray.Get
    rw [if_neg (by omega)]
  rw [hg]

/-- C30, at a failing input: with one transition edge linked to each pin,
`GetNextTransition(-1)` and `GetPreviousTransition(-1)` pass the guard
`LinkedTo.Num() <= Index` and read `LinkedTo[-1]`, outside the link list; with index 0 and
with index 1 they return the edge and null. -/
theorem C30_negative_index_reads_outside :
    USMGraphNode_StateNodeBase.GetNextTransition
      { InputPin := some { LinkedTo := [.StateMachineEntryNode] },
        OutputPin := some { LinkedTo := [.TransitionEdge
          { FromState := some 0, ToState := some 1, bPossibleToTransition := true }] },
        bImpactedFromAnyStateNode := false } (-1) = none ∧
    USMGraphNode_StateNodeBase.GetPreviousTransition
      { InputPin := some { LinkedTo := [.StateMachineEntryNode] },
        OutputPin := some { LinkedTo := [.TransitionEdge
          { FromState := some 0, ToState := some 1, bPossibleToTransition := true }] },
        bImpactedFromAnyStateNode := false } (-1) = none ∧
    USMGraphNode_StateNodeBase.GetNextTransition
      { InputPin := some { LinkedTo := [.StateMachineEntryNode] },
        OutputPin := some { LinkedTo := [.TransitionEdge
          { FromState := some 0, ToState := some 1, bPossibleToTransition := true }] },
        bImpactedFromAnyStateNode := false } 0 =
      some (some { FromState := some 0, ToState := some 1, bPossibleToTransition := true }) ∧
    USMGraphNode_StateNodeBase.GetNextTransition
      { InputPin := some { LinkedTo := [.StateMachineEntryNode] },
        OutputPin := some { LinkedTo := [.TransitionEdge
          { FromState := some 0, ToState := some 1, bPossibleToTransition := true }] },
        bImpactedFromAnyStateNode := false } 1 = some none := by
  refine ⟨?_, ?_, ?_, ?_⟩ <;> decide

/-! ## Node instances -/

/-- C24: a node instance whose owning node is set answers `GetGuid`, `GetNodeName`,
`GetTimeInState`, `IsActive`, `HasUpdated` and `IsInEndState` with the path GUID, the node
name, `TimeInState`, the active flag, `bHasUpdated` and `bIsInEndState` of the node struct
its `OwningNode` points to; with no owning node it answers with the blank GUID, the empty
string, 0, false, false and false. -/
theorem C24_node_instance_getters (Memory : Nat → FSMNode_BaseState) (Self : USMNodeInstance) :
    (∀ OwningNode, Self.OwningNode = some OwningNode →
      Self.GetGuid Memory = (Memory OwningNode).PathGuid ∧
      Self.GetNodeName Memory = (Memory OwningNode).NodeName ∧
      Self.GetTimeInState Memory = (Memory OwningNode).TimeInState ∧
      Self.IsActive Memory = (Memory OwningNode).bIsActive ∧
      Self.HasUpdated Memory = (Memory OwningNode).bHasUpdated ∧
      Self.IsInEndState Memory = (Memory OwningNode).bIsInEndState) ∧
    (Self.OwningNode = none →
      Self.GetGuid Memory = 0 ∧ Self.GetNodeName Memory = "" ∧ Self.GetTimeInState Memory = 0 ∧
      Self.IsActive Memory = false ∧ Self.HasUpdated Memory = false ∧
      Self.IsInEndState Memory = false) := by
  constructor
  · intro OwningNode h
    simp [USMNodeInstance.GetGuid, USMNodeInstance.GetNodeName,
      USMNodeInstance.GetTimeInState, USMNodeInstance.IsActive, USMNodeInstance.HasUpdated,
      USMNodeInstance.IsInEndState, h, FSMNode_BaseState.GetGuid, FSMNode_BaseState.GetNodeName,
      FSMNode_BaseState.IsActive]
  · intro h
    simp [USMNodeInstance.GetGuid, USMNodeInstance.GetNodeName,
      USMNodeInstance.GetTimeInState, USMNodeInstance.IsActive, USMNodeInstance.HasUpdated,
      USMNodeInstance.IsInEndState, h]

/-- `CreateNodeInstance` on a node that has a node instance class after the fallback
step. -/
theorem CreateNodeInstance_some (w : World) (env : Env) (Default : Option UClass)
    (Compatible : UClass → Bool) (This : Nat) (Node : FSMNode_BaseState)
    (Objects : List USMNodeInstance) (Log : List NodeLogEntry) (Class : UClass)
    (h : (if Node.NodeInstanceClass.isNone then
        Node.SetNodeInstanceClass Compatible Default Log else (Node, Log)).1.NodeInstanceClass =
      some Class) :
    ∃ Node' Template Log', Node.CreateNodeInstance w env Default Compatible This Objects Log =
        some (Node', Objects ++ [USMNodeInstance.mk Class Node.OwningInstance Template (some This)],
          Log') ∧
      Node'.NodeInstanceClass = some Class ∧ Node'.NodeInstance = some Objects.length ∧
      Log <+: Log' ∧
      (Node.TemplateName = none ∨ Node.OwningInstance = none → Template = none) ∧
      (∀ TemplateName OwningInstance, Node.TemplateName = some TemplateName →
        Node.OwningInstance = some OwningInstance →
        Template = FindTemplateFromInstance w env OwningInstance TemplateName) := by
  have hOwn : (if Node.NodeInstanceClass.isNone then
      Node.SetNodeInstanceClass Compatible Default Log else (Node, Log)).1.OwningInstance =
      Node.OwningInstance := by
    unfold FSMNode_BaseState.SetNodeInstanceClass
    split
    · split
      · split <;> rfl
      · rfl
    · rfl
  have hTpl : (if Node.NodeInstanceClass.isNone then
      Node.SetNodeInstanceClass Compatible Default Log else (Node, Log)).1.TemplateName =
      Node.TemplateName := by
    unfold FSMNode_BaseState.SetNodeInstanceClass
    split
    · split
      · split <;> rfl
      · rfl
    · rfl
  have hLog : Log <+: (if Node.NodeInstanceClass.isNone then
      Node.SetNodeInstanceClass Compatible Default Log else (Node, Log)).2 := by
    unfold FSMNode_BaseState.SetNodeInstanceClass
    split
    · split
      · split
        · exact List.prefix_append _ _
        · exact List.prefix_refl _
      · exact List.prefix_refl _
    · exact List.prefix_refl _
  unfold FSMNode_BaseState.CreateNodeInstance
  generalize (if Node.NodeInstanceClass.isNone then
      Node.SetNodeInstanceClass Compatible Default Log else (Node, Log)) = r at h hOwn hTpl hLog
  obtain ⟨N, L⟩ := r
  dsimp only at h hOwn hTpl hLog ⊢
  rw [h]
  dsimp only [USMNodeInstance.SetOwningNode]
  rw [hOwn, hTpl]
  refine ⟨_, _, _, rfl, rfl, rfl, ?_, ?_, ?_⟩
  · cases Node.TemplateName with
    | none => exact hLog
    | some T =>
      cases Node.OwningInstance with
      | none => exact hLog
      | some I =>
        dsimp only
        split
        · exact hLog.trans (List.prefix_append _ _)
        · exact hLog
  · rintro (h1 | h1)
    · rw [h1]
    · rw [h1]; cases Node.TemplateName <;> rfl
  · intro T I h1 h2
    rw [h1, h2]
    dsimp only
    split
    · rename_i hf; rw [hf]
    · rename_i t hf; rw [hf]

/-- C23: on a node with no node instance class assigned, whose node type has a default
node instance class that the node type accepts, `CreateNodeInstance` completes: the node
has the default class as node instance class afterwards, and its node instance is a new
object of that class with the node as owning node. When the node type has no default class
or does not accept it, the class stays unset and `check(NodeInstanceClass)` fails. -/
theorem C23_default_node_instance_class (w : World) (env : Env)
    (GetDefaultNodeInstanceClass : Option UClass)
    (IsNodeInstanceClassCompatible : UClass → Bool) (This : Nat) (Node : FSMNode_BaseState)
    (Objects : List USMNodeInstance) (Log : List NodeLogEntry)
    (hNoClass : Node.NodeInstanceClass = none) :
    (∀ Default, GetDefaultNodeInstanceClass = some Default →
      IsNodeInstanceClassCompatible Default = true →
      ∃ Node' Objects' Log' Created,
        Node.CreateNodeInstance w env GetDefaultNodeInstanceClass IsNodeInstanceClassCompatible
          This Objects Log = some (Node', Objects', Log') ∧
        Node'.NodeInstanceClass = some Default ∧
        Node'.NodeInstance = some Objects.length ∧
        Objects'[Objects.length]? = some Created ∧
        Created.Class = Default ∧ Created.OwningNode = some This) ∧
    ((GetDefaultNodeInstanceClass = none ∨
        ∃ Default, GetDefaultNodeInstanceClass = some Default ∧
          IsNodeInstanceClassCompatible Default = false) →
      Node.CreateNodeInstance w env GetDefaultNodeInstanceClass IsNodeInstanceClassCompatible
        This Objects Log = none) := by
  constructor
  · intro Default hD hC
    have h : (if Node.NodeInstanceClass.isNone then
        Node.SetNodeInstanceClass IsNodeInstanceClassCompatible GetDefaultNodeInstanceClass Log
        else (Node, Log)).1.NodeInstanceClass = some Default := by
      simp [hNoClass, FSMNode_BaseState.SetNodeInstanceClass, hD, hC]
    obtain ⟨Node', Template, Log', hrun, h1, h2, _, _, _⟩ := CreateNodeInstance_some w env
      GetDefaultNodeInstanceClass IsNodeInstanceClassCompatible This Node Objects Log Default h
    exact ⟨Node', _, Log', ⟨Default, Node.OwningInstance, Template, some This⟩, hrun, h1, h2,
      by simp, rfl, rfl⟩
  · intro h
    have hc : (if Node.NodeInstanceClass.isNone then
        Node.SetNodeInstanceClass IsNodeInstanceClassCompatible GetDefaultNodeInstanceClass Log
        else (Node, Log)).1.NodeInstanceClass = none := by
      rcases h with h | ⟨D, hD, hC⟩
      · simp [hNoClass, FSMNode_BaseState.SetNodeInstanceClass, h]
      · simp [hNoClass, FSMNode_BaseState.SetNodeInstanceClass, hD, hC]
    unfold FSMNode_BaseState.CreateNodeInstance
    simp only [hc]

/-- C23, at an instance: a freshly constructed node at address 7 whose node type has the
default class 3 and accepts it. -/
theorem C23_default_node_instance_class_witness :
    ∃ Node' Objects' Log' Created,
      FSMNode_BaseState.new.CreateNodeInstance [] (Env.initial []) (some 3) (fun c => c == 3) 7
        [] [] = some (Node', Objects', Log') ∧
      Node'.NodeInstanceClass = some 3 ∧ Node'.NodeInstance = some 0 ∧
      Objects'[0]? = some Created ∧ Created.Class = 3 ∧ Created.OwningNode = some 7 :=
  (C23_default_node_instance_class [] (Env.initial []) (some 3) (fun c => c == 3) 7
    FSMNode_BaseState.new [] [] rfl).1 3 rfl rfl

/-! ## Live instances keep their class, context and template -/

theorem Env.KeepsInstances.keepSame (env : Env) : env.KeepsInstances env :=
  fun _ inst h => ⟨inst, h, rfl, rfl, rfl⟩

theorem Env.KeepsInstances.keepThen {a b c : Env} (h₁ : a.KeepsInstances b)
    (h₂ : b.KeepsInstances c) : a.KeepsInstances c := by
  intro K inst h
  obtain ⟨i₁, g₁, c₁, x₁, t₁⟩ := h₁ K inst h
  obtain ⟨i₂, g₂, c₂, x₂, t₂⟩ := h₂ K i₁ g₁
  exact ⟨i₂, g₂, c₂.trans c₁, x₂.trans x₁, t₂.trans t₁⟩

theorem Env.KeepsInstances.of_instances {a b : Env} (h : b.Instances = a.Instances) :
    a.KeepsInstances b := by
  intro K inst hK
  exact ⟨inst, by rw [h]; exact hK, rfl, rfl, rfl⟩

theorem Keeps_Initializing (env : Env) (C : UClass) (t : Option UClass) (ctx : Option Nat) :
    env.KeepsInstances (env.Initializing C t ctx) := by
  intro K inst hK
  refine ⟨inst, ?_, rfl, rfl, rfl⟩
  rw [Initializing_Instances]
  rw [List.get?_eq_getElem?] at hK ⊢
  have hlt : K < env.Instances.length := by
    by_contra hge
    rw [List.getElem?_eq_none (Nat.le_of_not_lt hge)] at hK
    cases hK
  rw [List.getElem?_append_left hlt]
  exact hK

theorem Keeps_SetReferenceOwner (env : Env) (I K : InstId) :
    env.KeepsInstances (env.SetReferenceOwner I K) := by
  intro J inst hJ
  unfold Env.SetReferenceOwner
  cases hI : env.Instances.get? I with
  | none => exact ⟨inst, hJ, rfl, rfl, rfl⟩
  | some owner =>
    dsimp only
    rw [List.get?_eq_getElem?] at hJ hI ⊢
    show ∃ inst', (env.Instances.set I _)[J]? = some inst' ∧ _
    rw [List.getElem?_set]
    by_cases hIJ : I = J
    · subst hIJ
      rw [hI] at hJ
      injection hJ with hJ
      subst hJ
      have hlt : I < env.Instances.length := by
        by_contra hge
        rw [List.getElem?_eq_none (Nat.le_of_not_lt hge)] at hI
        cases hI
      rw [if_pos rfl, if_pos hlt]
      exact ⟨_, rfl, rfl, rfl, rfl⟩
    · rw [if_neg hIJ]
      exact ⟨inst, hJ, rfl, rfl, rfl⟩

theorem Keeps_referenced (tid : Nat) (env : Env) (K : InstId) (sm : FSMStateMachine)
    (cls : UClass) (I : InstId) :
    env.KeepsInstances (GenerateStateMachine.referenced tid env K sm cls I) := by
  refine (Keeps_SetReferenceOwner env I K).keepThen (Env.KeepsInstances.of_instances ?_)
  unfold GenerateStateMachine.referenced
  dsimp only
  rw [Env.SetInstanceReference_Instances, (SameGraph_decrement _ _ _).2,
    (SameGraph_patch _ _ _ _).2, record_Instances]

theorem assemble_keeps (tid : Nat) (gsm : GenerateCall) (hg : KeepsOK gsm) (top : Bool)
    (env : Env) (Instance : UObjectRef) (sm : FSMStateMachine) (props : List FSMNode)
    (bDryRun : Bool) (r : Bool) (env' : Env)
    (h : GenerateStateMachine.assemble tid gsm top env Instance sm props bDryRun = some (r, env')) :
    env.KeepsInstances env' := by
  unfold GenerateStateMachine.assemble at h
  split at h
  · exact absurd h (by simp)
  · rename_i e₁ M hs
    have g1 : env.KeepsInstances e₁ :=
      states_rel Env.KeepsInstances (fun _ => True)
        (fun env Nested => gsm env Instance Nested props bDryRun) Instance sm
        Env.KeepsInstances.keepSame (fun _ _ _ h₁ h₂ => h₁.keepThen h₂) (fun _ _ _ _ => trivial)
        (fun _ _ _ => Env.KeepsInstances.of_instances rfl)
        (fun _ _ => Env.KeepsInstances.of_instances rfl)
        (fun _ _ _ => Env.KeepsInstances.of_instances rfl)
        (fun e n r e' _ h => hg e Instance n props bDryRun r e' h) _ _ _ _ _ trivial hs
    have g2 : e₁.KeepsInstances (GenerateStateMachine.transitions Instance sm M props.enum e₁).2 :=
      transitions_rel Env.KeepsInstances Instance sm M Env.KeepsInstances.keepSame
        (fun _ _ _ h₁ h₂ => h₁.keepThen h₂)
        (fun _ _ => Env.KeepsInstances.of_instances rfl)
        (fun _ _ _ => Env.KeepsInstances.of_instances rfl)
        (fun _ _ _ => Env.KeepsInstances.of_instances rfl)
        (fun _ _ _ => Env.KeepsInstances.of_instances rfl) props.enum e₁
    split at h
    · rename_i e ht
      simp only [Option.some.injEq, Prod.mk.injEq] at h
      rw [ht] at g2
      rw [← h.2]; exact g1.keepThen g2
    · rename_i e ht
      simp only [Option.some.injEq, Prod.mk.injEq] at h
      rw [ht] at g2
      rw [← h.2]
      exact (g1.keepThen g2).keepThen (Env.KeepsInstances.of_instances (Finish_Instances _ _ _))

theorem reference_keeps (w : World) (tid : Nat) (gsm : GenerateCall) (hg : KeepsOK gsm)
    (top : Bool) (env : Env) (K : InstId) (sm : FSMStateMachine) (cls : UClass) (bDryRun : Bool)
    (r : Bool) (env' : Env)
    (h : GenerateStateMachine.reference w tid gsm top env K sm cls bDryRun = some (r, env')) :
    env.KeepsInstances env' := by
  have htI : (GenerateStateMachine.template w env K sm cls bDryRun).2.2.Instances = env.Instances := by
    obtain ⟨l, hl⟩ := template_env w env K sm cls bDryRun
    rw [hl]; rfl
  rcases reference_cases w tid gsm top env K sm cls bDryRun r env' h with
    hchk | ⟨env₂, hchk, _, _, he⟩ | ⟨env₂, r₁, e, hchk, _, hcall, _, he⟩
  · exact Env.KeepsInstances.of_instances
      ((SameGraph_check_inl tid top _ K sm _ r env' hchk).2.trans htI)
  · rw [he]
    exact Env.KeepsInstances.of_instances
      ((Finish_Instances _ _ _).trans ((SameGraph_check_inr tid top _ K sm _ env₂ hchk).2.1.trans htI))
  · rw [he]
    have h2 : env.KeepsInstances env₂ := Env.KeepsInstances.of_instances
      ((SameGraph_check_inr tid top _ K sm _ env₂ hchk).2.1.trans htI)
    have h3 : env₂.KeepsInstances ((GenerateStateMachine.increment tid env₂
        (GenerateStateMachine.template w env K sm cls bDryRun).2.1).Initializing
        (GenerateStateMachine.template w env K sm cls bDryRun).2.1
        (GenerateStateMachine.template w env K sm cls bDryRun).1 (env₂.GetContext K)) :=
      (Env.KeepsInstances.of_instances (increment_Instances tid env₂ _)).keepThen
        (Keeps_Initializing _ _ _ _)
    exact (((h2.keepThen h3).keepThen (hg _ _ _ _ _ _ _ hcall)).keepThen
      (Keeps_referenced tid e K sm _ _)).keepThen
      (Env.KeepsInstances.of_instances (Finish_Instances _ _ _))

theorem body_keeps (w : World) (tid : Nat) (gsm : GenerateCall) (hg : KeepsOK gsm) :
    KeepsOK (GenerateStateMachine.body w tid gsm) := by
  intro env Instance sm props bDryRun r env' h
  have h0 : env.KeepsInstances (env.FindOrAddGeneration tid) :=
    Env.KeepsInstances.of_instances (by simp)
  unfold GenerateStateMachine.body at h
  dsimp only at h
  cases hcr : sm.Node.ClassReference with
  | none =>
    simp only [hcr] at h
    exact h0.keepThen (assemble_keeps tid gsm hg _ _ Instance sm props bDryRun r env' h)
  | some cls =>
    cases Instance with
    | Object o =>
      simp only [hcr] at h
      exact h0.keepThen (assemble_keeps tid gsm hg _ _ _ sm props bDryRun r env' h)
    | SMInstance K =>
      simp only [hcr] at h
      exact h0.keepThen (reference_keeps w tid gsm hg _ _ K sm cls bDryRun r env' h)

theorem GenerateStateMachine_keeps (w : World) (tid : Nat) :
    ∀ depth, KeepsOK (GenerateStateMachine w tid depth) := by
  intro depth
  induction depth with
  | zero => intro env Instance sm props bDryRun r env' h; simp [GenerateStateMachine] at h
  | succ d ih => exact body_keeps w tid _ ih

/-- C21: `CreateStateMachineInstanceInternal` returns (given enough call depth for the
assembly that `Initialize` runs), and it returns null exactly when no class is given or a
template is given whose class differs from the requested class; then no instance is
created. In every other case it returns the new instance, which is live afterwards with the
requested class, the given context and the given template. -/
theorem C21_create_instance_null_iff (w : World) (R ThreadId depth : Nat) (env : Env)
    (StateMachineClass : Option UClass) (Context : Option Nat) (Template : Option UClass)
    (hWorld : w.Nests R = true)
    (hDepth : env.Potential w ThreadId * (R + 2) + R + 2 ≤ depth) :
    ∃ res env', CreateStateMachineInstanceInternal w (GenerateStateMachine w ThreadId depth) env
        StateMachineClass Context Template = some (res, env') ∧
      (res = none ↔
        (StateMachineClass = none ∨ (Template.isSome = true ∧ Template ≠ StateMachineClass))) ∧
      (res = none → env'.Instances = env.Instances) ∧
      (∀ Class, StateMachineClass = some Class →
        ¬ (Template.isSome = true ∧ Template ≠ some Class) →
        res = some env.Instances.length ∧
        ∃ inst, env'.Instances.get? env.Instances.length = some inst ∧ inst.Class = Class ∧
          inst.Context = Context ∧ inst.Template = Template) := by
  cases StateMachineClass with
  | none =>
    refine ⟨none, env.log .NoClassProvided, rfl, by simp, fun _ => rfl, ?_⟩
    intro Class h; cases h
  | some C =>
    by_cases hm : Template.isSome = true ∧ Template ≠ some C
    · refine ⟨none, env.log (.TemplateOfWrongClass (Template.getD 0) C), ?_, ?_, fun _ => rfl, ?_⟩
      · simp only [CreateStateMachineInstanceInternal]
        rw [if_pos (by simpa using hm)]
      · simp [hm]
      · intro Class hC hn
        injection hC with hC
        subst hC
        exact absurd hm hn
    · have ht : Template = none ∨ Template = some C := by
        cases Template with
        | none => exact Or.inl rfl
        | some t =>
          right
          by_contra hne
          exact hm ⟨rfl, hne⟩
      have hw' : w.Nests (R + 1) = true := by
        rw [World.Nests, List.all_eq_true] at hWorld ⊢
        exact fun c hc => Nests_mono _ _ _ (hWorld c hc)
      have hret := GenerateStateMachine_returns w R ThreadId hWorld depth
        (env.Initializing C Template Context) (.SMInstance env.Instances.length)
        (USMInstance.RootStateMachine (w.GetClass C) env.Instances.length)
        (w.GetClass C).Properties false (R + 1)
        (World.Nests_GetClass w (R + 1) hw' (by omega) C)
        (by rw [Potential_congr w (Initializing_threadMap env C Template Context)]; omega)
      have hcreate := Create_eq_template w (GenerateStateMachine w ThreadId depth) env C Context
        Template ht
      unfold CreateStateMachineInstanceFromTemplate at hcreate
      cases hrun : GenerateStateMachine w ThreadId depth (env.Initializing C Template Context)
          (.SMInstance env.Instances.length)
          (USMInstance.RootStateMachine (w.GetClass C) env.Instances.length)
          (w.GetClass C).Properties false with
      | none => simp [hrun] at hret
      | some res =>
        obtain ⟨r, e⟩ := res
        rw [hrun] at hcreate
        refine ⟨some env.Instances.length, e, hcreate, ?_, ?_, ?_⟩
        · simp only [reduceCtorEq, false_iff, not_or]
          exact ⟨by simp, hm⟩
        · intro h; cases h
        · intro Class hC _
          injection hC with hC
          subst hC
          refine ⟨rfl, ?_⟩
          have hk := GenerateStateMachine_keeps w ThreadId depth _ _ _ _ _ _ _ hrun
            env.Instances.length
            { Class := C, Context := Context, Template := Template, ReferenceOwner := none }
            (by rw [Initializing_Instances, List.get?_eq_getElem?]; simp)
          obtain ⟨inst, h1, h2, h3, h4⟩ := hk
          exact ⟨inst, h1, h2, h3, h4⟩

/-- C21, at an instance: class 0 has one state; an instance of it is created with context 5
and no template in an environment without instances. -/
theorem C21_create_instance_null_iff_witness :
    ∃ env' inst, CreateStateMachineInstanceInternal
        [UClassDef.ofProperties 1 [FSMNode.state 2 1 true]]
        (GenerateStateMachine [UClassDef.ofProperties 1 [FSMNode.state 2 1 true]] 0 20)
        (Env.initial []) (some 0) (some 5) none = some (some 0, env') ∧
      env'.Instances.get? 0 = some inst ∧ inst.Class = 0 ∧ inst.Context = some 5 := by
  obtain ⟨res, env', hrun, _, _, hok⟩ := C21_create_instance_null_iff
    [UClassDef.ofProperties 1 [FSMNode.state 2 1 true]] 1 0 20 (Env.initial []) (some 0) (some 5)
    none (by decide) (by decide)
  obtain ⟨hres, inst, h1, h2, h3, _⟩ := hok 0 rfl (by simp)
  subst hres
  exact ⟨env', inst, hrun, h1, h2, h3⟩

/-! ## A reference resolution that goes on to instantiation -/

/-- A non-dry-run resolution of a reference node whose check goes on to instantiation
returns true (given enough call depth): the assembler runs on the root state machine of
the new instance and returns, and the call ends with the steps after the instantiation and
`FinishStateMachineGeneration`. -/
theorem reference_instantiates (w : World) (R tid d : Nat) (hWorld : w.Nests R = true) (env : Env)
    (K : InstId) (sm : FSMStateMachine) (props : List FSMNode) (cls : UClass)
    (hC : sm.Node.ClassReference = some cls) (env₂ : Env)
    (hchk : GenerateStateMachine.check tid (!TMap.Contains env.StateMachinesGeneratingForThread tid)
      (GenerateStateMachine.template w (env.FindOrAddGeneration tid) K sm cls false).2.2 K sm
      (GenerateStateMachine.template w (env.FindOrAddGeneration tid) K sm cls false).2.1 =
        .inr env₂)
    (hDepth : env.Potential w tid * (R + 2) + R + 2 ≤ d) :
    env₂.Instances = env.Instances ∧
    ∃ r₁ e, GenerateStateMachine w tid d
        ((GenerateStateMachine.increment tid env₂
            (GenerateStateMachine.template w (env.FindOrAddGeneration tid) K sm cls false).2.1).Initializing
          (GenerateStateMachine.template w (env.FindOrAddGeneration tid) K sm cls false).2.1
          (GenerateStateMachine.template w (env.FindOrAddGeneration tid) K sm cls false).1
          (env₂.GetContext K))
        (.SMInstance env₂.Instances.length)
        (USMInstance.RootStateMachine
          (w.GetClass (GenerateStateMachine.template w (env.FindOrAddGeneration tid) K sm cls
            false).2.1) env₂.Instances.length)
        (w.GetClass (GenerateStateMachine.template w (env.FindOrAddGeneration tid) K sm cls
          false).2.1).Properties false = some (r₁, e) ∧
      GenerateStateMachine w tid (d + 1) env (.SMInstance K) sm props false =
        some (true, (FinishStateMachineGeneration
          (!TMap.Contains env.StateMachinesGeneratingForThread tid)
          (GenerateStateMachine.referenced tid e K sm
            (GenerateStateMachine.template w (env.FindOrAddGeneration tid) K sm cls false).2.1
            env₂.Instances.length) tid).2) := by
  obtain ⟨l, hl⟩ := template_env w (env.FindOrAddGeneration tid) K sm cls false
  have hI : env₂.Instances = env.Instances := by
    rw [(SameGraph_check_inr tid _ _ K sm _ env₂ hchk).2.1, hl]
    simp
  have hpot : (GenerateStateMachine.increment tid env₂
      (GenerateStateMachine.template w (env.FindOrAddGeneration tid) K sm cls false).2.1).Potential
        w tid ≤ env.Potential w tid := by
    have h1 : (GenerateStateMachine.increment tid env₂
        (GenerateStateMachine.template w (env.FindOrAddGeneration tid) K sm cls false).2.1).Potential
          w tid ≤
        (GenerateStateMachine.template w (env.FindOrAddGeneration tid) K sm cls false).2.2.Potential
          w tid :=
      List.sum_le_sum (fun c _ => (check_inr_slots tid _ _ K sm _ env₂ hchk).2 c)
    have h2 : (GenerateStateMachine.template w (env.FindOrAddGeneration tid) K sm cls
        false).2.2.Potential w tid = (env.FindOrAddGeneration tid).Potential w tid := by
      rw [hl]; exact Potential_congr w (by simp)
    rw [h2, Potential_FindOrAddGeneration] at h1
    exact h1
  have hw' : w.Nests (R + 1) = true := by
    rw [World.Nests, List.all_eq_true] at hWorld ⊢
    exact fun c hc => Nests_mono _ _ _ (hWorld c hc)
  have hle : (GenerateStateMachine.increment tid env₂
      (GenerateStateMachine.template w (env.FindOrAddGeneration tid) K sm cls false).2.1).Potential
        w tid * (R + 2) ≤ env.Potential w tid * (R + 2) := Nat.mul_le_mul_right _ hpot
  have hsome := reference_returns w tid (GenerateStateMachine w tid d)
    (!TMap.Contains env.StateMachinesGeneratingForThread tid) (env.FindOrAddGeneration tid) K sm
    cls false (by
      intro e₂ env_i I hc ht
      rw [hchk] at hc
      injection hc with hc
      subst hc
      exact GenerateStateMachine_returns w R tid hWorld d env_i (.SMInstance I) _ _ false (R + 1)
        (World.Nests_GetClass w (R + 1) hw' (by omega) _)
        (by rw [Potential_congr w ht]; omega))
  cases hrun : GenerateStateMachine.reference w tid (GenerateStateMachine w tid d)
      (!TMap.Contains env.StateMachinesGeneratingForThread tid) (env.FindOrAddGeneration tid) K sm
      cls false with
  | none => simp [hrun] at hsome
  | some res =>
    obtain ⟨r, env'⟩ := res
    refine ⟨hI, ?_⟩
    rcases reference_cases w tid _ _ _ K sm cls false r env' hrun with
      hc | ⟨e₂, _, hd, _⟩ | ⟨e₂, r₁, e, hc, _, hcall, hr, he⟩
    · rw [hchk] at hc; cases hc
    · cases hd
    · rw [hchk] at hc
      injection hc with hc
      subst hc
      refine ⟨r₁, e, hcall, ?_⟩
      simp only [GenerateStateMachine, GenerateStateMachine.body, hC, hrun, hr, he]

/-- What the call of `reference_instantiates` leaves behind: the node refers to the new
instance, which is live with the class and the template the template lookup chose. -/
theorem reference_created (w : World) (tid d : Nat) (env : Env) (K : InstId)
    (sm : FSMStateMachine) (C : UClass) (t : Option UClass) (top : Bool) (env₂ : Env)
    (r₁ : Bool) (e : Env) (hI : env₂.Instances = env.Instances)
    (hcall : GenerateStateMachine w tid d
      ((GenerateStateMachine.increment tid env₂ C).Initializing C t (env₂.GetContext K))
      (.SMInstance env₂.Instances.length)
      (USMInstance.RootStateMachine (w.GetClass C) env₂.Instances.length)
      (w.GetClass C).Properties false = some (r₁, e)) :
    TMap.Find (FinishStateMachineGeneration top
      (GenerateStateMachine.referenced tid e K sm C env₂.Instances.length) tid).2.InstanceReference
        sm.Ptr = some env.Instances.length ∧
    ∃ inst, (FinishStateMachineGeneration top
        (GenerateStateMachine.referenced tid e K sm C env₂.Instances.length) tid).2.Instances.get?
          env.Instances.length = some inst ∧
      inst.Class = C ∧ inst.Template = t ∧ inst.Context = env.GetContext K := by
  constructor
  · rw [Finish_InstanceReference, hI]
    unfold GenerateStateMachine.referenced
    dsimp only
    exact TMap.Find_Add_self _ _ _
  · have k1 := (GenerateStateMachine_keeps w tid d _ _ _ _ _ _ _ hcall).keepThen
      ((Keeps_referenced tid e K sm C env₂.Instances.length).keepThen
        (Env.KeepsInstances.of_instances (Finish_Instances top _ tid)))
    obtain ⟨inst, h1, h2, h3, h4⟩ := k1 env.Instances.length
      { Class := C, Context := env₂.GetContext K, Template := t, ReferenceOwner := none }
      (by rw [Initializing_Instances, increment_Instances, List.get?_eq_getElem?, hI]; simp)
    exact ⟨inst, h1, h2, h4, by rw [h3]; exact GetContext_congr hI K⟩

/-- C22: a template that is named but not found is not fatal. For a reference node that
names a template `FindTemplateFromInstance` does not find, the template lookup only logs
and keeps the class reference; when the circular-reference check then goes on to
instantiation, the non-dry-run call returns true (given enough call depth), an instance of
the referenced class is created without a template and the node refers to it. Likewise
`CreateNodeInstance` on a node that has a node instance class and names a template that is
not found creates the node instance without a template, with the node as owning node. -/
theorem C22_missing_template_is_not_fatal (w : World) (R ThreadId depth : Nat) (env : Env)
    (SMInstance : InstId) (StateMachineOut : FSMStateMachine) (RunTimeProperties : List FSMNode)
    (Class : UClass) (TemplateName : FName) (env₂ : Env)
    (GetDefaultNodeInstanceClass : Option UClass)
    (IsNodeInstanceClassCompatible : UClass → Bool) (This : Nat) (Node : FSMNode_BaseState)
    (OwningInstance : InstId) (NodeInstanceClass : UClass) (NodeTemplateName : FName)
    (Objects : List USMNodeInstance) (Log : List NodeLogEntry)
    (hWorld : w.Nests R = true)
    (hRef : StateMachineOut.Node.ClassReference = some Class)
    (hName : StateMachineOut.Node.ReferencedTemplateName = some TemplateName)
    (hMissing : FindTemplateFromInstance w env SMInstance TemplateName = none)
    (hCheck : GenerateStateMachine.check ThreadId
      (!TMap.Contains env.StateMachinesGeneratingForThread ThreadId)
      ((env.FindOrAddGeneration ThreadId).log (.TemplateNotFound TemplateName StateMachineOut.Ptr))
      SMInstance StateMachineOut Class = .inr env₂)
    (hDepth : env.Potential w ThreadId * (R + 2) + R + 2 ≤ depth)
    (hNodeClass : Node.NodeInstanceClass = some NodeInstanceClass)
    (hNodeName : Node.TemplateName = some NodeTemplateName)
    (hNodeOwner : Node.OwningInstance = some OwningInstance)
    (hNodeMissing : FindTemplateFromInstance w env OwningInstance NodeTemplateName = none) :
    (GenerateStateMachine.template w (env.FindOrAddGeneration ThreadId) SMInstance StateMachineOut
        Class false =
      (none, Class, (env.FindOrAddGeneration ThreadId).log
        (.TemplateNotFound TemplateName StateMachineOut.Ptr)) ∧
      ∃ env' inst, GenerateStateMachine w ThreadId (depth + 1) env (.SMInstance SMInstance)
          StateMachineOut RunTimeProperties false = some (true, env') ∧
        TMap.Find env'.InstanceReference StateMachineOut.Ptr = some env.Instances.length ∧
        env'.Instances.get? env.Instances.length = some inst ∧ inst.Class = Class ∧
        inst.Template = none) ∧
    ∃ Node' Log', Node.CreateNodeInstance w env GetDefaultNodeInstanceClass
        IsNodeInstanceClassCompatible This Objects Log =
          some (Node', Objects ++ [USMNodeInstance.mk NodeInstanceClass (some OwningInstance) none
            (some This)], Log') ∧
      Node'.NodeInstance = some Objects.length ∧ Log <+: Log' := by
  have hT : GenerateStateMachine.template w (env.FindOrAddGeneration ThreadId) SMInstance
      StateMachineOut Class false =
      (none, Class, (env.FindOrAddGeneration ThreadId).log
        (.TemplateNotFound TemplateName StateMachineOut.Ptr)) := by
    have hF : FindTemplateFromInstance w (env.FindOrAddGeneration ThreadId) SMInstance
        TemplateName = none := by
      unfold FindTemplateFromInstance at hMissing ⊢
      rw [Env.FindOrAddGeneration_Instances]
      exact hMissing
    unfold GenerateStateMachine.template
    simp [hName, hF]
  refine ⟨⟨hT, ?_⟩, ?_⟩
  · obtain ⟨hI, r₁, e, hcall, hrun⟩ := reference_instantiates w R ThreadId depth hWorld env
      SMInstance StateMachineOut RunTimeProperties Class hRef env₂ (by rw [hT]; exact hCheck) hDepth
    rw [hT] at hcall hrun
    obtain ⟨hr, inst, h1, h2, h3, _⟩ := reference_created w ThreadId depth env SMInstance
      StateMachineOut Class none (!TMap.Contains env.StateMachinesGeneratingForThread ThreadId)
      env₂ r₁ e hI hcall
    exact ⟨_, inst, hrun, hr, h1, h2, h3⟩
  · obtain ⟨Node', Template, Log', hrun, _, hn, hl, _, ht⟩ := CreateNodeInstance_some w env
      GetDefaultNodeInstanceClass IsNodeInstanceClassCompatible This Node Objects Log
      NodeInstanceClass (by simp [hNodeClass])
    have : Template = none := by
      rw [ht NodeTemplateName OwningInstance hNodeName hNodeOwner]; exact hNodeMissing
    subst this
    rw [hNodeOwner] at hrun
    exact ⟨Node', Log', hrun, hn, hl⟩

/-- C22, at an instance: instance 0 of class 0 has a reference node to class 1 that names
the template 9, which no class has; and a node owned by instance 0 with node instance class
3 names the same template. -/
theorem C22_missing_template_is_not_fatal_witness :
    (∃ env' inst, GenerateStateMachine
        [UClassDef.ofProperties 1 [FSMNode.state 2 1 true],
         UClassDef.ofProperties 1 [FSMNode.state 2 1 true]] 0 31
        (Env.initial [USMInstance.ofClass 0]) (.SMInstance 0)
        ⟨⟨.SMInstance 0, some 1⟩,
          { FSMNode.stateMachine 3 1 (some 1) false with ReferencedTemplateName := some 9 }⟩
        [] false = some (true, env') ∧
      TMap.Find env'.InstanceReference ⟨.SMInstance 0, some 1⟩ = some 1 ∧
      env'.Instances.get? 1 = some inst ∧ inst.Class = 1 ∧ inst.Template = none) ∧
    ∃ Node' Log',
      FSMNode_BaseState.CreateNodeInstance
        [UClassDef.ofProperties 1 [FSMNode.state 2 1 true],
         UClassDef.ofProperties 1 [FSMNode.state 2 1 true]]
        (Env.initial [USMInstance.ofClass 0]) none (fun _ => false) 7
        { FSMNode_BaseState.new with
          NodeInstanceClass := some 3, TemplateName := some 9, OwningInstance := some 0 }
        [] [] = some (Node', [USMNodeInstance.mk 3 (some 0) none (some 7)], Log') ∧
      Node'.NodeInstance = some 0 ∧ [] <+: Log' := by
  have h := C22_missing_template_is_not_fatal
    [UClassDef.ofProperties 1 [FSMNode.state 2 1 true],
     UClassDef.ofProperties 1 [FSMNode.state 2 1 true]] 1 0 30
    (Env.initial [USMInstance.ofClass 0]) 0
    ⟨⟨.SMInstance 0, some 1⟩,
      { FSMNode.stateMachine 3 1 (some 1) false with ReferencedTemplateName := some 9 }⟩
    [] 1 9 _ none (fun _ => false) 7
    { FSMNode_BaseState.new with
      NodeInstanceClass := some 3, TemplateName := some 9, OwningInstance := some 0 }
    0 3 9 [] [] (by decide) rfl rfl rfl rfl (by decide) rfl rfl rfl rfl
  exact ⟨h.1.2, h.2⟩

/-- C29: when the template a reference node names is found and its class differs from the
class reference of the node, the template lookup logs a warning and goes on with the class
of the template: that class is the one checked and counted by the bookkeeping and the one
instantiated, instance creation with that class and that template never returns null, and
when the circular-reference check goes on to instantiation the non-dry-run call returns
true (given enough call depth) with the node referring to a new instance that has the class
of the template. -/
theorem C29_template_class_replaces_reference (w : World) (R ThreadId depth : Nat) (env : Env)
    (SMInstance : InstId) (StateMachineOut : FSMStateMachine) (RunTimeProperties : List FSMNode)
    (Class TemplateClass : UClass) (TemplateName : FName) (env₂ : Env)
    (hWorld : w.Nests R = true)
    (hRef : StateMachineOut.Node.ClassReference = some Class)
    (hName : StateMachineOut.Node.ReferencedTemplateName = some TemplateName)
    (hFound : (FindTemplateFromInstance w env SMInstance TemplateName).bind (fun o => o.SMClass) =
      some TemplateClass)
    (hDiffer : TemplateClass ≠ Class)
    (hCheck : GenerateStateMachine.check ThreadId
      (!TMap.Contains env.StateMachinesGeneratingForThread ThreadId)
      ((env.FindOrAddGeneration ThreadId).log
        (.TemplateClassMismatch TemplateName StateMachineOut.Ptr TemplateClass Class))
      SMInstance StateMachineOut TemplateClass = .inr env₂)
    (hDepth : env.Potential w ThreadId * (R + 2) + R + 2 ≤ depth) :
    GenerateStateMachine.template w (env.FindOrAddGeneration ThreadId) SMInstance StateMachineOut
        Class false =
      (some TemplateClass, TemplateClass, (env.FindOrAddGeneration ThreadId).log
        (.TemplateClassMismatch TemplateName StateMachineOut.Ptr TemplateClass Class)) ∧
    GenerateStateMachine.target w (env.FindOrAddGeneration ThreadId) SMInstance StateMachineOut
      Class false = TemplateClass ∧
    (∀ (gsm : GenerateCall) (e e' : Env) (Context : Option Nat),
      CreateStateMachineInstanceFromTemplate w gsm e (some TemplateClass) Context
        (some TemplateClass) ≠ some (none, e')) ∧
    (∃ r₁ e, GenerateStateMachine w ThreadId depth
        ((GenerateStateMachine.increment ThreadId env₂ TemplateClass).Initializing TemplateClass
          (some TemplateClass) (env₂.GetContext SMInstance))
        (.SMInstance env₂.Instances.length)
        (USMInstance.RootStateMachine (w.GetClass TemplateClass) env₂.Instances.length)
        (w.GetClass TemplateClass).Properties false = some (r₁, e) ∧
      ((GenerateStateMachine.increment ThreadId env₂ TemplateClass).Initializing TemplateClass
          (some TemplateClass) (env₂.GetContext SMInstance)).InProgress ThreadId TemplateClass =
        env.InProgress ThreadId TemplateClass + 1) ∧
    ∃ env' inst, GenerateStateMachine w ThreadId (depth + 1) env (.SMInstance SMInstance)
        StateMachineOut RunTimeProperties false = some (true, env') ∧
      TMap.Find env'.InstanceReference StateMachineOut.Ptr = some env.Instances.length ∧
      env'.Instances.get? env.Instances.length = some inst ∧ inst.Class = TemplateClass ∧
      inst.Template = some TemplateClass := by
  have hT : GenerateStateMachine.template w (env.FindOrAddGeneration ThreadId) SMInstance
      StateMachineOut Class false =
      (some TemplateClass, TemplateClass, (env.FindOrAddGeneration ThreadId).log
        (.TemplateClassMismatch TemplateName StateMachineOut.Ptr TemplateClass Class)) := by
    have hF : (FindTemplateFromInstance w (env.FindOrAddGeneration ThreadId) SMInstance
        TemplateName).bind (fun o => o.SMClass) = some TemplateClass := by
      unfold FindTemplateFromInstance at hFound ⊢
      rw [Env.FindOrAddGeneration_Instances]
      exact hFound
    unfold GenerateStateMachine.template
    simp [hName, hF, hDiffer]
  obtain ⟨hI, r₁, e, hcall, hrun⟩ := reference_instantiates w R ThreadId depth hWorld env
    SMInstance StateMachineOut RunTimeProperties Class hRef env₂ (by rw [hT]; exact hCheck) hDepth
  rw [hT] at hcall hrun
  dsimp only at hcall hrun
  obtain ⟨hr, inst, h1, h2, h3, _⟩ := reference_created w ThreadId depth env SMInstance
    StateMachineOut TemplateClass (some TemplateClass)
    (!TMap.Contains env.StateMachinesGeneratingForThread ThreadId) env₂ r₁ e hI hcall
  have hn : NestedPost ThreadId ((env.FindOrAddGeneration ThreadId).log
      (.TemplateClassMismatch TemplateName StateMachineOut.Ptr TemplateClass Class)) env₂ :=
    ((check_before_finish ThreadId _ _ SMInstance StateMachineOut TemplateClass
      (by
        show TMap.Contains (env.FindOrAddGeneration ThreadId).StateMachinesGeneratingForThread
          ThreadId = true
        exact Contains_top env ThreadId)).2 env₂ hCheck).1
  refine ⟨hT, by unfold GenerateStateMachine.target; rw [hT], ?_, ⟨r₁, e, hcall, ?_⟩,
    ⟨_, inst, hrun, hr, h1, h2, h3⟩⟩
  · intro gsm e₀ e' Context
    exact Create_ne_null w gsm e₀ e' TemplateClass Context (some TemplateClass) (Or.inr rfl)
  · rw [InProgress_initializing, InProgress_increment, if_pos rfl, hn.2.1]
    show (env.FindOrAddGeneration ThreadId).InProgress ThreadId TemplateClass + 1 = _
    rw [Env.FindOrAddGeneration_InProgress]

/-- C29, at an instance: class 0 has a default sub-object named 9 that is an instance of
class 2; instance 0 of class 0 has a reference node with class reference 1 that names the
template 9. -/
theorem C29_template_class_replaces_reference_witness :
    ∃ env' inst, GenerateStateMachine
        [{ DefaultSubobjects := [[(9, { SMClass := some 2 })]], RootStateMachineGuid := 1,
           Properties := [FSMNode.state 2 1 true] },
         UClassDef.ofProperties 1 [FSMNode.state 2 1 true],
         UClassDef.ofProperties 1 [FSMNode.state 2 1 true]] 0 41
        (Env.initial [USMInstance.ofClass 0]) (.SMInstance 0)
        ⟨⟨.SMInstance 0, some 1⟩,
          { FSMNode.stateMachine 3 1 (some 1) false with ReferencedTemplateName := some 9 }⟩
        [] false = some (true, env') ∧
      TMap.Find env'.InstanceReference ⟨.SMInstance 0, some 1⟩ = some 1 ∧
      env'.Instances.get? 1 = some inst ∧ inst.Class = 2 ∧ inst.Template = some 2 :=
  (C29_template_class_replaces_reference
    [{ DefaultSubobjects := [[(9, { SMClass := some 2 })]], RootStateMachineGuid := 1,
       Properties := [FSMNode.state 2 1 true] },
     UClassDef.ofProperties 1 [FSMNode.state 2 1 true],
     UClassDef.ofProperties 1 [FSMNode.state 2 1 true]] 1 0 40
    (Env.initial [USMInstance.ofClass 0]) 0
    ⟨⟨.SMInstance 0, some 1⟩,
      { FSMNode.stateMachine 3 1 (some 1) false with ReferencedTemplateName := some 9 }⟩
    [] 1 2 9 _ (by decide) rfl rfl rfl (by decide) rfl (by decide)).2.2.2.2

/-! ## Local recursion: the call depth needed is the nesting depth -/

/-- The first pass does not return when a nested activation it must make never returns. -/
theorem states_none (gsm : Env → FSMStateMachine → Option (Bool × Env)) (Instance : UObjectRef)
    (sm : FSMStateMachine) :
    ∀ (l : List (Nat × FSMNode)) (env : Env) (M : TMap FGuid NodePtr),
      (∃ x ∈ l, x.2.Struct.IsChildOfStateMachine = true ∧ x.2.OwnerGuid = sm.Node.Guid ∧
        ∀ e, gsm e ⟨⟨Instance, some x.1⟩, x.2⟩ = none) →
      GenerateStateMachine.states gsm Instance sm l env M = none := by
  intro l
  induction l with
  | nil => intro env M ⟨x, hx, _⟩; cases hx
  | cons a l ih =>
    obtain ⟨i, p⟩ := a
    intro env M ⟨x, hx, hsm, ho, hnone⟩
    by_cases hp : p.Struct.IsChildOfState_Base = true ∧ p.OwnerGuid = sm.Node.Guid
    · cases hres : GenerateStateMachine.states gsm Instance sm ((i, p) :: l) env M with
      | none => rfl
      | some res =>
        obtain ⟨env', M'⟩ := res
        obtain ⟨e₂, hcall, _, hrest⟩ := states_owned gsm Instance sm i p l env M env' M' hp.1 hp.2
          hres
        rcases List.mem_cons.mp hx with rfl | hx
        · obtain ⟨r, hr⟩ := hcall hsm
          rw [hnone] at hr
          cases hr
        · rw [ih _ _ ⟨x, hx, hsm, ho, hnone⟩] at hrest
          cases hrest
    · rw [states_skip gsm Instance sm i p l env M hp]
      rcases List.mem_cons.mp hx with rfl | hx
      · exact absurd ⟨IsChildOfState_Base_of_StateMachine _ hsm, ho⟩ hp
      · exact ih _ _ ⟨x, hx, hsm, ho, hnone⟩

theorem Nests_false_child {k : Nat} {props : List FSMNode} {g : FGuid}
    (h : Nests (k + 1) props g = false) :
    ∃ p ∈ props, p.Struct.IsChildOfStateMachine = true ∧ p.OwnerGuid = g ∧
      Nests k props p.Guid = false := by
  by_contra hne
  have : Nests (k + 1) props g = true := by
    rw [Nests, List.all_eq_true]
    intro p hp
    by_cases hc : p.Struct.IsChildOfStateMachine = true ∧ p.OwnerGuid = g
    · have : Nests k props p.Guid = true := by
        by_contra hn
        exact hne ⟨p, hp, hc.1, hc.2, by simpa using hn⟩
      simp [this]
    · have : (p.Struct.IsChildOfStateMachine && decide (p.OwnerGuid = g)) = false := by
        simpa using hc
      simp [this]
  rw [this] at h
  cases h

/-- Over a node set without reference records, a call on a state machine that is no
reference node does not return with a call depth for which the node set does not nest
below the state machine. -/
theorem local_never (w : World) (tid : Nat) (props : List FSMNode)
    (hLocal : ∀ p ∈ props, p.ClassReference = none) :
    ∀ (d : Nat) (env : Env) (Instance : UObjectRef) (sm : FSMStateMachine) (bDryRun : Bool),
      sm.Node.ClassReference = none → Nests d props sm.Node.Guid = false →
      GenerateStateMachine w tid d env Instance sm props bDryRun = none := by
  intro d
  induction d with
  | zero => intro env Instance sm bDryRun _ _; rfl
  | succ d ih =>
    intro env Instance sm bDryRun hcr hn
    obtain ⟨p, hp, hsm, ho, hnp⟩ := Nests_false_child hn
    obtain ⟨i, hi, hget⟩ := List.mem_iff_getElem.mp hp
    have hx : (i, p) ∈ props.enum := by
      rw [List.mk_mem_enum_iff_getElem?]; simp [hi, hget]
    simp only [GenerateStateMachine, GenerateStateMachine.body, hcr]
    unfold GenerateStateMachine.assemble
    rw [states_none _ Instance sm props.enum _ _ ⟨(i, p), hx, hsm, ho, fun e =>
      ih e Instance ⟨⟨Instance, some i⟩, p⟩ bDryRun (hLocal p hp) hnp⟩]

/-- Over a node set without reference records, a call on a state machine that is no
reference node returns with a call depth for which the node set nests below the state
machine. -/
theorem local_returns (w : World) (tid : Nat) (props : List FSMNode)
    (hLocal : ∀ p ∈ props, p.ClassReference = none) :
    ∀ (d : Nat) (env : Env) (Instance : UObjectRef) (sm : FSMStateMachine) (bDryRun : Bool),
      sm.Node.ClassReference = none → Nests d props sm.Node.Guid = true →
      (GenerateStateMachine w tid d env Instance sm props bDryRun).isSome = true := by
  intro d
  induction d with
  | zero => intro env Instance sm bDryRun _ h; simp [Nests] at h
  | succ d ih =>
    intro env Instance sm bDryRun hcr hn
    simp only [GenerateStateMachine, GenerateStateMachine.body, hcr]
    refine assemble_returns tid (fun _ => True) _ _ _ _ _ _ _ (fun _ _ _ _ => trivial)
      (fun _ _ _ => trivial) (fun _ _ _ _ => trivial) ?_ trivial
    intro e i p _ hp hsm ho
    have := ih e Instance ⟨⟨Instance, some i⟩, p⟩ bDryRun (hLocal p hp) (Nests_child hn hp hsm ho)
    cases hr : GenerateStateMachine w tid d e Instance ⟨⟨Instance, some i⟩, p⟩ props bDryRun with
    | none => simp [hr] at this
    | some res => exact ⟨res.1, res.2, rfl, trivial⟩

/-- A rank that grows from owner to owned state machine record bounds the nesting depth. -/
theorem Nests_of_rank (props : List FSMNode) (rank : FGuid → Nat)
    (hRank : ∀ p ∈ props, p.Struct.IsChildOfStateMachine = true → rank p.OwnerGuid < rank p.Guid)
    (B : Nat) (hB : ∀ p ∈ props, rank p.Guid < B) :
    ∀ (n : Nat) (g : FGuid), B ≤ rank g + n + 1 → Nests (n + 1) props g = true := by
  intro n
  induction n with
  | zero =>
    intro g hg
    rw [Nests, List.all_eq_true]
    intro p hp
    by_cases hc : p.Struct.IsChildOfStateMachine = true ∧ p.OwnerGuid = g
    · have h1 := hRank p hp hc.1
      have h2 := hB p hp
      rw [hc.2] at h1
      omega
    · have : (p.Struct.IsChildOfStateMachine && decide (p.OwnerGuid = g)) = false := by
        simpa using hc
      simp [this]
  | succ n ih =>
    intro g hg
    rw [Nests, List.all_eq_true]
    intro p hp
    by_cases hc : p.Struct.IsChildOfStateMachine = true ∧ p.OwnerGuid = g
    · have h1 := hRank p hp hc.1
      rw [hc.2] at h1
      simp [ih p.Guid (by omega)]
    · have : (p.Struct.IsChildOfStateMachine && decide (p.OwnerGuid = g)) = false := by
        simpa using hc
      simp [this]

/-- A bound on the ranks of the GUIDs of a node set. -/
theorem rank_bound (props : List FSMNode) (rank : FGuid → Nat) :
    ∀ p ∈ props, rank p.Guid < (props.map (fun q => rank q.Guid + 1)).sum := by
  intro p hp
  have h1 : rank p.Guid + 1 ∈ props.map (fun q => rank q.Guid + 1) :=
    List.mem_map_of_mem (fun q => rank q.Guid + 1) hp
  have := List.single_le_sum (fun x _ => Nat.zero_le x) _ h1
  omega

/-- A state machine below which a state machine record owns itself does not nest at any
depth. -/
theorem Nests_false_of_reaches (props : List FSMNode) (c : FGuid)
    (hc : ∀ k, Nests k props c = false) :
    ∀ g, Reaches props g c → ∀ k, Nests k props g = false := by
  intro g hr
  induction hr with
  | self g => exact hc
  | nested g c' p hp hsm ho _ ih =>
    intro k
    cases k with
    | zero => rfl
    | succ k =>
      by_contra hne
      have ht : Nests (k + 1) props g = true := by simpa using hne
      have := Nests_child ht hp hsm ho
      rw [ih hc k] at this
      cases this

theorem Nests_false_of_self_owner (props : List FSMNode) (p : FSMNode) (hp : p ∈ props)
    (hsm : p.Struct.IsChildOfStateMachine = true) (ho : p.OwnerGuid = p.Guid) :
    ∀ k, Nests k props p.Guid = false := by
  intro k
  induction k with
  | zero => rfl
  | succ k ih =>
    by_contra hne
    have ht : Nests (k + 1) props p.Guid = true := by simpa using hne
    have := Nests_child ht hp hsm ho
    rw [ih] at this
    cases this

/-- C26: over a node set without reference records, a call of `GenerateStateMachine` on a
state machine that is no reference node returns with call depth `d` exactly when the state
machine records nest at most `d` levels deep below it by owner GUID. So the recursion
terminates when the owner-GUID relation among the state machine records is acyclic (a rank
grows from owner to owned record; a call depth above the sum of the ranks is enough), and
it returns at no call depth when a state machine record whose owner GUID is its own
structural GUID is the target or nested below it. -/
theorem C26_local_recursion_depth (w : World) (ThreadId : Nat) (RunTimeProperties : List FSMNode)
    (hLocal : ∀ p ∈ RunTimeProperties, p.ClassReference = none) :
    (∀ (d : Nat) (env : Env) (Instance : UObjectRef) (StateMachineOut : FSMStateMachine)
        (bDryRun : Bool), StateMachineOut.Node.ClassReference = none →
      (GenerateStateMachine w ThreadId d env Instance StateMachineOut RunTimeProperties
        bDryRun).isSome = Nests d RunTimeProperties StateMachineOut.Node.Guid) ∧
    (∀ rank : FGuid → Nat,
      (∀ p ∈ RunTimeProperties, p.Struct.IsChildOfStateMachine = true →
        rank p.OwnerGuid < rank p.Guid) →
      ∀ (env : Env) (Instance : UObjectRef) (StateMachineOut : FSMStateMachine) (bDryRun : Bool),
        StateMachineOut.Node.ClassReference = none →
        ∀ d, (RunTimeProperties.map (fun q => rank q.Guid + 1)).sum + 1 ≤ d →
          (GenerateStateMachine w ThreadId d env Instance StateMachineOut RunTimeProperties
            bDryRun).isSome = true) ∧
    (∀ p ∈ RunTimeProperties, p.Struct.IsChildOfStateMachine = true → p.OwnerGuid = p.Guid →
      ∀ (env : Env) (Instance : UObjectRef) (StateMachineOut : FSMStateMachine) (bDryRun : Bool),
        StateMachineOut.Node.ClassReference = none →
        Reaches RunTimeProperties StateMachineOut.Node.Guid p.Guid →
        ∀ d, GenerateStateMachine w ThreadId d env Instance StateMachineOut RunTimeProperties
          bDryRun = none) := by
  refine ⟨?_, ?_, ?_⟩
  · intro d env Instance sm bDryRun hcr
    cases hn : Nests d RunTimeProperties sm.Node.Guid with
    | true => exact local_returns w ThreadId RunTimeProperties hLocal d env Instance sm bDryRun hcr hn
    | false =>
      rw [local_never w ThreadId RunTimeProperties hLocal d env Instance sm bDryRun hcr hn]
      rfl
  · intro rank hRank env Instance sm bDryRun hcr d hd
    have h1 := Nests_of_rank RunTimeProperties rank hRank _ (rank_bound RunTimeProperties rank)
      (RunTimeProperties.map (fun q => rank q.Guid + 1)).sum sm.Node.Guid (by omega)
    exact local_returns w ThreadId RunTimeProperties hLocal d env Instance sm bDryRun hcr
      (Nests_mono_le RunTimeProperties _ hd h1)
  · intro p hp hsm ho env Instance sm bDryRun hcr hreach d
    exact local_never w ThreadId RunTimeProperties hLocal d env Instance sm bDryRun hcr
      (Nests_false_of_reaches RunTimeProperties p.Guid
        (Nests_false_of_self_owner RunTimeProperties p hp hsm ho) _ hreach d)

/-- C26, at an instance: a root state machine with a nested state machine returns with
call depth 13, and a state machine record that has the GUID of the root state machine and
owns itself makes the call on the root state machine return at no call depth, 50 for
one. -/
theorem C26_local_recursion_depth_witness :
    (GenerateStateMachine [] 0 13 (Env.initial [USMInstance.ofClass 0]) (.SMInstance 0)
      (USMInstance.RootStateMachine (UClassDef.ofProperties 1 []) 0)
      [FSMNode.state 2 1 true, FSMNode.stateMachine 3 1 none false, FSMNode.state 4 3 true]
      false).isSome = true ∧
    GenerateStateMachine [] 0 50 (Env.initial [USMInstance.ofClass 0]) (.SMInstance 0)
      (USMInstance.RootStateMachine (UClassDef.ofProperties 1 []) 0)
      [FSMNode.state 2 1 true, FSMNode.stateMachine 1 1 none false] false = none :=
  ⟨(C26_local_recursion_depth [] 0
      [FSMNode.state 2 1 true, FSMNode.stateMachine 3 1 none false, FSMNode.state 4 3 true]
      (by decide)).2.1 id (by decide) (Env.initial [USMInstance.ofClass 0]) (.SMInstance 0)
      (USMInstance.RootStateMachine (UClassDef.ofProperties 1 []) 0) false rfl 13 (by decide),
   (C26_local_recursion_depth [] 0
      [FSMNode.state 2 1 true, FSMNode.stateMachine 1 1 none false]
      (by decide)).2.2 (FSMNode.stateMachine 1 1 none false) (by decide) rfl rfl
      (Env.initial [USMInstance.ofClass 0]) (.SMInstance 0)
      (USMInstance.RootStateMachine (UClassDef.ofProperties 1 []) 0) false rfl
      (Reaches.self 1) 50⟩

/-! ## Initial states are only ever added -/

theorem EntryStatesOf_AddInitialState (env : Env) (a b q : NodePtr) :
    (env.AddInitialState a b).EntryStatesOf q =
      if a = q then env.EntryStatesOf q ++ [b] else env.EntryStatesOf q := by
  unfold Env.EntryStatesOf Env.AddInitialState
  simp only [TMap.Find_Add]
  split
  · rename_i h; subst h; rfl
  · rfl

theorem Env.EntryGrows.entrySame (env : Env) : env.EntryGrows env := fun _ _ h => h

theorem Env.EntryGrows.entryThen {a b c : Env} (h₁ : a.EntryGrows b) (h₂ : b.EntryGrows c) :
    a.EntryGrows c := fun q x h => h₂ q x (h₁ q x h)

theorem Env.EntryGrows.of_entryStates {a b : Env} (h : b.EntryStates = a.EntryStates) :
    a.EntryGrows b := by
  intro q x hx
  unfold Env.EntryStatesOf at hx ⊢
  rw [h]; exact hx

theorem EntryGrows_AddInitialState (env : Env) (a b : NodePtr) :
    env.EntryGrows (env.AddInitialState a b) := by
  intro q x hx
  rw [EntryStatesOf_AddInitialState]
  split
  · exact List.mem_append_left _ hx
  · exact hx

theorem states_entryGrows (gsm : Env → FSMStateMachine → Option (Bool × Env))
    (hg : ∀ e n r e', gsm e n = some (r, e') → e.EntryGrows e') (Instance : UObjectRef)
    (sm : FSMStateMachine) (l : List (Nat × FSMNode)) (env : Env) (M : TMap FGuid NodePtr)
    (env' : Env) (M' : TMap FGuid NodePtr)
    (h : GenerateStateMachine.states gsm Instance sm l env M = some (env', M')) :
    env.EntryGrows env' :=
  states_rel Env.EntryGrows (fun _ => True) gsm Instance sm Env.EntryGrows.entrySame
    (fun _ _ _ h₁ h₂ => h₁.entryThen h₂) (fun _ _ _ _ => trivial)
    (fun _ _ _ => Env.EntryGrows.of_entryStates rfl)
    (fun _ _ => Env.EntryGrows.of_entryStates rfl) EntryGrows_AddInitialState
    (fun e n r e' _ h => hg e n r e' h) l env M env' M' trivial h

theorem transitions_entryGrows (Instance : UObjectRef) (sm : FSMStateMachine)
    (M : TMap FGuid NodePtr) (l : List (Nat × FSMNode)) (env : Env) :
    env.EntryGrows (GenerateStateMachine.transitions Instance sm M l env).2 :=
  transitions_rel Env.EntryGrows Instance sm M Env.EntryGrows.entrySame
    (fun _ _ _ h₁ h₂ => h₁.entryThen h₂)
    (fun _ _ => Env.EntryGrows.of_entryStates rfl)
    (fun _ _ _ => Env.EntryGrows.of_entryStates rfl)
    (fun _ _ _ => Env.EntryGrows.of_entryStates rfl)
    (fun _ _ _ => Env.EntryGrows.of_entryStates rfl) l env

theorem assemble_entryGrows (tid : Nat) (gsm : GenerateCall) (hg : EntryGrowsOK gsm) (top : Bool)
    (env : Env) (Instance : UObjectRef) (sm : FSMStateMachine) (props : List FSMNode)
    (bDryRun : Bool) (r : Bool) (env' : Env)
    (h : GenerateStateMachine.assemble tid gsm top env Instance sm props bDryRun = some (r, env')) :
    env.EntryGrows env' := by
  unfold GenerateStateMachine.assemble at h
  split at h
  · exact absurd h (by simp)
  · rename_i e₁ M hs
    have g1 := states_entryGrows _ (fun e n r e' h => hg e Instance n props bDryRun r e' h)
      Instance sm _ _ _ _ _ hs
    have g2 := transitions_entryGrows Instance sm M props.enum e₁
    split at h
    · rename_i e ht
      simp only [Option.some.injEq, Prod.mk.injEq] at h
      rw [ht] at g2
      rw [← h.2]; exact g1.entryThen g2
    · rename_i e ht
      simp only [Option.some.injEq, Prod.mk.injEq] at h
      rw [ht] at g2
      rw [← h.2]
      exact (g1.entryThen g2).entryThen
        (Env.EntryGrows.of_entryStates (SameGraph_Finish _ _ _).2.1)

theorem reference_entryGrows (w : World) (tid : Nat) (gsm : GenerateCall) (hg : EntryGrowsOK gsm)
    (top : Bool) (env : Env) (K : InstId) (sm : FSMStateMachine) (cls : UClass) (bDryRun : Bool)
    (r : Bool) (env' : Env)
    (h : GenerateStateMachine.reference w tid gsm top env K sm cls bDryRun = some (r, env')) :
    env.EntryGrows env' := by
  have ht := SameGraph_template w env K sm cls bDryRun
  rcases reference_cases w tid gsm top env K sm cls bDryRun r env' h with
    hchk | ⟨env₂, hchk, _, _, he⟩ | ⟨env₂, r₁, e, hchk, _, hcall, _, he⟩
  · exact Env.EntryGrows.of_entryStates
      (ht.graphThen (SameGraph_check_inl tid top _ K sm _ r env' hchk).1).2.1
  · rw [he]
    exact Env.EntryGrows.of_entryStates
      ((ht.graphThen (SameGraph_check_inr tid top _ K sm _ env₂ hchk).1).graphThen
        (SameGraph_Finish _ _ _)).2.1
  · rw [he]
    have h1 : env.SameGraph ((GenerateStateMachine.increment tid env₂
        (GenerateStateMachine.template w env K sm cls bDryRun).2.1).Initializing
        (GenerateStateMachine.template w env K sm cls bDryRun).2.1
        (GenerateStateMachine.template w env K sm cls bDryRun).1 (env₂.GetContext K)) :=
      ((ht.graphThen (SameGraph_check_inr tid top _ K sm _ env₂ hchk).1).graphThen
        (SameGraph_increment _ _ _)).graphThen (SameGraph_Initializing _ _ _ _)
    exact ((Env.EntryGrows.of_entryStates h1.2.1).entryThen (hg _ _ _ _ _ _ _ hcall)).entryThen
      (Env.EntryGrows.of_entryStates
        (((SameGraph_referenced tid e K sm _ _).1).graphThen (SameGraph_Finish _ _ _)).2.1)

theorem body_entryGrows (w : World) (tid : Nat) (gsm : GenerateCall) (hg : EntryGrowsOK gsm) :
    EntryGrowsOK (GenerateStateMachine.body w tid gsm) := by
  intro env Instance sm props bDryRun r env' h
  have h0 : env.EntryGrows (env.FindOrAddGeneration tid) :=
    Env.EntryGrows.of_entryStates (SameGraph_FindOrAddGeneration env tid).2.1
  unfold GenerateStateMachine.body at h
  dsimp only at h
  cases hcr : sm.Node.ClassReference with
  | none =>
    simp only [hcr] at h
    exact h0.entryThen (assemble_entryGrows tid gsm hg _ _ Instance sm props bDryRun r env' h)
  | some cls =>
    cases Instance with
    | Object o =>
      simp only [hcr] at h
      exact h0.entryThen (assemble_entryGrows tid gsm hg _ _ _ sm props bDryRun r env' h)
    | SMInstance K =>
      simp only [hcr] at h
      exact h0.entryThen (reference_entryGrows w tid gsm hg _ _ K sm cls bDryRun r env' h)

theorem GenerateStateMachine_entryGrows (w : World) (tid : Nat) :
    ∀ depth, EntryGrowsOK (GenerateStateMachine w tid depth) := by
  intro depth
  induction depth with
  | zero => intro env Instance sm props bDryRun r env' h; simp [GenerateStateMachine] at h
  | succ d ih => exact body_entryGrows w tid _ ih

/-! ## What a failing call leaves behind -/

/-- After the first pass every owned state record that is a root node is among the initial
states of the state machine. -/
theorem states_entered (gsm : Env → FSMStateMachine → Option (Bool × Env))
    (hg : ∀ e n r e', gsm e n = some (r, e') → e.EntryGrows e') (Instance : UObjectRef)
    (sm : FSMStateMachine) :
    ∀ (l : List (Nat × FSMNode)) (env : Env) (M : TMap FGuid NodePtr) (env' : Env)
      (M' : TMap FGuid NodePtr),
      GenerateStateMachine.states gsm Instance sm l env M = some (env', M') →
      ∀ x ∈ l, x.2.Struct.IsChildOfState_Base = true → x.2.OwnerGuid = sm.Node.Guid →
        x.2.bIsRootNode = true → ⟨Instance, some x.1⟩ ∈ env'.EntryStatesOf sm.Ptr := by
  intro l
  induction l with
  | nil => intro env M env' M' _ x hx; cases hx
  | cons a l ih =>
    obtain ⟨i, p⟩ := a
    intro env M env' M' h x hx hs ho hroot
    by_cases hp : p.Struct.IsChildOfState_Base = true ∧ p.OwnerGuid = sm.Node.Guid
    · obtain ⟨e₂, _, _, hrest⟩ := states_owned gsm Instance sm i p l env M env' M' hp.1 hp.2 h
      rcases List.mem_cons.mp hx with rfl | hx
      · simp only at hroot
        rw [hroot, if_pos rfl] at hrest
        refine (states_entryGrows gsm hg Instance sm _ _ _ _ _ hrest) _ _ ?_
        rw [EntryStatesOf_AddInitialState, if_pos rfl]
        simp
      · exact ih _ _ _ _ hrest x hx hs ho hroot
    · rw [states_skip gsm Instance sm i p l env M hp] at h
      rcases List.mem_cons.mp hx with rfl | hx
      · exact absurd ⟨hs, ho⟩ hp
      · exact ih _ _ _ _ h x hx hs ho hroot

/-- After the first pass the activation on every owned state machine record has returned,
and what it left behind is still there. -/
theorem states_called (gsm : Env → FSMStateMachine → Option (Bool × Env))
    (hg : ∀ e n r e', gsm e n = some (r, e') → e.Grows e') (Instance : UObjectRef)
    (sm : FSMStateMachine) :
    ∀ (l : List (Nat × FSMNode)) (env : Env) (M : TMap FGuid NodePtr) (env' : Env)
      (M' : TMap FGuid NodePtr),
      GenerateStateMachine.states gsm Instance sm l env M = some (env', M') →
      ∀ x ∈ l, x.2.Struct.IsChildOfStateMachine = true → x.2.OwnerGuid = sm.Node.Guid →
        ∃ e r e₂, gsm e ⟨⟨Instance, some x.1⟩, x.2⟩ = some (r, e₂) ∧ e₂.Grows env' := by
  intro l
  induction l with
  | nil => intro env M env' M' _ x hx; cases hx
  | cons a l ih =>
    obtain ⟨i, p⟩ := a
    intro env M env' M' h x hx hsm ho
    by_cases hp : p.Struct.IsChildOfState_Base = true ∧ p.OwnerGuid = sm.Node.Guid
    · obtain ⟨e₂, hcall, _, hrest⟩ := states_owned gsm Instance sm i p l env M env' M' hp.1 hp.2 h
      rcases List.mem_cons.mp hx with rfl | hx
      · obtain ⟨r, hr⟩ := hcall hsm
        refine ⟨_, r, e₂, hr, ?_⟩
        have g1 : e₂.Grows (if p.bIsRootNode then e₂.AddInitialState sm.Ptr ⟨Instance, some i⟩
            else e₂) := by
          split
          · exact Grows_AddInitialState _ _ _
          · exact Env.Grows.growSame _
        exact g1.growThen (states_grows gsm hg Instance sm _ _ _ _ _ hrest)
      · exact ih _ _ _ _ hrest x hx hsm ho
    · rw [states_skip gsm Instance sm i p l env M hp] at h
      rcases List.mem_cons.mp hx with rfl | hx
      · exact absurd ⟨IsChildOfState_Base_of_StateMachine _ hsm, ho⟩ hp
      · exact ih _ _ _ _ h x hx hsm ho

/-- What the state map of the first pass holds for a GUID is what it held before or the
location of an owned state record with that GUID. -/
theorem states_find_some (gsm : Env → FSMStateMachine → Option (Bool × Env))
    (Instance : UObjectRef) (sm : FSMStateMachine) (g : FGuid) (q : NodePtr) :
    ∀ (l : List (Nat × FSMNode)) (env : Env) (M : TMap FGuid NodePtr) (env' : Env)
      (M' : TMap FGuid NodePtr),
      GenerateStateMachine.states gsm Instance sm l env M = some (env', M') →
      TMap.Find M' g = some q →
      TMap.Find M g = some q ∨
        ∃ x ∈ l, x.2.Struct.IsChildOfState_Base = true ∧ x.2.OwnerGuid = sm.Node.Guid ∧
          x.2.Guid = g ∧ q = ⟨Instance, some x.1⟩ := by
  intro l
  induction l with
  | nil =>
    intro env M env' M' h hf
    simp only [GenerateStateMachine.states, Option.some.injEq, Prod.mk.injEq] at h
    rw [← h.2] at hf; exact Or.inl hf
  | cons b l ih =>
    obtain ⟨i, p⟩ := b
    intro env M env' M' h hf
    by_cases hp : p.Struct.IsChildOfState_Base = true ∧ p.OwnerGuid = sm.Node.Guid
    · obtain ⟨e₂, _, _, hrest⟩ := states_owned gsm Instance sm i p l env M env' M' hp.1 hp.2 h
      rcases ih _ _ _ _ hrest hf with h1 | ⟨x, hx, k⟩
      · rw [TMap.Find_Add] at h1
        split at h1
        · rename_i hg
          injection h1 with h1
          exact Or.inr ⟨(i, p), List.mem_cons_self _ _, hp.1, hp.2, hg, h1.symm⟩
        · exact Or.inl h1
      · exact Or.inr ⟨x, List.mem_cons_of_mem _ hx, k⟩
    · rw [states_skip gsm Instance sm i p l env M hp] at h
      rcases ih _ _ _ _ h hf with h1 | ⟨x, hx, k⟩
      · exact Or.inl h1
      · exact Or.inr ⟨x, List.mem_cons_of_mem _ hx, k⟩

theorem OwnedTransitions_cons_skip (Instance : UObjectRef) (g : FGuid) (i : Nat) (p : FSMNode)
    (l : List (Nat × FSMNode))
    (h : ¬ (p.Struct.IsChildOfTransition = true ∧ p.OwnerGuid = g)) :
    OwnedTransitions Instance g ((i, p) :: l) = OwnedTransitions Instance g l := by
  unfold OwnedTransitions
  rw [List.filter_cons_of_neg (by simpa using h)]

theorem OwnedTransitions_cons_owned (Instance : UObjectRef) (g : FGuid) (i : Nat) (p : FSMNode)
    (l : List (Nat × FSMNode))
    (h : p.Struct.IsChildOfTransition = true ∧ p.OwnerGuid = g) :
    OwnedTransitions Instance g ((i, p) :: l) =
      ⟨Instance, some i⟩ :: OwnedTransitions Instance g l := by
  unfold OwnedTransitions
  rw [List.filter_cons_of_pos (by simpa using h)]
  rfl

/-- The second pass, as long as it does not return early, appends the owned transition
records to the transitions of the state machine and leaves the states and the initial
states of every state machine as they were. -/
theorem transitions_exact (Instance : UObjectRef) (sm : FSMStateMachine) (M : TMap FGuid NodePtr) :
    ∀ (l : List (Nat × FSMNode)) (env : Env),
      (GenerateStateMachine.transitions Instance sm M l env).1 = true →
      (GenerateStateMachine.transitions Instance sm M l env).2.TransitionsOf sm.Ptr =
        env.TransitionsOf sm.Ptr ++ OwnedTransitions Instance sm.Node.Guid l := by
  intro l
  induction l with
  | nil => intro env _; simp [GenerateStateMachine.transitions, OwnedTransitions]
  | cons b l ih =>
    obtain ⟨i, p⟩ := b
    intro env h
    by_cases hp : p.Struct.IsChildOfTransition = true ∧ p.OwnerGuid = sm.Node.Guid
    · cases hF : TMap.Find M p.FromGuid with
      | none => rw [transitions_dangling Instance sm M i p l env hp.1 hp.2 (Or.inl hF)] at h; cases h
      | some F =>
        cases hT : TMap.Find M p.ToGuid with
        | none =>
          rw [transitions_dangling Instance sm M i p l env hp.1 hp.2 (Or.inr hT)] at h; cases h
        | some T =>
          rw [transitions_owned Instance sm M i p l env F T hp.1 hp.2 hF hT] at h ⊢
          rw [ih _ h, OwnedTransitions_cons_owned Instance _ i p l hp]
          have : (if TMap.Contains M p.Guid then
              (((env.SetFromState ⟨Instance, some i⟩ F).SetToState ⟨Instance, some i⟩
                T).AddTransition sm.Ptr ⟨Instance, some i⟩).log
                  (.GuidAlreadyAdded ⟨Instance, some i⟩ p.Guid)
              else ((env.SetFromState ⟨Instance, some i⟩ F).SetToState ⟨Instance, some i⟩
                T).AddTransition sm.Ptr ⟨Instance, some i⟩).TransitionsOf sm.Ptr =
              env.TransitionsOf sm.Ptr ++ [⟨Instance, some i⟩] := by
            split <;>
              (show (Env.AddTransition _ sm.Ptr _).TransitionsOf sm.Ptr = _
               rw [TransitionsOf_AddTransition, if_pos rfl]
               rfl)
          rw [this]
          simp
    · rw [transitions_skip Instance sm M i p l env hp] at h ⊢
      rw [ih env h, OwnedTransitions_cons_skip Instance _ i p l hp]

/-- The second pass returns false at the first owned transition record with an unmapped
endpoint: the records before it are processed as in a pass that returns true, and a
message is logged. -/
theorem transitions_fail (Instance : UObjectRef) (sm : FSMStateMachine) (M : TMap FGuid NodePtr) :
    ∀ (l : List (Nat × FSMNode)) (env : Env),
      (GenerateStateMachine.transitions Instance sm M l env).1 = false →
      ∃ pre x post m, l = pre ++ x :: post ∧
        x.2.Struct.IsChildOfTransition = true ∧ x.2.OwnerGuid = sm.Node.Guid ∧
        (TMap.Find M x.2.FromGuid = none ∨ TMap.Find M x.2.ToGuid = none) ∧
        (GenerateStateMachine.transitions Instance sm M pre env).1 = true ∧
        (GenerateStateMachine.transitions Instance sm M l env).2 =
          (GenerateStateMachine.transitions Instance sm M pre env).2.log m := by
  intro l
  induction l with
  | nil => intro env h; simp [GenerateStateMachine.transitions] at h
  | cons b l ih =>
    obtain ⟨i, p⟩ := b
    intro env h
    by_cases hp : p.Struct.IsChildOfTransition = true ∧ p.OwnerGuid = sm.Node.Guid
    · cases hF : TMap.Find M p.FromGuid with
      | none =>
        refine ⟨[], (i, p), l, .FromStateNotFound sm.Ptr ⟨Instance, some i⟩ p.FromGuid, rfl, hp.1,
          hp.2, Or.inl hF, rfl, ?_⟩
        simp only [GenerateStateMachine.transitions, hp.1, if_true, hp.2, ne_eq,
          not_true_eq_false, if_false, hF]
      | some F =>
        cases hT : TMap.Find M p.ToGuid with
        | none =>
          refine ⟨[], (i, p), l, .ToStateNotFound sm.Ptr ⟨Instance, some i⟩ p.ToGuid, rfl, hp.1,
            hp.2, Or.inr hT, rfl, ?_⟩
          simp only [GenerateStateMachine.transitions, hp.1, if_true, hp.2, ne_eq,
            not_true_eq_false, if_false, hF, hT]
        | some T =>
          rw [transitions_owned Instance sm M i p l env F T hp.1 hp.2 hF hT] at h
          obtain ⟨pre, x, post, m, hl, h1, h2, h3, h4, h5⟩ := ih _ h
          refine ⟨(i, p) :: pre, x, post, m, by rw [hl]; rfl, h1, h2, h3, ?_, ?_⟩
          · rw [transitions_owned Instance sm M i p pre env F T hp.1 hp.2 hF hT]; exact h4
          · rw [transitions_owned Instance sm M i p l env F T hp.1 hp.2 hF hT,
              transitions_owned Instance sm M i p pre env F T hp.1 hp.2 hF hT]
            exact h5
    · rw [transitions_skip Instance sm M i p l env hp] at h
      obtain ⟨pre, x, post, m, hl, h1, h2, h3, h4, h5⟩ := ih _ h
      refine ⟨(i, p) :: pre, x, post, m, by rw [hl]; rfl, h1, h2, h3, ?_, ?_⟩
      · rw [transitions_skip Instance sm M i p pre env hp]; exact h4
      · rw [transitions_skip Instance sm M i p l env hp,
          transitions_skip Instance sm M i p pre env hp]
        exact h5

/-- A call that assembles its state machine locally and returns has added every owned
state record to the state machine. -/
theorem local_added (w : World) (tid d : Nat) (env : Env) (Instance : UObjectRef)
    (sm : FSMStateMachine) (props : List FSMNode) (bDryRun : Bool) (r : Bool) (env' : Env)
    (hLocal : sm.Node.ClassReference = none ∨ Instance.CastSMInstance = none)
    (h : GenerateStateMachine w tid d env Instance sm props bDryRun = some (r, env')) :
    ∀ i p, props[i]? = some p → p.Struct.IsChildOfState_Base = true →
      p.OwnerGuid = sm.Node.Guid → ⟨Instance, some i⟩ ∈ env'.StatesOf sm.Ptr := by
  cases d with
  | zero => simp [GenerateStateMachine] at h
  | succ d =>
    simp only [GenerateStateMachine, GenerateStateMachine.body] at h
    have key : GenerateStateMachine.assemble tid (GenerateStateMachine w tid d)
        (!TMap.Contains env.StateMachinesGeneratingForThread tid) (env.FindOrAddGeneration tid)
        Instance sm props bDryRun = some (r, env') := by
      cases hcr : sm.Node.ClassReference with
      | none => simp only [hcr] at h; exact h
      | some cls =>
        cases Instance with
        | Object o => simp only [hcr] at h; exact h
        | SMInstance K =>
          rcases hLocal with h1 | h1
          · rw [hcr] at h1; cases h1
          · cases h1
    exact (assemble_added tid _ (GenerateStateMachine_grows w tid d) _ _ Instance sm props bDryRun
      r env' key).1

theorem enum_prefix_mem {α : Type} (props : List α) (pre post : List (Nat × α)) (x : Nat × α)
    (h : props.enum = pre ++ x :: post) (i : Nat) (p : α) (hi : i < pre.length)
    (hp : props[i]? = some p) : (i, p) ∈ pre := by
  have h1 : props.enum[i]? = some (i, p) := by
    rw [List.getElem?_enum, hp]; rfl
  rw [h, List.getElem?_append_left hi] at h1
  exact List.getElem?_mem h1

/-- C28: a call that returns false for a state machine that is no reference node has run
the whole first pass and stopped in the second pass at an owned transition record with a
dangling endpoint. What it leaves behind: every owned state record is among the states of
the state machine, the root nodes among its initial states; every owned state machine
record that is assembled locally holds the state records it owns; every owned transition
record before the dangling one is among the transitions, wired to the owned states its
`FromGuid` and `ToGuid` name; and the second pass has added those transitions and no other
to what the state machine held when the first pass ended. -/
theorem C28_failing_call_is_not_atomic (w : World) (ThreadId d : Nat) (env : Env)
    (Instance : UObjectRef) (StateMachineOut : FSMStateMachine) (RunTimeProperties : List FSMNode)
    (bDryRun : Bool) (env' : Env)
    (hNoReference : StateMachineOut.Node.ClassReference = none)
    (hRun : GenerateStateMachine w ThreadId (d + 1) env Instance StateMachineOut
      RunTimeProperties bDryRun = some (false, env')) :
    ∃ e₁ M j t,
      GenerateStateMachine.states
        (fun env Nested => GenerateStateMachine w ThreadId d env Instance Nested
          RunTimeProperties bDryRun)
        Instance StateMachineOut RunTimeProperties.enum (env.FindOrAddGeneration ThreadId) [] =
          some (e₁, M) ∧
      RunTimeProperties[j]? = some t ∧ t.Struct.IsChildOfTransition = true ∧
      t.OwnerGuid = StateMachineOut.Node.Guid ∧
      (¬ (∃ s ∈ RunTimeProperties, s.Struct.IsChildOfState_Base = true ∧
            s.OwnerGuid = StateMachineOut.Node.Guid ∧ s.Guid = t.FromGuid) ∨
        ¬ (∃ s ∈ RunTimeProperties, s.Struct.IsChildOfState_Base = true ∧
            s.OwnerGuid = StateMachineOut.Node.Guid ∧ s.Guid = t.ToGuid)) ∧
      (∀ i p, RunTimeProperties[i]? = some p → p.Struct.IsChildOfState_Base = true →
        p.OwnerGuid = StateMachineOut.Node.Guid →
        ⟨Instance, some i⟩ ∈ env'.StatesOf StateMachineOut.Ptr ∧
        (p.bIsRootNode = true → ⟨Instance, some i⟩ ∈ env'.EntryStatesOf StateMachineOut.Ptr)) ∧
      (∀ i p, RunTimeProperties[i]? = some p → p.Struct.IsChildOfStateMachine = true →
        p.OwnerGuid = StateMachineOut.Node.Guid →
        (p.ClassReference = none ∨ Instance.CastSMInstance = none) →
        ∀ k s, RunTimeProperties[k]? = some s → s.Struct.IsChildOfState_Base = true →
          s.OwnerGuid = p.Guid → ⟨Instance, some k⟩ ∈ env'.StatesOf ⟨Instance, some i⟩) ∧
      (∀ i p, i < j → RunTimeProperties[i]? = some p → p.Struct.IsChildOfTransition = true →
        p.OwnerGuid = StateMachineOut.Node.Guid →
        ⟨Instance, some i⟩ ∈ env'.TransitionsOf StateMachineOut.Ptr ∧
        (∃ a s, RunTimeProperties[a]? = some s ∧ s.Struct.IsChildOfState_Base = true ∧
          s.OwnerGuid = StateMachineOut.Node.Guid ∧ s.Guid = p.FromGuid ∧
          TMap.Find env'.FromState ⟨Instance, some i⟩ = some ⟨Instance, some a⟩) ∧
        (∃ b s, RunTimeProperties[b]? = some s ∧ s.Struct.IsChildOfState_Base = true ∧
          s.OwnerGuid = StateMachineOut.Node.Guid ∧ s.Guid = p.ToGuid ∧
          TMap.Find env'.ToState ⟨Instance, some i⟩ = some ⟨Instance, some b⟩)) ∧
      env'.TransitionsOf StateMachineOut.Ptr =
        e₁.TransitionsOf StateMachineOut.Ptr ++
          OwnedTransitions Instance StateMachineOut.Node.Guid (RunTimeProperties.enum.take j) := by
  simp only [GenerateStateMachine, GenerateStateMachine.body, hNoReference] at hRun
  unfold GenerateStateMachine.assemble at hRun
  cases hs : GenerateStateMachine.states
      (fun env Nested => GenerateStateMachine w ThreadId d env Instance Nested
        RunTimeProperties bDryRun)
      Instance StateMachineOut RunTimeProperties.enum (env.FindOrAddGeneration ThreadId) [] with
  | none => simp [hs] at hRun
  | some res =>
    obtain ⟨e₁, M⟩ := res
    simp only [hs] at hRun
    have hfalse : (GenerateStateMachine.transitions Instance StateMachineOut M
        RunTimeProperties.enum e₁).1 = false ∧
        env' = (GenerateStateMachine.transitions Instance StateMachineOut M
          RunTimeProperties.enum e₁).2 := by
      split at hRun
      · rename_i e ht
        simp only [Option.some.injEq, Prod.mk.injEq, true_and] at hRun
        rw [ht]; exact ⟨rfl, hRun.symm⟩
      · rename_i e ht
        simp at hRun
    obtain ⟨pre, x, post, m, hl, hx1, hx2, hx3, hpre, hlog⟩ := transitions_fail Instance
      StateMachineOut M RunTimeProperties.enum e₁ hfalse.1
    obtain ⟨hxi, hxp, _⟩ := enum_prefix_index RunTimeProperties pre post x hl
    have henv : env' = (GenerateStateMachine.transitions Instance StateMachineOut M pre e₁).2.log
        m := hfalse.2.trans hlog
    have hM := states_mapped _ Instance StateMachineOut _ _ _ _ _ hs
    have hnone : ∀ g, TMap.Find M g = none →
        ¬ (∃ s ∈ RunTimeProperties, s.Struct.IsChildOfState_Base = true ∧
          s.OwnerGuid = StateMachineOut.Node.Guid ∧ s.Guid = g) := by
      rintro g hg ⟨s, hsm, h1, h2, h3⟩
      obtain ⟨k, hk, hget⟩ := List.mem_iff_getElem.mp hsm
      have : TMap.Contains M g = true := (hM g).mpr (Or.inr ⟨(k, s), by
        rw [List.mk_mem_enum_iff_getElem?]; simp [hk, hget], h1, h2, h3⟩)
      simp [TMap.Contains, hg] at this
    have hgrow := GenerateStateMachine_grows w ThreadId d
    have hgrowE := GenerateStateMachine_entryGrows w ThreadId d
    have hg' : ∀ e n r e', GenerateStateMachine w ThreadId d e Instance n RunTimeProperties
        bDryRun = some (r, e') → e.Grows e' := fun e n r e' h => hgrow e Instance n _ _ r e' h
    have hgE' : ∀ e n r e', GenerateStateMachine w ThreadId d e Instance n RunTimeProperties
        bDryRun = some (r, e') → e.EntryGrows e' := fun e n r e' h => hgrowE e Instance n _ _ r e' h
    have g2 : e₁.Grows env' := by
      rw [hfalse.2]; exact transitions_grows Instance StateMachineOut M _ e₁
    have g2E : e₁.EntryGrows env' := by
      rw [hfalse.2]; exact transitions_entryGrows Instance StateMachineOut M _ e₁
    have htake : RunTimeProperties.enum.take pre.length = pre := by
      rw [hl, List.take_left']; rfl
    refine ⟨e₁, M, pre.length, x.2, rfl, hxp, hx1, hx2, ?_, ?_, ?_, ?_, ?_⟩
    · rcases hx3 with h | h
      · exact Or.inl (hnone _ h)
      · exact Or.inr (hnone _ h)
    · intro i p hi hst ho
      have hmem : (i, p) ∈ RunTimeProperties.enum := List.mk_mem_enum_iff_getElem?.mpr hi
      refine ⟨g2.1 _ _ (states_added _ hg' Instance StateMachineOut _ _ _ _ _ hs (i, p) hmem hst
        ho), fun hroot => g2E _ _ (states_entered _ hgE' Instance StateMachineOut _ _ _ _ _ hs
        (i, p) hmem hst ho hroot)⟩
    · intro i p hi hsm ho hloc k s hk hst hso
      have hmem : (i, p) ∈ RunTimeProperties.enum := List.mk_mem_enum_iff_getElem?.mpr hi
      obtain ⟨e, r, e₂, hcall, hgr⟩ := states_called _ hg' Instance StateMachineOut _ _ _ _ _ hs
        (i, p) hmem hsm ho
      exact g2.1 _ _ (hgr.1 _ _ (local_added w ThreadId d e Instance ⟨⟨Instance, some i⟩, p⟩
        RunTimeProperties bDryRun r e₂ hloc hcall k s hk hst hso))
    · intro i p hij hi htr ho
      have hmem : (i, p) ∈ pre := enum_prefix_mem RunTimeProperties pre post x hl i p hij hi
      have hnd : (pre.map Prod.fst).Nodup := by
        have h1 : (RunTimeProperties.enum.map Prod.fst).Nodup := by
          rw [List.enum_map_fst]; exact List.nodup_range _
        rw [hl, List.map_append] at h1
        exact (List.nodup_append.mp h1).1
      have hadd := transitions_added Instance StateMachineOut M pre e₁ hpre (i, p) hmem htr ho
      obtain ⟨w1, w2⟩ := transitions_wired Instance StateMachineOut M pre e₁ hnd hpre (i, p) hmem
        htr ho
      obtain ⟨c1, c2⟩ := (transitions_result Instance StateMachineOut M pre e₁).mp hpre (i, p)
        hmem htr ho
      have hfind : ∀ g, TMap.Contains M g = true →
          ∃ a s, RunTimeProperties[a]? = some s ∧ s.Struct.IsChildOfState_Base = true ∧
            s.OwnerGuid = StateMachineOut.Node.Guid ∧ s.Guid = g ∧
            TMap.Find M g = some ⟨Instance, some a⟩ := by
        intro g hg
        cases hf : TMap.Find M g with
        | none => simp [TMap.Contains, hf] at hg
        | some q =>
          rcases states_find_some _ Instance StateMachineOut g q _ _ _ _ _ hs hf with h0 | ⟨y, hy,
            k1, k2, k3, k4⟩
          · simp [TMap.Find] at h0
          · exact ⟨y.1, y.2, List.mk_mem_enum_iff_getElem?.mp hy, k1, k2, k3, by rw [k4]⟩
      obtain ⟨a, s, p1, p2, p3, p4, p5⟩ := hfind _ c1
      obtain ⟨b, s', q1, q2, q3, q4, q5⟩ := hfind _ c2
      rw [henv]
      exact ⟨hadd, ⟨a, s, p1, p2, p3, p4, w1.trans p5⟩, ⟨b, s', q1, q2, q3, q4, w2.trans q5⟩⟩
    · rw [htake, henv]
      exact transitions_exact Instance StateMachineOut M pre e₁ hpre

/-- C28, at an instance: the root state machine owns two states and three transitions, the
second of which has a dangling to-state; the call returns false, both states are there,
and the first transition only. -/
theorem C28_failing_call_is_not_atomic_witness :
    ∃ env', GenerateStateMachine [] 0 2 (Env.initial [USMInstance.ofClass 0]) (.SMInstance 0)
        (USMInstance.RootStateMachine (UClassDef.ofProperties 1 []) 0)
        [FSMNode.state 2 1 true, FSMNode.state 3 1 false, FSMNode.transition 4 1 2 3,
          FSMNode.transition 5 1 2 9, FSMNode.transition 6 1 3 2] false = some (false, env') ∧
      ⟨.SMInstance 0, some 0⟩ ∈ env'.StatesOf ⟨.SMInstance 0, none⟩ ∧
      ⟨.SMInstance 0, some 0⟩ ∈ env'.EntryStatesOf ⟨.SMInstance 0, none⟩ ∧
      ⟨.SMInstance 0, some 1⟩ ∈ env'.StatesOf ⟨.SMInstance 0, none⟩ ∧
      env'.TransitionsOf ⟨.SMInstance 0, none⟩ = [⟨.SMInstance 0, some 2⟩] := by
  obtain ⟨e₁, M, j, t, _, _, _, _, _, hstates, _, _, _⟩ := C28_failing_call_is_not_atomic [] 0 1
    (Env.initial [USMInstance.ofClass 0]) (.SMInstance 0)
    (USMInstance.RootStateMachine (UClassDef.ofProperties 1 []) 0)
    [FSMNode.state 2 1 true, FSMNode.state 3 1 false, FSMNode.transition 4 1 2 3,
      FSMNode.transition 5 1 2 9, FSMNode.transition 6 1 3 2] false _ rfl rfl
  exact ⟨_, rfl, (hstates 0 _ rfl rfl rfl).1, (hstates 0 _ rfl rfl rfl).2 rfl,
    (hstates 1 _ rfl rfl rfl).1, rfl⟩

theorem template_threadMap (w : World) (env : Env) (K : InstId) (sm : FSMStateMachine)
    (cls : UClass) (bDryRun : Bool) :
    (GenerateStateMachine.template w env K sm cls bDryRun).2.2.StateMachinesGeneratingForThread =
      env.StateMachinesGeneratingForThread := by
  obtain ⟨l, hl⟩ := template_env w env K sm cls bDryRun
  rw [hl]; rfl

theorem template_keeps (w : World) (env : Env) (K : InstId) (sm : FSMStateMachine)
    (cls : UClass) (bDryRun : Bool) :
    (GenerateStateMachine.template w env K sm cls bDryRun).2.2.Instances = env.Instances ∧
    (GenerateStateMachine.template w env K sm cls bDryRun).2.2.InstanceReference =
      env.InstanceReference := by
  obtain ⟨l, hl⟩ := template_env w env K sm cls bDryRun
  rw [hl]; exact ⟨rfl, rfl⟩

/-- A reuse-mode reference whose class is registered without an instance is only queued:
the activation returns true, creates nothing, sets no instance reference and leaves the
registration and the counters as they are. -/
theorem reuse_queued (w : World) (tid d : Nat) (e : Env) (K : InstId) (sm : FSMStateMachine)
    (cls T : UClass) (props : List FSMNode) (bDryRun : Bool)
    (hRef : sm.Node.ClassReference = some cls)
    (hReuse : sm.Node.bReuseReference = true)
    (hT : GenerateStateMachine.target w e K sm cls bDryRun = T)
    (hReg : TMap.Find (e.CurrentGeneration tid).CreatedReferences T = some none) :
    ∃ e', GenerateStateMachine w tid (d + 1) e (.SMInstance K) sm props bDryRun = some (true, e') ∧
      sm ∈ (TMap.Find (e'.CurrentGeneration tid).StateMachinesThatNeedReferences T).getD [] ∧
      e'.InstanceReference = e.InstanceReference ∧
      e'.Instances = e.Instances ∧
      TMap.Find (e'.CurrentGeneration tid).CreatedReferences T = some none ∧
      ∀ c, e'.InProgress tid c = e.InProgress tid c := by
  have hC : TMap.Contains e.StateMachinesGeneratingForThread tid = true := by
    cases hf : TMap.Find e.StateMachinesGeneratingForThread tid with
    | some g => simp [TMap.Contains, hf]
    | none => simp [Env.CurrentGeneration, hf, TMap.Find] at hReg
  obtain ⟨g, hg⟩ := Find_of_Contains _ _ hC
  have hE : e.FindOrAddGeneration tid = e := Env.FindOrAddGeneration_of_Find e tid g hg
  have hT2 : (GenerateStateMachine.template w e K sm cls bDryRun).2.1 = T := hT
  have hM := template_threadMap w e K sm cls bDryRun
  have hG := Env.CurrentGeneration_congr tid hM
  have hK := template_keeps w e K sm cls bDryRun
  simp only [GenerateStateMachine, GenerateStateMachine.body, hRef, hC, hE, Bool.not_true,
    GenerateStateMachine.reference, GenerateStateMachine.check, hReuse, if_true, hT2, hG, hReg,
    Finish_false]
  refine ⟨_, rfl, ?_, ?_, ?_, ?_, ?_⟩
  · simp only [Env.setCurrentGeneration_CurrentGeneration, TMap.Find_Add_self, Option.getD_some]
    split
    · assumption
    · simp
  · exact hK.2
  · exact hK.1
  · simp only [Env.setCurrentGeneration_CurrentGeneration]
    exact hReg
  · intro c
    simp only [Env.InProgress, Env.setCurrentGeneration_CurrentGeneration, hG]

theorem AddStateCalls_succ (d : Nat) (props : List FSMNode) (Instance : UObjectRef)
    (sm : FSMStateMachine) :
    AddStateCalls (d + 1) props Instance sm =
      if sm.Node.ClassReference.isSome && Instance.CastSMInstance.isSome then []
      else props.enum.flatMap (AddStateCalls.step d props Instance sm) := rfl

theorem AddedTo_nil (Q : NodePtr) : AddedTo Q [] = [] := rfl

theorem AddedTo_append (Q : NodePtr) (a b : List (NodePtr × NodePtr)) :
    AddedTo Q (a ++ b) = AddedTo Q a ++ AddedTo Q b := by
  simp [AddedTo]

theorem AddedTo_cons (Q : NodePtr) (e : NodePtr × NodePtr) (l : List (NodePtr × NodePtr)) :
    AddedTo Q (e :: l) = (if e.1 = Q then [e.2] else []) ++ AddedTo Q l := by
  unfold AddedTo
  by_cases h : e.1 = Q <;> simp [List.filter_cons, h]

theorem transitions_States (Instance : UObjectRef) (sm : FSMStateMachine)
    (M : TMap FGuid NodePtr) (l : List (Nat × FSMNode)) (env : Env) :
    (GenerateStateMachine.transitions Instance sm M l env).2.States = env.States ∧
    (GenerateStateMachine.transitions Instance sm M l env).2.Instances = env.Instances :=
  transitions_rel (fun a b => b.States = a.States ∧ b.Instances = a.Instances) Instance sm M
    (fun _ => ⟨rfl, rfl⟩) (fun _ _ _ h₁ h₂ => ⟨h₂.1.trans h₁.1, h₂.2.trans h₁.2⟩)
    (fun _ _ => ⟨rfl, rfl⟩) (fun _ _ _ => ⟨rfl, rfl⟩) (fun _ _ _ => ⟨rfl, rfl⟩)
    (fun _ _ _ => ⟨rfl, rfl⟩) l env

theorem StatesOf_congr {a b : Env} (h : b.States = a.States) (Q : NodePtr) :
    b.StatesOf Q = a.StatesOf Q := by
  simp [Env.StatesOf, h]

/-- What an activation that returns does to the states of the state machines outside the
instances created after the first `n`: it appends the states of its `AddState` calls. -/
theorem AddStateCalls_effect (w : World) (tid : Nat) :
    ∀ (d n : Nat) (env : Env) (Instance : UObjectRef) (sm : FSMStateMachine)
      (props : List FSMNode) (bDryRun : Bool) (r : Bool) (env' : Env),
      n ≤ env.Instances.length →
      GenerateStateMachine w tid d env Instance sm props bDryRun = some (r, env') →
      env.Instances.length ≤ env'.Instances.length ∧
      ∀ Q, NodePtr.Old n Q →
        env'.StatesOf Q = env.StatesOf Q ++ AddedTo Q (AddStateCalls d props Instance sm) := by
  intro d
  induction d with
  | zero => intro n env Instance sm props bDryRun r env' _ h; simp [GenerateStateMachine] at h
  | succ d ih =>
    intro n env Instance sm props bDryRun r env' hn h
    simp only [GenerateStateMachine, GenerateStateMachine.body] at h
    have hlocal : (sm.Node.ClassReference.isSome && Instance.CastSMInstance.isSome) = false →
        GenerateStateMachine.assemble tid (GenerateStateMachine w tid d)
          (!TMap.Contains env.StateMachinesGeneratingForThread tid) (env.FindOrAddGeneration tid)
          Instance sm props bDryRun = some (r, env') →
        env.Instances.length ≤ env'.Instances.length ∧
        ∀ Q, NodePtr.Old n Q →
          env'.StatesOf Q = env.StatesOf Q ++ AddedTo Q (AddStateCalls (d + 1) props Instance sm) := by
      intro hc h
      rw [AddStateCalls_succ, hc]
      simp only [Bool.false_eq_true, if_false]
      unfold GenerateStateMachine.assemble at h
      split at h
      · exact absurd h (by simp)
      · rename_i e₁ M hs
        have key := states_seg
          (fun l a b => a.Instances.length ≤ b.Instances.length ∧
            ∀ Q, NodePtr.Old n Q →
              b.StatesOf Q = a.StatesOf Q ++ AddedTo Q (l.flatMap (AddStateCalls.step d props Instance sm)))
          (fun a => n ≤ a.Instances.length)
          (fun e Nested => GenerateStateMachine w tid d e Instance Nested props bDryRun)
          Instance sm
          (fun e => ⟨le_refl _, fun Q _ => by simp [AddedTo_nil]⟩)
          (fun x s a b c h₁ h₂ => ⟨le_trans h₁.1 h₂.1, fun Q hQ => by
            have e1 := h₁.2 Q hQ
            have e2 := h₂.2 Q hQ
            simp only [List.flatMap_cons, List.flatMap_nil, List.append_nil, AddedTo_append] at e1 ⊢
            rw [e2, e1, List.append_assoc]⟩)
          (fun x a b ha h₁ => le_trans ha h₁.1)
          (fun i p e hnot => ⟨le_refl _, fun Q _ => by
            have : AddStateCalls.step d props Instance sm (i, p) = [] := by
              unfold AddStateCalls.step
              rw [if_neg]
              simpa using hnot
            simp [this, AddedTo_nil]⟩)
          (fun i p e e₁ e₂ hpre hst ho he₁ hnest hplain => by
            have hI₁ : e₁.Instances = e.Instances := by
              rcases he₁ with h | ⟨m, h⟩ <;> rw [h] <;> rfl
            have hS₁ : ∀ Q, e₁.StatesOf Q = if sm.Ptr = Q then e.StatesOf Q ++ [⟨Instance, some i⟩]
                else e.StatesOf Q := by
              intro Q
              rcases he₁ with h | ⟨m, h⟩ <;> rw [h]
              · exact StatesOf_AddState _ _ _ _
              · exact StatesOf_AddState _ _ _ _
            have hstep : AddStateCalls.step d props Instance sm (i, p) =
                (sm.Ptr, ⟨Instance, some i⟩) ::
                  (if p.Struct.IsChildOfStateMachine then
                    AddStateCalls d props Instance ⟨⟨Instance, some i⟩, p⟩ else []) := by
              unfold AddStateCalls.step
              simp [hst, ho]
            have hfin : ∀ (e₃ : Env),
                (if p.bIsRootNode then e₃.AddInitialState sm.Ptr ⟨Instance, some i⟩ else e₃).Instances =
                  e₃.Instances ∧
                ∀ Q, (if p.bIsRootNode then e₃.AddInitialState sm.Ptr ⟨Instance, some i⟩
                  else e₃).StatesOf Q = e₃.StatesOf Q := by
              intro e₃
              split <;> exact ⟨rfl, fun _ => rfl⟩
            have hmid : e₁.Instances.length ≤ e₂.Instances.length ∧
                ∀ Q, NodePtr.Old n Q → e₂.StatesOf Q = e₁.StatesOf Q ++
                  AddedTo Q (if p.Struct.IsChildOfStateMachine then
                    AddStateCalls d props Instance ⟨⟨Instance, some i⟩, p⟩ else []) := by
              cases hsm : p.Struct.IsChildOfStateMachine with
              | true =>
                obtain ⟨r₁, hr₁⟩ := hnest hsm
                simp only [if_true]
                exact ih n e₁ Instance ⟨⟨Instance, some i⟩, p⟩ props bDryRun r₁ e₂
                  (by rw [hI₁]; exact hpre) hr₁
              | false =>
                rw [hplain hsm]
                exact ⟨le_refl _, fun Q _ => by simp [AddedTo_nil]⟩
            refine ⟨?_, fun Q hQ => ?_⟩
            · rw [(hfin e₂).1, ← hI₁]; exact hmid.1
            · rw [(hfin e₂).2 Q, hmid.2 Q hQ, hS₁ Q, List.flatMap_cons, List.flatMap_nil,
                List.append_nil, hstep, AddedTo_cons]
              dsimp only
              split <;> simp)
          props.enum (env.FindOrAddGeneration tid) [] e₁ M hn hs
        have ht := transitions_States Instance sm M props.enum e₁
        have hend : env'.States = e₁.States ∧ env'.Instances = e₁.Instances := by
          split at h
          · rename_i e hte
            simp only [Option.some.injEq, Prod.mk.injEq] at h
            rw [hte] at ht
            rw [← h.2]; exact ht
          · rename_i e hte
            simp only [Option.some.injEq, Prod.mk.injEq] at h
            rw [hte] at ht
            rw [← h.2]
            exact ⟨(SameGraph_Finish _ _ _).1.trans ht.1, (Finish_Instances _ _ _).trans ht.2⟩
        refine ⟨?_, fun Q hQ => ?_⟩
        · rw [hend.2]; exact key.1
        · rw [StatesOf_congr hend.1 Q, key.2 Q hQ]
          rfl
    cases hcr : sm.Node.ClassReference with
    | none =>
      simp only [hcr] at h
      exact hlocal (by simp [hcr]) h
    | some cls =>
      cases Instance with
      | Object o =>
        simp only [hcr] at h
        exact hlocal (by simp [UObjectRef.CastSMInstance]) h
      | SMInstance K =>
        simp only [hcr] at h
        obtain ⟨hl, hq⟩ := reference_touch w tid _ (GenerateStateMachine_touch w tid d) _ _ K sm cls
          bDryRun r env' n (by simpa using hn) h
        refine ⟨by simpa using hl, fun Q hQ => ?_⟩
        rw [AddStateCalls_succ]
        simp only [hcr, UObjectRef.CastSMInstance, Option.isSome_some, Bool.and_self, if_true,
          AddedTo_nil, List.append_nil]
        have := (hq Q hQ).1
        unfold Env.StatesOf
        rw [this]
        rfl

/-- What is owned below a state machine record is owned below the owner of the record. -/
theorem OwnedBelow.lift {props : List FSMNode} {g : FGuid} {j : Nat} {q : FSMNode}
    (hj : props[j]? = some q) (hsm : q.Struct.IsChildOfStateMachine = true)
    (ho : q.OwnerGuid = g) {i : Nat} (h : OwnedBelow props q.Guid i) : OwnedBelow props g i := by
  have hq : OwnedBelow props g j :=
    .direct j q hj (IsChildOfState_Base_of_StateMachine _ hsm) ho
  induction h with
  | direct i p hi hs ho' => exact .deeper i j p q hi hs hj hsm ho' hq
  | deeper i j' p q' hi hs hj' hsm' ho' _ ih => exact .deeper i j' p q' hi hs hj' hsm' ho' ih

/-- Every `AddState` call of an activation adds a state record of the node set, owned below
the state machine, to the state machine itself when it owns the record and else to the
state machine record whose structural GUID is the owner GUID of the record. -/
theorem AddStateCalls_mem (props : List FSMNode) (Instance : UObjectRef) :
    ∀ (d : Nat) (sm : FSMStateMachine) (Q x : NodePtr),
      (Q, x) ∈ AddStateCalls d props Instance sm →
      ∃ i p, x = ⟨Instance, some i⟩ ∧ props[i]? = some p ∧ p.Struct.IsChildOfState_Base = true ∧
        ((Q = sm.Ptr ∧ p.OwnerGuid = sm.Node.Guid) ∨
          ∃ j q, Q = ⟨Instance, some j⟩ ∧ props[j]? = some q ∧
            q.Struct.IsChildOfStateMachine = true ∧ q.Guid = p.OwnerGuid) ∧
        OwnedBelow props sm.Node.Guid i := by
  intro d
  induction d with
  | zero => intro sm Q x h; simp [AddStateCalls] at h
  | succ d ih =>
    intro sm Q x h
    rw [AddStateCalls_succ] at h
    split at h
    · simp at h
    · obtain ⟨a, ha, hx⟩ := List.mem_flatMap.mp h
      obtain ⟨i', p'⟩ := a
      have hi' : props[i']? = some p' := List.mk_mem_enum_iff_getElem?.mp ha
      unfold AddStateCalls.step at hx
      split at hx
      · rename_i hown
        simp only [Bool.and_eq_true, decide_eq_true_eq] at hown
        rcases List.mem_cons.mp hx with heq | hsub
        · simp only [Prod.mk.injEq] at heq
          exact ⟨i', p', heq.2, hi', hown.1, Or.inl ⟨heq.1, hown.2⟩,
            .direct i' p' hi' hown.1 hown.2⟩
        · split at hsub
          · rename_i hsm
            obtain ⟨i, p, hxi, hi, hs, halt, hb⟩ := ih ⟨⟨Instance, some i'⟩, p'⟩ Q x hsub
            refine ⟨i, p, hxi, hi, hs, Or.inr ?_, OwnedBelow.lift hi' hsm hown.2 hb⟩
            rcases halt with ⟨hQ, ho⟩ | hh
            · exact ⟨i', p', hQ, hi', hsm, ho.symm⟩
            · exact hh
          · simp at hsub
      · simp at hx

/-- Ranks grow from a state machine to the owner GUID of every record owned below it. -/
theorem OwnedBelow.rank_le {props : List FSMNode} (rank : FGuid → Nat)
    (hRank : ∀ p ∈ props, p.Struct.IsChildOfStateMachine = true → rank p.OwnerGuid < rank p.Guid)
    {g : FGuid} {i : Nat} (h : OwnedBelow props g i) :
    ∀ p, props[i]? = some p → rank g ≤ rank p.OwnerGuid := by
  induction h with
  | direct i p hi hs ho =>
    intro p' hp'
    rw [hi] at hp'
    cases hp'
    rw [ho]
  | deeper i j p q hi hs hj hsm ho _ ih =>
    intro p' hp'
    rw [hi] at hp'
    cases hp'
    have h1 := ih q hj
    have h2 := hRank q (List.getElem?_mem hj) hsm
    rw [ho]
    omega

/-- No state machine record is owned below itself. -/
theorem OwnedBelow.irrefl {props : List FSMNode} (rank : FGuid → Nat)
    (hRank : ∀ p ∈ props, p.Struct.IsChildOfStateMachine = true → rank p.OwnerGuid < rank p.Guid)
    {i : Nat} {p : FSMNode} (hi : props[i]? = some p)
    (hsm : p.Struct.IsChildOfStateMachine = true) : ¬ OwnedBelow props p.Guid i := by
  intro h
  have h1 := h.rank_le rank hRank p hi
  have h2 := hRank p (List.getElem?_mem hi) hsm
  omega

/-- Two state machine records with the same owner have nothing in common below them. -/
theorem OwnedBelow.disjoint {props : List FSMNode} (rank : FGuid → Nat)
    (hUnique : ∀ (i j : Nat) (p q : FSMNode), props[i]? = some p → props[j]? = some q →
      p.Struct.IsChildOfState_Base = true → q.Struct.IsChildOfState_Base = true →
      p.Guid = q.Guid → i = j)
    (hRank : ∀ p ∈ props, p.Struct.IsChildOfStateMachine = true → rank p.OwnerGuid < rank p.Guid)
    {j₁ j₂ : Nat} {q₁ q₂ : FSMNode} (h₁ : props[j₁]? = some q₁) (h₂ : props[j₂]? = some q₂)
    (s₁ : q₁.Struct.IsChildOfStateMachine = true) (s₂ : q₂.Struct.IsChildOfStateMachine = true)
    (ho : q₁.OwnerGuid = q₂.OwnerGuid) (hne : j₁ ≠ j₂) {i : Nat}
    (a : OwnedBelow props q₁.Guid i) : ¬ OwnedBelow props q₂.Guid i := by
  have b₁ := IsChildOfState_Base_of_StateMachine _ s₁
  have b₂ := IsChildOfState_Base_of_StateMachine _ s₂
  have r₁ := hRank q₁ (List.getElem?_mem h₁) s₁
  have r₂ := hRank q₂ (List.getElem?_mem h₂) s₂
  have hr := congrArg rank ho
  induction a with
  | direct i p hi hs ho₁ =>
    intro b
    cases b with
    | direct _ p' hi' hs' ho₂ =>
      rw [hi] at hi'
      cases hi'
      exact hne (hUnique j₁ j₂ q₁ q₂ h₁ h₂ b₁ b₂ (ho₁.symm.trans ho₂))
    | deeper _ j p' q hi' hs' hj hsm ho₂ hb =>
      rw [hi] at hi'
      cases hi'
      have hj₁ : j = j₁ :=
        hUnique j j₁ q q₁ hj h₁ (IsChildOfState_Base_of_StateMachine _ hsm) b₁ (ho₂.symm.trans ho₁)
      subst hj₁
      have := hb.rank_le rank hRank q₁ h₁
      omega
  | deeper i j p q hi hs hj hsm ho₁ ha ih =>
    intro b
    cases b with
    | direct _ p' hi' hs' ho₂ =>
      rw [hi] at hi'
      cases hi'
      have hj₂ : j = j₂ :=
        hUnique j j₂ q q₂ hj h₂ (IsChildOfState_Base_of_StateMachine _ hsm) b₂ (ho₁.symm.trans ho₂)
      subst hj₂
      have := ha.rank_le rank hRank q₂ h₂
      omega
    | deeper _ j' p' q' hi' hs' hj' hsm' ho₂ hb =>
      rw [hi] at hi'
      cases hi'
      have hjj : j' = j :=
        hUnique j' j q' q hj' hj (IsChildOfState_Base_of_StateMachine _ hsm')
          (IsChildOfState_Base_of_StateMachine _ hsm) (ho₂.symm.trans ho₁)
      subst hjj
      exact ih hb

theorem enum_ext {α : Type} {l : List α} {x y : Nat × α} (hx : x ∈ l.enum) (hy : y ∈ l.enum)
    (h : x.1 = y.1) : x = y := by
  obtain ⟨i, a⟩ := x
  obtain ⟨j, b⟩ := y
  have h1 : l[i]? = some a := List.mk_mem_enum_iff_getElem?.mp hx
  have h2 : l[j]? = some b := List.mk_mem_enum_iff_getElem?.mp hy
  simp only at h
  subst h
  rw [h1] at h2
  cases h2
  rfl

theorem nodup_enum {α : Type} (l : List α) : l.enum.Nodup :=
  (List.nodup_enum_map_fst l).of_map

theorem NodePtr.some_inj {Instance : UObjectRef} {i j : Nat}
    (h : (⟨Instance, some i⟩ : NodePtr) = ⟨Instance, some j⟩) : i = j := by
  cases h; rfl

/-- The `AddState` calls of local assembly at one record. -/
theorem step_mem {d : Nat} {props : List FSMNode} {Instance : UObjectRef} {sm : FSMStateMachine}
    {i : Nat} {p : FSMNode} {Q z : NodePtr}
    (h : (Q, z) ∈ AddStateCalls.step d props Instance sm (i, p)) :
    p.Struct.IsChildOfState_Base = true ∧ p.OwnerGuid = sm.Node.Guid ∧
      ((Q = sm.Ptr ∧ z = ⟨Instance, some i⟩) ∨
        (p.Struct.IsChildOfStateMachine = true ∧
          (Q, z) ∈ AddStateCalls d props Instance ⟨⟨Instance, some i⟩, p⟩)) := by
  unfold AddStateCalls.step at h
  split at h
  · rename_i hown
    simp only [Bool.and_eq_true, decide_eq_true_eq] at hown
    refine ⟨hown.1, hown.2, ?_⟩
    rcases List.mem_cons.mp h with heq | hsub
    · simp only [Prod.mk.injEq] at heq
      exact Or.inl heq
    · split at hsub
      · rename_i hsm
        exact Or.inr ⟨hsm, hsub⟩
      · simp at hsub
  · simp at h

theorem step_direct (d : Nat) (props : List FSMNode) (Instance : UObjectRef) (sm : FSMStateMachine)
    (i : Nat) (p : FSMNode) (hs : p.Struct.IsChildOfState_Base = true)
    (ho : p.OwnerGuid = sm.Node.Guid) :
    (sm.Ptr, ⟨Instance, some i⟩) ∈ AddStateCalls.step d props Instance sm (i, p) := by
  unfold AddStateCalls.step
  simp [hs, ho]

theorem step_nested (d : Nat) (props : List FSMNode) (Instance : UObjectRef) (sm : FSMStateMachine)
    (i : Nat) (p : FSMNode) (hs : p.Struct.IsChildOfState_Base = true)
    (ho : p.OwnerGuid = sm.Node.Guid) (hsm : p.Struct.IsChildOfStateMachine = true)
    (e : NodePtr × NodePtr) (he : e ∈ AddStateCalls d props Instance ⟨⟨Instance, some i⟩, p⟩) :
    e ∈ AddStateCalls.step d props Instance sm (i, p) := by
  unfold AddStateCalls.step
  simp [hs, ho, hsm, he]

/-- No state record is added twice by the `AddState` calls of an activation, when the state
records have pairwise distinct GUIDs and the owner relation of the state machine records
is acyclic. -/
theorem AddStateCalls_nodup (props : List FSMNode) (Instance : UObjectRef) (rank : FGuid → Nat)
    (hUnique : ∀ (i j : Nat) (p q : FSMNode), props[i]? = some p → props[j]? = some q →
      p.Struct.IsChildOfState_Base = true → q.Struct.IsChildOfState_Base = true →
      p.Guid = q.Guid → i = j)
    (hRank : ∀ p ∈ props, p.Struct.IsChildOfStateMachine = true → rank p.OwnerGuid < rank p.Guid) :
    ∀ (d : Nat) (sm : FSMStateMachine),
      ((AddStateCalls d props Instance sm).map Prod.snd).Nodup := by
  intro d
  induction d with
  | zero => intro sm; simp [AddStateCalls]
  | succ d ih =>
    intro sm
    rw [AddStateCalls_succ]
    split
    · simp
    · rw [List.map_flatMap, List.nodup_flatMap]
      constructor
      · rintro ⟨i, p⟩ hx
        have hi : props[i]? = some p := List.mk_mem_enum_iff_getElem?.mp hx
        unfold AddStateCalls.step
        split
        · simp only [List.map_cons]
          split
          · rename_i hsm
            refine List.nodup_cons.mpr ⟨?_, ih _⟩
            intro hmem
            obtain ⟨e, he, hsnd⟩ := List.mem_map.mp hmem
            obtain ⟨Q, z⟩ := e
            simp only at hsnd
            subst hsnd
            obtain ⟨i', p', hz, hi', _, _, hb⟩ := AddStateCalls_mem props Instance d _ Q _ he
            have := NodePtr.some_inj hz
            subst this
            exact OwnedBelow.irrefl rank hRank hi hsm hb
          · simp
        · simp
      · refine (nodup_enum props).pairwise_of_forall_ne ?_
        rintro ⟨i₁, p₁⟩ ha ⟨i₂, p₂⟩ hb hab z hza hzb
        have hi₁ : props[i₁]? = some p₁ := List.mk_mem_enum_iff_getElem?.mp ha
        have hi₂ : props[i₂]? = some p₂ := List.mk_mem_enum_iff_getElem?.mp hb
        have hne : i₁ ≠ i₂ := fun h => hab (enum_ext ha hb h)
        obtain ⟨e₁, he₁, hs₁⟩ := List.mem_map.mp hza
        obtain ⟨e₂, he₂, hs₂⟩ := List.mem_map.mp hzb
        obtain ⟨Q₁, z₁⟩ := e₁
        obtain ⟨Q₂, z₂⟩ := e₂
        simp only at hs₁ hs₂
        subst hs₁
        subst hs₂
        obtain ⟨_, o₁, c₁⟩ := step_mem he₁
        obtain ⟨_, o₂, c₂⟩ := step_mem he₂
        rcases c₁ with ⟨_, hz₁⟩ | ⟨m₁, t₁⟩
        · rcases c₂ with ⟨_, hz₂⟩ | ⟨m₂, t₂⟩
          · exact hne (NodePtr.some_inj (hz₁.symm.trans hz₂))
          · obtain ⟨i', p', hz, hi', _, _, hb'⟩ := AddStateCalls_mem props Instance d _ Q₂ _ t₂
            have := NodePtr.some_inj (hz₁.symm.trans hz)
            subst this
            have h1 := hb'.rank_le rank hRank p₁ hi₁
            have h2 := hRank p₂ (List.getElem?_mem hi₂) m₂
            have h3 := congrArg rank (o₁.trans o₂.symm)
            simp only at h1
            omega
        · obtain ⟨i', p', hz, hi', _, _, hb'⟩ := AddStateCalls_mem props Instance d _ Q₁ _ t₁
          simp only at hb'
          rcases c₂ with ⟨_, hz₂⟩ | ⟨m₂, t₂⟩
          · have := NodePtr.some_inj (hz.symm.trans hz₂)
            subst this
            have h1 := hb'.rank_le rank hRank p₂ hi₂
            have h2 := hRank p₁ (List.getElem?_mem hi₁) m₁
            have h3 := congrArg rank (o₁.trans o₂.symm)
            omega
          · obtain ⟨i'', p'', hz', hi'', _, _, hb''⟩ := AddStateCalls_mem props Instance d _ Q₂ _ t₂
            simp only at hb''
            have := NodePtr.some_inj (hz.symm.trans hz')
            subst this
            exact OwnedBelow.disjoint rank hUnique hRank hi₁ hi₂ m₁ m₂ (o₁.trans o₂.symm) hne hb' hb''

/-- The `AddState` calls of the nested activation on a state machine record that an
activation adds are among the calls of that activation, when the node set nests below the
state machine within the call depth. -/
theorem AddStateCalls_nested (props : List FSMNode) (Instance : UObjectRef) :
    ∀ (d : Nat) (sm : FSMStateMachine) (Q : NodePtr) (j : Nat) (q : FSMNode),
      Nests d props sm.Node.Guid = true →
      (Q, ⟨Instance, some j⟩) ∈ AddStateCalls d props Instance sm →
      props[j]? = some q → q.Struct.IsChildOfStateMachine = true →
      ∃ d', Nests d' props q.Guid = true ∧
        ∀ e ∈ AddStateCalls d' props Instance ⟨⟨Instance, some j⟩, q⟩,
          e ∈ AddStateCalls d props Instance sm := by
  intro d
  induction d with
  | zero => intro sm Q j q hn; simp [Nests] at hn
  | succ d ih =>
    intro sm Q j q hn h hj hsm
    rw [AddStateCalls_succ] at h ⊢
    split at h
    · simp at h
    · rename_i hcut
      simp only [hcut, if_false]
      obtain ⟨a, ha, hx⟩ := List.mem_flatMap.mp h
      obtain ⟨i', p'⟩ := a
      have hi' : props[i']? = some p' := List.mk_mem_enum_iff_getElem?.mp ha
      obtain ⟨hs', ho', c⟩ := step_mem hx
      rcases c with ⟨_, hz⟩ | ⟨m, t⟩
      · have := NodePtr.some_inj hz
        subst this
        rw [hi'] at hj
        cases hj
        exact ⟨d, Nests_child hn (List.getElem?_mem hi') hsm ho', fun e he =>
          List.mem_flatMap.mpr ⟨(j, q), ha, step_nested d props Instance sm j q hs' ho' hsm e he⟩⟩
      · obtain ⟨d', hd', hin⟩ := ih ⟨⟨Instance, some i'⟩, p'⟩ Q j q
          (Nests_child hn (List.getElem?_mem hi') m ho') t hj hsm
        exact ⟨d', hd', fun e he =>
          List.mem_flatMap.mpr ⟨(i', p'), ha,
            step_nested d props Instance sm i' p' hs' ho' m e (hin e he)⟩⟩

/-- Local assembly adds every state record the state machine owns. -/
theorem AddStateCalls_direct (props : List FSMNode) (Instance : UObjectRef) (d : Nat)
    (sm : FSMStateMachine)
    (hLocal : (sm.Node.ClassReference.isSome && Instance.CastSMInstance.isSome) = false)
    (i : Nat) (p : FSMNode) (hi : props[i]? = some p)
    (hs : p.Struct.IsChildOfState_Base = true) (ho : p.OwnerGuid = sm.Node.Guid) :
    (sm.Ptr, ⟨Instance, some i⟩) ∈ AddStateCalls (d + 1) props Instance sm := by
  rw [AddStateCalls_succ, hLocal]
  simp only [Bool.false_eq_true, if_false]
  exact List.mem_flatMap.mpr ⟨(i, p), List.mk_mem_enum_iff_getElem?.mpr hi,
    step_direct d props Instance sm i p hs ho⟩

/-- Every state record is added by the `AddState` calls of the activation on the root state
machine, when every state record is owned by the root or by a state machine record that is
no reference node, acyclically, and the node set nests within the call depth. -/
theorem AddStateCalls_covers (props : List FSMNode) (Instance : UObjectRef) (rank : FGuid → Nat)
    (d : Nat) (sm : FSMStateMachine) (hRoot : sm.Node.ClassReference = none)
    (hOwner : ∀ p ∈ props, p.Struct.IsChildOfState_Base = true →
      p.OwnerGuid = sm.Node.Guid ∨
      ∃ q ∈ props, q.Struct.IsChildOfStateMachine = true ∧ q.ClassReference = none ∧
        q.Guid = p.OwnerGuid)
    (hRank : ∀ p ∈ props, p.Struct.IsChildOfStateMachine = true → rank p.OwnerGuid < rank p.Guid)
    (hn : Nests d props sm.Node.Guid = true) :
    ∀ (n i : Nat) (p : FSMNode), rank p.OwnerGuid ≤ n → props[i]? = some p →
      p.Struct.IsChildOfState_Base = true →
      ∃ Q, (Q, ⟨Instance, some i⟩) ∈ AddStateCalls d props Instance sm := by
  have hd : ∃ d₀, d = d₀ + 1 := by
    cases d with
    | zero => simp [Nests] at hn
    | succ d₀ => exact ⟨d₀, rfl⟩
  intro n
  induction n with
  | zero =>
    intro i p hr hi hs
    rcases hOwner p (List.getElem?_mem hi) hs with ho | ⟨q, hq, hsm, _, hg⟩
    · obtain ⟨d₀, rfl⟩ := hd
      exact ⟨sm.Ptr, AddStateCalls_direct props Instance d₀ sm (by simp [hRoot]) i p hi hs ho⟩
    · have := hRank q hq hsm
      rw [hg] at this
      omega
  | succ n ih =>
    intro i p hr hi hs
    rcases hOwner p (List.getElem?_mem hi) hs with ho | ⟨q, hq, hsm, hloc, hg⟩
    · obtain ⟨d₀, rfl⟩ := hd
      exact ⟨sm.Ptr, AddStateCalls_direct props Instance d₀ sm (by simp [hRoot]) i p hi hs ho⟩
    · have hlt := hRank q hq hsm
      rw [hg] at hlt
      obtain ⟨j, hj⟩ := List.mem_iff_getElem?.mp hq
      obtain ⟨Q, hQ⟩ := ih j q (by omega) hj (IsChildOfState_Base_of_StateMachine _ hsm)
      obtain ⟨d', hd', hin⟩ := AddStateCalls_nested props Instance d sm Q j q hn hQ hj hsm
      cases d' with
      | zero => simp [Nests] at hd'
      | succ d₁ =>
        exact ⟨_, hin _ (AddStateCalls_direct props Instance d₁ ⟨⟨Instance, some j⟩, q⟩
          (by simp [hloc]) i p hi hs hg.symm)⟩

theorem StateRecords_nodup (Instance : UObjectRef) (props : List FSMNode) :
    (StateRecords Instance props).Nodup := by
  unfold StateRecords
  refine List.Nodup.map_on ?_ ((nodup_enum props).filter _)
  intro x hx y hy h
  exact enum_ext (List.mem_filter.mp hx).1 (List.mem_filter.mp hy).1 (NodePtr.some_inj h)

theorem mem_StateRecords {Instance : UObjectRef} {props : List FSMNode} {x : NodePtr} :
    x ∈ StateRecords Instance props ↔
      ∃ i p, x = ⟨Instance, some i⟩ ∧ props[i]? = some p ∧ p.Struct.IsChildOfState_Base = true := by
  unfold StateRecords
  constructor
  · intro h
    obtain ⟨⟨i, p⟩, hm, hx⟩ := List.mem_map.mp h
    obtain ⟨he, hs⟩ := List.mem_filter.mp hm
    exact ⟨i, p, hx.symm, List.mk_mem_enum_iff_getElem?.mp he, hs⟩
  · rintro ⟨i, p, hx, hi, hs⟩
    exact List.mem_map.mpr ⟨(i, p),
      List.mem_filter.mpr ⟨List.mk_mem_enum_iff_getElem?.mpr hi, hs⟩, hx.symm⟩

theorem OwnedStates_nodup (Instance : UObjectRef) (g : FGuid) (props : List FSMNode) :
    (OwnedStates Instance g props.enum).Nodup := by
  unfold OwnedStates
  refine List.Nodup.map_on ?_ ((nodup_enum props).filter _)
  intro x hx y hy h
  exact enum_ext (List.mem_filter.mp hx).1 (List.mem_filter.mp hy).1 (NodePtr.some_inj h)

theorem mem_OwnedStates {Instance : UObjectRef} {g : FGuid} {props : List FSMNode} {x : NodePtr} :
    x ∈ OwnedStates Instance g props.enum ↔
      ∃ i p, x = ⟨Instance, some i⟩ ∧ props[i]? = some p ∧
        p.Struct.IsChildOfState_Base = true ∧ p.OwnerGuid = g := by
  unfold OwnedStates
  constructor
  · intro h
    obtain ⟨⟨i, p⟩, hm, hx⟩ := List.mem_map.mp h
    obtain ⟨he, hs⟩ := List.mem_filter.mp hm
    simp only [Bool.and_eq_true, decide_eq_true_eq] at hs
    exact ⟨i, p, hx.symm, List.mk_mem_enum_iff_getElem?.mp he, hs.1, hs.2⟩
  · rintro ⟨i, p, hx, hi, hs, ho⟩
    exact List.mem_map.mpr ⟨(i, p),
      List.mem_filter.mpr ⟨List.mk_mem_enum_iff_getElem?.mpr hi, by simp [hs, ho]⟩, hx.symm⟩

/-- The states the `AddState` calls of the activation on the root state machine add are the
state records of the node set, each once. -/
theorem AddStateCalls_perm (props : List FSMNode) (Instance : UObjectRef) (rank : FGuid → Nat)
    (d : Nat) (sm : FSMStateMachine) (hRoot : sm.Node.ClassReference = none)
    (hUnique : ∀ (i j : Nat) (p q : FSMNode), props[i]? = some p → props[j]? = some q →
      p.Struct.IsChildOfState_Base = true → q.Struct.IsChildOfState_Base = true →
      p.Guid = q.Guid → i = j)
    (hOwner : ∀ p ∈ props, p.Struct.IsChildOfState_Base = true →
      p.OwnerGuid = sm.Node.Guid ∨
      ∃ q ∈ props, q.Struct.IsChildOfStateMachine = true ∧ q.ClassReference = none ∧
        q.Guid = p.OwnerGuid)
    (hRank : ∀ p ∈ props, p.Struct.IsChildOfStateMachine = true → rank p.OwnerGuid < rank p.Guid)
    (hn : Nests d props sm.Node.Guid = true) :
    ((AddStateCalls d props Instance sm).map Prod.snd).Perm (StateRecords Instance props) := by
  rw [List.perm_ext_iff_of_nodup (AddStateCalls_nodup props Instance rank hUnique hRank d sm)
    (StateRecords_nodup Instance props)]
  intro x
  constructor
  · intro h
    obtain ⟨⟨Q, z⟩, he, hz⟩ := List.mem_map.mp h
    simp only at hz
    subst hz
    obtain ⟨i, p, hx, hi, hs, _, _⟩ := AddStateCalls_mem props Instance d sm Q _ he
    exact mem_StateRecords.mpr ⟨i, p, hx, hi, hs⟩
  · intro h
    obtain ⟨i, p, hx, hi, hs⟩ := mem_StateRecords.mp h
    obtain ⟨Q, hQ⟩ := AddStateCalls_covers props Instance rank d sm hRoot hOwner hRank hn
      (rank p.OwnerGuid) i p (le_refl _) hi hs
    rw [hx]
    exact List.mem_map.mpr ⟨_, hQ, rfl⟩

theorem Env.Closed.closedOfStates {a b : Env} (h : b.States = a.States) (ha : a.Closed) : b.Closed := by
  intro Q x hx
  rw [StatesOf_congr h Q] at hx
  exact ha Q x hx

theorem Env.Closed.closedOfSameGraph {a b : Env} (h : a.SameGraph b) (ha : a.Closed) : b.Closed :=
  ha.closedOfStates h.1

theorem Closed_AddState (env : Env) (P x : NodePtr) (h : x.Container = P.Container)
    (ha : env.Closed) : (env.AddState P x).Closed := by
  intro Q y hy
  rw [StatesOf_AddState] at hy
  split at hy
  · rename_i hPQ
    subst hPQ
    rcases List.mem_append.mp hy with h1 | h1
    · exact ha _ y h1
    · simp only [List.mem_singleton] at h1
      rw [h1]; exact h
  · exact ha Q y hy

theorem assemble_closed (tid : Nat) (gsm : GenerateCall) (hg : ClosedOK gsm) (top : Bool)
    (env : Env) (Instance : UObjectRef) (sm : FSMStateMachine) (props : List FSMNode)
    (bDryRun : Bool) (r : Bool) (env' : Env) (hP : sm.Ptr.Container = Instance)
    (hc : env.Closed)
    (h : GenerateStateMachine.assemble tid gsm top env Instance sm props bDryRun = some (r, env')) :
    env'.Closed := by
  unfold GenerateStateMachine.assemble at h
  split at h
  · exact absurd h (by simp)
  · rename_i e₁ M hs
    have key := states_seg (fun _ a b => a.Closed → b.Closed) (fun _ => True)
      (fun e Nested => gsm e Instance Nested props bDryRun) Instance sm
      (fun e h => h)
      (fun x s a b c h₁ h₂ ha => h₂ (h₁ ha))
      (fun _ _ _ _ _ => trivial)
      (fun i p e _ h => h)
      (fun i p e e₁ e₂ _ hst ho he₁ hnest hplain hcl => by
        have c₁ : e₁.Closed := by
          rcases he₁ with h | ⟨m, h⟩ <;> rw [h]
          · exact Closed_AddState e _ _ hP.symm hcl
          · exact (Closed_AddState e _ _ hP.symm hcl).closedOfStates rfl
        have c₂ : e₂.Closed := by
          cases hsm : p.Struct.IsChildOfStateMachine with
          | true =>
            obtain ⟨r₁, hr₁⟩ := hnest hsm
            exact hg e₁ Instance ⟨⟨Instance, some i⟩, p⟩ props bDryRun r₁ e₂ rfl c₁ hr₁
          | false => rw [hplain hsm]; exact c₁
        split
        · exact c₂.closedOfStates rfl
        · exact c₂)
      props.enum env [] e₁ M trivial hs hc
    have ht := transitions_States Instance sm M props.enum e₁
    split at h
    · rename_i e hte
      simp only [Option.some.injEq, Prod.mk.injEq] at h
      rw [hte] at ht
      rw [← h.2]; exact key.closedOfStates ht.1
    · rename_i e hte
      simp only [Option.some.injEq, Prod.mk.injEq] at h
      rw [hte] at ht
      rw [← h.2]
      exact key.closedOfStates ((SameGraph_Finish _ _ _).1.trans ht.1)

theorem reference_closed (w : World) (tid : Nat) (gsm : GenerateCall) (hg : ClosedOK gsm)
    (top : Bool) (env : Env) (K : InstId) (sm : FSMStateMachine) (cls : UClass) (bDryRun : Bool)
    (r : Bool) (env' : Env) (hc : env.Closed)
    (h : GenerateStateMachine.reference w tid gsm top env K sm cls bDryRun = some (r, env')) :
    env'.Closed := by
  have ht := SameGraph_template w env K sm cls bDryRun
  rcases reference_cases w tid gsm top env K sm cls bDryRun r env' h with
    hchk | ⟨env₂, hchk, _, _, he⟩ | ⟨env₂, r₁, e, hchk, _, hcall, _, he⟩
  · exact hc.closedOfSameGraph (ht.graphThen (SameGraph_check_inl tid top _ K sm _ r env' hchk).1)
  · rw [he]
    exact hc.closedOfSameGraph ((ht.graphThen (SameGraph_check_inr tid top _ K sm _ env₂ hchk).1).graphThen
      (SameGraph_Finish _ _ _))
  · rw [he]
    have h1 : env.SameGraph ((GenerateStateMachine.increment tid env₂
        (GenerateStateMachine.template w env K sm cls bDryRun).2.1).Initializing
        (GenerateStateMachine.template w env K sm cls bDryRun).2.1
        (GenerateStateMachine.template w env K sm cls bDryRun).1 (env₂.GetContext K)) :=
      ((ht.graphThen (SameGraph_check_inr tid top _ K sm _ env₂ hchk).1).graphThen
        (SameGraph_increment _ _ _)).graphThen (SameGraph_Initializing _ _ _ _)
    have h2 : e.Closed :=
      hg _ (.SMInstance env₂.Instances.length)
        (USMInstance.RootStateMachine
          (w.GetClass (GenerateStateMachine.template w env K sm cls bDryRun).2.1)
          env₂.Instances.length) _ _ _ _ rfl (hc.closedOfSameGraph h1) hcall
    exact h2.closedOfSameGraph
      (((SameGraph_referenced tid e K sm _ _).1).graphThen (SameGraph_Finish _ _ _))

theorem body_closed (w : World) (tid : Nat) (gsm : GenerateCall) (hg : ClosedOK gsm) :
    ClosedOK (GenerateStateMachine.body w tid gsm) := by
  intro env Instance sm props bDryRun r env' hP hc h
  have h0 : (env.FindOrAddGeneration tid).Closed :=
    hc.closedOfSameGraph (SameGraph_FindOrAddGeneration env tid)
  unfold GenerateStateMachine.body at h
  dsimp only at h
  cases hcr : sm.Node.ClassReference with
  | none =>
    simp only [hcr] at h
    exact assemble_closed tid gsm hg _ _ Instance sm props bDryRun r env' hP h0 h
  | some cls =>
    cases Instance with
    | Object o =>
      simp only [hcr] at h
      exact assemble_closed tid gsm hg _ _ _ sm props bDryRun r env' hP h0 h
    | SMInstance K =>
      simp only [hcr] at h
      exact reference_closed w tid gsm hg _ _ K sm cls bDryRun r env' h0 h

theorem GenerateStateMachine_closed (w : World) (tid : Nat) :
    ∀ depth, ClosedOK (GenerateStateMachine w tid depth) := by
  intro depth
  induction depth with
  | zero => intro env Instance sm props bDryRun r env' _ _ h; simp [GenerateStateMachine] at h
  | succ d ih => exact body_closed w tid _ ih

theorem mem_AddedTo {Q x : NodePtr} {l : List (NodePtr × NodePtr)} :
    x ∈ AddedTo Q l ↔ (Q, x) ∈ l := by
  unfold AddedTo
  constructor
  · intro h
    obtain ⟨⟨Q', z⟩, hm, hz⟩ := List.mem_map.mp h
    obtain ⟨he, hq⟩ := List.mem_filter.mp hm
    simp only [decide_eq_true_eq] at hq
    simp only at hz
    subst hz
    subst hq
    exact he
  · intro h
    exact List.mem_map.mpr ⟨(Q, x), List.mem_filter.mpr ⟨h, by simp⟩, rfl⟩

theorem AddedTo_nodup (Q : NodePtr) {l : List (NodePtr × NodePtr)}
    (h : (l.map Prod.snd).Nodup) : (AddedTo Q l).Nodup :=
  List.Nodup.sublist (List.Sublist.map Prod.snd (List.filter_sublist l)) h

theorem flatMap_filter_map {α β γ : Type} (l : List α) (p : α → Bool) (g : α → β)
    (f : β → List γ) :
    ((l.filter p).map g).flatMap f = l.flatMap (fun x => if p x then f (g x) else []) := by
  induction l with
  | nil => rfl
  | cons a l ih =>
    by_cases h : p a
    · simp [List.filter_cons, h, ih]
    · simp [List.filter_cons, h, ih]

theorem Contained_nil (env : Env) (P : NodePtr) (h : env.StatesOf P = []) :
    ∀ k, env.Contained k P = [] := by
  intro k
  cases k with
  | zero => rfl
  | succ k => simp [Env.Contained, h]

/-- No state machine record has the structural GUID of the root state machine. -/
theorem root_guid_fresh (props : List FSMNode) (Instance : UObjectRef) (rank : FGuid → Nat)
    (d : Nat) (sm : FSMStateMachine) (hRoot : sm.Node.ClassReference = none)
    (hOwner : ∀ p ∈ props, p.Struct.IsChildOfState_Base = true →
      p.OwnerGuid = sm.Node.Guid ∨
      ∃ q ∈ props, q.Struct.IsChildOfStateMachine = true ∧ q.ClassReference = none ∧
        q.Guid = p.OwnerGuid)
    (hRank : ∀ p ∈ props, p.Struct.IsChildOfStateMachine = true → rank p.OwnerGuid < rank p.Guid)
    (hn : Nests d props sm.Node.Guid = true) (j : Nat) (q : FSMNode) (hj : props[j]? = some q)
    (hsm : q.Struct.IsChildOfStateMachine = true) : q.Guid ≠ sm.Node.Guid := by
  intro heq
  obtain ⟨Q, hQ⟩ := AddStateCalls_covers props Instance rank d sm hRoot hOwner hRank hn
    (rank q.OwnerGuid) j q (le_refl _) hj (IsChildOfState_Base_of_StateMachine _ hsm)
  obtain ⟨i, p, hx, hi, _, _, hb⟩ := AddStateCalls_mem props Instance d sm Q _ hQ
  have hji := NodePtr.some_inj hx
  subst hji
  have h1 := hb.rank_le rank hRank q hj
  have h2 := hRank q (List.getElem?_mem hj) hsm
  rw [heq] at h2
  omega

/-- The state machine an `AddState` call of the root activation adds a state record to is
the root when the root GUID is the owner GUID of the record, and the state machine record
with that GUID otherwise. -/
theorem AddStateCalls_owner (props : List FSMNode) (Instance : UObjectRef) (rank : FGuid → Nat)
    (d : Nat) (sm : FSMStateMachine) (hRoot : sm.Node.ClassReference = none)
    (hUnique : ∀ (i j : Nat) (p q : FSMNode), props[i]? = some p → props[j]? = some q →
      p.Struct.IsChildOfState_Base = true → q.Struct.IsChildOfState_Base = true →
      p.Guid = q.Guid → i = j)
    (hOwner : ∀ p ∈ props, p.Struct.IsChildOfState_Base = true →
      p.OwnerGuid = sm.Node.Guid ∨
      ∃ q ∈ props, q.Struct.IsChildOfStateMachine = true ∧ q.ClassReference = none ∧
        q.Guid = p.OwnerGuid)
    (hRank : ∀ p ∈ props, p.Struct.IsChildOfStateMachine = true → rank p.OwnerGuid < rank p.Guid)
    (hn : Nests d props sm.Node.Guid = true) (Q : NodePtr) (i : Nat) (p : FSMNode)
    (hi : props[i]? = some p)
    (h : (Q, ⟨Instance, some i⟩) ∈ AddStateCalls d props Instance sm) :
    (p.OwnerGuid = sm.Node.Guid → Q = sm.Ptr) ∧
    (∀ j q, props[j]? = some q → q.Struct.IsChildOfStateMachine = true →
      q.Guid = p.OwnerGuid → Q = ⟨Instance, some j⟩) := by
  obtain ⟨i', p', hx, hi', _, halt, _⟩ := AddStateCalls_mem props Instance d sm Q _ h
  have hii := NodePtr.some_inj hx
  subst hii
  rw [hi] at hi'
  cases hi'
  have hfresh := root_guid_fresh props Instance rank d sm hRoot hOwner hRank hn
  constructor
  · intro ho
    rcases halt with ⟨hQ, _⟩ | ⟨j', q', _, hj', hsm', hg'⟩
    · exact hQ
    · exact absurd (hg'.trans ho) (hfresh j' q' hj' hsm')
  · intro j q hj hsm hg
    rcases halt with ⟨_, ho⟩ | ⟨j', q', hQ, hj', hsm', hg'⟩
    · exact absurd (hg.trans ho) (hfresh j q hj hsm)
    · have : j' = j := hUnique j' j q' q hj' hj (IsChildOfState_Base_of_StateMachine _ hsm')
        (IsChildOfState_Base_of_StateMachine _ hsm) (hg'.trans hg.symm)
      rw [hQ, this]

/-- The states the root activation adds to the root state machine are the state records the
root owns. -/
theorem AddedTo_root (props : List FSMNode) (Instance : UObjectRef) (rank : FGuid → Nat)
    (d : Nat) (sm : FSMStateMachine) (hRoot : sm.Node.ClassReference = none)
    (hPtr : sm.Ptr = ⟨Instance, none⟩)
    (hUnique : ∀ (i j : Nat) (p q : FSMNode), props[i]? = some p → props[j]? = some q →
      p.Struct.IsChildOfState_Base = true → q.Struct.IsChildOfState_Base = true →
      p.Guid = q.Guid → i = j)
    (hOwner : ∀ p ∈ props, p.Struct.IsChildOfState_Base = true →
      p.OwnerGuid = sm.Node.Guid ∨
      ∃ q ∈ props, q.Struct.IsChildOfStateMachine = true ∧ q.ClassReference = none ∧
        q.Guid = p.OwnerGuid)
    (hRank : ∀ p ∈ props, p.Struct.IsChildOfStateMachine = true → rank p.OwnerGuid < rank p.Guid)
    (hn : Nests d props sm.Node.Guid = true) :
    (AddedTo sm.Ptr (AddStateCalls d props Instance sm)).Perm
      (OwnedStates Instance sm.Node.Guid props.enum) := by
  rw [List.perm_ext_iff_of_nodup
    (AddedTo_nodup _ (AddStateCalls_nodup props Instance rank hUnique hRank d sm))
    (OwnedStates_nodup Instance _ props)]
  intro x
  rw [mem_AddedTo, mem_OwnedStates]
  constructor
  · intro h
    obtain ⟨i, p, hx, hi, hs, halt, _⟩ := AddStateCalls_mem props Instance d sm _ _ h
    rcases halt with ⟨_, ho⟩ | ⟨j', q', hQ, _⟩
    · exact ⟨i, p, hx, hi, hs, ho⟩
    · rw [hPtr] at hQ
      simp at hQ
  · rintro ⟨i, p, hx, hi, hs, ho⟩
    obtain ⟨Q, hQ⟩ := AddStateCalls_covers props Instance rank d sm hRoot hOwner hRank hn
      (rank p.OwnerGuid) i p (le_refl _) hi hs
    have := (AddStateCalls_owner props Instance rank d sm hRoot hUnique hOwner hRank hn Q i p hi
      hQ).1 ho
    rw [hx, ← this]
    exact hQ

/-- The states the root activation adds to a state machine record are the state records
that record owns. -/
theorem AddedTo_record (props : List FSMNode) (Instance : UObjectRef) (rank : FGuid → Nat)
    (d : Nat) (sm : FSMStateMachine) (hRoot : sm.Node.ClassReference = none)
    (hPtr : sm.Ptr = ⟨Instance, none⟩)
    (hUnique : ∀ (i j : Nat) (p q : FSMNode), props[i]? = some p → props[j]? = some q →
      p.Struct.IsChildOfState_Base = true → q.Struct.IsChildOfState_Base = true →
      p.Guid = q.Guid → i = j)
    (hOwner : ∀ p ∈ props, p.Struct.IsChildOfState_Base = true →
      p.OwnerGuid = sm.Node.Guid ∨
      ∃ q ∈ props, q.Struct.IsChildOfStateMachine = true ∧ q.ClassReference = none ∧
        q.Guid = p.OwnerGuid)
    (hRank : ∀ p ∈ props, p.Struct.IsChildOfStateMachine = true → rank p.OwnerGuid < rank p.Guid)
    (hn : Nests d props sm.Node.Guid = true) (j : Nat) (q : FSMNode) (hj : props[j]? = some q)
    (hsm : q.Struct.IsChildOfStateMachine = true) :
    (AddedTo ⟨Instance, some j⟩ (AddStateCalls d props Instance sm)).Perm
      (OwnedStates Instance q.Guid props.enum) := by
  rw [List.perm_ext_iff_of_nodup
    (AddedTo_nodup _ (AddStateCalls_nodup props Instance rank hUnique hRank d sm))
    (OwnedStates_nodup Instance _ props)]
  intro x
  rw [mem_AddedTo, mem_OwnedStates]
  constructor
  · intro h
    obtain ⟨i, p, hx, hi, hs, halt, _⟩ := AddStateCalls_mem props Instance d sm _ _ h
    rcases halt with ⟨hQ, _⟩ | ⟨j', q', hQ, hj', _, hg'⟩
    · rw [hPtr] at hQ
      simp at hQ
    · have := NodePtr.some_inj hQ
      subst this
      rw [hj] at hj'
      cases hj'
      exact ⟨i, p, hx, hi, hs, hg'.symm⟩
  · rintro ⟨i, p, hx, hi, hs, ho⟩
    obtain ⟨Q, hQ⟩ := AddStateCalls_covers props Instance rank d sm hRoot hOwner hRank hn
      (rank p.OwnerGuid) i p (le_refl _) hi hs
    have := (AddStateCalls_owner props Instance rank d sm hRoot hUnique hOwner hRank hn Q i p hi
      hQ).2 j q hj hsm ho.symm
    rw [hx, ← this]
    exact hQ

/-- The root activation adds no state to a record that is no state machine record. -/
theorem AddedTo_leaf (props : List FSMNode) (Instance : UObjectRef) (d : Nat)
    (sm : FSMStateMachine) (hPtr : sm.Ptr = ⟨Instance, none⟩) (j : Nat) (q : FSMNode)
    (hj : props[j]? = some q) (hsm : q.Struct.IsChildOfStateMachine = false) :
    AddedTo ⟨Instance, some j⟩ (AddStateCalls d props Instance sm) = [] := by
  rw [List.eq_nil_iff_forall_not_mem]
  intro x hx
  rw [mem_AddedTo] at hx
  obtain ⟨i, p, _, _, _, halt, _⟩ := AddStateCalls_mem props Instance d sm _ _ hx
  rcases halt with ⟨hQ, _⟩ | ⟨j', q', hQ, hj', hsm', _⟩
  · rw [hPtr] at hQ
    simp at hQ
  · have := NodePtr.some_inj hQ
    subst this
    rw [hj] at hj'
    cases hj'
    rw [hsm] at hsm'
    cases hsm'

/-- A state machine record that is a reference node owns no state record. -/
theorem reference_owns_nothing (props : List FSMNode) (Instance : UObjectRef) (rank : FGuid → Nat)
    (d : Nat) (sm : FSMStateMachine) (hRoot : sm.Node.ClassReference = none)
    (hUnique : ∀ (i j : Nat) (p q : FSMNode), props[i]? = some p → props[j]? = some q →
      p.Struct.IsChildOfState_Base = true → q.Struct.IsChildOfState_Base = true →
      p.Guid = q.Guid → i = j)
    (hOwner : ∀ p ∈ props, p.Struct.IsChildOfState_Base = true →
      p.OwnerGuid = sm.Node.Guid ∨
      ∃ q ∈ props, q.Struct.IsChildOfStateMachine = true ∧ q.ClassReference = none ∧
        q.Guid = p.OwnerGuid)
    (hRank : ∀ p ∈ props, p.Struct.IsChildOfStateMachine = true → rank p.OwnerGuid < rank p.Guid)
    (hn : Nests d props sm.Node.Guid = true) (j : Nat) (q : FSMNode) (hj : props[j]? = some q)
    (hsm : q.Struct.IsChildOfStateMachine = true) (href : q.ClassReference.isSome = true) :
    OwnedStates Instance q.Guid props.enum = [] := by
  rw [List.eq_nil_iff_forall_not_mem]
  intro x hx
  obtain ⟨i, p, _, hi, hs, ho⟩ := mem_OwnedStates.mp hx
  rcases hOwner p (List.getElem?_mem hi) hs with h0 | ⟨q', hq', hsm', hloc, hg'⟩
  · exact root_guid_fresh props Instance rank d sm hRoot hOwner hRank hn j q hj hsm (ho.symm.trans h0)
  · obtain ⟨j', hj'⟩ := List.mem_iff_getElem?.mp hq'
    have : j' = j := hUnique j' j q' q hj' hj (IsChildOfState_Base_of_StateMachine _ hsm')
      (IsChildOfState_Base_of_StateMachine _ hsm) (hg'.trans ho)
    subst this
    rw [hj] at hj'
    cases hj'
    rw [hloc] at href
    cases href

/-- One level of the containment traversal against the `AddState` calls of an activation. -/
theorem Contained_level (env' : Env) (props : List FSMNode) (Instance : UObjectRef) (k : Nat)
    (sm : FSMStateMachine)
    (hst : (env'.StatesOf sm.Ptr).Perm (OwnedStates Instance sm.Node.Guid props.enum))
    (hcut : (sm.Node.ClassReference.isSome && Instance.CastSMInstance.isSome) = true →
      OwnedStates Instance sm.Node.Guid props.enum = [])
    (hchild : ∀ i p, props[i]? = some p → p.Struct.IsChildOfStateMachine = true →
      (env'.Contained k ⟨Instance, some i⟩).Perm
        ((AddStateCalls k props Instance ⟨⟨Instance, some i⟩, p⟩).map Prod.snd))
    (hleaf : ∀ i p, props[i]? = some p → p.Struct.IsChildOfStateMachine = false →
      env'.Contained k ⟨Instance, some i⟩ = []) :
    (env'.Contained (k + 1) sm.Ptr).Perm
      ((AddStateCalls (k + 1) props Instance sm).map Prod.snd) := by
  show ((env'.StatesOf sm.Ptr).flatMap (fun s => s :: env'.Contained k s)).Perm _
  refine (List.Perm.flatMap_right _ hst).trans ?_
  rw [AddStateCalls_succ]
  split
  · rename_i hc
    rw [hcut hc]
    simp
  · unfold OwnedStates
    rw [flatMap_filter_map, List.map_flatMap]
    apply List.Perm.flatMap_left
    rintro ⟨i, p⟩ hx
    have hi : props[i]? = some p := List.mk_mem_enum_iff_getElem?.mp hx
    unfold AddStateCalls.step
    dsimp only
    split
    · simp only [List.map_cons]
      apply List.Perm.cons
      cases hsm : p.Struct.IsChildOfStateMachine with
      | true => simpa using hchild i p hi hsm
      | false => simp [hleaf i p hi hsm]
    · simp

theorem StateRecords_length (Instance : UObjectRef) (props : List FSMNode) :
    (StateRecords Instance props).length =
      (props.filter (fun p => p.Struct.IsChildOfState_Base)).length := by
  unfold StateRecords
  rw [List.length_map]
  have h : (props.enum.filter (fun x => x.2.Struct.IsChildOfState_Base)).map Prod.snd =
      props.filter (fun p => p.Struct.IsChildOfState_Base) := by
    have := List.filter_map (f := Prod.snd) (l := props.enum)
      (p := fun p : FSMNode => p.Struct.IsChildOfState_Base)
    rw [List.enum_map_snd] at this
    rw [this]
    rfl
  rw [← h, List.length_map]

/-- The containment traversal of an environment whose state machines of `Instance` hold
what the root activation added visits what the `AddState` calls add, level by level. -/
theorem Contained_perm (env' : Env) (props : List FSMNode) (Instance : UObjectRef)
    (rank : FGuid → Nat) (d : Nat) (sm : FSMStateMachine) (hRoot : sm.Node.ClassReference = none)
    (hPtr : sm.Ptr = ⟨Instance, none⟩)
    (hUnique : ∀ (i j : Nat) (p q : FSMNode), props[i]? = some p → props[j]? = some q →
      p.Struct.IsChildOfState_Base = true → q.Struct.IsChildOfState_Base = true →
      p.Guid = q.Guid → i = j)
    (hOwner : ∀ p ∈ props, p.Struct.IsChildOfState_Base = true →
      p.OwnerGuid = sm.Node.Guid ∨
      ∃ q ∈ props, q.Struct.IsChildOfStateMachine = true ∧ q.ClassReference = none ∧
        q.Guid = p.OwnerGuid)
    (hRank : ∀ p ∈ props, p.Struct.IsChildOfStateMachine = true → rank p.OwnerGuid < rank p.Guid)
    (hn : Nests d props sm.Node.Guid = true)
    (hS : ∀ Q, Q.Container = Instance →
      env'.StatesOf Q = AddedTo Q (AddStateCalls d props Instance sm)) :
    ∀ k, (env'.Contained k sm.Ptr).Perm ((AddStateCalls k props Instance sm).map Prod.snd) ∧
      ∀ j q, props[j]? = some q → q.Struct.IsChildOfStateMachine = true →
        (env'.Contained k ⟨Instance, some j⟩).Perm
          ((AddStateCalls k props Instance ⟨⟨Instance, some j⟩, q⟩).map Prod.snd) := by
  intro k
  induction k with
  | zero =>
    refine ⟨?_, fun j q _ _ => ?_⟩ <;> simp [Env.Contained, AddStateCalls]
  | succ k ih =>
    have hleaf : ∀ i p, props[i]? = some p → p.Struct.IsChildOfStateMachine = false →
        env'.Contained k ⟨Instance, some i⟩ = [] := fun i p hi hsm =>
      Contained_nil env' _ (by rw [hS _ rfl]; exact AddedTo_leaf props Instance d sm hPtr i p hi hsm) k
    refine ⟨?_, fun j q hj hsm => ?_⟩
    · refine Contained_level env' props Instance k sm ?_ ?_ ih.2 hleaf
      · rw [hS sm.Ptr (by rw [hPtr])]
        exact AddedTo_root props Instance rank d sm hRoot hPtr hUnique hOwner hRank hn
      · intro hc
        simp [hRoot] at hc
    · refine Contained_level env' props Instance k ⟨⟨Instance, some j⟩, q⟩ ?_ ?_ ih.2 hleaf
      · rw [hS _ rfl]
        exact AddedTo_record props Instance rank d sm hRoot hPtr hUnique hOwner hRank hn j q hj hsm
      · intro hc
        simp only [Bool.and_eq_true] at hc
        exact reference_owns_nothing props Instance rank d sm hRoot hUnique hOwner hRank hn j q hj
          hsm hc.1

/-- C11: for a node set whose state records have pairwise distinct structural GUIDs, each
owned by the root state machine or by a state machine record that is no reference node,
with an acyclic owner relation among the state machine records (a rank grows from owner to
owned record), a call of `GenerateStateMachine` on the root state machine of a live object
in which nothing is assembled yet returns (given enough call depth, every class of the
world nesting at most `R` levels) and has added each state record exactly once to exactly
one state machine, the one whose structural GUID is the owner GUID of the record: the root
or the state machine record with that GUID. The states contained in the graph below the
root, to any number of levels from the nesting bound on, are the state records of the node
set, each once, so there are exactly as many as the node set has state records. -/
theorem C11_each_state_in_its_owner (w : World) (R ThreadId depth : Nat) (env : Env)
    (Instance : UObjectRef) (StateMachineOut : FSMStateMachine) (RunTimeProperties : List FSMNode)
    (bDryRun : Bool) (rank : FGuid → Nat)
    (hWorld : w.Nests R = true)
    (hRoot : StateMachineOut.Node.ClassReference = none)
    (hPtr : StateMachineOut.Ptr = ⟨Instance, none⟩)
    (hLive : Instance.Live env.Instances.length)
    (hFresh : env.States = [])
    (hUnique : ∀ (i j : Nat) (p q : FSMNode), RunTimeProperties[i]? = some p →
      RunTimeProperties[j]? = some q → p.Struct.IsChildOfState_Base = true →
      q.Struct.IsChildOfState_Base = true → p.Guid = q.Guid → i = j)
    (hOwner : ∀ p ∈ RunTimeProperties, p.Struct.IsChildOfState_Base = true →
      p.OwnerGuid = StateMachineOut.Node.Guid ∨
      ∃ q ∈ RunTimeProperties, q.Struct.IsChildOfStateMachine = true ∧ q.ClassReference = none ∧
        q.Guid = p.OwnerGuid)
    (hRank : ∀ p ∈ RunTimeProperties, p.Struct.IsChildOfStateMachine = true →
      rank p.OwnerGuid < rank p.Guid)
    (hDepth : env.Potential w ThreadId * (R + 2) +
      (RunTimeProperties.map (fun q => rank q.Guid + 1)).sum + 2 ≤ depth) :
    ∃ r env', GenerateStateMachine w ThreadId depth env Instance StateMachineOut RunTimeProperties
        bDryRun = some (r, env') ∧
      (∀ i p, RunTimeProperties[i]? = some p → p.Struct.IsChildOfState_Base = true →
        ∃ P, ((P = StateMachineOut.Ptr ∧ p.OwnerGuid = StateMachineOut.Node.Guid) ∨
            ∃ j q, P = ⟨Instance, some j⟩ ∧ RunTimeProperties[j]? = some q ∧
              q.Struct.IsChildOfStateMachine = true ∧ q.Guid = p.OwnerGuid) ∧
          (env'.StatesOf P).count ⟨Instance, some i⟩ = 1 ∧
          ∀ Q, Q ≠ P → ⟨Instance, some i⟩ ∉ env'.StatesOf Q) ∧
      ∀ k, (RunTimeProperties.map (fun q => rank q.Guid + 1)).sum + 1 ≤ k →
        (env'.Contained k StateMachineOut.Ptr).Perm (StateRecords Instance RunTimeProperties) ∧
        (env'.Contained k StateMachineOut.Ptr).length =
          (RunTimeProperties.filter (fun p => p.Struct.IsChildOfState_Base)).length := by
  have hK : Nests ((RunTimeProperties.map (fun q => rank q.Guid + 1)).sum + 1) RunTimeProperties
      StateMachineOut.Node.Guid = true :=
    Nests_of_rank RunTimeProperties rank hRank _ (rank_bound RunTimeProperties rank) _ _ (by omega)
  have hret := GenerateStateMachine_returns w R ThreadId hWorld depth env Instance StateMachineOut
    RunTimeProperties bDryRun _ hK (by omega)
  cases hrun : GenerateStateMachine w ThreadId depth env Instance StateMachineOut RunTimeProperties
      bDryRun with
  | none => simp [hrun] at hret
  | some res =>
    obtain ⟨r, env'⟩ := res
    have hn : Nests depth RunTimeProperties StateMachineOut.Node.Guid = true :=
      Nests_mono_le _ _ (by omega) hK
    have heff := (AddStateCalls_effect w ThreadId depth env.Instances.length env Instance
      StateMachineOut RunTimeProperties bDryRun r env' (le_refl _) hrun).2
    have hc0 : env.Closed := by
      intro Q x hx
      simp [Env.StatesOf, hFresh, TMap.Find] at hx
    have hcl : env'.Closed := GenerateStateMachine_closed w ThreadId depth env Instance
      StateMachineOut RunTimeProperties bDryRun r env' (by rw [hPtr]) hc0 hrun
    have hS : ∀ Q, Q.Container = Instance →
        env'.StatesOf Q = AddedTo Q (AddStateCalls depth RunTimeProperties Instance StateMachineOut) := by
      intro Q hQ
      rw [heff Q (fun J hJ => hLive J (hQ.symm.trans hJ))]
      simp [Env.StatesOf, hFresh, TMap.Find]
    have hnd := AddStateCalls_nodup RunTimeProperties Instance rank hUnique hRank depth StateMachineOut
    refine ⟨r, env', rfl, ?_, ?_⟩
    · intro i p hi hs
      obtain ⟨P, hP⟩ := AddStateCalls_covers RunTimeProperties Instance rank depth StateMachineOut
        hRoot hOwner hRank hn (rank p.OwnerGuid) i p (le_refl _) hi hs
      obtain ⟨i', p', hx, hi', _, halt, _⟩ :=
        AddStateCalls_mem RunTimeProperties Instance depth StateMachineOut P _ hP
      have hii := NodePtr.some_inj hx
      subst hii
      rw [hi] at hi'
      cases hi'
      have hPc : P.Container = Instance := by
        rcases halt with ⟨h, _⟩ | ⟨j, q, h, _⟩ <;> rw [h]
        rw [hPtr]
      refine ⟨P, halt, ?_, ?_⟩
      · rw [hS P hPc]
        exact List.count_eq_one_of_mem (AddedTo_nodup _ hnd) (mem_AddedTo.mpr hP)
      · intro Q hne hmem
        have hQc : Q.Container = Instance := (hcl Q _ hmem).symm
        rw [hS Q hQc, mem_AddedTo] at hmem
        have := List.inj_on_of_nodup_map hnd hmem hP rfl
        simp only [Prod.mk.injEq, and_true] at this
        exact hne this
    · intro k hk
      have hnk : Nests k RunTimeProperties StateMachineOut.Node.Guid = true :=
        Nests_mono_le _ _ hk hK
      have hperm := ((Contained_perm env' RunTimeProperties Instance rank depth StateMachineOut hRoot
        hPtr hUnique hOwner hRank hn hS k).1).trans
        (AddStateCalls_perm RunTimeProperties Instance rank k StateMachineOut hRoot hUnique hOwner
          hRank hnk)
      exact ⟨hperm, hperm.length_eq.trans (StateRecords_length Instance RunTimeProperties)⟩

/-- C11, at an instance: a root state machine with GUID 1 that owns a state and a nested
state machine, which owns one more state. The call returns and the graph below the root
contains three states. -/
theorem C11_each_state_in_its_owner_witness :
    ∃ r env', GenerateStateMachine [] 0 14 (Env.initial [USMInstance.ofClass 0]) (.SMInstance 0)
        ⟨⟨.SMInstance 0, none⟩, FSMNode.stateMachine 1 0 none false⟩
        [FSMNode.state 2 1 true, FSMNode.stateMachine 3 1 none false, FSMNode.state 4 3 true]
        false = some (r, env') ∧
      (env'.StatesOf ⟨.SMInstance 0, none⟩).count ⟨.SMInstance 0, some 0⟩ = 1 ∧
      (env'.Contained 13 ⟨.SMInstance 0, none⟩).length = 3 := by
  obtain ⟨r, env', hrun, hstates, hk⟩ := C11_each_state_in_its_owner [] 0 0 14
    (Env.initial [USMInstance.ofClass 0]) (.SMInstance 0)
    ⟨⟨.SMInstance 0, none⟩, FSMNode.stateMachine 1 0 none false⟩
    [FSMNode.state 2 1 true, FSMNode.stateMachine 3 1 none false, FSMNode.state 4 3 true]
    false (fun g => g) rfl rfl rfl (fun K h => by cases h; decide) rfl
    (by
      intro i j p q hi hj _ _ hg
      rcases i with _ | _ | _ | i <;> rcases j with _ | _ | _ | j <;>
        first
        | rfl
        | (exfalso; simp at hi; done)
        | (exfalso; simp at hj; done)
        | (exfalso
           simp only [List.getElem?_cons_zero, List.getElem?_cons_succ, Option.some.injEq] at hi hj
           subst hi
           subst hj
           simp [FSMNode.state, FSMNode.stateMachine] at hg))
    (by
      intro p hp _
      simp only [List.mem_cons, List.mem_singleton, List.not_mem_nil, or_false] at hp
      rcases hp with rfl | rfl | rfl
      · exact Or.inl rfl
      · exact Or.inl rfl
      · exact Or.inr ⟨FSMNode.stateMachine 3 1 none false, by simp, rfl, rfl, rfl⟩)
    (by
      intro p hp hsm
      simp only [List.mem_cons, List.mem_singleton, List.not_mem_nil, or_false] at hp
      rcases hp with rfl | rfl | rfl
      · simp [FSMNode.state, EStruct.IsChildOfStateMachine] at hsm
      · show 1 < 3
        decide
      · simp [FSMNode.state, EStruct.IsChildOfStateMachine] at hsm)
    (by decide)
  obtain ⟨P, halt, hcount, _⟩ := hstates 0 (FSMNode.state 2 1 true) rfl rfl
  refine ⟨r, env', hrun, ?_, (hk 13 (by decide)).2⟩
  rcases halt with ⟨hP, _⟩ | ⟨j, q, _, hj, _, hg⟩
  · subst hP; exact hcount
  · exfalso
    rcases j with _ | _ | _ | j
    · simp only [List.getElem?_cons_zero, Option.some.injEq] at hj
      subst hj
      simp [FSMNode.state] at hg
    · simp only [List.getElem?_cons_zero, List.getElem?_cons_succ, Option.some.injEq] at hj
      subst hj
      simp [FSMNode.state, FSMNode.stateMachine] at hg
    · simp only [List.getElem?_cons_zero, List.getElem?_cons_succ, Option.some.injEq] at hj
      subst hj
      simp [FSMNode.state] at hg
    · simp at hj

/-- The check of a reuse-mode reference node never ends the call with false. -/
theorem check_reuse_inl (tid : Nat) (top : Bool) (env : Env) (K : InstId) (sm : FSMStateMachine)
    (cls : UClass) (r : Bool) (env' : Env) (hReuse : sm.Node.bReuseReference = true)
    (h : GenerateStateMachine.check tid top env K sm cls = .inl (r, env')) : r = true := by
  unfold GenerateStateMachine.check at h
  simp only [hReuse, if_true] at h
  split at h
  · simp only [Sum.inl.injEq, Prod.mk.injEq] at h
    exact h.1.symm
  · simp only [Sum.inl.injEq, Prod.mk.injEq] at h
    exact h.1.symm
  · exact absurd h (by simp)

/-- No call on a reuse-mode reference node of a `USMInstance` returns false. -/
theorem reuse_never_false (w : World) (tid d : Nat) (env : Env) (K : InstId)
    (sm : FSMStateMachine) (props : List FSMNode) (bDryRun : Bool) (cls : UClass) (r : Bool)
    (env' : Env) (hRef : sm.Node.ClassReference = some cls)
    (hReuse : sm.Node.bReuseReference = true)
    (h : GenerateStateMachine w tid d env (.SMInstance K) sm props bDryRun = some (r, env')) :
    r = true := by
  cases d with
  | zero => simp [GenerateStateMachine] at h
  | succ d =>
    simp only [GenerateStateMachine, GenerateStateMachine.body, hRef] at h
    rcases reference_cases w tid _ _ _ K sm cls bDryRun r env' h with
      hchk | ⟨_, _, _, hr, _⟩ | ⟨_, _, _, _, _, _, hr, _⟩
    · exact check_reuse_inl tid _ _ K sm _ r env' hReuse hchk
    · exact hr
    · exact hr

/-- After the steps that follow the instantiation for a reuse-mode node, the class is
registered with the new instance. -/
theorem referenced_registered (tid : Nat) (e : Env) (K : InstId) (sm : FSMStateMachine)
    (C : UClass) (I : InstId) (hReuse : sm.Node.bReuseReference = true)
    (hk : TMap.Contains (e.CurrentGeneration tid).InstancesGenerating C = true) :
    TMap.Find ((GenerateStateMachine.referenced tid e K sm C I).CurrentGeneration tid).CreatedReferences
      C = some (some I) := by
  unfold GenerateStateMachine.referenced
  dsimp only
  have h1 : TMap.Find ((GenerateStateMachine.record tid (e.SetReferenceOwner I K) sm C
      I).CurrentGeneration tid).CreatedReferences C = some (some I) := by
    simp [GenerateStateMachine.record, hReuse, TMap.Find_Add_self]
  have h1c : TMap.Contains ((GenerateStateMachine.record tid (e.SetReferenceOwner I K) sm C
      I).CurrentGeneration tid).InstancesGenerating C = true := by
    simpa [GenerateStateMachine.record, hReuse] using hk
  have h2 := Env.CurrentGeneration_congr tid
    (patch_threadMap tid (GenerateStateMachine.record tid (e.SetReferenceOwner I K) sm C I) C I)
  have h3 := (decrement_spec tid (GenerateStateMachine.patch tid
    (GenerateStateMachine.record tid (e.SetReferenceOwner I K) sm C I) C I) C
    (by rw [h2]; exact h1c)).2.2.2
  rw [Env.SetInstanceReference_CurrentGeneration, h3, h2]
  exact h1

/-- A nested non-dry-run call on a reuse-mode reference node whose target class is not
registered returns true (given enough call depth): the class is instantiated, the node
refers to the new instance, the class is registered with it and every in-progress counter
is back at its value on entry. -/
theorem reuse_instantiated (w : World) (R tid d : Nat) (hWorld : w.Nests R = true) (env : Env)
    (K : InstId) (sm : FSMStateMachine) (props : List FSMNode) (cls T : UClass)
    (hRef : sm.Node.ClassReference = some cls) (hReuse : sm.Node.bReuseReference = true)
    (hT : GenerateStateMachine.target w env K sm cls false = T)
    (hc : TMap.Contains env.StateMachinesGeneratingForThread tid = true)
    (hNew : TMap.Find (env.CurrentGeneration tid).CreatedReferences T = none)
    (hDepth : env.Potential w tid * (R + 2) + R + 2 ≤ d) :
    ∃ env', GenerateStateMachine w tid (d + 1) env (.SMInstance K) sm props false =
        some (true, env') ∧
      TMap.Find env'.InstanceReference sm.Ptr = some env.Instances.length ∧
      (∃ inst, env'.Instances.get? env.Instances.length = some inst ∧ inst.Class = T) ∧
      TMap.Find (env'.CurrentGeneration tid).CreatedReferences T =
        some (some env.Instances.length) ∧
      ∀ c, env'.InProgress tid c = env.InProgress tid c := by
  obtain ⟨g, hg⟩ := Find_of_Contains _ _ hc
  have hE : env.FindOrAddGeneration tid = env := Env.FindOrAddGeneration_of_Find env tid g hg
  have hT2 : (GenerateStateMachine.template w env K sm cls false).2.1 = T := hT
  have hM := template_threadMap w env K sm cls false
  have hG := Env.CurrentGeneration_congr tid hM
  have hchk : GenerateStateMachine.check tid (!TMap.Contains env.StateMachinesGeneratingForThread tid)
      (GenerateStateMachine.template w (env.FindOrAddGeneration tid) K sm cls false).2.2 K sm
      (GenerateStateMachine.template w (env.FindOrAddGeneration tid) K sm cls false).2.1 =
        .inr ((GenerateStateMachine.template w env K sm cls false).2.2.setCurrentGeneration tid
          { env.CurrentGeneration tid with
            CreatedReferences := TMap.Add (env.CurrentGeneration tid).CreatedReferences T none }) := by
    rw [hE]
    simp only [GenerateStateMachine.check, hReuse, if_true, hT2, hG, hNew]
  obtain ⟨hI, r₁, e, hcall, hrun⟩ := reference_instantiates w R tid d hWorld env K sm props cls hRef _
    hchk hDepth
  rw [hE, hT2] at hcall hrun
  refine ⟨_, hrun, ?_, ?_, ?_, ?_⟩
  · exact (reference_created w tid d env K sm T _ _ _ r₁ e hI hcall).1
  · obtain ⟨inst, h1, h2, _⟩ := (reference_created w tid d env K sm T _ _ _ r₁ e hI hcall).2
    exact ⟨inst, h1, h2⟩
  · simp only [hc, Bool.not_true, Finish_false]
    suffices hk : TMap.Contains (e.CurrentGeneration tid).InstancesGenerating T = true by
      have hreg := referenced_registered tid e K sm T
        ((GenerateStateMachine.template w env K sm cls false).2.2.setCurrentGeneration tid
          { env.CurrentGeneration tid with
            CreatedReferences := TMap.Add (env.CurrentGeneration tid).CreatedReferences T
              none }).Instances.length hReuse hk
      rw [hI] at hreg ⊢
      exact hreg
    have hstart : TMap.Contains ((GenerateStateMachine.increment tid
        ((GenerateStateMachine.template w env K sm cls false).2.2.setCurrentGeneration tid
          { env.CurrentGeneration tid with
            CreatedReferences := TMap.Add (env.CurrentGeneration tid).CreatedReferences T none })
        T).Initializing T (GenerateStateMachine.template w env K sm cls false).1
          (Env.GetContext
            ((GenerateStateMachine.template w env K sm cls false).2.2.setCurrentGeneration tid
              { env.CurrentGeneration tid with
                CreatedReferences := TMap.Add (env.CurrentGeneration tid).CreatedReferences T none })
            K)).StateMachinesGeneratingForThread tid = true := by
      rw [Initializing_threadMap]
      exact Contains_thread_increment tid _ T
    have hpost := GenerateStateMachine_nested w tid d _ _ _ _ _ _ _ hstart hcall
    refine hpost.2.2.1 T ?_
    rw [Env.CurrentGeneration_congr tid (Initializing_threadMap _ _ _ _), Counters_increment]
    simp
  · exact (GenerateStateMachine_nested w tid (d + 1) env _ sm props false true _ hc hrun).2.1

/-- A reuse-mode reference whose class is registered with an instance receives that
instance at once: the activation returns true, creates nothing and leaves the registration
and the counters as they are. -/
theorem reuse_shared (w : World) (tid d : Nat) (e : Env) (K : InstId) (sm : FSMStateMachine)
    (cls T : UClass) (props : List FSMNode) (bDryRun : Bool) (J : InstId)
    (hRef : sm.Node.ClassReference = some cls)
    (hReuse : sm.Node.bReuseReference = true)
    (hT : GenerateStateMachine.target w e K sm cls bDryRun = T)
    (hReg : TMap.Find (e.CurrentGeneration tid).CreatedReferences T = some (some J)) :
    ∃ e', GenerateStateMachine w tid (d + 1) e (.SMInstance K) sm props bDryRun = some (true, e') ∧
      TMap.Find e'.InstanceReference sm.Ptr = some J ∧
      e'.Instances = e.Instances ∧
      TMap.Find (e'.CurrentGeneration tid).CreatedReferences T = some (some J) ∧
      ∀ c, e'.InProgress tid c = e.InProgress tid c := by
  have hC : TMap.Contains e.StateMachinesGeneratingForThread tid = true := by
    cases hf : TMap.Find e.StateMachinesGeneratingForThread tid with
    | some g => simp [TMap.Contains, hf]
    | none => simp [Env.CurrentGeneration, hf, TMap.Find] at hReg
  obtain ⟨g, hg⟩ := Find_of_Contains _ _ hC
  have hE : e.FindOrAddGeneration tid = e := Env.FindOrAddGeneration_of_Find e tid g hg
  have hT2 : (GenerateStateMachine.template w e K sm cls bDryRun).2.1 = T := hT
  have hM := template_threadMap w e K sm cls bDryRun
  have hG := Env.CurrentGeneration_congr tid hM
  have hK := template_keeps w e K sm cls bDryRun
  simp only [GenerateStateMachine, GenerateStateMachine.body, hRef, hC, hE, Bool.not_true,
    GenerateStateMachine.reference, GenerateStateMachine.check, hReuse, if_true, hT2, hG, hReg,
    Finish_false]
  refine ⟨_, rfl, ?_, ?_, ?_, ?_⟩
  · simp [TMap.Find_Add_self]
  · exact hK.1
  · simp only [Env.SetInstanceReference_CurrentGeneration, hG]
    exact hReg
  · intro c
    simp only [Env.InProgress, Env.SetInstanceReference_CurrentGeneration, hG]

theorem Env.Extends.extSame (env : Env) : env.Extends env :=
  ⟨List.prefix_refl _, List.prefix_refl _⟩

theorem Env.Extends.extThen {a b c : Env} (h₁ : a.Extends b) (h₂ : b.Extends c) : a.Extends c :=
  ⟨h₁.1.trans h₂.1, h₁.2.trans h₂.2⟩

theorem Env.Extends.of_eqs {a b : Env} (hI : b.Instances = a.Instances) (hL : a.Log <+: b.Log) :
    a.Extends b :=
  ⟨by rw [hI], hL⟩

theorem Env.Extends.getInstance {a b : Env} (h : a.Extends b) {K : InstId} {inst : USMInstance}
    (hK : a.Instances.get? K = some inst) : b.Instances.get? K = some inst := by
  rw [List.get?_eq_getElem?] at hK ⊢
  have hlt : K < a.Instances.length := by
    by_contra hge
    rw [List.getElem?_eq_none (Nat.le_of_not_lt hge)] at hK
    cases hK
  have := (List.isPrefix_iff.mp h.1) K hlt
  rw [this]
  rw [List.getElem?_eq_getElem hlt] at hK
  exact hK

theorem Extends_logAll (env : Env) (l : List LogEntry) : env.Extends (env.logAll l) :=
  ⟨List.prefix_refl _, List.prefix_append _ _⟩

theorem Extends_Finish (top : Bool) (env : Env) (tid : Nat) :
    env.Extends (FinishStateMachineGeneration top env tid).2 :=
  Env.Extends.of_eqs (Finish_Instances top env tid) (Finish_Log top env tid)

theorem Extends_template (w : World) (env : Env) (K : InstId) (sm : FSMStateMachine)
    (cls : UClass) (bDryRun : Bool) :
    env.Extends (GenerateStateMachine.template w env K sm cls bDryRun).2.2 := by
  obtain ⟨l, hl⟩ := template_env w env K sm cls bDryRun
  rw [hl]; exact Extends_logAll env l

theorem Extends_check_inl (tid : Nat) (top : Bool) (env : Env) (K : InstId)
    (sm : FSMStateMachine) (cls : UClass) (r : Bool) (env' : Env)
    (h : GenerateStateMachine.check tid top env K sm cls = .inl (r, env')) : env.Extends env' := by
  unfold GenerateStateMachine.check at h
  dsimp only at h
  split at h
  · split at h
    · simp only [Sum.inl.injEq, Prod.mk.injEq] at h
      rw [← h.2]
      refine Env.Extends.extThen ?_ (Extends_Finish _ _ _)
      exact Env.Extends.of_eqs rfl (List.prefix_refl _)
    · simp only [Sum.inl.injEq, Prod.mk.injEq] at h
      rw [← h.2]
      refine Env.Extends.extThen ?_ (Extends_Finish _ _ _)
      exact Env.Extends.of_eqs rfl (List.prefix_refl _)
    · exact absurd h (by simp)
  · split at h
    · split at h
      · simp only [Sum.inl.injEq, Prod.mk.injEq] at h
        rw [← h.2]
        exact (Extends_logAll env _).extThen (Extends_Finish _ _ _)
      · exact absurd h (by simp)
    · exact absurd h (by simp)

theorem prefix_SetReferenceOwner (l : List USMInstance) (e : Env) (I K : InstId)
    (h : l <+: e.Instances) (hI : l.length ≤ I) : l <+: (e.SetReferenceOwner I K).Instances := by
  unfold Env.SetReferenceOwner
  split
  · rw [List.isPrefix_iff] at h ⊢
    intro i hi
    show (e.Instances.set I _)[i]? = _
    rw [List.getElem?_set_ne (by omega)]
    exact h i hi
  · exact h

theorem foldl_SetInstanceReference_Log (l : List FSMStateMachine) (I : InstId) :
    ∀ env : Env, (l.foldl (fun (env : Env) (StateMachine : FSMStateMachine) =>
        if StateMachine.Node.bReuseReference then env.SetInstanceReference StateMachine.Ptr I
        else env) env).Log = env.Log := by
  induction l with
  | nil => intro env; rfl
  | cons a l ih =>
    intro env
    simp only [List.foldl_cons]
    rw [ih]
    split <;> rfl

theorem referenced_Log (tid : Nat) (e : Env) (K : InstId) (sm : FSMStateMachine) (C : UClass)
    (I : InstId) : e.Log <+: (GenerateStateMachine.referenced tid e K sm C I).Log := by
  have h1 : ∀ (a : Env), (a.SetReferenceOwner I K).Log = a.Log := by
    intro a; unfold Env.SetReferenceOwner; split <;> rfl
  have h2 : ∀ (a : Env), (GenerateStateMachine.record tid a sm C I).Log = a.Log := by
    intro a; unfold GenerateStateMachine.record; split <;> rfl
  have h3 : ∀ (a : Env), (GenerateStateMachine.patch tid a C I).Log = a.Log := by
    intro a
    unfold GenerateStateMachine.patch
    split
    · exact foldl_SetInstanceReference_Log _ _ _
    · rfl
  have h4 : ∀ (a : Env), a.Log <+: (GenerateStateMachine.decrement tid a C).Log := by
    intro a
    unfold GenerateStateMachine.decrement
    dsimp only
    split
    · exact List.prefix_refl _
    · exact List.prefix_append _ _
  unfold GenerateStateMachine.referenced
  dsimp only
  show e.Log <+: (GenerateStateMachine.decrement tid _ C).Log
  refine List.IsPrefix.trans ?_ (h4 _)
  rw [h3, h2, h1]

theorem referenced_Instances (tid : Nat) (e : Env) (K : InstId) (sm : FSMStateMachine)
    (C : UClass) (I : InstId) :
    (GenerateStateMachine.referenced tid e K sm C I).Instances =
      (e.SetReferenceOwner I K).Instances := by
  unfold GenerateStateMachine.referenced
  dsimp only
  rw [Env.SetInstanceReference_Instances, (SameGraph_decrement _ _ _).2,
    (SameGraph_patch _ _ _ _).2, record_Instances]

theorem assemble_extends (tid : Nat) (gsm : GenerateCall) (hg : ExtendsOK gsm) (top : Bool)
    (env : Env) (Instance : UObjectRef) (sm : FSMStateMachine) (props : List FSMNode)
    (bDryRun : Bool) (r : Bool) (env' : Env)
    (h : GenerateStateMachine.assemble tid gsm top env Instance sm props bDryRun = some (r, env')) :
    env.Extends env' := by
  unfold GenerateStateMachine.assemble at h
  split at h
  · exact absurd h (by simp)
  · rename_i e₁ M hs
    have g1 := states_rel Env.Extends (fun _ => True)
      (fun e Nested => gsm e Instance Nested props bDryRun) Instance sm Env.Extends.extSame
      (fun _ _ _ h₁ h₂ => h₁.extThen h₂) (fun _ _ _ _ => trivial)
      (fun e a b => Env.Extends.of_eqs rfl (List.prefix_refl _))
      (fun e m => Extends_logAll e [m])
      (fun e a b => Env.Extends.of_eqs rfl (List.prefix_refl _))
      (fun e n r e' _ h => hg e Instance n props bDryRun r e' h) props.enum env [] e₁ M trivial hs
    have g2 := transitions_rel Env.Extends Instance sm M Env.Extends.extSame
      (fun _ _ _ h₁ h₂ => h₁.extThen h₂) (fun e m => Extends_logAll e [m])
      (fun e a b => Env.Extends.of_eqs rfl (List.prefix_refl _))
      (fun e a b => Env.Extends.of_eqs rfl (List.prefix_refl _))
      (fun e a b => Env.Extends.of_eqs rfl (List.prefix_refl _)) props.enum e₁
    split at h
    · rename_i e ht
      simp only [Option.some.injEq, Prod.mk.injEq] at h
      rw [ht] at g2
      rw [← h.2]; exact g1.extThen g2
    · rename_i e ht
      simp only [Option.some.injEq, Prod.mk.injEq] at h
      rw [ht] at g2
      rw [← h.2]; exact (g1.extThen g2).extThen (Extends_Finish _ _ _)

theorem reference_extends (w : World) (tid : Nat) (gsm : GenerateCall) (hg : ExtendsOK gsm)
    (top : Bool) (env : Env) (K : InstId) (sm : FSMStateMachine) (cls : UClass) (bDryRun : Bool)
    (r : Bool) (env' : Env)
    (h : GenerateStateMachine.reference w tid gsm top env K sm cls bDryRun = some (r, env')) :
    env.Extends env' := by
  have ht := Extends_template w env K sm cls bDryRun
  rcases reference_cases w tid gsm top env K sm cls bDryRun r env' h with
    hchk | ⟨env₂, hchk, _, _, he⟩ | ⟨env₂, r₁, e, hchk, _, hcall, _, he⟩
  · exact ht.extThen (Extends_check_inl tid top _ K sm _ r env' hchk)
  · rw [he]
    obtain ⟨_, hI, _, hL⟩ := SameGraph_check_inr tid top _ K sm _ env₂ hchk
    exact (ht.extThen (Env.Extends.of_eqs hI (by rw [hL]))).extThen (Extends_Finish _ _ _)
  · rw [he]
    obtain ⟨_, hI, _, hL⟩ := SameGraph_check_inr tid top _ K sm _ env₂ hchk
    have h2 : env.Extends env₂ := ht.extThen (Env.Extends.of_eqs hI (by rw [hL]))
    have h3 : env₂.Extends ((GenerateStateMachine.increment tid env₂
        (GenerateStateMachine.template w env K sm cls bDryRun).2.1).Initializing
        (GenerateStateMachine.template w env K sm cls bDryRun).2.1
        (GenerateStateMachine.template w env K sm cls bDryRun).1 (env₂.GetContext K)) := by
      refine ⟨?_, List.prefix_refl _⟩
      rw [Initializing_Instances]
      exact List.prefix_append _ _
    have h4 := hg _ _ _ _ _ _ _ hcall
    have h5 : env₂.Extends e := h3.extThen h4
    have h6 : env₂.Extends (GenerateStateMachine.referenced tid e K sm
        (GenerateStateMachine.template w env K sm cls bDryRun).2.1 env₂.Instances.length) := by
      refine ⟨?_, h5.2.trans (referenced_Log _ _ _ _ _ _)⟩
      rw [referenced_Instances]
      exact prefix_SetReferenceOwner _ _ _ _ h5.1 (le_refl _)
    exact (h2.extThen h6).extThen (Extends_Finish _ _ _)

theorem body_extends (w : World) (tid : Nat) (gsm : GenerateCall) (hg : ExtendsOK gsm) :
    ExtendsOK (GenerateStateMachine.body w tid gsm) := by
  intro env Instance sm props bDryRun r env' h
  have h0 : env.Extends (env.FindOrAddGeneration tid) :=
    Env.Extends.of_eqs rfl (List.prefix_refl _)
  unfold GenerateStateMachine.body at h
  dsimp only at h
  cases hcr : sm.Node.ClassReference with
  | none =>
    simp only [hcr] at h
    exact h0.extThen (assemble_extends tid gsm hg _ _ Instance sm props bDryRun r env' h)
  | some cls =>
    cases Instance with
    | Object o =>
      simp only [hcr] at h
      exact h0.extThen (assemble_extends tid gsm hg _ _ _ sm props bDryRun r env' h)
    | SMInstance K =>
      simp only [hcr] at h
      exact h0.extThen (reference_extends w tid gsm hg _ _ K sm cls bDryRun r env' h)

theorem GenerateStateMachine_extends (w : World) (tid : Nat) :
    ∀ depth, ExtendsOK (GenerateStateMachine w tid depth) := by
  intro depth
  induction depth with
  | zero => intro env Instance sm props bDryRun r env' h; simp [GenerateStateMachine] at h
  | succ d ih => exact body_extends w tid _ ih

theorem Env.Within.withinSame (tid : Nat) (env : Env) : env.Within tid env :=
  ⟨Env.Extends.extSame env, fun hc => NestedPost.here hc⟩

theorem Env.Within.withinThen {tid : Nat} {a b c : Env} (h₁ : a.Within tid b)
    (h₂ : b.Within tid c) : a.Within tid c :=
  ⟨h₁.1.extThen h₂.1, fun hc => (h₁.2 hc).andThen (h₂.2 (h₁.2 hc).1)⟩

theorem Env.Within.of_frame {tid : Nat} {a b : Env} (hI : b.Instances = a.Instances)
    (hL : a.Log <+: b.Log)
    (hT : b.StateMachinesGeneratingForThread = a.StateMachinesGeneratingForThread) :
    a.Within tid b :=
  ⟨Env.Extends.of_eqs hI hL, fun hc => NestedPost.of_eq hc hT⟩

/-- The first pass of the assembly of a state machine calls the assembler on every state
machine record the state machine owns: the call starts in an environment reached from the
one the pass starts in, and the pass ends in an environment reached from the one the call
returns. -/
theorem states_visits (tid : Nat) (gsm : Env → FSMStateMachine → Option (Bool × Env))
    (hn : ∀ e n r e', TMap.Contains e.StateMachinesGeneratingForThread tid = true →
      gsm e n = some (r, e') → NestedPost tid e e')
    (he : ∀ e n r e', gsm e n = some (r, e') → e.Extends e')
    (Instance : UObjectRef) (sm : FSMStateMachine) :
    ∀ (l : List (Nat × FSMNode)) (a : Env) (M : TMap FGuid NodePtr) (b : Env)
      (M' : TMap FGuid NodePtr),
      GenerateStateMachine.states gsm Instance sm l a M = some (b, M') →
      a.Within tid b ∧
      ∀ i p, (i, p) ∈ l → p.Struct.IsChildOfStateMachine = true → p.OwnerGuid = sm.Node.Guid →
        ∃ e₁ r₁ e₂, gsm e₁ ⟨⟨Instance, some i⟩, p⟩ = some (r₁, e₂) ∧ a.Within tid e₁ ∧
          e₂.Extends b := by
  intro l a M b M' h
  refine states_seg
    (fun l a b => a.Within tid b ∧
      ∀ i p, (i, p) ∈ l → p.Struct.IsChildOfStateMachine = true → p.OwnerGuid = sm.Node.Guid →
        ∃ e₁ r₁ e₂, gsm e₁ ⟨⟨Instance, some i⟩, p⟩ = some (r₁, e₂) ∧ a.Within tid e₁ ∧
          e₂.Extends b)
    (fun _ => True) gsm Instance sm ?_ ?_ ?_ ?_ ?_ l a M b M' trivial h
  · intro e
    exact ⟨Env.Within.withinSame tid e, fun i p hm => absurd hm (List.not_mem_nil _)⟩
  · intro x s a b c h₁ h₂
    refine ⟨h₁.1.withinThen h₂.1, ?_⟩
    intro i p hm hs ho
    rcases List.mem_cons.mp hm with hx | hx
    · obtain ⟨e₁, r₁, e₂, hg, hw, hx2⟩ := h₁.2 i p (by rw [hx]; exact List.mem_singleton_self _) hs ho
      exact ⟨e₁, r₁, e₂, hg, hw, hx2.extThen h₂.1.1⟩
    · obtain ⟨e₁, r₁, e₂, hg, hw, hx2⟩ := h₂.2 i p hx hs ho
      exact ⟨e₁, r₁, e₂, hg, h₁.1.withinThen hw, hx2⟩
  · intro _ _ _ _ _; trivial
  · intro i p e hnot
    refine ⟨Env.Within.withinSame tid e, ?_⟩
    intro i' p' hm hs ho
    rw [List.mem_singleton] at hm
    cases hm
    exact absurd ⟨IsChildOfState_Base_of_StateMachine _ hs, ho⟩ hnot
  · intro i p e e₁ e₂ _ hsb ho he₁ hsm hnsm
    have w1 : e.Within tid e₁ := by
      rcases he₁ with h | ⟨m, h⟩
      · rw [h]; exact Env.Within.of_frame rfl (List.prefix_refl _) rfl
      · rw [h]; exact Env.Within.of_frame rfl (List.prefix_append _ _) rfl
    have w3 : ∀ e' : Env, e'.Extends
        (if p.bIsRootNode then e'.AddInitialState sm.Ptr ⟨Instance, some i⟩ else e') := by
      intro e'
      split
      · exact Env.Extends.of_eqs rfl (List.prefix_refl _)
      · exact Env.Extends.extSame _
    have w3' : ∀ e' : Env, e'.Within tid
        (if p.bIsRootNode then e'.AddInitialState sm.Ptr ⟨Instance, some i⟩ else e') := by
      intro e'
      split
      · exact Env.Within.of_frame rfl (List.prefix_refl _) rfl
      · exact Env.Within.withinSame _ _
    by_cases hs : p.Struct.IsChildOfStateMachine = true
    · obtain ⟨r, hg⟩ := hsm hs
      have w2 : e₁.Within tid e₂ := ⟨he _ _ _ _ hg, fun hc => hn _ _ _ _ hc hg⟩
      refine ⟨(w1.withinThen w2).withinThen (w3' e₂), ?_⟩
      intro i' p' hm _ _
      rw [List.mem_singleton] at hm
      cases hm
      exact ⟨e₁, r, e₂, hg, w1, w3 e₂⟩
    · have h2 := hnsm (by simpa using hs)
      subst h2
      refine ⟨w1.withinThen (w3' _), ?_⟩
      intro i' p' hm hs' _
      rw [List.mem_singleton] at hm
      cases hm
      exact absurd hs' hs

/-- The assembly of a state machine calls the assembler on every state machine record the
state machine owns. -/
theorem assemble_visits (tid : Nat) (gsm : GenerateCall) (hn : NestedOK tid gsm)
    (he : ExtendsOK gsm) (top : Bool) (a : Env) (Instance : UObjectRef) (sm : FSMStateMachine)
    (props : List FSMNode) (dry : Bool) (r : Bool) (b : Env)
    (h : GenerateStateMachine.assemble tid gsm top a Instance sm props dry = some (r, b))
    (i : Nat) (p : FSMNode) (hi : props[i]? = some p)
    (hs : p.Struct.IsChildOfStateMachine = true) (ho : p.OwnerGuid = sm.Node.Guid) :
    ∃ e₁ r₁ e₂, gsm e₁ Instance ⟨⟨Instance, some i⟩, p⟩ props dry = some (r₁, e₂) ∧
      a.Within tid e₁ ∧ e₂.Extends b := by
  unfold GenerateStateMachine.assemble at h
  split at h
  · exact absurd h (by simp)
  · rename_i e₁ M hst
    obtain ⟨_, hv⟩ := states_visits tid (fun e n => gsm e Instance n props dry)
      (fun e n r e' hc hg => hn e Instance n props dry r e' hc hg)
      (fun e n r e' hg => he e Instance n props dry r e' hg) Instance sm props.enum a [] e₁ M hst
    obtain ⟨x₁, r₁, x₂, hg, hw, hx⟩ := hv i p (List.mk_mem_enum_iff_getElem?.mpr hi) hs ho
    have g2 := transitions_rel Env.Extends Instance sm M Env.Extends.extSame
      (fun _ _ _ h₁ h₂ => h₁.extThen h₂) (fun e m => Extends_logAll e [m])
      (fun e a b => Env.Extends.of_eqs rfl (List.prefix_refl _))
      (fun e a b => Env.Extends.of_eqs rfl (List.prefix_refl _))
      (fun e a b => Env.Extends.of_eqs rfl (List.prefix_refl _)) props.enum e₁
    refine ⟨x₁, r₁, x₂, hg, hw, ?_⟩
    split at h
    · rename_i e ht
      simp only [Option.some.injEq, Prod.mk.injEq] at h
      rw [ht] at g2
      rw [← h.2]; exact hx.extThen g2
    · rename_i e ht
      simp only [Option.some.injEq, Prod.mk.injEq] at h
      rw [ht] at g2
      rw [← h.2]; exact (hx.extThen g2).extThen (Extends_Finish _ _ _)

theorem Within_FindOrAddGeneration (tid : Nat) (e : Env)
    (hc : TMap.Contains e.StateMachinesGeneratingForThread tid = true) :
    e.FindOrAddGeneration tid = e := by
  obtain ⟨g, hg⟩ := Find_of_Contains _ _ hc
  exact Env.FindOrAddGeneration_of_Find e tid g hg

/-- A call on a state machine without class reference calls the assembler on every state
machine record of its graph, at any depth of nesting, with fewer frames. -/
theorem GenerateStateMachine_visits (w : World) (tid : Nat) (props : List FSMNode)
    (Instance : UObjectRef) (dry : Bool) (g : FGuid) (i : Nat) (hb : LocalBelow props g i) :
    ∀ p, props[i]? = some p → ∀ (d : Nat) (a : Env) (sm : FSMStateMachine) (r : Bool) (b : Env),
      sm.Node.Guid = g → sm.Node.ClassReference = none →
      GenerateStateMachine w tid d a Instance sm props dry = some (r, b) →
      ∃ d' e₁ r₁ e₂, d' < d ∧
        GenerateStateMachine w tid d' e₁ Instance ⟨⟨Instance, some i⟩, p⟩ props dry =
          some (r₁, e₂) ∧
        (a.FindOrAddGeneration tid).Within tid e₁ ∧ e₂.Extends b := by
  have direct : ∀ (i : Nat) (p : FSMNode), props[i]? = some p →
      p.Struct.IsChildOfStateMachine = true →
      ∀ (d : Nat) (a : Env) (sm : FSMStateMachine) (r : Bool) (b : Env),
      p.OwnerGuid = sm.Node.Guid → sm.Node.ClassReference = none →
      GenerateStateMachine w tid d a Instance sm props dry = some (r, b) →
      ∃ d' e₁ r₁ e₂, d' < d ∧
        GenerateStateMachine w tid d' e₁ Instance ⟨⟨Instance, some i⟩, p⟩ props dry =
          some (r₁, e₂) ∧
        (a.FindOrAddGeneration tid).Within tid e₁ ∧ e₂.Extends b := by
    intro i p hi hs d a sm r b ho hc h
    cases d with
    | zero => simp [GenerateStateMachine] at h
    | succ d =>
      rw [GenerateStateMachine_local w tid d a Instance sm props dry hc] at h
      obtain ⟨e₁, r₁, e₂, hg, hw, hx⟩ := assemble_visits tid _ (GenerateStateMachine_nested w tid d)
        (GenerateStateMachine_extends w tid d) _ _ Instance sm props dry r b h i p hi hs ho
      exact ⟨d, e₁, r₁, e₂, Nat.lt_succ_self d, hg, hw, hx⟩
  induction hb with
  | inGraph i p hi hs ho =>
    intro p' hp' d a sm r b hg hc h
    rw [hi] at hp'
    cases hp'
    exact direct i p hi hs d a sm r b (by rw [ho, hg]) hc h
  | inNested i j p q hi hs hj hsm hq ho _ ih =>
    intro p' hp' d a sm r b hg hc h
    rw [hi] at hp'
    cases hp'
    obtain ⟨d₁, e₁, r₁, e₂, hd₁, hcall, hw, hx⟩ := ih q hj d a sm r b hg hc h
    have hce : TMap.Contains e₁.StateMachinesGeneratingForThread tid = true :=
      (hw.2 (Contains_top a tid)).1
    obtain ⟨d₂, e₃, r₃, e₄, hd₂, hcall₂, hw₂, hx₂⟩ :=
      direct i p hi hs d₁ e₁ ⟨⟨Instance, some j⟩, q⟩ r₁ e₂ ho hq hcall
    rw [Within_FindOrAddGeneration tid e₁ hce] at hw₂
    exact ⟨d₂, e₃, r₃, e₄, by omega, hcall₂, hw.withinThen hw₂, hx₂.extThen hx⟩

theorem check_circular (tid : Nat) (top : Bool) (env : Env) (K : InstId) (sm : FSMStateMachine)
    (C : UClass) (hR : sm.Node.bReuseReference = false) (hv : 1 < env.InProgress tid C) :
    GenerateStateMachine.check tid top env K sm C =
      .inl (false, (FinishStateMachineGeneration top (env.log (.CircularReferencing K)) tid).2) := by
  unfold GenerateStateMachine.check
  simp only [hR, Bool.false_eq_true, if_false]
  unfold Env.InProgress at hv
  cases hf : TMap.Find (env.CurrentGeneration tid).InstancesGenerating C with
  | none => simp [hf] at hv
  | some v =>
    have : v > 1 := by simpa [hf] using hv
    simp [this]

theorem template_InProgress (w : World) (tid : Nat) (env : Env) (K : InstId)
    (sm : FSMStateMachine) (cls : UClass) (bDryRun : Bool) (c : UClass) :
    (GenerateStateMachine.template w env K sm cls bDryRun).2.2.InProgress tid c =
      env.InProgress tid c := by
  obtain ⟨l, hl⟩ := template_env w env K sm cls bDryRun
  rw [hl]; simp

theorem template_Log (w : World) (env : Env) (K : InstId) (sm : FSMStateMachine)
    (cls : UClass) (bDryRun : Bool) :
    env.Log <+: (GenerateStateMachine.template w env K sm cls bDryRun).2.2.Log := by
  obtain ⟨l, hl⟩ := template_env w env K sm cls bDryRun
  rw [hl]; exact List.prefix_append _ _

/-- A nested resolution of a reference node without reuse whose class has more than one
instance in progress returns false, creates nothing and logs the circular-reference error
with the instance that holds the node. -/
theorem nonreuse_circular (w : World) (tid d : Nat) (e₁ : Env) (L : InstId) (sm : FSMStateMachine)
    (props : List FSMNode) (cls C : UClass) (r : Bool) (e₂ : Env)
    (hC : sm.Node.ClassReference = some cls) (hR : sm.Node.bReuseReference = false)
    (hc : TMap.Contains e₁.StateMachinesGeneratingForThread tid = true)
    (hT : GenerateStateMachine.target w e₁ L sm cls false = C) (hv : 1 < e₁.InProgress tid C)
    (h : GenerateStateMachine w tid d e₁ (.SMInstance L) sm props false = some (r, e₂)) :
    r = false ∧ e₂.Instances = e₁.Instances ∧ e₁.Log <+: e₂.Log ∧
      LogEntry.CircularReferencing L ∈ e₂.Log := by
  cases d with
  | zero => simp [GenerateStateMachine] at h
  | succ d =>
    simp only [GenerateStateMachine, GenerateStateMachine.body, hC,
      Within_FindOrAddGeneration tid e₁ hc, hc] at h
    unfold GenerateStateMachine.target at hT
    unfold GenerateStateMachine.reference at h
    simp only [hT] at h
    rw [check_circular tid _ _ L sm C hR (by rw [template_InProgress]; exact hv)] at h
    simp only [Option.some.injEq, Prod.mk.injEq, Bool.not_true, Finish_false] at h
    obtain ⟨h1, h2⟩ := h
    subst h2
    refine ⟨h1.symm, ?_, ?_, ?_⟩
    · rw [Env.log_Instances, (template_keeps w e₁ L sm cls false).1]
    · exact (template_Log w e₁ L sm cls false).trans (List.prefix_append _ _)
    · simp

/-- A nested resolution of a reference node without reuse whose class has at most one
instance in progress creates an instance of the class and runs the assembler on its root
state machine with the counter of the class one higher; when that returns, the new
instance is given the instance that holds the node as its reference owner. -/
theorem nonreuse_step (w : World) (tid d : Nat) (e₁ : Env) (L : InstId) (sm : FSMStateMachine)
    (props : List FSMNode) (cls C : UClass) (r : Bool) (e₂ : Env)
    (hC : sm.Node.ClassReference = some cls) (hR : sm.Node.bReuseReference = false)
    (hc : TMap.Contains e₁.StateMachinesGeneratingForThread tid = true)
    (hT : GenerateStateMachine.target w e₁ L sm cls false = C) (hv : e₁.InProgress tid C ≤ 1)
    (h : GenerateStateMachine w tid d e₁ (.SMInstance L) sm props false = some (r, e₂)) :
    ∃ d' a r' b new, d' < d ∧
      GenerateStateMachine w tid d' a (.SMInstance e₁.Instances.length)
        (USMInstance.RootStateMachine (w.GetClass C) e₁.Instances.length)
        (w.GetClass C).Properties false = some (r', b) ∧
      TMap.Contains a.StateMachinesGeneratingForThread tid = true ∧
      new.Class = C ∧ new.ReferenceOwner = none ∧
      a.Instances = e₁.Instances ++ [new] ∧
      a.InProgress tid C = e₁.InProgress tid C + 1 ∧
      e₁.Log <+: a.Log ∧ b.Log <+: e₂.Log ∧
      e₂.Instances = (b.SetReferenceOwner e₁.Instances.length L).Instances := by
  cases d with
  | zero => simp [GenerateStateMachine] at h
  | succ d =>
    simp only [GenerateStateMachine, GenerateStateMachine.body, hC,
      Within_FindOrAddGeneration tid e₁ hc, hc] at h
    have hchk := check_nonreuse_pass tid (!true)
      (GenerateStateMachine.template w e₁ L sm cls false).2.2 L sm C hR
      (by rw [template_InProgress]; omega)
    unfold GenerateStateMachine.target at hT
    rcases reference_cases w tid _ _ e₁ L sm cls false r e₂ h with
      h1 | ⟨env₂, h1, h2, _⟩ | ⟨env₂, r₁, e, h1, _, hcall, _, he⟩
    · rw [hT, hchk] at h1; cases h1
    · cases h2
    · rw [hT] at h1 hcall he
      rw [hchk] at h1
      simp only [Sum.inr.injEq] at h1
      subst h1
      rw [(template_keeps w e₁ L sm cls false).1] at hcall he
      refine ⟨d, _, r₁, e, ⟨C, (GenerateStateMachine.template w e₁ L sm cls false).2.2.GetContext L,
        (GenerateStateMachine.template w e₁ L sm cls false).1, none⟩, Nat.lt_succ_self d, hcall,
        ?_, rfl, rfl, ?_, ?_, ?_, ?_, ?_⟩
      · rw [Initializing_threadMap, increment_threadMap]
        simp [TMap.Contains, TMap.Find_Add_self]
      · rw [Initializing_Instances, increment_Instances, (template_keeps w e₁ L sm cls false).1]
      · rw [InProgress_initializing, InProgress_increment, if_pos rfl, template_InProgress]
      · rw [Initializing_Log, increment_Log]
        exact template_Log w e₁ L sm cls false
      · rw [he, Bool.not_true, Finish_false]
        exact referenced_Log _ _ _ _ _ _
      · rw [he, Bool.not_true, Finish_false, referenced_Instances]

theorem SetReferenceOwner_get_self (e : Env) (I K : InstId) :
    (e.SetReferenceOwner I K).Instances.get? I =
      (e.Instances.get? I).map (fun i => { i with ReferenceOwner := some K }) := by
  unfold Env.SetReferenceOwner
  cases h : e.Instances.get? I with
  | none => exact h
  | some inst =>
    have hlt : I < e.Instances.length := by
      by_contra hge
      rw [List.get?_eq_getElem?, List.getElem?_eq_none (Nat.le_of_not_lt hge)] at h
      cases h
    simp only [Option.map_some']
    show (e.Instances.set I _).get? I = _
    rw [List.get?_eq_getElem?, List.getElem?_set_self hlt]

theorem SetReferenceOwner_get_other (e : Env) (I K M : InstId) (h : M ≠ I) :
    (e.SetReferenceOwner I K).Instances.get? M = e.Instances.get? M := by
  unfold Env.SetReferenceOwner
  cases hI : e.Instances.get? I with
  | none => rfl
  | some inst =>
    show (e.Instances.set I _).get? M = _
    rw [List.get?_eq_getElem?, List.get?_eq_getElem?, List.getElem?_set_ne (Ne.symm h)]

theorem get?_append_new (l : List USMInstance) (a : USMInstance) :
    (l ++ [a]).get? l.length = some a := by
  rw [List.get?_eq_getElem?, List.getElem?_append_right (le_refl _)]
  simp

theorem InProgress_top (env : Env) (tid : Nat)
    (h : TMap.Contains env.StateMachinesGeneratingForThread tid = false) (c : UClass) :
    (env.FindOrAddGeneration tid).InProgress tid c = 0 := by
  simp [Env.InProgress, CurrentGeneration_top env tid h, TMap.Find]

/-- C4: for every class whose graph contains, at any depth of nesting, a reference node
with reuse disabled that resolves to the class itself, the top-level non-dry-run assembly
of an instance of the class returns (given call depth for the well-formed world): the
chain of self-references is instantiated two levels deep, the first new instance owned by
the assembled instance and the second by the first, and the resolution of the node in the
second instance, which finds two instances of the class in progress, returns false, creates
nothing and logs the circular-reference error. The top-level call returns true exactly when
the transitions of the root state machine resolve. -/
theorem C4_self_reference_bounded (w : World) (R ThreadId depth : Nat)
    (hWorld : w.Nests R = true) (C : UClass) (x : Nat) (X : FSMNode) (cls : UClass)
    (hX : (w.GetClass C).Properties[x]? = some X)
    (hGraph : LocalBelow (w.GetClass C).Properties (w.GetClass C).RootStateMachineGuid x)
    (hRef : X.ClassReference = some cls) (hReuse : X.bReuseReference = false)
    (hTarget : ∀ (e : Env) (L : InstId) (l : USMInstance) (q : NodePtr),
      e.Instances.get? L = some l → l.Class = C →
      GenerateStateMachine.target w e L ⟨q, X⟩ cls false = C)
    (env : Env) (K : InstId) (inst : USMInstance) (hK : env.Instances.get? K = some inst)
    (hKC : inst.Class = C)
    (hTop : TMap.Contains env.StateMachinesGeneratingForThread ThreadId = false)
    (hDepth : env.Potential w ThreadId * (R + 2) + R + 1 ≤ depth) :
    ∃ r env', GenerateStateMachine w ThreadId depth env (.SMInstance K)
        (USMInstance.RootStateMachine (w.GetClass C) K) (w.GetClass C).Properties false =
          some (r, env') ∧
      (∃ I J i j, env.Instances.length ≤ I ∧ I < J ∧
        env'.Instances.get? I = some i ∧ i.Class = C ∧ i.ReferenceOwner = some K ∧
        env'.Instances.get? J = some j ∧ j.Class = C ∧ j.ReferenceOwner = some I ∧
        LogEntry.CircularReferencing J ∈ env'.Log ∧
        ∃ d a b, d < depth ∧
          GenerateStateMachine w ThreadId d a (.SMInstance J) ⟨⟨.SMInstance J, some x⟩, X⟩
            (w.GetClass C).Properties false = some (false, b) ∧
          a.InProgress ThreadId C = 2 ∧ b.Instances = a.Instances ∧
          env.Log <+: a.Log ∧ b.Log <+: env'.Log) ∧
      (r = true ↔ TransitionsResolve (w.GetClass C).Properties
        (w.GetClass C).RootStateMachineGuid) := by
  have hR : 1 ≤ R := by
    cases R with
    | succ n => omega
    | zero =>
      exfalso
      have hw : w = [] := by
        cases w with
        | nil => rfl
        | cons c t => simp [World.Nests, Nests] at hWorld
      subst hw
      simp [World.GetClass] at hX
  have hN := World.Nests_GetClass w R hWorld hR C
  have hret := GenerateStateMachine_returns w R ThreadId hWorld depth env (.SMInstance K)
    (USMInstance.RootStateMachine (w.GetClass C) K) (w.GetClass C).Properties false R hN hDepth
  obtain ⟨⟨r, env'⟩, hrun⟩ := Option.isSome_iff_exists.mp hret
  refine ⟨r, env', hrun, ?_, ?_⟩
  swap
  · cases depth with
    | zero => simp [GenerateStateMachine] at hrun
    | succ d =>
      rw [GenerateStateMachine_local w ThreadId d env _ _ _ false rfl] at hrun
      exact assemble_result _ _ _ _ _ _ _ _ _ _ hrun
  -- the node in the assembled instance
  obtain ⟨d₁, e₁, r₁, e₂, hd₁, hcall₁, hw₁, hx₁⟩ := GenerateStateMachine_visits w ThreadId
    (w.GetClass C).Properties (.SMInstance K) false _ x hGraph X hX depth env
    (USMInstance.RootStateMachine (w.GetClass C) K) r env' rfl rfl hrun
  have hn₁ := hw₁.2 (Contains_top env ThreadId)
  have hcnt₁ : e₁.InProgress ThreadId C = 0 := by
    rw [hn₁.2.1, InProgress_top env ThreadId hTop]
  have hK₁ : e₁.Instances.get? K = some inst := hw₁.1.getInstance hK
  obtain ⟨d₂, a₂, r₂, b₂, new₂, hd₂, hroot₂, hca₂, hcl₂, hown₂, hI₂, hcnt₂, hl₂, hl₂', hI₂'⟩ :=
    nonreuse_step w ThreadId d₁ e₁ K ⟨⟨.SMInstance K, some x⟩, X⟩ _ cls C r₁ e₂ hRef hReuse
      hn₁.1 (hTarget e₁ K inst _ hK₁ hKC) (by omega) hcall₁
  have hnew₂ : a₂.Instances.get? e₁.Instances.length = some new₂ := by
    rw [hI₂]; exact get?_append_new _ _
  -- the node in the first new instance
  obtain ⟨d₃, e₃, r₃, e₄, hd₃, hcall₃, hw₃, hx₃⟩ := GenerateStateMachine_visits w ThreadId
    (w.GetClass C).Properties (.SMInstance e₁.Instances.length) false _ x hGraph X hX d₂ a₂
    (USMInstance.RootStateMachine (w.GetClass C) e₁.Instances.length) r₂ b₂ rfl rfl hroot₂
  rw [Within_FindOrAddGeneration ThreadId a₂ hca₂] at hw₃
  have hn₃ := hw₃.2 hca₂
  have hcnt₃ : e₃.InProgress ThreadId C = 1 := by
    rw [hn₃.2.1, hcnt₂, hcnt₁]; rfl
  obtain ⟨d₄, a₄, r₄, b₄, new₄, hd₄, hroot₄, hca₄, hcl₄, hown₄, hI₄, hcnt₄, hl₄, hl₄', hI₄'⟩ :=
    nonreuse_step w ThreadId d₃ e₃ e₁.Instances.length
      ⟨⟨.SMInstance e₁.Instances.length, some x⟩, X⟩ _ cls C r₃ e₄ hRef hReuse
      hn₃.1 (hTarget e₃ _ new₂ _ (hw₃.1.getInstance hnew₂) hcl₂) (by omega) hcall₃
  have hnew₄ : a₄.Instances.get? e₃.Instances.length = some new₄ := by
    rw [hI₄]; exact get?_append_new _ _
  -- the node in the second new instance
  obtain ⟨d₅, e₅, r₅, e₆, hd₅, hcall₅, hw₅, hx₅⟩ := GenerateStateMachine_visits w ThreadId
    (w.GetClass C).Properties (.SMInstance e₃.Instances.length) false _ x hGraph X hX d₄ a₄
    (USMInstance.RootStateMachine (w.GetClass C) e₃.Instances.length) r₄ b₄ rfl rfl hroot₄
  rw [Within_FindOrAddGeneration ThreadId a₄ hca₄] at hw₅
  have hn₅ := hw₅.2 hca₄
  have hcnt₅ : e₅.InProgress ThreadId C = 2 := by
    rw [hn₅.2.1, hcnt₄, hcnt₃]; rfl
  obtain ⟨hr₅, hI₆, hl₆, hlog⟩ := nonreuse_circular w ThreadId d₅ e₅ e₃.Instances.length
    ⟨⟨.SMInstance e₃.Instances.length, some x⟩, X⟩ _ cls C r₅ e₆ hRef hReuse hn₅.1
    (hTarget e₅ _ new₄ _ (hw₅.1.getInstance hnew₄) hcl₄) (by omega) hcall₅
  subst hr₅
  -- the instances at the end
  have hlen₁ : env.Instances.length ≤ e₁.Instances.length := hw₁.1.1.length_le
  have hlen₃ : e₁.Instances.length < e₃.Instances.length := by
    have := hw₃.1.1.length_le
    rw [hI₂] at this
    simp only [List.length_append, List.length_singleton] at this
    omega
  have hx₂ := GenerateStateMachine_extends w ThreadId d₂ _ _ _ _ _ _ _ hroot₂
  have hx₄ := GenerateStateMachine_extends w ThreadId d₄ _ _ _ _ _ _ _ hroot₄
  have hJ₄ : e₄.Instances.get? e₃.Instances.length =
      some { new₄ with ReferenceOwner := some e₁.Instances.length } := by
    rw [hI₄', SetReferenceOwner_get_self, hx₄.getInstance hnew₄]; rfl
  have hJ₂ : e₂.Instances.get? e₃.Instances.length =
      some { new₄ with ReferenceOwner := some e₁.Instances.length } := by
    rw [hI₂', SetReferenceOwner_get_other b₂ e₁.Instances.length K e₃.Instances.length (Nat.ne_of_gt hlen₃)]
    exact hx₃.getInstance hJ₄
  have hI₂'' : e₂.Instances.get? e₁.Instances.length =
      some { new₂ with ReferenceOwner := some K } := by
    rw [hI₂', SetReferenceOwner_get_self, hx₂.getInstance hnew₂]; rfl
  refine ⟨e₁.Instances.length, e₃.Instances.length, _, _, hlen₁, hlen₃,
    hx₁.getInstance hI₂'', hcl₂, rfl, hx₁.getInstance hJ₂, hcl₄, rfl, ?_,
    d₅, e₅, e₆, by omega, hcall₅, hcnt₅, hI₆, ?_, ?_⟩
  · exact hx₁.2.subset (hl₂'.subset (hx₃.2.subset (hl₄'.subset (hx₅.2.subset hlog))))
  · have h0 : env.Log <+: e₁.Log := hw₁.1.2
    exact h0.trans (hl₂.trans (hw₃.1.2.trans (hl₄.trans hw₅.1.2)))
  · exact hx₅.2.trans (hl₄'.trans (hx₃.2.trans (hl₂'.trans hx₁.2)))

/-- C4, at an instance: the self-reference (position 2) lies in a nested state machine
(position 1) of the class. -/
theorem C4_self_reference_bounded_witness :
    ∃ r env', GenerateStateMachine
        [UClassDef.ofProperties 1 [FSMNode.state 2 1 true, FSMNode.stateMachine 3 1 none false,
          FSMNode.stateMachine 4 3 (some 0) false]]
        0 19 (Env.initial [USMInstance.ofClass 0]) (.SMInstance 0)
        (USMInstance.RootStateMachine (World.GetClass
          [UClassDef.ofProperties 1 [FSMNode.state 2 1 true, FSMNode.stateMachine 3 1 none false,
            FSMNode.stateMachine 4 3 (some 0) false]] 0) 0)
        (World.GetClass
          [UClassDef.ofProperties 1 [FSMNode.state 2 1 true, FSMNode.stateMachine 3 1 none false,
            FSMNode.stateMachine 4 3 (some 0) false]] 0).Properties false = some (r, env') ∧
      (∃ I J i j, (Env.initial [USMInstance.ofClass 0]).Instances.length ≤ I ∧ I < J ∧
        env'.Instances.get? I = some i ∧ i.Class = 0 ∧ i.ReferenceOwner = some 0 ∧
        env'.Instances.get? J = some j ∧ j.Class = 0 ∧ j.ReferenceOwner = some I ∧
        LogEntry.CircularReferencing J ∈ env'.Log ∧
        ∃ d a b, d < 19 ∧
          GenerateStateMachine
            [UClassDef.ofProperties 1 [FSMNode.state 2 1 true, FSMNode.stateMachine 3 1 none false,
              FSMNode.stateMachine 4 3 (some 0) false]]
            0 d a (.SMInstance J) ⟨⟨.SMInstance J, some 2⟩, FSMNode.stateMachine 4 3 (some 0) false⟩
            (World.GetClass
              [UClassDef.ofProperties 1 [FSMNode.state 2 1 true,
                FSMNode.stateMachine 3 1 none false, FSMNode.stateMachine 4 3 (some 0) false]]
              0).Properties false = some (false, b) ∧
          a.InProgress 0 0 = 2 ∧ b.Instances = a.Instances ∧
          (Env.initial [USMInstance.ofClass 0]).Log <+: a.Log ∧ b.Log <+: env'.Log) ∧
      (r = true ↔ TransitionsResolve
        (World.GetClass
          [UClassDef.ofProperties 1 [FSMNode.state 2 1 true, FSMNode.stateMachine 3 1 none false,
            FSMNode.stateMachine 4 3 (some 0) false]] 0).Properties
        (World.GetClass
          [UClassDef.ofProperties 1 [FSMNode.state 2 1 true, FSMNode.stateMachine 3 1 none false,
            FSMNode.stateMachine 4 3 (some 0) false]] 0).RootStateMachineGuid) :=
  C4_self_reference_bounded
    [UClassDef.ofProperties 1 [FSMNode.state 2 1 true, FSMNode.stateMachine 3 1 none false,
      FSMNode.stateMachine 4 3 (some 0) false]]
    3 0 19 (by decide) 0 2 (FSMNode.stateMachine 4 3 (some 0) false) 0 rfl
    (LocalBelow.inNested 2 1 (FSMNode.stateMachine 4 3 (some 0) false)
      (FSMNode.stateMachine 3 1 none false) rfl rfl rfl rfl rfl rfl
      (LocalBelow.inGraph 1 (FSMNode.stateMachine 3 1 none false) rfl rfl rfl))
    rfl rfl
    (fun e L l q _ _ => by
      simp [GenerateStateMachine.target, GenerateStateMachine.template, FSMNode.stateMachine])
    (Env.initial [USMInstance.ofClass 0]) 0 (USMInstance.ofClass 0) rfl rfl (by decide)
    (by decide)

theorem target_of_class (w : World) (a b : Env) (L : InstId) (l l' : USMInstance)
    (sm : FSMStateMachine) (cls : UClass) (dry : Bool)
    (ha : a.Instances.get? L = some l) (hb : b.Instances.get? L = some l')
    (hc : l'.Class = l.Class) :
    GenerateStateMachine.target w b L sm cls dry = GenerateStateMachine.target w a L sm cls dry := by
  unfold GenerateStateMachine.target GenerateStateMachine.template FindTemplateFromInstance
  rw [ha, hb]
  simp only [hc]
  split
  · rfl
  · split
    · rfl
    · split
      · rfl
      · split <;> rfl

theorem NodeAt_keeps (w : World) {a b : Env} (h : a.KeepsInstances b) (q : NodePtr)
    (p : FSMNode) (hq : a.NodeAt w q = some p) : b.NodeAt w q = some p := by
  unfold Env.NodeAt at hq ⊢
  split at hq
  · rename_i L i hL hi
    cases ha : a.Instances.get? L with
    | none =>
      rw [ha] at hq
      cases hq
    | some l =>
      obtain ⟨l', hb, hc, _, _⟩ := h L l ha
      rw [ha] at hq
      rw [hb]
      simp only [Option.some_bind, hc] at hq ⊢
      exact hq
  · cases hq

theorem TargetAt_keeps (w : World) {a b : Env} (h : a.KeepsInstances b) (q : NodePtr)
    (T : UClass) (hq : a.TargetAt w q = some T) : b.TargetAt w q = some T := by
  unfold Env.TargetAt at hq ⊢
  split at hq
  · rename_i L hL
    cases hp : a.NodeAt w q with
    | none => simp [hp] at hq
    | some p =>
      have hp' := NodeAt_keeps w h q p hp
      simp only [hL, hp', Option.some_bind]
      simp only [hp, Option.some_bind] at hq
      split at hq
      · cases hc : p.ClassReference with
        | none => simp [hc] at hq
        | some cls =>
          simp only [hc, Option.map_some', Option.some.injEq] at hq ⊢
          rename_i hs
          simp only [hs, if_true, hc, Option.map_some', Option.some.injEq]
          rw [← hq]
          have hlive : ∃ l, a.Instances.get? L = some l := by
            unfold Env.NodeAt at hp
            rw [hL] at hp
            cases hP : q.Property with
            | none => simp [hP] at hp
            | some i =>
              simp only [hP] at hp
              cases ha : a.Instances.get? L with
              | none => rw [ha] at hp; cases hp
              | some l => exact ⟨l, rfl⟩
          obtain ⟨l, ha⟩ := hlive
          obtain ⟨l', hb, hc', _, _⟩ := h L l ha
          exact target_of_class w a b L l l' _ cls false ha hb hc'
      · cases hq
  · cases hq

theorem Genuine.nodeAt {w : World} {env : Env} {L : InstId} {sm : FSMStateMachine}
    {props : List FSMNode} (h : Genuine w env L sm props)
    (hc : sm.Node.ClassReference.isSome = true) :
    env.NodeAt w sm.Ptr = some sm.Node ∧ sm.Ptr.Container = .SMInstance L := by
  obtain ⟨l, hl, hp, hsm⟩ := h
  rcases hsm with h | ⟨i, hptr, hi, _⟩
  · rw [h] at hc
    simp [USMInstance.RootStateMachine] at hc
  · rw [hptr]
    refine ⟨?_, rfl⟩
    simp only [Env.NodeAt, hl, Option.some_bind]
    rw [← hp]; exact hi

theorem Genuine.targetAt {w : World} {env : Env} {L : InstId} {sm : FSMStateMachine}
    {props : List FSMNode} (h : Genuine w env L sm props) (cls : UClass)
    (hc : sm.Node.ClassReference = some cls) :
    env.TargetAt w sm.Ptr = some (GenerateStateMachine.target w env L sm cls false) := by
  obtain ⟨hn, hcont⟩ := h.nodeAt (by rw [hc]; rfl)
  obtain ⟨l, hl, hp, hsm⟩ := h
  rcases hsm with h | ⟨i, hptr, hi, hs⟩
  · rw [h] at hc
    simp [USMInstance.RootStateMachine] at hc
  · simp only [Env.TargetAt, hcont, hn, Option.some_bind, hs, if_true, hc, Option.map_some']

theorem Genuine.rootTarget (w : World) (env : Env) (L : InstId) (cd : UClassDef) : env.TargetAt w (USMInstance.RootStateMachine cd L).Ptr = none := by
  simp [Env.TargetAt, Env.NodeAt, USMInstance.RootStateMachine]

theorem get?_lt {α : Type} {l : List α} {n : Nat} {a : α} (h : l.get? n = some a) :
    n < l.length := by
  by_contra hge
  rw [List.get?_eq_getElem?, List.getElem?_eq_none (Nat.le_of_not_lt hge)] at h
  cases h

theorem get?_of_lt {α : Type} {l : List α} {n : Nat} (h : n < l.length) :
    ∃ a, l.get? n = some a := by
  rw [List.get?_eq_getElem?, List.getElem?_eq_getElem h]
  exact ⟨_, rfl⟩

theorem Env.KeepsInstances.length_le {a b : Env} (h : a.KeepsInstances b) :
    a.Instances.length ≤ b.Instances.length := by
  by_contra hlt
  have hlt : b.Instances.length < a.Instances.length := Nat.lt_of_not_le hlt
  obtain ⟨x, hx⟩ := get?_of_lt hlt
  obtain ⟨y, hy, _⟩ := h _ x hx
  exact absurd (get?_lt hy) (Nat.lt_irrefl _)

theorem Env.KeepsInstances.classOf {a b : Env} (h : a.KeepsInstances b) {L : InstId}
    {l : USMInstance} (hL : L < a.Instances.length) (hb : b.Instances.get? L = some l) :
    ∃ l', a.Instances.get? L = some l' ∧ l'.Class = l.Class := by
  obtain ⟨x, hx⟩ := get?_of_lt hL
  obtain ⟨y, hy, hc, _⟩ := h _ x hx
  rw [hb] at hy
  cases hy
  exact ⟨x, hx, hc.symm⟩

theorem Env.Extends.keeps {a b : Env} (h : a.Extends b) : a.KeepsInstances b :=
  fun _ inst hK => ⟨inst, h.getInstance hK, rfl, rfl, rfl⟩

theorem Good_congr {tid : Nat} {D : UClass} {a b : Env}
    (hR : b.Registered tid D = a.Registered tid D)
    (hQ : b.QueuedFor tid D = a.QueuedFor tid D)
    (hI : b.InstanceReference = a.InstanceReference) (q : NodePtr)
    (h : a.Good tid D q) : b.Good tid D q := by
  unfold Env.Good at h ⊢
  rw [hR, hQ, hI]
  exact h

theorem RegStep.stepSame (w : World) (tid : Nat) (D : UClass) (a : Env) : RegStep w tid D a a := by
  refine ⟨Env.KeepsInstances.keepSame a, fun _ h => h, fun h => Or.inl h, ?_, fun _ _ h => h⟩
  intro L l hL hl
  exact absurd (get?_lt hl) (by omega)

theorem RegStep.stepThen {w : World} {tid : Nat} {D : UClass} {a b c : Env}
    (h₁ : RegStep w tid D a b) (h₂ : RegStep w tid D b c) : RegStep w tid D a c := by
  obtain ⟨k₁, r₁, n₁, d₁, g₁⟩ := h₁
  obtain ⟨k₂, r₂, n₂, d₂, g₂⟩ := h₂
  refine ⟨k₁.keepThen k₂, fun v h => r₂ v (r₁ v h), ?_, ?_, ?_⟩
  · intro h
    rcases n₁ h with hb | ⟨I, l, hI, hl, hc, hr⟩
    · rcases n₂ hb with hc | ⟨I, l, hI, hl, hc, hr⟩
      · exact Or.inl hc
      · exact Or.inr ⟨I, l, le_trans k₁.length_le hI, hl, hc, hr⟩
    · obtain ⟨l', hl', hc', _⟩ := k₂ I l hl
      exact Or.inr ⟨I, l', hI, hl', hc'.trans hc, r₂ _ hr⟩
  · intro L l hL hl hc
    by_cases hLb : L < b.Instances.length
    · obtain ⟨l', hl', hc'⟩ := k₂.classOf hLb hl
      obtain ⟨ha, hb⟩ := d₁ L l' hL hl' (hc'.trans hc)
      exact ⟨ha, r₂ _ hb⟩
    · obtain ⟨hb, hcr⟩ := d₂ L l (Nat.le_of_not_lt hLb) hl hc
      refine ⟨?_, hcr⟩
      cases ha : a.Registered tid D with
      | none => rfl
      | some v => rw [r₁ v ha] at hb; cases hb
  · intro q hq hg
    exact g₂ q (TargetAt_keeps w k₁ q D hq) (g₁ q hq hg)

theorem RegStep.stepOfFrame {w : World} {tid : Nat} {D : UClass} {a b : Env}
    (hI : b.Instances = a.Instances)
    (hR : b.Registered tid D = a.Registered tid D)
    (hQ : b.QueuedFor tid D = a.QueuedFor tid D)
    (hX : b.InstanceReference = a.InstanceReference) : RegStep w tid D a b := by
  refine ⟨Env.KeepsInstances.of_instances hI, fun v h => by rw [hR]; exact h,
    fun h => Or.inl (by rw [hR]; exact h), ?_, fun q _ h => Good_congr hR hQ hX q h⟩
  intro L l hL hl
  rw [hI] at hl
  exact absurd (get?_lt hl) (by omega)

theorem RegAfter.afterSame (w : World) (tid : Nat) (D : UClass) (a : Env) : RegAfter w tid D a a :=
  ⟨Env.KeepsInstances.keepSame a, fun _ h => h, fun _ _ h => h⟩

theorem RegAfter.afterThen {w : World} {tid : Nat} {D : UClass} {a b c : Env}
    (h₁ : RegAfter w tid D a b) (h₂ : RegAfter w tid D b c) : RegAfter w tid D a c :=
  ⟨h₁.1.keepThen h₂.1, fun I h => h₂.2.1 I (h₁.2.1 I h),
    fun q hq hg => h₂.2.2 q (TargetAt_keeps w h₁.1 q D hq) (h₁.2.2 q hq hg)⟩

theorem RegStep.after {w : World} {tid : Nat} {D : UClass} {a b : Env}
    (h : RegStep w tid D a b) : RegAfter w tid D a b :=
  ⟨h.1, fun I hI => h.2.1 _ hI, h.2.2.2.2⟩

theorem Env.QueueOK.of_keeps {w : World} {tid : Nat} {a b : Env} (h : a.QueueOK w tid)
    (hk : a.KeepsInstances b) (hQ : ∀ C, b.QueuedFor tid C = a.QueuedFor tid C) :
    b.QueueOK w tid := by
  intro C s hs
  rw [hQ] at hs
  obtain ⟨h1, h2⟩ := h C s hs
  exact ⟨NodeAt_keeps w hk _ _ h1, TargetAt_keeps w hk _ _ h2⟩

theorem Registered_of_threadMap {tid : Nat} {a b : Env}
    (h : b.StateMachinesGeneratingForThread = a.StateMachinesGeneratingForThread) (D : UClass) :
    b.Registered tid D = a.Registered tid D := by
  unfold Env.Registered
  rw [Env.CurrentGeneration_congr tid h]

theorem QueuedFor_of_threadMap {tid : Nat} {a b : Env}
    (h : b.StateMachinesGeneratingForThread = a.StateMachinesGeneratingForThread) (D : UClass) :
    b.QueuedFor tid D = a.QueuedFor tid D := by
  unfold Env.QueuedFor
  rw [Env.CurrentGeneration_congr tid h]

theorem record_Registered (tid : Nat) (e : Env) (sm : FSMStateMachine) (T : UClass) (I : InstId)
    (D : UClass) :
    (GenerateStateMachine.record tid e sm T I).Registered tid D =
      if sm.Node.bReuseReference = true ∧ T = D then some (some I) else e.Registered tid D := by
  unfold GenerateStateMachine.record Env.Registered
  by_cases hR : sm.Node.bReuseReference = true
  · simp only [hR, if_true, Env.setCurrentGeneration_CurrentGeneration, TMap.Find_Add, true_and]
  · simp only [hR, Bool.false_eq_true, if_false, false_and]

theorem record_QueuedFor (tid : Nat) (e : Env) (sm : FSMStateMachine) (T : UClass) (I : InstId)
    (C : UClass) :
    (GenerateStateMachine.record tid e sm T I).QueuedFor tid C = e.QueuedFor tid C := by
  unfold GenerateStateMachine.record Env.QueuedFor
  split
  · simp only [Env.setCurrentGeneration_CurrentGeneration]
  · rfl

theorem record_InstanceReference (tid : Nat) (e : Env) (sm : FSMStateMachine) (T : UClass)
    (I : InstId) :
    (GenerateStateMachine.record tid e sm T I).InstanceReference = e.InstanceReference := by
  unfold GenerateStateMachine.record
  split <;> rfl

theorem decrement_Registered (tid : Nat) (e : Env) (T D : UClass) :
    (GenerateStateMachine.decrement tid e T).Registered tid D = e.Registered tid D := by
  unfold GenerateStateMachine.decrement Env.Registered
  dsimp only
  split
  · simp only [Env.setCurrentGeneration_CurrentGeneration]
  · simp

theorem decrement_QueuedFor (tid : Nat) (e : Env) (T C : UClass) :
    (GenerateStateMachine.decrement tid e T).QueuedFor tid C = e.QueuedFor tid C := by
  unfold GenerateStateMachine.decrement Env.QueuedFor
  dsimp only
  split
  · simp only [Env.setCurrentGeneration_CurrentGeneration]
  · simp

theorem decrement_InstanceReference (tid : Nat) (e : Env) (T : UClass) :
    (GenerateStateMachine.decrement tid e T).InstanceReference = e.InstanceReference := by
  unfold GenerateStateMachine.decrement
  dsimp only
  split <;> rfl

theorem increment_Registered (tid : Nat) (e : Env) (T D : UClass) :
    (GenerateStateMachine.increment tid e T).Registered tid D = e.Registered tid D := by
  unfold Env.Registered
  rw [increment_generation]

theorem increment_QueuedFor (tid : Nat) (e : Env) (T C : UClass) :
    (GenerateStateMachine.increment tid e T).QueuedFor tid C = e.QueuedFor tid C := by
  unfold Env.QueuedFor
  rw [increment_generation]

theorem Find_foldl_patch (I : InstId) (q : NodePtr) (l : List FSMStateMachine) :
    ∀ env : Env, TMap.Find (l.foldl (fun (env : Env) (StateMachine : FSMStateMachine) =>
        if StateMachine.Node.bReuseReference then env.SetInstanceReference StateMachine.Ptr I
        else env) env).InstanceReference q =
      if ∃ s ∈ l, s.Ptr = q ∧ s.Node.bReuseReference = true then some I
      else TMap.Find env.InstanceReference q := by
  induction l with
  | nil => intro env; simp
  | cons a l ih =>
    intro env
    simp only [List.foldl_cons]
    rw [ih]
    by_cases hl : ∃ s ∈ l, s.Ptr = q ∧ s.Node.bReuseReference = true
    · have : ∃ s ∈ a :: l, s.Ptr = q ∧ s.Node.bReuseReference = true := by
        obtain ⟨s, hs, h⟩ := hl
        exact ⟨s, List.mem_cons_of_mem _ hs, h⟩
      rw [if_pos hl, if_pos this]
    · rw [if_neg hl]
      by_cases ha : a.Ptr = q ∧ a.Node.bReuseReference = true
      · have : ∃ s ∈ a :: l, s.Ptr = q ∧ s.Node.bReuseReference = true :=
          ⟨a, List.mem_cons_self _ _, ha⟩
        rw [if_pos this]
        simp only [ha.2, if_true, Env.SetInstanceReference_InstanceReference_eq]
        rw [ha.1, TMap.Find_Add_self]
      · have : ¬ ∃ s ∈ a :: l, s.Ptr = q ∧ s.Node.bReuseReference = true := by
          rintro ⟨s, hs, h⟩
          rcases List.mem_cons.mp hs with rfl | hs
          · exact ha h
          · exact hl ⟨s, hs, h⟩
        rw [if_neg this]
        by_cases hr : a.Node.bReuseReference = true
        · simp only [hr, if_true, Env.SetInstanceReference_InstanceReference_eq]
          rw [TMap.Find_Add_ne _ _ (fun h => ha ⟨h, hr⟩)]
        · simp only [hr, Bool.false_eq_true, if_false]

theorem patch_InstanceReference (tid : Nat) (e : Env) (T : UClass) (I : InstId) (q : NodePtr) :
    TMap.Find (GenerateStateMachine.patch tid e T I).InstanceReference q =
      if ∃ s ∈ e.QueuedFor tid T, s.Ptr = q ∧ s.Node.bReuseReference = true then some I
      else TMap.Find e.InstanceReference q := by
  unfold GenerateStateMachine.patch Env.QueuedFor
  split
  · rename_i l hl
    rw [Find_foldl_patch, hl]
    rfl
  · rename_i hl
    rw [hl]
    simp

theorem referenced_Registered (tid : Nat) (e : Env) (K : InstId) (sm : FSMStateMachine)
    (T : UClass) (I : InstId) (D : UClass) :
    (GenerateStateMachine.referenced tid e K sm T I).Registered tid D =
      if sm.Node.bReuseReference = true ∧ T = D then some (some I) else e.Registered tid D := by
  unfold GenerateStateMachine.referenced
  dsimp only
  have h1 : ∀ (x : Env) (p : NodePtr) (i : InstId),
      (x.SetInstanceReference p i).Registered tid D = x.Registered tid D := fun _ _ _ => rfl
  rw [h1, decrement_Registered, Registered_of_threadMap (patch_threadMap tid _ T I),
    record_Registered, Registered_of_threadMap (Env.SetReferenceOwner_StateMachinesGeneratingForThread e I K)]

theorem referenced_QueuedFor (tid : Nat) (e : Env) (K : InstId) (sm : FSMStateMachine)
    (T : UClass) (I : InstId) (C : UClass) :
    (GenerateStateMachine.referenced tid e K sm T I).QueuedFor tid C = e.QueuedFor tid C := by
  unfold GenerateStateMachine.referenced
  dsimp only
  have h1 : ∀ (x : Env) (p : NodePtr) (i : InstId),
      (x.SetInstanceReference p i).QueuedFor tid C = x.QueuedFor tid C := fun _ _ _ => rfl
  rw [h1, decrement_QueuedFor, QueuedFor_of_threadMap (patch_threadMap tid _ T I),
    record_QueuedFor, QueuedFor_of_threadMap (Env.SetReferenceOwner_StateMachinesGeneratingForThread e I K)]

theorem referenced_InstanceReference (tid : Nat) (e : Env) (K : InstId) (sm : FSMStateMachine)
    (T : UClass) (I : InstId) (q : NodePtr) :
    TMap.Find (GenerateStateMachine.referenced tid e K sm T I).InstanceReference q =
      if sm.Ptr = q then some I
      else if ∃ s ∈ e.QueuedFor tid T, s.Ptr = q ∧ s.Node.bReuseReference = true then some I
      else TMap.Find e.InstanceReference q := by
  unfold GenerateStateMachine.referenced
  dsimp only
  rw [Env.SetInstanceReference_InstanceReference_eq, TMap.Find_Add]
  by_cases h : sm.Ptr = q
  · rw [if_pos h, if_pos h]
  · rw [if_neg h, if_neg h, decrement_InstanceReference, patch_InstanceReference,
      record_QueuedFor, QueuedFor_of_threadMap
        (Env.SetReferenceOwner_StateMachinesGeneratingForThread e I K),
      record_InstanceReference, Env.SetReferenceOwner_InstanceReference]

theorem Good_of_find {tid : Nat} {D : UClass} {a b : Env} {q : NodePtr}
    (hR : b.Registered tid D = a.Registered tid D)
    (hQ : ∀ s, s ∈ a.QueuedFor tid D → s ∈ b.QueuedFor tid D)
    (hI : TMap.Find b.InstanceReference q = TMap.Find a.InstanceReference q)
    (h : a.Good tid D q) : b.Good tid D q := by
  unfold Env.Good at h ⊢
  rw [hR, hI]
  rcases h with h | ⟨h1, s, hs, h2⟩
  · exact Or.inl h
  · exact Or.inr ⟨h1, s, hQ s hs, h2⟩

theorem Registered_setCurrentGeneration (env : Env) (tid : Nat) (g : GeneratingStateMachines)
    (D : UClass) :
    (env.setCurrentGeneration tid g).Registered tid D = TMap.Find g.CreatedReferences D := by
  simp [Env.Registered]

theorem QueuedFor_setCurrentGeneration (env : Env) (tid : Nat) (g : GeneratingStateMachines)
    (C : UClass) :
    (env.setCurrentGeneration tid g).QueuedFor tid C =
      (TMap.Find g.StateMachinesThatNeedReferences C).getD [] := by
  simp [Env.QueuedFor]

/-- The early returns of the check of a nested activation, in terms of the registration. -/
theorem check_inl_reg (tid : Nat) (env : Env) (K : InstId) (sm : FSMStateMachine) (T : UClass)
    (r : Bool) (env' : Env)
    (h : GenerateStateMachine.check tid false env K sm T = .inl (r, env')) :
    (sm.Node.bReuseReference = true ∧ ∃ J, env.Registered tid T = some (some J) ∧
      env' = env.SetInstanceReference sm.Ptr J) ∨
    (sm.Node.bReuseReference = true ∧ env.Registered tid T = some none ∧
      env'.Instances = env.Instances ∧ env'.InstanceReference = env.InstanceReference ∧
      (∀ D, env'.Registered tid D = env.Registered tid D) ∧
      (∀ C, env'.QueuedFor tid C =
        if T = C then
          (if sm ∈ env.QueuedFor tid T then env.QueuedFor tid T else env.QueuedFor tid T ++ [sm])
        else env.QueuedFor tid C)) ∨
    (sm.Node.bReuseReference = false ∧ env' = env.log (.CircularReferencing K)) := by
  unfold GenerateStateMachine.check at h
  dsimp only at h
  by_cases hR : sm.Node.bReuseReference = true
  · simp only [hR, if_true] at h
    split at h
    · rename_i J hJ
      simp only [Sum.inl.injEq, Prod.mk.injEq, Finish_false] at h
      exact Or.inl ⟨hR, J, hJ, h.2.symm⟩
    · rename_i hJ
      simp only [Sum.inl.injEq, Prod.mk.injEq, Finish_false] at h
      refine Or.inr (Or.inl ⟨hR, hJ, ?_, ?_, ?_, ?_⟩)
      · rw [← h.2]; rfl
      · rw [← h.2]; rfl
      · intro D
        rw [← h.2, Registered_setCurrentGeneration]
        rfl
      · intro C
        rw [← h.2, QueuedFor_setCurrentGeneration]
        simp only [TMap.Find_Add, TMap.Find_FindOrAdd, TMap.FindOrAdd_fst]
        by_cases hTC : T = C
        · simp only [hTC, if_true, Option.getD_some]
          rfl
        · simp only [hTC, if_false]
          rfl
    · exact absurd h (by simp)
  · have hR' : sm.Node.bReuseReference = false := by simpa using hR
    simp only [hR', Bool.false_eq_true, if_false] at h
    split at h
    · split at h
      · simp only [Sum.inl.injEq, Prod.mk.injEq, Finish_false] at h
        exact Or.inr (Or.inr ⟨hR', h.2.symm⟩)
      · exact absurd h (by simp)
    · exact absurd h (by simp)

/-- The check of a nested activation that goes on to instantiation, in terms of the
registration. -/
theorem check_inr_reg (tid : Nat) (top : Bool) (env : Env) (K : InstId) (sm : FSMStateMachine)
    (T : UClass) (env₂ : Env)
    (h : GenerateStateMachine.check tid top env K sm T = .inr env₂) :
    env₂.Instances = env.Instances ∧ env₂.InstanceReference = env.InstanceReference ∧
    (∀ C, env₂.QueuedFor tid C = env.QueuedFor tid C) ∧
    ((sm.Node.bReuseReference = true ∧ env.Registered tid T = none ∧
        ∀ D, env₂.Registered tid D = if T = D then some none else env.Registered tid D) ∨
      (sm.Node.bReuseReference = false ∧ env₂ = env)) := by
  unfold GenerateStateMachine.check at h
  dsimp only at h
  by_cases hR : sm.Node.bReuseReference = true
  · simp only [hR, if_true] at h
    split at h
    · exact absurd h (by simp)
    · exact absurd h (by simp)
    · rename_i hJ
      simp only [Sum.inr.injEq] at h
      subst h
      refine ⟨rfl, rfl, ?_, Or.inl ⟨hR, hJ, ?_⟩⟩
      · intro C
        rw [QueuedFor_setCurrentGeneration]
        rfl
      · intro D
        rw [Registered_setCurrentGeneration]
        simp only [TMap.Find_Add]
        rfl
  · have hR' : sm.Node.bReuseReference = false := by simpa using hR
    simp only [hR', Bool.false_eq_true, if_false] at h
    have : env₂ = env := by
      split at h
      · split at h
        · exact absurd h (by simp)
        · simp only [Sum.inr.injEq] at h; exact h.symm
      · simp only [Sum.inr.injEq] at h; exact h.symm
    subst this
    exact ⟨rfl, rfl, fun _ => rfl, Or.inr ⟨hR', rfl⟩⟩

/-- The early returns of the check keep the registration invariant. -/
theorem check_inl_step (w : World) (tid : Nat) (D : UClass)
    (hAll : ∀ (e : Env) (q : NodePtr) (p : FSMNode), e.NodeAt w q = some p →
      e.TargetAt w q = some D → p.bReuseReference = true)
    (e : Env) (L : InstId) (sm : FSMStateMachine) (T : UClass) (r : Bool) (e' : Env)
    (hq : e.QueueOK w tid) (hN : e.NodeAt w sm.Ptr = some sm.Node)
    (hT : e.TargetAt w sm.Ptr = some T)
    (h : GenerateStateMachine.check tid false e L sm T = .inl (r, e')) :
    e'.QueueOK w tid ∧ RegStep w tid D e e' ∧ (T = D → e'.Good tid D sm.Ptr) := by
  rcases check_inl_reg tid e L sm T r e' h with
    ⟨hR, J, hJ, he⟩ | ⟨hR, hnull, hI, hX, hReg, hQ⟩ | ⟨hR, he⟩
  · subst he
    refine ⟨hq.of_keeps (Env.KeepsInstances.of_instances rfl) (fun _ => rfl), ?_, ?_⟩
    · refine ⟨Env.KeepsInstances.of_instances rfl, fun v hv => hv, fun hv => Or.inl hv, ?_, ?_⟩
      · intro K l hK hl
        exact absurd (get?_lt hl) (by simp only [Env.SetInstanceReference_Instances]; omega)
      · intro q hqD hg
        by_cases hp : sm.Ptr = q
        · subst hp
          rw [hT] at hqD
          cases hqD
          rcases hg with ⟨I, hI, _⟩ | ⟨hn, _⟩
          · refine Or.inl ⟨J, hJ, ?_⟩
            simp [TMap.Find_Add_self]
          · rw [hJ] at hn
            cases hn
        · refine @Good_of_find tid D e _ q rfl (fun _ hs => hs) ?_ hg
          simp only [Env.SetInstanceReference_InstanceReference_eq]
          exact TMap.Find_Add_ne _ _ hp
    · intro hTD
      subst hTD
      exact Or.inl ⟨J, hJ, by simp [TMap.Find_Add_self]⟩
  · refine ⟨?_, ?_, ?_⟩
    · intro C s hs
      rw [hQ] at hs
      have hk : e.KeepsInstances e' := Env.KeepsInstances.of_instances hI
      have hold : ∀ C s, s ∈ e.QueuedFor tid C →
          e'.NodeAt w s.Ptr = some s.Node ∧ e'.TargetAt w s.Ptr = some C := fun C s hs =>
        ⟨NodeAt_keeps w hk _ _ (hq C s hs).1, TargetAt_keeps w hk _ _ (hq C s hs).2⟩
      by_cases hTC : T = C
      · subst hTC
        rw [if_pos rfl] at hs
        split at hs
        · exact hold _ s hs
        · rcases List.mem_append.mp hs with hs | hs
          · exact hold _ s hs
          · rw [List.mem_singleton] at hs
            subst hs
            exact ⟨NodeAt_keeps w hk _ _ hN, TargetAt_keeps w hk _ _ hT⟩
      · rw [if_neg hTC] at hs
        exact hold _ s hs
    · refine ⟨Env.KeepsInstances.of_instances hI, fun v hv => by rw [hReg]; exact hv,
        fun hv => Or.inl (by rw [hReg]; exact hv), ?_, ?_⟩
      · intro K l hK hl
        rw [hI] at hl
        exact absurd (get?_lt hl) (by omega)
      · intro q _ hg
        refine Good_of_find (hReg D) ?_ (by rw [hX]) hg
        intro s hs
        rw [hQ]
        by_cases hTD : T = D
        · subst hTD
          rw [if_pos rfl]
          split
          · exact hs
          · exact List.mem_append_left _ hs
        · rw [if_neg hTD]; exact hs
    · intro hTD
      subst hTD
      refine Or.inr ⟨by rw [hReg]; exact hnull, sm, ?_, rfl, hR⟩
      rw [hQ, if_pos rfl]
      split
      · assumption
      · exact List.mem_append_right _ (List.mem_singleton_self _)
  · subst he
    refine ⟨hq.of_keeps (Env.KeepsInstances.of_instances rfl) (fun _ => rfl),
      RegStep.stepOfFrame rfl rfl rfl rfl, ?_⟩
    intro hTD
    subst hTD
    rw [hAll e sm.Ptr sm.Node hN hT] at hR
    cases hR

/-- Instantiation for a reference node keeps the registration invariant: the check that
goes on, the activation on the root state machine of the new instance, and the steps that
follow it. -/
theorem create_step (w : World) (tid : Nat) (D : UClass)
    (hAll : ∀ (e : Env) (q : NodePtr) (p : FSMNode), e.NodeAt w q = some p →
      e.TargetAt w q = some D → p.bReuseReference = true)
    (gsm : GenerateCall) (hg : RegOK w tid D gsm) (top : Bool)
    (e : Env) (L : InstId) (sm : FSMStateMachine) (T : UClass) (tmpl : Option UClass)
    (ctx : Option Nat) (e₂ : Env) (r₁ : Bool) (x : Env)
    (hq : e.QueueOK w tid) (hN : e.NodeAt w sm.Ptr = some sm.Node)
    (hT : e.TargetAt w sm.Ptr = some T)
    (hchk : GenerateStateMachine.check tid top e L sm T = .inr e₂)
    (hcall : gsm ((GenerateStateMachine.increment tid e₂ T).Initializing T tmpl ctx)
      (.SMInstance e₂.Instances.length)
      (USMInstance.RootStateMachine (w.GetClass T) e₂.Instances.length)
      (w.GetClass T).Properties false = some (r₁, x)) :
    (GenerateStateMachine.referenced tid x L sm T e₂.Instances.length).QueueOK w tid ∧
    RegStep w tid D e (GenerateStateMachine.referenced tid x L sm T e₂.Instances.length) ∧
    (T = D → (GenerateStateMachine.referenced tid x L sm T e₂.Instances.length).Good tid D
      sm.Ptr) := by
  obtain ⟨hI₂, hX₂, hQ₂, hreg⟩ := check_inr_reg tid top e L sm T e₂ hchk
  have haI : ((GenerateStateMachine.increment tid e₂ T).Initializing T tmpl ctx).Instances =
      e.Instances ++ [{ Class := T, Context := ctx, Template := tmpl, ReferenceOwner := none }] := by
    rw [Initializing_Instances, increment_Instances, hI₂]
  have haX : ((GenerateStateMachine.increment tid e₂ T).Initializing T tmpl ctx).InstanceReference =
      e.InstanceReference := by
    rw [Initializing_InstanceReference, increment_InstanceReference, hX₂]
  have haQ : ∀ C, ((GenerateStateMachine.increment tid e₂ T).Initializing T tmpl ctx).QueuedFor tid C =
      e.QueuedFor tid C := by
    intro C
    rw [QueuedFor_of_threadMap (Initializing_threadMap _ _ _ _), increment_QueuedFor, hQ₂]
  have haR : ∀ C, ((GenerateStateMachine.increment tid e₂ T).Initializing T tmpl ctx).Registered tid C =
      e₂.Registered tid C := by
    intro C
    rw [Registered_of_threadMap (Initializing_threadMap _ _ _ _), increment_Registered]
  have hka : e.KeepsInstances ((GenerateStateMachine.increment tid e₂ T).Initializing T tmpl ctx) := by
    refine Env.KeepsInstances.keepThen (Env.KeepsInstances.of_instances ?_) (Keeps_Initializing _ _ _ _)
    rw [increment_Instances, hI₂]
  have hca : TMap.Contains ((GenerateStateMachine.increment tid e₂ T).Initializing T tmpl
      ctx).StateMachinesGeneratingForThread tid = true := by
    rw [Initializing_threadMap]; exact Contains_thread_increment tid e₂ T
  have hlen : e₂.Instances.length = e.Instances.length := by rw [hI₂]
  have hnew : ((GenerateStateMachine.increment tid e₂ T).Initializing T tmpl ctx).Instances.get?
      e₂.Instances.length =
      some { Class := T, Context := ctx, Template := tmpl, ReferenceOwner := none } := by
    rw [haI, hlen]; exact get?_append_new _ _
  obtain ⟨hqx, hstep, _⟩ := hg _ _ _ _ r₁ x ⟨_, hnew, rfl, Or.inl rfl⟩ hca (hq.of_keeps hka haQ)
    hcall
  obtain ⟨kx, rx, nx, dx, gx⟩ := hstep
  have hke := Keeps_referenced tid x L sm T e₂.Instances.length
  have hQe := referenced_QueuedFor tid x L sm T e₂.Instances.length
  have hRe := referenced_Registered tid x L sm T e₂.Instances.length D
  have hXe := referenced_InstanceReference tid x L sm T e₂.Instances.length
  have hlenx : (GenerateStateMachine.referenced tid x L sm T e₂.Instances.length).Instances.length =
      x.Instances.length := (SameGraph_referenced tid x L sm T _).2
  -- the new instance at the end
  obtain ⟨n₁, hn₁, hc₁, _⟩ := kx _ _ hnew
  obtain ⟨n₂, hn₂, hc₂, _⟩ := hke _ _ hn₁
  have hcn : n₂.Class = T := hc₂.trans hc₁
  have halen : ((GenerateStateMachine.increment tid e₂ T).Initializing T tmpl ctx).Instances.length =
      e.Instances.length + 1 := by rw [haI]; simp
  refine ⟨hqx.of_keeps hke hQe, ?_, ?_⟩
  · by_cases hTD : T = D
    · -- the class registered is the one instantiated
      subst hTD
      have hR : sm.Node.bReuseReference = true := hAll e sm.Ptr sm.Node hN hT
      rcases hreg with ⟨_, hnone, hreg₂⟩ | ⟨hR', _⟩
      swap
      · rw [hR] at hR'; cases hR'
      have hax : x.Registered tid T = some none := rx _ (by rw [haR, hreg₂, if_pos rfl])
      rw [if_pos ⟨hR, rfl⟩] at hRe
      refine ⟨(hka.keepThen kx).keepThen hke, ?_, ?_, ?_, ?_⟩
      · intro v hv; rw [hnone] at hv; cases hv
      · intro _
        exact Or.inr ⟨_, n₂, by omega, hn₂, hcn, hRe⟩
      · intro K l hK hl hcl
        refine ⟨hnone, ?_⟩
        by_cases hKa : K < e.Instances.length + 1
        · have : K = e₂.Instances.length := by omega
          rw [this]; exact hRe
        · exfalso
          have hKx : K < x.Instances.length := by rw [← hlenx]; exact get?_lt hl
          obtain ⟨l', hl', hcl'⟩ := hke.classOf hKx hl
          have := (dx K l' (by rw [halen]; omega) hl' (hcl'.trans hcl)).1
          rw [haR, hreg₂, if_pos rfl] at this
          cases this
      · intro q _ hg
        rcases hg with ⟨I, hI, _⟩ | ⟨hn, _⟩
        · rw [hnone] at hI; cases hI
        · rw [hnone] at hn; cases hn
    · -- another class is instantiated
      have haRD : ((GenerateStateMachine.increment tid e₂ T).Initializing T tmpl ctx).Registered tid D =
          e.Registered tid D := by
        rw [haR]
        rcases hreg with ⟨_, _, hreg₂⟩ | ⟨_, he₂⟩
        · rw [hreg₂, if_neg hTD]
        · rw [he₂]
      rw [if_neg (fun h => hTD h.2)] at hRe
      refine ⟨(hka.keepThen kx).keepThen hke, ?_, ?_, ?_, ?_⟩
      · intro v hv
        rw [hRe]; exact rx v (by rw [haRD]; exact hv)
      · intro hv
        rcases nx (by rw [haRD]; exact hv) with hx | ⟨I, l, hI, hl, hcl, hr⟩
        · exact Or.inl (by rw [hRe]; exact hx)
        · obtain ⟨l', hl', hcl', _⟩ := hke I l hl
          exact Or.inr ⟨I, l', by rw [halen] at hI; omega, hl', hcl'.trans hcl, by rw [hRe]; exact hr⟩
      · intro K l hK hl hcl
        have hKx : K < x.Instances.length := by rw [← hlenx]; exact get?_lt hl
        obtain ⟨l', hl', hcl'⟩ := hke.classOf hKx hl
        by_cases hKa : K < e.Instances.length + 1
        · exfalso
          have hKe : K = e₂.Instances.length := by omega
          rw [hKe, hn₂] at hl
          cases hl
          exact hTD (hcn.symm.trans hcl)
        · obtain ⟨h1, h2⟩ := dx K l' (by rw [halen]; omega) hl' (hcl'.trans hcl)
          exact ⟨by rw [← haRD]; exact h1, by rw [hRe]; exact h2⟩
      · intro q hqD hg
        have hga : ((GenerateStateMachine.increment tid e₂ T).Initializing T tmpl ctx).Good tid D q :=
          Good_of_find haRD (fun s hs => by rw [haQ]; exact hs) (by rw [haX]) hg
        have hgx := gx q (TargetAt_keeps w hka q D hqD) hga
        refine Good_of_find hRe (fun s hs => by rw [hQe]; exact hs) ?_ hgx
        rw [hXe]
        have h1 : sm.Ptr ≠ q := by
          intro h
          rw [h] at hT
          rw [hT] at hqD
          cases hqD
          exact hTD rfl
        have h2 : ¬ ∃ s ∈ x.QueuedFor tid T, s.Ptr = q ∧ s.Node.bReuseReference = true := by
          rintro ⟨s, hs, hp, _⟩
          have := (hqx T s hs).2
          rw [hp, TargetAt_keeps w (hka.keepThen kx) q D hqD] at this
          cases this
          exact hTD rfl
        rw [if_neg h1, if_neg h2]
  · intro hTD
    subst hTD
    have hR : sm.Node.bReuseReference = true := hAll e sm.Ptr sm.Node hN hT
    rw [if_pos ⟨hR, rfl⟩] at hRe
    exact Or.inl ⟨_, hRe, by rw [hXe, if_pos rfl]⟩

/-- The reference branch of a nested activation keeps the registration invariant. -/
theorem reference_reg (w : World) (tid : Nat) (D : UClass)
    (hAll : ∀ (e : Env) (q : NodePtr) (p : FSMNode), e.NodeAt w q = some p →
      e.TargetAt w q = some D → p.bReuseReference = true)
    (gsm : GenerateCall) (hg : RegOK w tid D gsm)
    (env : Env) (L : InstId) (sm : FSMStateMachine) (props : List FSMNode) (cls : UClass)
    (r : Bool) (env' : Env) (hgen : Genuine w env L sm props)
    (hC : sm.Node.ClassReference = some cls) (hq : env.QueueOK w tid)
    (h : GenerateStateMachine.reference w tid gsm false env L sm cls false = some (r, env')) :
    env'.QueueOK w tid ∧ RegStep w tid D env env' ∧
    (env.TargetAt w sm.Ptr = some D → env'.Good tid D sm.Ptr) := by
  have hN := (hgen.nodeAt (by rw [hC]; rfl)).1
  have hT := hgen.targetAt cls hC
  have hT' : env.TargetAt w sm.Ptr = some (GenerateStateMachine.template w env L sm cls false).2.1 := hT
  have hk : env.KeepsInstances (GenerateStateMachine.template w env L sm cls false).2.2 :=
    Env.KeepsInstances.of_instances (template_keeps w env L sm cls false).1
  have hM := template_threadMap w env L sm cls false
  have h01 : RegStep w tid D env (GenerateStateMachine.template w env L sm cls false).2.2 :=
    RegStep.stepOfFrame (template_keeps w env L sm cls false).1 (Registered_of_threadMap hM D)
      (QueuedFor_of_threadMap hM D) (template_keeps w env L sm cls false).2
  have hq₁ : (GenerateStateMachine.template w env L sm cls false).2.2.QueueOK w tid :=
    hq.of_keeps hk (fun C => QueuedFor_of_threadMap hM C)
  have hN₁ := NodeAt_keeps w hk _ _ hN
  have hT₁ := TargetAt_keeps w hk _ _ hT'
  have hown : env.TargetAt w sm.Ptr = some D →
      (GenerateStateMachine.template w env L sm cls false).2.1 = D := by
    intro hD
    rw [hT'] at hD
    exact Option.some.inj hD
  rcases reference_cases w tid gsm false env L sm cls false r env' h with
    h1 | ⟨_, _, h2, _⟩ | ⟨env₂, r₁, x, h1, _, hcall, _, he⟩
  · obtain ⟨a, b, c⟩ := check_inl_step w tid D hAll _ L sm _ r env' hq₁ hN₁ hT₁ h1
    exact ⟨a, h01.stepThen b, fun hD => c (hown hD)⟩
  · cases h2
  · rw [Finish_false] at he
    subst he
    obtain ⟨a, b, c⟩ := create_step w tid D hAll gsm hg false _ L sm _ _ _ env₂ r₁ x hq₁ hN₁ hT₁ h1
      hcall
    exact ⟨a, h01.stepThen b, fun hD => c (hown hD)⟩

theorem RegPre.preOfFrame {w : World} {tid : Nat} {L : InstId} {props : List FSMNode} {a b : Env}
    (h : RegPre w tid L props a) (hI : b.Instances = a.Instances)
    (hT : b.StateMachinesGeneratingForThread = a.StateMachinesGeneratingForThread) :
    RegPre w tid L props b := by
  obtain ⟨hc, hq, l, hl, hp⟩ := h
  exact ⟨by rw [hT]; exact hc,
    hq.of_keeps (Env.KeepsInstances.of_instances hI) (fun C => QueuedFor_of_threadMap hT C),
    l, by rw [hI]; exact hl, hp⟩

theorem RegStep.stepOfThreadMap {w : World} {tid : Nat} {D : UClass} {a b : Env}
    (hI : b.Instances = a.Instances)
    (hT : b.StateMachinesGeneratingForThread = a.StateMachinesGeneratingForThread)
    (hX : b.InstanceReference = a.InstanceReference) : RegStep w tid D a b :=
  RegStep.stepOfFrame hI (Registered_of_threadMap hT D) (QueuedFor_of_threadMap hT D) hX

theorem RegVisit.before {w : World} {tid : Nat} {D : UClass} {gsm : GenerateCall} {L : InstId}
    {props : List FSMNode} {a b c : Env} {i : Nat} {p : FSMNode}
    (h₁ : RegStep w tid D a b) (h₂ : RegVisit w tid D gsm L props b c i p) :
    RegVisit w tid D gsm L props a c i p := by
  obtain ⟨e₁, r₁, e₂, hc, hp, hs, hq, ha, hg⟩ := h₂
  exact ⟨e₁, r₁, e₂, hc, hp, h₁.stepThen hs, hq, ha, hg⟩

theorem RegVisit.behind {w : World} {tid : Nat} {D : UClass} {gsm : GenerateCall} {L : InstId}
    {props : List FSMNode} {a b c : Env} {i : Nat} {p : FSMNode}
    (h₁ : RegVisit w tid D gsm L props a b i p) (h₂ : RegAfter w tid D b c) :
    RegVisit w tid D gsm L props a c i p := by
  obtain ⟨e₁, r₁, e₂, hc, hp, hs, hq, ha, hg⟩ := h₁
  exact ⟨e₁, r₁, e₂, hc, hp, hs, hq, ha.afterThen h₂, hg⟩

theorem RegPre.of_step {w : World} {tid : Nat} {D : UClass} {L : InstId} {props : List FSMNode}
    {a b : Env} (h : RegPre w tid L props a) (hs : RegStep w tid D a b)
    (hc : TMap.Contains b.StateMachinesGeneratingForThread tid = true) (hq : b.QueueOK w tid) :
    RegPre w tid L props b := by
  obtain ⟨_, _, l, hl, hp⟩ := h
  obtain ⟨l', hl', hcl, _⟩ := hs.1 L l hl
  exact ⟨hc, hq, l', hl', by rw [hcl]; exact hp⟩

/-- The first pass keeps the registration invariant and calls the assembler on every state
machine record the state machine owns. -/
theorem states_reg (w : World) (tid : Nat) (D : UClass) (gsm : GenerateCall)
    (hg : RegOK w tid D gsm) (hn : NestedOK tid gsm) (L : InstId) (sm : FSMStateMachine)
    (props : List FSMNode) :
    ∀ (l : List (Nat × FSMNode)) (a : Env) (M : TMap FGuid NodePtr) (b : Env)
      (M' : TMap FGuid NodePtr),
      GenerateStateMachine.states (fun e n => gsm e (.SMInstance L) n props false)
        (.SMInstance L) sm l a M = some (b, M') →
      (∀ x ∈ l, props[x.1]? = some x.2) → RegPre w tid L props a →
      RegPre w tid L props b ∧ RegStep w tid D a b ∧
      ∀ i p, (i, p) ∈ l → p.Struct.IsChildOfStateMachine = true → p.OwnerGuid = sm.Node.Guid →
        RegVisit w tid D gsm L props a b i p := by
  intro l a M b M' h
  refine states_seg
    (fun l a b => (∀ x ∈ l, props[x.1]? = some x.2) → RegPre w tid L props a →
      RegPre w tid L props b ∧ RegStep w tid D a b ∧
      ∀ i p, (i, p) ∈ l → p.Struct.IsChildOfStateMachine = true → p.OwnerGuid = sm.Node.Guid →
        RegVisit w tid D gsm L props a b i p)
    (fun _ => True) (fun e n => gsm e (.SMInstance L) n props false) (.SMInstance L) sm
    ?_ ?_ ?_ ?_ ?_ l a M b M' trivial h
  · intro e _ hp
    exact ⟨hp, RegStep.stepSame w tid D e, fun i p hm => absurd hm (List.not_mem_nil _)⟩
  · intro x s a b c h₁ h₂ hm hp
    obtain ⟨p₁, s₁, v₁⟩ := h₁ (fun y hy => hm y (by rw [List.mem_singleton] at hy; rw [hy]; exact List.mem_cons_self _ _)) hp
    obtain ⟨p₂, s₂, v₂⟩ := h₂ (fun y hy => hm y (List.mem_cons_of_mem _ hy)) p₁
    refine ⟨p₂, s₁.stepThen s₂, ?_⟩
    intro i p hmem hs ho
    rcases List.mem_cons.mp hmem with hx | hx
    · exact (v₁ i p (by rw [hx]; exact List.mem_singleton_self _) hs ho).behind s₂.after
    · exact RegVisit.before s₁ (v₂ i p hx hs ho)
  · intro _ _ _ _ _; trivial
  · intro i p e hnot _ hp
    refine ⟨hp, RegStep.stepSame w tid D e, ?_⟩
    intro i' p' hm hs ho
    rw [List.mem_singleton] at hm
    cases hm
    exact absurd ⟨IsChildOfState_Base_of_StateMachine _ hs, ho⟩ hnot
  · intro i p e e₁ e₂ _ hsb ho he₁ hsm hnsm hm hp
    have hip : props[i]? = some p := hm (i, p) (List.mem_singleton_self _)
    have f1 : e₁.Instances = e.Instances ∧
        e₁.StateMachinesGeneratingForThread = e.StateMachinesGeneratingForThread ∧
        e₁.InstanceReference = e.InstanceReference := by
      rcases he₁ with h | ⟨m, h⟩ <;> rw [h] <;> exact ⟨rfl, rfl, rfl⟩
    have p1 : RegPre w tid L props e₁ := hp.preOfFrame f1.1 f1.2.1
    have s1 : RegStep w tid D e e₁ := RegStep.stepOfThreadMap f1.1 f1.2.1 f1.2.2
    have f3 : ∀ e' : Env,
        (if p.bIsRootNode then e'.AddInitialState sm.Ptr ⟨.SMInstance L, some i⟩ else e').Instances =
          e'.Instances ∧
        (if p.bIsRootNode then e'.AddInitialState sm.Ptr ⟨.SMInstance L, some i⟩
          else e').StateMachinesGeneratingForThread = e'.StateMachinesGeneratingForThread ∧
        (if p.bIsRootNode then e'.AddInitialState sm.Ptr ⟨.SMInstance L, some i⟩
          else e').InstanceReference = e'.InstanceReference := by
      intro e'
      split <;> exact ⟨rfl, rfl, rfl⟩
    by_cases hs : p.Struct.IsChildOfStateMachine = true
    · obtain ⟨r, hcall⟩ := hsm hs
      obtain ⟨l, hl, hpr⟩ := p1.2.2
      obtain ⟨q2, s2, own⟩ := hg e₁ L ⟨⟨.SMInstance L, some i⟩, p⟩ props r e₂
        ⟨l, hl, hpr, Or.inr ⟨i, rfl, hip, hs⟩⟩ p1.1 p1.2.1 hcall
      have c2 := (hn e₁ _ _ _ _ r e₂ p1.1 hcall).1
      have p2 : RegPre w tid L props e₂ := p1.of_step s2 c2 q2
      have s3 := @RegStep.stepOfThreadMap w tid D _ _ (f3 e₂).1 (f3 e₂).2.1 (f3 e₂).2.2
      refine ⟨p2.preOfFrame (f3 e₂).1 (f3 e₂).2.1, (s1.stepThen s2).stepThen s3, ?_⟩
      intro i' p' hmem _ _
      rw [List.mem_singleton] at hmem
      cases hmem
      exact ⟨e₁, r, e₂, hcall, p1, s1, q2, s3.after, own⟩
    · have h2 := hnsm (by simpa using hs)
      subst h2
      have s3 := @RegStep.stepOfThreadMap w tid D _ _ (f3 e₂).1 (f3 e₂).2.1 (f3 e₂).2.2
      refine ⟨p1.preOfFrame (f3 e₂).1 (f3 e₂).2.1, s1.stepThen s3, ?_⟩
      intro i' p' hmem hs' _
      rw [List.mem_singleton] at hmem
      cases hmem
      exact absurd hs' hs

/-- Local assembly in a nested position keeps the registration invariant up to the
environment `e` it reaches before `FinishStateMachineGeneration`, and calls the assembler
on every state machine record the state machine owns. -/
theorem assemble_reg (w : World) (tid : Nat) (D : UClass) (gsm : GenerateCall)
    (hg : RegOK w tid D gsm) (hn : NestedOK tid gsm) (top : Bool) (a : Env) (L : InstId)
    (sm : FSMStateMachine) (props : List FSMNode) (r : Bool) (b : Env)
    (hpre : RegPre w tid L props a)
    (h : GenerateStateMachine.assemble tid gsm top a (.SMInstance L) sm props false = some (r, b)) :
    ∃ e, (b = e ∨ b = (FinishStateMachineGeneration top e tid).2) ∧
      RegPre w tid L props e ∧ RegStep w tid D a e ∧
      ∀ i p, props[i]? = some p → p.Struct.IsChildOfStateMachine = true →
        p.OwnerGuid = sm.Node.Guid → RegVisit w tid D gsm L props a e i p := by
  unfold GenerateStateMachine.assemble at h
  split at h
  · exact absurd h (by simp)
  · rename_i e₁ M hst
    obtain ⟨p₁, s₁, v₁⟩ := states_reg w tid D gsm hg hn L sm props props.enum a [] e₁ M hst
      (fun x hx => List.mk_mem_enum_iff_getElem?.mp hx) hpre
    have hf := transitions_frame (.SMInstance L) sm M props.enum e₁
    have s₂ : RegStep w tid D e₁ (GenerateStateMachine.transitions (.SMInstance L) sm M
        props.enum e₁).2 := RegStep.stepOfThreadMap hf.1 hf.2.1 hf.2.2.1
    have p₂ := p₁.preOfFrame hf.1 hf.2.1
    refine ⟨(GenerateStateMachine.transitions (.SMInstance L) sm M props.enum e₁).2, ?_, p₂,
      s₁.stepThen s₂, ?_⟩
    · split at h
      · rename_i e ht
        simp only [Option.some.injEq, Prod.mk.injEq] at h
        rw [ht]; exact Or.inl h.2.symm
      · rename_i e ht
        simp only [Option.some.injEq, Prod.mk.injEq] at h
        rw [ht]; exact Or.inr h.2.symm
    · intro i p hi hs ho
      exact (v₁ i p (List.mk_mem_enum_iff_getElem?.mpr hi) hs ho).behind s₂.after

theorem Genuine.pre {w : World} {env : Env} {L : InstId} {sm : FSMStateMachine}
    {props : List FSMNode} (h : Genuine w env L sm props) (tid : Nat)
    (hc : TMap.Contains env.StateMachinesGeneratingForThread tid = true)
    (hq : env.QueueOK w tid) : RegPre w tid L props env := by
  obtain ⟨l, hl, hp, _⟩ := h
  exact ⟨hc, hq, l, hl, hp⟩

theorem Genuine.localTarget {w : World} {env : Env} {L : InstId} {sm : FSMStateMachine}
    {props : List FSMNode} (h : Genuine w env L sm props)
    (hc : sm.Node.ClassReference = none) : env.TargetAt w sm.Ptr = none := by
  obtain ⟨l, hl, hp, hsm⟩ := h
  rcases hsm with h | ⟨i, hptr, hi, hs⟩
  · rw [h]; exact Genuine.rootTarget w env L _
  · rw [hptr]
    have hn : env.NodeAt w ⟨.SMInstance L, some i⟩ = some sm.Node := by
      simp only [Env.NodeAt, hl, Option.some_bind]
      rw [← hp]; exact hi
    simp only [Env.TargetAt, hn, Option.some_bind, hs, if_true, hc, Option.map_none']

theorem body_reg (w : World) (tid : Nat) (D : UClass)
    (hAll : ∀ (e : Env) (q : NodePtr) (p : FSMNode), e.NodeAt w q = some p →
      e.TargetAt w q = some D → p.bReuseReference = true)
    (gsm : GenerateCall) (hg : RegOK w tid D gsm) (hn : NestedOK tid gsm) :
    RegOK w tid D (GenerateStateMachine.body w tid gsm) := by
  intro env L sm props r env' hgen hc hq h
  unfold GenerateStateMachine.body at h
  simp only [hc, Bool.not_true, Within_FindOrAddGeneration tid env hc] at h
  cases hcr : sm.Node.ClassReference with
  | none =>
    simp only [hcr] at h
    obtain ⟨e, he, pe, se, _⟩ := assemble_reg w tid D gsm hg hn false env L sm props r env'
      (hgen.pre tid hc hq) h
    have : env' = e := by
      rcases he with h | h
      · exact h
      · rw [h, Finish_false]
    subst this
    refine ⟨pe.2.1, se, ?_⟩
    intro hT
    rw [hgen.localTarget hcr] at hT
    cases hT
  | some cls =>
    simp only [hcr] at h
    exact reference_reg w tid D hAll gsm hg env L sm props cls r env' hgen hcr hq h

theorem GenerateStateMachine_reg (w : World) (tid : Nat) (D : UClass)
    (hAll : ∀ (e : Env) (q : NodePtr) (p : FSMNode), e.NodeAt w q = some p →
      e.TargetAt w q = some D → p.bReuseReference = true) :
    ∀ depth, RegOK w tid D (GenerateStateMachine w tid depth) := by
  intro depth
  induction depth with
  | zero => intro env L sm props r env' _ _ _ h; simp [GenerateStateMachine] at h
  | succ d ih => exact body_reg w tid D hAll _ ih (GenerateStateMachine_nested w tid d)

theorem TargetAt_live (w : World) (e : Env) (L : InstId) (i : Option Nat) (T : UClass)
    (h : e.TargetAt w ⟨.SMInstance L, i⟩ = some T) : ∃ l, e.Instances.get? L = some l := by
  unfold Env.TargetAt at h
  simp only at h
  cases hn : e.NodeAt w ⟨.SMInstance L, i⟩ with
  | none => rw [hn] at h; cases h
  | some p =>
    unfold Env.NodeAt at hn
    cases i with
    | none => cases hn
    | some i =>
      simp only at hn
      cases hl : e.Instances.get? L with
      | none => rw [hl] at hn; cases hn
      | some l => exact ⟨l, rfl⟩

/-- The class a reference node resolves to is the same in an earlier environment in which
the instance that contains the node is live. -/
theorem TargetAt_back (w : World) {a b : Env} (h : a.KeepsInstances b) (L : InstId)
    (i : Option Nat) (T : UClass) (hL : L < a.Instances.length)
    (hb : b.TargetAt w ⟨.SMInstance L, i⟩ = some T) : a.TargetAt w ⟨.SMInstance L, i⟩ = some T := by
  obtain ⟨l, hl⟩ := get?_of_lt hL
  obtain ⟨l', hl', hc, _⟩ := h L l hl
  unfold Env.TargetAt at hb ⊢
  simp only at hb ⊢
  have hn : a.NodeAt w ⟨.SMInstance L, i⟩ = b.NodeAt w ⟨.SMInstance L, i⟩ := by
    unfold Env.NodeAt
    cases i with
    | none => rfl
    | some i => simp only [hl, hl', Option.some_bind, hc]
  rw [hn]
  cases hp : b.NodeAt w ⟨.SMInstance L, i⟩ with
  | none => rw [hp] at hb; cases hb
  | some p =>
    rw [hp] at hb
    simp only [Option.some_bind] at hb ⊢
    split at hb
    · rename_i hs
      simp only [hs, if_true]
      cases hcr : p.ClassReference with
      | none => rw [hcr] at hb; cases hb
      | some cls =>
        rw [hcr] at hb
        simp only [Option.map_some', Option.some.injEq] at hb ⊢
        rw [← hb]
        exact (target_of_class w a b L l l' _ cls false hl hl' hc).symm
    · cases hb

/-- The steps that follow an instantiation keep settled nodes settled: the nodes queued
for the class instantiated receive the instance when the class is now registered with it. -/
theorem referenced_after (w : World) (tid : Nat) (D : UClass) (x : Env) (L : InstId)
    (sm : FSMStateMachine) (T : UClass) (I : InstId) (hqx : x.QueueOK w tid)
    (hT : x.TargetAt w sm.Ptr = some T) (hR : T = D → sm.Node.bReuseReference = true)
    (hnull : T = D → x.Registered tid D = some none) :
    RegAfter w tid D x (GenerateStateMachine.referenced tid x L sm T I) := by
  have hke := Keeps_referenced tid x L sm T I
  have hQe := referenced_QueuedFor tid x L sm T I
  have hRe := referenced_Registered tid x L sm T I D
  have hXe := referenced_InstanceReference tid x L sm T I
  by_cases hTD : T = D
  · subst hTD
    rw [if_pos ⟨hR rfl, rfl⟩] at hRe
    refine ⟨hke, ?_, ?_⟩
    · intro J hJ
      rw [hnull rfl] at hJ; cases hJ
    · intro q _ hg
      rcases hg with ⟨J, hJ, _⟩ | ⟨_, s, hs, hp, hr⟩
      · rw [hnull rfl] at hJ; cases hJ
      · refine Or.inl ⟨I, hRe, ?_⟩
        rw [hXe]
        split
        · rfl
        · rw [if_pos ⟨s, hs, hp, hr⟩]
  · rw [if_neg (fun h => hTD h.2)] at hRe
    refine ⟨hke, fun J hJ => by rw [hRe]; exact hJ, ?_⟩
    intro q hqD hg
    refine Good_of_find hRe (fun s hs => by rw [hQe]; exact hs) ?_ hg
    rw [hXe]
    have h1 : sm.Ptr ≠ q := by
      intro h
      rw [h] at hT
      rw [hT] at hqD
      cases hqD
      exact hTD rfl
    have h2 : ¬ ∃ s ∈ x.QueuedFor tid T, s.Ptr = q ∧ s.Node.bReuseReference = true := by
      rintro ⟨s, hs, hp, _⟩
      have := (hqx T s hs).2
      rw [hp, hqD] at this
      cases this
      exact hTD rfl
    rw [if_neg h1, if_neg h2]

/-- Local assembly calls the assembler on every state machine record of the graph of the
state machine, at any depth of nesting; each call starts in an environment reached by
registration steps and leaves its node settled. -/
theorem assemble_regvisits (w : World) (tid : Nat) (D : UClass)
    (hAll : ∀ (e : Env) (q : NodePtr) (p : FSMNode), e.NodeAt w q = some p →
      e.TargetAt w q = some D → p.bReuseReference = true)
    (d : Nat) (top : Bool) (a : Env) (L : InstId) (sm : FSMStateMachine) (props : List FSMNode)
    (r : Bool) (b : Env) (hpre : RegPre w tid L props a)
    (h : GenerateStateMachine.assemble tid (GenerateStateMachine w tid d) top a (.SMInstance L) sm
      props false = some (r, b)) :
    ∃ e, (b = e ∨ b = (FinishStateMachineGeneration top e tid).2) ∧
      RegPre w tid L props e ∧ RegStep w tid D a e ∧
      ∀ i, LocalBelow props sm.Node.Guid i → ∀ p, props[i]? = some p →
        ∃ d', d' ≤ d ∧ RegVisit w tid D (GenerateStateMachine w tid d') L props a e i p := by
  obtain ⟨e, he, pe, se, ve⟩ := assemble_reg w tid D _ (GenerateStateMachine_reg w tid D hAll d)
    (GenerateStateMachine_nested w tid d) top a L sm props r b hpre h
  refine ⟨e, he, pe, se, ?_⟩
  intro i hb
  induction hb with
  | inGraph i p hi hs ho =>
    intro p' hp'
    rw [hi] at hp'
    cases hp'
    exact ⟨d, le_refl d, ve i p hi hs ho⟩
  | inNested i j p q hi hs hj hsm hq ho _ ih =>
    intro p' hp'
    rw [hi] at hp'
    cases hp'
    obtain ⟨d₁, hd₁, e₁, r₁, e₂, hcall, p₁, s₁, q₂, a₂, _⟩ := ih q hj
    cases d₁ with
    | zero => simp [GenerateStateMachine] at hcall
    | succ d₂ =>
      rw [GenerateStateMachine_local_nested w tid d₂ e₁ _ _ _ false hq p₁.1] at hcall
      obtain ⟨e', he', _, _, ve'⟩ := assemble_reg w tid D _
        (GenerateStateMachine_reg w tid D hAll d₂) (GenerateStateMachine_nested w tid d₂) false e₁ L
        ⟨⟨.SMInstance L, some j⟩, q⟩ props r₁ e₂ p₁ hcall
      have : e₂ = e' := by
        rcases he' with h | h
        · exact h
        · rw [h, Finish_false]
      subst this
      exact ⟨d₂, by omega, RegVisit.before s₁ ((ve' i p hi hs ho).behind a₂)⟩

theorem NewGood.newSame (w : World) (tid : Nat) (D : UClass) (a : Env) : NewGood w tid D a a := by
  intro K k i hK hk
  exact absurd (get?_lt hk) (by omega)

theorem NewGood.newOfInstances {w : World} {tid : Nat} {D : UClass} {a b : Env}
    (h : b.Instances = a.Instances) : NewGood w tid D a b := by
  intro K k i hK hk
  rw [h] at hk
  exact absurd (get?_lt hk) (by omega)

theorem NewGood.newThen {w : World} {tid : Nat} {D : UClass} {a b c : Env}
    (h₁ : NewGood w tid D a b) (h₂ : NewGood w tid D b c) (ha : RegAfter w tid D b c) :
    NewGood w tid D a c := by
  intro K k i hK hk hb hT
  by_cases hKb : K < b.Instances.length
  · obtain ⟨k', hk', hc⟩ := ha.1.classOf hKb hk
    have hTb := TargetAt_back w ha.1 K (some i) D hKb hT
    obtain ⟨g, c⟩ := h₁ K k' i hK hk' (by rw [hc]; exact hb) hTb
    exact ⟨ha.2.2 _ hTb g, fun hD => c (hc.trans hD)⟩
  · exact h₂ K k i (Nat.le_of_not_lt hKb) hk hb hT

theorem NewGood.newBehind {w : World} {tid : Nat} {D : UClass} {a b c : Env}
    (h₁ : NewGood w tid D a b) (hI : c.Instances.length = b.Instances.length)
    (ha : RegAfter w tid D b c) : NewGood w tid D a c := by
  refine h₁.newThen ?_ ha
  intro K k i hK hk
  exact absurd (get?_lt hk) (by omega)

/-- The first pass settles the reference nodes of the instances it creates. -/
theorem states_new (w : World) (tid : Nat) (D : UClass) (gsm : GenerateCall)
    (hg : RegOK w tid D gsm) (hn : NestedOK tid gsm) (hnew : NewOK w tid D gsm) (L : InstId)
    (sm : FSMStateMachine) (props : List FSMNode) :
    ∀ (l : List (Nat × FSMNode)) (a : Env) (M : TMap FGuid NodePtr) (b : Env)
      (M' : TMap FGuid NodePtr),
      GenerateStateMachine.states (fun e n => gsm e (.SMInstance L) n props false)
        (.SMInstance L) sm l a M = some (b, M') →
      (∀ x ∈ l, props[x.1]? = some x.2) → RegPre w tid L props a →
      RegPre w tid L props b ∧ RegStep w tid D a b ∧ NewGood w tid D a b := by
  intro l a M b M' h
  refine states_seg
    (fun l a b => (∀ x ∈ l, props[x.1]? = some x.2) → RegPre w tid L props a →
      RegPre w tid L props b ∧ RegStep w tid D a b ∧ NewGood w tid D a b)
    (fun _ => True) (fun e n => gsm e (.SMInstance L) n props false) (.SMInstance L) sm
    ?_ ?_ ?_ ?_ ?_ l a M b M' trivial h
  · intro e _ hp
    exact ⟨hp, RegStep.stepSame w tid D e, NewGood.newSame w tid D e⟩
  · intro x s a b c h₁ h₂ hm hp
    obtain ⟨p₁, s₁, v₁⟩ := h₁ (fun y hy => hm y (by rw [List.mem_singleton] at hy; rw [hy]; exact List.mem_cons_self _ _)) hp
    obtain ⟨p₂, s₂, v₂⟩ := h₂ (fun y hy => hm y (List.mem_cons_of_mem _ hy)) p₁
    exact ⟨p₂, s₁.stepThen s₂, v₁.newThen v₂ s₂.after⟩
  · intro _ _ _ _ _; trivial
  · intro i p e hnot _ hp
    exact ⟨hp, RegStep.stepSame w tid D e, NewGood.newSame w tid D e⟩
  · intro i p e e₁ e₂ _ hsb ho he₁ hsm hnsm hm hp
    have hip : props[i]? = some p := hm (i, p) (List.mem_singleton_self _)
    have f1 : e₁.Instances = e.Instances ∧
        e₁.StateMachinesGeneratingForThread = e.StateMachinesGeneratingForThread ∧
        e₁.InstanceReference = e.InstanceReference := by
      rcases he₁ with h | ⟨m, h⟩ <;> rw [h] <;> exact ⟨rfl, rfl, rfl⟩
    have p1 : RegPre w tid L props e₁ := hp.preOfFrame f1.1 f1.2.1
    have s1 : RegStep w tid D e e₁ := RegStep.stepOfThreadMap f1.1 f1.2.1 f1.2.2
    have n1 : NewGood w tid D e e₁ := NewGood.newOfInstances f1.1
    have f3 : ∀ e' : Env,
        (if p.bIsRootNode then e'.AddInitialState sm.Ptr ⟨.SMInstance L, some i⟩ else e').Instances =
          e'.Instances ∧
        (if p.bIsRootNode then e'.AddInitialState sm.Ptr ⟨.SMInstance L, some i⟩
          else e').StateMachinesGeneratingForThread = e'.StateMachinesGeneratingForThread ∧
        (if p.bIsRootNode then e'.AddInitialState sm.Ptr ⟨.SMInstance L, some i⟩
          else e').InstanceReference = e'.InstanceReference := by
      intro e'
      split <;> exact ⟨rfl, rfl, rfl⟩
    have s3 := @RegStep.stepOfThreadMap w tid D _ _ (f3 e₂).1 (f3 e₂).2.1 (f3 e₂).2.2
    have n3 : NewGood w tid D e₂
        (if p.bIsRootNode then e₂.AddInitialState sm.Ptr ⟨.SMInstance L, some i⟩ else e₂) :=
      NewGood.newOfInstances (f3 e₂).1
    by_cases hs : p.Struct.IsChildOfStateMachine = true
    · obtain ⟨r, hcall⟩ := hsm hs
      obtain ⟨l, hl, hpr⟩ := p1.2.2
      have hgen : Genuine w e₁ L ⟨⟨.SMInstance L, some i⟩, p⟩ props :=
        ⟨l, hl, hpr, Or.inr ⟨i, rfl, hip, hs⟩⟩
      obtain ⟨q2, s2, _⟩ := hg e₁ L ⟨⟨.SMInstance L, some i⟩, p⟩ props r e₂ hgen p1.1 p1.2.1 hcall
      have n2 := hnew e₁ L ⟨⟨.SMInstance L, some i⟩, p⟩ props r e₂ hgen p1.1 p1.2.1 hcall
      have c2 := (hn e₁ _ _ _ _ r e₂ p1.1 hcall).1
      have p2 : RegPre w tid L props e₂ := p1.of_step s2 c2 q2
      exact ⟨p2.preOfFrame (f3 e₂).1 (f3 e₂).2.1, (s1.stepThen s2).stepThen s3,
        (n1.newThen n2 s2.after).newThen n3 s3.after⟩
    · have h2 := hnsm (by simpa using hs)
      subst h2
      exact ⟨p1.preOfFrame (f3 e₂).1 (f3 e₂).2.1, s1.stepThen s3, n1.newThen n3 s3.after⟩

/-- Local assembly settles the reference nodes of the instances it creates. -/
theorem assemble_new (w : World) (tid : Nat) (D : UClass) (gsm : GenerateCall)
    (hg : RegOK w tid D gsm) (hn : NestedOK tid gsm) (hnew : NewOK w tid D gsm) (top : Bool)
    (a : Env) (L : InstId) (sm : FSMStateMachine) (props : List FSMNode) (r : Bool) (b : Env)
    (hpre : RegPre w tid L props a)
    (h : GenerateStateMachine.assemble tid gsm top a (.SMInstance L) sm props false = some (r, b)) :
    ∃ e, (b = e ∨ b = (FinishStateMachineGeneration top e tid).2) ∧ NewGood w tid D a e := by
  unfold GenerateStateMachine.assemble at h
  split at h
  · exact absurd h (by simp)
  · rename_i e₁ M hst
    obtain ⟨p₁, s₁, v₁⟩ := states_new w tid D gsm hg hn hnew L sm props props.enum a [] e₁ M hst
      (fun x hx => List.mk_mem_enum_iff_getElem?.mp hx) hpre
    have hf := transitions_frame (.SMInstance L) sm M props.enum e₁
    have s₂ : RegStep w tid D e₁ (GenerateStateMachine.transitions (.SMInstance L) sm M
        props.enum e₁).2 := RegStep.stepOfThreadMap hf.1 hf.2.1 hf.2.2.1
    refine ⟨(GenerateStateMachine.transitions (.SMInstance L) sm M props.enum e₁).2, ?_,
      v₁.newThen (NewGood.newOfInstances hf.1) s₂.after⟩
    split at h
    · rename_i e ht
      simp only [Option.some.injEq, Prod.mk.injEq] at h
      rw [ht]; exact Or.inl h.2.symm
    · rename_i e ht
      simp only [Option.some.injEq, Prod.mk.injEq] at h
      rw [ht]; exact Or.inr h.2.symm

theorem target_of_TargetAt (w : World) (e : Env) (L : InstId) (i : Nat) (p : FSMNode)
    (T : UClass) (hN : e.NodeAt w ⟨.SMInstance L, some i⟩ = some p)
    (hT : e.TargetAt w ⟨.SMInstance L, some i⟩ = some T) :
    ∃ cls, p.ClassReference = some cls ∧
      GenerateStateMachine.target w e L ⟨⟨.SMInstance L, some i⟩, p⟩ cls false = T := by
  unfold Env.TargetAt at hT
  simp only [hN, Option.some_bind] at hT
  split at hT
  · cases hc : p.ClassReference with
    | none => rw [hc] at hT; cases hT
    | some cls =>
      rw [hc] at hT
      simp only [Option.map_some', Option.some.injEq] at hT
      exact ⟨cls, rfl, hT⟩
  · cases hT

theorem LocalBelow.record {props : List FSMNode} {g : FGuid} {i : Nat}
    (h : LocalBelow props g i) :
    ∃ p, props[i]? = some p ∧ p.Struct.IsChildOfStateMachine = true := by
  cases h with
  | inGraph i p hi hs ho => exact ⟨p, hi, hs⟩
  | inNested i j p q hi hs hj hsm hq ho h => exact ⟨p, hi, hs⟩

/-- The reference branch settles the reference nodes of the instances it creates. -/
theorem reference_new (w : World) (tid : Nat) (D : UClass)
    (hAll : ∀ (e : Env) (q : NodePtr) (p : FSMNode), e.NodeAt w q = some p →
      e.TargetAt w q = some D → p.bReuseReference = true)
    (d : Nat) (hnew : NewOK w tid D (GenerateStateMachine w tid d))
    (env : Env) (L : InstId) (sm : FSMStateMachine) (props : List FSMNode) (cls : UClass)
    (r : Bool) (env' : Env) (hgen : Genuine w env L sm props)
    (hC : sm.Node.ClassReference = some cls) (hq : env.QueueOK w tid)
    (h : GenerateStateMachine.reference w tid (GenerateStateMachine w tid d) false env L sm cls
      false = some (r, env')) :
    NewGood w tid D env env' := by
  have hN := (hgen.nodeAt (by rw [hC]; rfl)).1
  have hT : env.TargetAt w sm.Ptr = some (GenerateStateMachine.template w env L sm cls false).2.1 :=
    hgen.targetAt cls hC
  have hI₁ := (template_keeps w env L sm cls false).1
  have hk : env.KeepsInstances (GenerateStateMachine.template w env L sm cls false).2.2 :=
    Env.KeepsInstances.of_instances hI₁
  have hM := template_threadMap w env L sm cls false
  have hq₁ : (GenerateStateMachine.template w env L sm cls false).2.2.QueueOK w tid :=
    hq.of_keeps hk (fun C => QueuedFor_of_threadMap hM C)
  rcases reference_cases w tid _ false env L sm cls false r env' h with
    h1 | ⟨_, _, h2, _⟩ | ⟨env₂, r₁, x, h1, _, hcall, _, he⟩
  · refine NewGood.newOfInstances ?_
    rcases check_inl_reg tid _ L sm _ r env' h1 with ⟨_, J, _, he⟩ | ⟨_, _, hI, _⟩ | ⟨_, he⟩
    · rw [he]; exact hI₁
    · rw [hI]; exact hI₁
    · rw [he]; exact hI₁
  · cases h2
  · rw [Finish_false] at he
    subst he
    generalize hTdef : (GenerateStateMachine.template w env L sm cls false).2.1 = T at *
    generalize (GenerateStateMachine.template w env L sm cls false).1 = tmpl at *
    generalize hedef : (GenerateStateMachine.template w env L sm cls false).2.2 = e at *
    obtain ⟨hI₂, hX₂, hQ₂, hreg⟩ := check_inr_reg tid false e L sm T env₂ h1
    have haI : ((GenerateStateMachine.increment tid env₂ T).Initializing T tmpl
        (env₂.GetContext L)).Instances =
        env.Instances ++ [(⟨T, env₂.GetContext L, tmpl, none⟩ : USMInstance)] := by
      rw [Initializing_Instances, increment_Instances, hI₂, hI₁]
    have haQ : ∀ C, ((GenerateStateMachine.increment tid env₂ T).Initializing T tmpl
        (env₂.GetContext L)).QueuedFor tid C = e.QueuedFor tid C := by
      intro C
      rw [QueuedFor_of_threadMap (Initializing_threadMap _ _ _ _), increment_QueuedFor, hQ₂]
    have haR : ∀ C, ((GenerateStateMachine.increment tid env₂ T).Initializing T tmpl
        (env₂.GetContext L)).Registered tid C = env₂.Registered tid C := by
      intro C
      rw [Registered_of_threadMap (Initializing_threadMap _ _ _ _), increment_Registered]
    have hka : e.KeepsInstances ((GenerateStateMachine.increment tid env₂ T).Initializing T tmpl
        (env₂.GetContext L)) := by
      refine Env.KeepsInstances.keepThen (Env.KeepsInstances.of_instances ?_)
        (Keeps_Initializing _ _ _ _)
      rw [increment_Instances, hI₂]
    have hca : TMap.Contains ((GenerateStateMachine.increment tid env₂ T).Initializing T tmpl
        (env₂.GetContext L)).StateMachinesGeneratingForThread tid = true := by
      rw [Initializing_threadMap]; exact Contains_thread_increment tid env₂ T
    have hlen : env₂.Instances.length = env.Instances.length := by rw [hI₂, hI₁]
    have hnewI : ((GenerateStateMachine.increment tid env₂ T).Initializing T tmpl
        (env₂.GetContext L)).Instances.get? env₂.Instances.length =
        some (⟨T, env₂.GetContext L, tmpl, none⟩ : USMInstance) := by
      rw [haI, hlen]; exact get?_append_new _ _
    have hqa := hq₁.of_keeps hka haQ
    have hgena : Genuine w ((GenerateStateMachine.increment tid env₂ T).Initializing T tmpl
        (env₂.GetContext L)) env₂.Instances.length
        (USMInstance.RootStateMachine (w.GetClass T) env₂.Instances.length)
        (w.GetClass T).Properties := ⟨_, hnewI, rfl, Or.inl rfl⟩
    obtain ⟨hqx, hstep, _⟩ := GenerateStateMachine_reg w tid D hAll d _ _ _ _ r₁ x hgena hca hqa hcall
    have hnx := hnew _ _ _ _ r₁ x hgena hca hqa hcall
    have hTx : x.TargetAt w sm.Ptr = some T :=
      TargetAt_keeps w ((hk.keepThen hka).keepThen hstep.1) _ _ hT
    have hR : T = D → sm.Node.bReuseReference = true := by
      intro hTD
      subst hTD
      exact hAll env sm.Ptr sm.Node hN hT
    have hnull : T = D → x.Registered tid D = some none := by
      intro hTD
      subst hTD
      rcases hreg with ⟨_, _, hreg₂⟩ | ⟨hR', _⟩
      · exact hstep.2.1 _ (by rw [haR, hreg₂, if_pos rfl])
      · rw [hR rfl] at hR'; cases hR'
    have hafter := referenced_after w tid D x L sm T env₂.Instances.length hqx hTx hR hnull
    have hlenx : (GenerateStateMachine.referenced tid x L sm T env₂.Instances.length).Instances.length =
        x.Instances.length := (SameGraph_referenced tid x L sm T _).2
    have halen : ((GenerateStateMachine.increment tid env₂ T).Initializing T tmpl
        (env₂.GetContext L)).Instances.length = env.Instances.length + 1 := by rw [haI]; simp
    intro K k i hK hk hb hTK
    have hKx : K < x.Instances.length := by rw [← hlenx]; exact get?_lt hk
    obtain ⟨k', hk', hck⟩ := hafter.1.classOf hKx hk
    have hTKx := TargetAt_back w hafter.1 K (some i) D hKx hTK
    suffices hx : x.Good tid D ⟨.SMInstance K, some i⟩ ∧ (k'.Class = D → QueuedCall w tid D K i) from
      ⟨hafter.2.2 _ hTKx hx.1, fun hD => hx.2 (hck.trans hD)⟩
    by_cases hKI : K = env₂.Instances.length
    · subst hKI
      obtain ⟨n₁, hn₁, hc₁, _⟩ := hstep.1 _ _ hnewI
      rw [hk'] at hn₁
      cases hn₁
      have hcT : k.Class = T := hck.symm.trans hc₁
      rw [hcT] at hb
      obtain ⟨p, hp, _⟩ := hb.record
      cases d with
      | zero => simp [GenerateStateMachine] at hcall
      | succ d₀ =>
        rw [GenerateStateMachine_local_nested w tid d₀ _ _ _ _ false rfl hca] at hcall
        obtain ⟨e', he', _, _, ve'⟩ := assemble_regvisits w tid D hAll d₀ false _ _ _ _ r₁ x
          (hgena.pre tid hca hqa) hcall
        have : x = e' := by
          rcases he' with h | h
          · exact h
          · rw [h, Finish_false]
        subst this
        obtain ⟨d', _, e₁, r₁', e₂, hc', p₁, s₁, _, a₂, own⟩ := ve' i hb p hp
        have hk₁₂ := GenerateStateMachine_keeps w tid d' _ _ _ _ _ _ _ hc'
        obtain ⟨l₁, hl₁, hpr₁⟩ := p₁.2.2
        have hT₁ := TargetAt_back w (hk₁₂.keepThen a₂.1) _ (some i) D (get?_lt hl₁) hTKx
        refine ⟨a₂.2.2 _ (TargetAt_keeps w hk₁₂ _ _ hT₁) (own hT₁), ?_⟩
        intro hD
        have hTD : T = D := hc₁.symm.trans hD
        subst hTD
        have hN₁ : e₁.NodeAt w ⟨.SMInstance env₂.Instances.length, some i⟩ = some p := by
          simp only [Env.NodeAt, hl₁, Option.some_bind]
          rw [← hpr₁]; exact hp
        have hRp := hAll e₁ _ p hN₁ hT₁
        obtain ⟨cls', hcls', htg⟩ := target_of_TargetAt w e₁ _ i p T hN₁ hT₁
        have hReg₁ : e₁.Registered tid T = some none := by
          refine s₁.2.1 _ ?_
          rw [haR]
          rcases hreg with ⟨_, _, hreg₂⟩ | ⟨hR', _⟩
          · rw [hreg₂, if_pos rfl]
          · rw [hR rfl] at hR'; cases hR'
        cases d' with
        | zero => simp [GenerateStateMachine] at hc'
        | succ d'' =>
          obtain ⟨e', hrun, hmem, hX', hI', _, _⟩ := reuse_queued w tid d'' e₁ env₂.Instances.length
            ⟨⟨.SMInstance env₂.Instances.length, some i⟩, p⟩ cls' T (w.GetClass T).Properties false
            hcls' hRp htg hReg₁
          exact ⟨d'' + 1, e₁, e', p, hp, hrun, hReg₁, hI', hX', hmem⟩
    · refine hnx K k' i ?_ hk' (by rw [hck]; exact hb) hTKx
      rw [halen]
      omega

theorem body_new (w : World) (tid : Nat) (D : UClass)
    (hAll : ∀ (e : Env) (q : NodePtr) (p : FSMNode), e.NodeAt w q = some p →
      e.TargetAt w q = some D → p.bReuseReference = true)
    (d : Nat) (hnew : NewOK w tid D (GenerateStateMachine w tid d)) :
    NewOK w tid D (GenerateStateMachine w tid (d + 1)) := by
  intro env L sm props r env' hgen hc hq h
  simp only [GenerateStateMachine, GenerateStateMachine.body, hc, Bool.not_true,
    Within_FindOrAddGeneration tid env hc] at h
  cases hcr : sm.Node.ClassReference with
  | none =>
    simp only [hcr] at h
    obtain ⟨e, he, ne⟩ := assemble_new w tid D _ (GenerateStateMachine_reg w tid D hAll d)
      (GenerateStateMachine_nested w tid d) hnew false env L sm props r env' (hgen.pre tid hc hq) h
    have : env' = e := by
      rcases he with h | h
      · exact h
      · rw [h, Finish_false]
    subst this
    exact ne
  | some cls =>
    simp only [hcr] at h
    exact reference_new w tid D hAll d hnew env L sm props cls r env' hgen hcr hq h

theorem GenerateStateMachine_new (w : World) (tid : Nat) (D : UClass)
    (hAll : ∀ (e : Env) (q : NodePtr) (p : FSMNode), e.NodeAt w q = some p →
      e.TargetAt w q = some D → p.bReuseReference = true) :
    ∀ depth, NewOK w tid D (GenerateStateMachine w tid depth) := by
  intro depth
  induction depth with
  | zero => intro env L sm props r env' _ _ _ h; simp [GenerateStateMachine] at h
  | succ d ih => exact body_new w tid D hAll d ih

/-- Local assembly, all at once: up to the environment `e` reached before
`FinishStateMachineGeneration` the registration invariant is kept, the reference nodes of
the instances created are settled, and the assembler is called on every state machine
record of the graph of the state machine, at any depth of nesting. -/
theorem assemble_settles (w : World) (tid : Nat) (D : UClass)
    (hAll : ∀ (e : Env) (q : NodePtr) (p : FSMNode), e.NodeAt w q = some p →
      e.TargetAt w q = some D → p.bReuseReference = true)
    (d : Nat) (top : Bool) (a : Env) (L : InstId) (sm : FSMStateMachine) (props : List FSMNode)
    (r : Bool) (b : Env) (hpre : RegPre w tid L props a)
    (h : GenerateStateMachine.assemble tid (GenerateStateMachine w tid d) top a (.SMInstance L) sm
      props false = some (r, b)) :
    ∃ e, (b = e ∨ b = (FinishStateMachineGeneration top e tid).2) ∧
      RegPre w tid L props e ∧ RegStep w tid D a e ∧ NewGood w tid D a e ∧
      ∀ i, LocalBelow props sm.Node.Guid i → ∀ p, props[i]? = some p →
        ∃ d', d' ≤ d ∧ RegVisit w tid D (GenerateStateMachine w tid d') L props a e i p := by
  have hg := GenerateStateMachine_reg w tid D hAll d
  have hn := GenerateStateMachine_nested w tid d
  have hnew := GenerateStateMachine_new w tid D hAll d
  have h' := h
  unfold GenerateStateMachine.assemble at h
  split at h
  · exact absurd h (by simp)
  · rename_i e₁ M hst
    obtain ⟨p₁, s₁, v₁⟩ := states_reg w tid D _ hg hn L sm props props.enum a [] e₁ M hst
      (fun x hx => List.mk_mem_enum_iff_getElem?.mp hx) hpre
    obtain ⟨_, _, n₁⟩ := states_new w tid D _ hg hn hnew L sm props props.enum a [] e₁ M hst
      (fun x hx => List.mk_mem_enum_iff_getElem?.mp hx) hpre
    have hf := transitions_frame (.SMInstance L) sm M props.enum e₁
    have s₂ : RegStep w tid D e₁ (GenerateStateMachine.transitions (.SMInstance L) sm M
        props.enum e₁).2 := RegStep.stepOfThreadMap hf.1 hf.2.1 hf.2.2.1
    have p₂ := p₁.preOfFrame hf.1 hf.2.1
    refine ⟨(GenerateStateMachine.transitions (.SMInstance L) sm M props.enum e₁).2, ?_, p₂,
      s₁.stepThen s₂, n₁.newThen (NewGood.newOfInstances hf.1) s₂.after, ?_⟩
    · split at h
      · rename_i e ht
        simp only [Option.some.injEq, Prod.mk.injEq] at h
        rw [ht]; exact Or.inl h.2.symm
      · rename_i e ht
        simp only [Option.some.injEq, Prod.mk.injEq] at h
        rw [ht]; exact Or.inr h.2.symm
    · intro i hb
      induction hb with
      | inGraph i p hi hs ho =>
        intro p' hp'
        rw [hi] at hp'
        cases hp'
        exact ⟨d, le_refl d, (v₁ i p (List.mk_mem_enum_iff_getElem?.mpr hi) hs ho).behind s₂.after⟩
      | inNested i j p q hi hs hj hsm hq ho _ ih =>
        intro p' hp'
        rw [hi] at hp'
        cases hp'
        obtain ⟨d₁, hd₁, e₁', r₁, e₂, hcall, p₁', s₁', q₂, a₂, _⟩ := ih q hj
        cases d₁ with
        | zero => simp [GenerateStateMachine] at hcall
        | succ d₂ =>
          rw [GenerateStateMachine_local_nested w tid d₂ e₁' _ _ _ false hq p₁'.1] at hcall
          obtain ⟨e', he', _, _, ve'⟩ := assemble_reg w tid D _
            (GenerateStateMachine_reg w tid D hAll d₂) (GenerateStateMachine_nested w tid d₂) false
            e₁' L ⟨⟨.SMInstance L, some j⟩, q⟩ props r₁ e₂ p₁' hcall
          have : e₂ = e' := by
            rcases he' with h | h
            · exact h
            · rw [h, Finish_false]
          subst this
          exact ⟨d₂, by omega, RegVisit.before s₁' ((ve' i p hi hs ho).behind a₂)⟩

theorem Registered_top (env : Env) (tid : Nat)
    (h : TMap.Contains env.StateMachinesGeneratingForThread tid = false) (D : UClass) :
    (env.FindOrAddGeneration tid).Registered tid D = none := by
  simp [Env.Registered, CurrentGeneration_top env tid h, TMap.Find]

theorem QueueOK_top (w : World) (env : Env) (tid : Nat)
    (h : TMap.Contains env.StateMachinesGeneratingForThread tid = false) :
    (env.FindOrAddGeneration tid).QueueOK w tid := by
  intro C s hs
  simp [Env.QueuedFor, CurrentGeneration_top env tid h, TMap.Find] at hs

theorem TargetAt_congr (w : World) {a b : Env} (h : b.Instances = a.Instances) (q : NodePtr) :
    b.TargetAt w q = a.TargetAt w q := by
  cases hq : a.TargetAt w q with
  | some T => exact TargetAt_keeps w (Env.KeepsInstances.of_instances h) q T hq
  | none =>
    cases hb : b.TargetAt w q with
    | none => rfl
    | some T =>
      rw [TargetAt_keeps w (Env.KeepsInstances.of_instances h.symm) q T hb] at hq
      cases hq

/-- A top-level non-dry-run assembly in a world in which every reference node that resolves
to the class `D` has reuse set: at most one instance of `D` is created, and every reference
node that lies in the graph of the instance assembled or of an instance created, and
resolves to `D`, ends with a new instance of `D` as its instance reference. A node of a new
instance of `D` itself was queued while that instance was under construction. -/
theorem top_reuse (w : World) (tid : Nat) (D : UClass)
    (hAll : ∀ (e : Env) (q : NodePtr) (p : FSMNode), e.NodeAt w q = some p →
      e.TargetAt w q = some D → p.bReuseReference = true)
    (depth : Nat) (env : Env) (K : InstId) (inst : USMInstance)
    (hK : env.Instances.get? K = some inst)
    (hTop : TMap.Contains env.StateMachinesGeneratingForThread tid = false)
    (r : Bool) (env' : Env)
    (h : GenerateStateMachine w tid depth env (.SMInstance K)
      (USMInstance.RootStateMachine (w.GetClass inst.Class) K) (w.GetClass inst.Class).Properties
      false = some (r, env')) :
    (∀ I J i j, env.Instances.length ≤ I → env'.Instances.get? I = some i → i.Class = D →
      env.Instances.length ≤ J → env'.Instances.get? J = some j → j.Class = D → I = J) ∧
    ∀ L l i, (L = K ∨ env.Instances.length ≤ L) → env'.Instances.get? L = some l →
      LocalBelow (w.GetClass l.Class).Properties (w.GetClass l.Class).RootStateMachineGuid i →
      env'.TargetAt w ⟨.SMInstance L, some i⟩ = some D →
      ∃ I k, env.Instances.length ≤ I ∧ env'.Instances.get? I = some k ∧ k.Class = D ∧
        TMap.Find env'.InstanceReference ⟨.SMInstance L, some i⟩ = some I ∧
        (env.Instances.length ≤ L → l.Class = D → QueuedCall w tid D L i) := by
  cases depth with
  | zero => simp [GenerateStateMachine] at h
  | succ d =>
    rw [GenerateStateMachine_local w tid d env _ _ _ false rfl, hTop] at h
    have hpre : RegPre w tid K (w.GetClass inst.Class).Properties (env.FindOrAddGeneration tid) :=
      ⟨Contains_top env tid, QueueOK_top w env tid hTop, inst, hK, rfl⟩
    obtain ⟨e, he, pe, se, ne, ve⟩ := assemble_settles w tid D hAll d _ _ K _ _ r env' hpre h
    have hIe : env'.Instances = e.Instances := by
      rcases he with h | h
      · rw [h]
      · rw [h, Finish_Instances]
    have hXe : env'.InstanceReference = e.InstanceReference := by
      rcases he with h | h
      · rw [h]
      · rw [h, Finish_InstanceReference]
    have hreg0 := Registered_top env tid hTop D
    have hlen0 : (env.FindOrAddGeneration tid).Instances.length = env.Instances.length := rfl
    obtain ⟨ke, _, ne', de, _⟩ := se
    rw [hIe, hXe]
    refine ⟨?_, ?_⟩
    · intro I J i j hI hi hci hJ hj hcj
      have h1 := (de I i hI hi hci).2
      have h2 := (de J j hJ hj hcj).2
      rw [h1] at h2
      simpa using h2
    · intro L l i hL hl hb hT
      have hT' : e.TargetAt w ⟨.SMInstance L, some i⟩ = some D := by
        rw [← TargetAt_congr w hIe]; exact hT
      have key : e.Good tid D ⟨.SMInstance L, some i⟩ ∧
          (env.Instances.length ≤ L → l.Class = D → QueuedCall w tid D L i) := by
        rcases hL with hL | hL
        · subst hL
          obtain ⟨l', hl', hcl, _⟩ := ke L inst hK
          rw [hl] at hl'
          cases hl'
          rw [hcl] at hb
          obtain ⟨p, hp, _⟩ := hb.record
          obtain ⟨d', _, e₁, r₁, e₂, hc', p₁, _, _, a₂, own⟩ := ve i hb p hp
          have hk₁₂ := GenerateStateMachine_keeps w tid d' _ _ _ _ _ _ _ hc'
          obtain ⟨l₁, hl₁, _⟩ := p₁.2.2
          have hT₁ := TargetAt_back w (hk₁₂.keepThen a₂.1) _ (some i) D (get?_lt hl₁) hT'
          refine ⟨a₂.2.2 _ (TargetAt_keeps w hk₁₂ _ _ hT₁) (own hT₁), ?_⟩
          intro hge
          exact absurd (get?_lt hK) (by omega)
        · obtain ⟨g, c⟩ := ne L l i hL hl hb hT'
          exact ⟨g, fun _ hD => c hD⟩
      obtain ⟨hg, hc⟩ := key
      rcases ne' hreg0 with hn | ⟨I, k, hI, hk, hck, hr⟩
      · rcases hg with ⟨J, hJ, _⟩ | ⟨hJ, _⟩
        · rw [hn] at hJ; cases hJ
        · rw [hn] at hJ; cases hJ
      · rcases hg with ⟨J, hJ, hX⟩ | ⟨hJ, _⟩
        · rw [hr] at hJ
          simp only [Option.some.injEq] at hJ
          subst hJ
          exact ⟨I, k, hI, hk, hck, hX, hc⟩
        · rw [hr] at hJ; cases hJ

theorem TargetAt_of_target (w : World) (e : Env) (L : InstId) (l : USMInstance) (i : Nat)
    (p : FSMNode) (cls : UClass) (hl : e.Instances.get? L = some l)
    (hp : (w.GetClass l.Class).Properties[i]? = some p)
    (hs : p.Struct.IsChildOfStateMachine = true) (hc : p.ClassReference = some cls) :
    e.TargetAt w ⟨.SMInstance L, some i⟩ =
      some (GenerateStateMachine.target w e L ⟨⟨.SMInstance L, some i⟩, p⟩ cls false) := by
  have hn : e.NodeAt w ⟨.SMInstance L, some i⟩ = some p := by
    simp only [Env.NodeAt, hl, Option.some_bind]
    exact hp
  simp only [Env.TargetAt, hn, Option.some_bind, hs, if_true, hc, Option.map_some']

/-- C5 (amended): for every class whose graph contains, at any depth of nesting, a
reuse-mode reference node that resolves to the class itself, in a world in which no
reference node without reuse resolves to that class, the top-level non-dry-run assembly of
an instance of the class returns (given call depth for the well-formed world), with true
exactly when the transitions of the root state machine resolve. The class is instantiated
exactly once: there is one new instance `I` of the class. The inner node, the node of `I`
itself, was resolved while the class was registered without instance: that call returned
true, created nothing, set no instance reference and queued the node. At the end both the
inner node and the outer node, the node of the assembled instance, hold `I`. -/
theorem C5_self_reference_reuse (w : World) (R ThreadId depth : Nat)
    (hWorld : w.Nests R = true) (C : UClass) (x : Nat) (X : FSMNode) (cls : UClass)
    (hX : (w.GetClass C).Properties[x]? = some X)
    (hGraph : LocalBelow (w.GetClass C).Properties (w.GetClass C).RootStateMachineGuid x)
    (hRef : X.ClassReference = some cls) (hReuse : X.bReuseReference = true)
    (hTarget : ∀ (e : Env) (L : InstId) (l : USMInstance) (q : NodePtr),
      e.Instances.get? L = some l → l.Class = C →
      GenerateStateMachine.target w e L ⟨q, X⟩ cls false = C)
    (hAll : ∀ (e : Env) (q : NodePtr) (p : FSMNode), e.NodeAt w q = some p →
      e.TargetAt w q = some C → p.bReuseReference = true)
    (env : Env) (K : InstId) (inst : USMInstance) (hK : env.Instances.get? K = some inst)
    (hKC : inst.Class = C)
    (hTop : TMap.Contains env.StateMachinesGeneratingForThread ThreadId = false)
    (hDepth : env.Potential w ThreadId * (R + 2) + R + 1 ≤ depth) :
    ∃ r env', GenerateStateMachine w ThreadId depth env (.SMInstance K)
        (USMInstance.RootStateMachine (w.GetClass C) K) (w.GetClass C).Properties false =
          some (r, env') ∧
      (r = true ↔ TransitionsResolve (w.GetClass C).Properties
        (w.GetClass C).RootStateMachineGuid) ∧
      ∃ I i, env.Instances.length ≤ I ∧ env'.Instances.get? I = some i ∧ i.Class = C ∧
        (∀ J j, env.Instances.length ≤ J → env'.Instances.get? J = some j → j.Class = C →
          J = I) ∧
        (∃ d a b, GenerateStateMachine w ThreadId d a (.SMInstance I)
            ⟨⟨.SMInstance I, some x⟩, X⟩ (w.GetClass C).Properties false = some (true, b) ∧
          a.Registered ThreadId C = some none ∧ b.Instances = a.Instances ∧
          b.InstanceReference = a.InstanceReference ∧
          (⟨⟨.SMInstance I, some x⟩, X⟩ : FSMStateMachine) ∈ b.QueuedFor ThreadId C) ∧
        TMap.Find env'.InstanceReference ⟨.SMInstance I, some x⟩ = some I ∧
        TMap.Find env'.InstanceReference ⟨.SMInstance K, some x⟩ = some I := by
  have hR : 1 ≤ R := by
    cases R with
    | succ n => omega
    | zero =>
      exfalso
      have hw : w = [] := by
        cases w with
        | nil => rfl
        | cons c t => simp [World.Nests, Nests] at hWorld
      subst hw
      simp [World.GetClass] at hX
  have hN := World.Nests_GetClass w R hWorld hR C
  have hret := GenerateStateMachine_returns w R ThreadId hWorld depth env (.SMInstance K)
    (USMInstance.RootStateMachine (w.GetClass C) K) (w.GetClass C).Properties false R hN hDepth
  obtain ⟨⟨r, env'⟩, hrun⟩ := Option.isSome_iff_exists.mp hret
  refine ⟨r, env', hrun, ?_, ?_⟩
  · cases depth with
    | zero => simp [GenerateStateMachine] at hrun
    | succ d =>
      rw [GenerateStateMachine_local w ThreadId d env _ _ _ false rfl] at hrun
      exact assemble_result _ _ _ _ _ _ _ _ _ _ hrun
  have hrun' := hrun
  rw [← hKC] at hrun'
  obtain ⟨hU, hG⟩ := top_reuse w ThreadId C hAll depth env K inst hK hTop r env' hrun'
  have hs : X.Struct.IsChildOfStateMachine = true := by
    obtain ⟨p, hp, hps⟩ := hGraph.record
    rw [hX] at hp
    cases hp
    exact hps
  obtain ⟨l, hl, hcl, _⟩ := GenerateStateMachine_keeps w ThreadId depth _ _ _ _ _ _ _ hrun K inst hK
  have hclC : l.Class = C := hcl.trans hKC
  have hTK : env'.TargetAt w ⟨.SMInstance K, some x⟩ = some C := by
    rw [TargetAt_of_target w env' K l x X cls hl (by rw [hclC]; exact hX) hs hRef,
      hTarget env' K l _ hl hclC]
  obtain ⟨I, k, hI, hk, hck, hXK, _⟩ := hG K l x (Or.inl rfl) hl (by rw [hclC]; exact hGraph) hTK
  have hTI : env'.TargetAt w ⟨.SMInstance I, some x⟩ = some C := by
    rw [TargetAt_of_target w env' I k x X cls hk (by rw [hck]; exact hX) hs hRef,
      hTarget env' I k _ hk hck]
  obtain ⟨I₂, k₂, hI₂, hk₂, hck₂, hXI, hQ⟩ := hG I k x (Or.inr hI) hk (by rw [hck]; exact hGraph) hTI
  have hII : I₂ = I := hU I₂ I k₂ k hI₂ hk₂ hck₂ hI hk hck
  subst hII
  obtain ⟨d, a, b, p, hp, hcall, hreg, hbI, hbX, hmem⟩ := hQ hI hck
  rw [hX] at hp
  cases hp
  exact ⟨I₂, k, hI, hk, hck, fun J j hJ hj hcj => hU J I₂ j k hJ hj hcj hI hk hck,
    ⟨d, a, b, hcall, hreg, hbI, hbX, hmem⟩, hXI, hXK⟩

theorem GetClass_mem_or (w : World) (c : UClass) (p : FSMNode)
    (h : p ∈ (w.GetClass c).Properties) : ∃ cd ∈ w, p ∈ cd.Properties := by
  unfold World.GetClass at h
  by_cases hc : c < w.length
  · rw [List.getD_eq_getElem _ _ hc] at h
    exact ⟨w[c], List.getElem_mem hc, h⟩
  · rw [List.getD_eq_default _ _ (Nat.le_of_not_lt hc)] at h
    cases h

/-- In a world without templates, when every reference node with class reference `D` has
reuse set, every reference node that resolves to `D` has. -/
theorem allReuse_of_world (w : World) (D : UClass)
    (h : ∀ c ∈ w, ∀ p ∈ c.Properties, p.ClassReference.isSome = true →
      p.ReferencedTemplateName = none ∧ (p.ClassReference = some D → p.bReuseReference = true)) :
    ∀ (e : Env) (q : NodePtr) (p : FSMNode), e.NodeAt w q = some p →
      e.TargetAt w q = some D → p.bReuseReference = true := by
  intro e q p hN hT
  obtain ⟨C, i⟩ := q
  cases C with
  | Object o => simp [Env.TargetAt] at hT
  | SMInstance L =>
    cases i with
    | none => simp [Env.NodeAt] at hN
    | some i =>
      obtain ⟨cls, hcls, htg⟩ := target_of_TargetAt w e L i p D hN hT
      have hmem : ∃ cd ∈ w, p ∈ cd.Properties := by
        unfold Env.NodeAt at hN
        simp only at hN
        cases hl : e.Instances.get? L with
        | none => rw [hl] at hN; cases hN
        | some l =>
          rw [hl] at hN
          simp only [Option.some_bind] at hN
          exact GetClass_mem_or w l.Class p (List.getElem?_mem hN)
      obtain ⟨cd, hcd, hp⟩ := hmem
      obtain ⟨ht, hr⟩ := h cd hcd p hp (by rw [hcls]; rfl)
      refine hr ?_
      rw [hcls]
      congr 1
      rw [← htg]
      simp [GenerateStateMachine.target, GenerateStateMachine.template, ht]

/-- C5 (amended), at an instance: the world `World.selfReuse`, class 0, whose reuse-mode
self-reference (position 2) lies in a nested state machine. -/
theorem C5_self_reference_reuse_witness :
    ∃ r env', GenerateStateMachine World.selfReuse 0 34 (Env.initial [USMInstance.ofClass 0])
        (.SMInstance 0) (USMInstance.RootStateMachine (World.selfReuse.GetClass 0) 0)
        (World.selfReuse.GetClass 0).Properties false = some (r, env') ∧
      (r = true ↔ TransitionsResolve (World.selfReuse.GetClass 0).Properties
        (World.selfReuse.GetClass 0).RootStateMachineGuid) ∧
      ∃ I i, (Env.initial [USMInstance.ofClass 0]).Instances.length ≤ I ∧
        env'.Instances.get? I = some i ∧ i.Class = 0 ∧
        (∀ J j, (Env.initial [USMInstance.ofClass 0]).Instances.length ≤ J →
          env'.Instances.get? J = some j → j.Class = 0 → J = I) ∧
        (∃ d a b, GenerateStateMachine World.selfReuse 0 d a (.SMInstance I)
            ⟨⟨.SMInstance I, some 2⟩, FSMNode.stateMachine 4 3 (some 0) true⟩
            (World.selfReuse.GetClass 0).Properties false = some (true, b) ∧
          a.Registered 0 0 = some none ∧ b.Instances = a.Instances ∧
          b.InstanceReference = a.InstanceReference ∧
          (⟨⟨.SMInstance I, some 2⟩, FSMNode.stateMachine 4 3 (some 0) true⟩ : FSMStateMachine) ∈
            b.QueuedFor 0 0) ∧
        TMap.Find env'.InstanceReference ⟨.SMInstance I, some 2⟩ = some I ∧
        TMap.Find env'.InstanceReference ⟨.SMInstance 0, some 2⟩ = some I :=
  C5_self_reference_reuse World.selfReuse 3 0 34 (by decide) 0 2
    (FSMNode.stateMachine 4 3 (some 0) true) 0 rfl
    (LocalBelow.inNested 2 1 (FSMNode.stateMachine 4 3 (some 0) true)
      (FSMNode.stateMachine 3 1 none false) rfl rfl rfl rfl rfl rfl
      (LocalBelow.inGraph 1 (FSMNode.stateMachine 3 1 none false) rfl rfl rfl))
    rfl rfl
    (fun e L l q _ _ => by
      simp [GenerateStateMachine.target, GenerateStateMachine.template, FSMNode.stateMachine])
    (allReuse_of_world World.selfReuse 0 (by decide))
    (Env.initial [USMInstance.ofClass 0]) 0 (USMInstance.ofClass 0) rfl rfl (by decide)
    (by decide)

/-- C5, the claim fails at two classes that each contain a reuse-mode reference node
targeting the class itself. With a transition of the root state machine whose states are
missing, the top-level assembly returns false. With a second reference node to the class
that has reuse disabled, the call returns true, five instances are live at the end (four
were created), the outer node (of instance 0) holds instance 1 and the inner node that was
queued (of instance 1) holds instance 3. -/
theorem C5_self_reference_reuse_counterexample :
    (GenerateStateMachine
        [UClassDef.ofProperties 1
          [FSMNode.stateMachine 3 1 (some 0) true, FSMNode.transition 5 1 8 9]]
        0 4 (Env.initial [USMInstance.ofClass 0]) (.SMInstance 0)
        (USMInstance.RootStateMachine (UClassDef.ofProperties 1
          [FSMNode.stateMachine 3 1 (some 0) true, FSMNode.transition 5 1 8 9]) 0)
        [FSMNode.stateMachine 3 1 (some 0) true, FSMNode.transition 5 1 8 9] false).map
      Prod.fst = some false ∧
    (GenerateStateMachine
        [UClassDef.ofProperties 1
          [FSMNode.stateMachine 3 1 (some 0) true, FSMNode.stateMachine 4 1 (some 0) false]]
        0 6 (Env.initial [USMInstance.ofClass 0]) (.SMInstance 0)
        (USMInstance.RootStateMachine (UClassDef.ofProperties 1
          [FSMNode.stateMachine 3 1 (some 0) true, FSMNode.stateMachine 4 1 (some 0) false]) 0)
        [FSMNode.stateMachine 3 1 (some 0) true, FSMNode.stateMachine 4 1 (some 0) false]
        false).map (fun x => (x.1, x.2.Instances.length,
          TMap.Find x.2.InstanceReference ⟨.SMInstance 0, some 0⟩,
          TMap.Find x.2.InstanceReference ⟨.SMInstance 1, some 0⟩)) =
      some (true, 5, some 1, some 3) :=
  ⟨by decide!, by decide!⟩

theorem mem_drop_of_prefix {α : Type} {l l' : List α} (h : l <+: l') (m : Nat) {x : α}
    (hx : x ∈ l.drop m) : x ∈ l'.drop m := by
  obtain ⟨t, rfl⟩ := h
  by_cases hm : m ≤ l.length
  · rw [List.drop_append_of_le_length hm]
    exact List.mem_append_left _ hx
  · rw [List.drop_eq_nil_of_le (by omega)] at hx
    cases hx

theorem OwnAfter.ownAfterSame (w : World) (tid : Nat) (D : UClass) (n m : Nat) (a : Env) :
    OwnAfter w tid D n m a a :=
  ⟨Env.KeepsInstances.keepSame a, List.prefix_refl _, fun _ _ h _ => h, fun _ _ h => h⟩

theorem OwnAfter.ownAfterThen {w : World} {tid : Nat} {D : UClass} {n m : Nat} {a b c : Env}
    (h₁ : OwnAfter w tid D n m a b) (h₂ : OwnAfter w tid D n m b c) :
    OwnAfter w tid D n m a c :=
  ⟨h₁.1.keepThen h₂.1, h₁.2.1.trans h₂.2.1,
    fun K k hk ho => h₂.2.2.1 K k (h₁.2.2.1 K k hk ho) ho,
    fun q hq hs => h₂.2.2.2 q (TargetAt_keeps w h₁.1 q D hq) (h₁.2.2.2 q hq hs)⟩

theorem OwnStep.ownStepSame (w : World) (tid : Nat) (D : UClass) (n m : Nat) (a : Env) :
    OwnStep w tid D n m a a :=
  ⟨OwnAfter.ownAfterSame w tid D n m a, fun _ _ h => h⟩

theorem OwnStep.ownStepThen {w : World} {tid : Nat} {D : UClass} {n m : Nat} {a b c : Env}
    (h₁ : OwnStep w tid D n m a b) (h₂ : OwnStep w tid D n m b c) : OwnStep w tid D n m a c :=
  ⟨h₁.1.ownAfterThen h₂.1,
    fun I hI hu => h₂.2 I (lt_of_lt_of_le hI h₁.1.1.length_le) (h₁.2 I hI hu)⟩

theorem Served_of_frame {n m : Nat} {D : UClass} {a b : Env} {q : NodePtr}
    (hI : b.Instances = a.Instances) (hL : a.Log <+: b.Log)
    (hX : TMap.Find b.InstanceReference q = TMap.Find a.InstanceReference q)
    (h : a.Served n m D q) : b.Served n m D q := by
  rcases h with ⟨L, i, I, k, hq, hf, hn, hk, hc, ho⟩ | ⟨L, hc, hl⟩
  · exact Or.inl ⟨L, i, I, k, hq, by rw [hX]; exact hf, hn, by rw [hI]; exact hk, hc, ho⟩
  · exact Or.inr ⟨L, hc, mem_drop_of_prefix hL m hl⟩

/-- A step that leaves the live instances, the bookkeeping of the thread and the instance
references as they are and only adds to the log. -/
theorem OwnStep.ownOfFrame {w : World} {tid : Nat} {D : UClass} {n m : Nat} {a b : Env}
    (hI : b.Instances = a.Instances)
    (hT : b.StateMachinesGeneratingForThread = a.StateMachinesGeneratingForThread)
    (hX : b.InstanceReference = a.InstanceReference) (hL : a.Log <+: b.Log) :
    OwnStep w tid D n m a b := by
  refine ⟨⟨Env.KeepsInstances.of_instances hI, hL, fun K k hk _ => by rw [hI]; exact hk,
    fun q _ hs => Served_of_frame hI hL (by rw [hX]) hs⟩, ?_⟩
  intro I _ hu
  exact ⟨fun q => by rw [hX]; exact hu.1 q,
    fun C => by rw [Registered_of_threadMap hT]; exact hu.2 C⟩

theorem OwnInv.invOfFrame {w : World} {tid : Nat} {D : UClass} {n m : Nat} {a b : Env}
    (h : OwnInv w tid D n m a) (hI : b.Instances = a.Instances)
    (hT : b.StateMachinesGeneratingForThread = a.StateMachinesGeneratingForThread)
    (hX : b.InstanceReference = a.InstanceReference) (hL : a.Log <+: b.Log) :
    OwnInv w tid D n m b := by
  obtain ⟨hq, hn, hm, hb, hr, hj⟩ := h
  refine ⟨hq.of_keeps (Env.KeepsInstances.of_instances hI) (fun C => QueuedFor_of_threadMap hT C),
    by rw [hI]; exact hn, le_trans hm hL.length_le, ?_, ?_, ?_⟩
  · intro q I hf
    rw [hX] at hf
    rw [hI]; exact hb q I hf
  · intro C J hJ
    rw [Registered_of_threadMap hT] at hJ
    rw [hI]; exact hr C J hJ
  · intro q q' I k h1 h2 hnI hk hc
    rw [hX] at h1 h2
    rw [hI] at hk
    exact hj q q' I k h1 h2 hnI hk hc

theorem OwnPre.ownPreOfFrame {w : World} {tid : Nat} {D : UClass} {n m : Nat} {L : InstId}
    {props : List FSMNode} {a b : Env} (h : OwnPre w tid D n m L props a)
    (hI : b.Instances = a.Instances)
    (hT : b.StateMachinesGeneratingForThread = a.StateMachinesGeneratingForThread)
    (hX : b.InstanceReference = a.InstanceReference) (hL : a.Log <+: b.Log) :
    OwnPre w tid D n m L props b := by
  obtain ⟨hc, hi, l, hl, hp⟩ := h
  exact ⟨by rw [hT]; exact hc, hi.invOfFrame hI hT hX hL, l, by rw [hI]; exact hl, hp⟩

theorem OwnPre.ownPreOfStep {w : World} {tid : Nat} {D : UClass} {n m : Nat} {L : InstId}
    {props : List FSMNode} {a b : Env} (h : OwnPre w tid D n m L props a)
    (hs : OwnStep w tid D n m a b)
    (hc : TMap.Contains b.StateMachinesGeneratingForThread tid = true)
    (hi : OwnInv w tid D n m b) : OwnPre w tid D n m L props b := by
  obtain ⟨_, _, l, hl, hp⟩ := h
  obtain ⟨l', hl', hcl, _⟩ := hs.1.1 L l hl
  exact ⟨hc, hi, l', hl', by rw [hcl]; exact hp⟩

theorem OwnVisit.ownBefore {w : World} {tid : Nat} {D : UClass} {n m : Nat} {gsm : GenerateCall}
    {L : InstId} {props : List FSMNode} {a b c : Env} {i : Nat} {p : FSMNode}
    (h₁ : OwnStep w tid D n m a b) (h₂ : OwnVisit w tid D n m gsm L props b c i p) :
    OwnVisit w tid D n m gsm L props a c i p := by
  obtain ⟨e₁, r₁, e₂, hc, hp, hs, hq, ha, hg⟩ := h₂
  exact ⟨e₁, r₁, e₂, hc, hp, h₁.ownStepThen hs, hq, ha, hg⟩

theorem OwnVisit.ownBehind {w : World} {tid : Nat} {D : UClass} {n m : Nat} {gsm : GenerateCall}
    {L : InstId} {props : List FSMNode} {a b c : Env} {i : Nat} {p : FSMNode}
    (h₁ : OwnVisit w tid D n m gsm L props a b i p) (h₂ : OwnAfter w tid D n m b c) :
    OwnVisit w tid D n m gsm L props a c i p := by
  obtain ⟨e₁, r₁, e₂, hc, hp, hs, hq, ha, hg⟩ := h₁
  exact ⟨e₁, r₁, e₂, hc, hp, hs, hq, ha.ownAfterThen h₂, hg⟩

theorem CreatedFor.between {w : World} {tid : Nat} {D : UClass} {A B A' B' : Env} {I : InstId}
    (h : CreatedFor w tid D A B I) (hA : A'.KeepsInstances A) (hAL : A'.Log <+: A.Log)
    (hB : B.KeepsInstances B') (hBL : B.Log <+: B'.Log) : CreatedFor w tid D A' B' I := by
  obtain ⟨d, a, b, L, sm, props, r, hg, ht, hc, ka, la, kb, lb, rest⟩ := h
  exact ⟨d, a, b, L, sm, props, r, hg, ht, hc, hA.keepThen ka, hAL.trans la, kb.keepThen hB,
    lb.trans hBL, rest⟩

theorem OwnNew.ownNewSame (w : World) (tid : Nat) (D : UClass) (n m : Nat) (a : Env) :
    OwnNew w tid D n m a a := by
  intro K k hK hk
  exact absurd (get?_lt hk) (Nat.not_lt.mpr hK)

theorem OwnNew.ownNewOfInstances {w : World} {tid : Nat} {D : UClass} {n m : Nat} {a b : Env}
    (h : b.Instances = a.Instances) : OwnNew w tid D n m a b := by
  intro K k hK hk
  rw [h] at hk
  exact absurd (get?_lt hk) (Nat.not_lt.mpr hK)

theorem OwnNew.ownNewThen {w : World} {tid : Nat} {D : UClass} {n m : Nat} {a b c : Env}
    (h₁ : OwnNew w tid D n m a b) (h₂ : OwnNew w tid D n m b c) (hab : OwnAfter w tid D n m a b)
    (ha : OwnAfter w tid D n m b c) : OwnNew w tid D n m a c := by
  intro K k hK hk
  by_cases hKb : K < b.Instances.length
  · obtain ⟨k', hk', hc⟩ := ha.1.classOf hKb hk
    obtain ⟨s₁, c₁⟩ := h₁ K k' hK hk'
    refine ⟨?_, ?_⟩
    · intro i hb hT
      have hTb := TargetAt_back w ha.1 K (some i) D hKb hT
      exact ha.2.2.2 _ hTb (s₁ i (by rw [hc]; exact hb) hTb)
    · intro hD
      exact (c₁ (hc.trans hD)).between (Env.KeepsInstances.keepSame a) (List.prefix_refl _)
        ha.1 ha.2.1
  · obtain ⟨s₂, c₂⟩ := h₂ K k (Nat.le_of_not_lt hKb) hk
    exact ⟨s₂, fun hD => (c₂ hD).between hab.1 hab.2.1 (Env.KeepsInstances.keepSame c)
      (List.prefix_refl _)⟩

/-- The steps that follow an instantiation, for a class all of whose reference nodes have
reuse disabled: the invariant is kept, served nodes stay served, every other unreferenced
instance stays unreferenced, and the node holds the new instance, whose reference owner is
the instance that contains the node. -/
theorem referenced_own (w : World) (tid : Nat) (D : UClass) (n m : Nat)
    (hNone : ∀ (e : Env) (q : NodePtr) (p : FSMNode), e.NodeAt w q = some p →
      e.TargetAt w q = some D → p.bReuseReference = false)
    (x : Env) (L : InstId) (sm : FSMStateMachine) (T : UClass) (I : InstId) (i : Nat)
    (new : USMInstance) (hi : OwnInv w tid D n m x) (hu : x.Unreferenced tid I)
    (hnew : x.Instances.get? I = some new) (hcl : new.Class = T)
    (hown : new.ReferenceOwner = none) (hT : x.TargetAt w sm.Ptr = some T)
    (hPtr : sm.Ptr = ⟨.SMInstance L, some i⟩) (hnI : n ≤ I) :
    OwnInv w tid D n m (GenerateStateMachine.referenced tid x L sm T I) ∧
    OwnAfter w tid D n m x (GenerateStateMachine.referenced tid x L sm T I) ∧
    (∀ J, J ≠ I → x.Unreferenced tid J →
      (GenerateStateMachine.referenced tid x L sm T I).Unreferenced tid J) ∧
    TMap.Find (GenerateStateMachine.referenced tid x L sm T I).InstanceReference sm.Ptr =
      some I ∧
    (GenerateStateMachine.referenced tid x L sm T I).Instances.get? I =
      some { new with ReferenceOwner := some L } := by
  obtain ⟨hq, hn, hm, hb, hr, hj⟩ := hi
  have hke := Keeps_referenced tid x L sm T I
  have hQe := referenced_QueuedFor tid x L sm T I
  have hRe := referenced_Registered tid x L sm T I
  have hXe := referenced_InstanceReference tid x L sm T I
  have hIe := referenced_Instances tid x L sm T I
  have hLe := referenced_Log tid x L sm T I
  have hlen : (GenerateStateMachine.referenced tid x L sm T I).Instances.length =
      x.Instances.length := (SameGraph_referenced tid x L sm T _).2
  have hgetI : (GenerateStateMachine.referenced tid x L sm T I).Instances.get? I =
      some { new with ReferenceOwner := some L } := by
    rw [hIe, SetReferenceOwner_get_self, hnew]; rfl
  have hgetK : ∀ K, K ≠ I → (GenerateStateMachine.referenced tid x L sm T I).Instances.get? K =
      x.Instances.get? K := by
    intro K hK
    rw [hIe, SetReferenceOwner_get_other _ _ _ _ hK]
  -- no queued reuse node resolves to `D`
  have hnoq : ∀ q, x.TargetAt w q = some D →
      ¬ ∃ s ∈ x.QueuedFor tid T, s.Ptr = q ∧ s.Node.bReuseReference = true := by
    rintro q hqD ⟨s, hs, hp, hr'⟩
    obtain ⟨h1, h2⟩ := hq T s hs
    rw [hp] at h1
    rw [hNone x q s.Node h1 hqD] at hr'
    cases hr'
  have hnoqD : T = D →
      ∀ q, ¬ ∃ s ∈ x.QueuedFor tid T, s.Ptr = q ∧ s.Node.bReuseReference = true := by
    rintro hTD q ⟨s, hs, hp, hr'⟩
    obtain ⟨h1, h2⟩ := hq T s hs
    rw [hTD] at h2
    rw [hNone x s.Ptr s.Node h1 h2] at hr'
    cases hr'
  refine ⟨⟨hq.of_keeps hke hQe, by rw [hlen]; exact hn, le_trans hm hLe.length_le, ?_, ?_, ?_⟩,
    ⟨hke, hLe, ?_, ?_⟩, ?_, by rw [hXe, if_pos rfl], hgetI⟩
  · -- instance references are live
    intro q J hf
    rw [hXe] at hf
    rw [hlen]
    split at hf
    · cases hf; exact get?_lt hnew
    · split at hf
      · cases hf; exact get?_lt hnew
      · exact hb q J hf
  · -- registered instances
    intro C J hJ
    rw [hRe] at hJ
    split at hJ
    · rename_i hc
      simp only [Option.some.injEq] at hJ
      subst hJ
      exact ⟨_, hgetI, hcl.trans hc.2⟩
    · obtain ⟨k, hk, hc⟩ := hr C J hJ
      obtain ⟨k', hk', hc', _⟩ := hke J k hk
      exact ⟨k', hk', hc'.trans hc⟩
  · -- no two nodes hold the same new instance of `D`
    intro q q' J k h1 h2 hnJ hk hc
    rw [hXe] at h1 h2
    by_cases hJI : J = I
    · subst hJI
      rw [hgetI] at hk
      cases hk
      have hTD : T = D := hcl.symm.trans hc
      have e1 : sm.Ptr = q := by
        by_contra hne
        rw [if_neg hne, if_neg (hnoqD hTD q)] at h1
        exact hu.1 q h1
      have e2 : sm.Ptr = q' := by
        by_contra hne
        rw [if_neg hne, if_neg (hnoqD hTD q')] at h2
        exact hu.1 q' h2
      rw [← e1, ← e2]
    · have f1 : TMap.Find x.InstanceReference q = some J := by
        split at h1
        · cases h1; exact absurd rfl hJI
        · split at h1
          · cases h1; exact absurd rfl hJI
          · exact h1
      have f2 : TMap.Find x.InstanceReference q' = some J := by
        split at h2
        · cases h2; exact absurd rfl hJI
        · split at h2
          · cases h2; exact absurd rfl hJI
          · exact h2
      rw [hgetK J hJI] at hk
      exact hj q q' J k f1 f2 hnJ hk hc
  · -- instances with an owner are left as they are
    intro K k hk ho
    have hKI : K ≠ I := by
      intro h
      subst h
      rw [hnew] at hk
      cases hk
      rw [hown] at ho
      cases ho
    rw [hgetK K hKI]; exact hk
  · -- served nodes stay served
    intro q hqD hs
    rcases hs with ⟨L', i', J, k, hq', hf, hnJ, hk, hc, ho⟩ | ⟨L', hc, hl⟩
    · by_cases hp : sm.Ptr = q
      · refine Or.inl ⟨L, i, I, _, by rw [← hp]; exact hPtr, by rw [hXe, if_pos hp], hnI, hgetI,
          ?_, rfl⟩
        rw [hp] at hT
        rw [hT] at hqD
        exact hcl.trans (Option.some.inj hqD)
      · have hJI : J ≠ I := by
          intro h
          subst h
          rw [hnew] at hk
          cases hk
          rw [hown] at ho
          cases ho
        refine Or.inl ⟨L', i', J, k, hq', ?_, hnJ, by rw [hgetK J hJI]; exact hk, hc, ho⟩
        rw [hXe, if_neg hp, if_neg (hnoq q hqD)]
        exact hf
    · exact Or.inr ⟨L', hc, mem_drop_of_prefix hLe m hl⟩
  · -- other unreferenced instances
    intro J hJ huJ
    refine ⟨?_, ?_⟩
    · intro q hf
      rw [hXe] at hf
      split at hf
      · cases hf; exact hJ rfl
      · split at hf
        · cases hf; exact hJ rfl
        · exact huJ.1 q hf
    · intro C hC
      rw [hRe] at hC
      split at hC
      · simp only [Option.some.injEq] at hC
        exact hJ hC.symm
      · exact huJ.2 C hC

/-- The early returns of the check keep the invariant of a class all of whose reference
nodes have reuse disabled, and serve the node by the circular-reference error. -/
theorem check_inl_own (w : World) (tid : Nat) (D : UClass) (n m : Nat)
    (hNone : ∀ (e : Env) (q : NodePtr) (p : FSMNode), e.NodeAt w q = some p →
      e.TargetAt w q = some D → p.bReuseReference = false)
    (e : Env) (L : InstId) (sm : FSMStateMachine) (T : UClass) (r : Bool) (e' : Env) (i : Nat)
    (hi : OwnInv w tid D n m e) (hN : e.NodeAt w sm.Ptr = some sm.Node)
    (hT : e.TargetAt w sm.Ptr = some T) (hPtr : sm.Ptr = ⟨.SMInstance L, some i⟩)
    (h : GenerateStateMachine.check tid false e L sm T = .inl (r, e')) :
    OwnInv w tid D n m e' ∧ OwnStep w tid D n m e e' ∧ (T = D → e'.Served n m D sm.Ptr) := by
  have hreuse : sm.Node.bReuseReference = true → T ≠ D := by
    intro hR hTD
    subst hTD
    rw [hNone e sm.Ptr sm.Node hN hT] at hR
    cases hR
  have hext := Extends_check_inl tid false e L sm T r e' h
  obtain ⟨hq, hn, hm, hb, hr, hj⟩ := hi
  rcases check_inl_reg tid e L sm T r e' h with
    ⟨hR, J, hJ, he⟩ | ⟨hR, hnull, hI, hX, hReg, hQ⟩ | ⟨hR, he⟩
  · have hTD := hreuse hR
    obtain ⟨kJ, hkJ, hcJ⟩ := hr T J hJ
    subst he
    have hne : ∀ q, e.TargetAt w q = some D → sm.Ptr ≠ q := by
      intro q hqD hp
      rw [hp] at hT
      rw [hT] at hqD
      exact hTD (Option.some.inj hqD)
    refine ⟨⟨hq.of_keeps (Env.KeepsInstances.of_instances rfl) (fun _ => rfl), hn, hm, ?_, hr, ?_⟩,
      ⟨⟨Env.KeepsInstances.of_instances rfl, List.prefix_refl _, fun K k hk _ => hk, ?_⟩, ?_⟩, ?_⟩
    · intro q I hf
      simp only [Env.SetInstanceReference_InstanceReference_eq, TMap.Find_Add] at hf
      split at hf
      · cases hf; exact get?_lt hkJ
      · exact hb q I hf
    · intro q q' I k h1 h2 hnI hk hc
      simp only [Env.SetInstanceReference_InstanceReference_eq, TMap.Find_Add] at h1 h2
      have hIJ : I ≠ J := by
        intro h
        subst h
        have hk' : e.Instances.get? I = some k := hk
        rw [hkJ] at hk'
        cases hk'
        exact hTD (hcJ.symm.trans hc)
      split at h1
      · cases h1; exact absurd rfl hIJ
      · split at h2
        · cases h2; exact absurd rfl hIJ
        · exact hj q q' I k h1 h2 hnI hk hc
    · intro q hqD hs
      refine @Served_of_frame n m D e _ q rfl (List.prefix_refl _) ?_ hs
      simp only [Env.SetInstanceReference_InstanceReference_eq]
      exact TMap.Find_Add_ne _ _ (hne q hqD)
    · intro I _ hu
      refine ⟨?_, hu.2⟩
      intro q hf
      simp only [Env.SetInstanceReference_InstanceReference_eq, TMap.Find_Add] at hf
      split at hf
      · cases hf
        exact hu.2 T hJ
      · exact hu.1 q hf
    · intro h; exact absurd h hTD
  · have hTD := hreuse hR
    have hk : e.KeepsInstances e' := Env.KeepsInstances.of_instances hI
    refine ⟨⟨?_, by rw [hI]; exact hn, le_trans hm hext.2.length_le, ?_, ?_, ?_⟩,
      ⟨⟨hk, hext.2, fun K k hk _ => by rw [hI]; exact hk, ?_⟩, ?_⟩, ?_⟩
    · intro C s hs
      rw [hQ] at hs
      have hold : ∀ C s, s ∈ e.QueuedFor tid C →
          e'.NodeAt w s.Ptr = some s.Node ∧ e'.TargetAt w s.Ptr = some C := fun C s hs =>
        ⟨NodeAt_keeps w hk _ _ (hq C s hs).1, TargetAt_keeps w hk _ _ (hq C s hs).2⟩
      by_cases hTC : T = C
      · subst hTC
        rw [if_pos rfl] at hs
        split at hs
        · exact hold _ s hs
        · rcases List.mem_append.mp hs with hs | hs
          · exact hold _ s hs
          · rw [List.mem_singleton] at hs
            subst hs
            exact ⟨NodeAt_keeps w hk _ _ hN, TargetAt_keeps w hk _ _ hT⟩
      · rw [if_neg hTC] at hs
        exact hold _ s hs
    · intro q I hf
      rw [hX] at hf
      rw [hI]; exact hb q I hf
    · intro C J hJ
      rw [hReg] at hJ
      rw [hI]; exact hr C J hJ
    · intro q q' I k h1 h2 hnI hk' hc
      rw [hX] at h1 h2
      rw [hI] at hk'
      exact hj q q' I k h1 h2 hnI hk' hc
    · intro q _ hs
      exact Served_of_frame hI hext.2 (by rw [hX]) hs
    · intro I _ hu
      exact ⟨fun q => by rw [hX]; exact hu.1 q, fun C => by rw [hReg]; exact hu.2 C⟩
    · intro h; exact absurd h hTD
  · subst he
    have hi : OwnInv w tid D n m e := ⟨hq, hn, hm, hb, hr, hj⟩
    refine ⟨hi.invOfFrame rfl rfl rfl (List.prefix_append _ _),
      OwnStep.ownOfFrame rfl rfl rfl (List.prefix_append _ _), ?_⟩
    intro _
    refine Or.inr ⟨L, by rw [hPtr], ?_⟩
    simp only [Env.log_Log_eq]
    rw [List.drop_append_of_le_length hm]
    exact List.mem_append_right _ (List.mem_singleton_self _)

theorem Served_of_extends {n m : Nat} {D : UClass} {a b : Env} {q : NodePtr}
    (hE : a.Extends b)
    (hX : TMap.Find b.InstanceReference q = TMap.Find a.InstanceReference q)
    (h : a.Served n m D q) : b.Served n m D q := by
  rcases h with ⟨L, i, I, k, hq, hf, hn, hk, hc, ho⟩ | ⟨L, hc, hl⟩
  · exact Or.inl ⟨L, i, I, k, hq, by rw [hX]; exact hf, hn, hE.getInstance hk, hc, ho⟩
  · exact Or.inr ⟨L, hc, mem_drop_of_prefix hE.2 m hl⟩

/-- Instantiation for a reference node keeps the invariant of a class all of whose
reference nodes have reuse disabled: the node holds the instance created, whose reference
owner is the instance that contains the node. The nested activation on the root state
machine of the new instance starts from an environment that satisfies the invariant. -/
theorem create_own (w : World) (tid : Nat) (D : UClass) (n m : Nat)
    (hNone : ∀ (e : Env) (q : NodePtr) (p : FSMNode), e.NodeAt w q = some p →
      e.TargetAt w q = some D → p.bReuseReference = false)
    (gsm : GenerateCall) (hg : OwnOK w tid D n m gsm) (hx : ExtendsOK gsm) (top : Bool)
    (e : Env) (L : InstId) (sm : FSMStateMachine) (T : UClass) (tmpl : Option UClass)
    (ctx : Option Nat) (e₂ : Env) (r₁ : Bool) (x : Env) (i : Nat)
    (hi : OwnInv w tid D n m e)
    (hT : e.TargetAt w sm.Ptr = some T) (hPtr : sm.Ptr = ⟨.SMInstance L, some i⟩)
    (hchk : GenerateStateMachine.check tid top e L sm T = .inr e₂)
    (hcall : gsm ((GenerateStateMachine.increment tid e₂ T).Initializing T tmpl ctx)
      (.SMInstance e₂.Instances.length)
      (USMInstance.RootStateMachine (w.GetClass T) e₂.Instances.length)
      (w.GetClass T).Properties false = some (r₁, x)) :
    OwnInv w tid D n m (GenerateStateMachine.referenced tid x L sm T e₂.Instances.length) ∧
    OwnStep w tid D n m e (GenerateStateMachine.referenced tid x L sm T e₂.Instances.length) ∧
    TMap.Find (GenerateStateMachine.referenced tid x L sm T
      e₂.Instances.length).InstanceReference sm.Ptr = some e₂.Instances.length ∧
    (GenerateStateMachine.referenced tid x L sm T e₂.Instances.length).Instances.get?
      e₂.Instances.length = some (⟨T, ctx, tmpl, some L⟩ : USMInstance) ∧
    e₂.Instances.length = e.Instances.length ∧
    TMap.Contains ((GenerateStateMachine.increment tid e₂ T).Initializing T tmpl
      ctx).StateMachinesGeneratingForThread tid = true ∧
    OwnInv w tid D n m ((GenerateStateMachine.increment tid e₂ T).Initializing T tmpl ctx) ∧
    ((GenerateStateMachine.increment tid e₂ T).Initializing T tmpl ctx).Instances.get?
      e₂.Instances.length = some (⟨T, ctx, tmpl, none⟩ : USMInstance) ∧
    ((GenerateStateMachine.increment tid e₂ T).Initializing T tmpl ctx).Instances.length =
      e.Instances.length + 1 ∧
    OwnAfter w tid D n m e ((GenerateStateMachine.increment tid e₂ T).Initializing T tmpl ctx) ∧
    OwnStep w tid D n m ((GenerateStateMachine.increment tid e₂ T).Initializing T tmpl ctx) x ∧
    OwnAfter w tid D n m x
      (GenerateStateMachine.referenced tid x L sm T e₂.Instances.length) := by
  obtain ⟨hI₂, hX₂, hQ₂, hreg⟩ := check_inr_reg tid top e L sm T e₂ hchk
  obtain ⟨_, _, _, hL₂⟩ := SameGraph_check_inr tid top e L sm T e₂ hchk
  obtain ⟨hq, hn, hm, hb, hr, hj⟩ := hi
  have hlen : e₂.Instances.length = e.Instances.length := by rw [hI₂]
  have haI : ((GenerateStateMachine.increment tid e₂ T).Initializing T tmpl ctx).Instances =
      e.Instances ++ [(⟨T, ctx, tmpl, none⟩ : USMInstance)] := by
    rw [Initializing_Instances, increment_Instances, hI₂]
  have haX : ((GenerateStateMachine.increment tid e₂ T).Initializing T tmpl ctx).InstanceReference =
      e.InstanceReference := by
    rw [Initializing_InstanceReference, increment_InstanceReference, hX₂]
  have haQ : ∀ C, ((GenerateStateMachine.increment tid e₂ T).Initializing T tmpl ctx).QueuedFor tid C =
      e.QueuedFor tid C := by
    intro C
    rw [QueuedFor_of_threadMap (Initializing_threadMap _ _ _ _), increment_QueuedFor, hQ₂]
  have haR : ∀ C, ((GenerateStateMachine.increment tid e₂ T).Initializing T tmpl ctx).Registered tid C =
      e₂.Registered tid C := by
    intro C
    rw [Registered_of_threadMap (Initializing_threadMap _ _ _ _), increment_Registered]
  have haL : ((GenerateStateMachine.increment tid e₂ T).Initializing T tmpl ctx).Log = e.Log :=
    hL₂
  have hca : TMap.Contains ((GenerateStateMachine.increment tid e₂ T).Initializing T tmpl
      ctx).StateMachinesGeneratingForThread tid = true := by
    rw [Initializing_threadMap]; exact Contains_thread_increment tid e₂ T
  have hnew : ((GenerateStateMachine.increment tid e₂ T).Initializing T tmpl ctx).Instances.get?
      e₂.Instances.length = some (⟨T, ctx, tmpl, none⟩ : USMInstance) := by
    rw [haI, hlen]; exact get?_append_new _ _
  -- the environment of the nested call
  revert hcall hca hnew haL haR haQ haX haI
  generalize (GenerateStateMachine.increment tid e₂ T).Initializing T tmpl ctx = a
  intro hcall haI haX haQ haR haL hca hnew
  have hea : e.Extends a := ⟨by rw [haI]; exact List.prefix_append _ _, by rw [haL]⟩
  have hka : e.KeepsInstances a := hea.keeps
  have halen : a.Instances.length = e.Instances.length + 1 := by rw [haI]; simp
  have hRa : ∀ C J, a.Registered tid C = some (some J) → e.Registered tid C = some (some J) := by
    intro C J hJ
    rw [haR] at hJ
    rcases hreg with ⟨_, _, hreg₂⟩ | ⟨_, he₂⟩
    · rw [hreg₂] at hJ
      split at hJ
      · cases hJ
      · exact hJ
    · rw [he₂] at hJ; exact hJ
  have hia : OwnInv w tid D n m a := by
    refine ⟨hq.of_keeps hka haQ, by rw [halen]; exact Nat.le_succ_of_le hn,
      by rw [haL]; exact hm, ?_, ?_, ?_⟩
    · intro q I hf
      rw [haX] at hf
      rw [halen]
      exact Nat.lt_succ_of_lt (hb q I hf)
    · intro C J hJ
      obtain ⟨k, hk, hc⟩ := hr C J (hRa C J hJ)
      exact ⟨k, hea.getInstance hk, hc⟩
    · intro q q' I k h1 h2 hnI hk hc
      rw [haX] at h1 h2
      have hlt := hb q I h1
      obtain ⟨k', hk'⟩ := get?_of_lt hlt
      have := hea.getInstance hk'
      rw [hk] at this
      cases this
      exact hj q q' I k h1 h2 hnI hk' hc
  obtain ⟨hix, hsx, _⟩ := hg a e₂.Instances.length _ _ r₁ x ⟨_, hnew, rfl, Or.inl rfl⟩ hca hia
    hcall
  have hax : a.Extends x := hx _ _ _ _ _ _ _ hcall
  have hua : ∀ I, e.Instances.length ≤ I ∨ e.Unreferenced tid I → a.Unreferenced tid I := by
    intro I hI
    refine ⟨?_, ?_⟩
    · intro q hf
      rw [haX] at hf
      rcases hI with hI | hI
      · exact absurd (hb q I hf) (Nat.not_lt.mpr hI)
      · exact hI.1 q hf
    · intro C hJ
      have hJ' := hRa C I hJ
      rcases hI with hI | hI
      · obtain ⟨k, hk, _⟩ := hr C I hJ'
        exact absurd (get?_lt hk) (Nat.not_lt.mpr hI)
      · exact hI.2 C hJ'
  have hux : x.Unreferenced tid e₂.Instances.length :=
    hsx.2 _ (by rw [halen, hlen]; omega) (hua _ (Or.inl (by rw [hlen])))
  obtain ⟨hie, hae, hue, hse⟩ := referenced_own w tid D n m hNone x L sm T e₂.Instances.length i
    (⟨T, ctx, tmpl, none⟩ : USMInstance) hix hux (hax.getInstance hnew) rfl rfl
    (TargetAt_keeps w (hka.keepThen hax.keeps) _ _ hT) hPtr (by rw [hlen]; exact hn)
  have h1 : OwnAfter w tid D n m e a :=
    ⟨hka, hea.2, fun K k hk _ => hea.getInstance hk,
      fun q _ hs => Served_of_extends hea (by rw [haX]) hs⟩
  refine ⟨hie, ⟨(h1.ownAfterThen hsx.1).ownAfterThen hae, ?_⟩, hse.1, hse.2, hlen,
    hca, hia, hnew, halen, h1, hsx, hae⟩
  · intro I hI hu
    refine hue I ?_ (hsx.2 I (by rw [halen]; omega) (hua I (Or.inr hu)))
    rw [hlen]
    exact Nat.ne_of_lt hI

/-- The reference branch of a nested activation keeps the invariant of a class all of whose
reference nodes have reuse disabled. -/
theorem reference_own (w : World) (tid : Nat) (D : UClass) (n m : Nat)
    (hNone : ∀ (e : Env) (q : NodePtr) (p : FSMNode), e.NodeAt w q = some p →
      e.TargetAt w q = some D → p.bReuseReference = false)
    (gsm : GenerateCall) (hg : OwnOK w tid D n m gsm) (hx : ExtendsOK gsm)
    (env : Env) (L : InstId) (sm : FSMStateMachine) (props : List FSMNode) (cls : UClass)
    (r : Bool) (env' : Env) (hgen : Genuine w env L sm props)
    (hC : sm.Node.ClassReference = some cls) (hi : OwnInv w tid D n m env)
    (h : GenerateStateMachine.reference w tid gsm false env L sm cls false = some (r, env')) :
    OwnInv w tid D n m env' ∧ OwnStep w tid D n m env env' ∧
    (env.TargetAt w sm.Ptr = some D → env'.Served n m D sm.Ptr) := by
  have hN := (hgen.nodeAt (by rw [hC]; rfl)).1
  have hT := hgen.targetAt cls hC
  have hT' : env.TargetAt w sm.Ptr = some (GenerateStateMachine.template w env L sm cls false).2.1 := hT
  obtain ⟨i, hPtr⟩ : ∃ i, sm.Ptr = ⟨.SMInstance L, some i⟩ := by
    obtain ⟨l, hl, hp, hsm⟩ := hgen
    rcases hsm with h | ⟨i, hptr, _, _⟩
    · rw [h] at hC
      simp [USMInstance.RootStateMachine] at hC
    · exact ⟨i, hptr⟩
  have hk : env.KeepsInstances (GenerateStateMachine.template w env L sm cls false).2.2 :=
    Env.KeepsInstances.of_instances (template_keeps w env L sm cls false).1
  have hM := template_threadMap w env L sm cls false
  have hL := (Extends_template w env L sm cls false).2
  have h01 : OwnStep w tid D n m env (GenerateStateMachine.template w env L sm cls false).2.2 :=
    OwnStep.ownOfFrame (template_keeps w env L sm cls false).1 hM
      (template_keeps w env L sm cls false).2 hL
  have hi₁ : OwnInv w tid D n m (GenerateStateMachine.template w env L sm cls false).2.2 :=
    hi.invOfFrame (template_keeps w env L sm cls false).1 hM
      (template_keeps w env L sm cls false).2 hL
  have hN₁ := NodeAt_keeps w hk _ _ hN
  have hT₁ := TargetAt_keeps w hk _ _ hT'
  have hown : env.TargetAt w sm.Ptr = some D →
      (GenerateStateMachine.template w env L sm cls false).2.1 = D := by
    intro hD
    rw [hT'] at hD
    exact Option.some.inj hD
  rcases reference_cases w tid gsm false env L sm cls false r env' h with
    h1 | ⟨_, _, h2, _⟩ | ⟨env₂, r₁, x, h1, _, hcall, _, he⟩
  · obtain ⟨a, b, c⟩ := check_inl_own w tid D n m hNone _ L sm _ r env' i hi₁ hN₁ hT₁ hPtr h1
    exact ⟨a, h01.ownStepThen b, fun hD => c (hown hD)⟩
  · cases h2
  · rw [Finish_false] at he
    subst he
    obtain ⟨a, b, hf, hg', hl₂, _⟩ := create_own w tid D n m hNone gsm hg hx false _ L sm _ _ _
      env₂ r₁ x i hi₁ hT₁ hPtr h1 hcall
    refine ⟨a, h01.ownStepThen b, fun hD => Or.inl ⟨L, i, _, _, hPtr, hf, ?_, hg', hown hD, rfl⟩⟩
    rw [hl₂]
    exact hi₁.2.1

/-- The first pass keeps the invariant of a class all of whose reference nodes have reuse
disabled and calls the assembler on every state machine record the state machine owns. -/
theorem states_own (w : World) (tid : Nat) (D : UClass) (n m : Nat) (gsm : GenerateCall)
    (hg : OwnOK w tid D n m gsm) (hn : NestedOK tid gsm) (L : InstId) (sm : FSMStateMachine)
    (props : List FSMNode) :
    ∀ (l : List (Nat × FSMNode)) (a : Env) (M : TMap FGuid NodePtr) (b : Env)
      (M' : TMap FGuid NodePtr),
      GenerateStateMachine.states (fun e n => gsm e (.SMInstance L) n props false)
        (.SMInstance L) sm l a M = some (b, M') →
      (∀ x ∈ l, props[x.1]? = some x.2) → OwnPre w tid D n m L props a →
      OwnPre w tid D n m L props b ∧ OwnStep w tid D n m a b ∧
      ∀ i p, (i, p) ∈ l → p.Struct.IsChildOfStateMachine = true → p.OwnerGuid = sm.Node.Guid →
        OwnVisit w tid D n m gsm L props a b i p := by
  intro l a M b M' h
  refine states_seg
    (fun l a b => (∀ x ∈ l, props[x.1]? = some x.2) → OwnPre w tid D n m L props a →
      OwnPre w tid D n m L props b ∧ OwnStep w tid D n m a b ∧
      ∀ i p, (i, p) ∈ l → p.Struct.IsChildOfStateMachine = true → p.OwnerGuid = sm.Node.Guid →
        OwnVisit w tid D n m gsm L props a b i p)
    (fun _ => True) (fun e n => gsm e (.SMInstance L) n props false) (.SMInstance L) sm
    ?_ ?_ ?_ ?_ ?_ l a M b M' trivial h
  · intro e _ hp
    exact ⟨hp, OwnStep.ownStepSame w tid D n m e, fun i p hm => absurd hm (List.not_mem_nil _)⟩
  · intro x s a b c h₁ h₂ hm hp
    obtain ⟨p₁, s₁, v₁⟩ := h₁ (fun y hy => hm y (by rw [List.mem_singleton] at hy; rw [hy]; exact List.mem_cons_self _ _)) hp
    obtain ⟨p₂, s₂, v₂⟩ := h₂ (fun y hy => hm y (List.mem_cons_of_mem _ hy)) p₁
    refine ⟨p₂, s₁.ownStepThen s₂, ?_⟩
    intro i p hmem hs ho
    rcases List.mem_cons.mp hmem with hx | hx
    · exact (v₁ i p (by rw [hx]; exact List.mem_singleton_self _) hs ho).ownBehind s₂.1
    · exact OwnVisit.ownBefore s₁ (v₂ i p hx hs ho)
  · intro _ _ _ _ _; trivial
  · intro i p e hnot _ hp
    refine ⟨hp, OwnStep.ownStepSame w tid D n m e, ?_⟩
    intro i' p' hm hs ho
    rw [List.mem_singleton] at hm
    cases hm
    exact absurd ⟨IsChildOfState_Base_of_StateMachine _ hs, ho⟩ hnot
  · intro i p e e₁ e₂ _ hsb ho he₁ hsm hnsm hm hp
    have hip : props[i]? = some p := hm (i, p) (List.mem_singleton_self _)
    have f1 : e₁.Instances = e.Instances ∧
        e₁.StateMachinesGeneratingForThread = e.StateMachinesGeneratingForThread ∧
        e₁.InstanceReference = e.InstanceReference ∧ e.Log <+: e₁.Log := by
      rcases he₁ with h | ⟨m, h⟩ <;> rw [h]
      · exact ⟨rfl, rfl, rfl, List.prefix_refl _⟩
      · exact ⟨rfl, rfl, rfl, List.prefix_append _ _⟩
    have p1 : OwnPre w tid D n m L props e₁ := hp.ownPreOfFrame f1.1 f1.2.1 f1.2.2.1 f1.2.2.2
    have s1 : OwnStep w tid D n m e e₁ := OwnStep.ownOfFrame f1.1 f1.2.1 f1.2.2.1 f1.2.2.2
    have f3 : ∀ e' : Env,
        (if p.bIsRootNode then e'.AddInitialState sm.Ptr ⟨.SMInstance L, some i⟩ else e').Instances =
          e'.Instances ∧
        (if p.bIsRootNode then e'.AddInitialState sm.Ptr ⟨.SMInstance L, some i⟩
          else e').StateMachinesGeneratingForThread = e'.StateMachinesGeneratingForThread ∧
        (if p.bIsRootNode then e'.AddInitialState sm.Ptr ⟨.SMInstance L, some i⟩
          else e').InstanceReference = e'.InstanceReference ∧
        e'.Log <+: (if p.bIsRootNode then e'.AddInitialState sm.Ptr ⟨.SMInstance L, some i⟩
          else e').Log := by
      intro e'
      split <;> exact ⟨rfl, rfl, rfl, List.prefix_refl _⟩
    by_cases hs : p.Struct.IsChildOfStateMachine = true
    · obtain ⟨r, hcall⟩ := hsm hs
      obtain ⟨l, hl, hpr⟩ := p1.2.2
      obtain ⟨q2, s2, own⟩ := hg e₁ L ⟨⟨.SMInstance L, some i⟩, p⟩ props r e₂
        ⟨l, hl, hpr, Or.inr ⟨i, rfl, hip, hs⟩⟩ p1.1 p1.2.1 hcall
      have c2 := (hn e₁ _ _ _ _ r e₂ p1.1 hcall).1
      have p2 : OwnPre w tid D n m L props e₂ := p1.ownPreOfStep s2 c2 q2
      have s3 := @OwnStep.ownOfFrame w tid D n m _ _ (f3 e₂).1 (f3 e₂).2.1 (f3 e₂).2.2.1
        (f3 e₂).2.2.2
      refine ⟨p2.ownPreOfFrame (f3 e₂).1 (f3 e₂).2.1 (f3 e₂).2.2.1 (f3 e₂).2.2.2,
        (s1.ownStepThen s2).ownStepThen s3, ?_⟩
      intro i' p' hmem _ _
      rw [List.mem_singleton] at hmem
      cases hmem
      exact ⟨e₁, r, e₂, hcall, p1, s1, q2, s3.1, own⟩
    · have h2 := hnsm (by simpa using hs)
      subst h2
      have s3 := @OwnStep.ownOfFrame w tid D n m _ _ (f3 e₂).1 (f3 e₂).2.1 (f3 e₂).2.2.1
        (f3 e₂).2.2.2
      refine ⟨p1.ownPreOfFrame (f3 e₂).1 (f3 e₂).2.1 (f3 e₂).2.2.1 (f3 e₂).2.2.2,
        s1.ownStepThen s3, ?_⟩
      intro i' p' hmem hs' _
      rw [List.mem_singleton] at hmem
      cases hmem
      exact absurd hs' hs

/-- Local assembly in a nested position keeps the invariant of a class all of whose
reference nodes have reuse disabled up to the environment `e` it reaches before
`FinishStateMachineGeneration`, and calls the assembler on every state machine record the
state machine owns. -/
theorem assemble_own (w : World) (tid : Nat) (D : UClass) (n m : Nat) (gsm : GenerateCall)
    (hg : OwnOK w tid D n m gsm) (hn : NestedOK tid gsm) (top : Bool) (a : Env) (L : InstId)
    (sm : FSMStateMachine) (props : List FSMNode) (r : Bool) (b : Env)
    (hpre : OwnPre w tid D n m L props a)
    (h : GenerateStateMachine.assemble tid gsm top a (.SMInstance L) sm props false = some (r, b)) :
    ∃ e, (b = e ∨ b = (FinishStateMachineGeneration top e tid).2) ∧
      OwnPre w tid D n m L props e ∧ OwnStep w tid D n m a e ∧
      ∀ i p, props[i]? = some p → p.Struct.IsChildOfStateMachine = true →
        p.OwnerGuid = sm.Node.Guid → OwnVisit w tid D n m gsm L props a e i p := by
  unfold GenerateStateMachine.assemble at h
  split at h
  · exact absurd h (by simp)
  · rename_i e₁ M hst
    obtain ⟨p₁, s₁, v₁⟩ := states_own w tid D n m gsm hg hn L sm props props.enum a [] e₁ M hst
      (fun x hx => List.mk_mem_enum_iff_getElem?.mp hx) hpre
    have hf := transitions_frame (.SMInstance L) sm M props.enum e₁
    have s₂ : OwnStep w tid D n m e₁ (GenerateStateMachine.transitions (.SMInstance L) sm M
        props.enum e₁).2 := OwnStep.ownOfFrame hf.1 hf.2.1 hf.2.2.1 hf.2.2.2
    have p₂ := p₁.ownPreOfFrame hf.1 hf.2.1 hf.2.2.1 hf.2.2.2
    refine ⟨(GenerateStateMachine.transitions (.SMInstance L) sm M props.enum e₁).2, ?_, p₂,
      s₁.ownStepThen s₂, ?_⟩
    · split at h
      · rename_i e ht
        simp only [Option.some.injEq, Prod.mk.injEq] at h
        rw [ht]; exact Or.inl h.2.symm
      · rename_i e ht
        simp only [Option.some.injEq, Prod.mk.injEq] at h
        rw [ht]; exact Or.inr h.2.symm
    · intro i p hi hs ho
      exact (v₁ i p (List.mk_mem_enum_iff_getElem?.mpr hi) hs ho).ownBehind s₂.1

theorem Genuine.ownPre {w : World} {env : Env} {L : InstId} {sm : FSMStateMachine}
    {props : List FSMNode} (h : Genuine w env L sm props) (tid : Nat) (D : UClass) (n m : Nat)
    (hc : TMap.Contains env.StateMachinesGeneratingForThread tid = true)
    (hi : OwnInv w tid D n m env) : OwnPre w tid D n m L props env := by
  obtain ⟨l, hl, hp, _⟩ := h
  exact ⟨hc, hi, l, hl, hp⟩

theorem body_own (w : World) (tid : Nat) (D : UClass) (n m : Nat)
    (hNone : ∀ (e : Env) (q : NodePtr) (p : FSMNode), e.NodeAt w q = some p →
      e.TargetAt w q = some D → p.bReuseReference = false)
    (gsm : GenerateCall) (hg : OwnOK w tid D n m gsm) (hn : NestedOK tid gsm)
    (hx : ExtendsOK gsm) :
    OwnOK w tid D n m (GenerateStateMachine.body w tid gsm) := by
  intro env L sm props r env' hgen hc hi h
  unfold GenerateStateMachine.body at h
  simp only [hc, Bool.not_true, Within_FindOrAddGeneration tid env hc] at h
  cases hcr : sm.Node.ClassReference with
  | none =>
    simp only [hcr] at h
    obtain ⟨e, he, pe, se, _⟩ := assemble_own w tid D n m gsm hg hn false env L sm props r env'
      (hgen.ownPre tid D n m hc hi) h
    have : env' = e := by
      rcases he with h | h
      · exact h
      · rw [h, Finish_false]
    subst this
    refine ⟨pe.2.1, se, ?_⟩
    intro hT
    rw [hgen.localTarget hcr] at hT
    cases hT
  | some cls =>
    simp only [hcr] at h
    exact reference_own w tid D n m hNone gsm hg hx env L sm props cls r env' hgen hcr hi h

theorem GenerateStateMachine_own (w : World) (tid : Nat) (D : UClass) (n m : Nat)
    (hNone : ∀ (e : Env) (q : NodePtr) (p : FSMNode), e.NodeAt w q = some p →
      e.TargetAt w q = some D → p.bReuseReference = false) :
    ∀ depth, OwnOK w tid D n m (GenerateStateMachine w tid depth) := by
  intro depth
  induction depth with
  | zero => intro env L sm props r env' _ _ _ h; simp [GenerateStateMachine] at h
  | succ d ih =>
    exact body_own w tid D n m hNone _ ih (GenerateStateMachine_nested w tid d)
      (GenerateStateMachine_extends w tid d)

/-- Local assembly calls the assembler on every state machine record of the graph of the
state machine, at any depth of nesting. -/
theorem assemble_ownvisits (w : World) (tid : Nat) (D : UClass) (n m : Nat)
    (hNone : ∀ (e : Env) (q : NodePtr) (p : FSMNode), e.NodeAt w q = some p →
      e.TargetAt w q = some D → p.bReuseReference = false)
    (d : Nat) (top : Bool) (a : Env) (L : InstId) (sm : FSMStateMachine) (props : List FSMNode)
    (r : Bool) (b : Env) (hpre : OwnPre w tid D n m L props a)
    (h : GenerateStateMachine.assemble tid (GenerateStateMachine w tid d) top a (.SMInstance L) sm
      props false = some (r, b)) :
    ∃ e, (b = e ∨ b = (FinishStateMachineGeneration top e tid).2) ∧
      OwnPre w tid D n m L props e ∧ OwnStep w tid D n m a e ∧
      ∀ i, LocalBelow props sm.Node.Guid i → ∀ p, props[i]? = some p →
        ∃ d', d' ≤ d ∧ OwnVisit w tid D n m (GenerateStateMachine w tid d') L props a e i p := by
  obtain ⟨e, he, pe, se, ve⟩ := assemble_own w tid D n m _
    (GenerateStateMachine_own w tid D n m hNone d)
    (GenerateStateMachine_nested w tid d) top a L sm props r b hpre h
  refine ⟨e, he, pe, se, ?_⟩
  intro i hb
  induction hb with
  | inGraph i p hi hs ho =>
    intro p' hp'
    rw [hi] at hp'
    cases hp'
    exact ⟨d, le_refl d, ve i p hi hs ho⟩
  | inNested i j p q hi hs hj hsm hq ho _ ih =>
    intro p' hp'
    rw [hi] at hp'
    cases hp'
    obtain ⟨d₁, hd₁, e₁, r₁, e₂, hcall, p₁, s₁, q₂, a₂, _⟩ := ih q hj
    cases d₁ with
    | zero => simp [GenerateStateMachine] at hcall
    | succ d₂ =>
      rw [GenerateStateMachine_local_nested w tid d₂ e₁ _ _ _ false hq p₁.1] at hcall
      obtain ⟨e', he', _, _, ve'⟩ := assemble_own w tid D n m _
        (GenerateStateMachine_own w tid D n m hNone d₂) (GenerateStateMachine_nested w tid d₂)
        false e₁ L ⟨⟨.SMInstance L, some j⟩, q⟩ props r₁ e₂ p₁ hcall
      have : e₂ = e' := by
        rcases he' with h | h
        · exact h
        · rw [h, Finish_false]
      subst this
      exact ⟨d₂, by omega, OwnVisit.ownBefore s₁ ((ve' i p hi hs ho).ownBehind a₂)⟩

/-- The first pass serves the reference nodes of the instances it creates. -/
theorem states_ownnew (w : World) (tid : Nat) (D : UClass) (n m : Nat) (gsm : GenerateCall)
    (hg : OwnOK w tid D n m gsm) (hn : NestedOK tid gsm) (hnew : OwnNewOK w tid D n m gsm)
    (L : InstId) (sm : FSMStateMachine) (props : List FSMNode) :
    ∀ (l : List (Nat × FSMNode)) (a : Env) (M : TMap FGuid NodePtr) (b : Env)
      (M' : TMap FGuid NodePtr),
      GenerateStateMachine.states (fun e n => gsm e (.SMInstance L) n props false)
        (.SMInstance L) sm l a M = some (b, M') →
      (∀ x ∈ l, props[x.1]? = some x.2) → OwnPre w tid D n m L props a →
      OwnPre w tid D n m L props b ∧ OwnStep w tid D n m a b ∧ OwnNew w tid D n m a b := by
  intro l a M b M' h
  refine states_seg
    (fun l a b => (∀ x ∈ l, props[x.1]? = some x.2) → OwnPre w tid D n m L props a →
      OwnPre w tid D n m L props b ∧ OwnStep w tid D n m a b ∧ OwnNew w tid D n m a b)
    (fun _ => True) (fun e n => gsm e (.SMInstance L) n props false) (.SMInstance L) sm
    ?_ ?_ ?_ ?_ ?_ l a M b M' trivial h
  · intro e _ hp
    exact ⟨hp, OwnStep.ownStepSame w tid D n m e, OwnNew.ownNewSame w tid D n m e⟩
  · intro x s a b c h₁ h₂ hm hp
    obtain ⟨p₁, s₁, v₁⟩ := h₁ (fun y hy => hm y (by rw [List.mem_singleton] at hy; rw [hy]; exact List.mem_cons_self _ _)) hp
    obtain ⟨p₂, s₂, v₂⟩ := h₂ (fun y hy => hm y (List.mem_cons_of_mem _ hy)) p₁
    exact ⟨p₂, s₁.ownStepThen s₂, v₁.ownNewThen v₂ s₁.1 s₂.1⟩
  · intro _ _ _ _ _; trivial
  · intro i p e hnot _ hp
    exact ⟨hp, OwnStep.ownStepSame w tid D n m e, OwnNew.ownNewSame w tid D n m e⟩
  · intro i p e e₁ e₂ _ hsb ho he₁ hsm hnsm hm hp
    have hip : props[i]? = some p := hm (i, p) (List.mem_singleton_self _)
    have f1 : e₁.Instances = e.Instances ∧
        e₁.StateMachinesGeneratingForThread = e.StateMachinesGeneratingForThread ∧
        e₁.InstanceReference = e.InstanceReference ∧ e.Log <+: e₁.Log := by
      rcases he₁ with h | ⟨m, h⟩ <;> rw [h]
      · exact ⟨rfl, rfl, rfl, List.prefix_refl _⟩
      · exact ⟨rfl, rfl, rfl, List.prefix_append _ _⟩
    have p1 : OwnPre w tid D n m L props e₁ := hp.ownPreOfFrame f1.1 f1.2.1 f1.2.2.1 f1.2.2.2
    have s1 : OwnStep w tid D n m e e₁ := OwnStep.ownOfFrame f1.1 f1.2.1 f1.2.2.1 f1.2.2.2
    have n1 : OwnNew w tid D n m e e₁ := OwnNew.ownNewOfInstances f1.1
    have f3 : ∀ e' : Env,
        (if p.bIsRootNode then e'.AddInitialState sm.Ptr ⟨.SMInstance L, some i⟩ else e').Instances =
          e'.Instances ∧
        (if p.bIsRootNode then e'.AddInitialState sm.Ptr ⟨.SMInstance L, some i⟩
          else e').StateMachinesGeneratingForThread = e'.StateMachinesGeneratingForThread ∧
        (if p.bIsRootNode then e'.AddInitialState sm.Ptr ⟨.SMInstance L, some i⟩
          else e').InstanceReference = e'.InstanceReference ∧
        e'.Log <+: (if p.bIsRootNode then e'.AddInitialState sm.Ptr ⟨.SMInstance L, some i⟩
          else e').Log := by
      intro e'
      split <;> exact ⟨rfl, rfl, rfl, List.prefix_refl _⟩
    have s3 := @OwnStep.ownOfFrame w tid D n m _ _ (f3 e₂).1 (f3 e₂).2.1 (f3 e₂).2.2.1
      (f3 e₂).2.2.2
    have n3 : OwnNew w tid D n m e₂
        (if p.bIsRootNode then e₂.AddInitialState sm.Ptr ⟨.SMInstance L, some i⟩ else e₂) :=
      OwnNew.ownNewOfInstances (f3 e₂).1
    by_cases hs : p.Struct.IsChildOfStateMachine = true
    · obtain ⟨r, hcall⟩ := hsm hs
      obtain ⟨l, hl, hpr⟩ := p1.2.2
      have hgen : Genuine w e₁ L ⟨⟨.SMInstance L, some i⟩, p⟩ props :=
        ⟨l, hl, hpr, Or.inr ⟨i, rfl, hip, hs⟩⟩
      obtain ⟨q2, s2, _⟩ := hg e₁ L ⟨⟨.SMInstance L, some i⟩, p⟩ props r e₂ hgen p1.1 p1.2.1 hcall
      have n2 := hnew e₁ L ⟨⟨.SMInstance L, some i⟩, p⟩ props r e₂ hgen p1.1 p1.2.1 hcall
      have c2 := (hn e₁ _ _ _ _ r e₂ p1.1 hcall).1
      have p2 : OwnPre w tid D n m L props e₂ := p1.ownPreOfStep s2 c2 q2
      exact ⟨p2.ownPreOfFrame (f3 e₂).1 (f3 e₂).2.1 (f3 e₂).2.2.1 (f3 e₂).2.2.2,
        (s1.ownStepThen s2).ownStepThen s3,
        (n1.ownNewThen n2 s1.1 s2.1).ownNewThen n3 (s1.ownStepThen s2).1 s3.1⟩
    · have h2 := hnsm (by simpa using hs)
      subst h2
      exact ⟨p1.ownPreOfFrame (f3 e₂).1 (f3 e₂).2.1 (f3 e₂).2.2.1 (f3 e₂).2.2.2,
        s1.ownStepThen s3, n1.ownNewThen n3 s1.1 s3.1⟩

/-- Local assembly, all at once, for a class all of whose reference nodes have reuse
disabled: up to the environment `e` reached before `FinishStateMachineGeneration` the
invariant is kept, the reference nodes of the instances created are served, and the
assembler is called on every state machine record of the graph of the state machine, at any
depth of nesting. -/
theorem assemble_owns (w : World) (tid : Nat) (D : UClass) (n m : Nat)
    (hNone : ∀ (e : Env) (q : NodePtr) (p : FSMNode), e.NodeAt w q = some p →
      e.TargetAt w q = some D → p.bReuseReference = false)
    (d : Nat) (hnew : OwnNewOK w tid D n m (GenerateStateMachine w tid d))
    (top : Bool) (a : Env) (L : InstId) (sm : FSMStateMachine) (props : List FSMNode)
    (r : Bool) (b : Env) (hpre : OwnPre w tid D n m L props a)
    (h : GenerateStateMachine.assemble tid (GenerateStateMachine w tid d) top a (.SMInstance L) sm
      props false = some (r, b)) :
    ∃ e, (b = e ∨ b = (FinishStateMachineGeneration top e tid).2) ∧
      OwnPre w tid D n m L props e ∧ OwnStep w tid D n m a e ∧ OwnNew w tid D n m a e ∧
      ∀ i, LocalBelow props sm.Node.Guid i → ∀ p, props[i]? = some p →
        ∃ d', d' ≤ d ∧ OwnVisit w tid D n m (GenerateStateMachine w tid d') L props a e i p := by
  have hg := GenerateStateMachine_own w tid D n m hNone d
  have hn := GenerateStateMachine_nested w tid d
  unfold GenerateStateMachine.assemble at h
  split at h
  · exact absurd h (by simp)
  · rename_i e₁ M hst
    obtain ⟨p₁, s₁, v₁⟩ := states_own w tid D n m _ hg hn L sm props props.enum a [] e₁ M hst
      (fun x hx => List.mk_mem_enum_iff_getElem?.mp hx) hpre
    obtain ⟨_, _, n₁⟩ := states_ownnew w tid D n m _ hg hn hnew L sm props props.enum a [] e₁ M hst
      (fun x hx => List.mk_mem_enum_iff_getElem?.mp hx) hpre
    have hf := transitions_frame (.SMInstance L) sm M props.enum e₁
    have s₂ : OwnStep w tid D n m e₁ (GenerateStateMachine.transitions (.SMInstance L) sm M
        props.enum e₁).2 := OwnStep.ownOfFrame hf.1 hf.2.1 hf.2.2.1 hf.2.2.2
    have p₂ := p₁.ownPreOfFrame hf.1 hf.2.1 hf.2.2.1 hf.2.2.2
    refine ⟨(GenerateStateMachine.transitions (.SMInstance L) sm M props.enum e₁).2, ?_, p₂,
      s₁.ownStepThen s₂, n₁.ownNewThen (OwnNew.ownNewOfInstances hf.1) s₁.1 s₂.1, ?_⟩
    · split at h
      · rename_i e ht
        simp only [Option.some.injEq, Prod.mk.injEq] at h
        rw [ht]; exact Or.inl h.2.symm
      · rename_i e ht
        simp only [Option.some.injEq, Prod.mk.injEq] at h
        rw [ht]; exact Or.inr h.2.symm
    · intro i hb
      induction hb with
      | inGraph i p hi hs ho =>
        intro p' hp'
        rw [hi] at hp'
        cases hp'
        exact ⟨d, le_refl d,
          (v₁ i p (List.mk_mem_enum_iff_getElem?.mpr hi) hs ho).ownBehind s₂.1⟩
      | inNested i j p q hi hs hj hsm hq ho _ ih =>
        intro p' hp'
        rw [hi] at hp'
        cases hp'
        obtain ⟨d₁, hd₁, e₁', r₁, e₂, hcall, p₁', s₁', q₂, a₂, _⟩ := ih q hj
        cases d₁ with
        | zero => simp [GenerateStateMachine] at hcall
        | succ d₂ =>
          rw [GenerateStateMachine_local_nested w tid d₂ e₁' _ _ _ false hq p₁'.1] at hcall
          obtain ⟨e', he', _, _, ve'⟩ := assemble_own w tid D n m _
            (GenerateStateMachine_own w tid D n m hNone d₂) (GenerateStateMachine_nested w tid d₂)
            false e₁' L ⟨⟨.SMInstance L, some j⟩, q⟩ props r₁ e₂ p₁' hcall
          have : e₂ = e' := by
            rcases he' with h | h
            · exact h
            · rw [h, Finish_false]
          subst this
          exact ⟨d₂, by omega, OwnVisit.ownBefore s₁' ((ve' i p hi hs ho).ownBehind a₂)⟩

/-- The reference branch serves the reference nodes of the instances it creates, and an
instance of `D` it creates is created by the resolution of a node that resolves to `D`. -/
theorem reference_ownnew (w : World) (tid : Nat) (D : UClass) (n m : Nat)
    (hNone : ∀ (e : Env) (q : NodePtr) (p : FSMNode), e.NodeAt w q = some p →
      e.TargetAt w q = some D → p.bReuseReference = false)
    (d : Nat) (hnew : OwnNewOK w tid D n m (GenerateStateMachine w tid d))
    (env : Env) (L : InstId) (sm : FSMStateMachine) (props : List FSMNode) (cls : UClass)
    (r : Bool) (env' : Env) (hgen : Genuine w env L sm props)
    (hC : sm.Node.ClassReference = some cls) (hi : OwnInv w tid D n m env)
    (hfull : GenerateStateMachine w tid (d + 1) env (.SMInstance L) sm props false =
      some (r, env'))
    (h : GenerateStateMachine.reference w tid (GenerateStateMachine w tid d) false env L sm cls
      false = some (r, env')) :
    OwnNew w tid D n m env env' := by
  have hT : env.TargetAt w sm.Ptr = some (GenerateStateMachine.template w env L sm cls false).2.1 :=
    hgen.targetAt cls hC
  obtain ⟨i, hPtr⟩ : ∃ i, sm.Ptr = ⟨.SMInstance L, some i⟩ := by
    obtain ⟨l, hl, hp, hsm⟩ := hgen
    rcases hsm with h | ⟨i, hptr, _, _⟩
    · rw [h] at hC
      simp [USMInstance.RootStateMachine] at hC
    · exact ⟨i, hptr⟩
  have hI₁ := (template_keeps w env L sm cls false).1
  have hX₁ := (template_keeps w env L sm cls false).2
  have hkt : env.KeepsInstances (GenerateStateMachine.template w env L sm cls false).2.2 :=
    Env.KeepsInstances.of_instances hI₁
  have hM := template_threadMap w env L sm cls false
  have hL := (Extends_template w env L sm cls false).2
  have hi₁ : OwnInv w tid D n m (GenerateStateMachine.template w env L sm cls false).2.2 :=
    hi.invOfFrame hI₁ hM hX₁ hL
  have hT₁ := TargetAt_keeps w hkt _ _ hT
  rcases reference_cases w tid _ false env L sm cls false r env' h with
    h1 | ⟨_, _, h2, _⟩ | ⟨env₂, r₁, x, h1, _, hcall, _, he⟩
  · refine OwnNew.ownNewOfInstances ?_
    rcases check_inl_reg tid _ L sm _ r env' h1 with ⟨_, J, _, he⟩ | ⟨_, _, hI, _⟩ | ⟨_, he⟩
    · rw [he]; exact hI₁
    · rw [hI]; exact hI₁
    · rw [he]; exact hI₁
  · cases h2
  · rw [Finish_false] at he
    subst he
    generalize hTdef : (GenerateStateMachine.template w env L sm cls false).2.1 = T at *
    generalize (GenerateStateMachine.template w env L sm cls false).1 = tmpl at *
    generalize hedef : (GenerateStateMachine.template w env L sm cls false).2.2 = e at *
    obtain ⟨_, _, hf, hg', hl₂, hca, hia, hnewI, halen, h01, hsx, hae⟩ :=
      create_own w tid D n m hNone _ (GenerateStateMachine_own w tid D n m hNone d)
        (GenerateStateMachine_extends w tid d) false e L sm T tmpl (env₂.GetContext L) env₂ r₁ x i
        hi₁ hT₁ hPtr h1 hcall
    have hgena : Genuine w ((GenerateStateMachine.increment tid env₂ T).Initializing T tmpl
        (env₂.GetContext L)) env₂.Instances.length
        (USMInstance.RootStateMachine (w.GetClass T) env₂.Instances.length)
        (w.GetClass T).Properties := ⟨_, hnewI, rfl, Or.inl rfl⟩
    have hnx := hnew _ _ _ _ r₁ x hgena hca hia hcall
    have hlenx : (GenerateStateMachine.referenced tid x L sm T env₂.Instances.length).Instances.length =
        x.Instances.length := (SameGraph_referenced tid x L sm T _).2
    intro K k hK hk
    have hKx : K < x.Instances.length := by rw [← hlenx]; exact get?_lt hk
    obtain ⟨k', hk', hck⟩ := hae.1.classOf hKx hk
    by_cases hKI : K = env₂.Instances.length
    · subst hKI
      rw [hg'] at hk
      cases hk
      refine ⟨?_, ?_⟩
      · intro j hb hTK
        have hTKx := TargetAt_back w hae.1 _ (some j) D hKx hTK
        refine hae.2.2.2 _ hTKx ?_
        obtain ⟨p, hp, _⟩ := hb.record
        cases d with
        | zero => simp [GenerateStateMachine] at hcall
        | succ d₀ =>
          rw [GenerateStateMachine_local_nested w tid d₀ _ _ _ _ false rfl hca] at hcall
          obtain ⟨e', he', _, _, ve'⟩ := assemble_ownvisits w tid D n m hNone d₀ false _ _ _ _ r₁ x
            (hgena.ownPre tid D n m hca hia) hcall
          have : x = e' := by
            rcases he' with h | h
            · exact h
            · rw [h, Finish_false]
          subst this
          obtain ⟨d', _, e₁, r₁', e₂, hc', p₁, s₁, _, a₂, own⟩ := ve' j hb p hp
          have hk₁₂ := GenerateStateMachine_keeps w tid d' _ _ _ _ _ _ _ hc'
          obtain ⟨l₁, hl₁, hpr₁⟩ := p₁.2.2
          have hT₂ := TargetAt_back w (hk₁₂.keepThen a₂.1) _ (some j) D (get?_lt hl₁) hTKx
          exact a₂.2.2.2 _ (TargetAt_keeps w hk₁₂ _ _ hT₂) (own hT₂)
      · intro hD
        have hTD : T = D := hD
        refine ⟨d + 1, env, _, L, sm, props, r, hgen, by rw [hT, hTD], hfull,
          Env.KeepsInstances.keepSame _, List.prefix_refl _, Env.KeepsInstances.keepSame _,
          List.prefix_refl _, by rw [hl₂, hI₁], hf, _, hg', hTD, rfl⟩
    · have hKa : ((GenerateStateMachine.increment tid env₂ T).Initializing T tmpl
          (env₂.GetContext L)).Instances.length ≤ K := by
        rw [halen]
        rw [hl₂] at hKI
        rw [← hI₁] at hK
        exact Nat.succ_le_of_lt (Nat.lt_of_le_of_ne hK (Ne.symm hKI))
      obtain ⟨s, c⟩ := hnx K k' hKa hk'
      refine ⟨?_, ?_⟩
      · intro j hb hTK
        have hTKx := TargetAt_back w hae.1 _ (some j) D hKx hTK
        exact hae.2.2.2 _ hTKx (s j (by rw [hck]; exact hb) hTKx)
      · intro hD
        exact (c (hck.trans hD)).between (hkt.keepThen h01.1) (hL.trans h01.2.1) hae.1 hae.2.1

theorem body_ownnew (w : World) (tid : Nat) (D : UClass) (n m : Nat)
    (hNone : ∀ (e : Env) (q : NodePtr) (p : FSMNode), e.NodeAt w q = some p →
      e.TargetAt w q = some D → p.bReuseReference = false)
    (d : Nat) (hnew : OwnNewOK w tid D n m (GenerateStateMachine w tid d)) :
    OwnNewOK w tid D n m (GenerateStateMachine w tid (d + 1)) := by
  intro env L sm props r env' hgen hc hi h
  have hfull := h
  simp only [GenerateStateMachine, GenerateStateMachine.body, hc, Bool.not_true,
    Within_FindOrAddGeneration tid env hc] at h
  cases hcr : sm.Node.ClassReference with
  | none =>
    simp only [hcr] at h
    obtain ⟨e, he, _, _, ne, _⟩ := assemble_owns w tid D n m hNone d hnew false env L sm props r
      env' (hgen.ownPre tid D n m hc hi) h
    have : env' = e := by
      rcases he with h | h
      · exact h
      · rw [h, Finish_false]
    subst this
    exact ne
  | some cls =>
    simp only [hcr] at h
    exact reference_ownnew w tid D n m hNone d hnew env L sm props cls r env' hgen hcr hi hfull h

theorem GenerateStateMachine_ownnew (w : World) (tid : Nat) (D : UClass) (n m : Nat)
    (hNone : ∀ (e : Env) (q : NodePtr) (p : FSMNode), e.NodeAt w q = some p →
      e.TargetAt w q = some D → p.bReuseReference = false) :
    ∀ depth, OwnNewOK w tid D n m (GenerateStateMachine w tid depth) := by
  intro depth
  induction depth with
  | zero => intro env L sm props r env' _ _ _ h; simp [GenerateStateMachine] at h
  | succ d ih => exact body_ownnew w tid D n m hNone d ih

/-- A top-level non-dry-run assembly in a world in which every reference node that resolves
to the class `D` has reuse disabled, from an environment whose instance references are
live: every reference node that lies in the graph of the instance assembled or of an
instance created, and resolves to `D`, is served; no two nodes hold the same new instance of
`D`; and every new instance of `D` was created by the resolution of a node that resolves to
`D`. -/
theorem top_own (w : World) (tid : Nat) (D : UClass)
    (hNone : ∀ (e : Env) (q : NodePtr) (p : FSMNode), e.NodeAt w q = some p →
      e.TargetAt w q = some D → p.bReuseReference = false)
    (depth : Nat) (env : Env) (K : InstId) (inst : USMInstance)
    (hK : env.Instances.get? K = some inst)
    (hTop : TMap.Contains env.StateMachinesGeneratingForThread tid = false)
    (hLive : ∀ q I, TMap.Find env.InstanceReference q = some I → I < env.Instances.length)
    (r : Bool) (env' : Env)
    (h : GenerateStateMachine w tid depth env (.SMInstance K)
      (USMInstance.RootStateMachine (w.GetClass inst.Class) K) (w.GetClass inst.Class).Properties
      false = some (r, env')) :
    (∀ L l i, (L = K ∨ env.Instances.length ≤ L) → env'.Instances.get? L = some l →
      LocalBelow (w.GetClass l.Class).Properties (w.GetClass l.Class).RootStateMachineGuid i →
      env'.TargetAt w ⟨.SMInstance L, some i⟩ = some D →
      env'.Served env.Instances.length env.Log.length D ⟨.SMInstance L, some i⟩) ∧
    (∀ q q' I k, TMap.Find env'.InstanceReference q = some I →
      TMap.Find env'.InstanceReference q' = some I → env.Instances.length ≤ I →
      env'.Instances.get? I = some k → k.Class = D → q = q') ∧
    (∀ I k, env.Instances.length ≤ I → env'.Instances.get? I = some k → k.Class = D →
      CreatedFor w tid D env env' I) := by
  cases depth with
  | zero => simp [GenerateStateMachine] at h
  | succ d =>
    rw [GenerateStateMachine_local w tid d env _ _ _ false rfl, hTop] at h
    have hinv : OwnInv w tid D env.Instances.length env.Log.length
        (env.FindOrAddGeneration tid) := by
      refine ⟨QueueOK_top w env tid hTop, le_refl _, le_refl _, hLive, ?_, ?_⟩
      · intro C J hJ
        rw [Registered_top env tid hTop C] at hJ
        cases hJ
      · intro q q' I k h1 _ hI
        exact absurd (hLive q I h1) (Nat.not_lt.mpr hI)
    have hpre : OwnPre w tid D env.Instances.length env.Log.length K
        (w.GetClass inst.Class).Properties (env.FindOrAddGeneration tid) :=
      ⟨Contains_top env tid, hinv, inst, hK, rfl⟩
    obtain ⟨e, he, pe, se, ne, ve⟩ := assemble_owns w tid D _ _ hNone d
      (GenerateStateMachine_ownnew w tid D _ _ hNone d) _ _ K _ _ r env' hpre h
    have hIe : env'.Instances = e.Instances := by
      rcases he with h | h
      · rw [h]
      · rw [h, Finish_Instances]
    have hXe : env'.InstanceReference = e.InstanceReference := by
      rcases he with h | h
      · rw [h]
      · rw [h, Finish_InstanceReference]
    have hLe : e.Log <+: env'.Log := by
      rcases he with h | h
      · rw [h]
      · rw [h]; exact Finish_Log _ _ _
    have hext : e.Extends env' := ⟨by rw [hIe], hLe⟩
    refine ⟨?_, ?_, ?_⟩
    · intro L l i hL hl hb hT
      rw [hIe] at hl
      have hT' : e.TargetAt w ⟨.SMInstance L, some i⟩ = some D := by
        rw [← TargetAt_congr w hIe]; exact hT
      refine Served_of_extends hext (by rw [hXe]) ?_
      rcases hL with hL | hL
      · subst hL
        obtain ⟨l', hl', hcl, _⟩ := se.1.1 L inst hK
        rw [hl] at hl'
        cases hl'
        rw [hcl] at hb
        obtain ⟨p, hp, _⟩ := hb.record
        obtain ⟨d', _, e₁, r₁, e₂, hc', p₁, _, _, a₂, own⟩ := ve i hb p hp
        have hk₁₂ := GenerateStateMachine_keeps w tid d' _ _ _ _ _ _ _ hc'
        obtain ⟨l₁, hl₁, _⟩ := p₁.2.2
        have hT₁ := TargetAt_back w (hk₁₂.keepThen a₂.1) _ (some i) D (get?_lt hl₁) hT'
        exact a₂.2.2.2 _ (TargetAt_keeps w hk₁₂ _ _ hT₁) (own hT₁)
      · exact (ne L l hL hl).1 i hb hT'
    · intro q q' I k h1 h2 hI hk hc
      rw [hXe] at h1 h2
      rw [hIe] at hk
      exact pe.2.1.2.2.2.2.2 q q' I k h1 h2 hI hk hc
    · intro I k hI hk hc
      rw [hIe] at hk
      exact ((ne I k hI hk).2 hc).between (Env.KeepsInstances.of_instances rfl)
        (List.prefix_refl _) hext.keeps hLe

/-- In a world without templates in which every reference node with class reference `D`
has the reuse flag `b`, every reference node that resolves to `D` has. -/
theorem reuseFlag_of_world (w : World) (D : UClass) (b : Bool)
    (h : ∀ c ∈ w, ∀ p ∈ c.Properties, p.ClassReference.isSome = true →
      p.ReferencedTemplateName = none ∧ (p.ClassReference = some D → p.bReuseReference = b)) :
    ∀ (e : Env) (q : NodePtr) (p : FSMNode), e.NodeAt w q = some p →
      e.TargetAt w q = some D → p.bReuseReference = b := by
  intro e q p hN hT
  obtain ⟨C, i⟩ := q
  cases C with
  | Object o => simp [Env.TargetAt] at hT
  | SMInstance L =>
    cases i with
    | none => simp [Env.NodeAt] at hN
    | some i =>
      obtain ⟨cls, hcls, htg⟩ := target_of_TargetAt w e L i p D hN hT
      have hmem : ∃ cd ∈ w, p ∈ cd.Properties := by
        unfold Env.NodeAt at hN
        simp only at hN
        cases hl : e.Instances.get? L with
        | none => rw [hl] at hN; cases hN
        | some l =>
          rw [hl] at hN
          simp only [Option.some_bind] at hN
          exact GetClass_mem_or w l.Class p (List.getElem?_mem hN)
      obtain ⟨cd, hcd, hp⟩ := hmem
      obtain ⟨ht, hr⟩ := h cd hcd p hp (by rw [hcls]; rfl)
      refine hr ?_
      rw [hcls]
      congr 1
      rw [← htg]
      simp [GenerateStateMachine.target, GenerateStateMachine.template, ht]

end SM
